import Mathlib

/-!
# LoadableByAddress: the large-value indirection lowering pass

A shallow embedding of `lib/IRGen/LoadableByAddress.cpp`: the classifier
`isLargeLoadableType`, the type-transform engine `LargeSILTypeMapper`, and the
rewriting of one function (`runOnFunction`).

Pointers are modelled by identifiers, the memoisation map by an association
list that is threaded through every call, and the assertion failures of the
source by the error value `Abort.assertion`.  The mutually recursive mapper
functions take a fuel argument; running out of fuel is the separate error
`Abort.outOfFuel`, and the theorems below show that a fuel linear in the size
of the type always suffices.
-/

namespace LoadableByAddress

/-! ## Data model: types and function signatures -/

/-- Modelled from the spec: the passing convention of a parameter
(`ParameterConvention` of the SIL library, whose declaration is not part of
the pass).  `Direct_Guaranteed` is the spec's direct-borrowed, and
`Indirect_In_Guaranteed` its indirect-in-borrowed. -/
inductive ParameterConvention where
  | Indirect_In
  | Indirect_In_Constant
  | Indirect_In_Guaranteed
  | Indirect_Inout
  | Indirect_InoutAliasable
  | Direct_Owned
  | Direct_Unowned
  | Direct_Guaranteed
  deriving DecidableEq, Repr

/-- Modelled from the spec: the convention of a result (`ResultConvention`);
`Indirect` is the only one whose storage is an address. -/
inductive ResultConvention where
  | Indirect
  | Owned
  | Unowned
  | UnownedInnerPointer
  | Autoreleased
  deriving DecidableEq, Repr

/-- Modelled from the spec: the language/ABI tag of a signature
(`SILFunctionLanguage`); `C` is the foreign convention. -/
inductive SILFunctionLanguage where
  | Swift
  | C
  deriving DecidableEq, Repr

/-- Modelled from the spec: whether and how a signature is coroutine-shaped
(`SILCoroutineKind`). -/
inductive SILCoroutineKind where
  | None
  | YieldOnce
  | YieldMany
  deriving DecidableEq, Repr

/-- Modelled from the spec: the differentiability flag carried by a parameter
(`SILParameterDifferentiability`). -/
inductive SILParameterDifferentiability where
  | DifferentiableOrNotApplicable
  | NotDifferentiable
  deriving DecidableEq, Repr

/-- Modelled from the spec: the storage category of a lowered type
(`SILValueCategory`): value form or address form. -/
inductive SILValueCategory where
  | Object
  | Address
  deriving DecidableEq, Repr

/-- Modelled from the spec: the kind of declaration behind a nominal type. -/
inductive NominalKind where
  | Struct
  | Enum
  | Class
  | Protocol
  deriving DecidableEq, Repr

/-- A `GenericEnvironment *` of the source: only its identity matters (it is a
component of the cache key and the argument of `mapTypeIntoContext`). -/
abbrev GenericEnvironment := Nat

/-- A non-null `GenericSignature`, identified with the generic environment it
owns (`getGenericEnvironment`). -/
abbrev GenericSignature := Nat

/-- A label of a tuple element; `0` stands for the empty label. -/
abbrev Identifier := Nat

/-- Modelled from the spec: the extended information of a signature
(`SILFunctionType::ExtInfo`): the language tag, and the remaining bits kept
opaque. -/
structure ExtInfo where
  language : SILFunctionLanguage
  bits : Nat
  deriving DecidableEq, Repr

/-- Modelled from the spec: a non-empty substitution map; `genericSig` is the
signature whose parameters it replaces. -/
structure SubstitutionMap where
  genericSig : GenericSignature
  replacements : Nat
  deriving DecidableEq, Repr

mutual
/-- Modelled from the spec: the structural description of a value's shape
(`CanType`): nominal aggregate (a declared struct, enum, class or protocol
type, generic arguments included in `decl`), metatype, optional-wrapped, tuple,
function, and `scalar` for every type without a nominal declaration (builtin,
generic parameter, archetype). -/
inductive CanType where
  | nominal (kind : NominalKind) (decl : Nat)
  | metatype (instanceType : CanType)
  | optional (objectType : CanType)
  | tuple (elements : TupleTypeElts)
  | function (fnType : SILFunctionType)
  | scalar (id : Nat)
/-- The labelled elements of a tuple type, in order. -/
inductive TupleTypeElts where
  | nil
  | cons (type : CanType) (name : Identifier) (rest : TupleTypeElts)
/-- Modelled from the spec: a function signature (`SILFunctionType`), with the
components `SILFunctionType::get` takes in `getNewSILFunctionType`. -/
inductive SILFunctionType where
  | mk (invocationGenericSig : Option GenericSignature) (extInfo : ExtInfo)
      (coroutineKind : SILCoroutineKind) (calleeConvention : ParameterConvention)
      (parameters : ParameterInfos) (yields : YieldInfos) (results : ResultInfos)
      (errorResult : OptionalResultInfo)
      (patternSubs : Option SubstitutionMap) (invocationSubs : Option SubstitutionMap)
      (witnessMethodConformance : Option Nat)
/-- The ordered parameter list of a signature. -/
inductive ParameterInfos where
  | nil
  | cons (type : CanType) (convention : ParameterConvention)
      (differentiability : SILParameterDifferentiability) (rest : ParameterInfos)
/-- The ordered yield list of a signature. -/
inductive YieldInfos where
  | nil
  | cons (type : CanType) (convention : ParameterConvention) (rest : YieldInfos)
/-- The ordered result list of a signature. -/
inductive ResultInfos where
  | nil
  | cons (type : CanType) (convention : ResultConvention) (rest : ResultInfos)
/-- The optional error result of a signature. -/
inductive OptionalResultInfo where
  | none
  | some (type : CanType) (convention : ResultConvention)
end

deriving instance DecidableEq for CanType, TupleTypeElts, SILFunctionType,
  ParameterInfos, YieldInfos, ResultInfos, OptionalResultInfo

instance : Inhabited CanType := ⟨CanType.scalar 0⟩

/-- One element of a tuple type (`TupleTypeElt`). -/
structure TupleTypeElt where
  type : CanType
  name : Identifier
  deriving DecidableEq

/-- One parameter of a signature (`SILParameterInfo`). -/
structure SILParameterInfo where
  type : CanType
  convention : ParameterConvention
  differentiability : SILParameterDifferentiability
  deriving DecidableEq

/-- One yield of a signature (`SILYieldInfo`): a parameter without a
differentiability flag of its own. -/
structure SILYieldInfo where
  type : CanType
  convention : ParameterConvention
  deriving DecidableEq

/-- One result of a signature (`SILResultInfo`). -/
structure SILResultInfo where
  type : CanType
  convention : ResultConvention
  deriving DecidableEq

/-- The elements of a tuple type as a list. -/
def TupleTypeElts.toList : TupleTypeElts → List TupleTypeElt
  | .nil => []
  | .cons t n rest => ⟨t, n⟩ :: rest.toList

/-- The tuple elements built from a list (`TupleType::get`). -/
def TupleTypeElts.ofList : List TupleTypeElt → TupleTypeElts
  | [] => .nil
  | e :: rest => .cons e.type e.name (TupleTypeElts.ofList rest)

/-- The parameters as a list. -/
def ParameterInfos.toList : ParameterInfos → List SILParameterInfo
  | .nil => []
  | .cons t c d rest => ⟨t, c, d⟩ :: rest.toList

/-- The parameter list built from a list. -/
def ParameterInfos.ofList : List SILParameterInfo → ParameterInfos
  | [] => .nil
  | p :: rest => .cons p.type p.convention p.differentiability (ParameterInfos.ofList rest)

/-- The yields as a list. -/
def YieldInfos.toList : YieldInfos → List SILYieldInfo
  | .nil => []
  | .cons t c rest => ⟨t, c⟩ :: rest.toList

/-- The yield list built from a list. -/
def YieldInfos.ofList : List SILYieldInfo → YieldInfos
  | [] => .nil
  | y :: rest => .cons y.type y.convention (YieldInfos.ofList rest)

/-- The results as a list. -/
def ResultInfos.toList : ResultInfos → List SILResultInfo
  | .nil => []
  | .cons t c rest => ⟨t, c⟩ :: rest.toList

/-- The result list built from a list. -/
def ResultInfos.ofList : List SILResultInfo → ResultInfos
  | [] => .nil
  | r :: rest => .cons r.type r.convention (ResultInfos.ofList rest)

/-- The error result as an option. -/
def OptionalResultInfo.toOption : OptionalResultInfo → Option SILResultInfo
  | .none => Option.none
  | .some t c => Option.some ⟨t, c⟩

/-- The error result built from an option. -/
def OptionalResultInfo.ofOption : Option SILResultInfo → OptionalResultInfo
  | Option.none => .none
  | Option.some r => .some r.type r.convention

namespace SILFunctionType

/-- The uniquing constructor `SILFunctionType::get`, with the arguments in the
order `getNewSILFunctionType` passes them. -/
def get (invocationGenericSig : Option GenericSignature) (extInfo : ExtInfo)
    (coroutineKind : SILCoroutineKind) (calleeConvention : ParameterConvention)
    (params : List SILParameterInfo) (yields : List SILYieldInfo)
    (results : List SILResultInfo) (errorResult : Option SILResultInfo)
    (patternSubs invocationSubs : Option SubstitutionMap)
    (witnessMethodConformance : Option Nat) : SILFunctionType :=
  .mk invocationGenericSig extInfo coroutineKind calleeConvention
    (ParameterInfos.ofList params) (YieldInfos.ofList yields) (ResultInfos.ofList results)
    (OptionalResultInfo.ofOption errorResult) patternSubs invocationSubs
    witnessMethodConformance

def getInvocationGenericSignature : SILFunctionType → Option GenericSignature
  | .mk s _ _ _ _ _ _ _ _ _ _ => s

def getExtInfo : SILFunctionType → ExtInfo
  | .mk _ e _ _ _ _ _ _ _ _ _ => e

def getCoroutineKind : SILFunctionType → SILCoroutineKind
  | .mk _ _ k _ _ _ _ _ _ _ _ => k

def getCalleeConvention : SILFunctionType → ParameterConvention
  | .mk _ _ _ c _ _ _ _ _ _ _ => c

/-- The stored parameter list. -/
def parameterInfos : SILFunctionType → ParameterInfos
  | .mk _ _ _ _ ps _ _ _ _ _ _ => ps

/-- The stored yield list. -/
def yieldInfos : SILFunctionType → YieldInfos
  | .mk _ _ _ _ _ ys _ _ _ _ _ => ys

/-- The stored result list. -/
def resultInfos : SILFunctionType → ResultInfos
  | .mk _ _ _ _ _ _ rs _ _ _ _ => rs

def getParameters (fnType : SILFunctionType) : List SILParameterInfo :=
  fnType.parameterInfos.toList

def getYields (fnType : SILFunctionType) : List SILYieldInfo :=
  fnType.yieldInfos.toList

def getResults (fnType : SILFunctionType) : List SILResultInfo :=
  fnType.resultInfos.toList

def getOptionalErrorResult : SILFunctionType → Option SILResultInfo
  | .mk _ _ _ _ _ _ _ e _ _ _ => e.toOption

def getPatternSubstitutions : SILFunctionType → Option SubstitutionMap
  | .mk _ _ _ _ _ _ _ _ p _ _ => p

def getInvocationSubstitutions : SILFunctionType → Option SubstitutionMap
  | .mk _ _ _ _ _ _ _ _ _ i _ => i

def getWitnessMethodConformanceOrInvalid : SILFunctionType → Option Nat
  | .mk _ _ _ _ _ _ _ _ _ _ w => w

/-- The language tag of the signature. -/
def getLanguage (fnType : SILFunctionType) : SILFunctionLanguage :=
  fnType.getExtInfo.language

def getNumResults (fnType : SILFunctionType) : Nat :=
  fnType.getResults.length

/-- Modelled from the spec: the number of results returned directly, that is,
not through an indirect result (`getNumDirectFormalResults`). -/
def getNumDirectFormalResults (fnType : SILFunctionType) : Nat :=
  (fnType.getResults.filter (fun r => decide (r.convention ≠ ResultConvention.Indirect))).length

def isCoroutine (fnType : SILFunctionType) : Bool :=
  decide (fnType.getCoroutineKind ≠ SILCoroutineKind.None)

/-- The signature the types of the function are written against: the pattern
signature when there are pattern substitutions, the invocation signature
otherwise (`getSubstGenericSignature`). -/
def getSubstGenericSignature (fnType : SILFunctionType) : Option GenericSignature :=
  match fnType.getPatternSubstitutions with
  | some subs => some subs.genericSig
  | none => fnType.getInvocationGenericSignature

end SILFunctionType

/-- Line 41: `getSubstGenericEnvironment(CanSILFunctionType)`; a null signature
has the null environment. -/
def getSubstGenericEnvironment (fnTy : SILFunctionType) : Option GenericEnvironment :=
  fnTy.getSubstGenericSignature

/-- Modelled from the spec: a lowered type (`SILType`): a structural type plus
its storage category. -/
structure SILType where
  ast : CanType
  category : SILValueCategory
  deriving DecidableEq

namespace CanType

/-- The declaration behind a nominal or bound generic type
(`getAnyGeneric`), as a truth value: `Optional<T>` is a bound generic enum, and
tuples, functions, metatypes and scalars have none. -/
def getAnyGeneric : CanType → Bool
  | .nominal _ _ => true
  | .optional _ => true
  | _ => false

/-- Whether the type is a class or bound generic class
(`getClassOrBoundGenericClass`). -/
def getClassOrBoundGenericClass : CanType → Bool
  | .nominal .Class _ => true
  | _ => false

end CanType

namespace SILType

def getASTType (t : SILType) : CanType := t.ast

def getCategory (t : SILType) : SILValueCategory := t.category

def isAddress (t : SILType) : Bool := decide (t.category = SILValueCategory.Address)

def isObject (t : SILType) : Bool := decide (t.category = SILValueCategory.Object)

def getPrimitiveType (ast : CanType) (category : SILValueCategory) : SILType :=
  ⟨ast, category⟩

def getPrimitiveObjectType (ast : CanType) : SILType := ⟨ast, .Object⟩

def getPrimitiveAddressType (ast : CanType) : SILType := ⟨ast, .Address⟩

/-- The address form of the type. -/
def getAddressType (t : SILType) : SILType := ⟨t.ast, .Address⟩

/-- The value form of the type. -/
def getObjectType (t : SILType) : SILType := ⟨t.ast, .Object⟩

/-- The wrapped type of an optional, in the category of the optional; null
(`none`) when the type is not an optional. -/
def getOptionalObjectType (t : SILType) : Option SILType :=
  match t.ast with
  | .optional obj => some ⟨obj, t.category⟩
  | _ => none

/-- The optional of the type, in the category of the type. -/
def getOptionalType (t : SILType) : SILType := ⟨.optional t.ast, t.category⟩

/-- The instance of `getAs<TupleType>()`. -/
def getAsTupleType (t : SILType) : Option TupleTypeElts :=
  match t.ast with
  | .tuple elts => some elts
  | _ => none

/-- The instance of `getAs<SILFunctionType>()`. -/
def getAsSILFunctionType (t : SILType) : Option SILFunctionType :=
  match t.ast with
  | .function fn => some fn
  | _ => none

/-- A class type, or a metatype whose instance type is a class. -/
def isClassOrClassMetatype (t : SILType) : Bool :=
  match t.ast with
  | .metatype inst => inst.getClassOrBoundGenericClass
  | ast => ast.getClassOrBoundGenericClass

end SILType

/-- Whether the convention passes the parameter by address
(`isFormalIndirect`). -/
def ParameterConvention.isIndirect : ParameterConvention → Bool
  | .Indirect_In => true
  | .Indirect_In_Constant => true
  | .Indirect_In_Guaranteed => true
  | .Indirect_Inout => true
  | .Indirect_InoutAliasable => true
  | .Direct_Owned => false
  | .Direct_Unowned => false
  | .Direct_Guaranteed => false

namespace SILParameterInfo

def getInterfaceType (p : SILParameterInfo) : CanType := p.type

def getConvention (p : SILParameterInfo) : ParameterConvention := p.convention

def getDifferentiability (p : SILParameterInfo) : SILParameterDifferentiability :=
  p.differentiability

/-- The type of the parameter as the callee sees it: an address for an indirect
convention, a value otherwise. -/
def getSILStorageInterfaceType (p : SILParameterInfo) : SILType :=
  if p.convention.isIndirect then SILType.getPrimitiveAddressType p.type
  else SILType.getPrimitiveObjectType p.type

def getWithInterfaceType (p : SILParameterInfo) (type : CanType) : SILParameterInfo :=
  ⟨type, p.convention, p.differentiability⟩

end SILParameterInfo

namespace SILYieldInfo

/-- A yield read as a parameter (`SILYieldInfo` derives from
`SILParameterInfo` and is built with the default differentiability). -/
def toParameterInfo (y : SILYieldInfo) : SILParameterInfo :=
  ⟨y.type, y.convention, .DifferentiableOrNotApplicable⟩

end SILYieldInfo

namespace SILResultInfo

def getInterfaceType (r : SILResultInfo) : CanType := r.type

def getConvention (r : SILResultInfo) : ResultConvention := r.convention

/-- The type of the result as the callee sees it. -/
def getSILStorageInterfaceType (r : SILResultInfo) : SILType :=
  if r.convention = ResultConvention.Indirect then SILType.getPrimitiveAddressType r.type
  else SILType.getPrimitiveObjectType r.type

end SILResultInfo

/-- The type of all results together (`getAllResultsInterfaceType`): the empty
tuple for no result, the type of a single result, an unlabelled tuple of the
result types otherwise; always in value form. -/
def SILFunctionType.getAllResultsInterfaceType (fnType : SILFunctionType) : SILType :=
  match fnType.getResults with
  | [] => SILType.getPrimitiveObjectType (.tuple .nil)
  | [r] => SILType.getPrimitiveObjectType r.type
  | rs => SILType.getPrimitiveObjectType
      (.tuple (TupleTypeElts.ofList (rs.map (fun r => ⟨r.type, 0⟩))))

/-! ## The external collaborators and the cache -/

/-- The ways a run of the pass is cut short: an assertion of the source that
fails (the compiler aborts), an `llvm_unreachable`, the fuel of the model
running out, or an instruction whose rewriting this model does not cover. -/
inductive Abort where
  | assertion
  | unreachable
  | outOfFuel
  | notModelled
  deriving DecidableEq, Repr

deriving instance DecidableEq for Except

/-- The services the pass consumes and does not implement (spec, external
interfaces), taken as parameters: the ABI-classification oracle
`requiresIndirect` (the answer of
`getTypeInfoForLowered(t).nativeParameterValueSchema(Mod).requiresIndirect()`),
the generic-context resolver (`hasTypeParameter`, `mapTypeIntoContext`), and the
type-lowering query `isTrivial` (a value of the type needs no reference
counting). -/
structure IRGenModule where
  requiresIndirect : CanType → Bool
  hasTypeParameter : CanType → Bool
  mapTypeIntoContext : GenericEnvironment → CanType → CanType
  isTrivial : CanType → Bool

/-- The key of the cache: the generic environment pointer (`none` is the null
pointer) and the original type. -/
abbrev TypeMapKey := Option GenericEnvironment × SILType

/-- The cache `oldToNewTypeMap`, an `llvm::MapVector`: entries in insertion
order. -/
abbrev TypeMap := List (TypeMapKey × SILType)

namespace TypeMap

/-- The lookup `find(key)`. -/
def find : TypeMap → TypeMapKey → Option SILType
  | [], _ => none
  | (k, v) :: rest, key => if k = key then some v else find rest key

/-- The assignment `map[key] = value`: the value of an existing entry is
replaced in place, a new entry is appended. -/
def assign : TypeMap → TypeMapKey → SILType → TypeMap
  | [], key, value => [(key, value)]
  | (k, v) :: rest, key, value =>
      if k = key then (k, value) :: rest else (k, v) :: assign rest key value

end TypeMap

/-- The state of a `LargeSILTypeMapper`: its cache of computed transforms. -/
structure LargeSILTypeMapper where
  oldToNewTypeMap : TypeMap
  deriving DecidableEq

/-- The constructor `LargeSILTypeMapper()`: an empty cache. -/
def LargeSILTypeMapper.new : LargeSILTypeMapper := ⟨[]⟩

/-- A loop that maps every element in order, threading a state. -/
def mapElems {α β σ : Type} (f : α → σ → Except Abort (β × σ)) :
    List α → σ → Except Abort (List β × σ)
  | [], s => .ok ([], s)
  | a :: rest, s =>
    match f a s with
    | .error e => .error e
    | .ok (b, s1) =>
      match mapElems f rest s1 with
      | .error e => .error e
      | .ok (bs, s2) => .ok (b :: bs, s2)

/-- A loop that returns `true` at the first element for which the body does,
threading a state; the later elements are not visited. -/
def anyElem {α σ : Type} (f : α → σ → Except Abort (Bool × σ)) :
    List α → σ → Except Abort (Bool × σ)
  | [], s => .ok (false, s)
  | a :: rest, s =>
    match f a s with
    | .error e => .error e
    | .ok (true, s1) => .ok (true, s1)
    | .ok (false, s1) => anyElem f rest s1

/-! ## The classifier and the type-transform engine -/

/-- Line 104: `isLargeLoadableType`. -/
def isLargeLoadableType (GenericEnv : Option GenericEnvironment) (t : SILType)
    (Mod : IRGenModule) : Except Abort Bool :=
  if t.isAddress || t.isClassOrClassMetatype then
    .ok false
  else
    let canType := t.getASTType
    let mapped : Except Abort CanType :=
      if Mod.hasTypeParameter canType then
        match GenericEnv with
        | none => .error .assertion
        | some env => .ok (Mod.mapTypeIntoContext env canType)
      else .ok canType
    match mapped with
    | .error e => .error e
    | .ok canType =>
      if canType.getAnyGeneric then
        if !t.isObject then .error .assertion
        else if Mod.hasTypeParameter canType then .error .assertion
        else .ok (Mod.requiresIndirect canType)
      else .ok false

/-- Line 126: `modifiableFunction`. -/
def modifiableFunction (funcType : SILFunctionType) : Bool :=
  if funcType.getLanguage = SILFunctionLanguage.C then false else true

/-- Line 141: `isFuncOrOptionalFuncType`. -/
def isFuncOrOptionalFuncType (Ty : SILType) : Bool :=
  let nonOptionalType :=
    match Ty.getOptionalObjectType with
    | some optType => optType
    | none => Ty
  nonOptionalType.getAsSILFunctionType.isSome

/-- Line 175: `getInnerFunctionType`. -/
def getInnerFunctionType (storageType : SILType) : Option SILFunctionType :=
  match storageType.getAsSILFunctionType with
  | some currSILFunctionType => some currSILFunctionType
  | none =>
    match storageType.getOptionalObjectType with
    | some optionalType =>
      match optionalType.getAsSILFunctionType with
      | some currSILFunctionType => some currSILFunctionType
      | none => none
    | none => none

/-- Line 187: `getNonOptionalType`. -/
def getNonOptionalType (t : SILType) : SILType :=
  match t.getOptionalObjectType with
  | some optType => optType
  | none => t

/-- Line 235: `modNonFuncTypeResultType(genEnv, loweredTy, Mod)`. -/
def modNonFuncTypeResultType (genEnv : Option GenericEnvironment)
    (loweredTy : SILFunctionType) (Mod : IRGenModule) : Except Abort Bool :=
  if !modifiableFunction loweredTy then .ok false
  else if loweredTy.getNumResults ≠ 1 then .ok false
  else
    match loweredTy.getResults with
    | [singleResult] =>
      let resultStorageType := singleResult.getSILStorageInterfaceType
      match isLargeLoadableType genEnv resultStorageType Mod with
      | .error e => .error e
      | .ok true => .ok true
      | .ok false => .ok false
    | _ => .error .assertion

namespace LargeSILTypeMapper

mutual
/-- Line 474: `LargeSILTypeMapper::getNewSILType`. -/
def getNewSILType (Mod : IRGenModule) : Nat → Option GenericEnvironment → SILType →
    LargeSILTypeMapper → Except Abort (SILType × LargeSILTypeMapper)
  | 0, _, _, _ => .error .outOfFuel
  | fuel + 1, GenericEnv, storageType, Mapper =>
    -- See if the type is already in the cache:
    let typePair : TypeMapKey := (GenericEnv, storageType)
    match Mapper.oldToNewTypeMap.find typePair with
    | some cached => .ok (cached, Mapper)
    | none =>
      -- the optional is unwrapped as in `getNonOptionalType` (line 187)
      let nonOptionalType := getNonOptionalType storageType
      if nonOptionalType.getAsTupleType.isSome then
        match getNewTupleType Mod fuel GenericEnv nonOptionalType storageType Mapper with
        | .error e => .error e
        | .ok (newSILType, Mapper1) =>
          match isLargeLoadableType GenericEnv newSILType Mod with
          | .error e => .error e
          | .ok large =>
            let typeToRet := if large then newSILType.getAddressType else newSILType
            .ok (typeToRet, ⟨Mapper1.oldToNewTypeMap.assign typePair typeToRet⟩)
      else
        match getNewOptionalFunctionType Mod fuel GenericEnv storageType Mapper with
        | .error e => .error e
        | .ok (newSILType, Mapper1) =>
          if newSILType ≠ storageType then
            .ok (newSILType, ⟨Mapper1.oldToNewTypeMap.assign typePair newSILType⟩)
          else
            match storageType.getAsSILFunctionType with
            | some fnType =>
              match shouldTransformFunctionType Mod fuel GenericEnv fnType Mapper1 with
              | .error e => .error e
              | .ok (true, Mapper2) =>
                match getNewSILFunctionType Mod fuel GenericEnv fnType Mapper2 with
                | .error e => .error e
                | .ok (newFnType, Mapper3) =>
                  let newSILType1 :=
                    SILType.getPrimitiveType (.function newFnType) storageType.getCategory
                  .ok (newSILType1, ⟨Mapper3.oldToNewTypeMap.assign typePair newSILType1⟩)
              | .ok (false, Mapper2) =>
                .ok (newSILType, ⟨Mapper2.oldToNewTypeMap.assign typePair newSILType⟩)
            | none =>
              match isLargeLoadableType GenericEnv storageType Mod with
              | .error e => .error e
              | .ok true =>
                let newSILType1 := storageType.getAddressType
                .ok (newSILType1, ⟨Mapper1.oldToNewTypeMap.assign typePair newSILType1⟩)
              | .ok false =>
                .ok (newSILType, ⟨Mapper1.oldToNewTypeMap.assign typePair newSILType⟩)

/-- Line 446: `LargeSILTypeMapper::getNewTupleType`. -/
def getNewTupleType (Mod : IRGenModule) : Nat → Option GenericEnvironment → SILType →
    SILType → LargeSILTypeMapper → Except Abort (SILType × LargeSILTypeMapper)
  | 0, _, _, _, _ => .error .outOfFuel
  | fuel + 1, GenericEnv, nonOptionalType, storageType, Mapper =>
    match nonOptionalType.getAsTupleType with
    | none => .error .assertion
    | some origType =>
      match mapElems (fun (canElem : TupleTypeElt) M =>
          let elem := SILType.getPrimitiveObjectType canElem.type
          match getNewSILType Mod fuel GenericEnv elem M with
          | .error e => .error e
          | .ok (newElem, M1) =>
            .ok ((⟨newElem.getASTType, canElem.name⟩ : TupleTypeElt), M1))
          origType.toList Mapper with
      | .error e => .error e
      | .ok (newElems, Mapper1) =>
        let canType := CanType.tuple (TupleTypeElts.ofList newElems)
        let newSILType := SILType.getPrimitiveObjectType canType
        let newSILType1 :=
          if nonOptionalType.isAddress then newSILType.getAddressType else newSILType
        let newSILType2 :=
          if nonOptionalType ≠ storageType then SILType.getOptionalType newSILType1
          else newSILType1
        let newSILType3 :=
          if storageType.isAddress then newSILType2.getAddressType else newSILType2
        .ok (newSILType3, Mapper1)

/-- Line 314: `LargeSILTypeMapper::getNewOptionalFunctionType`. -/
def getNewOptionalFunctionType (Mod : IRGenModule) : Nat → Option GenericEnvironment →
    SILType → LargeSILTypeMapper → Except Abort (SILType × LargeSILTypeMapper)
  | 0, _, _, _ => .error .outOfFuel
  | fuel + 1, GenericEnv, storageType, Mapper =>
    match storageType.getOptionalObjectType with
    | some objectType =>
      match objectType.getAsSILFunctionType with
      | some fnType =>
        match shouldTransformFunctionType Mod fuel GenericEnv fnType Mapper with
        | .error e => .error e
        | .ok (true, Mapper1) =>
          match getNewSILFunctionType Mod fuel GenericEnv fnType Mapper1 with
          | .error e => .error e
          | .ok (newFnType, Mapper2) =>
            let newSILType :=
              SILType.getPrimitiveType (.function newFnType) storageType.getCategory
            .ok (SILType.getOptionalType newSILType, Mapper2)
        | .ok (false, Mapper1) => .ok (storageType, Mapper1)
      | none => .ok (storageType, Mapper)
    | none => .ok (storageType, Mapper)

/-- Line 149: `LargeSILTypeMapper::shouldTransformFunctionType`. -/
def shouldTransformFunctionType (Mod : IRGenModule) : Nat → Option GenericEnvironment →
    SILFunctionType → LargeSILTypeMapper → Except Abort (Bool × LargeSILTypeMapper)
  | 0, _, _, _ => .error .outOfFuel
  | fuel + 1, env0, fnType, Mapper =>
    -- Map substituted function types according to their substituted generic
    -- signature.
    let env :=
      if fnType.getPatternSubstitutions.isSome then getSubstGenericEnvironment fnType
      else env0
    match shouldTransformResults Mod fuel env fnType Mapper with
    | .error e => .error e
    | .ok (true, Mapper1) => .ok (true, Mapper1)
    | .ok (false, Mapper1) =>
      match anyElem (fun (param : SILParameterInfo) M =>
          shouldTransformParameter Mod fuel env param M) fnType.getParameters Mapper1 with
      | .error e => .error e
      | .ok (true, Mapper2) => .ok (true, Mapper2)
      | .ok (false, Mapper2) =>
        match anyElem (fun (yield : SILYieldInfo) M =>
            shouldTransformParameter Mod fuel env yield.toParameterInfo M)
            fnType.getYields Mapper2 with
        | .error e => .error e
        | .ok (true, Mapper3) => .ok (true, Mapper3)
        | .ok (false, Mapper3) => .ok (false, Mapper3)

/-- Line 134: `LargeSILTypeMapper::shouldTransformParameter`. -/
def shouldTransformParameter (Mod : IRGenModule) : Nat → Option GenericEnvironment →
    SILParameterInfo → LargeSILTypeMapper → Except Abort (Bool × LargeSILTypeMapper)
  | 0, _, _, _ => .error .outOfFuel
  | fuel + 1, env, param, Mapper =>
    match getNewParameter Mod fuel env param Mapper with
    | .error e => .error e
    | .ok (newParam, Mapper1) => .ok (decide (param ≠ newParam), Mapper1)

/-- Line 195: `LargeSILTypeMapper::containsDifferentFunctionSignature`. -/
def containsDifferentFunctionSignature (Mod : IRGenModule) : Nat →
    Option GenericEnvironment → SILType → SILType → LargeSILTypeMapper →
    Except Abort (Bool × LargeSILTypeMapper)
  | 0, _, _, _, _ => .error .outOfFuel
  | fuel + 1, genEnv, storageType, newSILType, Mapper =>
    if storageType = newSILType then .ok (false, Mapper)
    else if (getInnerFunctionType storageType).isSome then .ok (true, Mapper)
    else
      let nonOptionalType := getNonOptionalType storageType
      match nonOptionalType.getAsTupleType with
      | some origType =>
        anyElem (fun (canElem : TupleTypeElt) M =>
          let elem := SILType.getPrimitiveObjectType canElem.type
          match getNewSILType Mod fuel genEnv elem M with
          | .error e => .error e
          | .ok (newElem, M1) =>
            containsDifferentFunctionSignature Mod fuel genEnv elem newElem M1)
          origType.toList Mapper
      | none => .ok (false, Mapper)

/-- Line 252: `LargeSILTypeMapper::getNewResults`. -/
def getNewResults (Mod : IRGenModule) : Nat → Option GenericEnvironment →
    SILFunctionType → LargeSILTypeMapper →
    Except Abort (List SILResultInfo × LargeSILTypeMapper)
  | 0, _, _, _ => .error .outOfFuel
  | fuel + 1, GenericEnv, fnType, Mapper =>
    -- Get new SIL Function results - same as old results UNLESS:
    -- 1) Function type results might have a different signature
    -- 2) Large loadables are replaced by @out version
    let origResults := fnType.getResults
    mapElems (fun (result : SILResultInfo) M =>
      let currResultTy := result.getSILStorageInterfaceType
      match getNewSILType Mod fuel GenericEnv currResultTy M with
      | .error e => .error e
      | .ok (newSILType, M1) =>
        match modNonFuncTypeResultType GenericEnv fnType Mod with
        | .error e => .error e
        | .ok true =>
          -- Case (2) Above
          .ok ((⟨newSILType.getASTType, ResultConvention.Indirect⟩ : SILResultInfo), M1)
        | .ok false =>
          match containsDifferentFunctionSignature Mod fuel GenericEnv currResultTy
              newSILType M1 with
          | .error e => .error e
          | .ok (true, M2) =>
            -- Case (1) Above
            .ok ((⟨newSILType.getASTType, result.getConvention⟩ : SILResultInfo), M2)
          | .ok (false, M2) => .ok (result, M2))
      origResults Mapper

/-- Line 281: `LargeSILTypeMapper::getNewSILFunctionType`. -/
def getNewSILFunctionType (Mod : IRGenModule) : Nat → Option GenericEnvironment →
    SILFunctionType → LargeSILTypeMapper →
    Except Abort (SILFunctionType × LargeSILTypeMapper)
  | 0, _, _, _ => .error .outOfFuel
  | fuel + 1, env0, fnType, Mapper =>
    if !modifiableFunction fnType then .ok (fnType, Mapper)
    else
      -- Map substituted function types according to their substituted generic
      -- signature.
      let env :=
        if fnType.getPatternSubstitutions.isSome then getSubstGenericEnvironment fnType
        else env0
      match getNewParameters Mod fuel env fnType Mapper with
      | .error e => .error e
      | .ok (newParams, Mapper1) =>
        match getNewYields Mod fuel env fnType Mapper1 with
        | .error e => .error e
        | .ok (newYields, Mapper2) =>
          match getNewResults Mod fuel env fnType Mapper2 with
          | .error e => .error e
          | .ok (newResults, Mapper3) =>
            let newFnType := SILFunctionType.get
              fnType.getInvocationGenericSignature
              fnType.getExtInfo
              fnType.getCoroutineKind
              fnType.getCalleeConvention
              newParams
              newYields
              newResults
              fnType.getOptionalErrorResult
              fnType.getPatternSubstitutions
              fnType.getInvocationSubstitutions
              fnType.getWitnessMethodConformanceOrInvalid
            .ok (newFnType, Mapper3)

/-- Line 332: `LargeSILTypeMapper::shouldTransformResults`. -/
def shouldTransformResults (Mod : IRGenModule) : Nat → Option GenericEnvironment →
    SILFunctionType → LargeSILTypeMapper → Except Abort (Bool × LargeSILTypeMapper)
  | 0, _, _, _ => .error .outOfFuel
  | fuel + 1, genEnv, loweredTy, Mapper =>
    if !modifiableFunction loweredTy then .ok (false, Mapper)
    else if loweredTy.getNumResults ≠ 1 then
      let resultType := loweredTy.getAllResultsInterfaceType
      match getNewSILType Mod fuel genEnv resultType Mapper with
      | .error e => .error e
      | .ok (newResultType, Mapper1) => .ok (decide (resultType ≠ newResultType), Mapper1)
    else
      match loweredTy.getResults with
      | [singleResult] =>
        let resultStorageType := singleResult.getSILStorageInterfaceType
        match getNewSILType Mod fuel genEnv resultStorageType Mapper with
        | .error e => .error e
        | .ok (newResultStorageType, Mapper1) =>
          if resultStorageType ≠ newResultStorageType then .ok (true, Mapper1)
          else
            match modNonFuncTypeResultType genEnv loweredTy Mod with
            | .error e => .error e
            | .ok b => .ok (b, Mapper1)
      | _ => .error .assertion

/-- Line 387: `LargeSILTypeMapper::getNewParameter`. -/
def getNewParameter (Mod : IRGenModule) : Nat → Option GenericEnvironment →
    SILParameterInfo → LargeSILTypeMapper →
    Except Abort (SILParameterInfo × LargeSILTypeMapper)
  | 0, _, _, _ => .error .outOfFuel
  | fuel + 1, env, param, Mapper =>
    let storageType := param.getSILStorageInterfaceType
    match getNewOptionalFunctionType Mod fuel env storageType Mapper with
    | .error e => .error e
    | .ok (newOptFuncType, Mapper1) =>
      if newOptFuncType ≠ storageType then
        .ok (param.getWithInterfaceType newOptFuncType.getASTType, Mapper1)
      else
        match storageType.getAsSILFunctionType with
        | some paramFnType =>
          match shouldTransformFunctionType Mod fuel env paramFnType Mapper1 with
          | .error e => .error e
          | .ok (true, Mapper2) =>
            match getNewSILFunctionType Mod fuel env paramFnType Mapper2 with
            | .error e => .error e
            | .ok (newFnType, Mapper3) =>
              .ok (param.getWithInterfaceType (.function newFnType), Mapper3)
          | .ok (false, Mapper2) => .ok (param, Mapper2)
        | none =>
          match isLargeLoadableType env storageType Mod with
          | .error e => .error e
          | .ok true =>
            if param.getConvention = ParameterConvention.Direct_Guaranteed then
              .ok (⟨storageType.getASTType, ParameterConvention.Indirect_In_Guaranteed,
                    param.getDifferentiability⟩, Mapper1)
            else
              .ok (⟨storageType.getASTType, ParameterConvention.Indirect_In,
                    param.getDifferentiability⟩, Mapper1)
          | .ok false =>
            match getNewSILType Mod fuel env storageType Mapper1 with
            | .error e => .error e
            | .ok (newType, Mapper2) =>
              .ok (⟨newType.getASTType, param.getConvention,
                    param.getDifferentiability⟩, Mapper2)

/-- Line 421: `LargeSILTypeMapper::getNewParameters`. -/
def getNewParameters (Mod : IRGenModule) : Nat → Option GenericEnvironment →
    SILFunctionType → LargeSILTypeMapper →
    Except Abort (List SILParameterInfo × LargeSILTypeMapper)
  | 0, _, _, _ => .error .outOfFuel
  | fuel + 1, env, fnType, Mapper =>
    mapElems (fun (param : SILParameterInfo) M => getNewParameter Mod fuel env param M)
      fnType.getParameters Mapper

/-- Line 433: `LargeSILTypeMapper::getNewYields`. -/
def getNewYields (Mod : IRGenModule) : Nat → Option GenericEnvironment →
    SILFunctionType → LargeSILTypeMapper →
    Except Abort (List SILYieldInfo × LargeSILTypeMapper)
  | 0, _, _, _ => .error .outOfFuel
  | fuel + 1, env, fnType, Mapper =>
    mapElems (fun (oldYield : SILYieldInfo) M =>
      match getNewParameter Mod fuel env oldYield.toParameterInfo M with
      | .error e => .error e
      | .ok (newYieldAsParam, M1) =>
        .ok ((⟨newYieldAsParam.getInterfaceType, newYieldAsParam.getConvention⟩ :
          SILYieldInfo), M1))
      fnType.getYields Mapper
end

/-- Line 219: `LargeSILTypeMapper::newResultsDiffer`. -/
def newResultsDiffer (Mod : IRGenModule) (fuel : Nat)
    (GenericEnv : Option GenericEnvironment) (origResults : List SILResultInfo)
    (Mapper : LargeSILTypeMapper) : Except Abort (Bool × LargeSILTypeMapper) :=
  anyElem (fun (result : SILResultInfo) M =>
    let currResultTy := result.getSILStorageInterfaceType
    match getNewSILType Mod fuel GenericEnv currResultTy M with
    | .error e => .error e
    | .ok (newSILType, M1) =>
      -- We (currently) only care about function signatures
      containsDifferentFunctionSignature Mod fuel GenericEnv currResultTy newSILType M1)
    origResults Mapper

end LargeSILTypeMapper

end LoadableByAddress

namespace LoadableByAddress

/-! ## The intermediate representation

Instructions, block arguments and blocks are identified by numbers (the
pointers of the source); a function carries the next unused number, which a
newly created instruction or argument takes. -/

/-- Modelled from the spec: a value of the intermediate representation
(`SILValue`): a block argument, the result of an instruction, `undef` of a
type, or the result `index` of an instruction with several results (a
`begin_apply`: the values it yields, in order, and then its token). -/
inductive SILValue where
  | argument (id : Nat)
  | instruction (id : Nat)
  | undef (type : SILType)
  | result (id : Nat) (index : Nat)
  deriving DecidableEq

/-- Modelled from the spec: the ownership of a value (`OwnershipKind`). -/
inductive OwnershipKind where
  | None
  | Unowned
  | Owned
  | Guaranteed
  deriving DecidableEq

/-- Modelled from the spec: the qualifier of a `load`. -/
inductive LoadOwnershipQualifier where
  | Unqualified
  | Take
  | Copy
  | Trivial
  deriving DecidableEq

/-- Modelled from the spec: the qualifier of a `store`. -/
inductive StoreOwnershipQualifier where
  | Unqualified
  | Init
  | Assign
  | Trivial
  deriving DecidableEq

/-- Modelled from the spec: the kinds of instruction the pass names
(`SILInstructionKind`), each with the flags the pass sets and the attributes it
reads: a call site carries the signature of its callee after substitution
(`getSubstCalleeType`), which is fixed when the instruction is created; a
`switch_enum` carries the enum elements of its cases, in order, and whether it
has a default destination.  `Other` stands for every kind the pass does not
name. -/
inductive SILInstructionKind where
  | AllocStackInst
  | DeallocStackInst
  | LoadInst (qualifier : LoadOwnershipQualifier)
  | StoreInst (qualifier : StoreOwnershipQualifier)
  | CopyAddrInst (isTake isInitialization : Bool)
  | TupleInst
  | TupleExtractInst
  | TupleElementAddrInst
  | StructExtractInst
  | StructElementAddrInst
  | RefTailAddrInst
  | RefElementAddrInst
  | BeginAccessInst
  | EnumInst
  | UncheckedTakeEnumDataAddrInst
  | UncheckedReinterpretCastInst
  | UncheckedAddrCastInst
  | PointerToAddressInst
  | RetainValueInst
  | ReleaseValueInst
  | RetainValueAddrInst
  | ReleaseValueAddrInst
  | DebugValueInst
  | DebugValueAddrInst
  | DestroyValueInst
  | DestroyAddrInst
  | ApplyInst (substCalleeType : SILFunctionType)
  | TryApplyInst (substCalleeType : SILFunctionType)
  | BeginApplyInst (substCalleeType : SILFunctionType)
  | PartialApplyInst (substCalleeType : SILFunctionType)
  | ClassMethodInst
  | SuperMethodInst
  | ObjCMethodInst
  | ObjCSuperMethodInst
  | WitnessMethodInst
  | SwitchEnumInst (elements : List Nat) (hasDefault : Bool)
  | SwitchEnumAddrInst (elements : List Nat) (hasDefault : Bool)
  | ReturnInst
  | ThrowInst
  | UnwindInst
  | YieldInst
  | BranchInst
  | CondBranchInst
  | UnreachableInst
  | Other (kind : Nat)
  deriving DecidableEq

/-- Modelled from the spec: an instruction (`SILInstruction`): its identity,
kind, operands in order, the type of its result if it has one, for a
terminator the blocks it branches to, and its remaining attributes (field,
enum element, variable information, atomicity), which the pass only copies,
as one number. -/
structure SILInstruction where
  id : Nat
  kind : SILInstructionKind
  operands : List SILValue
  type : Option SILType
  successors : List Nat
  attributes : Nat
  deriving DecidableEq

/-- Modelled from the spec: an argument of a block (`SILArgument`); `decl` is
the name of the declaration it stands for. -/
structure SILArgument where
  id : Nat
  type : SILType
  ownership : OwnershipKind
  decl : Option String
  deriving DecidableEq

/-- Modelled from the spec: a basic block (`SILBasicBlock`); the last
instruction is its terminator. -/
structure SILBasicBlock where
  id : Nat
  arguments : List SILArgument
  instructions : List SILInstruction
  deriving DecidableEq

/-- Modelled from the spec: a function (`SILFunction`); the first block is the
entry block, and a function without blocks is an external declaration. -/
structure SILFunction where
  name : Nat
  loweredType : SILFunctionType
  genericEnvironment : Option GenericEnvironment
  hasOwnership : Bool
  blocks : List SILBasicBlock
  nextId : Nat
  deriving DecidableEq

namespace SILInstruction

/-- Modelled from the spec: `TermInst::isFunctionExiting`: return, throw and
unwind leave the function. -/
def isFunctionExiting (i : SILInstruction) : Bool :=
  match i.kind with
  | .ReturnInst => true
  | .ThrowInst => true
  | .UnwindInst => true
  | _ => false

/-- The instruction with every operand `old` replaced by `new`. -/
def replaceOperand (old new : SILValue) (i : SILInstruction) : SILInstruction :=
  { i with operands := i.operands.map (fun v => if v = old then new else v) }

/-- Modelled from the spec: `FullApplySite::isa`. -/
def isFullApplySite (i : SILInstruction) : Bool :=
  match i.kind with
  | .ApplyInst _ => true
  | .TryApplyInst _ => true
  | .BeginApplyInst _ => true
  | _ => false

/-- Modelled from the spec: `ApplySite::isa`: a full apply site or a
`partial_apply`. -/
def isApplySite (i : SILInstruction) : Bool :=
  match i.kind with
  | .ApplyInst _ => true
  | .TryApplyInst _ => true
  | .BeginApplyInst _ => true
  | .PartialApplyInst _ => true
  | _ => false

/-- Modelled from the spec: `ApplySite::getSubstCalleeType`. -/
def getSubstCalleeType (i : SILInstruction) : Option SILFunctionType :=
  match i.kind with
  | .ApplyInst ty => some ty
  | .TryApplyInst ty => some ty
  | .BeginApplyInst ty => some ty
  | .PartialApplyInst ty => some ty
  | _ => none

/-- Modelled from the spec: `ApplySite::getCallee`: the first operand of a call
site. -/
def getCallee (i : SILInstruction) : Option SILValue := i.operands.head?

/-- Modelled from the spec: `ApplySite::getArgumentOperands`: the operands of a
call site after the callee, with their operand numbers. -/
def getArgumentOperands (i : SILInstruction) : List (Nat × SILValue) :=
  i.operands.enum.tail

/-- Modelled from the spec: whether the instruction is a `MethodInst`. -/
def isMethodInst (i : SILInstruction) : Bool :=
  match i.kind with
  | .ClassMethodInst => true
  | .SuperMethodInst => true
  | .ObjCMethodInst => true
  | .ObjCSuperMethodInst => true
  | .WitnessMethodInst => true
  | _ => false

end SILInstruction

/-- Where a builder inserts: before an instruction, or at the end of a
block. -/
inductive InsertionPoint where
  | before (instruction : Nat)
  | blockEnd (block : Nat)
  deriving DecidableEq

/-- The list with `new` put directly before the instruction `id`. -/
def insertBeforeInList (new : SILInstruction) (id : Nat) :
    List SILInstruction → List SILInstruction
  | [] => []
  | i :: rest =>
    if i.id = id then new :: i :: rest else i :: insertBeforeInList new id rest

namespace SILBasicBlock

/-- Modelled from the spec: `getTerminator`. -/
def getTerminator (BB : SILBasicBlock) : Option SILInstruction := BB.instructions.getLast?

/-- The iterator `begin()` as an insertion point. -/
def beginPoint (BB : SILBasicBlock) : InsertionPoint :=
  match BB.instructions with
  | [] => .blockEnd BB.id
  | i :: _ => .before i.id

/-- The iterator one past the instruction `id` (`++II`) as an insertion point:
before the next instruction, or the end of the block. -/
def pointAfter (BB : SILBasicBlock) (id : Nat) : InsertionPoint :=
  match (BB.instructions.dropWhile (fun i => i.id ≠ id)).tail with
  | [] => .blockEnd BB.id
  | next :: _ => .before next.id

/-- Modelled from the spec: `eraseArgument`. -/
def eraseArgument (BB : SILBasicBlock) (index : Nat) : SILBasicBlock :=
  { BB with arguments := BB.arguments.eraseIdx index }

end SILBasicBlock

namespace SILFunction

def getLoweredFunctionType (F : SILFunction) : SILFunctionType := F.loweredType

def isExternalDeclaration (F : SILFunction) : Bool := F.blocks.isEmpty

def getGenericEnvironment (F : SILFunction) : Option GenericEnvironment :=
  F.genericEnvironment

def getEntryBlock (F : SILFunction) : Option SILBasicBlock := F.blocks.head?

/-- Every instruction of the function, block by block. -/
def allInstructions (F : SILFunction) : List SILInstruction :=
  F.blocks.flatMap (fun BB => BB.instructions)

/-- Every block argument of the function. -/
def allArguments (F : SILFunction) : List SILArgument :=
  F.blocks.flatMap (fun BB => BB.arguments)

def findInstruction (F : SILFunction) (id : Nat) : Option SILInstruction :=
  F.allInstructions.find? (fun i => i.id = id)

def findBlock (F : SILFunction) (id : Nat) : Option SILBasicBlock :=
  F.blocks.find? (fun BB => BB.id = id)

/-- The block an instruction is in (`getParent`). -/
def getParent (F : SILFunction) (id : Nat) : Option SILBasicBlock :=
  F.blocks.find? (fun BB => BB.instructions.any (fun i => i.id = id))

/-- The type of a value (`SILValue::getType`). -/
def getType (F : SILFunction) : SILValue → Option SILType
  | .undef t => some t
  | .argument id => (F.allArguments.find? (fun a => a.id = id)).map (fun a => a.type)
  | .instruction id => (F.findInstruction id).bind (fun i => i.type)
  | .result id index =>
    (F.findInstruction id).bind (fun i =>
      match i.kind with
      | .BeginApplyInst substCalleeType =>
        (substCalleeType.getYields.get? index).map (fun yield =>
          yield.toParameterInfo.getSILStorageInterfaceType)
      | _ => none)

/-- Modelled from the spec: `replaceAllUsesWith`: every operand that is `old`
becomes `new`. -/
def replaceAllUsesWith (F : SILFunction) (old new : SILValue) : SILFunction :=
  { F with blocks := F.blocks.map (fun BB =>
      { BB with instructions := BB.instructions.map (SILInstruction.replaceOperand old new) }) }

/-- Modelled from the spec: the insertion of a builder: the instruction goes
directly before the insertion point. -/
def insert (F : SILFunction) (at_ : InsertionPoint) (new : SILInstruction) : SILFunction :=
  match at_ with
  | .before id =>
    { F with blocks := F.blocks.map (fun BB =>
        { BB with instructions := insertBeforeInList new id BB.instructions }) }
  | .blockEnd b =>
    { F with blocks := F.blocks.map (fun BB =>
        if BB.id = b then { BB with instructions := BB.instructions ++ [new] } else BB) }

/-- Modelled from the spec: a builder call `create...`: a new instruction with
a fresh identity, inserted at the insertion point. -/
def createWith (F : SILFunction) (at_ : InsertionPoint) (kind : SILInstructionKind)
    (operands : List SILValue) (type : Option SILType) (successors : List Nat)
    (attributes : Nat) : SILInstruction × SILFunction :=
  let new : SILInstruction := ⟨F.nextId, kind, operands, type, successors, attributes⟩
  (new, { F.insert at_ new with nextId := F.nextId + 1 })

/-- A builder call for an instruction without successors and attributes. -/
def create (F : SILFunction) (at_ : InsertionPoint) (kind : SILInstructionKind)
    (operands : List SILValue) (type : Option SILType) : SILInstruction × SILFunction :=
  F.createWith at_ kind operands type [] 0

/-- Modelled from the spec: the uses of a value (`getUses`), each as the
identity of the using instruction and the number of the operand that holds the
value, in the order of the instructions. -/
def getUses (F : SILFunction) (value : SILValue) : List (Nat × Nat) :=
  F.allInstructions.flatMap (fun i =>
    (i.operands.enum.filter (fun o => decide (o.2 = value))).map (fun o => (i.id, o.1)))

/-- Modelled from the spec: `Operand::set`: the operand `index` of the
instruction `id` becomes `value`. -/
def setOperand (F : SILFunction) (id index : Nat) (value : SILValue) : SILFunction :=
  { F with blocks := F.blocks.map (fun BB =>
      { BB with instructions := BB.instructions.map (fun i =>
          if i.id = id then { i with operands := i.operands.set index value } else i) }) }

/-- The block an argument belongs to (`SILArgument::getParent`). -/
def getArgumentParent (F : SILFunction) (id : Nat) : Option SILBasicBlock :=
  F.blocks.find? (fun BB => BB.arguments.any (fun a => a.id = id))

/-- The function with the operands of the instruction `id` replaced. -/
def setOperands (F : SILFunction) (id : Nat) (operands : List SILValue) : SILFunction :=
  { F with blocks := F.blocks.map (fun BB =>
      { BB with instructions := BB.instructions.map (fun i =>
          if i.id = id then { i with operands := operands } else i) }) }

/-- Modelled from the spec: `eraseFromParent`. -/
def erase (F : SILFunction) (id : Nat) : SILFunction :=
  { F with blocks := F.blocks.map (fun BB =>
      { BB with instructions := BB.instructions.filter (fun i => i.id ≠ id) }) }

/-- Modelled from the spec: `rewriteLoweredTypeUnsafe`. -/
def rewriteLoweredTypeUnsafe (F : SILFunction) (newType : SILFunctionType) : SILFunction :=
  { F with loweredType := newType }

/-- Modelled from the spec: `SILFunction::getLoweredType(SILType)`: a lowered
type is its own lowering. -/
def getLoweredType (_F : SILFunction) (t : SILType) : SILType := t

end SILFunction

/-- Modelled from the spec: `isPolymorphic`: the signature has an invocation
generic signature. -/
def SILFunctionType.isPolymorphic (fnType : SILFunctionType) : Bool :=
  fnType.getInvocationGenericSignature.isSome

/-- Line 45: `getSubstGenericEnvironment(SILFunction *)`. -/
def SILFunction.getSubstGenericEnvironment (F : SILFunction) :
    Option GenericEnvironment :=
  if F.getLoweredFunctionType.isPolymorphic then F.getGenericEnvironment
  else LoadableByAddress.getSubstGenericEnvironment F.getLoweredFunctionType

/-- Modelled from the spec: `getAllResultsSubstType` for a signature without
substitution maps: the interface type of the results. -/
def SILFunctionType.getAllResultsSubstType (fnType : SILFunctionType) : Except Abort SILType :=
  if fnType.getPatternSubstitutions.isSome || fnType.getInvocationSubstitutions.isSome then
    .error .notModelled
  else .ok fnType.getAllResultsInterfaceType

/-- Modelled from the spec: the blocks in post order of a depth-first walk
from the block `b`, successors in order (`PostOrderFunctionInfo`). -/
def postOrderVisit (F : SILFunction) : Nat → Nat → List Nat × List Nat → List Nat × List Nat
  | 0, _, acc => acc
  | fuel + 1, b, (visited, order) =>
    if b ∈ visited then (visited, order)
    else
      match F.findBlock b with
      | none => (visited, order)
      | some BB =>
        let succs := match BB.getTerminator with
          | some t => t.successors
          | none => []
        let (visited1, order1) :=
          succs.foldl (fun acc s => postOrderVisit F fuel s acc) (b :: visited, order)
        (visited1, order1 ++ [b])

/-- Modelled from the spec: `getReversePostOrder`: the blocks reachable from
the entry block, in reverse post order. -/
def getReversePostOrder (F : SILFunction) : List SILBasicBlock :=
  match F.getEntryBlock with
  | none => []
  | some entry =>
    ((postOrderVisit F (F.blocks.length + 1) entry.id ([], [])).2.reverse).filterMap
      (fun b => F.findBlock b)

end LoadableByAddress

namespace LoadableByAddress

/-! ## The state of the pass over one function -/

/-- Line 519: `StructLoweringState`: the function being rewritten, the mapper,
and the worklists; instructions are held by identity. -/
structure StructLoweringState where
  F : SILFunction
  Mapper : LargeSILTypeMapper
  largeLoadableArgs : List SILValue
  funcSigArgs : List SILValue
  argsToLoadedValueMap : List (SILValue × SILValue)
  applyRetToAllocMap : List (Nat × SILValue)
  allocToApplyRetMap : List (Nat × Nat)
  applies : List Nat
  methodInstsToMod : List Nat
  storeInstsToMod : List Nat
  switchEnumInstsToMod : List Nat
  structExtractInstsToMod : List Nat
  tupleInstsToMod : List Nat
  allocStackInstsToMod : List Nat
  pointerToAddrkInstsToMod : List Nat
  retainInstsToMod : List Nat
  releaseInstsToMod : List Nat
  resultTyInstsToMod : List Nat
  instsToMod : List Nat
  returnInsts : List Nat
  modReturnInsts : List Nat
  modYieldInsts : List Nat
  destroyValueInstsToMod : List Nat
  debugInstsToMod : List Nat
  deriving DecidableEq

/-- The assignment `map[key] = value` of an `llvm::MapVector`. -/
def mapVectorAssign {κ ν : Type} [DecidableEq κ] : List (κ × ν) → κ → ν → List (κ × ν)
  | [], key, value => [(key, value)]
  | (k, v) :: rest, key, value =>
    if k = key then (k, value) :: rest else (k, v) :: mapVectorAssign rest key value

/-- The lookup `map.find(key)` of an `llvm::MapVector`. -/
def mapVectorFind {κ ν : Type} [DecidableEq κ] : List (κ × ν) → κ → Option ν
  | [], _ => none
  | (k, v) :: rest, key => if k = key then some v else mapVectorFind rest key

/-- The insertion of an `llvm::SetVector`: an element already present is not
added again. -/
def setVectorInsert {α : Type} [DecidableEq α] (s : List α) (a : α) : List α :=
  if a ∈ s then s else s ++ [a]

/-- A loop over a list that threads a state and stops at the first abort. -/
def forEachM {α σ : Type} (f : α → σ → Except Abort σ) : List α → σ → Except Abort σ
  | [], s => .ok s
  | a :: rest, s =>
    match f a s with
    | .error e => .error e
    | .ok s1 => forEachM f rest s1

namespace StructLoweringState

/-- Line 570: the constructor: every worklist is empty. -/
def new (F : SILFunction) (Mapper : LargeSILTypeMapper) : StructLoweringState :=
  { F := F, Mapper := Mapper, largeLoadableArgs := [], funcSigArgs := [],
    argsToLoadedValueMap := [], applyRetToAllocMap := [], allocToApplyRetMap := [],
    applies := [], methodInstsToMod := [], storeInstsToMod := [],
    switchEnumInstsToMod := [], structExtractInstsToMod := [], tupleInstsToMod := [],
    allocStackInstsToMod := [], pointerToAddrkInstsToMod := [], retainInstsToMod := [],
    releaseInstsToMod := [], resultTyInstsToMod := [], instsToMod := [],
    returnInsts := [], modReturnInsts := [], modYieldInsts := [],
    destroyValueInstsToMod := [], debugInstsToMod := [] }

/-- Line 574: `StructLoweringState::isLargeLoadableType`. -/
def isLargeLoadableType (_pass : StructLoweringState) (Mod : IRGenModule)
    (fnTy : SILFunctionType) (type : SILType) : Except Abort Bool :=
  LoadableByAddress.isLargeLoadableType (getSubstGenericEnvironment fnTy) type Mod

/-- Line 578: `StructLoweringState::getNewSILType`. -/
def getNewSILType (pass : StructLoweringState) (Mod : IRGenModule) (fuel : Nat)
    (fnTy : SILFunctionType) (type : SILType) :
    Except Abort (SILType × StructLoweringState) :=
  match pass.Mapper.getNewSILType Mod fuel (getSubstGenericEnvironment fnTy) type with
  | .error e => .error e
  | .ok (newType, Mapper1) => .ok (newType, { pass with Mapper := Mapper1 })

/-- Line 582: `StructLoweringState::containsDifferentFunctionSignature`. -/
def containsDifferentFunctionSignature (pass : StructLoweringState) (Mod : IRGenModule)
    (fuel : Nat) (fnTy : SILFunctionType) (type : SILType) :
    Except Abort (Bool × StructLoweringState) :=
  match pass.getNewSILType Mod fuel fnTy type with
  | .error e => .error e
  | .ok (newType, pass1) =>
    match pass1.Mapper.containsDifferentFunctionSignature Mod fuel
        (getSubstGenericEnvironment fnTy) type newType with
    | .error e => .error e
    | .ok (b, Mapper1) => .ok (b, { pass1 with Mapper := Mapper1 })

/-- Line 588: `StructLoweringState::hasLargeLoadableYields`. -/
def hasLargeLoadableYields (pass : StructLoweringState) (Mod : IRGenModule) (fuel : Nat) :
    Except Abort (Bool × StructLoweringState) :=
  let fnType := pass.F.getLoweredFunctionType
  if !fnType.isCoroutine then .ok (false, pass)
  else
    let env := getSubstGenericEnvironment fnType
    match anyElem (fun (yield : SILYieldInfo) M =>
        LargeSILTypeMapper.shouldTransformParameter Mod fuel env yield.toParameterInfo M)
        fnType.getYields pass.Mapper with
    | .error e => .error e
    | .ok (b, Mapper1) => .ok (b, { pass with Mapper := Mapper1 })

end StructLoweringState

/-- Line 354: `modResultType`. -/
def modResultType (F : SILFunction) (Mod : IRGenModule) (fuel : Nat)
    (Mapper : LargeSILTypeMapper) : Except Abort (Bool × LargeSILTypeMapper) :=
  let genEnv := F.getSubstGenericEnvironment
  let loweredTy := F.getLoweredFunctionType
  LargeSILTypeMapper.shouldTransformResults Mod fuel genEnv loweredTy Mapper

/-- Line 362: `shouldTransformYields`. -/
def shouldTransformYields (genEnv : Option GenericEnvironment) (loweredTy : SILFunctionType)
    (Mod : IRGenModule) (fuel : Nat) (Mapper : LargeSILTypeMapper) :
    Except Abort (Bool × LargeSILTypeMapper) :=
  if !modifiableFunction loweredTy then .ok (false, Mapper)
  else
    anyElem (fun (yield : SILYieldInfo) M =>
      let yieldStorageType := yield.toParameterInfo.getSILStorageInterfaceType
      match LargeSILTypeMapper.getNewSILType Mod fuel genEnv yieldStorageType M with
      | .error e => .error e
      | .ok (newYieldStorageType, M1) =>
        .ok (decide (yieldStorageType ≠ newYieldStorageType), M1))
      loweredTy.getYields Mapper

/-- Line 379: `modYieldType`. -/
def modYieldType (F : SILFunction) (Mod : IRGenModule) (fuel : Nat)
    (Mapper : LargeSILTypeMapper) : Except Abort (Bool × LargeSILTypeMapper) :=
  let genEnv := F.getSubstGenericEnvironment
  let loweredTy := F.getLoweredFunctionType
  shouldTransformYields genEnv loweredTy Mod fuel Mapper

/-- Line 998: `modNonFuncTypeResultType(F, Mod)`. -/
def SILFunction.modNonFuncTypeResultType (F : SILFunction) (Mod : IRGenModule) :
    Except Abort Bool :=
  let genEnv := F.getSubstGenericEnvironment
  let loweredTy := F.getLoweredFunctionType
  LoadableByAddress.modNonFuncTypeResultType genEnv loweredTy Mod

/-- Line 858: `LargeSILTypeMapper::shouldConvertBBArg`. -/
def LargeSILTypeMapper.shouldConvertBBArg (Mod : IRGenModule) (fuel : Nat) (F : SILFunction)
    (arg : SILArgument) (Mapper : LargeSILTypeMapper) :
    Except Abort (Bool × LargeSILTypeMapper) :=
  let storageType := arg.type
  let genEnv0 := F.getSubstGenericEnvironment
  let currCanType := storageType.getASTType
  let genEnv :=
    match currCanType with
    | .function funcType =>
      if funcType.isPolymorphic then getSubstGenericEnvironment funcType else genEnv0
    | _ => genEnv0
  match LargeSILTypeMapper.getNewSILType Mod fuel genEnv storageType Mapper with
  | .error e => .error e
  | .ok (newSILType, Mapper1) =>
    -- We (currently) only care about function signatures
    match LargeSILTypeMapper.containsDifferentFunctionSignature Mod fuel genEnv storageType
        newSILType Mapper1 with
    | .error e => .error e
    | .ok (true, Mapper2) => .ok (true, Mapper2)
    | .ok (false, Mapper2) => .ok (false, Mapper2)

/-- Line 749: `modifiableApply`.  The recursion follows the callee while it is
itself a call site; `depth` bounds it: a chain of callees that does not end is
a cycle, on which the source does not return. -/
def modifiableApply (F : SILFunction) : Nat → SILInstruction → Except Abort Bool
  | 0, _ => .error .outOfFuel
  | depth + 1, applySite =>
    match applySite.getSubstCalleeType with
    | none => .error .assertion
    | some substCalleeType =>
      -- If the callee is a method then use the old ABI
      if substCalleeType.getLanguage = SILFunctionLanguage.C then .ok false
      else
        match applySite.getCallee with
        | some (.instruction callee) =>
          match F.findInstruction callee with
          | some site => if site.isApplySite then modifiableApply F depth site else .ok true
          | none => .ok true
        | _ => .ok true

/-- Modelled from the spec: the type of the direct results of a call
(`ApplySite::getType`, that is `getSILResultType` of the callee's conventions
with lowered addresses): the empty tuple for none, the type of a single one,
their tuple otherwise; always in value form. -/
def SILFunctionType.getSILResultType (fnType : SILFunctionType) : SILType :=
  match fnType.getResults.filter (fun r => decide (r.convention ≠ ResultConvention.Indirect))
    with
  | [] => SILType.getPrimitiveObjectType (.tuple .nil)
  | [r] => SILType.getPrimitiveObjectType r.type
  | rs => SILType.getPrimitiveObjectType
      (.tuple (TupleTypeElts.ofList (rs.map (fun r => ⟨r.type, 0⟩))))

/-- Modelled from the spec: the types of the values a `begin_apply` yields
(`getYieldedValues`): the storage types of the yields of its callee. -/
def getYieldedValueTypes (substCalleeType : SILFunctionType) : List SILType :=
  substCalleeType.getYields.map (fun yield => yield.toParameterInfo.getSILStorageInterfaceType)

/-- Modelled from the spec: the destinations of the cases of a `switch_enum`
(`getCase(i).second` for `i` below `getNumCases`): its first successors, one
per enum element; a default destination follows them. -/
def SILInstruction.getCaseDestinations (instr : SILInstruction) : List Nat :=
  match instr.kind with
  | .SwitchEnumInst elements _ => instr.successors.take elements.length
  | .SwitchEnumAddrInst elements _ => instr.successors.take elements.length
  | _ => []

/-- Modelled from the spec: `substInterfaceType` of a signature without
substitution maps: the type itself. -/
def SILFunctionType.substInterfaceType (fnType : SILFunctionType) (t : SILType) :
    Except Abort SILType :=
  if fnType.getPatternSubstitutions.isSome || fnType.getInvocationSubstitutions.isSome then
    .error .notModelled
  else .ok t

mutual
/-- Line 1468: `containsFunctionType`. -/
def containsFunctionType : CanType → Bool
  | .tuple elts => containsFunctionTypeElts elts
  | .optional optionalType => containsFunctionType optionalType
  | .function _ => true
  | _ => false
/-- Line 1470: the loop of `containsFunctionType` over the elements of a
tuple. -/
def containsFunctionTypeElts : TupleTypeElts → Bool
  | .nil => false
  | .cons elt _ rest => containsFunctionType elt || containsFunctionTypeElts rest
end

/-! ## The scan: `LargeValueVisitor` -/

namespace LargeValueVisitor

/-- Line 639: `LargeValueVisitor::mapReturnInstrs`. -/
def mapReturnInstrs (pass : StructLoweringState) : StructLoweringState :=
  (getReversePostOrder pass.F).foldl (fun p BB =>
    match BB.getTerminator with
    | some term =>
      if term.isFunctionExiting then { p with returnInsts := p.returnInsts ++ [term.id] }
      else p
    | none => p) pass

/-- Line 1033: `LargeValueVisitor::visitInstr`. -/
def visitInstr (pass : StructLoweringState) (instr : SILInstruction) : StructLoweringState :=
  instr.operands.foldl (fun p operand =>
    if operand ∈ p.largeLoadableArgs then
      -- will be replaced later by the load / alloc_stack:
      { p with instsToMod := p.instsToMod ++ [instr.id],
               argsToLoadedValueMap := mapVectorAssign p.argsToLoadedValueMap operand operand }
    else p) pass

/-- Line 850: `LargeValueVisitor::visitStoreInst`. -/
def visitStoreInst (pass : StructLoweringState) (instr : SILInstruction) :
    Except Abort StructLoweringState :=
  match instr.operands with
  | src :: _ =>
    if src ∈ pass.largeLoadableArgs then
      .ok { pass with storeInstsToMod := pass.storeInstsToMod ++ [instr.id] }
    else .ok pass
  | [] => .error .assertion

/-- Line 906: `LargeValueVisitor::visitStructExtractInst`. -/
def visitStructExtractInst (pass : StructLoweringState) (instr : SILInstruction) :
    Except Abort StructLoweringState :=
  match instr.operands with
  | operand :: _ =>
    if operand ∈ pass.largeLoadableArgs then
      .ok { pass with structExtractInstsToMod := pass.structExtractInstsToMod ++ [instr.id] }
    else .ok pass
  | [] => .error .assertion

/-- Line 914: `LargeValueVisitor::visitRetainInst`. -/
def visitRetainInst (pass : StructLoweringState) (instr : SILInstruction) :
    StructLoweringState :=
  if instr.operands.any (fun operand => decide (operand ∈ pass.largeLoadableArgs)) then
    { pass with retainInstsToMod := pass.retainInstsToMod ++ [instr.id] }
  else pass

/-- Line 924: `LargeValueVisitor::visitReleaseInst`. -/
def visitReleaseInst (pass : StructLoweringState) (instr : SILInstruction) :
    StructLoweringState :=
  if instr.operands.any (fun operand => decide (operand ∈ pass.largeLoadableArgs)) then
    { pass with releaseInstsToMod := pass.releaseInstsToMod ++ [instr.id] }
  else pass

/-- Line 934: `LargeValueVisitor::visitDebugValueInst`. -/
def visitDebugValueInst (pass : StructLoweringState) (instr : SILInstruction) :
    StructLoweringState :=
  instr.operands.foldl (fun p operand =>
    if operand ∈ p.largeLoadableArgs then
      { p with debugInstsToMod := p.debugInstsToMod ++ [instr.id] }
    else p) pass

/-- Line 943: `LargeValueVisitor::visitDestroyValueInst`. -/
def visitDestroyValueInst (pass : StructLoweringState) (instr : SILInstruction) :
    StructLoweringState :=
  instr.operands.foldl (fun p operand =>
    if operand ∈ p.largeLoadableArgs then
      { p with destroyValueInstsToMod := p.destroyValueInstsToMod ++ [instr.id] }
    else p) pass

/-- Line 952: `LargeValueVisitor::visitResultTyInst`. -/
def visitResultTyInst (pass : StructLoweringState) (Mod : IRGenModule) (fuel : Nat)
    (instr : SILInstruction) : Except Abort StructLoweringState :=
  match instr.type with
  | none => .error .assertion
  | some type =>
    let currSILType := type.getObjectType
    match pass.getNewSILType Mod fuel pass.F.getLoweredFunctionType currSILType with
    | .error e => .error e
    | .ok (newSILType, pass1) =>
      let pass2 :=
        if currSILType ≠ newSILType then
          { pass1 with resultTyInstsToMod := setVectorInsert pass1.resultTyInstsToMod instr.id }
        else pass1
      if instr.kind = SILInstructionKind.StructExtractInst then
        visitStructExtractInst pass2 instr
      else .ok (visitInstr pass2 instr)

/-- Line 967: `LargeValueVisitor::visitTupleInst`. -/
def visitTupleInst (pass : StructLoweringState) (Mod : IRGenModule) (fuel : Nat)
    (instr : SILInstruction) : Except Abort StructLoweringState :=
  match instr.type with
  | none => .error .assertion
  | some type =>
    let currSILType := type.getObjectType
    match getInnerFunctionType currSILType with
    | some funcType =>
      let genEnv0 := pass.F.getSubstGenericEnvironment
      let genEnv :=
        if genEnv0.isNone && funcType.isPolymorphic then getSubstGenericEnvironment funcType
        else genEnv0
      match pass.Mapper.getNewSILFunctionType Mod fuel genEnv funcType with
      | .error e => .error e
      | .ok (newSILFunctionType, Mapper1) =>
        let pass1 := { pass with Mapper := Mapper1 }
        let pass2 :=
          if funcType ≠ newSILFunctionType then
            { pass1 with tupleInstsToMod := pass1.tupleInstsToMod ++ [instr.id] }
          else pass1
        .ok (visitInstr pass2 instr)
    | none => .ok (visitInstr pass instr)

/-- Line 983: `LargeValueVisitor::visitAllocStackInst`. -/
def visitAllocStackInst (pass : StructLoweringState) (Mod : IRGenModule) (fuel : Nat)
    (instr : SILInstruction) : Except Abort StructLoweringState :=
  match instr.type with
  | none => .error .assertion
  | some type =>
    let currSILType := type.getObjectType
    match pass.containsDifferentFunctionSignature Mod fuel pass.F.getLoweredFunctionType
        currSILType with
    | .error e => .error e
    | .ok (true, pass1) =>
      .ok { pass1 with allocStackInstsToMod := pass1.allocStackInstsToMod ++ [instr.id] }
    | .ok (false, pass1) => .ok pass1

/-- Line 991: `LargeValueVisitor::visitPointerToAddressInst`. -/
def visitPointerToAddressInst (pass : StructLoweringState) (instr : SILInstruction) :
    Except Abort StructLoweringState :=
  match instr.type with
  | none => .error .assertion
  | some type =>
    let currSILType := type.getObjectType
    if (getInnerFunctionType currSILType).isSome then
      .ok { pass with pointerToAddrkInstsToMod := pass.pointerToAddrkInstsToMod ++ [instr.id] }
    else .ok pass

/-- Line 1004: `LargeValueVisitor::visitReturnInst`. -/
def visitReturnInst (pass : StructLoweringState) (Mod : IRGenModule) (fuel : Nat)
    (instr : SILInstruction) : Except Abort StructLoweringState :=
  match modResultType pass.F Mod fuel pass.Mapper with
  | .error e => .error e
  | .ok (false, Mapper1) => .ok (visitInstr { pass with Mapper := Mapper1 } instr)
  | .ok (true, Mapper1) =>
    let pass1 := { pass with Mapper := Mapper1 }
    match pass1.F.modNonFuncTypeResultType Mod with
    | .error e => .error e
    | .ok true => .ok { pass1 with modReturnInsts := pass1.modReturnInsts ++ [instr.id] }
    | .ok false => .ok pass1 -- else: function signature return instructions remain as-is

/-- Line 1012: `LargeValueVisitor::visitYieldInst`. -/
def visitYieldInst (pass : StructLoweringState) (Mod : IRGenModule) (fuel : Nat)
    (instr : SILInstruction) : Except Abort StructLoweringState :=
  match modYieldType pass.F Mod fuel pass.Mapper with
  | .error e => .error e
  | .ok (false, Mapper1) => .ok (visitInstr { pass with Mapper := Mapper1 } instr)
  | .ok (true, Mapper1) =>
    .ok { pass with Mapper := Mapper1, modYieldInsts := pass.modYieldInsts ++ [instr.id] }

/-- Line 1020: `LargeValueVisitor::visitDeallocInst`. -/
def visitDeallocInst (pass : StructLoweringState) (instr : SILInstruction) :
    Except Abort StructLoweringState :=
  match instr.operands with
  | opInstr :: _ =>
    if opInstr ∈ pass.largeLoadableArgs then
      match opInstr with
      | .instruction id =>
        match pass.F.findInstruction id with
        | some opAsInstr =>
          if opAsInstr.kind ≠ SILInstructionKind.AllocStackInst then .error .assertion
          else if (mapVectorFind pass.allocToApplyRetMap id).isNone then .error .assertion
          else .ok pass
        | none => .error .assertion
      | _ => .error .assertion
    else .ok pass
  | [] => .error .assertion

/-- Line 761: `LargeValueVisitor::visitApply`. -/
def visitApply (pass : StructLoweringState) (Mod : IRGenModule) (fuel : Nat)
    (applySite : SILInstruction) : Except Abort StructLoweringState :=
  match modifiableApply pass.F fuel applySite, applySite.getSubstCalleeType with
  | .error e, _ => .error e
  | .ok _, none => .error .assertion
  | .ok false, some _ => .ok (visitInstr pass applySite)
  | .ok true, some substCalleeType =>
    match anyElem (fun (operand : Nat × SILValue) (p : StructLoweringState) =>
        let currOperand := operand.2
        match p.F.getType currOperand with
        | none => .error .assertion
        | some silType =>
          match p.getNewSILType Mod fuel substCalleeType silType with
          | .error e => .error e
          | .ok (newSilType, p1) =>
            .ok (decide (silType ≠ newSilType) || decide (currOperand ∈ p1.largeLoadableArgs)
              || decide (currOperand ∈ p1.funcSigArgs), p1))
        applySite.getArgumentOperands pass with
    | .error e => .error e
    | .ok (true, pass1) => .ok { pass1 with applies := pass1.applies ++ [applySite.id] }
    | .ok (false, pass1) =>
      match applySite.kind with
      | .BeginApplyInst _ =>
        -- For coroutines, we need to consider the yields, not the direct result
        -- (which should always be void).
        match anyElem (fun (oldYieldType : SILType) (p : StructLoweringState) =>
            match p.getNewSILType Mod fuel substCalleeType oldYieldType with
            | .error e => .error e
            | .ok (newYieldType, p1) => .ok (decide (oldYieldType ≠ newYieldType), p1))
            (getYieldedValueTypes substCalleeType) pass1 with
        | .error e => .error e
        | .ok (true, pass2) => .ok { pass2 with applies := pass2.applies ++ [applySite.id] }
        | .ok (false, pass2) => .ok pass2
      | _ =>
        let currType := substCalleeType.getSILResultType
        match pass1.getNewSILType Mod fuel pass1.F.getLoweredFunctionType currType with
        | .error e => .error e
        | .ok (newType, pass2) =>
          -- We only care about function type results
          match pass2.isLargeLoadableType Mod pass2.F.getLoweredFunctionType currType with
          | .error e => .error e
          | .ok large =>
            if !large && decide (currType ≠ newType) then
              .ok { pass2 with applies := pass2.applies ++ [applySite.id] }
            else
              -- Check callee - need new generic env:
              let origSILFunctionType := substCalleeType
              let genEnvCallee : Option GenericEnvironment := none
              match pass2.Mapper.getNewSILFunctionType Mod fuel genEnvCallee
                  origSILFunctionType with
              | .error e => .error e
              | .ok (newSILFunctionType, Mapper1) =>
                let pass3 := { pass2 with Mapper := Mapper1 }
                if origSILFunctionType ≠ newSILFunctionType then
                  .ok { pass3 with applies := pass3.applies ++ [applySite.id] }
                else .ok pass3

/-- Line 815: `isMethodInstUnmodifiable`. -/
def isMethodInstUnmodifiable (F : SILFunction) (instr : SILInstruction) : Bool :=
  (F.getUses (.instruction instr.id)).any (fun use =>
    match F.findInstruction use.1 with
    | some user =>
      match user.getSubstCalleeType with
      | some substCalleeType => decide (substCalleeType.getLanguage = SILFunctionLanguage.C)
      | none => false
    | none => false)

/-- Line 828: `LargeValueVisitor::visitMethodInst`. -/
def visitMethodInst (pass : StructLoweringState) (Mod : IRGenModule) (fuel : Nat)
    (instr : SILInstruction) : Except Abort StructLoweringState :=
  if isMethodInstUnmodifiable pass.F instr then
    -- Do not change the method!
    .ok (visitInstr pass instr)
  else
    match instr.type.bind SILType.getAsSILFunctionType with
    | none => .error .assertion
    | some fnType =>
      let genEnv : Option GenericEnvironment :=
        if fnType.isPolymorphic then getSubstGenericEnvironment fnType else none
      match pass.Mapper.shouldTransformFunctionType Mod fuel genEnv fnType with
      | .error e => .error e
      | .ok (true, Mapper1) =>
        .ok { pass with Mapper := Mapper1,
                        methodInstsToMod := pass.methodInstsToMod ++ [instr.id] }
      | .ok (false, Mapper1) =>
        match Mapper1.newResultsDiffer Mod fuel genEnv fnType.getResults with
        | .error e => .error e
        | .ok (true, Mapper2) =>
          .ok { pass with Mapper := Mapper2,
                          methodInstsToMod := pass.methodInstsToMod ++ [instr.id] }
        | .ok (false, Mapper2) => .ok { pass with Mapper := Mapper2 }

/-- Line 878: `LargeValueVisitor::visitSwitchEnumInst`. -/
def visitSwitchEnumInst (pass : StructLoweringState) (Mod : IRGenModule) (fuel : Nat)
    (instr : SILInstruction) : Except Abort StructLoweringState :=
  match instr.operands with
  | [] => .error .assertion
  | operand :: _ =>
    if operand ∈ pass.largeLoadableArgs then
      .ok { pass with switchEnumInstsToMod := pass.switchEnumInstsToMod ++ [instr.id] }
    else
      -- In case we converted the target BB type of this enum,
      -- to an address based one - need to modify
      match anyElem (fun (currBB : Nat) (p : StructLoweringState) =>
          match p.F.findBlock currBB with
          | none => .error .assertion
          | some BB =>
            anyElem (fun (arg : SILArgument) (p1 : StructLoweringState) =>
              match p1.Mapper.shouldConvertBBArg Mod fuel p1.F arg with
              | .error e => .error e
              | .ok (false, Mapper1) => .ok (false, { p1 with Mapper := Mapper1 })
              | .ok (true, Mapper1) =>
                let p2 := { p1 with Mapper := Mapper1 }
                let storageType := arg.type
                match p2.getNewSILType Mod fuel p2.F.getLoweredFunctionType storageType with
                | .error e => .error e
                | .ok (newSILType, p3) => .ok (newSILType.isAddress, p3))
              BB.arguments p)
          instr.getCaseDestinations pass with
      | .error e => .error e
      | .ok (true, pass1) =>
        .ok { pass1 with switchEnumInstsToMod := pass1.switchEnumInstsToMod ++ [instr.id] }
      | .ok (false, pass1) => .ok pass1

/-- Line 646: `LargeValueVisitor::mapValueStorage`, the body of the loop: the
switch over the kind of one instruction. -/
def visitInstruction (pass : StructLoweringState) (Mod : IRGenModule) (fuel : Nat)
    (currIns : SILInstruction) : Except Abort StructLoweringState :=
  match currIns.kind with
  | .ApplyInst _ => visitApply pass Mod fuel currIns
  | .TryApplyInst _ => visitApply pass Mod fuel currIns
  | .BeginApplyInst _ => visitApply pass Mod fuel currIns
  | .PartialApplyInst _ => visitApply pass Mod fuel currIns
  | .ClassMethodInst => visitMethodInst pass Mod fuel currIns
  | .SuperMethodInst => visitMethodInst pass Mod fuel currIns
  | .ObjCMethodInst => visitMethodInst pass Mod fuel currIns
  | .ObjCSuperMethodInst => visitMethodInst pass Mod fuel currIns
  | .WitnessMethodInst => visitMethodInst pass Mod fuel currIns
  | .StructExtractInst => visitResultTyInst pass Mod fuel currIns
  | .StructElementAddrInst => visitResultTyInst pass Mod fuel currIns
  | .RefTailAddrInst => visitResultTyInst pass Mod fuel currIns
  | .RefElementAddrInst => visitResultTyInst pass Mod fuel currIns
  | .BeginAccessInst => visitResultTyInst pass Mod fuel currIns
  | .EnumInst => visitResultTyInst pass Mod fuel currIns
  | .StoreInst _ => visitStoreInst pass currIns
  | .RetainValueInst => .ok (visitRetainInst pass currIns)
  | .ReleaseValueInst => .ok (visitReleaseInst pass currIns)
  | .DebugValueInst => .ok (visitDebugValueInst pass currIns)
  | .DestroyValueInst => .ok (visitDestroyValueInst pass currIns)
  | .SwitchEnumInst _ _ => visitSwitchEnumInst pass Mod fuel currIns
  | .TupleElementAddrInst => visitTupleInst pass Mod fuel currIns
  | .TupleExtractInst => visitTupleInst pass Mod fuel currIns
  | .AllocStackInst => visitAllocStackInst pass Mod fuel currIns
  | .PointerToAddressInst => visitPointerToAddressInst pass currIns
  | .ReturnInst => visitReturnInst pass Mod fuel currIns
  | .YieldInst => visitYieldInst pass Mod fuel currIns
  | .DeallocStackInst => visitDeallocInst pass currIns
  | _ => .ok (visitInstr pass currIns)

/-- Line 646: `LargeValueVisitor::mapValueStorage`. -/
def mapValueStorage (pass : StructLoweringState) (Mod : IRGenModule) (fuel : Nat) :
    Except Abort StructLoweringState :=
  forEachM (fun (BB : SILBasicBlock) p =>
    forEachM (fun (currIns : SILInstruction) p1 => visitInstruction p1 Mod fuel currIns)
      BB.instructions p)
    (getReversePostOrder pass.F) pass

end LargeValueVisitor


/-! ## Storage allocation: `LoadableStorageAllocation` -/

/-- The block with the argument at `index` replaced. -/
def SILBasicBlock.setArgument (BB : SILBasicBlock) (index : Nat) (arg : SILArgument) :
    SILBasicBlock :=
  { BB with arguments := BB.arguments.set index arg }

/-- The function with the block `id` replaced by its image under `f`. -/
def SILFunction.updateBlock (F : SILFunction) (id : Nat)
    (f : SILBasicBlock → SILBasicBlock) : SILFunction :=
  { F with blocks := F.blocks.map (fun BB => if BB.id = id then f BB else BB) }

/-- Line 1116: `createOutlinedCopyCall`: a `copy_addr [take] src to
[initialization] tgt` at the insertion point. -/
def createOutlinedCopyCall (F : SILFunction) (copyBuilder : InsertionPoint)
    (src tgt : SILValue) : SILInstruction × SILFunction :=
  F.create copyBuilder (.CopyAddrInst true true) [src, tgt] none

/-- Line 1096: `getStoreInitOwnership`. -/
def getStoreInitOwnership (pass : StructLoweringState) (Mod : IRGenModule)
    (type : SILType) : StoreOwnershipQualifier :=
  if !pass.F.hasOwnership then StoreOwnershipQualifier.Unqualified
  else if Mod.isTrivial type.getASTType then StoreOwnershipQualifier.Trivial
  else StoreOwnershipQualifier.Init

namespace LoadableStorageAllocation

/-- Line 1376: `LoadableStorageAllocation::replaceArgType`, for the argument at
`index` of the block `block`: a new argument of the new type takes its
place, and every use of the old argument becomes a use of the new one. -/
def replaceArgType (pass : StructLoweringState) (block index : Nat) (arg : SILArgument)
    (newSILType : SILType) : Except Abort (SILArgument × StructLoweringState) :=
  -- Make sure that this is an argument we want to replace.
  if SILValue.argument arg.id ∈ pass.largeLoadableArgs then .error .assertion
  else
    let newArg : SILArgument := ⟨pass.F.nextId, newSILType, OwnershipKind.None, arg.decl⟩
    let F1 := { pass.F with nextId := pass.F.nextId + 1 }
    let F2 := F1.updateBlock block (fun BB => BB.setArgument index newArg)
    let F3 := F2.replaceAllUsesWith (.argument arg.id) (.argument newArg.id)
    .ok (newArg, { pass with F := F3 })

/-- Line 1399: `LoadableStorageAllocation::insertIndirectReturnArgs`. -/
def insertIndirectReturnArgs (pass : StructLoweringState) (Mod : IRGenModule) (fuel : Nat) :
    Except Abort StructLoweringState :=
  let genEnv := pass.F.getSubstGenericEnvironment
  let loweredTy := pass.F.getLoweredFunctionType
  match loweredTy.getAllResultsSubstType with
  | .error e => .error e
  | .ok resultStorageType0 =>
    let canType0 := resultStorageType0.getASTType
    let mapped : Except Abort CanType :=
      if Mod.hasTypeParameter canType0 then
        match genEnv with
        | none => .error .assertion
        | some env => .ok (Mod.mapTypeIntoContext env canType0)
      else .ok canType0
    match mapped with
    | .error e => .error e
    | .ok canType =>
      let resultStorageType := SILType.getPrimitiveObjectType canType
      match pass.getNewSILType Mod fuel loweredTy resultStorageType with
      | .error e => .error e
      | .ok (newType, pass1) =>
        let newResultStorageType := pass1.F.getLoweredType newType
        match pass1.F.getEntryBlock with
        | none => .error .assertion
        | some entry =>
          let var : SILArgument :=
            ⟨pass1.F.nextId, newResultStorageType.getAddressType, OwnershipKind.None,
              some "$return_value"⟩
          let F1 := { pass1.F with nextId := pass1.F.nextId + 1 }
          let F2 := F1.updateBlock entry.id
            (fun BB => { BB with arguments := var :: BB.arguments })
          .ok { pass1 with F := F2 }

/-- Line 1424: `LoadableStorageAllocation::convertIndirectFunctionArgs`. -/
def convertIndirectFunctionArgs (pass : StructLoweringState) (Mod : IRGenModule)
    (fuel : Nat) : Except Abort StructLoweringState :=
  match pass.F.getEntryBlock with
  | none => .error .assertion
  | some entry =>
    match forEachM (fun (indexed : Nat × SILArgument) (p : StructLoweringState) =>
        let arg := indexed.2
        let storageType := arg.type
        match p.getNewSILType Mod fuel p.F.getLoweredFunctionType storageType with
        | .error e => .error e
        | .ok (newSILType, p1) =>
          if newSILType ≠ storageType then
            let ownership := arg.ownership
            match replaceArgType p1 entry.id indexed.1 arg newSILType with
            | .error e => .error e
            | .ok (newArg, p2) =>
              match p2.isLargeLoadableType Mod p2.F.getLoweredFunctionType storageType with
              | .error e => .error e
              | .ok true =>
                -- Add to largeLoadableArgs if and only if it wasn't a modified function
                -- signature arg
                let newArgs := p2.largeLoadableArgs ++ [.argument newArg.id]
                .ok { p2 with largeLoadableArgs := newArgs }
              | .ok false =>
                let F1 := p2.F.updateBlock entry.id (fun BB =>
                  BB.setArgument indexed.1 { newArg with ownership := ownership })
                .ok { p2 with F := F1, funcSigArgs := p2.funcSigArgs ++ [.argument newArg.id] }
          else .ok p1)
        entry.arguments.enum pass with
    | .error e => .error e
    | .ok pass1 =>
      -- Convert the result type to indirect if necessary:
      match pass1.F.modNonFuncTypeResultType Mod with
      | .error e => .error e
      | .ok true => insertIndirectReturnArgs pass1 Mod fuel
      | .ok false => .ok pass1

/-- Line 1537:
`LoadableStorageAllocation::convertIndirectFunctionPointerArgsForUnmodifiable`. -/
def convertIndirectFunctionPointerArgsForUnmodifiable (pass : StructLoweringState)
    (Mod : IRGenModule) (fuel : Nat) : Except Abort StructLoweringState :=
  match pass.F.getEntryBlock with
  | none => .error .assertion
  | some entry =>
    let argBuilder := entry.beginPoint
    forEachM (fun (arg : SILArgument) (p : StructLoweringState) =>
      let storageType := arg.type
      match p.getNewSILType Mod fuel p.F.getLoweredFunctionType storageType with
      | .error e => .error e
      | .ok (newSILType, p1) =>
        match p1.containsDifferentFunctionSignature Mod fuel p1.F.getLoweredFunctionType
            storageType with
        | .error e => .error e
        | .ok (true, p2) =>
          let (castInstr, F1) := p2.F.create argBuilder .UncheckedReinterpretCastInst
            [.argument arg.id] (some newSILType)
          let F2 := F1.replaceAllUsesWith (.argument arg.id) (.instruction castInstr.id)
          -- castInstr->setOperand(0, arg)
          let F3 := F2.setOperands castInstr.id [.argument arg.id]
          .ok { p2 with F := F3 }
        | .ok (false, p2) => .ok p2)
      entry.arguments pass

/-- Line 1453: `convertBBArgType`. -/
def convertBBArgType (F : SILFunction) (block index : Nat) (newSILType : SILType)
    (arg : SILArgument) : SILFunction :=
  let newArg : SILArgument := ⟨F.nextId, newSILType, arg.ownership, arg.decl⟩
  let F1 := { F with nextId := F.nextId + 1 }
  let F2 := F1.updateBlock block (fun BB => BB.setArgument index newArg)
  F2.replaceAllUsesWith (.argument arg.id) (.argument newArg.id)

/-- Line 1657: `LoadableStorageAllocation::allocateForApply`. -/
def allocateForApply (pass : StructLoweringState) (apply : SILInstruction) (type : SILType) :
    Except Abort (SILInstruction × StructLoweringState) :=
  match pass.F.getEntryBlock with
  | none => .error .assertion
  | some entry =>
    let allocBuilder := entry.beginPoint
    let (allocInstr, F1) := pass.F.create allocBuilder .AllocStackInst []
      (some type.getAddressType)
    let newArgs := pass.largeLoadableArgs ++ [.instruction allocInstr.id]
    let newAllocToApply := mapVectorAssign pass.allocToApplyRetMap allocInstr.id apply.id
    let newApplyToAlloc :=
      mapVectorAssign pass.applyRetToAllocMap apply.id (.instruction allocInstr.id)
    let pass1 := { pass with F := F1, largeLoadableArgs := newArgs,
                             allocToApplyRetMap := newAllocToApply,
                             applyRetToAllocMap := newApplyToAlloc }
    .ok (allocInstr, pass1.returnInsts.foldl (fun p termInst =>
      let created := p.F.create (.before termInst) .DeallocStackInst
        [.instruction allocInstr.id] none
      { p with F := created.2 }) pass1)

/-- Line 1482: `LoadableStorageAllocation::convertApplyResults`.  The loop runs
over the instructions the function has when it starts: the instructions it
adds are no call sites. -/
def convertApplyResults (pass : StructLoweringState) (Mod : IRGenModule) (fuel : Nat) :
    Except Abort StructLoweringState :=
  forEachM (fun (id : Nat) (p : StructLoweringState) =>
    match p.F.findInstruction id with
    | none => .error .unreachable
    | some currIns =>
      if !currIns.isFullApplySite then .ok p
      else
        match modifiableApply p.F fuel currIns, currIns.getSubstCalleeType with
        | .error e, _ => .error e
        | .ok _, none => .error .assertion
        | .ok false, some _ => .ok p
        | .ok true, some origSILFunctionType =>
          let genEnv := getSubstGenericEnvironment origSILFunctionType
          match p.Mapper.shouldTransformResults Mod fuel genEnv origSILFunctionType with
          | .error e => .error e
          | .ok (false, Mapper1) => .ok { p with Mapper := Mapper1 }
          | .ok (true, Mapper1) =>
            let p1 := { p with Mapper := Mapper1 }
            let resultStorageType := origSILFunctionType.getAllResultsInterfaceType
            match p1.isLargeLoadableType Mod origSILFunctionType resultStorageType with
            | .error e => .error e
            | .ok false =>
              -- Make sure it contains a function type
              let numFuncTy := (origSILFunctionType.getResults.filter (fun origResult =>
                let resultStorageTy := origResult.getSILStorageInterfaceType
                containsFunctionType resultStorageTy.getASTType)).length
              if numFuncTy = 0 then .error .assertion else .ok p1
            | .ok true =>
              match origSILFunctionType.substInterfaceType resultStorageType with
              | .error e => .error e
              | .ok resultContextTy =>
                match p1.getNewSILType Mod fuel origSILFunctionType resultContextTy with
                | .error e => .error e
                | .ok (newSILType, p2) =>
                  match allocateForApply p2 currIns newSILType.getObjectType with
                  | .error e => .error e
                  | .ok (newVal, p3) =>
                    match currIns.kind with
                    | .ApplyInst _ =>
                      let F1 := p3.F.replaceAllUsesWith (.instruction currIns.id)
                        (.instruction newVal.id)
                      .ok { p3 with F := F1 }
                    | .TryApplyInst _ =>
                      match currIns.successors.head?.bind p3.F.findBlock with
                      | none => .error .assertion
                      | some normalBB =>
                        match normalBB.arguments with
                        | [arg] =>
                          let F1 := p3.F.replaceAllUsesWith (.argument arg.id)
                            (.instruction newVal.id)
                          let emptyTy := SILType.getPrimitiveObjectType (.tuple .nil)
                          .ok { p3 with F := convertBBArgType F1 normalBB.id 0 emptyTy arg }
                        | _ => .error .assertion
                    | _ => .error .assertion)
    (pass.F.allInstructions.map (fun i => i.id)) pass

/-- Line 1557: `LoadableStorageAllocation::convertIndirectBasicBlockArgs`. -/
def convertIndirectBasicBlockArgs (pass : StructLoweringState) (Mod : IRGenModule)
    (fuel : Nat) : Except Abort StructLoweringState :=
  match pass.F.getEntryBlock with
  | none => .error .assertion
  | some entry =>
    forEachM (fun (BB : SILBasicBlock) (p : StructLoweringState) =>
      if BB.id = entry.id then
        -- Already took care of function args
        .ok p
      else
        forEachM (fun (indexed : Nat × SILArgument) (p1 : StructLoweringState) =>
          let arg := indexed.2
          match p1.Mapper.shouldConvertBBArg Mod fuel p1.F arg with
          | .error e => .error e
          | .ok (false, Mapper1) => .ok { p1 with Mapper := Mapper1 }
          | .ok (true, Mapper1) =>
            let p2 := { p1 with Mapper := Mapper1 }
            let storageType := arg.type
            match p2.getNewSILType Mod fuel p2.F.getLoweredFunctionType storageType with
            | .error e => .error e
            | .ok (newSILType0, p3) =>
              -- We don't change the type from object to address for function args:
              -- a tuple with both a large type and a function arg should remain
              -- as an object type for now
              let newSILType :=
                if storageType.isObject then newSILType0.getObjectType else newSILType0
              .ok { p3 with F := convertBBArgType p3.F BB.id indexed.1 newSILType arg })
          BB.arguments.enum p)
      pass.F.blocks pass

/-- Line 1584 to line 1615: the special case of `allocateForArg` for a value
that is already an `alloc_stack`, the buffer `allocInstr` of the result of a
call: a load of the buffer right after the call. -/
def allocateForArgOfApply (pass : StructLoweringState) (value : SILValue)
    (allocInstr : Nat) : Except Abort StructLoweringState :=
  match mapVectorFind pass.allocToApplyRetMap allocInstr with
  | none => .error .assertion
  | some apply =>
    match pass.F.findInstruction apply, pass.F.getParent apply, pass.F.getType value with
    | some applyInst, some parent, some valueType =>
      let loadBuilder : Except Abort InsertionPoint :=
        match applyInst.kind with
        | .TryApplyInst _ =>
          match applyInst.successors.head?.bind pass.F.findBlock with
          | none => .error .assertion
          | some tgtBB => .ok tgtBB.beginPoint
        | _ => .ok (parent.pointAfter apply)
      match loadBuilder with
      | .error e => .error e
      | .ok point =>
        let (load, F1) : SILInstruction × SILFunction :=
          if !pass.F.hasOwnership then
            pass.F.create point (.LoadInst .Unqualified) [value] (some valueType.getObjectType)
          else
            pass.F.create point (.LoadInst .Take) [value] (some valueType.getObjectType)
        let newMap := mapVectorAssign pass.argsToLoadedValueMap value (.instruction load.id)
        .ok { pass with F := F1, argsToLoadedValueMap := newMap }
    | _, _, _ => .error .assertion

/-- Line 1583: `LoadableStorageAllocation::allocateForArg`. -/
def allocateForArg (pass : StructLoweringState) (value : SILValue) :
    Except Abort StructLoweringState :=
  let allocInstr : Option Nat :=
    match value with
    | .instruction id =>
      match pass.F.findInstruction id with
      | some i => if i.kind = SILInstructionKind.AllocStackInst then some id else none
      | none => none
    | _ => none
  let isApplySite :=
    match value with
    | .instruction id =>
      match pass.F.findInstruction id with
      | some i => i.isApplySite
      | none => false
    | _ => false
  if allocInstr.isSome then allocateForArgOfApply pass value (allocInstr.getD 0)
  else if isApplySite then .error .assertion
  else
    match pass.F.getEntryBlock, pass.F.getType value with
    | some entry, some valueType =>
      let allocBuilder := entry.beginPoint
      let (allocInstr, F1) := pass.F.create allocBuilder .AllocStackInst []
        (some valueType.getAddressType)
      let (_, F2) := createOutlinedCopyCall F1 allocBuilder value (.instruction allocInstr.id)
      let (loadCopy, F3) :=
        if !pass.F.hasOwnership then
          F2.create allocBuilder (.LoadInst .Unqualified) [.instruction allocInstr.id]
            (some valueType.getObjectType)
        else
          F2.create allocBuilder (.LoadInst .Take) [.instruction allocInstr.id]
            (some valueType.getObjectType)
      let newMap := mapVectorAssign pass.argsToLoadedValueMap value (.instruction loadCopy.id)
      let pass1 := { pass with F := F3, argsToLoadedValueMap := newMap }
      -- Insert stack deallocations.
      .ok (pass1.returnInsts.foldl (fun p termInst =>
        let created := p.F.create (.before termInst) .DeallocStackInst
          [.instruction allocInstr.id] none
        { p with F := created.2 }) pass1)
    | _, _ => .error .assertion

/-- Line 1348: `LoadableStorageAllocation::allocateLoadableStorage`. -/
def allocateLoadableStorage (pass : StructLoweringState) (Mod : IRGenModule) (fuel : Nat) :
    Except Abort StructLoweringState :=
  let pass1 := LargeValueVisitor.mapReturnInstrs pass
  let converted :=
    if modifiableFunction pass1.F.getLoweredFunctionType then
      -- Turn by-value function args to by-address ones
      convertIndirectFunctionArgs pass1 Mod fuel
    else convertIndirectFunctionPointerArgsForUnmodifiable pass1 Mod fuel
  match converted with
  | .error e => .error e
  | .ok pass2 =>
    match convertApplyResults pass2 Mod fuel with
    | .error e => .error e
    | .ok pass3 =>
      -- Populate the pass' data structs
      match LargeValueVisitor.mapValueStorage pass3 Mod fuel with
      | .error e => .error e
      | .ok pass4 =>
        -- Turn by-value BB args to by-address ones
        match convertIndirectBasicBlockArgs pass4 Mod fuel with
        | .error e => .error e
        | .ok pass5 =>
          -- Create an AllocStack for every used large loadable type in the function.
          forEachM (fun (argToAlloc : SILValue × SILValue) p =>
            if argToAlloc.1 ≠ argToAlloc.2 then .error .assertion
            else allocateForArg p argToAlloc.1)
            pass5.argsToLoadedValueMap pass5

end LoadableStorageAllocation

end LoadableByAddress

namespace LoadableByAddress

/-! ## Storage for the operands of calls, yields and enum switches -/

/-- Line 1074: `allocate`. -/
def allocate (pass : StructLoweringState) (type : SILType) :
    Except Abort (SILInstruction × StructLoweringState) :=
  if !type.isObject then .error .assertion
  else
    match pass.F.getEntryBlock with
    | none => .error .assertion
    | some entry =>
      -- Insert an alloc_stack at the beginning of the function.
      let allocBuilder := entry.beginPoint
      let (alloc, F1) := pass.F.create allocBuilder .AllocStackInst []
        (some type.getAddressType)
      let pass1 := { pass with F := F1 }
      -- Insert dealloc_stack at the end(s) of the function.
      .ok (alloc, pass1.returnInsts.foldl (fun p termInst =>
        let created := p.F.create (.before termInst) .DeallocStackInst
          [.instruction alloc.id] none
        { p with F := created.2 }) pass1)

/-- Line 1107: `createStoreInit`. -/
def createStoreInit (pass : StructLoweringState) (Mod : IRGenModule)
    (where_ : InsertionPoint) (value address : SILValue) :
    Except Abort (SILInstruction × StructLoweringState) :=
  match pass.F.getType value with
  | none => .error .assertion
  | some type =>
    let (store, F1) := pass.F.create where_ (.StoreInst (getStoreInitOwnership pass Mod type))
      [value, address] none
    .ok (store, { pass with F := F1 })

/-- Line 1206: `isYieldUseRewritable`, for a use of the value `operand`. -/
def isYieldUseRewritable (pass : StructLoweringState) (Mod : IRGenModule)
    (operand : SILValue) : Except Abort Bool :=
  match pass.F.getType operand with
  | none => .error .assertion
  | some type => pass.isLargeLoadableType Mod pass.F.getLoweredFunctionType type

/-- Line 1214: `hasMandatoryRewriteUse`. -/
def hasMandatoryRewriteUse (pass : StructLoweringState) (Mod : IRGenModule) (fuel : Nat)
    (value : SILValue) : Except Abort (Bool × StructLoweringState) :=
  anyElem (fun (use : Nat × Nat) (p : StructLoweringState) =>
    match p.F.findInstruction use.1 with
    | none => .error .unreachable
    | some userIns =>
      if userIns.isApplySite then
        if userIns.getCallee = some value then .ok (false, p)
        else
          match p.F.getType value with
          | none => .error .assertion
          | some type =>
            let currType := type.getObjectType
            match p.getNewSILType Mod fuel p.F.getLoweredFunctionType currType with
            | .error e => .error e
            | .ok (newSILType, p1) => .ok (decide (currType ≠ newSILType), p1)
      else if userIns.kind = SILInstructionKind.YieldInst then
        match isYieldUseRewritable p Mod value with
        | .error e => .error e
        | .ok rewritable => .ok (rewritable, p)
      else .ok (false, p))
    (pass.F.getUses value) pass

/-- Line 1814: `allUsesAreReplaceable`: the loop returns `false` at the first
use that is not replaceable. -/
def allUsesAreReplaceable (pass : StructLoweringState) (Mod : IRGenModule) (fuel : Nat)
    (instr : SILInstruction) : Except Abort (Bool × StructLoweringState) :=
  match anyElem (fun (use : Nat × Nat) (p : StructLoweringState) =>
      match p.F.findInstruction use.1 with
      | none => .error .unreachable
      | some userIns =>
        match userIns.kind with
        | .RetainValueInst => .ok (false, p)
        | .ReleaseValueInst => .ok (false, p)
        | .StoreInst _ => .ok (false, p)
        | .DebugValueInst => .ok (false, p)
        | .DestroyValueInst => .ok (false, p)
        | .YieldInst =>
          match isYieldUseRewritable p Mod (.instruction instr.id) with
          | .error e => .error e
          | .ok rewritable => .ok (!rewritable, p)
        | .StructExtractInst => .ok (false, p)
        | .SwitchEnumInst _ _ => .ok (false, p)
        | _ =>
          if userIns.isApplySite then
            -- Replaceable only if it is not the function pointer
            match modifiableApply p.F fuel userIns with
            | .error e => .error e
            | .ok false => .ok (true, p)
            | .ok true =>
              if userIns.getCallee = some (.instruction instr.id) then .ok (true, p)
              else
                match instr.type with
                | none => .error .assertion
                | some type =>
                  let currType := type.getObjectType
                  match p.getNewSILType Mod fuel p.F.getLoweredFunctionType currType with
                  | .error e => .error e
                  | .ok (newSILType, p1) => .ok (decide (currType = newSILType), p1)
          else .ok (true, p))
      (pass.F.getUses (.instruction instr.id)) pass with
  | .error e => .error e
  | .ok (notReplaceable, pass1) => .ok (!notReplaceable, pass1)

/-- Line 1126: `LoadableStorageAllocation::replaceLoadWithCopyAddr`. -/
def replaceLoadWithCopyAddr (pass : StructLoweringState) (optimizableLoad : SILInstruction) :
    Except Abort StructLoweringState :=
  match optimizableLoad.operands with
  | [value] =>
    match pass.F.getType value with
    | none => .error .assertion
    | some valueType =>
      match allocate pass valueType.getObjectType with
      | .error e => .error e
      | .ok (allocInstr, pass1) =>
        let copied := createOutlinedCopyCall pass1.F (.before optimizableLoad.id) value
          (.instruction allocInstr.id)
        let pass2 := { pass1 with F := copied.2 }
        match forEachM (fun (use : Nat × Nat) (p : StructLoweringState) =>
            match p.F.findInstruction use.1 with
            | none => .error .unreachable
            | some userIns =>
              match userIns.kind with
              | .CopyAddrInst _ _ => .ok p
              | .DeallocStackInst => .ok p
              | .YieldInst =>
                -- The rewrite is enough.
                .ok p
              | .RetainValueInst =>
                .ok { p with retainInstsToMod := p.retainInstsToMod ++ [userIns.id] }
              | .ReleaseValueInst =>
                .ok { p with releaseInstsToMod := p.releaseInstsToMod ++ [userIns.id] }
              | .StoreInst _ =>
                .ok { p with storeInstsToMod := p.storeInstsToMod ++ [userIns.id] }
              | .DebugValueInst =>
                .ok { p with debugInstsToMod := p.debugInstsToMod ++ [userIns.id] }
              | .DestroyValueInst =>
                .ok { p with destroyValueInstsToMod := p.destroyValueInstsToMod ++ [userIns.id] }
              | .StructExtractInst =>
                if userIns.id ∈ p.structExtractInstsToMod then .ok p
                else .ok { p with structExtractInstsToMod :=
                  p.structExtractInstsToMod ++ [userIns.id] }
              | .SwitchEnumInst _ _ =>
                if userIns.id ∈ p.switchEnumInstsToMod then .ok p
                else .ok { p with switchEnumInstsToMod := p.switchEnumInstsToMod ++ [userIns.id] }
              | _ =>
                if userIns.isApplySite then
                  if userIns.id ∈ p.applies then .ok p
                  else .ok { p with applies := p.applies ++ [userIns.id] }
                else .error .unreachable)
            (pass2.F.getUses (.instruction optimizableLoad.id)) pass2 with
        | .error e => .error e
        | .ok pass3 =>
          let F1 := pass3.F.replaceAllUsesWith (.instruction optimizableLoad.id)
            (.instruction allocInstr.id)
          .ok { pass3 with F := F1.erase optimizableLoad.id }
  | _ => .error .assertion

/-- Line 1247: `LoadableStorageAllocation::replaceLoadWithCopyAddrForModifiable`. -/
def replaceLoadWithCopyAddrForModifiable (pass : StructLoweringState) (Mod : IRGenModule)
    (fuel : Nat) (unoptimizableLoad : SILInstruction) : Except Abort StructLoweringState :=
  match hasMandatoryRewriteUse pass Mod fuel (.instruction unoptimizableLoad.id) with
  | .error e => .error e
  | .ok (false, pass0) => .ok pass0
  | .ok (true, pass0) =>
    match unoptimizableLoad.operands with
    | [value] =>
      match pass0.F.getType value with
      | none => .error .assertion
      | some valueType =>
        match allocate pass0 valueType.getObjectType with
        | .error e => .error e
        | .ok (alloc, pass1) =>
          let copied := createOutlinedCopyCall pass1.F (.before unoptimizableLoad.id) value
            (.instruction alloc.id)
          let pass2 := { pass1 with F := copied.2 }
          match forEachM (fun (use : Nat × Nat)
              (state : StructLoweringState × List (Nat × Nat)) =>
              let p := state.1
              let usesToMod := state.2
              match p.F.findInstruction use.1 with
              | none => .error .unreachable
              | some userIns =>
                match userIns.kind with
                | .YieldInst =>
                  match isYieldUseRewritable p Mod (.instruction unoptimizableLoad.id) with
                  | .error e => .error e
                  | .ok true => .ok (p, usesToMod ++ [use])
                  | .ok false => .ok (p, usesToMod)
                | .RetainValueInst =>
                  .ok ({ p with retainInstsToMod := p.retainInstsToMod ++ [userIns.id] },
                    usesToMod ++ [use])
                | .ReleaseValueInst =>
                  .ok ({ p with releaseInstsToMod := p.releaseInstsToMod ++ [userIns.id] },
                    usesToMod ++ [use])
                | .StoreInst _ =>
                  .ok ({ p with storeInstsToMod := p.storeInstsToMod ++ [userIns.id] },
                    usesToMod ++ [use])
                | .DebugValueInst =>
                  .ok ({ p with debugInstsToMod := p.debugInstsToMod ++ [userIns.id] },
                    usesToMod ++ [use])
                | .DestroyValueInst =>
                  .ok ({ p with destroyValueInstsToMod :=
                    p.destroyValueInstsToMod ++ [userIns.id] }, usesToMod ++ [use])
                | .StructExtractInst =>
                  .ok ({ p with structExtractInstsToMod :=
                    p.structExtractInstsToMod ++ [userIns.id] }, usesToMod ++ [use])
                | .SwitchEnumInst _ _ =>
                  .ok ({ p with switchEnumInstsToMod :=
                    p.switchEnumInstsToMod ++ [userIns.id] }, usesToMod ++ [use])
                | _ =>
                  if userIns.isApplySite then
                    match modifiableApply p.F fuel userIns with
                    | .error e => .error e
                    | .ok false => .ok (p, usesToMod)
                    | .ok true =>
                      if userIns.getCallee = some (.instruction unoptimizableLoad.id) then
                        .ok (p, usesToMod)
                      else
                        match unoptimizableLoad.type with
                        | none => .error .assertion
                        | some type =>
                          let currType := type.getObjectType
                          match p.getNewSILType Mod fuel p.F.getLoweredFunctionType currType
                            with
                          | .error e => .error e
                          | .ok (newSILType, p1) =>
                            if currType = newSILType then .ok (p1, usesToMod)
                            else if userIns.id ∈ p1.applies then .ok (p1, usesToMod ++ [use])
                            else
                              .ok ({ p1 with applies := p1.applies ++ [userIns.id] },
                                usesToMod ++ [use])
                  else .ok (p, usesToMod))
              (pass2.F.getUses (.instruction unoptimizableLoad.id)) (pass2, []) with
          | .error e => .error e
          | .ok (pass3, usesToMod) =>
            .ok (usesToMod.reverse.foldl (fun p use =>
              { p with F := p.F.setOperand use.1 use.2 (.instruction alloc.id) }) pass3)
    | _ => .error .assertion

/-- Line 1860: `LoadableStorageAllocation::replaceLoad`, for the load with the
identity `load`. -/
def replaceLoad (pass : StructLoweringState) (Mod : IRGenModule) (fuel : Nat) (load : Nat) :
    Except Abort StructLoweringState :=
  match pass.F.findInstruction load with
  | none => .error .unreachable
  | some loadInst =>
    match allUsesAreReplaceable pass Mod fuel loadInst with
    | .error e => .error e
    | .ok (true, pass1) => replaceLoadWithCopyAddr pass1 loadInst
    | .ok (false, pass1) => replaceLoadWithCopyAddrForModifiable pass1 Mod fuel loadInst

/-- Line 1738: `rewriteUsesOfSscalar`. -/
def rewriteUsesOfSscalar (pass : StructLoweringState) (fuel : Nat)
    (address scalar : SILValue) (storeToAddress : Nat) : Except Abort StructLoweringState :=
  forEachM (fun (scalarUse : Nat × Nat) (p : StructLoweringState) =>
    match p.F.findInstruction scalarUse.1 with
    | none => .error .unreachable
    | some user =>
      if user.isApplySite then
        match modifiableApply p.F fuel user with
        | .error e => .error e
        | .ok true =>
          -- Just rewrite the operand in-place.  This will produce a temporary
          -- type error, but we should fix that up when we rewrite the apply's
          -- function type.
          .ok { p with F := p.F.setOperand scalarUse.1 scalarUse.2 address }
        | .ok false => .ok p
      else
        match user.kind with
        | .YieldInst =>
          -- The rules for the yield are changing anyway, so we can just rewrite
          -- it in-place.
          .ok { p with F := p.F.setOperand scalarUse.1 scalarUse.2 address }
        | .StoreInst _ =>
          -- Don't rewrite the store to the allocation.
          if user.id = storeToAddress then .ok p
          else if user.id ∈ p.storeInstsToMod then .error .assertion
          else
            match user.operands with
            | [_, dest] =>
              -- Optimization: replace with copy_addr to reduce code size
              let copied := createOutlinedCopyCall p.F (.before user.id) address dest
              .ok { p with F := copied.2.erase user.id }
            | _ => .error .assertion
        | .DebugValueInst =>
          -- Rewrite the debug_value to point to the variable in the alloca.
          let created := p.F.createWith (.before user.id) .DebugValueAddrInst [address] none []
            user.attributes
          .ok { p with F := created.2.erase user.id }
        | _ => .ok p)
    (pass.F.getUses scalar) pass

/-- Line 1781: `allocateAndSetForInstResult`. -/
def allocateAndSetForInstResult (pass : StructLoweringState) (Mod : IRGenModule)
    (fuel : Nat) (instResult : SILValue) (inst : SILInstruction) :
    Except Abort StructLoweringState :=
  match pass.F.getType instResult with
  | none => .error .assertion
  | some type =>
    match allocate pass type with
    | .error e => .error e
    | .ok (alloc, pass1) =>
      match pass1.F.getParent inst.id with
      | none => .error .assertion
      | some parent =>
        let II := parent.pointAfter inst.id
        match createStoreInit pass1 Mod II instResult (.instruction alloc.id) with
        | .error e => .error e
        | .ok (store, pass2) =>
          -- Traverse all the uses of instResult - see if we can replace
          rewriteUsesOfSscalar pass2 fuel (.instruction alloc.id) instResult store.id

/-- Line 1794: `allocateAndSetForArgument`, for the block argument with the
identity `value`. -/
def allocateAndSetForArgument (pass : StructLoweringState) (Mod : IRGenModule)
    (fuel : Nat) (value : Nat) : Except Abort StructLoweringState :=
  match pass.F.getType (.argument value) with
  | none => .error .assertion
  | some type =>
    match allocate pass type with
    | .error e => .error e
    | .ok (alloc, pass1) =>
      match pass1.F.getArgumentParent value, pass1.F.getParent alloc.id with
      | some valueParent, some allocParent =>
        -- Store the value into the allocation.
        let II :=
          if valueParent.beginPoint = allocParent.beginPoint then
            -- Store should happen *after* the allocation.
            match valueParent.instructions with
            | first :: _ => valueParent.pointAfter first.id
            | [] => valueParent.beginPoint
          else valueParent.beginPoint
        match createStoreInit pass1 Mod II (.argument value) (.instruction alloc.id) with
        | .error e => .error e
        | .ok (store, pass2) =>
          -- Traverse all the uses of value - see if we can replace
          rewriteUsesOfSscalar pass2 fuel (.instruction alloc.id) (.argument value) store.id
      | _, _ => .error .assertion

/-- Line 1868: `allocateAndSet`. -/
def allocateAndSet (pass : StructLoweringState) (Mod : IRGenModule) (fuel : Nat)
    (operand : SILValue) : Except Abort StructLoweringState :=
  match operand with
  | .instruction id =>
    match pass.F.findInstruction id with
    | none => .error .unreachable
    | some inst =>
      match inst.kind with
      | .LoadInst _ => replaceLoad pass Mod fuel id
      | _ =>
        -- TODO: peephole: special handling of known cases:
        -- ApplyInst, TupleExtractInst
        allocateAndSetForInstResult pass Mod fuel operand inst
  | .result id _ =>
    match pass.F.findInstruction id with
    | none => .error .unreachable
    | some inst => allocateAndSetForInstResult pass Mod fuel operand inst
  | .argument id => allocateAndSetForArgument pass Mod fuel id
  | .undef _ => .error .assertion

/-- Line 1887: `allocateAndSetAll`: rewrite all of the large-loadable operands
in the given list, the operands of the instruction `user` with the numbers
`operands`. -/
def allocateAndSetAll (pass : StructLoweringState) (Mod : IRGenModule) (fuel : Nat)
    (user : Nat) (operands : List Nat) : Except Abort StructLoweringState :=
  forEachM (fun (operand : Nat) (p : StructLoweringState) =>
    match (p.F.findInstruction user).bind (fun userIns => userIns.operands.get? operand) with
    | none => .error .unreachable
    | some value =>
      match p.F.getType value with
      | none => .error .assertion
      | some silType =>
        match p.isLargeLoadableType Mod p.F.getLoweredFunctionType silType with
        | .error e => .error e
        | .ok true => allocateAndSet p Mod fuel value
        | .ok false => .ok p)
    operands pass

/-- Line 1901: `retypeTupleInstr`, for the instruction with the identity
`id`. -/
def retypeTupleInstr (pass : StructLoweringState) (Mod : IRGenModule) (fuel : Nat)
    (id : Nat) : Except Abort StructLoweringState :=
  match pass.F.findInstruction id, pass.F.getParent id with
  | some instr, some parent =>
    match instr.type with
    | none => .error .assertion
    | some currSILType =>
      match getInnerFunctionType currSILType with
      | none => .error .assertion
      | some funcType =>
        let genEnv0 := pass.F.getSubstGenericEnvironment
        let genEnv :=
          if genEnv0.isNone && funcType.getSubstGenericSignature.isSome then
            getSubstGenericEnvironment funcType
          else genEnv0
        match pass.Mapper.getNewSILType Mod fuel genEnv currSILType with
        | .error e => .error e
        | .ok (newSILType, Mapper1) =>
          let pass1 := { pass with Mapper := Mapper1 }
          if currSILType = newSILType then .ok pass1
          else
            let II := parent.pointAfter id
            let newType : Except Abort SILType :=
              match instr.kind with
              -- Add cast to the new sil function type:
              | .TupleExtractInst => .ok newSILType.getObjectType
              | .TupleElementAddrInst => .ok newSILType.getAddressType
              | _ => .error .unreachable
            match newType with
            | .error e => .error e
            | .ok t =>
              let (newInstr, F1) := pass1.F.createWith II instr.kind instr.operands (some t) []
                instr.attributes
              let F2 := F1.replaceAllUsesWith (.instruction id) (.instruction newInstr.id)
              .ok { pass1 with F := F2.erase id }
  | _, _ => .error .unreachable

/-- Line 1944: `createCopyOfEnum`. -/
def createCopyOfEnum (pass : StructLoweringState) (Mod : IRGenModule)
    (orig : SILInstruction) : Except Abort (SILValue × StructLoweringState) :=
  match orig.operands with
  | value :: _ =>
    match pass.F.getType value with
    | none => .error .assertion
    | some type =>
      if type.isObject then
        -- support for non-address operands / enums
        match allocate pass type with
        | .error e => .error e
        | .ok (alloc, pass1) =>
          match createStoreInit pass1 Mod (.before orig.id) value (.instruction alloc.id) with
          | .error e => .error e
          | .ok (_, pass2) => .ok (.instruction alloc.id, pass2)
      else
        match allocate pass type.getObjectType with
        | .error e => .error e
        | .ok (alloc, pass1) =>
          let copied := createOutlinedCopyCall pass1.F (.before orig.id) value
            (.instruction alloc.id)
          .ok (.instruction alloc.id, { pass1 with F := copied.2 })
  | [] => .error .assertion

/-- Line 1963: `createResultTyInstrAndLoad`, for the `struct_extract` with the
identity `id`. -/
def createResultTyInstrAndLoad (pass : StructLoweringState) (Mod : IRGenModule)
    (fuel : Nat) (id : Nat) : Except Abort StructLoweringState :=
  match pass.F.findInstruction id with
  | none => .error .unreachable
  | some instr =>
    let updateResultTy := decide (id ∈ pass.resultTyInstsToMod)
    let pass1 :=
      if updateResultTy then
        { pass with resultTyInstsToMod := pass.resultTyInstsToMod.filter (fun i => i ≠ id) }
      else pass
    match instr.kind, instr.operands, instr.type with
    | .StructExtractInst, [operand], some type =>
      let (newInstr, F1) := pass1.F.createWith (.before id) .StructElementAddrInst [operand]
        (some type.getAddressType) [] instr.attributes
      -- Load the struct element then see if we can get rid of the load:
      let (loadArg, F2) : SILInstruction × SILFunction :=
        if !pass1.F.hasOwnership then
          F1.create (.before id) (.LoadInst .Unqualified) [.instruction newInstr.id]
            (some type.getObjectType)
        else
          F1.create (.before id) (.LoadInst .Take) [.instruction newInstr.id]
            (some type.getObjectType)
      let F3 := F2.replaceAllUsesWith (.instruction id) (.instruction loadArg.id)
      let pass2 := { pass1 with F := F3.erase id }
      -- If the load is of a function type - do not replace it.
      if isFuncOrOptionalFuncType type.getObjectType then .ok pass2
      else
        match replaceLoad pass2 Mod fuel loadArg.id with
        | .error e => .error e
        | .ok pass3 =>
          if updateResultTy then
            .ok { pass3 with resultTyInstsToMod :=
              setVectorInsert pass3.resultTyInstsToMod newInstr.id }
          else .ok pass3
    | _, _, _ => .error .assertion

/-- Line 2015 to line 2054: the loop of the rewriting of a `switch_enum` over
its cases: the argument of the destination of a case becomes the projection of
the payload out of the copy `copiedValue` of the enum, and a load of it. -/
def rewriteSwitchEnumCases (pass : StructLoweringState) (Mod : IRGenModule) (fuel : Nat)
    (copiedValue : SILValue) (cases : List (Nat × Nat)) : Except Abort StructLoweringState :=
  forEachM (fun (currCase : Nat × Nat) (p : StructLoweringState) =>
    let decl := currCase.1
    match p.F.findBlock currCase.2 with
    | none => .error .assertion
    | some currBB =>
      let argBuilder := currBB.beginPoint
      if 1 < currBB.arguments.length then .error .assertion
      else
        forEachM (fun (arg : SILArgument) (p1 : StructLoweringState) =>
          let storageType := arg.type
          match p1.getNewSILType Mod fuel p1.F.getLoweredFunctionType storageType with
          | .error e => .error e
          | .ok (newSILType0, p2) =>
            let newSILType :=
              if storageType = newSILType0 then newSILType0.getAddressType else newSILType0
            let (newArg, F1) := p2.F.createWith argBuilder .UncheckedTakeEnumDataAddrInst
              [copiedValue] (some newSILType.getAddressType) [] decl
            let F2 := F1.replaceAllUsesWith (.argument arg.id) (.instruction newArg.id)
            let F3 := F2.updateBlock currBB.id (fun BB => BB.eraseArgument 0)
            -- Load the enum addr then see if we can get rid of the load:
            let (loadArg, F4) : SILInstruction × SILFunction :=
              if !p2.F.hasOwnership then
                F3.create argBuilder (.LoadInst .Unqualified) [.instruction newArg.id]
                  (some newSILType.getObjectType)
              else
                F3.create argBuilder (.LoadInst .Take) [.instruction newArg.id]
                  (some newSILType.getObjectType)
            let F5 := F4.replaceAllUsesWith (.instruction newArg.id) (.instruction loadArg.id)
            let F6 := F5.setOperand loadArg.id 0 (.instruction newArg.id)
            let p3 := { p2 with F := F6 }
            -- If the load is of a function type - do not replace it.
            if isFuncOrOptionalFuncType newSILType.getObjectType then .ok p3
            else replaceLoad p3 Mod fuel loadArg.id)
          currBB.arguments p)
    cases pass

/-- Line 2008 to line 2059: the body of the loop of `rewriteFunction` over
`switchEnumInstsToMod`, for the `switch_enum` with the identity `id`. -/
def rewriteSwitchEnumInst (pass : StructLoweringState) (Mod : IRGenModule) (fuel : Nat)
    (id : Nat) : Except Abort StructLoweringState :=
  match pass.F.findInstruction id with
  | none => .error .unreachable
  | some instr =>
    match instr.kind with
    | .SwitchEnumInst elements hasDefault =>
      /- unchecked_take_enum_data_addr can be destructive.
         work on a copy instead of the original enum -/
      match createCopyOfEnum pass Mod instr with
      | .error e => .error e
      | .ok (copiedValue, pass1) =>
        let caseBBs := elements.zip instr.getCaseDestinations
        match rewriteSwitchEnumCases pass1 Mod fuel copiedValue caseBBs with
        | .error e => .error e
        | .ok pass2 =>
          let defaultBB : List Nat :=
            if hasDefault then (instr.successors.drop elements.length).take 1 else []
          let created := pass2.F.createWith (.before id)
            (.SwitchEnumAddrInst (caseBBs.map (fun c => c.1)) hasDefault) [copiedValue] none
            (caseBBs.map (fun c => c.2) ++ defaultBB) instr.attributes
          .ok { pass2 with F := created.2.erase id }
    | _ => .error .unreachable

/-- Line 2007: the loop of `rewriteFunction` over `switchEnumInstsToMod`;
`steps` bounds the number of its rounds. -/
def rewriteSwitchEnumInsts (Mod : IRGenModule) (fuel : Nat) :
    Nat → StructLoweringState → Except Abort StructLoweringState
  | 0, _ => .error .outOfFuel
  | steps + 1, pass =>
    match pass.switchEnumInstsToMod.getLast? with
    | none => .ok pass
    | some instr =>
      let pass1 := { pass with switchEnumInstsToMod := pass.switchEnumInstsToMod.dropLast }
      match rewriteSwitchEnumInst pass1 Mod fuel instr with
      | .error e => .error e
      | .ok pass2 => rewriteSwitchEnumInsts Mod fuel steps pass2

/-- Line 2062: the loop of `rewriteFunction` over `structExtractInstsToMod`;
`steps` bounds the number of its rounds. -/
def rewriteStructExtractInsts (Mod : IRGenModule) (fuel : Nat) :
    Nat → StructLoweringState → Except Abort StructLoweringState
  | 0, _ => .error .outOfFuel
  | steps + 1, pass =>
    match pass.structExtractInstsToMod.getLast? with
    | none => .ok pass
    | some instr =>
      let pass1 := { pass with structExtractInstsToMod := pass.structExtractInstsToMod.dropLast }
      match createResultTyInstrAndLoad pass1 Mod fuel instr with
      | .error e => .error e
      | .ok pass2 => rewriteStructExtractInsts Mod fuel steps pass2

/-- Line 2067: the loop of `rewriteFunction` over `applies`, with the set
`currentModApplies`; `steps` bounds the number of its rounds. -/
def rewriteApplies (Mod : IRGenModule) (fuel : Nat) :
    Nat → StructLoweringState × List Nat → Except Abort (StructLoweringState × List Nat)
  | 0, _ => .error .outOfFuel
  | steps + 1, (pass, currentModApplies) =>
    match pass.applies.getLast? with
    | none => .ok (pass, currentModApplies)
    | some applyInst =>
      let pass1 := { pass with applies := pass.applies.dropLast }
      let currentModApplies1 := setVectorInsert currentModApplies applyInst
      match pass1.F.findInstruction applyInst with
      | none => .error .unreachable
      | some applySite =>
        match allocateAndSetAll pass1 Mod fuel applyInst
            (applySite.getArgumentOperands.map (fun operand => operand.1)) with
        | .error e => .error e
        | .ok pass2 => rewriteApplies Mod fuel steps (pass2, currentModApplies1)

/-- Line 2077: the loop of `rewriteFunction` over `modYieldInsts`; `steps`
bounds the number of its rounds. -/
def rewriteYieldInsts (Mod : IRGenModule) (fuel : Nat) :
    Nat → StructLoweringState → Except Abort StructLoweringState
  | 0, _ => .error .outOfFuel
  | steps + 1, pass =>
    match pass.modYieldInsts.getLast? with
    | none => .ok pass
    | some inst =>
      let pass1 := { pass with modYieldInsts := pass.modYieldInsts.dropLast }
      match pass1.F.findInstruction inst with
      | none => .error .unreachable
      | some yield =>
        match allocateAndSetAll pass1 Mod fuel inst (List.range yield.operands.length) with
        | .error e => .error e
        | .ok pass2 => rewriteYieldInsts Mod fuel steps pass2

/-- Line 2006 to line 2086: the loop `do ... while (repeat)` of
`rewriteFunction`, with the set `currentModApplies`; `rounds` bounds the number
of its rounds, and every inner loop may take `fuel` rounds. -/
def rewriteUntilStable (Mod : IRGenModule) (fuel : Nat) :
    Nat → StructLoweringState × List Nat → Except Abort StructLoweringState
  | 0, _ => .error .outOfFuel
  | rounds + 1, (pass, currentModApplies) =>
    match rewriteSwitchEnumInsts Mod fuel fuel pass with
    | .error e => .error e
    | .ok pass1 =>
      match rewriteStructExtractInsts Mod fuel fuel pass1 with
      | .error e => .error e
      | .ok pass2 =>
        match rewriteApplies Mod fuel fuel (pass2, currentModApplies) with
        | .error e => .error e
        | .ok (pass3, currentModApplies1) =>
          match rewriteYieldInsts Mod fuel fuel pass3 with
          | .error e => .error e
          | .ok pass4 =>
            let repeat_ := !pass4.switchEnumInstsToMod.isEmpty
              || !pass4.structExtractInstsToMod.isEmpty
            if !pass4.applies.isEmpty then .error .assertion
            else
              let pass5 := { pass4 with applies := pass4.applies ++ currentModApplies1 }
              if repeat_ then rewriteUntilStable Mod fuel rounds (pass5, currentModApplies1)
              else .ok pass5

/-! ## Rewriting the function -/

/-- Line 2350: `rewriteFunctionReturn`. -/
def rewriteFunctionReturn (pass : StructLoweringState) (Mod : IRGenModule) (fuel : Nat) :
    Except Abort (Bool × StructLoweringState) :=
  let loweredTy := pass.F.getLoweredFunctionType
  let resultTy := loweredTy.getAllResultsInterfaceType
  match pass.getNewSILType Mod fuel loweredTy resultTy with
  | .error e => .error e
  | .ok (newSILType, pass1) =>
    -- We (currently) only care about function signatures
    match pass1.isLargeLoadableType Mod loweredTy resultTy with
    | .error e => .error e
    | .ok true => .ok (true, pass1)
    | .ok false =>
      match pass1.containsDifferentFunctionSignature Mod fuel loweredTy resultTy with
      | .error e => .error e
      | .ok (false, pass2) => .ok (false, pass2)
      | .ok (true, pass2) =>
        let newSILResultInfo : Except Abort (List SILResultInfo) :=
          match newSILType.getAsTupleType with
          | some tupleType =>
            let originalResults := loweredTy.getResults
            (originalResults.enum.foldl (fun acc indexed =>
              match acc with
              | .error e => .error e
              | .ok results =>
                match tupleType.toList.get? indexed.1 with
                | none => .error .assertion
                | some canElem =>
                  let objectType := SILType.getPrimitiveObjectType canElem.type
                  .ok (results ++ [(⟨objectType.getASTType, indexed.2.getConvention⟩ :
                    SILResultInfo)]))
              (.ok []))
          | none =>
            match loweredTy.getResults with
            | [origResultInfo] =>
              .ok [⟨newSILType.getASTType, origResultInfo.getConvention⟩]
            | _ => .error .assertion
        match newSILResultInfo with
        | .error e => .error e
        | .ok results =>
          let NewTy := SILFunctionType.get
            loweredTy.getInvocationGenericSignature
            loweredTy.getExtInfo
            loweredTy.getCoroutineKind
            loweredTy.getCalleeConvention
            loweredTy.getParameters
            loweredTy.getYields
            results
            loweredTy.getOptionalErrorResult
            loweredTy.getPatternSubstitutions
            loweredTy.getInvocationSubstitutions
            loweredTy.getWitnessMethodConformanceOrInvalid
          .ok (true, { pass2 with F := pass2.F.rewriteLoweredTypeUnsafe NewTy })

/-- Line 2088: the loop of `rewriteFunction` over `instsToMod`: an operand that
is a converted argument is replaced by the value bound to it. -/
def rewriteInstsToMod (pass : StructLoweringState) : Except Abort StructLoweringState :=
  forEachM (fun (id : Nat) (p : StructLoweringState) =>
    match p.F.findInstruction id with
    | none => .error .unreachable
    | some instr =>
      match mapElems (fun (currOperand : SILValue) (u : Unit) =>
          if currOperand ∈ p.largeLoadableArgs then
            match mapVectorFind p.argsToLoadedValueMap currOperand with
            | none => .error .assertion
            | some newOperand =>
              if newOperand = currOperand then .error .assertion
              else .ok (newOperand, u)
          else .ok (currOperand, u)) instr.operands () with
      | .error e => .error e
      | .ok (operands, _) => .ok { p with F := p.F.setOperands id operands })
    pass.instsToMod pass

/-- Line 2106: the loop of `rewriteFunction` over `allocStackInstsToMod`. -/
def rewriteAllocStackInsts (pass : StructLoweringState) (Mod : IRGenModule) (fuel : Nat) :
    Except Abort StructLoweringState :=
  match forEachM (fun (id : Nat) (p : StructLoweringState) =>
      match p.F.findInstruction id with
      | none => .error .unreachable
      | some instr =>
        match instr.type with
        | none => .error .assertion
        | some currSILType =>
          match p.getNewSILType Mod fuel p.F.getLoweredFunctionType currSILType with
          | .error e => .error e
          | .ok (newSILType, p1) =>
            let (newInstr, F1) := p1.F.createWith (.before id) .AllocStackInst []
              (some newSILType.getAddressType) [] instr.attributes
            let F2 := F1.replaceAllUsesWith (.instruction id) (.instruction newInstr.id)
            .ok { p1 with F := F2.erase id })
      pass.allocStackInstsToMod.reverse pass with
  | .error e => .error e
  | .ok pass1 => .ok { pass1 with allocStackInstsToMod := [] }

/-- Line 2118: the loop of `rewriteFunction` over `pointerToAddrkInstsToMod`. -/
def rewritePointerToAddrInsts (pass : StructLoweringState) (Mod : IRGenModule)
    (fuel : Nat) : Except Abort StructLoweringState :=
  match forEachM (fun (id : Nat) (p : StructLoweringState) =>
      match p.F.findInstruction id with
      | none => .error .unreachable
      | some instr =>
        match instr.type with
        | none => .error .assertion
        | some currSILType =>
          match p.getNewSILType Mod fuel p.F.getLoweredFunctionType currSILType with
          | .error e => .error e
          | .ok (newSILType, p1) =>
            let (newInstr, F1) := p1.F.createWith (.before id) .PointerToAddressInst
              instr.operands (some newSILType.getAddressType) [] instr.attributes
            let F2 := F1.replaceAllUsesWith (.instruction id) (.instruction newInstr.id)
            .ok { p1 with F := F2.erase id })
      pass.pointerToAddrkInstsToMod.reverse pass with
  | .error e => .error e
  | .ok pass1 => .ok { pass1 with pointerToAddrkInstsToMod := [] }

/-- Line 2131: the loop of `rewriteFunction` over `debugInstsToMod`. -/
def rewriteDebugInsts (pass : StructLoweringState) : Except Abort StructLoweringState :=
  forEachM (fun (id : Nat) (p : StructLoweringState) =>
    match p.F.findInstruction id with
    | none => .error .unreachable
    | some instr =>
      match instr.operands with
      | [currOperand] =>
        match mapVectorFind p.argsToLoadedValueMap currOperand with
        | some newOperand =>
          if newOperand = currOperand then .error .assertion
          else .ok { p with F := p.F.setOperands id [newOperand] }
        | none =>
          match p.F.getType currOperand with
          | some type =>
            if !type.isAddress then .error .assertion
            else
              let created := p.F.createWith (.before id) .DebugValueAddrInst [currOperand]
                none [] instr.attributes
              .ok { p with F := created.2.erase id }
          | none => .error .assertion
      | _ => .error .assertion)
    pass.debugInstsToMod pass

/-- Line 2155: the loop of `rewriteFunction` over `destroyValueInstsToMod`. -/
def rewriteDestroyValueInsts (pass : StructLoweringState) :
    Except Abort StructLoweringState :=
  forEachM (fun (id : Nat) (p : StructLoweringState) =>
    match p.F.findInstruction id with
    | none => .error .unreachable
    | some instr =>
      match instr.operands with
      | [currOperand] =>
        match p.F.getType currOperand with
        | some type =>
          if !type.isAddress then .error .assertion
          else
            let created := p.F.create (.before id) .DestroyAddrInst [currOperand] none
            .ok { p with F := created.2.erase id }
        | none => .error .assertion
      | _ => .error .assertion)
    pass.destroyValueInstsToMod pass

/-- Line 2167: the loop of `rewriteFunction` over `storeInstsToMod`. -/
def rewriteStoreInsts (pass : StructLoweringState) : Except Abort StructLoweringState :=
  forEachM (fun (id : Nat) (p : StructLoweringState) =>
    match p.F.findInstruction id with
    | none => .error .unreachable
    | some instr =>
      match instr.operands with
      | [src, tgt] =>
        match p.F.getType src, p.F.getType tgt with
        | some srcType, some tgtType =>
          if !tgtType.isAddress then .error .assertion
          else if srcType ≠ tgtType then .error .assertion
          else
            let created := createOutlinedCopyCall p.F (.before id) src tgt
            .ok { p with F := created.2.erase id }
        | _, _ => .error .assertion
      | _ => .error .assertion)
    pass.storeInstsToMod pass

/-- Line 2183 and line 2190: the loops of `rewriteFunction` over
`retainInstsToMod` and `releaseInstsToMod`. -/
def rewriteRetainReleaseInsts (pass : StructLoweringState) :
    Except Abort StructLoweringState :=
  match forEachM (fun (id : Nat) (p : StructLoweringState) =>
      match p.F.findInstruction id with
      | none => .error .unreachable
      | some instr =>
        let created := p.F.createWith (.before id) .RetainValueAddrInst instr.operands none []
          instr.attributes
        .ok { p with F := created.2.erase id })
      pass.retainInstsToMod pass with
  | .error e => .error e
  | .ok pass1 =>
    forEachM (fun (id : Nat) (p : StructLoweringState) =>
      match p.F.findInstruction id with
      | none => .error .unreachable
      | some instr =>
        let created := p.F.createWith (.before id) .ReleaseValueAddrInst instr.operands none []
          instr.attributes
        .ok { p with F := created.2.erase id })
      pass1.releaseInstsToMod pass1

/-- Line 2197: the loop of `rewriteFunction` over `resultTyInstsToMod`. -/
def rewriteResultTyInsts (pass : StructLoweringState) (Mod : IRGenModule) (fuel : Nat) :
    Except Abort StructLoweringState :=
  forEachM (fun (id : Nat) (p : StructLoweringState) =>
    match p.F.findInstruction id with
    | none => .error .unreachable
    | some instr =>
      match instr.type with
      | none => .error .assertion
      | some type =>
        -- Update the return type of these instrs
        -- Note: The operand was already updated!
        let currSILType := type.getObjectType
        match p.getNewSILType Mod fuel p.F.getLoweredFunctionType currSILType with
        | .error e => .error e
        | .ok (newSILType, p1) =>
          let newType : Except Abort SILType :=
            match instr.kind with
            | .StructExtractInst => .ok newSILType.getObjectType
            | .StructElementAddrInst => .ok newSILType.getAddressType
            | .UncheckedTakeEnumDataAddrInst => .ok newSILType.getAddressType
            | .RefTailAddrInst => .ok newSILType.getAddressType
            | .RefElementAddrInst => .ok newSILType.getAddressType
            | .BeginAccessInst =>
              match instr.operands with
              | operand :: _ =>
                match p1.F.getType operand with
                | some t => .ok t
                | none => .error .assertion
              | [] => .error .assertion
            | .EnumInst => .ok newSILType.getObjectType
            | _ => .error .unreachable
          match newType with
          | .error e => .error e
          | .ok t =>
            let (newInstr, F1) := p1.F.createWith (.before id) instr.kind instr.operands
              (some t) [] instr.attributes
            let F2 := F1.replaceAllUsesWith (.instruction id) (.instruction newInstr.id)
            .ok { p1 with F := F2.erase id })
    pass.resultTyInstsToMod pass

/-- Line 2321 to line 2332: the walk back from a return over the run of
`dealloc_stack` right before it.  `cur` is the instruction the reverse
iterator was on last, `preds` the instructions before it, nearest first; the
answer is the instruction the copy is put before, or `none` for the start of
the block. -/
def returnCopyPosition (cur : SILInstruction) : List SILInstruction → Option SILInstruction
  | [] => none
  | currIIInstr :: rest =>
    if currIIInstr.kind ≠ SILInstructionKind.DeallocStackInst then
      -- got the right location - stop.
      some cur
    else returnCopyPosition currIIInstr rest

/-- Line 2306: the loop of `rewriteFunction` over `modReturnInsts`. -/
def rewriteModReturnInsts (pass : StructLoweringState) (Mod : IRGenModule) :
    Except Abort StructLoweringState :=
  match forEachM (fun (id : Nat) (p : StructLoweringState) =>
      match p.F.modNonFuncTypeResultType Mod with
      | .error e => .error e
      | .ok false => .error .assertion
      | .ok true =>
        -- Before we return an empty tuple, init return arg:
        match p.F.getEntryBlock, p.F.findInstruction id, p.F.getParent id with
        | some entry, some instr, some parent =>
          match entry.arguments, instr.operands with
          | retArg :: _, [retOp] =>
            match p.F.getType retOp with
            | none => .error .assertion
            | some storageType =>
              let F1 :=
                if storageType.isAddress then
                  -- There *might* be a dealloc_stack that already released this value
                  -- we should create the copy *before* the epilogue's deallocations
                  let preds := (parent.instructions.takeWhile (fun i => i.id ≠ id)).reverse
                  let II :=
                    match returnCopyPosition instr preds with
                    | some i => InsertionPoint.before i.id
                    | none => parent.beginPoint
                  (createOutlinedCopyCall p.F II retOp (.argument retArg.id)).2
                else
                  (p.F.create (.before id) (.StoreInst (getStoreInitOwnership p Mod storageType))
                    [retOp, .argument retArg.id] none).2
              let emptyTy := SILType.getPrimitiveObjectType (.tuple .nil)
              let (newRetTuple, F2) := F1.create (.before id) .TupleInst [] (some emptyTy)
              let (_, F3) := F2.create (.before id) .ReturnInst [.instruction newRetTuple.id] none
              .ok { p with F := F3.erase id }
          | _, _ => .error .assertion
        | _, _, _ => .error .assertion)
      pass.modReturnInsts.reverse pass with
  | .error e => .error e
  | .ok pass1 => .ok { pass1 with modReturnInsts := [] }

/-- Line 2102: the loop of `rewriteFunction` over `tupleInstsToMod`. -/
def rewriteTupleInsts (pass : StructLoweringState) (Mod : IRGenModule) (fuel : Nat) :
    Except Abort StructLoweringState :=
  forEachM (fun (id : Nat) (p : StructLoweringState) => retypeTupleInstr p Mod fuel id)
    pass.tupleInstsToMod pass

/-- Line 2264: the loop of `rewriteFunction` over `methodInstsToMod`.  A
`witness_method` is created without value operands. -/
def rewriteMethodInsts (pass : StructLoweringState) (Mod : IRGenModule) (fuel : Nat) :
    Except Abort StructLoweringState :=
  forEachM (fun (id : Nat) (p : StructLoweringState) =>
    match p.F.findInstruction id with
    | none => .error .unreachable
    | some instr =>
      match instr.type.bind SILType.getAsSILFunctionType with
      | none => .error .assertion
      | some currSILFunctionType =>
        let genEnvForMethod : Option GenericEnvironment :=
          if currSILFunctionType.isPolymorphic then
            getSubstGenericEnvironment currSILFunctionType
          else none
        match p.Mapper.getNewSILFunctionType Mod fuel genEnvForMethod currSILFunctionType with
        | .error e => .error e
        | .ok (newFnType, Mapper1) =>
          let p1 := { p with Mapper := Mapper1 }
          let newSILType := SILType.getPrimitiveObjectType (.function newFnType)
          let member := instr.attributes
          let operands : Except Abort (List SILValue) :=
            match instr.kind with
            | .ClassMethodInst =>
              match instr.operands with
              | selfValue :: _ => .ok [selfValue]
              | [] => .error .assertion
            | .SuperMethodInst =>
              match instr.operands with
              | selfValue :: _ => .ok [selfValue]
              | [] => .error .assertion
            | .WitnessMethodInst => .ok []
            | _ => .error .unreachable
          match operands with
          | .error e => .error e
          | .ok newOperands =>
            let (newInstr, F1) := p1.F.createWith (.before id) instr.kind newOperands
              (some newSILType) [] member
            let F2 := F1.replaceAllUsesWith (.instruction id) (.instruction newInstr.id)
            .ok { p1 with F := F2.erase id })
    pass.methodInstsToMod pass

/-- Line 2001: `rewriteFunction`.  The loops without a bound of their own take
at most `fuel` rounds each. -/
def rewriteFunction (pass : StructLoweringState) (Mod : IRGenModule) (fuel : Nat) :
    Except Abort StructLoweringState :=
  match rewriteUntilStable Mod fuel fuel (pass, []) with
  | .error e => .error e
  | .ok pass0 =>
    match rewriteInstsToMod pass0 with
    | .error e => .error e
    | .ok pass1 =>
      match rewriteTupleInsts pass1 Mod fuel with
      | .error e => .error e
      | .ok pass1t =>
        match rewriteAllocStackInsts pass1t Mod fuel with
        | .error e => .error e
        | .ok pass2 =>
          match rewritePointerToAddrInsts pass2 Mod fuel with
          | .error e => .error e
          | .ok pass3 =>
            match rewriteDebugInsts pass3 with
            | .error e => .error e
            | .ok pass4 =>
              match rewriteDestroyValueInsts pass4 with
              | .error e => .error e
              | .ok pass5 =>
                match rewriteStoreInsts pass5 with
                | .error e => .error e
                | .ok pass6 =>
                  match rewriteRetainReleaseInsts pass6 with
                  | .error e => .error e
                  | .ok pass7 =>
                    match rewriteResultTyInsts pass7 Mod fuel with
                    | .error e => .error e
                    | .ok pass8 =>
                      match rewriteMethodInsts pass8 Mod fuel with
                      | .error e => .error e
                      | .ok pass9 => rewriteModReturnInsts pass9 Mod

/-! ## The pass over the module -/

/-- Line 1685: the pass object `LoadableByAddress`, with the members
`runOnFunction` writes: the mapper shared by all functions, the set of
functions whose signature changes, the set of call sites to recreate, and the
buffers of call results. -/
structure ModuleTransform where
  MapperCache : LargeSILTypeMapper
  modFuncs : List Nat
  modApplies : List Nat
  allApplyRetToAllocMap : List (Nat × SILValue)
  deriving DecidableEq

namespace ModuleTransform

/-- The pass object before the first function. -/
def new : ModuleTransform := ⟨LargeSILTypeMapper.new, [], [], []⟩

/-- Line 2394: `LoadableByAddress::runOnFunction`. -/
def runOnFunction (T : ModuleTransform) (Mod : IRGenModule) (fuel : Nat) (F : SILFunction) :
    Except Abort (SILFunction × ModuleTransform) :=
  let funcType := F.getLoweredFunctionType
  if F.isExternalDeclaration then
    if !modifiableFunction funcType then .ok (F, T)
    else
      -- External function - re-write external declaration - this is ABI!
      let genEnv0 := F.getSubstGenericEnvironment
      let loweredTy := F.getLoweredFunctionType
      let genEnv :=
        if genEnv0.isNone && loweredTy.getSubstGenericSignature.isSome then
          getSubstGenericEnvironment loweredTy
        else genEnv0
      match T.MapperCache.shouldTransformFunctionType Mod fuel genEnv loweredTy with
      | .error e => .error e
      | .ok (true, Mapper1) =>
        .ok (F, { T with MapperCache := Mapper1, modFuncs := setVectorInsert T.modFuncs F.name })
      | .ok (false, Mapper1) => .ok (F, { T with MapperCache := Mapper1 })
  else
    let pass := StructLoweringState.new F T.MapperCache
    -- Rewrite function args and insert allocs.
    match LoadableStorageAllocation.allocateLoadableStorage pass Mod fuel with
    | .error e => .error e
    | .ok pass1 =>
      let rewritten : Except Abort (Bool × StructLoweringState) :=
        if modifiableFunction funcType then rewriteFunctionReturn pass1 Mod fuel
        else .ok (false, pass1)
      match rewritten with
      | .error e => .error e
      | .ok (rewrittenReturn, pass2) =>
        -- Rewrite instructions relating to the loadable struct.
        match rewriteFunction pass2 Mod fuel with
        | .error e => .error e
        | .ok pass3 =>
          -- If we modified the function arguments - add to list of functions to clone
          let modified : Except Abort (Bool × StructLoweringState) :=
            if !modifiableFunction funcType then .ok (false, pass3)
            else if rewrittenReturn || !pass3.largeLoadableArgs.isEmpty
                || !pass3.funcSigArgs.isEmpty then .ok (true, pass3)
            else pass3.hasLargeLoadableYields Mod fuel
          match modified with
          | .error e => .error e
          | .ok (insert, pass4) =>
            let modFuncs1 := if insert then setVectorInsert T.modFuncs F.name else T.modFuncs
            -- If we modified any applies - add them to the global list for recreation
            let modApplies1 := pass4.applies.foldl setVectorInsert T.modApplies
            let allocMap1 := pass4.applyRetToAllocMap.foldl
              (fun m elm => if (mapVectorFind m elm.1).isSome then m else m ++ [elm])
              T.allApplyRetToAllocMap
            .ok (pass4.F, ⟨pass4.Mapper, modFuncs1, modApplies1, allocMap1⟩)

/-- Line 2907: `LoadableByAddress::updateLoweredTypes`. -/
def updateLoweredTypes (T : ModuleTransform) (Mod : IRGenModule) (fuel : Nat)
    (F : SILFunction) : Except Abort (SILFunction × ModuleTransform) :=
  let funcType := F.getLoweredFunctionType
  let genEnv0 := F.getSubstGenericEnvironment
  let genEnv :=
    if genEnv0.isNone && funcType.getSubstGenericSignature.isSome then
      getSubstGenericEnvironment funcType
    else genEnv0
  match T.MapperCache.getNewSILFunctionType Mod fuel genEnv funcType with
  | .error e => .error e
  | .ok (newFuncTy, Mapper1) =>
    .ok (F.rewriteLoweredTypeUnsafe newFuncTy, { T with MapperCache := Mapper1 })

end ModuleTransform

namespace ModuleTransform

end ModuleTransform

end LoadableByAddress

namespace LoadableByAddress

/-! ## The opcodes of the layout bytecode (`BytecodeLayouts.h`) -/

/-- Line 27 of `BytecodeLayouts.h`: `enum class RefCountingKind : uint8_t`, the
opcodes of a layout string. -/
inductive RefCountingKind where
  | End
  | Error
  | NativeStrong
  | NativeUnowned
  | NativeWeak
  | Unknown
  | UnknownUnowned
  | UnknownWeak
  | Bridge
  | Block
  | ObjC
  | Custom
  | Metatype
  | Generic
  | Existential
  | Resilient
  | Skip
  deriving DecidableEq

namespace RefCountingKind

/-- The value the enumeration gives the opcode, a `uint8_t`. -/
def rawValue : RefCountingKind → Nat
  | .End => 0x00
  | .Error => 0x01
  | .NativeStrong => 0x02
  | .NativeUnowned => 0x03
  | .NativeWeak => 0x04
  | .Unknown => 0x05
  | .UnknownUnowned => 0x06
  | .UnknownWeak => 0x07
  | .Bridge => 0x08
  | .Block => 0x09
  | .ObjC => 0x0a
  | .Custom => 0x0b
  | .Metatype => 0x0c
  | .Generic => 0x0d
  | .Existential => 0x0e
  | .Resilient => 0x0f
  | .Skip => 0x80

/-- Every defined opcode, in the order of the enumeration. -/
def all : List RefCountingKind :=
  [.End, .Error, .NativeStrong, .NativeUnowned, .NativeWeak, .Unknown, .UnknownUnowned,
    .UnknownWeak, .Bridge, .Block, .ObjC, .Custom, .Metatype, .Generic, .Existential,
    .Resilient, .Skip]

/-- The most significant bit of the byte of the opcode. -/
def highBit (kind : RefCountingKind) : Bool := decide (kind.rawValue / 0x80 % 2 = 1)

end RefCountingKind

end LoadableByAddress

set_option linter.unusedVariables false

namespace LoadableByAddress
namespace Pure

theorem sizeOf_getAsSILFunctionType {t : SILType} {fn : SILFunctionType}
    (h : t.getAsSILFunctionType = some fn) : sizeOf t.ast = 1 + sizeOf fn := by
  cases t with
  | mk ast cat =>
    cases ast <;> simp [SILType.getAsSILFunctionType] at h
    subst h; simp

theorem sizeOf_getOptionalObjectType {t o : SILType}
    (h : t.getOptionalObjectType = some o) : sizeOf t.ast = 1 + sizeOf o.ast := by
  cases t with
  | mk ast cat =>
    cases ast <;> simp [SILType.getOptionalObjectType] at h
    subst h; simp

theorem sizeOf_getAsTupleType {t : SILType} {elts : TupleTypeElts}
    (h : t.getAsTupleType = some elts) : sizeOf t.ast = 1 + sizeOf elts := by
  cases t with
  | mk ast cat =>
    cases ast <;> simp [SILType.getAsTupleType] at h
    subst h; simp

theorem sizeOf_getNonOptionalType (t : SILType) :
    sizeOf (getNonOptionalType t).ast ≤ sizeOf t.ast := by
  unfold getNonOptionalType
  split
  · next o h => have := sizeOf_getOptionalObjectType h; omega
  · exact Nat.le_refl _


theorem sizeOf_parameterInfos (fn : SILFunctionType) : sizeOf fn.parameterInfos < sizeOf fn := by
  cases fn; simp [SILFunctionType.parameterInfos]; omega

theorem sizeOf_yieldInfos (fn : SILFunctionType) : sizeOf fn.yieldInfos < sizeOf fn := by
  cases fn; simp [SILFunctionType.yieldInfos]; omega

theorem sizeOf_resultInfos (fn : SILFunctionType) : sizeOf fn.resultInfos + 3 ≤ sizeOf fn := by
  cases fn with
  | mk s e k c ps ys rs er p i w =>
    cases e; cases k <;> simp [SILFunctionType.resultInfos] <;> omega

theorem sizeOf_ofList_map_results :
    ∀ rs : ResultInfos, sizeOf (TupleTypeElts.ofList (rs.toList.map (fun r => (⟨r.type, 0⟩ : TupleTypeElt))))
      ≤ sizeOf rs
  | .nil => by simp [ResultInfos.toList, TupleTypeElts.ofList]
  | .cons t c rest => by
    have ih := sizeOf_ofList_map_results rest
    simp [ResultInfos.toList, TupleTypeElts.ofList]; omega

theorem sizeOf_getAllResultsInterfaceType (fn : SILFunctionType) :
    sizeOf fn.getAllResultsInterfaceType.ast < sizeOf fn := by
  have h3 := sizeOf_resultInfos fn
  have h4 := sizeOf_ofList_map_results fn.resultInfos
  unfold SILFunctionType.getAllResultsInterfaceType SILFunctionType.getResults
  cases hrs : fn.resultInfos with
  | nil => simp [ResultInfos.toList, SILType.getPrimitiveObjectType]; rw [hrs] at h3; simp at h3; omega
  | cons t c rest =>
    rw [hrs] at h3 h4
    cases rest with
    | nil => simp [ResultInfos.toList, SILType.getPrimitiveObjectType]; simp at h3; omega
    | cons t2 c2 rest2 =>
      simp only [ResultInfos.toList, SILType.getPrimitiveObjectType] at h4 ⊢
      simp at h3 h4 ⊢
      omega

theorem sizeOf_singleResult {fn : SILFunctionType} {r : SILResultInfo}
    (h : fn.getResults = [r]) : sizeOf r.type < sizeOf fn := by
  have h3 := sizeOf_resultInfos fn
  unfold SILFunctionType.getResults at h
  cases hrs : fn.resultInfos with
  | nil => rw [hrs] at h; simp [ResultInfos.toList] at h
  | cons t c rest =>
    rw [hrs] at h h3
    simp [ResultInfos.toList] at h
    obtain ⟨h1, h2⟩ := h
    subst h1
    simp at h3 ⊢
    omega

@[simp] theorem SILParameterInfo.param_storage_ast (p : SILParameterInfo) :
    p.getSILStorageInterfaceType.ast = p.type := by
  unfold SILParameterInfo.getSILStorageInterfaceType
  split <;> rfl

@[simp] theorem SILResultInfo.result_storage_ast (r : SILResultInfo) :
    r.getSILStorageInterfaceType.ast = r.type := by
  unfold SILResultInfo.getSILStorageInterfaceType
  split <;> rfl

mutual
/-- The transform of `getNewSILType` read without the cache. -/
def getNewSILType (Mod : IRGenModule) (GenericEnv : Option GenericEnvironment)
    (storageType : SILType) : Option SILType :=
  let nonOptionalType := getNonOptionalType storageType
  if nonOptionalType.getAsTupleType.isSome then
    match getNewTupleType Mod GenericEnv nonOptionalType storageType with
    | none => none
    | some newSILType =>
      match isLargeLoadableType GenericEnv newSILType Mod with
      | .error _ => none
      | .ok large => some (if large then newSILType.getAddressType else newSILType)
  else
    match getNewOptionalFunctionType Mod GenericEnv storageType with
    | none => none
    | some newSILType =>
      if newSILType ≠ storageType then some newSILType
      else
        match h : storageType.getAsSILFunctionType with
        | some fnType =>
          match shouldTransformFunctionType Mod GenericEnv fnType with
          | none => none
          | some true =>
            match getNewSILFunctionType Mod GenericEnv fnType with
            | none => none
            | some newFnType =>
              some (SILType.getPrimitiveType (.function newFnType) storageType.getCategory)
          | some false => some newSILType
        | none =>
          match isLargeLoadableType GenericEnv storageType Mod with
          | .error _ => none
          | .ok true => some storageType.getAddressType
          | .ok false => some newSILType
termination_by 10 * sizeOf storageType.ast + 5
decreasing_by
  all_goals simp_wf
  all_goals first
    | omega
    | (have hsz := sizeOf_getNonOptionalType storageType; omega)
    | (have hsz := sizeOf_getAsSILFunctionType h; omega)

/-- The transform of `getNewTupleType` read without the cache. -/
def getNewTupleType (Mod : IRGenModule) (GenericEnv : Option GenericEnvironment)
    (nonOptionalType storageType : SILType) : Option SILType :=
  match h : nonOptionalType.getAsTupleType with
  | none => none
  | some origType =>
    match newTupleElems Mod GenericEnv origType with
    | none => none
    | some newElems =>
      let canType := CanType.tuple (TupleTypeElts.ofList newElems)
      let newSILType := SILType.getPrimitiveObjectType canType
      let newSILType1 :=
        if nonOptionalType.isAddress then newSILType.getAddressType else newSILType
      let newSILType2 :=
        if nonOptionalType ≠ storageType then SILType.getOptionalType newSILType1
        else newSILType1
      let newSILType3 :=
        if storageType.isAddress then newSILType2.getAddressType else newSILType2
      some newSILType3
termination_by 10 * sizeOf nonOptionalType.ast + 4
decreasing_by
  all_goals simp_wf
  have := sizeOf_getAsTupleType h; omega

/-- The loop of `getNewTupleType` over the elements. -/
def newTupleElems (Mod : IRGenModule) (GenericEnv : Option GenericEnvironment)
    (elts : TupleTypeElts) : Option (List TupleTypeElt) :=
  match elts with
  | .nil => some []
  | .cons t name rest =>
    match getNewSILType Mod GenericEnv (SILType.getPrimitiveObjectType t) with
    | none => none
    | some newElem =>
      match newTupleElems Mod GenericEnv rest with
      | none => none
      | some newRest => some (⟨newElem.getASTType, name⟩ :: newRest)
termination_by 10 * sizeOf elts + 9
decreasing_by
  all_goals simp_wf
  all_goals simp [SILType.getPrimitiveObjectType]
  all_goals omega

/-- The transform of `getNewOptionalFunctionType` read without the cache. -/
def getNewOptionalFunctionType (Mod : IRGenModule) (GenericEnv : Option GenericEnvironment)
    (storageType : SILType) : Option SILType :=
  match h1 : storageType.getOptionalObjectType with
  | some objectType =>
    match h2 : objectType.getAsSILFunctionType with
    | some fnType =>
      match shouldTransformFunctionType Mod GenericEnv fnType with
      | none => none
      | some true =>
        match getNewSILFunctionType Mod GenericEnv fnType with
        | none => none
        | some newFnType =>
          some (SILType.getOptionalType
            (SILType.getPrimitiveType (.function newFnType) storageType.getCategory))
      | some false => some storageType
    | none => some storageType
  | none => some storageType
termination_by 10 * sizeOf storageType.ast + 3
decreasing_by
  all_goals simp_wf
  all_goals have := sizeOf_getOptionalObjectType h1
  all_goals have := sizeOf_getAsSILFunctionType h2
  all_goals omega

/-- The answer of `shouldTransformFunctionType` read without the cache. -/
def shouldTransformFunctionType (Mod : IRGenModule) (env0 : Option GenericEnvironment)
    (fnType : SILFunctionType) : Option Bool :=
  let env :=
    if fnType.getPatternSubstitutions.isSome then getSubstGenericEnvironment fnType
    else env0
  match shouldTransformResults Mod env fnType with
  | none => none
  | some true => some true
  | some false =>
    match anyParameter Mod env fnType.parameterInfos with
    | none => none
    | some true => some true
    | some false =>
      match anyYield Mod env fnType.yieldInfos with
      | none => none
      | some true => some true
      | some false => some false
termination_by 10 * sizeOf fnType + 8
decreasing_by
  all_goals simp_wf
  all_goals first
    | omega
    | (have hsz := sizeOf_parameterInfos fnType; have hsz2 := sizeOf_yieldInfos fnType; omega)

/-- The loop of `shouldTransformFunctionType` over the parameters. -/
def anyParameter (Mod : IRGenModule) (env : Option GenericEnvironment)
    (ps : ParameterInfos) : Option Bool :=
  match ps with
  | .nil => some false
  | .cons t c d rest =>
    match shouldTransformParameter Mod env ⟨t, c, d⟩ with
    | none => none
    | some true => some true
    | some false => anyParameter Mod env rest
termination_by 10 * sizeOf ps + 9
decreasing_by
  all_goals simp_wf
  all_goals omega

/-- The loop of `shouldTransformFunctionType` over the yields. -/
def anyYield (Mod : IRGenModule) (env : Option GenericEnvironment)
    (ys : YieldInfos) : Option Bool :=
  match ys with
  | .nil => some false
  | .cons t c rest =>
    match shouldTransformParameter Mod env (SILYieldInfo.toParameterInfo ⟨t, c⟩) with
    | none => none
    | some true => some true
    | some false => anyYield Mod env rest
termination_by 10 * sizeOf ys + 9
decreasing_by
  all_goals simp_wf
  all_goals simp [SILYieldInfo.toParameterInfo]
  all_goals omega

/-- The answer of `shouldTransformParameter` read without the cache. -/
def shouldTransformParameter (Mod : IRGenModule) (env : Option GenericEnvironment)
    (param : SILParameterInfo) : Option Bool :=
  match getNewParameter Mod env param with
  | none => none
  | some newParam => some (decide (param ≠ newParam))
termination_by 10 * sizeOf param.type + 7
decreasing_by
  all_goals simp_wf

/-- The answer of `containsDifferentFunctionSignature` read without the cache. -/
def containsDifferentFunctionSignature (Mod : IRGenModule)
    (genEnv : Option GenericEnvironment) (storageType newSILType : SILType) :
    Option Bool :=
  if storageType = newSILType then some false
  else if (getInnerFunctionType storageType).isSome then some true
  else
    match h : (getNonOptionalType storageType).getAsTupleType with
    | some origType => anyElemDiffers Mod genEnv origType
    | none => some false
termination_by 10 * sizeOf storageType.ast + 6
decreasing_by
  all_goals simp_wf
  have := sizeOf_getAsTupleType h
  have := sizeOf_getNonOptionalType storageType
  omega

/-- The loop of `containsDifferentFunctionSignature` over the elements. -/
def anyElemDiffers (Mod : IRGenModule) (genEnv : Option GenericEnvironment)
    (elts : TupleTypeElts) : Option Bool :=
  match elts with
  | .nil => some false
  | .cons t _ rest =>
    match getNewSILType Mod genEnv (SILType.getPrimitiveObjectType t) with
    | none => none
    | some newElem =>
      match containsDifferentFunctionSignature Mod genEnv
          (SILType.getPrimitiveObjectType t) newElem with
      | none => none
      | some true => some true
      | some false => anyElemDiffers Mod genEnv rest
termination_by 10 * sizeOf elts + 9
decreasing_by
  all_goals simp_wf
  all_goals simp [SILType.getPrimitiveObjectType]
  all_goals omega

/-- The transform of `getNewResults` read without the cache. -/
def getNewResults (Mod : IRGenModule) (GenericEnv : Option GenericEnvironment)
    (fnType : SILFunctionType) : Option (List SILResultInfo) :=
  newResultElems Mod GenericEnv (modNonFuncTypeResultType GenericEnv fnType Mod)
    fnType.resultInfos
termination_by 10 * sizeOf fnType + 7
decreasing_by
  all_goals simp_wf
  have := sizeOf_resultInfos fnType; omega

/-- The loop of `getNewResults` over the results; `modNonFunc` is the answer
of `modNonFuncTypeResultType` for the signature. -/
def newResultElems (Mod : IRGenModule) (GenericEnv : Option GenericEnvironment)
    (modNonFunc : Except Abort Bool) (rs : ResultInfos) :
    Option (List SILResultInfo) :=
  match rs with
  | .nil => some []
  | .cons t c rest =>
    match getNewSILType Mod GenericEnv (SILResultInfo.getSILStorageInterfaceType ⟨t, c⟩) with
    | none => none
    | some newSILType =>
      match modNonFunc with
      | .error _ => none
      | .ok true =>
        match newResultElems Mod GenericEnv modNonFunc rest with
        | none => none
        | some newRest =>
          some (⟨newSILType.getASTType, ResultConvention.Indirect⟩ :: newRest)
      | .ok false =>
        match containsDifferentFunctionSignature Mod GenericEnv
            (SILResultInfo.getSILStorageInterfaceType ⟨t, c⟩) newSILType with
        | none => none
        | some true =>
          match newResultElems Mod GenericEnv modNonFunc rest with
          | none => none
          | some newRest => some (⟨newSILType.getASTType, c⟩ :: newRest)
        | some false =>
          match newResultElems Mod GenericEnv modNonFunc rest with
          | none => none
          | some newRest => some (⟨t, c⟩ :: newRest)
termination_by 10 * sizeOf rs + 9
decreasing_by
  all_goals simp_wf
  all_goals omega

/-- The transform of `getNewSILFunctionType` read without the cache. -/
def getNewSILFunctionType (Mod : IRGenModule) (env0 : Option GenericEnvironment)
    (fnType : SILFunctionType) : Option SILFunctionType :=
  if !modifiableFunction fnType then some fnType
  else
    let env :=
      if fnType.getPatternSubstitutions.isSome then getSubstGenericEnvironment fnType
      else env0
    match newParameterElems Mod env fnType.parameterInfos with
    | none => none
    | some newParams =>
      match newYieldElems Mod env fnType.yieldInfos with
      | none => none
      | some newYields =>
        match getNewResults Mod env fnType with
        | none => none
        | some newResults =>
          some (SILFunctionType.get
            fnType.getInvocationGenericSignature
            fnType.getExtInfo
            fnType.getCoroutineKind
            fnType.getCalleeConvention
            newParams
            newYields
            newResults
            fnType.getOptionalErrorResult
            fnType.getPatternSubstitutions
            fnType.getInvocationSubstitutions
            fnType.getWitnessMethodConformanceOrInvalid)
termination_by 10 * sizeOf fnType + 8
decreasing_by
  all_goals simp_wf
  all_goals first
    | omega
    | (have hsz := sizeOf_parameterInfos fnType; have hsz2 := sizeOf_yieldInfos fnType; omega)

/-- The answer of `shouldTransformResults` read without the cache. -/
def shouldTransformResults (Mod : IRGenModule) (genEnv : Option GenericEnvironment)
    (loweredTy : SILFunctionType) : Option Bool :=
  if !modifiableFunction loweredTy then some false
  else if loweredTy.getNumResults ≠ 1 then
    match getNewSILType Mod genEnv loweredTy.getAllResultsInterfaceType with
    | none => none
    | some newResultType =>
      some (decide (loweredTy.getAllResultsInterfaceType ≠ newResultType))
  else
    match h : loweredTy.getResults with
    | [singleResult] =>
      match getNewSILType Mod genEnv singleResult.getSILStorageInterfaceType with
      | none => none
      | some newResultStorageType =>
        if singleResult.getSILStorageInterfaceType ≠ newResultStorageType then some true
        else
          match modNonFuncTypeResultType genEnv loweredTy Mod with
          | .error _ => none
          | .ok b => some b
    | _ => none
termination_by 10 * sizeOf loweredTy + 7
decreasing_by
  all_goals simp_wf
  all_goals first
    | omega
    | (have hsz := sizeOf_getAllResultsInterfaceType loweredTy; omega)
    | (have hsz := sizeOf_singleResult h; omega)

/-- The transform of `getNewParameter` read without the cache. -/
def getNewParameter (Mod : IRGenModule) (env : Option GenericEnvironment)
    (param : SILParameterInfo) : Option SILParameterInfo :=
  match getNewOptionalFunctionType Mod env param.getSILStorageInterfaceType with
  | none => none
  | some newOptFuncType =>
    if newOptFuncType ≠ param.getSILStorageInterfaceType then
      some (param.getWithInterfaceType newOptFuncType.getASTType)
    else
      match h : param.getSILStorageInterfaceType.getAsSILFunctionType with
      | some paramFnType =>
        match shouldTransformFunctionType Mod env paramFnType with
        | none => none
        | some true =>
          match getNewSILFunctionType Mod env paramFnType with
          | none => none
          | some newFnType => some (param.getWithInterfaceType (.function newFnType))
        | some false => some param
      | none =>
        match isLargeLoadableType env param.getSILStorageInterfaceType Mod with
        | .error _ => none
        | .ok true =>
          if param.getConvention = ParameterConvention.Direct_Guaranteed then
            some ⟨param.getSILStorageInterfaceType.getASTType,
              ParameterConvention.Indirect_In_Guaranteed, param.getDifferentiability⟩
          else
            some ⟨param.getSILStorageInterfaceType.getASTType,
              ParameterConvention.Indirect_In, param.getDifferentiability⟩
        | .ok false =>
          match getNewSILType Mod env param.getSILStorageInterfaceType with
          | none => none
          | some newType =>
            some ⟨newType.getASTType, param.getConvention, param.getDifferentiability⟩
termination_by 10 * sizeOf param.type + 6
decreasing_by
  all_goals simp_wf
  all_goals first
    | omega
    | (have h3 := sizeOf_getAsSILFunctionType h
       have h4 := SILParameterInfo.param_storage_ast param
       rw [h4] at h3
       omega)

/-- The loop of `getNewParameters`. -/
def newParameterElems (Mod : IRGenModule) (env : Option GenericEnvironment)
    (ps : ParameterInfos) : Option (List SILParameterInfo) :=
  match ps with
  | .nil => some []
  | .cons t c d rest =>
    match getNewParameter Mod env ⟨t, c, d⟩ with
    | none => none
    | some newParam =>
      match newParameterElems Mod env rest with
      | none => none
      | some newRest => some (newParam :: newRest)
termination_by 10 * sizeOf ps + 9
decreasing_by
  all_goals simp_wf
  all_goals omega

/-- The loop of `getNewYields`. -/
def newYieldElems (Mod : IRGenModule) (env : Option GenericEnvironment)
    (ys : YieldInfos) : Option (List SILYieldInfo) :=
  match ys with
  | .nil => some []
  | .cons t c rest =>
    match getNewParameter Mod env (SILYieldInfo.toParameterInfo ⟨t, c⟩) with
    | none => none
    | some newYieldAsParam =>
      match newYieldElems Mod env rest with
      | none => none
      | some newRest =>
        some (⟨newYieldAsParam.getInterfaceType, newYieldAsParam.getConvention⟩ :: newRest)
termination_by 10 * sizeOf ys + 9
decreasing_by
  all_goals simp_wf
  all_goals simp [SILYieldInfo.toParameterInfo]
  all_goals omega
end

end Pure
end LoadableByAddress

namespace LoadableByAddress

/-- The type `isLargeLoadableType` asks the oracle about: the type itself, or,
when it has type parameters, its image in the generic environment (line 111 to
114). -/
def resolveInContext (Mod : IRGenModule) (GenericEnv : Option GenericEnvironment)
    (canType : CanType) : CanType :=
  if Mod.hasTypeParameter canType then
    match GenericEnv with
    | some env => Mod.mapTypeIntoContext env canType
    | none => canType
  else canType

/-- The generic environment the types of a signature are transformed in: the
environment of the substituted generic signature when the signature has
pattern substitutions, the environment of the caller otherwise (line 154 and
line 291). -/
def signatureEnvironment (env : Option GenericEnvironment) (fnType : SILFunctionType) :
    Option GenericEnvironment :=
  if fnType.getPatternSubstitutions.isSome then getSubstGenericEnvironment fnType
  else env

/-! ## The refinement relation between the mapper and its cache-free reading -/

section
open LargeSILTypeMapper

/-- Every entry of the cache holds the value the transform computes without a
cache. -/
def Valid (Mod : IRGenModule) (M : LargeSILTypeMapper) : Prop :=
  ∀ env t v, M.oldToNewTypeMap.find (env, t) = some v →
    Pure.getNewSILType Mod env t = some v

/-- Every entry of the first cache is found, with the same value, in the
second. -/
def Extends (M M2 : LargeSILTypeMapper) : Prop :=
  ∀ k v, M.oldToNewTypeMap.find k = some v → M2.oldToNewTypeMap.find k = some v

/-- The outcome `r` of a mapper function started on the cache `M` is the
outcome `p` of its cache-free reading, and leaves a cache that is again valid
and extends `M`. -/
def Refines {α : Type} (Mod : IRGenModule) (M : LargeSILTypeMapper)
    (r : Except Abort (α × LargeSILTypeMapper)) (p : Option α) : Prop :=
  match p with
  | some v => ∃ M2, r = .ok (v, M2) ∧ Valid Mod M2 ∧ Extends M M2
  | none => r = .error .assertion


/-- At fuel `n`, every mapper function whose argument is small enough for the
fuel refines its cache-free reading. -/
structure RefinesAt (Mod : IRGenModule) (n : Nat) : Prop where
  type : ∀ env t M, Valid Mod M → 10 * sizeOf t.ast + 5 < n →
    Refines Mod M (getNewSILType Mod n env t M) (Pure.getNewSILType Mod env t)
  tuple : ∀ env t s M, Valid Mod M → 10 * sizeOf t.ast + 4 < n →
    Refines Mod M (getNewTupleType Mod n env t s M) (Pure.getNewTupleType Mod env t s)
  optFn : ∀ env t M, Valid Mod M → 10 * sizeOf t.ast + 3 < n →
    Refines Mod M (getNewOptionalFunctionType Mod n env t M)
      (Pure.getNewOptionalFunctionType Mod env t)
  should : ∀ env fn M, Valid Mod M → 10 * sizeOf fn + 8 < n →
    Refines Mod M (shouldTransformFunctionType Mod n env fn M)
      (Pure.shouldTransformFunctionType Mod env fn)
  shouldParam : ∀ env p M, Valid Mod M → 10 * sizeOf p.type + 7 < n →
    Refines Mod M (shouldTransformParameter Mod n env p M)
      (Pure.shouldTransformParameter Mod env p)
  contains : ∀ env t t2 M, Valid Mod M → 10 * sizeOf t.ast + 6 < n →
    Refines Mod M (containsDifferentFunctionSignature Mod n env t t2 M)
      (Pure.containsDifferentFunctionSignature Mod env t t2)
  results : ∀ env fn M, Valid Mod M → 10 * sizeOf fn + 7 < n →
    Refines Mod M (getNewResults Mod n env fn M) (Pure.getNewResults Mod env fn)
  fnType : ∀ env fn M, Valid Mod M → 10 * sizeOf fn + 8 < n →
    Refines Mod M (getNewSILFunctionType Mod n env fn M)
      (Pure.getNewSILFunctionType Mod env fn)
  shouldResults : ∀ env fn M, Valid Mod M → 10 * sizeOf fn + 7 < n →
    Refines Mod M (shouldTransformResults Mod n env fn M)
      (Pure.shouldTransformResults Mod env fn)
  param : ∀ env p M, Valid Mod M → 10 * sizeOf p.type + 6 < n →
    Refines Mod M (getNewParameter Mod n env p M) (Pure.getNewParameter Mod env p)
  params : ∀ env fn M, Valid Mod M → 10 * sizeOf fn + 7 < n →
    Refines Mod M (getNewParameters Mod n env fn M)
      (Pure.newParameterElems Mod env fn.parameterInfos)
  yields : ∀ env fn M, Valid Mod M → 10 * sizeOf fn + 7 < n →
    Refines Mod M (getNewYields Mod n env fn M) (Pure.newYieldElems Mod env fn.yieldInfos)

end

/-! ## Sample inputs

A toy target: every struct `d` occupies `d` machine words, a function value
two, an optional one more than its payload, and a value whose words exceed
four is passed indirectly. -/

mutual
/-- The words a value of the type occupies on the toy target. -/
def wordCount : CanType → Nat
  | .nominal _ d => d
  | .metatype _ => 1
  | .optional t => wordCount t + 1
  | .tuple elts => wordCountElts elts
  | .function _ => 2
  | .scalar _ => 1
/-- The words of the elements of a tuple together. -/
def wordCountElts : TupleTypeElts → Nat
  | .nil => 0
  | .cons t _ rest => wordCount t + wordCountElts rest
end

/-- The toy target: no type has a type parameter, and a value of more than four
words requires indirect passing. -/
def toyModule : IRGenModule :=
  ⟨fun t => decide (4 < wordCount t), fun _ => false, fun _ t => t, fun _ => true⟩

/-- A target whose oracle requires indirect passing for every type. -/
def allIndirectModule : IRGenModule :=
  ⟨fun _ => true, fun _ => false, fun _ t => t, fun _ => true⟩

/-- A struct of eight words: large on the toy target. -/
def BigStruct : CanType := .nominal .Struct 8

/-- A struct of one word: small on the toy target. -/
def SmallStruct : CanType := .nominal .Struct 1

/-- The signature of a native, non-generic function with the given parameters
and results. -/
def nativeSignature (params : List SILParameterInfo) (results : List SILResultInfo) :
    SILFunctionType :=
  SILFunctionType.get none ⟨.Swift, 0⟩ .None .Direct_Guaranteed params [] results none
    none none none

/-- The signature of a foreign (C) function with the given parameters and
results. -/
def foreignSignature (params : List SILParameterInfo) (results : List SILResultInfo) :
    SILFunctionType :=
  SILFunctionType.get none ⟨.C, 0⟩ .None .Direct_Unowned params [] results none
    none none none

/-- The closure type `(BigStruct) -> ()`. -/
def bigConsumer : SILFunctionType :=
  nativeSignature [⟨BigStruct, .Direct_Owned, .DifferentiableOrNotApplicable⟩] []

/-- The closure type `(@in BigStruct) -> ()`: the large parameter passed
indirectly. -/
def bigConsumerIndirect : SILFunctionType :=
  nativeSignature [⟨BigStruct, .Indirect_In, .DifferentiableOrNotApplicable⟩] []

/-- The type `Optional<((BigStruct) -> (), BigStruct)>`: eleven words on the
toy target. -/
def optionalPair : CanType :=
  .optional (.tuple (.cons (.function bigConsumer) 0 (.cons BigStruct 0 .nil)))

/-- The type `Optional<((@in BigStruct) -> (), BigStruct)>`. -/
def optionalPairIndirect : CanType :=
  .optional (.tuple (.cons (.function bigConsumerIndirect) 0 (.cons BigStruct 0 .nil)))

/-- The closure type `() -> ()`. -/
def thunk : SILFunctionType := nativeSignature [] []

/-- The function `f(x: S) -> S { return x }` for the struct `S` of declaration
`d`: one block, with the argument `x` (number 0) and the instruction `return
x` (number 1). -/
def returnsItsArgument (d : Nat) (hasOwnership : Bool) : SILFunction :=
  { name := 0
    loweredType := nativeSignature
      [⟨.nominal .Struct d, .Direct_Owned, .DifferentiableOrNotApplicable⟩]
      [⟨.nominal .Struct d, .Owned⟩]
    genericEnvironment := none
    hasOwnership := hasOwnership
    blocks := [⟨0, [⟨0, ⟨.nominal .Struct d, .Object⟩, .Owned, some "x"⟩],
      [⟨1, .ReturnInst, [.argument 0], none, [], 0⟩]⟩]
    nextId := 2 }

/-- The body `f($return_value: *S, x: *S) { copy_addr [take] x to
[initialization] $return_value; %5 = tuple (); return %5 }`, under the
signature `loweredType`. -/
def returnsItsArgumentByAddress (d : Nat) (hasOwnership : Bool)
    (loweredType : SILFunctionType) : SILFunction :=
  { name := 0
    loweredType := loweredType
    genericEnvironment := none
    hasOwnership := hasOwnership
    blocks := [⟨0,
      [⟨3, ⟨.nominal .Struct d, .Address⟩, .None, some "$return_value"⟩,
        ⟨2, ⟨.nominal .Struct d, .Address⟩, .None, some "x"⟩],
      [⟨4, .CopyAddrInst true true, [.argument 2, .argument 3], none, [], 0⟩,
        ⟨5, .TupleInst, [], some ⟨.tuple .nil, .Object⟩, [], 0⟩,
        ⟨6, .ReturnInst, [.instruction 5], none, [], 0⟩]⟩]
    nextId := 7 }

/-- The signature `(@in S) -> @out S` for the struct `S` of declaration `d`. -/
def indirectSignature (d : Nat) : SILFunctionType :=
  nativeSignature [⟨.nominal .Struct d, .Indirect_In, .DifferentiableOrNotApplicable⟩]
    [⟨.nominal .Struct d, .Indirect⟩]

end LoadableByAddress

namespace LoadableByAddress

/-! ## Sequences of queries -/

/-- A sequence of `getNewSILType` queries (context and type) made one after the
other against one cache: the types returned, in order, and the cache the last
query leaves. -/
def LargeSILTypeMapper.getNewSILTypes (Mod : IRGenModule) (fuel : Nat) :
    List (Option GenericEnvironment × SILType) → LargeSILTypeMapper →
    Except Abort (List SILType × LargeSILTypeMapper)
  | [], Mapper => .ok ([], Mapper)
  | query :: rest, Mapper =>
    match LargeSILTypeMapper.getNewSILType Mod fuel query.1 query.2 Mapper with
    | .error e => .error e
    | .ok (newType, Mapper1) =>
      match LargeSILTypeMapper.getNewSILTypes Mod fuel rest Mapper1 with
      | .error e => .error e
      | .ok (newTypes, Mapper2) => .ok (newType :: newTypes, Mapper2)

/-! ## Sample functions -/

/-- The empty tuple type `()`, in value form. -/
def emptyTupleType : SILType := ⟨.tuple .nil, .Object⟩

/-- The native function `f(x: BigStruct, y: BigStruct) { %2 = struct $Pair (x,
y); %3 = tuple (); return %3 }`: the instruction number 2, of a kind the pass
does not name, has both arguments as operands. -/
def usesTwoLargeArguments : SILFunction :=
  { name := 2
    loweredType := nativeSignature
      [⟨BigStruct, .Direct_Owned, .DifferentiableOrNotApplicable⟩,
        ⟨BigStruct, .Direct_Owned, .DifferentiableOrNotApplicable⟩] []
    genericEnvironment := none
    hasOwnership := false
    blocks := [⟨0, [⟨0, ⟨BigStruct, .Object⟩, .Owned, some "x"⟩,
        ⟨1, ⟨BigStruct, .Object⟩, .Owned, some "y"⟩],
      [⟨2, .Other 0, [.argument 0, .argument 1], some ⟨.nominal .Struct 16, .Object⟩, [], 0⟩,
        ⟨3, .TupleInst, [], some emptyTupleType, [], 0⟩,
        ⟨4, .ReturnInst, [.instruction 3], none, [], 0⟩]⟩]
    nextId := 5 }

/-- The worklists that the scan `mapValueStorage` fills by visitors that add
the instruction once and return, or through a set: all but `instsToMod`,
`debugInstsToMod` and `destroyValueInstsToMod`. -/
def StructLoweringState.onceWorklists (pass : StructLoweringState) : List (List Nat) :=
  [pass.applies, pass.methodInstsToMod, pass.storeInstsToMod, pass.switchEnumInstsToMod,
    pass.structExtractInstsToMod, pass.tupleInstsToMod, pass.allocStackInstsToMod,
    pass.pointerToAddrkInstsToMod, pass.retainInstsToMod, pass.releaseInstsToMod,
    pass.resultTyInstsToMod, pass.modReturnInsts, pass.modYieldInsts]

/-- The worklists that the scan fills in a loop over the operands of the
instruction, once for each operand that is a converted large value. -/
def StructLoweringState.perOperandWorklists (pass : StructLoweringState) : List (List Nat) :=
  [pass.instsToMod, pass.debugInstsToMod, pass.destroyValueInstsToMod]

/-- The number of operands of an instruction that are converted large values
(members of `largeLoadableArgs`). -/
def StructLoweringState.countLargeOperands (pass : StructLoweringState)
    (instr : SILInstruction) : Nat :=
  (instr.operands.filter (fun operand => decide (operand ∈ pass.largeLoadableArgs))).length

/-- The instructions the scan visits: those of the blocks in reverse post
order. -/
def SILFunction.scannedInstructions (F : SILFunction) : List SILInstruction :=
  (getReversePostOrder F).flatMap (fun BB => BB.instructions)

/-- The worklist `w2` is the worklist `w1` with the identity `id` added at most
once, at its end. -/
def AddedOnce (id : Nat) (w1 w2 : List Nat) : Prop := w2 = w1 ∨ w2 = w1 ++ [id]

/-- The worklist `w2` is the worklist `w1` with the identity `id` added at its
end, at most `n` times. -/
def AddedTimes (id n : Nat) (w1 w2 : List Nat) : Prop :=
  ∃ k, k ≤ n ∧ w2 = w1 ++ List.replicate k id

/-- What the visit of the instruction `instr` by the scan may do to the state
`pass`: the function, the converted values and the function exits stay, the
mapper may change, and the identity of `instr` is added to the worklists. -/
def ScanStep (instr : SILInstruction) (pass pass2 : StructLoweringState) : Prop :=
  pass2.F = pass.F ∧ pass2.largeLoadableArgs = pass.largeLoadableArgs ∧
  pass2.returnInsts = pass.returnInsts ∧
  List.Forall₂ (AddedOnce instr.id) pass.onceWorklists pass2.onceWorklists ∧
  List.Forall₂ (AddedTimes instr.id (pass.countLargeOperands instr))
    pass.perOperandWorklists pass2.perOperandWorklists

/-- The worklist `w2` is the worklist `w1` followed by identities out of `ids`,
none of them twice. -/
def AddedNodup (ids : List Nat) (w1 w2 : List Nat) : Prop :=
  ∃ added, w2 = w1 ++ added ∧ added.Nodup ∧ ∀ a ∈ added, a ∈ ids

/-- The worklist `w2` is the worklist `w1` followed by identities of the
instructions `instrs`, each at most as often as the instruction has operands
that are converted large values. -/
def AddedPerOperand (pass : StructLoweringState) (instrs : List SILInstruction)
    (w1 w2 : List Nat) : Prop :=
  ∃ added, w2 = w1 ++ added ∧ (∀ a ∈ added, a ∈ instrs.map (fun i => i.id)) ∧
    ∀ instr ∈ instrs, added.count instr.id ≤ pass.countLargeOperands instr

/-- The state of the pass over `usesTwoLargeArguments` on the toy target when
the scan starts: after `mapReturnInstrs`, `convertIndirectFunctionArgs` and
`convertApplyResults`, as in `allocateLoadableStorage`. -/
def usesTwoLargeArgumentsBeforeScan : Except Abort StructLoweringState :=
  match LoadableStorageAllocation.convertIndirectFunctionArgs
      (LargeValueVisitor.mapReturnInstrs
        (StructLoweringState.new usesTwoLargeArguments LargeSILTypeMapper.new))
      toyModule 1000 with
  | .error e => .error e
  | .ok pass => LoadableStorageAllocation.convertApplyResults pass toyModule 1000

/-- The foreign (C) function `f(x: BigStruct) { %1 = use(x); %2 = tuple ();
return %2 }`. -/
def foreignTakesBig : SILFunction :=
  { name := 3
    loweredType := foreignSignature
      [⟨BigStruct, .Direct_Unowned, .DifferentiableOrNotApplicable⟩] []
    genericEnvironment := none
    hasOwnership := false
    blocks := [⟨0, [⟨0, ⟨BigStruct, .Object⟩, .Unowned, some "x"⟩],
      [⟨1, .Other 0, [.argument 0], none, [], 0⟩,
        ⟨2, .TupleInst, [], some emptyTupleType, [], 0⟩,
        ⟨3, .ReturnInst, [.instruction 2], none, [], 0⟩]⟩]
    nextId := 4 }

/-- The entry block of `foreignTakesClosure`. -/
def foreignTakesClosureEntry : SILBasicBlock :=
  ⟨0, [⟨0, ⟨BigStruct, .Object⟩, .Unowned, some "x"⟩,
      ⟨1, ⟨.function bigConsumer, .Object⟩, .Unowned, some "g"⟩],
    [⟨2, .Other 0, [.argument 0, .argument 1], none, [], 0⟩,
      ⟨3, .TupleInst, [], some emptyTupleType, [], 0⟩,
      ⟨4, .ReturnInst, [.instruction 3], none, [], 0⟩]⟩

/-- The foreign (C) function `f(x: BigStruct, g: (BigStruct) -> ()) { %2 =
use(x, g); %3 = tuple (); return %3 }`. -/
def foreignTakesClosure : SILFunction :=
  { name := 4
    loweredType := foreignSignature
      [⟨BigStruct, .Direct_Unowned, .DifferentiableOrNotApplicable⟩,
        ⟨.function bigConsumer, .Direct_Unowned, .DifferentiableOrNotApplicable⟩] []
    genericEnvironment := none
    hasOwnership := false
    blocks := [foreignTakesClosureEntry]
    nextId := 5 }

/-- The native function `f(x: BigStruct) -> BigStruct` with the entry block
`bb0(x): return x` and a block `bb1: return x` that no branch leads to. -/
def returnsWithUnreachableBlock : SILFunction :=
  { name := 5
    loweredType := nativeSignature
      [⟨BigStruct, .Direct_Owned, .DifferentiableOrNotApplicable⟩] [⟨BigStruct, .Owned⟩]
    genericEnvironment := none
    hasOwnership := false
    blocks := [⟨0, [⟨0, ⟨BigStruct, .Object⟩, .Owned, some "x"⟩],
        [⟨1, .ReturnInst, [.argument 0], none, [], 0⟩]⟩,
      ⟨1, [], [⟨2, .ReturnInst, [.argument 0], none, [], 0⟩]⟩]
    nextId := 3 }

/-- The identities of the instructions are distinct and below the supply of
fresh identities, and the identities of the blocks are distinct. -/
def SILFunction.WellFormed (F : SILFunction) : Prop :=
  (F.allInstructions.map (fun i => i.id)).Nodup ∧
  (∀ i ∈ F.allInstructions, i.id < F.nextId) ∧
  (F.blocks.map (fun BB => BB.id)).Nodup

/-- The value `v` after the redirections `subst`, pairs of an old and a new
value, applied in order. -/
def redirectValue (subst : List (SILValue × SILValue)) (v : SILValue) : SILValue :=
  subst.foldl (fun w s => if w = s.1 then s.2 else w) v

/-- The instruction with its operands redirected. -/
def SILInstruction.redirect (subst : List (SILValue × SILValue)) (i : SILInstruction) :
    SILInstruction :=
  { i with operands := i.operands.map (redirectValue subst) }

/-- The block with the operands of its instructions redirected. -/
def SILBasicBlock.redirect (subst : List (SILValue × SILValue)) (BB : SILBasicBlock) :
    SILBasicBlock :=
  { BB with instructions := BB.instructions.map (SILInstruction.redirect subst) }

/-- The arguments out of `args` whose type contains a function signature that
the transform changes, each with the transform of its type. -/
def castedArguments (Mod : IRGenModule) (env : Option GenericEnvironment)
    (args : List SILArgument) : List (SILArgument × SILType) :=
  args.filterMap (fun arg =>
    match Pure.getNewSILType Mod env arg.type with
    | some newSILType =>
      if Pure.containsDifferentFunctionSignature Mod env arg.type newSILType = some true then
        some (arg, newSILType)
      else none
    | none => none)

/-- One `unchecked_bitwise_cast`-like reinterpretation cast for each of the
arguments, of the argument to its new type, with the identities from `n`
on. -/
def castInstructions : Nat → List (SILArgument × SILType) → List SILInstruction
  | _, [] => []
  | n, c :: rest =>
    ⟨n, .UncheckedReinterpretCastInst, [.argument c.1.id], some c.2, [], 0⟩ ::
      castInstructions (n + 1) rest

/-- The redirection of each of the arguments to its cast. -/
def castRedirections : Nat → List (SILArgument × SILType) → List (SILValue × SILValue)
  | _, [] => []
  | n, c :: rest => (.argument c.1.id, .instruction n) :: castRedirections (n + 1) rest

/-- The state of the pass over `usesTwoLargeArguments` on the toy target when
the scan starts, written out: both arguments are converted to addresses (the
new arguments 5 and 6) and stand in `largeLoadableArgs`, the exit of the
function is the return number 4, and every worklist is empty. -/
def usesTwoLargeArgumentsScanState : StructLoweringState :=
  { StructLoweringState.new
      { usesTwoLargeArguments with
        blocks := [⟨0, [⟨5, ⟨BigStruct, .Address⟩, .None, some "x"⟩,
            ⟨6, ⟨BigStruct, .Address⟩, .None, some "y"⟩],
          [⟨2, .Other 0, [.argument 5, .argument 6], some ⟨.nominal .Struct 16, .Object⟩, [], 0⟩,
            ⟨3, .TupleInst, [], some emptyTupleType, [], 0⟩,
            ⟨4, .ReturnInst, [.instruction 3], none, [], 0⟩]⟩],
        nextId := 7 }
      ⟨[((none, ⟨BigStruct, .Object⟩), ⟨BigStruct, .Address⟩)]⟩ with
    largeLoadableArgs := [.argument 5, .argument 6],
    returnInsts := [4] }

/-- The state of the pass over `usesTwoLargeArguments` after the scan of
`usesTwoLargeArgumentsScanState`, written out. -/
def usesTwoLargeArgumentsScanned : StructLoweringState :=
  { usesTwoLargeArgumentsScanState with
    instsToMod := [2, 2],
    argsToLoadedValueMap := [(.argument 5, .argument 5), (.argument 6, .argument 6)],
    Mapper := ⟨[((none, ⟨BigStruct, .Object⟩), ⟨BigStruct, .Address⟩),
      ((none, emptyTupleType), emptyTupleType)]⟩ }

/-- The state `convertIndirectFunctionPointerArgsForUnmodifiable` leaves of the
pass over `foreignTakesClosure` on the toy target, written out: the cast
number 5 of the closure argument stands first, and the instruction number 2
uses it. -/
def foreignTakesClosureConverted : StructLoweringState :=
  StructLoweringState.new
    { foreignTakesClosure with
      blocks := [⟨0, [⟨0, ⟨BigStruct, .Object⟩, .Unowned, some "x"⟩,
          ⟨1, ⟨.function bigConsumer, .Object⟩, .Unowned, some "g"⟩],
        [⟨5, .UncheckedReinterpretCastInst, [.argument 1],
            some ⟨.function bigConsumerIndirect, .Object⟩, [], 0⟩,
          ⟨2, .Other 0, [.argument 0, .instruction 5], none, [], 0⟩,
          ⟨3, .TupleInst, [], some emptyTupleType, [], 0⟩,
          ⟨4, .ReturnInst, [.instruction 3], none, [], 0⟩]⟩],
      nextId := 6 }
    ⟨[((none, ⟨BigStruct, .Object⟩), ⟨BigStruct, .Address⟩),
      ((none, emptyTupleType), emptyTupleType),
      ((none, ⟨.function bigConsumer, .Object⟩), ⟨.function bigConsumerIndirect, .Object⟩)]⟩

/-- What `getNewResults` makes of the result `r` of a signature for which
`modNonFuncTypeResultType` answers `modNonFunc`: with `newType` the transform
of the storage type of the result, the result becomes indirect, of the type of
`newType`, when the answer is yes; it takes the type of `newType` and keeps
its convention when the answer is no and `containsDifferentFunctionSignature`
answers yes; it stays as it is otherwise. -/
def NewResult (Mod : IRGenModule) (env : Option GenericEnvironment)
    (modNonFunc : Except Abort Bool) (r r2 : SILResultInfo) : Prop :=
  ∃ newType, Pure.getNewSILType Mod env r.getSILStorageInterfaceType = some newType ∧
    ((modNonFunc = .ok true ∧ r2 = ⟨newType.getASTType, ResultConvention.Indirect⟩) ∨
      (modNonFunc = .ok false ∧
        Pure.containsDifferentFunctionSignature Mod env r.getSILStorageInterfaceType newType =
          some true ∧
        r2 = ⟨newType.getASTType, r.convention⟩) ∨
      (modNonFunc = .ok false ∧
        Pure.containsDifferentFunctionSignature Mod env r.getSILStorageInterfaceType newType =
          some false ∧
        r2 = r))

/-- What `getNewYields` makes of the yield `y`: the transform of the yield read
as a parameter, without the differentiability flag. -/
def NewYield (Mod : IRGenModule) (env : Option GenericEnvironment) (y y2 : SILYieldInfo) :
    Prop :=
  ∃ newParam, Pure.getNewParameter Mod env y.toParameterInfo = some newParam ∧
    y2 = ⟨newParam.getInterfaceType, newParam.getConvention⟩

/-- The native signature `(BigStruct) -> ((BigStruct) -> (), BigStruct)`, with
the parameter passed `Direct_Guaranteed`: two results, one of them large. -/
def returnsClosureAndBig : SILFunctionType :=
  nativeSignature [⟨BigStruct, .Direct_Guaranteed, .DifferentiableOrNotApplicable⟩]
    [⟨.function bigConsumer, .Owned⟩, ⟨BigStruct, .Owned⟩]

/-- The transform of `returnsClosureAndBig`: the parameter is indirect, the
closure result takes its large parameter indirectly, and the large result is
as it was. -/
def returnsClosureAndBigTransformed : SILFunctionType :=
  nativeSignature [⟨BigStruct, .Indirect_In_Guaranteed, .DifferentiableOrNotApplicable⟩]
    [⟨.function bigConsumerIndirect, .Owned⟩, ⟨BigStruct, .Owned⟩]

/-- A native coroutine signature with a small and a large parameter, a large
yield, a large result and an error result. -/
def yieldsBig : SILFunctionType :=
  SILFunctionType.get none ⟨.Swift, 3⟩ .YieldOnce .Direct_Guaranteed
    [⟨SmallStruct, .Direct_Unowned, .DifferentiableOrNotApplicable⟩,
      ⟨BigStruct, .Direct_Owned, .DifferentiableOrNotApplicable⟩]
    [⟨BigStruct, .Direct_Guaranteed⟩] [⟨BigStruct, .Owned⟩] (some ⟨SmallStruct, .Owned⟩)
    none none none

/-- The transform of `yieldsBig`: the large parameter, the large yield and the
large result are indirect. -/
def yieldsBigTransformed : SILFunctionType :=
  SILFunctionType.get none ⟨.Swift, 3⟩ .YieldOnce .Direct_Guaranteed
    [⟨SmallStruct, .Direct_Unowned, .DifferentiableOrNotApplicable⟩,
      ⟨BigStruct, .Indirect_In, .DifferentiableOrNotApplicable⟩]
    [⟨BigStruct, .Indirect_In_Guaranteed⟩] [⟨BigStruct, .Indirect⟩]
    (some ⟨SmallStruct, .Owned⟩) none none none

/-- The foreign signature `(BigStruct) -> ()`. -/
def foreignBigConsumer : SILFunctionType :=
  foreignSignature [⟨BigStruct, .Direct_Owned, .DifferentiableOrNotApplicable⟩] []

/-- The signature `() -> BigStruct`. -/
def bigProducer : SILFunctionType := nativeSignature [] [⟨BigStruct, .Owned⟩]

/-- The native function `f() { %0 = function_ref @producer; %1 = apply %0() :
$BigStruct; %2 = tuple (); return %2 }`, of the signature `() -> ()`. -/
def callsBigProducer : SILFunction :=
  { name := 6
    loweredType := nativeSignature [] []
    genericEnvironment := none
    hasOwnership := false
    blocks := [⟨0, [],
      [⟨0, .Other 1, [], some ⟨.function bigProducer, .Object⟩, [], 0⟩,
        ⟨1, .ApplyInst bigProducer, [.instruction 0], some ⟨BigStruct, .Object⟩, [], 0⟩,
        ⟨2, .TupleInst, [], some emptyTupleType, [], 0⟩,
        ⟨3, .ReturnInst, [.instruction 2], none, [], 0⟩]⟩]
    nextId := 4 }

/-- The function `callsBigProducer` as `runOnFunction` leaves it on the toy
target, written out: a buffer for the result of the call (number 4) stands
first, and is deallocated (number 5) before the return. -/
def callsBigProducerRewritten : SILFunction :=
  { callsBigProducer with
    blocks := [⟨0, [],
      [⟨4, .AllocStackInst, [], some ⟨BigStruct, .Address⟩, [], 0⟩,
        ⟨0, .Other 1, [], some ⟨.function bigProducer, .Object⟩, [], 0⟩,
        ⟨1, .ApplyInst bigProducer, [.instruction 0], some ⟨BigStruct, .Object⟩, [], 0⟩,
        ⟨2, .TupleInst, [], some emptyTupleType, [], 0⟩,
        ⟨5, .DeallocStackInst, [.instruction 4], none, [], 0⟩,
        ⟨3, .ReturnInst, [.instruction 2], none, [], 0⟩]⟩]
    nextId := 6 }

/-- The state of the pass over `callsBigProducer` on the toy target after
`allocateLoadableStorage`, written out: the call stands on the call worklist,
and its buffer in `largeLoadableArgs`. -/
def callsBigProducerAllocated : StructLoweringState :=
  { StructLoweringState.new callsBigProducerRewritten
      ⟨[((none, ⟨BigStruct, .Object⟩), ⟨BigStruct, .Address⟩),
        ((none, emptyTupleType), emptyTupleType)]⟩ with
    largeLoadableArgs := [.instruction 4],
    applyRetToAllocMap := [(1, .instruction 4)],
    allocToApplyRetMap := [(4, 1)],
    applies := [1],
    returnInsts := [3] }

/-- The pass object after `runOnFunction` on `callsBigProducer` on the toy
target, written out. -/
def callsBigProducerTransform : ModuleTransform :=
  ⟨⟨[((none, ⟨BigStruct, .Object⟩), ⟨BigStruct, .Address⟩),
      ((none, emptyTupleType), emptyTupleType)]⟩, [6], [1], [(1, .instruction 4)]⟩

/-- The state of the pass over `usesTwoLargeArguments` on the toy target after
`allocateLoadableStorage`, written out: each argument has a buffer, a copy into
it and a load of it at the start of the entry block, the buffer of the second
argument first, and the buffers are deallocated before the return, the buffer
of the first argument first. -/
def usesTwoLargeArgumentsAllocated : StructLoweringState :=
  { usesTwoLargeArgumentsScanned with
    F := { usesTwoLargeArguments with
      blocks := [⟨0, [⟨5, ⟨BigStruct, .Address⟩, .None, some "x"⟩,
          ⟨6, ⟨BigStruct, .Address⟩, .None, some "y"⟩],
        [⟨11, .AllocStackInst, [], some ⟨BigStruct, .Address⟩, [], 0⟩,
          ⟨12, .CopyAddrInst true true, [.argument 6, .instruction 11], none, [], 0⟩,
          ⟨13, .LoadInst .Unqualified, [.instruction 11], some ⟨BigStruct, .Object⟩, [], 0⟩,
          ⟨7, .AllocStackInst, [], some ⟨BigStruct, .Address⟩, [], 0⟩,
          ⟨8, .CopyAddrInst true true, [.argument 5, .instruction 7], none, [], 0⟩,
          ⟨9, .LoadInst .Unqualified, [.instruction 7], some ⟨BigStruct, .Object⟩, [], 0⟩,
          ⟨2, .Other 0, [.argument 5, .argument 6], some ⟨.nominal .Struct 16, .Object⟩, [], 0⟩,
          ⟨3, .TupleInst, [], some emptyTupleType, [], 0⟩,
          ⟨10, .DeallocStackInst, [.instruction 7], none, [], 0⟩,
          ⟨14, .DeallocStackInst, [.instruction 11], none, [], 0⟩,
          ⟨4, .ReturnInst, [.instruction 3], none, [], 0⟩]⟩],
      nextId := 15 },
    argsToLoadedValueMap := [(.argument 5, .instruction 9), (.argument 6, .instruction 13)] }

/-- The state of the pass over `usesTwoLargeArguments` on the toy target after
`rewriteFunction`, written out: the instruction number 2 uses the loads. -/
def usesTwoLargeArgumentsRewritten : StructLoweringState :=
  { usesTwoLargeArgumentsAllocated with
    F := { usesTwoLargeArgumentsAllocated.F with
      blocks := [⟨0, [⟨5, ⟨BigStruct, .Address⟩, .None, some "x"⟩,
          ⟨6, ⟨BigStruct, .Address⟩, .None, some "y"⟩],
        [⟨11, .AllocStackInst, [], some ⟨BigStruct, .Address⟩, [], 0⟩,
          ⟨12, .CopyAddrInst true true, [.argument 6, .instruction 11], none, [], 0⟩,
          ⟨13, .LoadInst .Unqualified, [.instruction 11], some ⟨BigStruct, .Object⟩, [], 0⟩,
          ⟨7, .AllocStackInst, [], some ⟨BigStruct, .Address⟩, [], 0⟩,
          ⟨8, .CopyAddrInst true true, [.argument 5, .instruction 7], none, [], 0⟩,
          ⟨9, .LoadInst .Unqualified, [.instruction 7], some ⟨BigStruct, .Object⟩, [], 0⟩,
          ⟨2, .Other 0, [.instruction 9, .instruction 13],
            some ⟨.nominal .Struct 16, .Object⟩, [], 0⟩,
          ⟨3, .TupleInst, [], some emptyTupleType, [], 0⟩,
          ⟨10, .DeallocStackInst, [.instruction 7], none, [], 0⟩,
          ⟨14, .DeallocStackInst, [.instruction 11], none, [], 0⟩,
          ⟨4, .ReturnInst, [.instruction 3], none, [], 0⟩]⟩] } }

/-- The state of the pass over `callsBigProducer` when `convertApplyResults`
starts: the exit of the function is the return number 3. -/
def callsBigProducerStart : StructLoweringState :=
  { StructLoweringState.new callsBigProducer LargeSILTypeMapper.new with returnInsts := [3] }

/-- The state of the pass over `callsBigProducer` on the toy target after
`convertApplyResults`, written out: the result of the call has the buffer
number 4. -/
def callsBigProducerConverted : StructLoweringState :=
  { callsBigProducerAllocated with
    applies := [],
    Mapper := ⟨[((none, ⟨BigStruct, .Object⟩), ⟨BigStruct, .Address⟩)]⟩ }

/-- The state of the pass over `callsBigProducer` on the toy target after the
scan of the call: the call stands on the call worklist. -/
def callsBigProducerCallScanned : StructLoweringState :=
  { callsBigProducerConverted with applies := [1] }

/-- The states `p` and `q` of the pass hold the same worklists, maps and sets:
they differ at most in the function and in the mapper. -/
def StructLoweringState.SameLists (p q : StructLoweringState) : Prop :=
  q = { p with F := q.F, Mapper := q.Mapper }

/-- Every worklist of the state, `applies` first. -/
def StructLoweringState.worklists (pass : StructLoweringState) : List (List Nat) :=
  pass.onceWorklists ++ pass.perOperandWorklists

/-- The instructions `l` of a block after the loop of `allocate` over
`returnInsts` for the buffer `alloc`: one `dealloc_stack` after the other is
put before its exit, with the identities `next`, `next + 1`, and so on. -/
def withDeallocs (alloc : Nat) : Nat → List Nat → List SILInstruction → List SILInstruction
  | _, [], l => l
  | next, termInst :: rest, l =>
    withDeallocs alloc (next + 1) rest
      (insertBeforeInList ⟨next, .DeallocStackInst, [.instruction alloc], none, [], 0⟩
        termInst l)

/-- The instruction `i` alone, or, when `i` is one of the exits `returnInsts`,
the `dealloc_stack` of the buffer `alloc` made for that exit followed by `i`. -/
def deallocBefore (alloc next : Nat) (returnInsts : List Nat) (i : SILInstruction) :
    List SILInstruction :=
  if i.id ∈ returnInsts then
    [⟨next + returnInsts.indexOf i.id, .DeallocStackInst, [.instruction alloc], none, [], 0⟩, i]
  else [i]

/-- The deallocations of the buffer `alloc` among the instructions. -/
def deallocationsOf (alloc : Nat) (l : List SILInstruction) : List SILInstruction :=
  l.filter (fun i => decide (i.kind = SILInstructionKind.DeallocStackInst ∧
    i.operands = [.instruction alloc]))

/-- The blocks of `F` after a buffer was made: the instructions `entryNew`
stand at the start of the entry block, and in every block each exit in
`returnInsts` has the `dealloc_stack` of the buffer `alloc` made for it
directly before it; `next` is the identity of the first `dealloc_stack`. -/
def blocksWithBuffer (F : SILFunction) (entryNew : List SILInstruction) (alloc next : Nat)
    (returnInsts : List Nat) : List SILBasicBlock :=
  match F.blocks with
  | [] => []
  | entry :: rest =>
    { entry with
      instructions := entryNew ++
        entry.instructions.flatMap (deallocBefore alloc next returnInsts) } ::
    rest.map (fun BB =>
      { BB with instructions := BB.instructions.flatMap (deallocBefore alloc next returnInsts) })

/-- The instructions `allocateForArg` puts at the start of the entry block for
the argument `value` of the type `valueType`: the buffer, the copy of the
argument into it, and the load of the buffer; `next` is the identity of the
buffer. -/
def argumentBuffer (hasOwnership : Bool) (value : SILValue) (valueType : SILType)
    (next : Nat) : List SILInstruction :=
  [⟨next, .AllocStackInst, [], some valueType.getAddressType, [], 0⟩,
    ⟨next + 1, .CopyAddrInst true true, [value, .instruction next], none, [], 0⟩,
    ⟨next + 2, .LoadInst (if hasOwnership then .Take else .Unqualified),
      [.instruction next], some valueType.getObjectType, [], 0⟩]

/-- The entry block of `usesTwoLargeArguments` after the scan. -/
def usesTwoLargeArgumentsScannedEntry : SILBasicBlock :=
  ⟨0, [⟨5, ⟨BigStruct, .Address⟩, .None, some "x"⟩,
      ⟨6, ⟨BigStruct, .Address⟩, .None, some "y"⟩],
    [⟨2, .Other 0, [.argument 5, .argument 6], some ⟨.nominal .Struct 16, .Object⟩, [], 0⟩,
      ⟨3, .TupleInst, [], some emptyTupleType, [], 0⟩,
      ⟨4, .ReturnInst, [.instruction 3], none, [], 0⟩]⟩

/-- The state of the pass over `usesTwoLargeArguments` on the toy target after
`allocateForArg` for the first argument, written out. -/
def usesTwoLargeArgumentsFirstBuffer : StructLoweringState :=
  { usesTwoLargeArgumentsScanned with
    F := { usesTwoLargeArguments with
      blocks := [⟨0, [⟨5, ⟨BigStruct, .Address⟩, .None, some "x"⟩,
          ⟨6, ⟨BigStruct, .Address⟩, .None, some "y"⟩],
        [⟨7, .AllocStackInst, [], some ⟨BigStruct, .Address⟩, [], 0⟩,
          ⟨8, .CopyAddrInst true true, [.argument 5, .instruction 7], none, [], 0⟩,
          ⟨9, .LoadInst .Unqualified, [.instruction 7], some ⟨BigStruct, .Object⟩, [], 0⟩,
          ⟨2, .Other 0, [.argument 5, .argument 6], some ⟨.nominal .Struct 16, .Object⟩, [], 0⟩,
          ⟨3, .TupleInst, [], some emptyTupleType, [], 0⟩,
          ⟨10, .DeallocStackInst, [.instruction 7], none, [], 0⟩,
          ⟨4, .ReturnInst, [.instruction 3], none, [], 0⟩]⟩],
      nextId := 11 },
    argsToLoadedValueMap := [(.argument 5, .instruction 9), (.argument 6, .argument 6)] }

/-- The identity of the terminator of the block when it leaves the function
(`isFunctionExiting`). -/
def SILBasicBlock.exit (BB : SILBasicBlock) : Option Nat :=
  match BB.getTerminator with
  | some term => if term.isFunctionExiting then some term.id else none
  | none => none

/-- The buffer `alloc` is deallocated once for each exit in `returnInsts` in
the function `F`: it has as many deallocations as there are exits, and every
exit has a deallocation of the buffer directly before it. -/
def DeallocatedOncePerExit (alloc : Nat) (returnInsts : List Nat) (F : SILFunction) : Prop :=
  (deallocationsOf alloc F.allInstructions).length = returnInsts.length ∧
  ∀ t ∈ returnInsts, ∃ BB ∈ F.blocks, ∃ before after d exit,
    BB.instructions = before ++ d :: exit :: after ∧ exit.id = t ∧
    d.kind = SILInstructionKind.DeallocStackInst ∧ d.operands = [.instruction alloc]

/-- The state of the pass over a function `() -> BigStruct` whose result became
the indirect argument number 5, at the loop over `modReturnInsts`: the return
number 4 gives back the buffer number 1, which the deallocation number 3
releases right before it. -/
def returnsBufferBeforeRewrite : StructLoweringState :=
  { StructLoweringState.new
      { name := 8
        loweredType := bigProducer
        genericEnvironment := none
        hasOwnership := false
        blocks := [⟨0, [⟨5, ⟨BigStruct, .Address⟩, .None, some "$return_value"⟩],
          [⟨1, .AllocStackInst, [], some ⟨BigStruct, .Address⟩, [], 0⟩,
            ⟨2, .Other 0, [.instruction 1], none, [], 0⟩,
            ⟨3, .DeallocStackInst, [.instruction 1], none, [], 0⟩,
            ⟨4, .ReturnInst, [.instruction 1], none, [], 0⟩]⟩]
        nextId := 6 }
      LargeSILTypeMapper.new with
    modReturnInsts := [4] }

/-- The state of the pass over `returnsWithUnreachableBlock` on the toy target
after `convertIndirectFunctionArgs`: the argument `x` is the address number 3,
in both blocks, and the indirect result is the argument number 4. -/
def returnsWithUnreachableBlockConverted : StructLoweringState :=
  { StructLoweringState.new
      { returnsWithUnreachableBlock with
        blocks := [⟨0, [⟨4, ⟨BigStruct, .Address⟩, .None, some "$return_value"⟩,
            ⟨3, ⟨BigStruct, .Address⟩, .None, some "x"⟩],
            [⟨1, .ReturnInst, [.argument 3], none, [], 0⟩]⟩,
          ⟨1, [], [⟨2, .ReturnInst, [.argument 3], none, [], 0⟩]⟩]
        nextId := 5 }
      ⟨[((none, ⟨BigStruct, .Object⟩), ⟨BigStruct, .Address⟩)]⟩ with
    largeLoadableArgs := [.argument 3]
    returnInsts := [1] }

/-- The state of the pass over `returnsWithUnreachableBlock` after the scan:
the return of the entry block is on the worklist, the return of the other
block is not. -/
def returnsWithUnreachableBlockScanned : StructLoweringState :=
  { returnsWithUnreachableBlockConverted with modReturnInsts := [1] }

/-- The state of the pass over `returnsWithUnreachableBlock` when
`rewriteFunction` returns: the return of the entry block is rewritten, the
return number 2 of the other block stands as it was. -/
def returnsWithUnreachableBlockRewritten : StructLoweringState :=
  { returnsWithUnreachableBlockConverted with
    F := { returnsWithUnreachableBlockConverted.F with
      blocks := [⟨0, [⟨4, ⟨BigStruct, .Address⟩, .None, some "$return_value"⟩,
          ⟨3, ⟨BigStruct, .Address⟩, .None, some "x"⟩],
          [⟨5, .CopyAddrInst true true, [.argument 3, .argument 4], none, [], 0⟩,
            ⟨6, .TupleInst, [], some emptyTupleType, [], 0⟩,
            ⟨7, .ReturnInst, [.instruction 6], none, [], 0⟩]⟩,
        ⟨1, [], [⟨2, .ReturnInst, [.argument 3], none, [], 0⟩]⟩]
      nextId := 8 } }

/-- The function `F` has the signature of `F0` and the entry block of `F0`, by
its identity and its arguments, and no instruction of `F` branches to the
entry block. -/
def SILFunction.EntryKept (F0 F : SILFunction) : Prop :=
  F.loweredType = F0.loweredType ∧
  F.blocks.head?.map (fun BB => (BB.id, BB.arguments)) =
    F0.blocks.head?.map (fun BB => (BB.id, BB.arguments)) ∧
  ∀ BB ∈ F.blocks.head?, ∀ i ∈ F.allInstructions, BB.id ∉ i.successors

end LoadableByAddress

namespace LoadableByAddress

/-! ## Changes of the instructions of a function -/

/-- What a change of a function may do: the values whose uses it may redirect
(`okOld`), the values it may put in their place (`okNew`), the blocks whose
arguments it may change and that an instruction it creates may branch to
(`okBlock`), and the kind and the operands an instruction may get
(`okCreate`). -/
structure StepPolicy where
  okOld : SILValue → Prop
  okNew : SILValue → Prop
  okBlock : Nat → Prop
  okCreate : SILInstructionKind → List SILValue → Prop

/-- The function `G` comes from the function `F` by builder calls, by
redirections of uses, by changes of operands, by the removal of instructions
and by changes of the arguments of blocks that the policy `P` allows. -/
inductive SILFunction.Step (P : StepPolicy) : SILFunction → SILFunction → Prop
  | same (F : SILFunction) : SILFunction.Step P F F
  | next {F G H : SILFunction} (h1 : SILFunction.Step P F G) (h2 : SILFunction.Step P G H) :
      SILFunction.Step P F H
  | create (F : SILFunction) (at_ : InsertionPoint) (kind : SILInstructionKind)
      (operands : List SILValue) (type : Option SILType) (successors : List Nat)
      (attributes : Nat) (hC : P.okCreate kind operands)
      (hS : ∀ s ∈ successors, P.okBlock s) :
      SILFunction.Step P F (F.createWith at_ kind operands type successors attributes).2
  | replaceAllUsesWith (F : SILFunction) (old new : SILValue) (hO : P.okOld old)
      (hN : P.okNew new) : SILFunction.Step P F (F.replaceAllUsesWith old new)
  | setOperand (F : SILFunction) (id index : Nat) (value : SILValue) (hN : P.okNew value)
      (hO : ∀ i ∈ F.allInstructions, i.id = id →
        ∀ v, i.operands.get? index = some v → P.okOld v) :
      SILFunction.Step P F (F.setOperand id index value)
  | setOperands (F : SILFunction) (id : Nat) (operands : List SILValue)
      (hC : ∀ i ∈ F.allInstructions, i.id = id → P.okCreate i.kind operands)
      (hN : ∀ i ∈ F.allInstructions, i.id = id →
        ∀ v ∈ operands, v ∈ i.operands ∨ P.okNew v) :
      SILFunction.Step P F (F.setOperands id operands)
  | erase (F : SILFunction) (id : Nat) : SILFunction.Step P F (F.erase id)
  | updateBlock (F : SILFunction) (id : Nat) (f : SILBasicBlock → SILBasicBlock)
      (hB : P.okBlock id)
      (hf : ∀ BB, (f BB).id = BB.id ∧ (f BB).instructions = BB.instructions) :
      SILFunction.Step P F (F.updateBlock id f)
  | fresh (F : SILFunction) : SILFunction.Step P F { F with nextId := F.nextId + 1 }

/-- The policy allows to redirect the uses of, and to put in, the value of
every instruction with an identity from `n` on. -/
def StepPolicy.Recent (P : StepPolicy) (n : Nat) : Prop :=
  ∀ k, n ≤ k → P.okOld (.instruction k) ∧ P.okNew (.instruction k)

/-- The policy allows to redirect the uses of every value and to create every
instruction. -/
def StepPolicy.Open (P : StepPolicy) : Prop :=
  (∀ v, P.okOld v) ∧ (∀ k ops, P.okCreate k ops)

/-- The policy allows to put in every block argument with an identity from `n`
on. -/
def StepPolicy.RecentArguments (P : StepPolicy) (n : Nat) : Prop :=
  ∀ k, n ≤ k → P.okNew (.argument k)

/-- The policy allows to create the instructions of a stack buffer: its
allocation, its deallocation, a store and a copy into it. -/
def StepPolicy.Storage (P : StepPolicy) : Prop :=
  (∀ ops, P.okCreate .AllocStackInst ops) ∧ (∀ ops, P.okCreate .DeallocStackInst ops) ∧
  (∀ ops, P.okCreate (.CopyAddrInst true true) ops) ∧
  (∀ q ops, P.okCreate (.StoreInst q) ops)

/-- Every instruction of the function branches to blocks the policy allows
only. -/
def SILFunction.BranchesOk (P : StepPolicy) (F : SILFunction) : Prop :=
  ∀ i ∈ F.allInstructions, ∀ b ∈ i.successors, P.okBlock b

/-- The state `q` comes from the state `p` by changes of the function that the
policy allows, with the converted values, their bindings, the generic worklist
and the exits as they were. -/
def StructLoweringState.Rewrites (P : StepPolicy) (p q : StructLoweringState) : Prop :=
  SILFunction.Step P p.F q.F ∧ q.largeLoadableArgs = p.largeLoadableArgs ∧
  q.argsToLoadedValueMap = p.argsToLoadedValueMap ∧ q.instsToMod = p.instsToMod ∧
  q.returnInsts = p.returnInsts

/-- The function of a state with the converted values, their bindings, the
generic worklist and the exits. -/
def StructLoweringState.core (p : StructLoweringState) :
    SILFunction × List SILValue × List (SILValue × SILValue) × List Nat × List Nat :=
  (p.F, p.largeLoadableArgs, p.argsToLoadedValueMap, p.instsToMod, p.returnInsts)

end LoadableByAddress

namespace LoadableByAddress

/-! ## Calls with a foreign callee, in the words of the specification -/

/-- In the words of the specification: the call `site` has the foreign
convention, or its callee is, through at most `n` calls of `F`, the result of
a call that has it. -/
inductive ForeignCall (F : SILFunction) : Nat → SILInstruction → Prop
  | here (n : Nat) (site : SILInstruction) (calleeType : SILFunctionType)
      (hT : site.getSubstCalleeType = some calleeType)
      (hL : calleeType.getLanguage = SILFunctionLanguage.C) : ForeignCall F n site
  | callee (n : Nat) (site inner : SILInstruction) (calleeType : SILFunctionType) (c : Nat)
      (hT : site.getSubstCalleeType = some calleeType)
      (hC : site.getCallee = some (.instruction c))
      (hI : F.findInstruction c = some inner) (hA : inner.isApplySite = true)
      (hR : ForeignCall F n inner) : ForeignCall F (n + 1) site

/-- In the words of the specification: neither the call `site` has the foreign
convention nor one of the calls its callee is the result of; the chain of
these calls is `n` calls long and ends at a callee that is no call of `F`. -/
inductive NativeCall (F : SILFunction) : Nat → SILInstruction → Prop
  | here (site : SILInstruction) (calleeType : SILFunctionType)
      (hT : site.getSubstCalleeType = some calleeType)
      (hL : calleeType.getLanguage ≠ SILFunctionLanguage.C)
      (hC : ∀ c inner, site.getCallee = some (.instruction c) →
        F.findInstruction c = some inner → inner.isApplySite = false) : NativeCall F 0 site
  | callee (n : Nat) (site inner : SILInstruction) (calleeType : SILFunctionType) (c : Nat)
      (hT : site.getSubstCalleeType = some calleeType)
      (hL : calleeType.getLanguage ≠ SILFunctionLanguage.C)
      (hC : site.getCallee = some (.instruction c))
      (hI : F.findInstruction c = some inner) (hA : inner.isApplySite = true)
      (hR : NativeCall F n inner) : NativeCall F (n + 1) site

/-- What makes the scanner put the call `applySite`, of the callee signature
`substCalleeType`, on the call worklist (lines 765 to 811): an argument whose
type transforms or that is a converted large value or a converted function
argument; for a `begin_apply` a yield whose type transforms; for the other
calls a result that is not large and whose type transforms, or a callee
signature that transforms. -/
def CallNeedsRewrite (pass : StructLoweringState) (Mod : IRGenModule)
    (applySite : SILInstruction) (substCalleeType : SILFunctionType) : Prop :=
  (∃ operand ∈ applySite.getArgumentOperands,
    (∃ t, pass.F.getType operand.2 = some t ∧
      Pure.getNewSILType Mod (getSubstGenericEnvironment substCalleeType) t ≠ some t) ∨
    operand.2 ∈ pass.largeLoadableArgs ∨ operand.2 ∈ pass.funcSigArgs) ∨
  ((∃ s, applySite.kind = .BeginApplyInst s) ∧
    ∃ t ∈ getYieldedValueTypes substCalleeType,
      Pure.getNewSILType Mod (getSubstGenericEnvironment substCalleeType) t ≠ some t) ∨
  ((∀ s, applySite.kind ≠ .BeginApplyInst s) ∧
    ((pass.isLargeLoadableType Mod pass.F.getLoweredFunctionType
        substCalleeType.getSILResultType = .ok false ∧
      Pure.getNewSILType Mod (getSubstGenericEnvironment pass.F.getLoweredFunctionType)
        substCalleeType.getSILResultType ≠ some substCalleeType.getSILResultType) ∨
    Pure.getNewSILFunctionType Mod none substCalleeType ≠ some substCalleeType))

/-- The call `apply %0(%9)` of a function with the foreign convention that
takes a large struct, as it stands in a function that calls it. -/
def foreignCallOfBigConsumer : SILInstruction :=
  ⟨1, .ApplyInst foreignBigConsumer, [.instruction 0, .instruction 9], some emptyTupleType, [], 0⟩

/-- The state of the pass over a function like `callsBigProducer` in which the
value number 9 is a converted large value. -/
def callsForeignStart : StructLoweringState :=
  { callsBigProducerStart with largeLoadableArgs := [.instruction 9] }

end LoadableByAddress

namespace LoadableByAddress

/-! ## A block whose return is rewritten -/

/-- The block `new` is the block `old` with its return rewritten by the loop
over the worklist `modReturnInsts` of the state `pass`: the block `old` ends
with a return `ret` of the worklist, of the single operand `retOp`; in `new` a
`copy_addr` (for an operand that is an address; it stands before the
deallocations right before the return) or a `store` (for a value) of `retOp`
into `retArg` has been added, and `ret` has made way for a `tuple ()` and a
return of that tuple; the three new instructions have fresh identities. -/
def ReturnReplaced (pass : StructLoweringState) (Mod : IRGenModule) (retArg : SILValue)
    (old new : SILBasicBlock) : Prop :=
  ∃ (pre deallocs : List SILInstruction) (ret : SILInstruction) (retOp : SILValue)
    (storageType : SILType) (n : Nat),
    ret.id ∈ pass.modReturnInsts ∧
    old.instructions = pre ++ deallocs ++ [ret] ∧
    ret.operands = [retOp] ∧
    pass.F.getType retOp = some storageType ∧
    (storageType.isAddress = true →
      (∀ d ∈ deallocs, d.kind = SILInstructionKind.DeallocStackInst) ∧
      ∀ p ∈ pre.getLast?, p.kind ≠ SILInstructionKind.DeallocStackInst) ∧
    (storageType.isAddress = false → deallocs = []) ∧
    pass.F.nextId ≤ n ∧
    new = { old with
      instructions := pre ++
        ⟨n, (if storageType.isAddress then SILInstructionKind.CopyAddrInst true true
            else .StoreInst (getStoreInitOwnership pass Mod storageType)),
          [retOp, retArg], none, [], 0⟩ :: deallocs ++
        [⟨n + 1, .TupleInst, [], some (SILType.getPrimitiveObjectType (.tuple .nil)), [], 0⟩,
          ⟨n + 2, .ReturnInst, [.instruction (n + 1)], none, [], 0⟩] }

/-- The block `new` is what the loop over the worklist `modReturnInsts` of the
state `pass` makes of the block `old`: the block with its return rewritten when
it ends with a return of the worklist, and the block itself when none of its
instructions is on the worklist. -/
def ReturnsRewritten (pass : StructLoweringState) (Mod : IRGenModule) (retArg : SILValue)
    (old new : SILBasicBlock) : Prop :=
  ReturnReplaced pass Mod retArg old new ∨
  ((∀ i ∈ old.instructions, i.id ∉ pass.modReturnInsts) ∧ new = old)

/-- Every entry of the worklist `modReturnInsts` of the state is a return that
ends a block of the function and has a single operand, which has a type and is
not the value of a return on the worklist. -/
def ReturnsOnWorklist (pass : StructLoweringState) : Prop :=
  ∀ id ∈ pass.modReturnInsts, ∃ parent ∈ pass.F.blocks,
    ∃ (front : List SILInstruction) (ret : SILInstruction) (retOp : SILValue)
      (storageType : SILType),
      parent.instructions = front ++ [ret] ∧ ret.id = id ∧
      ret.kind = SILInstructionKind.ReturnInst ∧ ret.operands = [retOp] ∧
      pass.F.getType retOp = some storageType ∧
      ∀ k ∈ pass.modReturnInsts, retOp ≠ .instruction k

end LoadableByAddress

namespace LoadableByAddress

/-! ## The entry block under the changes of the pass -/

/-- The policy allows to redirect the uses of every value, to put in every
value and to create every instruction: it restricts the blocks only. -/
def StepPolicy.Free (P : StepPolicy) : Prop :=
  (∀ v, P.okOld v) ∧ (∀ v, P.okNew v) ∧ (∀ k ops, P.okCreate k ops)

/-- The policy that allows every change of the instructions, and a change of
the arguments of every block but the block `e`. -/
def entryPolicy (e : Nat) : StepPolicy :=
  { okOld := fun _ => True
    okNew := fun _ => True
    okBlock := fun b => b ≠ e
    okCreate := fun _ _ => True }

end LoadableByAddress

namespace LoadableByAddress

/-! ## The bindings of the converted values -/

/-- The policy of the steps that follow the scan, for the supply of identities
`n` the scan saw: every use may be redirected and every instruction created,
and the values put in are instructions and block arguments with an identity
from `n` on. -/
def freshPolicy (n : Nat) : StepPolicy :=
  { okOld := fun _ => True
    okNew := fun v => ∃ k, n ≤ k ∧ (v = .instruction k ∨ v = .argument k)
    okBlock := fun _ => True
    okCreate := fun _ _ => True }

/-- None of the values is an instruction or a block argument with an identity
from `n` on. -/
def ValuesBelow (n : Nat) (values : List SILValue) : Prop :=
  ∀ k, n ≤ k → SILValue.instruction k ∉ values ∧ SILValue.argument k ∉ values

/-- Every operand that is one of the converted values `converted`, of an
instruction of `F` with its identity on the worklist `worklist`, is a key of
the map `bindings`. -/
def SILFunction.OperandsCovered (F : SILFunction) (worklist : List Nat)
    (converted : List SILValue) (bindings : List (SILValue × SILValue)) : Prop :=
  ∀ i ∈ F.allInstructions, i.id ∈ worklist → ∀ operand ∈ i.operands, operand ∈ converted →
    (mapVectorFind bindings operand).isSome = true

/-- Every value bound in the map is an instruction with an identity from `n`
on. -/
def BoundFresh (n : Nat) (bindings : List (SILValue × SILValue)) : Prop :=
  ∀ key value, mapVectorFind bindings key = some value → ∃ k, n ≤ k ∧ value = .instruction k

/-- What `rewriteFunction` relies on at its loop over `instsToMod` (line 2088):
every operand that is a converted value (a member of `largeLoadableArgs`), of
an instruction on the worklist, has a binding in `argsToLoadedValueMap`, and
the value bound is not the operand itself. -/
def StructLoweringState.OperandsBound (p : StructLoweringState) : Prop :=
  ∀ id ∈ p.instsToMod, ∀ instr, p.F.findInstruction id = some instr →
    ∀ operand ∈ instr.operands, operand ∈ p.largeLoadableArgs →
      ∃ newOperand, mapVectorFind p.argsToLoadedValueMap operand = some newOperand ∧
        newOperand ≠ operand

/-- The part of a state that `visitInstr` reads and writes, with the
function. -/
def StructLoweringState.bindings (p : StructLoweringState) :
    SILFunction × List SILValue × List Nat × List (SILValue × SILValue) :=
  (p.F, p.largeLoadableArgs, p.instsToMod, p.argsToLoadedValueMap)

/-- The policy that allows every change. -/
def anyPolicy : StepPolicy :=
  { okOld := fun _ => True
    okNew := fun _ => True
    okBlock := fun _ => True
    okCreate := fun _ _ => True }

/-- The state `q` comes from the state `p` by a conversion before the scan:
the function changes, the worklist `instsToMod` and the bindings stay, and the
values added to the converted values are instructions and block arguments
with an identity below the supply of `q`. -/
def StructLoweringState.Converts (p q : StructLoweringState) : Prop :=
  SILFunction.Step anyPolicy p.F q.F ∧ q.instsToMod = p.instsToMod ∧
  q.argsToLoadedValueMap = p.argsToLoadedValueMap ∧
  ∀ v ∈ q.largeLoadableArgs, v ∈ p.largeLoadableArgs ∨
    ∃ k, k < q.F.nextId ∧ (v = .instruction k ∨ v = .argument k)

/-- What the steps up to the loop of `rewriteFunction` over `instsToMod` keep,
for the supply of identities `n` the scan saw: the identities of the
instructions are distinct, the converted values and the instructions on the
worklist are older than `n`, every converted operand of an instruction on the
worklist is a key of the map, and every value bound in the map is an
instruction from `n` on. -/
def StructLoweringState.BindingsReady (n : Nat) (p : StructLoweringState) : Prop :=
  n ≤ p.F.nextId ∧ p.F.WellFormed ∧ ValuesBelow n p.largeLoadableArgs ∧
  (∀ id ∈ p.instsToMod, id < n) ∧
  p.F.OperandsCovered p.instsToMod p.largeLoadableArgs p.argsToLoadedValueMap ∧
  BoundFresh n p.argsToLoadedValueMap

end LoadableByAddress

namespace LoadableByAddress

/-! ## The arguments of a recreated call -/

/-- Both instructions are call sites of the same kind: `apply`, `try_apply`,
`begin_apply` or `partial_apply`. -/
def sameCallKind : SILInstructionKind → SILInstructionKind → Bool
  | .ApplyInst _, .ApplyInst _ => true
  | .TryApplyInst _, .TryApplyInst _ => true
  | .BeginApplyInst _, .BeginApplyInst _ => true
  | .PartialApplyInst _, .PartialApplyInst _ => true
  | _, _ => false

/-- The function `F` holds a call site with the identity `id`, of the kind of
the call site `old`, whose operands are `operands`, up to the redirection of
the values of the old call `applyInst` (its result and the values it
yields). -/
def SILFunction.HoldsCall (F : SILFunction) (applyInst id : Nat) (operands : List SILValue)
    (old : SILInstruction) : Prop :=
  ∃ i ∈ F.allInstructions, i.id = id ∧ sameCallKind old.kind i.kind = true ∧
    ∃ r : SILValue → SILValue,
      (∀ v, v ≠ .instruction applyInst → (∀ k, v ≠ .result applyInst k) → r v = v) ∧
      i.operands = operands.map r

end LoadableByAddress

namespace LoadableByAddress
open LargeSILTypeMapper

/-! ## The mapper refines its cache-free reading -/

theorem TypeMap.find_assign (m : TypeMap) (k k2 : TypeMapKey) (v : SILType) :
    (m.assign k v).find k2 = if k = k2 then some v else m.find k2 := by
  induction m with
  | nil => simp [TypeMap.assign, TypeMap.find]
  | cons e rest ih =>
    obtain ⟨k1, v1⟩ := e
    simp only [TypeMap.assign]
    by_cases h1 : k1 = k
    · subst h1
      by_cases h2 : k1 = k2
      · simp [TypeMap.find, h2]
      · simp [TypeMap.find, h2]
    · simp only [h1, if_false, TypeMap.find, ih]
      by_cases h2 : k1 = k2
      · subst h2
        have : ¬ k = k1 := fun h => h1 h.symm
        simp [this]
      · simp [h2]

theorem Extends.refl (M : LargeSILTypeMapper) : Extends M M := fun _ _ h => h

theorem Extends.trans {M1 M2 M3 : LargeSILTypeMapper} (h1 : Extends M1 M2)
    (h2 : Extends M2 M3) : Extends M1 M3 := fun k v h => h2 k v (h1 k v h)

theorem Valid.new (Mod : IRGenModule) : Valid Mod LargeSILTypeMapper.new := by
  intro env t v h
  simp [LargeSILTypeMapper.new, TypeMap.find] at h

theorem Valid.assign {Mod : IRGenModule} {M : LargeSILTypeMapper} (hV : Valid Mod M)
    {env : Option GenericEnvironment} {t v : SILType}
    (hp : Pure.getNewSILType Mod env t = some v) :
    Valid Mod ⟨M.oldToNewTypeMap.assign (env, t) v⟩ ∧
      Extends M ⟨M.oldToNewTypeMap.assign (env, t) v⟩ := by
  constructor
  · intro env2 t2 v2 h
    simp only [TypeMap.find_assign] at h
    split at h
    · next heq =>
      simp only [Prod.mk.injEq] at heq
      obtain ⟨h1, h2⟩ := heq
      subst h1; subst h2
      simp only [Option.some.injEq] at h
      subst h
      exact hp
    · exact hV env2 t2 v2 h
  · intro k v2 h
    simp only [TypeMap.find_assign]
    split
    · next heq =>
      subst heq
      have := hV env t v2 h
      rw [hp] at this
      simp only [Option.some.injEq] at this
      rw [this]
    · exact h

theorem Refines.mono {α : Type} {Mod : IRGenModule} {M0 M : LargeSILTypeMapper}
    {r : Except Abort (α × LargeSILTypeMapper)} {p : Option α}
    (hE : Extends M0 M) (h : Refines Mod M r p) : Refines Mod M0 r p := by
  cases p with
  | none => exact h
  | some v =>
    obtain ⟨M2, h1, h2, h3⟩ := h
    exact ⟨M2, h1, h2, hE.trans h3⟩

theorem Refines.elim {α : Type} {Mod : IRGenModule} {M : LargeSILTypeMapper}
    {r : Except Abort (α × LargeSILTypeMapper)} {p : Option α}
    (h : Refines Mod M r p) :
    (p = none ∧ r = .error .assertion) ∨
      (∃ v M2, p = some v ∧ r = .ok (v, M2) ∧ Valid Mod M2 ∧ Extends M M2) := by
  cases p with
  | none => exact Or.inl ⟨rfl, h⟩
  | some v =>
    obtain ⟨M2, h1, h2, h3⟩ := h
    exact Or.inr ⟨v, M2, rfl, h1, h2, h3⟩

theorem isLargeLoadableType_error {env : Option GenericEnvironment} {t : SILType}
    {Mod : IRGenModule} {e : Abort} (h : isLargeLoadableType env t Mod = .error e) :
    e = .assertion := by
  unfold isLargeLoadableType at h
  split at h
  · cases h
  · simp only [] at h
    split at h
    · next e2 hm =>
      cases h
      split at hm
      · split at hm
        · cases hm; rfl
        · cases hm
      · cases hm
    · next c hm =>
      split at h
      · split at h
        · cases h; rfl
        · split at h
          · cases h; rfl
          · cases h
      · cases h

theorem modNonFuncTypeResultType_error {env : Option GenericEnvironment}
    {fn : SILFunctionType} {Mod : IRGenModule} {e : Abort}
    (h : modNonFuncTypeResultType env fn Mod = .error e) : e = .assertion := by
  unfold modNonFuncTypeResultType at h
  split at h
  · cases h
  · split at h
    · cases h
    · split at h
      · next r hr =>
        simp only [] at h
        split at h
        · next e2 hl => cases h; exact isLargeLoadableType_error hl
        · cases h
        · cases h
      · cases h; rfl

theorem refines_shouldParam {Mod : IRGenModule} {m : Nat} (ih : RefinesAt Mod m)
    (env : Option GenericEnvironment) (p : SILParameterInfo) (M : LargeSILTypeMapper)
    (hV : Valid Mod M) (hN : 10 * sizeOf p.type + 7 < m + 1) :
    Refines Mod M (shouldTransformParameter Mod (m + 1) env p M)
      (Pure.shouldTransformParameter Mod env p) := by
  have h1 := ih.param env p M hV (by omega)
  rw [shouldTransformParameter, Pure.shouldTransformParameter]
  rcases h1.elim with ⟨hp, hr⟩ | ⟨v, M2, hp, hr, hV2, hE2⟩
  · rw [hp, hr]; exact rfl
  · rw [hp, hr]
    exact ⟨M2, rfl, hV2, hE2⟩

/-- The loop of `getNewTupleType` refines its cache-free reading. -/
theorem refines_tupleElems {Mod : IRGenModule} {m : Nat} (ih : RefinesAt Mod m)
    (env : Option GenericEnvironment) :
    ∀ (elts : TupleTypeElts) (M : LargeSILTypeMapper), Valid Mod M →
      10 * sizeOf elts + 9 ≤ m →
      Refines Mod M
        (mapElems (fun (canElem : TupleTypeElt) M =>
          match getNewSILType Mod m env (SILType.getPrimitiveObjectType canElem.type) M with
          | .error e => .error e
          | .ok (newElem, M1) =>
            .ok ((⟨newElem.getASTType, canElem.name⟩ : TupleTypeElt), M1))
          elts.toList M)
        (Pure.newTupleElems Mod env elts)
  | .nil, M, hV, _ => by
    rw [Pure.newTupleElems]
    exact ⟨M, rfl, hV, Extends.refl M⟩
  | .cons t name rest, M, hV, hN => by
    have hs : sizeOf (TupleTypeElts.cons t name rest) = 1 + sizeOf t + sizeOf name + sizeOf rest := by
      simp
    have h1 := ih.type env (SILType.getPrimitiveObjectType t) M hV
      (by simp only [SILType.getPrimitiveObjectType]; omega)
    rw [Pure.newTupleElems]
    simp only [TupleTypeElts.toList, mapElems]
    rcases h1.elim with ⟨hp, hr⟩ | ⟨v, M2, hp, hr, hV2, hE2⟩
    · rw [hp, hr]; exact rfl
    · rw [hp, hr]
      simp only []
      have h5 := refines_tupleElems ih env rest M2 hV2 (by omega)
      rcases h5.elim with ⟨hp2, hr2⟩ | ⟨vs, M3, hp2, hr2, hV3, hE3⟩
      · rw [hp2, hr2]; exact rfl
      · rw [hp2, hr2]
        exact ⟨M3, rfl, hV3, hE2.trans hE3⟩

/-- The parameter loop of `shouldTransformFunctionType` refines its cache-free
reading. -/
theorem refines_anyParameter {Mod : IRGenModule} {m : Nat} (ih : RefinesAt Mod m)
    (env : Option GenericEnvironment) :
    ∀ (ps : ParameterInfos) (M : LargeSILTypeMapper), Valid Mod M →
      10 * sizeOf ps + 9 ≤ m →
      Refines Mod M
        (anyElem (fun (param : SILParameterInfo) M =>
          shouldTransformParameter Mod m env param M) ps.toList M)
        (Pure.anyParameter Mod env ps)
  | .nil, M, hV, _ => by
    rw [Pure.anyParameter]
    exact ⟨M, rfl, hV, Extends.refl M⟩
  | .cons t c d rest, M, hV, hN => by
    have hs : sizeOf (ParameterInfos.cons t c d rest)
        = 1 + sizeOf t + sizeOf c + sizeOf d + sizeOf rest := by simp
    have h1 := ih.shouldParam env ⟨t, c, d⟩ M hV (by simp only []; omega)
    rw [Pure.anyParameter]
    simp only [ParameterInfos.toList, anyElem]
    rcases h1.elim with ⟨hp, hr⟩ | ⟨v, M2, hp, hr, hV2, hE2⟩
    · rw [hp, hr]; exact rfl
    · rw [hp, hr]
      cases v with
      | true => exact ⟨M2, rfl, hV2, hE2⟩
      | false =>
        simp only []
        exact (refines_anyParameter ih env rest M2 hV2 (by omega)).mono hE2

/-- The yield loop of `shouldTransformFunctionType` refines its cache-free
reading. -/
theorem refines_anyYield {Mod : IRGenModule} {m : Nat} (ih : RefinesAt Mod m)
    (env : Option GenericEnvironment) :
    ∀ (ys : YieldInfos) (M : LargeSILTypeMapper), Valid Mod M →
      10 * sizeOf ys + 9 ≤ m →
      Refines Mod M
        (anyElem (fun (yield : SILYieldInfo) M =>
          shouldTransformParameter Mod m env yield.toParameterInfo M) ys.toList M)
        (Pure.anyYield Mod env ys)
  | .nil, M, hV, _ => by
    rw [Pure.anyYield]
    exact ⟨M, rfl, hV, Extends.refl M⟩
  | .cons t c rest, M, hV, hN => by
    have hs : sizeOf (YieldInfos.cons t c rest)
        = 1 + sizeOf t + sizeOf c + sizeOf rest := by simp
    have h1 := ih.shouldParam env (SILYieldInfo.toParameterInfo ⟨t, c⟩) M hV
      (by simp only [SILYieldInfo.toParameterInfo]; omega)
    rw [Pure.anyYield]
    simp only [YieldInfos.toList, anyElem]
    rcases h1.elim with ⟨hp, hr⟩ | ⟨v, M2, hp, hr, hV2, hE2⟩
    · rw [hp, hr]; exact rfl
    · rw [hp, hr]
      cases v with
      | true => exact ⟨M2, rfl, hV2, hE2⟩
      | false =>
        simp only []
        exact (refines_anyYield ih env rest M2 hV2 (by omega)).mono hE2

/-- The loop of `containsDifferentFunctionSignature` refines its cache-free
reading. -/
theorem refines_anyElemDiffers {Mod : IRGenModule} {m : Nat} (ih : RefinesAt Mod m)
    (env : Option GenericEnvironment) :
    ∀ (elts : TupleTypeElts) (M : LargeSILTypeMapper), Valid Mod M →
      10 * sizeOf elts + 9 ≤ m →
      Refines Mod M
        (anyElem (fun (canElem : TupleTypeElt) M =>
          match getNewSILType Mod m env (SILType.getPrimitiveObjectType canElem.type) M with
          | .error e => .error e
          | .ok (newElem, M1) =>
            containsDifferentFunctionSignature Mod m env
              (SILType.getPrimitiveObjectType canElem.type) newElem M1)
          elts.toList M)
        (Pure.anyElemDiffers Mod env elts)
  | .nil, M, hV, _ => by
    rw [Pure.anyElemDiffers]
    exact ⟨M, rfl, hV, Extends.refl M⟩
  | .cons t name rest, M, hV, hN => by
    have hs : sizeOf (TupleTypeElts.cons t name rest)
        = 1 + sizeOf t + sizeOf name + sizeOf rest := by simp
    have h1 := ih.type env (SILType.getPrimitiveObjectType t) M hV
      (by simp only [SILType.getPrimitiveObjectType]; omega)
    rw [Pure.anyElemDiffers]
    simp only [TupleTypeElts.toList, anyElem]
    rcases h1.elim with ⟨hp, hr⟩ | ⟨v, M2, hp, hr, hV2, hE2⟩
    · rw [hp, hr]; exact rfl
    · rw [hp, hr]
      simp only []
      have h2 := ih.contains env (SILType.getPrimitiveObjectType t) v M2 hV2
        (by simp only [SILType.getPrimitiveObjectType]; omega)
      rcases h2.elim with ⟨hp2, hr2⟩ | ⟨b, M3, hp2, hr2, hV3, hE3⟩
      · rw [hp2, hr2]; exact rfl
      · rw [hp2, hr2]
        cases b with
        | true => exact ⟨M3, rfl, hV3, hE2.trans hE3⟩
        | false =>
          simp only []
          exact (refines_anyElemDiffers ih env rest M3 hV3 (by omega)).mono
            (hE2.trans hE3)

/-- The loop of `getNewParameters` refines its cache-free reading. -/
theorem refines_parameterElems {Mod : IRGenModule} {m : Nat} (ih : RefinesAt Mod m)
    (env : Option GenericEnvironment) :
    ∀ (ps : ParameterInfos) (M : LargeSILTypeMapper), Valid Mod M →
      10 * sizeOf ps + 9 ≤ m →
      Refines Mod M
        (mapElems (fun (param : SILParameterInfo) M => getNewParameter Mod m env param M)
          ps.toList M)
        (Pure.newParameterElems Mod env ps)
  | .nil, M, hV, _ => by
    rw [Pure.newParameterElems]
    exact ⟨M, rfl, hV, Extends.refl M⟩
  | .cons t c d rest, M, hV, hN => by
    have hs : sizeOf (ParameterInfos.cons t c d rest)
        = 1 + sizeOf t + sizeOf c + sizeOf d + sizeOf rest := by simp
    have h1 := ih.param env ⟨t, c, d⟩ M hV (by simp only []; omega)
    rw [Pure.newParameterElems]
    simp only [ParameterInfos.toList, mapElems]
    rcases h1.elim with ⟨hp, hr⟩ | ⟨v, M2, hp, hr, hV2, hE2⟩
    · rw [hp, hr]; exact rfl
    · rw [hp, hr]
      simp only []
      have h2 := refines_parameterElems ih env rest M2 hV2 (by omega)
      rcases h2.elim with ⟨hp2, hr2⟩ | ⟨vs, M3, hp2, hr2, hV3, hE3⟩
      · rw [hp2, hr2]; exact rfl
      · rw [hp2, hr2]
        exact ⟨M3, rfl, hV3, hE2.trans hE3⟩

/-- The loop of `getNewYields` refines its cache-free reading. -/
theorem refines_yieldElems {Mod : IRGenModule} {m : Nat} (ih : RefinesAt Mod m)
    (env : Option GenericEnvironment) :
    ∀ (ys : YieldInfos) (M : LargeSILTypeMapper), Valid Mod M →
      10 * sizeOf ys + 9 ≤ m →
      Refines Mod M
        (mapElems (fun (oldYield : SILYieldInfo) M =>
          match getNewParameter Mod m env oldYield.toParameterInfo M with
          | .error e => .error e
          | .ok (newYieldAsParam, M1) =>
            .ok ((⟨newYieldAsParam.getInterfaceType, newYieldAsParam.getConvention⟩ :
              SILYieldInfo), M1))
          ys.toList M)
        (Pure.newYieldElems Mod env ys)
  | .nil, M, hV, _ => by
    rw [Pure.newYieldElems]
    exact ⟨M, rfl, hV, Extends.refl M⟩
  | .cons t c rest, M, hV, hN => by
    have hs : sizeOf (YieldInfos.cons t c rest)
        = 1 + sizeOf t + sizeOf c + sizeOf rest := by simp
    have h1 := ih.param env (SILYieldInfo.toParameterInfo ⟨t, c⟩) M hV
      (by simp only [SILYieldInfo.toParameterInfo]; omega)
    rw [Pure.newYieldElems]
    simp only [YieldInfos.toList, mapElems]
    rcases h1.elim with ⟨hp, hr⟩ | ⟨v, M2, hp, hr, hV2, hE2⟩
    · rw [hp, hr]; exact rfl
    · rw [hp, hr]
      simp only []
      have h2 := refines_yieldElems ih env rest M2 hV2 (by omega)
      rcases h2.elim with ⟨hp2, hr2⟩ | ⟨vs, M3, hp2, hr2, hV3, hE3⟩
      · rw [hp2, hr2]; exact rfl
      · rw [hp2, hr2]
        exact ⟨M3, rfl, hV3, hE2.trans hE3⟩

/-- The loop of `getNewResults` refines its cache-free reading. -/
theorem refines_resultElems {Mod : IRGenModule} {m : Nat} (ih : RefinesAt Mod m)
    (env : Option GenericEnvironment) (fnType : SILFunctionType) :
    ∀ (rs : ResultInfos) (M : LargeSILTypeMapper), Valid Mod M →
      10 * sizeOf rs + 9 ≤ m →
      Refines Mod M
        (mapElems (fun (result : SILResultInfo) M =>
          match getNewSILType Mod m env result.getSILStorageInterfaceType M with
          | .error e => .error e
          | .ok (newSILType, M1) =>
            match modNonFuncTypeResultType env fnType Mod with
            | .error e => .error e
            | .ok true =>
              .ok ((⟨newSILType.getASTType, ResultConvention.Indirect⟩ : SILResultInfo), M1)
            | .ok false =>
              match containsDifferentFunctionSignature Mod m env
                  result.getSILStorageInterfaceType newSILType M1 with
              | .error e => .error e
              | .ok (true, M2) =>
                .ok ((⟨newSILType.getASTType, result.getConvention⟩ : SILResultInfo), M2)
              | .ok (false, M2) => .ok (result, M2))
          rs.toList M)
        (Pure.newResultElems Mod env (modNonFuncTypeResultType env fnType Mod) rs)
  | .nil, M, hV, _ => by
    rw [Pure.newResultElems]
    exact ⟨M, rfl, hV, Extends.refl M⟩
  | .cons t c rest, M, hV, hN => by
    have hs : sizeOf (ResultInfos.cons t c rest)
        = 1 + sizeOf t + sizeOf c + sizeOf rest := by simp
    have hst : sizeOf (SILResultInfo.getSILStorageInterfaceType ⟨t, c⟩).ast = sizeOf t := by
      rw [Pure.SILResultInfo.result_storage_ast]
    have h1 := ih.type env (SILResultInfo.getSILStorageInterfaceType ⟨t, c⟩) M hV
      (by omega)
    rw [Pure.newResultElems]
    simp only [ResultInfos.toList, mapElems]
    rcases h1.elim with ⟨hp, hr⟩ | ⟨v, M2, hp, hr, hV2, hE2⟩
    · rw [hp, hr]; exact rfl
    · rw [hp, hr]
      simp only []
      cases hmod : modNonFuncTypeResultType env fnType Mod with
      | error e => cases modNonFuncTypeResultType_error hmod; exact rfl
      | ok b =>
        cases b with
        | true =>
          simp only []
          have h2 := refines_resultElems ih env fnType rest M2 hV2 (by omega)
          rw [hmod] at h2
          rcases h2.elim with ⟨hp2, hr2⟩ | ⟨vs, M3, hp2, hr2, hV3, hE3⟩
          · rw [hp2, hr2]; exact rfl
          · rw [hp2, hr2]
            exact ⟨M3, rfl, hV3, hE2.trans hE3⟩
        | false =>
          simp only []
          have h3 := ih.contains env (SILResultInfo.getSILStorageInterfaceType ⟨t, c⟩) v M2
            hV2 (by omega)
          rcases h3.elim with ⟨hp3, hr3⟩ | ⟨b, M3, hp3, hr3, hV3, hE3⟩
          · rw [hp3, hr3]; exact rfl
          · rw [hp3, hr3]
            have h2 := refines_resultElems ih env fnType rest M3 hV3 (by omega)
            rw [hmod] at h2
            cases b with
            | true =>
              simp only []
              rcases h2.elim with ⟨hp2, hr2⟩ | ⟨vs, M4, hp2, hr2, hV4, hE4⟩
              · rw [hp2, hr2]; exact rfl
              · rw [hp2, hr2]
                exact ⟨M4, rfl, hV4, (hE2.trans hE3).trans hE4⟩
            | false =>
              simp only []
              rcases h2.elim with ⟨hp2, hr2⟩ | ⟨vs, M4, hp2, hr2, hV4, hE4⟩
              · rw [hp2, hr2]; exact rfl
              · rw [hp2, hr2]
                exact ⟨M4, rfl, hV4, (hE2.trans hE3).trans hE4⟩

theorem refines_tuple {Mod : IRGenModule} {m : Nat} (ih : RefinesAt Mod m)
    (env : Option GenericEnvironment) (t s : SILType) (M : LargeSILTypeMapper)
    (hV : Valid Mod M) (hN : 10 * sizeOf t.ast + 4 < m + 1) :
    Refines Mod M (getNewTupleType Mod (m + 1) env t s M)
      (Pure.getNewTupleType Mod env t s) := by
  rw [Pure.getNewTupleType]
  split
  · next h => rw [getNewTupleType]; simp only [h]; exact rfl
  · next origType h =>
    rw [getNewTupleType]
    simp only [h]
    have hsz := Pure.sizeOf_getAsTupleType h
    have h1 := refines_tupleElems ih env origType M hV (by omega)
    rcases h1.elim with ⟨hp, hr⟩ | ⟨v, M2, hp, hr, hV2, hE2⟩
    · rw [hp]; erw [hr]; exact rfl
    · rw [hp]; erw [hr]
      exact ⟨M2, rfl, hV2, hE2⟩

theorem refines_optFn {Mod : IRGenModule} {m : Nat} (ih : RefinesAt Mod m)
    (env : Option GenericEnvironment) (t : SILType) (M : LargeSILTypeMapper)
    (hV : Valid Mod M) (hN : 10 * sizeOf t.ast + 3 < m + 1) :
    Refines Mod M (getNewOptionalFunctionType Mod (m + 1) env t M)
      (Pure.getNewOptionalFunctionType Mod env t) := by
  rw [Pure.getNewOptionalFunctionType]
  split
  · next objectType h1 =>
    split
    · next fnType h2 =>
      rw [getNewOptionalFunctionType]
      simp only [h1, h2]
      have hsz1 := Pure.sizeOf_getOptionalObjectType h1
      have hsz2 := Pure.sizeOf_getAsSILFunctionType h2
      have h3 := ih.should env fnType M hV (by omega)
      rcases h3.elim with ⟨hp, hr⟩ | ⟨b, M2, hp, hr, hV2, hE2⟩
      · rw [hp, hr]; exact rfl
      · rw [hp, hr]
        cases b with
        | false => exact ⟨M2, rfl, hV2, hE2⟩
        | true =>
          simp only []
          have h4 := ih.fnType env fnType M2 hV2 (by omega)
          rcases h4.elim with ⟨hp4, hr4⟩ | ⟨fn2, M3, hp4, hr4, hV3, hE3⟩
          · rw [hp4, hr4]; exact rfl
          · rw [hp4, hr4]
            exact ⟨M3, rfl, hV3, hE2.trans hE3⟩
    · next h2 =>
      rw [getNewOptionalFunctionType]
      simp only [h1, h2]
      exact ⟨M, rfl, hV, Extends.refl M⟩
  · next h1 =>
    rw [getNewOptionalFunctionType]
    simp only [h1]
    exact ⟨M, rfl, hV, Extends.refl M⟩

theorem refines_type {Mod : IRGenModule} {m : Nat} (ih : RefinesAt Mod m)
    (env : Option GenericEnvironment) (t : SILType) (M : LargeSILTypeMapper)
    (hV : Valid Mod M) (hN : 10 * sizeOf t.ast + 5 < m + 1) :
    Refines Mod M (getNewSILType Mod (m + 1) env t M) (Pure.getNewSILType Mod env t) := by
  rw [getNewSILType]
  simp only []
  cases hfind : M.oldToNewTypeMap.find (env, t) with
  | some cached =>
    simp only []
    rw [hV env t cached hfind]
    exact ⟨M, rfl, hV, Extends.refl M⟩
  | none =>
    simp only []
    have hszn := Pure.sizeOf_getNonOptionalType t
    by_cases htup : (getNonOptionalType t).getAsTupleType.isSome = true
    · rw [if_pos htup]
      have h1 := ih.tuple env (getNonOptionalType t) t M hV (by omega)
      rcases h1.elim with ⟨hp, hr⟩ | ⟨v, M2, hp, hr, hV2, hE2⟩
      · have hpure : Pure.getNewSILType Mod env t = none := by
          rw [Pure.getNewSILType]; rw [if_pos htup]; simp only [hp]
        rw [hpure, hr]; exact rfl
      · rw [hr]
        simp only []
        cases hl : isLargeLoadableType env v Mod with
        | error e =>
          have hpure : Pure.getNewSILType Mod env t = none := by
            rw [Pure.getNewSILType]; rw [if_pos htup]; simp only [hp, hl]
          cases isLargeLoadableType_error hl
          rw [hpure]; exact rfl
        | ok large =>
          simp only []
          have hpure : Pure.getNewSILType Mod env t
              = some (if large = true then v.getAddressType else v) := by
            rw [Pure.getNewSILType]; rw [if_pos htup]; simp only [hp, hl]
          rw [hpure]
          obtain ⟨hV3, hE3⟩ := hV2.assign hpure
          exact ⟨_, rfl, hV3, hE2.trans hE3⟩
    · rw [if_neg htup]
      have h1 := ih.optFn env t M hV (by omega)
      rcases h1.elim with ⟨hp, hr⟩ | ⟨v, M2, hp, hr, hV2, hE2⟩
      · have hpure : Pure.getNewSILType Mod env t = none := by
          rw [Pure.getNewSILType]; rw [if_neg htup]; simp only [hp]
        rw [hpure, hr]; exact rfl
      · rw [hr]
        simp only []
        by_cases hne : v ≠ t
        · rw [if_pos hne]
          have hpure : Pure.getNewSILType Mod env t = some v := by
            rw [Pure.getNewSILType]; rw [if_neg htup]; simp only [hp]; rw [if_pos hne]
          rw [hpure]
          obtain ⟨hV3, hE3⟩ := hV2.assign hpure
          exact ⟨_, rfl, hV3, hE2.trans hE3⟩
        · rw [if_neg hne]
          cases hfn : t.getAsSILFunctionType with
          | some fnType =>
            simp only []
            have hsz := Pure.sizeOf_getAsSILFunctionType hfn
            have h2 := ih.should env fnType M2 hV2 (by omega)
            rcases h2.elim with ⟨hp2, hr2⟩ | ⟨b, M3, hp2, hr2, hV3, hE3⟩
            · have hpure : Pure.getNewSILType Mod env t = none := by
                rw [Pure.getNewSILType]; rw [if_neg htup]; simp only [hp]; rw [if_neg hne]
                split
                · next fn2 h => rw [hfn] at h; cases h; simp only [hp2]
                · next h => rw [hfn] at h; cases h
              rw [hpure, hr2]; exact rfl
            · rw [hr2]
              cases b with
              | true =>
                simp only []
                have h3 := ih.fnType env fnType M3 hV3 (by omega)
                rcases h3.elim with ⟨hp3, hr3⟩ | ⟨fn3, M4, hp3, hr3, hV4, hE4⟩
                · have hpure : Pure.getNewSILType Mod env t = none := by
                    rw [Pure.getNewSILType]; rw [if_neg htup]; simp only [hp]; rw [if_neg hne]
                    split
                    · next fn2 h => rw [hfn] at h; cases h; simp only [hp2, hp3]
                    · next h => rw [hfn] at h; cases h
                  rw [hpure, hr3]; exact rfl
                · rw [hr3]
                  simp only []
                  have hpure : Pure.getNewSILType Mod env t
                      = some (SILType.getPrimitiveType (.function fn3) t.getCategory) := by
                    rw [Pure.getNewSILType]; rw [if_neg htup]; simp only [hp]; rw [if_neg hne]
                    split
                    · next fn2 h => rw [hfn] at h; cases h; simp only [hp2, hp3]
                    · next h => rw [hfn] at h; cases h
                  rw [hpure]
                  obtain ⟨hV5, hE5⟩ := hV4.assign hpure
                  exact ⟨_, rfl, hV5, ((hE2.trans hE3).trans hE4).trans hE5⟩
              | false =>
                simp only []
                have hpure : Pure.getNewSILType Mod env t = some v := by
                  rw [Pure.getNewSILType]; rw [if_neg htup]; simp only [hp]; rw [if_neg hne]
                  split
                  · next fn2 h => rw [hfn] at h; cases h; simp only [hp2]
                  · next h => rw [hfn] at h; cases h
                rw [hpure]
                obtain ⟨hV5, hE5⟩ := hV3.assign hpure
                exact ⟨_, rfl, hV5, (hE2.trans hE3).trans hE5⟩
          | none =>
            simp only []
            cases hl : isLargeLoadableType env t Mod with
            | error e =>
              have hpure : Pure.getNewSILType Mod env t = none := by
                rw [Pure.getNewSILType]; rw [if_neg htup]; simp only [hp]; rw [if_neg hne]
                split
                · next fn2 h => rw [hfn] at h; cases h
                · next h => simp only [hl]
              cases isLargeLoadableType_error hl
              rw [hpure]; exact rfl
            | ok large =>
              cases large with
              | true =>
                simp only []
                have hpure : Pure.getNewSILType Mod env t = some t.getAddressType := by
                  rw [Pure.getNewSILType]; rw [if_neg htup]; simp only [hp]; rw [if_neg hne]
                  split
                  · next fn2 h => rw [hfn] at h; cases h
                  · next h => simp only [hl]
                rw [hpure]
                obtain ⟨hV5, hE5⟩ := hV2.assign hpure
                exact ⟨_, rfl, hV5, hE2.trans hE5⟩
              | false =>
                simp only []
                have hpure : Pure.getNewSILType Mod env t = some v := by
                  rw [Pure.getNewSILType]; rw [if_neg htup]; simp only [hp]; rw [if_neg hne]
                  split
                  · next fn2 h => rw [hfn] at h; cases h
                  · next h => simp only [hl]
                rw [hpure]
                obtain ⟨hV5, hE5⟩ := hV2.assign hpure
                exact ⟨_, rfl, hV5, hE2.trans hE5⟩

theorem refines_should {Mod : IRGenModule} {m : Nat} (ih : RefinesAt Mod m)
    (env0 : Option GenericEnvironment) (fn : SILFunctionType) (M : LargeSILTypeMapper)
    (hV : Valid Mod M) (hN : 10 * sizeOf fn + 8 < m + 1) :
    Refines Mod M (shouldTransformFunctionType Mod (m + 1) env0 fn M)
      (Pure.shouldTransformFunctionType Mod env0 fn) := by
  rw [shouldTransformFunctionType, Pure.shouldTransformFunctionType]
  generalize (if fn.getPatternSubstitutions.isSome = true then getSubstGenericEnvironment fn
    else env0) = env
  have hps := Pure.sizeOf_parameterInfos fn
  have hys := Pure.sizeOf_yieldInfos fn
  have h1 := ih.shouldResults env fn M hV (by omega)
  rcases h1.elim with ⟨hp, hr⟩ | ⟨b, M2, hp, hr, hV2, hE2⟩
  · rw [hp, hr]; exact rfl
  · rw [hp, hr]
    cases b with
    | true => exact ⟨M2, rfl, hV2, hE2⟩
    | false =>
      simp only []
      have h2 := refines_anyParameter ih env fn.parameterInfos M2 hV2 (by omega)
      rcases h2.elim with ⟨hp2, hr2⟩ | ⟨b2, M3, hp2, hr2, hV3, hE3⟩
      · rw [hp2]; erw [hr2]; exact rfl
      · rw [hp2]; erw [hr2]
        cases b2 with
        | true => exact ⟨M3, rfl, hV3, hE2.trans hE3⟩
        | false =>
          simp only []
          have h3 := refines_anyYield ih env fn.yieldInfos M3 hV3 (by omega)
          rcases h3.elim with ⟨hp3, hr3⟩ | ⟨b3, M4, hp3, hr3, hV4, hE4⟩
          · rw [hp3]; erw [hr3]; exact rfl
          · rw [hp3]; erw [hr3]
            cases b3 with
            | true => exact ⟨M4, rfl, hV4, (hE2.trans hE3).trans hE4⟩
            | false => exact ⟨M4, rfl, hV4, (hE2.trans hE3).trans hE4⟩

theorem refines_contains {Mod : IRGenModule} {m : Nat} (ih : RefinesAt Mod m)
    (env : Option GenericEnvironment) (t t2 : SILType) (M : LargeSILTypeMapper)
    (hV : Valid Mod M) (hN : 10 * sizeOf t.ast + 6 < m + 1) :
    Refines Mod M (containsDifferentFunctionSignature Mod (m + 1) env t t2 M)
      (Pure.containsDifferentFunctionSignature Mod env t t2) := by
  rw [Pure.containsDifferentFunctionSignature, containsDifferentFunctionSignature]
  by_cases heq : t = t2
  · rw [if_pos heq, if_pos heq]
    exact ⟨M, rfl, hV, Extends.refl M⟩
  · rw [if_neg heq, if_neg heq]
    by_cases hin : (getInnerFunctionType t).isSome = true
    · rw [if_pos hin, if_pos hin]
      exact ⟨M, rfl, hV, Extends.refl M⟩
    · rw [if_neg hin, if_neg hin]
      simp only []
      split
      · next origType h =>
        have hsz := Pure.sizeOf_getAsTupleType h
        have hsz2 := Pure.sizeOf_getNonOptionalType t
        split
        · next o2 h2 =>
          rw [h] at h2; cases h2
          exact refines_anyElemDiffers ih env origType M hV (by omega)
        · next h2 => rw [h] at h2; cases h2
      · next h =>
        split
        · next o2 h2 => rw [h] at h2; cases h2
        · next h2 => exact ⟨M, rfl, hV, Extends.refl M⟩

theorem refines_results {Mod : IRGenModule} {m : Nat} (ih : RefinesAt Mod m)
    (env : Option GenericEnvironment) (fn : SILFunctionType) (M : LargeSILTypeMapper)
    (hV : Valid Mod M) (hN : 10 * sizeOf fn + 7 < m + 1) :
    Refines Mod M (getNewResults Mod (m + 1) env fn M) (Pure.getNewResults Mod env fn) := by
  rw [getNewResults, Pure.getNewResults]
  have hrs := Pure.sizeOf_resultInfos fn
  exact refines_resultElems ih env fn fn.resultInfos M hV (by omega)

theorem refines_params {Mod : IRGenModule} {m : Nat} (ih : RefinesAt Mod m)
    (env : Option GenericEnvironment) (fn : SILFunctionType) (M : LargeSILTypeMapper)
    (hV : Valid Mod M) (hN : 10 * sizeOf fn + 7 < m + 1) :
    Refines Mod M (getNewParameters Mod (m + 1) env fn M)
      (Pure.newParameterElems Mod env fn.parameterInfos) := by
  rw [getNewParameters]
  have hps := Pure.sizeOf_parameterInfos fn
  exact refines_parameterElems ih env fn.parameterInfos M hV (by omega)

theorem refines_yields {Mod : IRGenModule} {m : Nat} (ih : RefinesAt Mod m)
    (env : Option GenericEnvironment) (fn : SILFunctionType) (M : LargeSILTypeMapper)
    (hV : Valid Mod M) (hN : 10 * sizeOf fn + 7 < m + 1) :
    Refines Mod M (getNewYields Mod (m + 1) env fn M)
      (Pure.newYieldElems Mod env fn.yieldInfos) := by
  rw [getNewYields]
  have hys := Pure.sizeOf_yieldInfos fn
  exact refines_yieldElems ih env fn.yieldInfos M hV (by omega)

theorem refines_fnType {Mod : IRGenModule} {m : Nat} (ih : RefinesAt Mod m)
    (env0 : Option GenericEnvironment) (fn : SILFunctionType) (M : LargeSILTypeMapper)
    (hV : Valid Mod M) (hN : 10 * sizeOf fn + 8 < m + 1) :
    Refines Mod M (getNewSILFunctionType Mod (m + 1) env0 fn M)
      (Pure.getNewSILFunctionType Mod env0 fn) := by
  rw [getNewSILFunctionType, Pure.getNewSILFunctionType]
  by_cases hmod : (!modifiableFunction fn) = true
  · rw [if_pos hmod, if_pos hmod]
    exact ⟨M, rfl, hV, Extends.refl M⟩
  · rw [if_neg hmod, if_neg hmod]
    generalize (if fn.getPatternSubstitutions.isSome = true then getSubstGenericEnvironment fn
      else env0) = env
    simp only []
    have h1 := ih.params env fn M hV (by omega)
    rcases h1.elim with ⟨hp, hr⟩ | ⟨ps, M2, hp, hr, hV2, hE2⟩
    · rw [hp, hr]; exact rfl
    · rw [hp, hr]
      simp only []
      have h2 := ih.yields env fn M2 hV2 (by omega)
      rcases h2.elim with ⟨hp2, hr2⟩ | ⟨ys, M3, hp2, hr2, hV3, hE3⟩
      · rw [hp2, hr2]; exact rfl
      · rw [hp2, hr2]
        simp only []
        have h3 := ih.results env fn M3 hV3 (by omega)
        rcases h3.elim with ⟨hp3, hr3⟩ | ⟨rs, M4, hp3, hr3, hV4, hE4⟩
        · rw [hp3, hr3]; exact rfl
        · rw [hp3, hr3]
          exact ⟨M4, rfl, hV4, (hE2.trans hE3).trans hE4⟩

theorem refines_shouldResults {Mod : IRGenModule} {m : Nat} (ih : RefinesAt Mod m)
    (env : Option GenericEnvironment) (fn : SILFunctionType) (M : LargeSILTypeMapper)
    (hV : Valid Mod M) (hN : 10 * sizeOf fn + 7 < m + 1) :
    Refines Mod M (shouldTransformResults Mod (m + 1) env fn M)
      (Pure.shouldTransformResults Mod env fn) := by
  rw [Pure.shouldTransformResults]
  by_cases hmod : (!modifiableFunction fn) = true
  · rw [if_pos hmod, shouldTransformResults, if_pos hmod]
    exact ⟨M, rfl, hV, Extends.refl M⟩
  · rw [if_neg hmod]
    by_cases hnum : fn.getNumResults ≠ 1
    · rw [if_pos hnum, shouldTransformResults, if_neg hmod, if_pos hnum]
      have hsz := Pure.sizeOf_getAllResultsInterfaceType fn
      have h1 := ih.type env fn.getAllResultsInterfaceType M hV (by omega)
      rcases h1.elim with ⟨hp, hr⟩ | ⟨v, M2, hp, hr, hV2, hE2⟩
      · simp only [hp, hr]; exact rfl
      · simp only [hp, hr]
        exact ⟨M2, rfl, hV2, hE2⟩
    · rw [if_neg hnum]
      split
      · next singleResult h =>
        rw [shouldTransformResults, if_neg hmod, if_neg hnum]
        simp only [h]
        have hsz := Pure.sizeOf_singleResult h
        have hst := Pure.SILResultInfo.result_storage_ast singleResult
        have h1 := ih.type env singleResult.getSILStorageInterfaceType M hV
          (by rw [hst]; omega)
        rcases h1.elim with ⟨hp, hr⟩ | ⟨v, M2, hp, hr, hV2, hE2⟩
        · simp only [hp, hr]; exact rfl
        · simp only [hp, hr]
          by_cases hne : singleResult.getSILStorageInterfaceType ≠ v
          · rw [if_pos hne, if_pos hne]
            exact ⟨M2, rfl, hV2, hE2⟩
          · rw [if_neg hne, if_neg hne]
            cases hmn : modNonFuncTypeResultType env fn Mod with
            | error e => cases modNonFuncTypeResultType_error hmn; exact rfl
            | ok b => exact ⟨M2, rfl, hV2, hE2⟩
      · next h =>
        rw [shouldTransformResults, if_neg hmod, if_neg hnum]
        split
        · next r2 h2 => exact absurd h2 (h r2)
        · next h2 => exact rfl

theorem refines_param {Mod : IRGenModule} {m : Nat} (ih : RefinesAt Mod m)
    (env : Option GenericEnvironment) (p : SILParameterInfo) (M : LargeSILTypeMapper)
    (hV : Valid Mod M) (hN : 10 * sizeOf p.type + 6 < m + 1) :
    Refines Mod M (getNewParameter Mod (m + 1) env p M) (Pure.getNewParameter Mod env p) := by
  rw [Pure.getNewParameter]
  have hst := Pure.SILParameterInfo.param_storage_ast p
  have h1 := ih.optFn env p.getSILStorageInterfaceType M hV (by rw [hst]; omega)
  rcases h1.elim with ⟨hp, hr⟩ | ⟨v, M2, hp, hr, hV2, hE2⟩
  · rw [getNewParameter]; simp only [hp, hr]; exact rfl
  · simp only [hp]
    by_cases hne : v ≠ p.getSILStorageInterfaceType
    · rw [if_pos hne, getNewParameter]
      simp only [hr]
      rw [if_pos hne]
      exact ⟨M2, rfl, hV2, hE2⟩
    · rw [if_neg hne]
      split
      · next fnType h =>
        have hsz := Pure.sizeOf_getAsSILFunctionType h
        rw [hst] at hsz
        rw [getNewParameter]
        simp only [hr]
        rw [if_neg hne]
        simp only [h]
        have h2 := ih.should env fnType M2 hV2 (by omega)
        rcases h2.elim with ⟨hp2, hr2⟩ | ⟨b, M3, hp2, hr2, hV3, hE3⟩
        · rw [hp2, hr2]; exact rfl
        · rw [hp2, hr2]
          cases b with
          | false => exact ⟨M3, rfl, hV3, hE2.trans hE3⟩
          | true =>
            simp only []
            have h3 := ih.fnType env fnType M3 hV3 (by omega)
            rcases h3.elim with ⟨hp3, hr3⟩ | ⟨fn3, M4, hp3, hr3, hV4, hE4⟩
            · rw [hp3, hr3]; exact rfl
            · rw [hp3, hr3]
              exact ⟨M4, rfl, hV4, (hE2.trans hE3).trans hE4⟩
      · next h =>
        rw [getNewParameter]
        simp only [hr]
        rw [if_neg hne]
        simp only [h]
        cases hl : isLargeLoadableType env p.getSILStorageInterfaceType Mod with
        | error e => cases isLargeLoadableType_error hl; exact rfl
        | ok large =>
          cases large with
          | true =>
            simp only []
            by_cases hc : p.getConvention = ParameterConvention.Direct_Guaranteed
            · rw [if_pos hc, if_pos hc]
              exact ⟨M2, rfl, hV2, hE2⟩
            · rw [if_neg hc, if_neg hc]
              exact ⟨M2, rfl, hV2, hE2⟩
          | false =>
            simp only []
            have h3 := ih.type env p.getSILStorageInterfaceType M2 hV2
              (by rw [hst]; omega)
            rcases h3.elim with ⟨hp3, hr3⟩ | ⟨v3, M3, hp3, hr3, hV3, hE3⟩
            · rw [hp3, hr3]; exact rfl
            · rw [hp3, hr3]
              exact ⟨M3, rfl, hV3, hE2.trans hE3⟩

/-- The refinement theorem: at every fuel, every mapper function whose argument
is small enough for the fuel returns what its cache-free reading returns, from
every valid cache, and leaves a valid cache that extends the one it started
from. -/
theorem refinesAt (Mod : IRGenModule) : ∀ n : Nat, RefinesAt Mod n
  | 0 =>
    { type := fun _ _ _ _ h => absurd h (Nat.not_lt_zero _)
      tuple := fun _ _ _ _ _ h => absurd h (Nat.not_lt_zero _)
      optFn := fun _ _ _ _ h => absurd h (Nat.not_lt_zero _)
      should := fun _ _ _ _ h => absurd h (Nat.not_lt_zero _)
      shouldParam := fun _ _ _ _ h => absurd h (Nat.not_lt_zero _)
      contains := fun _ _ _ _ _ h => absurd h (Nat.not_lt_zero _)
      results := fun _ _ _ _ h => absurd h (Nat.not_lt_zero _)
      fnType := fun _ _ _ _ h => absurd h (Nat.not_lt_zero _)
      shouldResults := fun _ _ _ _ h => absurd h (Nat.not_lt_zero _)
      param := fun _ _ _ _ h => absurd h (Nat.not_lt_zero _)
      params := fun _ _ _ _ h => absurd h (Nat.not_lt_zero _)
      yields := fun _ _ _ _ h => absurd h (Nat.not_lt_zero _) }
  | m + 1 =>
    have ih := refinesAt Mod m
    { type := refines_type ih
      tuple := refines_tuple ih
      optFn := refines_optFn ih
      should := refines_should ih
      shouldParam := refines_shouldParam ih
      contains := refines_contains ih
      results := refines_results ih
      fnType := refines_fnType ih
      shouldResults := refines_shouldResults ih
      param := refines_param ih
      params := refines_params ih
      yields := refines_yields ih }

end LoadableByAddress
set_option linter.unreachableTactic false
set_option linter.unusedTactic false

namespace LoadableByAddress
open LargeSILTypeMapper

/-! ## The transform, shape by shape -/

theorem pure_getNewTupleType_eq (Mod : IRGenModule) (env : Option GenericEnvironment)
    (nonOptionalType storageType : SILType) (elts : TupleTypeElts)
    (h : nonOptionalType.getAsTupleType = some elts) :
    Pure.getNewTupleType Mod env nonOptionalType storageType =
      match Pure.newTupleElems Mod env elts with
      | none => none
      | some newElems =>
        let newSILType := SILType.getPrimitiveObjectType (.tuple (TupleTypeElts.ofList newElems))
        let newSILType1 :=
          if nonOptionalType.isAddress then newSILType.getAddressType else newSILType
        let newSILType2 :=
          if nonOptionalType ≠ storageType then SILType.getOptionalType newSILType1
          else newSILType1
        some (if storageType.isAddress then newSILType2.getAddressType else newSILType2) := by
  rw [Pure.getNewTupleType]
  split
  · next h2 => rw [h] at h2; cases h2
  · next o h2 =>
    rw [h] at h2
    cases h2
    rfl

/-- The transform of a tuple type, in either category. -/
theorem pure_getNewSILType_tuple (Mod : IRGenModule) (env : Option GenericEnvironment)
    (elts : TupleTypeElts) (cat : SILValueCategory) :
    Pure.getNewSILType Mod env ⟨.tuple elts, cat⟩ =
      match Pure.newTupleElems Mod env elts with
      | none => none
      | some newElems =>
        match isLargeLoadableType env ⟨.tuple (TupleTypeElts.ofList newElems), cat⟩ Mod with
        | .error _ => none
        | .ok large =>
          some (if large then ⟨.tuple (TupleTypeElts.ofList newElems), .Address⟩
            else ⟨.tuple (TupleTypeElts.ofList newElems), cat⟩) := by
  rw [Pure.getNewSILType]
  have hn : getNonOptionalType ⟨.tuple elts, cat⟩ = ⟨.tuple elts, cat⟩ := rfl
  simp only [hn]
  have ht : (SILType.mk (.tuple elts) cat).getAsTupleType = some elts := rfl
  rw [if_pos (by rw [ht]; rfl), pure_getNewTupleType_eq Mod env _ _ elts ht]
  cases Pure.newTupleElems Mod env elts with
  | none => rfl
  | some newElems =>
    cases cat <;>
      simp [SILType.isAddress, SILType.getPrimitiveObjectType, SILType.getAddressType] <;>
      try (generalize isLargeLoadableType env _ Mod = r; cases r <;> rfl)

/-- The transform of an optional of a tuple type, in either category. -/
theorem pure_getNewSILType_optional_tuple (Mod : IRGenModule)
    (env : Option GenericEnvironment) (elts : TupleTypeElts) (cat : SILValueCategory) :
    Pure.getNewSILType Mod env ⟨.optional (.tuple elts), cat⟩ =
      match Pure.newTupleElems Mod env elts with
      | none => none
      | some newElems =>
        match isLargeLoadableType env
            ⟨.optional (.tuple (TupleTypeElts.ofList newElems)), cat⟩ Mod with
        | .error _ => none
        | .ok large =>
          some (if large then ⟨.optional (.tuple (TupleTypeElts.ofList newElems)), .Address⟩
            else ⟨.optional (.tuple (TupleTypeElts.ofList newElems)), cat⟩) := by
  rw [Pure.getNewSILType]
  have hn : getNonOptionalType ⟨.optional (.tuple elts), cat⟩ = ⟨.tuple elts, cat⟩ := rfl
  simp only [hn]
  have ht : (SILType.mk (.tuple elts) cat).getAsTupleType = some elts := rfl
  rw [if_pos (by rw [ht]; rfl), pure_getNewTupleType_eq Mod env _ _ elts ht]
  cases Pure.newTupleElems Mod env elts with
  | none => rfl
  | some newElems =>
    cases cat <;>
      simp [SILType.isAddress, SILType.getPrimitiveObjectType, SILType.getAddressType,
        SILType.getOptionalType] <;>
      try (generalize isLargeLoadableType env _ Mod = r; cases r <;> rfl)

theorem getNewOptionalFunctionType_not_func (Mod : IRGenModule) (fuel : Nat)
    (env : Option GenericEnvironment) (t : SILType) (M : LargeSILTypeMapper)
    (hF : isFuncOrOptionalFuncType t = false) :
    getNewOptionalFunctionType Mod (fuel + 1) env t M = .ok (t, M) := by
  obtain ⟨ast, cat⟩ := t
  rw [getNewOptionalFunctionType]
  cases ast with
  | optional obj =>
    cases obj <;>
      simp_all [isFuncOrOptionalFuncType, SILType.getOptionalObjectType,
        SILType.getAsSILFunctionType]
  | _ => simp [SILType.getOptionalObjectType]

theorem pure_getNewOptionalFunctionType_not_func (Mod : IRGenModule)
    (env : Option GenericEnvironment) (t : SILType)
    (hF : isFuncOrOptionalFuncType t = false) :
    Pure.getNewOptionalFunctionType Mod env t = some t := by
  obtain ⟨ast, cat⟩ := t
  rw [Pure.getNewOptionalFunctionType]
  cases ast with
  | optional obj =>
    cases obj <;>
      simp_all [isFuncOrOptionalFuncType, SILType.getOptionalObjectType,
        SILType.getAsSILFunctionType]
  | _ => simp [SILType.getOptionalObjectType]

theorem getAsSILFunctionType_not_func (t : SILType)
    (hF : isFuncOrOptionalFuncType t = false) : t.getAsSILFunctionType = none := by
  obtain ⟨ast, cat⟩ := t
  cases ast <;>
    simp_all [isFuncOrOptionalFuncType, SILType.getOptionalObjectType,
      SILType.getAsSILFunctionType]

theorem pure_getNewSILType_simple (Mod : IRGenModule) (env : Option GenericEnvironment)
    (t : SILType) (large : Bool)
    (hF : isFuncOrOptionalFuncType t = false)
    (hT : (getNonOptionalType t).getAsTupleType = none)
    (hL : isLargeLoadableType env t Mod = .ok large) :
    Pure.getNewSILType Mod env t = some (if large then t.getAddressType else t) := by
  rw [Pure.getNewSILType]
  simp only [hT, Option.isSome_none, Bool.false_eq_true, if_false,
    pure_getNewOptionalFunctionType_not_func Mod env t hF, ne_eq, not_true_eq_false]
  split
  · next fn hfn => rw [getAsSILFunctionType_not_func t hF] at hfn; cases hfn
  · rw [hL]
    cases large <;> simp


theorem pure_getNewOptionalFunctionType_function (Mod : IRGenModule)
    (env : Option GenericEnvironment) (fn : SILFunctionType) (cat : SILValueCategory) :
    Pure.getNewOptionalFunctionType Mod env ⟨.function fn, cat⟩ =
      some ⟨.function fn, cat⟩ := by
  rw [Pure.getNewOptionalFunctionType]
  split
  · next o h => simp [SILType.getOptionalObjectType] at h
  · rfl

theorem pure_getNewOptionalFunctionType_optional_function (Mod : IRGenModule)
    (env : Option GenericEnvironment) (fn : SILFunctionType) (cat : SILValueCategory) :
    Pure.getNewOptionalFunctionType Mod env ⟨.optional (.function fn), cat⟩ =
      match Pure.shouldTransformFunctionType Mod env fn with
      | none => none
      | some true =>
        match Pure.getNewSILFunctionType Mod env fn with
        | none => none
        | some newFnType => some ⟨.optional (.function newFnType), cat⟩
      | some false => some ⟨.optional (.function fn), cat⟩ := by
  rw [Pure.getNewOptionalFunctionType]
  split
  · next o h =>
    simp only [SILType.getOptionalObjectType, Option.some.injEq] at h
    subst h
    split
    · next f h2 =>
      simp only [SILType.getAsSILFunctionType, Option.some.injEq] at h2
      subst h2
      cases Pure.shouldTransformFunctionType Mod env fn with
      | none => rfl
      | some b =>
        cases b with
        | false => rfl
        | true =>
          first
            | (simp only []; cases Pure.getNewSILFunctionType Mod env fn <;> rfl)
            | simp only []
    · next h2 => simp [SILType.getAsSILFunctionType] at h2
  · next h => simp [SILType.getOptionalObjectType] at h

/-- The transform of a function type, in either category. -/
theorem pure_getNewSILType_function (Mod : IRGenModule) (env : Option GenericEnvironment)
    (fn : SILFunctionType) (cat : SILValueCategory) :
    Pure.getNewSILType Mod env ⟨.function fn, cat⟩ =
      match Pure.shouldTransformFunctionType Mod env fn with
      | none => none
      | some true =>
        match Pure.getNewSILFunctionType Mod env fn with
        | none => none
        | some newFnType => some ⟨.function newFnType, cat⟩
      | some false => some ⟨.function fn, cat⟩ := by
  rw [Pure.getNewSILType]
  have hn : getNonOptionalType ⟨.function fn, cat⟩ = ⟨.function fn, cat⟩ := rfl
  simp only [hn]
  have ht : (SILType.mk (.function fn) cat).getAsTupleType = none := rfl
  rw [if_neg (by rw [ht]; simp), pure_getNewOptionalFunctionType_function]
  simp only [ne_eq, not_true_eq_false, if_false]
  split
  · next f h =>
    simp only [SILType.getAsSILFunctionType, Option.some.injEq] at h
    subst h
    cases Pure.shouldTransformFunctionType Mod env fn with
    | none => rfl
    | some b =>
      cases b with
      | false => rfl
      | true =>
        first
          | (simp only []; cases Pure.getNewSILFunctionType Mod env fn <;> rfl)
          | simp only []
  · next h => simp [SILType.getAsSILFunctionType] at h

/-- The transform of an optional of a function type, in either category. -/
theorem pure_getNewSILType_optional_function (Mod : IRGenModule)
    (env : Option GenericEnvironment) (fn : SILFunctionType) (cat : SILValueCategory) :
    Pure.getNewSILType Mod env ⟨.optional (.function fn), cat⟩ =
      match Pure.getNewOptionalFunctionType Mod env ⟨.optional (.function fn), cat⟩ with
      | none => none
      | some newSILType =>
        if newSILType ≠ ⟨.optional (.function fn), cat⟩ then some newSILType
        else
          match isLargeLoadableType env ⟨.optional (.function fn), cat⟩ Mod with
          | .error _ => none
          | .ok large =>
            some (if large then ⟨.optional (.function fn), .Address⟩
              else ⟨.optional (.function fn), cat⟩) := by
  rw [Pure.getNewSILType]
  have hn : getNonOptionalType ⟨.optional (.function fn), cat⟩ = ⟨.function fn, cat⟩ := rfl
  simp only [hn]
  have ht : (SILType.mk (.function fn) cat).getAsTupleType = none := rfl
  rw [if_neg (by rw [ht]; simp)]
  cases Pure.getNewOptionalFunctionType Mod env ⟨.optional (.function fn), cat⟩ with
  | none => rfl
  | some v =>
    simp only []
    by_cases hne : v ≠ ⟨.optional (.function fn), cat⟩
    · rw [if_pos hne, if_pos hne]
    · rw [if_neg hne, if_neg hne]
      split
      · next f h => simp [SILType.getAsSILFunctionType] at h
      · have hv : v = ⟨.optional (.function fn), cat⟩ := by simpa using hne
        subst hv
        generalize isLargeLoadableType env _ Mod = r
        cases r with
        | error e => rfl
        | ok large => cases large <;> rfl

theorem pure_getNewSILType_simple_cases (Mod : IRGenModule)
    (env : Option GenericEnvironment) (t : SILType)
    (hF : isFuncOrOptionalFuncType t = false)
    (hT : (getNonOptionalType t).getAsTupleType = none) :
    Pure.getNewSILType Mod env t =
      match isLargeLoadableType env t Mod with
      | .error _ => none
      | .ok large => some (if large then t.getAddressType else t) := by
  cases hL : isLargeLoadableType env t Mod with
  | ok large => exact pure_getNewSILType_simple Mod env t large hF hT hL
  | error e =>
    rw [Pure.getNewSILType]
    simp only [hT, Option.isSome_none, Bool.false_eq_true, if_false,
      pure_getNewOptionalFunctionType_not_func Mod env t hF, ne_eq, not_true_eq_false]
    split
    · next fn hfn => rw [getAsSILFunctionType_not_func t hF] at hfn; cases hfn
    · rw [hL]

theorem isLargeLoadableType_address (env : Option GenericEnvironment) (t : CanType)
    (Mod : IRGenModule) : isLargeLoadableType env ⟨t, .Address⟩ Mod = .ok false := by
  unfold isLargeLoadableType
  simp [SILType.isAddress]

theorem pure_getNewSILType_simple_ast (Mod : IRGenModule)
    (env : Option GenericEnvironment) (t : CanType) (v : SILType)
    (hF : isFuncOrOptionalFuncType ⟨t, .Object⟩ = false)
    (hT : (getNonOptionalType ⟨t, .Object⟩).getAsTupleType = none)
    (hF2 : isFuncOrOptionalFuncType ⟨t, .Address⟩ = false)
    (hT2 : (getNonOptionalType ⟨t, .Address⟩).getAsTupleType = none)
    (h : Pure.getNewSILType Mod env ⟨t, .Object⟩ = some v) :
    ∃ w, Pure.getNewSILType Mod env ⟨t, .Address⟩ = some w ∧ w.ast = v.ast := by
  rw [pure_getNewSILType_simple_cases Mod env _ hF hT] at h
  rw [pure_getNewSILType_simple_cases Mod env _ hF2 hT2, isLargeLoadableType_address]
  refine ⟨_, rfl, ?_⟩
  split at h
  · cases h
  · next large hl =>
    simp only [Option.some.injEq] at h
    subst h
    cases large <;> rfl

/-- The value type of the transform does not depend on the category: where the
value form of a type has a transform, the address form has one too, of the same
value type. -/
theorem pure_getNewSILType_address_of_object (Mod : IRGenModule)
    (env : Option GenericEnvironment) (t : CanType) (v : SILType)
    (h : Pure.getNewSILType Mod env ⟨t, .Object⟩ = some v) :
    ∃ w, Pure.getNewSILType Mod env ⟨t, .Address⟩ = some w ∧ w.ast = v.ast := by
  cases t with
  | nominal k d => exact pure_getNewSILType_simple_ast Mod env _ v rfl rfl rfl rfl h
  | metatype i => exact pure_getNewSILType_simple_ast Mod env _ v rfl rfl rfl rfl h
  | scalar i => exact pure_getNewSILType_simple_ast Mod env _ v rfl rfl rfl rfl h
  | tuple elts =>
    rw [pure_getNewSILType_tuple] at h ⊢
    cases hn : Pure.newTupleElems Mod env elts with
    | none => rw [hn] at h; cases h
    | some ne =>
      rw [hn] at h
      simp only [isLargeLoadableType_address] at h ⊢
      refine ⟨_, rfl, ?_⟩
      split at h
      · cases h
      · next large hl =>
        simp only [Option.some.injEq] at h
        subst h
        cases large <;> rfl
  | function fn =>
    rw [pure_getNewSILType_function] at h ⊢
    cases hs : Pure.shouldTransformFunctionType Mod env fn with
    | none => rw [hs] at h; cases h
    | some b =>
      rw [hs] at h
      cases b with
      | false =>
        simp only [Option.some.injEq] at h
        subst h
        exact ⟨_, rfl, rfl⟩
      | true =>
        simp only [] at h ⊢
        cases hf : Pure.getNewSILFunctionType Mod env fn with
        | none => rw [hf] at h; cases h
        | some nf =>
          rw [hf] at h
          simp only [Option.some.injEq] at h
          subst h
          exact ⟨_, rfl, rfl⟩
  | optional obj =>
    cases obj with
    | nominal k d => exact pure_getNewSILType_simple_ast Mod env _ v rfl rfl rfl rfl h
    | metatype i => exact pure_getNewSILType_simple_ast Mod env _ v rfl rfl rfl rfl h
    | scalar i => exact pure_getNewSILType_simple_ast Mod env _ v rfl rfl rfl rfl h
    | optional o => exact pure_getNewSILType_simple_ast Mod env _ v rfl rfl rfl rfl h
    | tuple elts =>
      rw [pure_getNewSILType_optional_tuple] at h ⊢
      cases hn : Pure.newTupleElems Mod env elts with
      | none => rw [hn] at h; cases h
      | some ne =>
        rw [hn] at h
        simp only [isLargeLoadableType_address] at h ⊢
        refine ⟨_, rfl, ?_⟩
        split at h
        · cases h
        · next large hl =>
          simp only [Option.some.injEq] at h
          subst h
          cases large <;> rfl
    | function fn =>
      rw [pure_getNewSILType_optional_function,
        pure_getNewOptionalFunctionType_optional_function] at h ⊢
      simp only [isLargeLoadableType_address]
      cases hs : Pure.shouldTransformFunctionType Mod env fn with
      | none => rw [hs] at h; cases h
      | some b =>
        rw [hs] at h
        cases b with
        | false =>
          simp only [ne_eq, not_true_eq_false, if_false] at h ⊢
          refine ⟨_, rfl, ?_⟩
          split at h
          · cases h
          · next large hl =>
            simp only [Option.some.injEq] at h
            subst h
            cases large <;> rfl
        | true =>
          simp only [] at h ⊢
          cases hf : Pure.getNewSILFunctionType Mod env fn with
          | none => rw [hf] at h; cases h
          | some nf =>
            rw [hf] at h
            simp only [] at h ⊢
            by_cases hnf : nf = fn
            · subst hnf
              simp only [ne_eq, not_true_eq_false, if_false] at h ⊢
              refine ⟨_, rfl, ?_⟩
              split at h
              · cases h
              · next large hl =>
                simp only [Option.some.injEq] at h
                subst h
                cases large <;> rfl
            · have h1 : (SILType.mk (.optional (.function nf)) .Object) ≠
                  ⟨.optional (.function fn), .Object⟩ := by
                intro hc; injection hc with hc1; injection hc1 with hc2
                injection hc2 with hc3; exact hnf hc3
              have h2 : (SILType.mk (.optional (.function nf)) .Address) ≠
                  ⟨.optional (.function fn), .Address⟩ := by
                intro hc; injection hc with hc1; injection hc1 with hc2
                injection hc2 with hc3; exact hnf hc3
              rw [if_pos h1] at h
              rw [if_pos h2]
              simp only [Option.some.injEq] at h
              subst h
              exact ⟨_, rfl, rfl⟩

theorem pure_contains_eq (Mod : IRGenModule) (env : Option GenericEnvironment)
    (storageType newSILType : SILType) :
    Pure.containsDifferentFunctionSignature Mod env storageType newSILType =
      if storageType = newSILType then some false
      else if (getInnerFunctionType storageType).isSome then some true
      else
        match (getNonOptionalType storageType).getAsTupleType with
        | some origType => Pure.anyElemDiffers Mod env origType
        | none => some false := by
  rw [Pure.containsDifferentFunctionSignature]
  split
  · rfl
  · split
    · rfl
    · split
      · next o h => rw [h]
      · next h => rw [h]

theorem pure_contains_total_of_not_tuple (Mod : IRGenModule)
    (env : Option GenericEnvironment) (storageType newSILType : SILType)
    (h : (getNonOptionalType storageType).getAsTupleType = none) :
    ∃ b, Pure.containsDifferentFunctionSignature Mod env storageType newSILType = some b := by
  rw [pure_contains_eq, h]
  split
  · exact ⟨_, rfl⟩
  · split <;> exact ⟨_, rfl⟩

theorem pure_contains_total_of_elems (Mod : IRGenModule)
    (env : Option GenericEnvironment) (storageType newSILType : SILType)
    (elts : TupleTypeElts)
    (h : (getNonOptionalType storageType).getAsTupleType = some elts)
    (hb : ∃ b, Pure.anyElemDiffers Mod env elts = some b) :
    ∃ b, Pure.containsDifferentFunctionSignature Mod env storageType newSILType = some b := by
  rw [pure_contains_eq, h]
  split
  · exact ⟨_, rfl⟩
  · split
    · exact ⟨_, rfl⟩
    · exact hb

theorem pure_newTupleElems_of_tuple {Mod : IRGenModule} {env : Option GenericEnvironment}
    {elts : TupleTypeElts} {cat : SILValueCategory} {v : SILType}
    (h : Pure.getNewSILType Mod env ⟨.tuple elts, cat⟩ = some v) :
    ∃ newElems, Pure.newTupleElems Mod env elts = some newElems := by
  rw [pure_getNewSILType_tuple] at h
  cases hn : Pure.newTupleElems Mod env elts with
  | none => rw [hn] at h; cases h
  | some ne => exact ⟨ne, rfl⟩

theorem pure_newTupleElems_of_optional_tuple {Mod : IRGenModule}
    {env : Option GenericEnvironment} {elts : TupleTypeElts} {cat : SILValueCategory}
    {v : SILType}
    (h : Pure.getNewSILType Mod env ⟨.optional (.tuple elts), cat⟩ = some v) :
    ∃ newElems, Pure.newTupleElems Mod env elts = some newElems := by
  rw [pure_getNewSILType_optional_tuple] at h
  cases hn : Pure.newTupleElems Mod env elts with
  | none => rw [hn] at h; cases h
  | some ne => exact ⟨ne, rfl⟩

theorem pure_newTupleElems_cons {Mod : IRGenModule} {env : Option GenericEnvironment}
    {t : CanType} {name : Identifier} {rest : TupleTypeElts} {newElems : List TupleTypeElt}
    (h : Pure.newTupleElems Mod env (.cons t name rest) = some newElems) :
    ∃ newElem newRest,
      Pure.getNewSILType Mod env (SILType.getPrimitiveObjectType t) = some newElem ∧
      Pure.newTupleElems Mod env rest = some newRest ∧
      newElems = ⟨newElem.getASTType, name⟩ :: newRest := by
  rw [Pure.newTupleElems] at h
  cases h1 : Pure.getNewSILType Mod env (SILType.getPrimitiveObjectType t) with
  | none => rw [h1] at h; cases h
  | some newElem =>
    rw [h1] at h
    cases h2 : Pure.newTupleElems Mod env rest with
    | none => rw [h2] at h; cases h
    | some newRest =>
      rw [h2] at h
      simp only [Option.some.injEq] at h
      exact ⟨newElem, newRest, rfl, rfl, h.symm⟩

mutual
/-- Where a type has a transform, `containsDifferentFunctionSignature` has an
answer for it. -/
theorem pure_contains_total (Mod : IRGenModule) (env : Option GenericEnvironment) :
    (t : CanType) → (cat : SILValueCategory) → (v newSILType : SILType) →
    Pure.getNewSILType Mod env ⟨t, cat⟩ = some v →
    ∃ b, Pure.containsDifferentFunctionSignature Mod env ⟨t, cat⟩ newSILType = some b
  | .tuple elts, cat, v, new, h => by
    obtain ⟨ne, hn⟩ := pure_newTupleElems_of_tuple h
    exact pure_contains_total_of_elems Mod env _ _ elts rfl
      (pure_anyElemDiffers_total Mod env elts ne hn)
  | .optional (.tuple elts), cat, v, new, h => by
    obtain ⟨ne, hn⟩ := pure_newTupleElems_of_optional_tuple h
    exact pure_contains_total_of_elems Mod env _ _ elts rfl
      (pure_anyElemDiffers_total Mod env elts ne hn)
  | .nominal _ _, _, _, _, _ => pure_contains_total_of_not_tuple Mod env _ _ rfl
  | .metatype _, _, _, _, _ => pure_contains_total_of_not_tuple Mod env _ _ rfl
  | .scalar _, _, _, _, _ => pure_contains_total_of_not_tuple Mod env _ _ rfl
  | .function _, _, _, _, _ => pure_contains_total_of_not_tuple Mod env _ _ rfl
  | .optional (.nominal _ _), _, _, _, _ => pure_contains_total_of_not_tuple Mod env _ _ rfl
  | .optional (.metatype _), _, _, _, _ => pure_contains_total_of_not_tuple Mod env _ _ rfl
  | .optional (.scalar _), _, _, _, _ => pure_contains_total_of_not_tuple Mod env _ _ rfl
  | .optional (.function _), _, _, _, _ => pure_contains_total_of_not_tuple Mod env _ _ rfl
  | .optional (.optional _), _, _, _, _ => pure_contains_total_of_not_tuple Mod env _ _ rfl
termination_by t => sizeOf t
decreasing_by
  all_goals simp_wf
  all_goals omega

/-- Where the elements of a tuple have transforms, the loop of
`containsDifferentFunctionSignature` over them has an answer. -/
theorem pure_anyElemDiffers_total (Mod : IRGenModule) (env : Option GenericEnvironment) :
    (elts : TupleTypeElts) → (newElems : List TupleTypeElt) →
    Pure.newTupleElems Mod env elts = some newElems →
    ∃ b, Pure.anyElemDiffers Mod env elts = some b
  | .nil, _, _ => by rw [Pure.anyElemDiffers]; exact ⟨_, rfl⟩
  | .cons t name rest, ne, h => by
    obtain ⟨newElem, newRest, h1, h2, _⟩ := pure_newTupleElems_cons h
    obtain ⟨b, hb⟩ := pure_contains_total Mod env t .Object newElem newElem h1
    rw [Pure.anyElemDiffers, h1]
    simp only []
    rw [show SILType.getPrimitiveObjectType t = ⟨t, .Object⟩ from rfl, hb]
    cases b with
    | true => exact ⟨_, rfl⟩
    | false => exact pure_anyElemDiffers_total Mod env rest newRest h2
termination_by elts => sizeOf elts
decreasing_by
  all_goals simp_wf
  all_goals omega
end

/-! ## A signature that need not be transformed is its own transform -/

theorem pure_newParameterElems_of_anyParameter (Mod : IRGenModule)
    (env : Option GenericEnvironment) :
    (ps : ParameterInfos) → Pure.anyParameter Mod env ps = some false →
    Pure.newParameterElems Mod env ps = some ps.toList
  | .nil, _ => by rw [Pure.newParameterElems]; rfl
  | .cons t c d rest, h => by
    rw [Pure.anyParameter, Pure.shouldTransformParameter] at h
    cases h1 : Pure.getNewParameter Mod env ⟨t, c, d⟩ with
    | none => rw [h1] at h; cases h
    | some newParam =>
      rw [h1] at h
      simp only [] at h
      by_cases hne : (⟨t, c, d⟩ : SILParameterInfo) ≠ newParam
      · rw [decide_eq_true hne] at h; cases h
      · rw [decide_eq_false hne] at h
        simp only [] at h
        have heq : newParam = ⟨t, c, d⟩ := by
          have := not_not.mp hne
          exact this.symm
        rw [Pure.newParameterElems, h1,
          pure_newParameterElems_of_anyParameter Mod env rest h, heq]
        rfl

theorem pure_newYieldElems_of_anyYield (Mod : IRGenModule)
    (env : Option GenericEnvironment) :
    (ys : YieldInfos) → Pure.anyYield Mod env ys = some false →
    Pure.newYieldElems Mod env ys = some ys.toList
  | .nil, _ => by rw [Pure.newYieldElems]; rfl
  | .cons t c rest, h => by
    rw [Pure.anyYield, Pure.shouldTransformParameter] at h
    cases h1 : Pure.getNewParameter Mod env (SILYieldInfo.toParameterInfo ⟨t, c⟩) with
    | none => rw [h1] at h; cases h
    | some newParam =>
      rw [h1] at h
      simp only [] at h
      by_cases hne : (SILYieldInfo.toParameterInfo ⟨t, c⟩) ≠ newParam
      · rw [decide_eq_true hne] at h; cases h
      · rw [decide_eq_false hne] at h
        simp only [] at h
        have heq : newParam = SILYieldInfo.toParameterInfo ⟨t, c⟩ := by
          have := not_not.mp hne
          exact this.symm
        rw [Pure.newYieldElems, h1, pure_newYieldElems_of_anyYield Mod env rest h, heq]
        rfl

theorem ParameterInfos.params_ofList_toList : ∀ ps : ParameterInfos,
    ParameterInfos.ofList ps.toList = ps
  | .nil => rfl
  | .cons t c d rest => by
    simp [ParameterInfos.ofList, ParameterInfos.toList, ParameterInfos.params_ofList_toList rest]

theorem YieldInfos.yields_ofList_toList : ∀ ys : YieldInfos, YieldInfos.ofList ys.toList = ys
  | .nil => rfl
  | .cons t c rest => by
    simp [YieldInfos.ofList, YieldInfos.toList, YieldInfos.yields_ofList_toList rest]

theorem ResultInfos.results_ofList_toList : ∀ rs : ResultInfos, ResultInfos.ofList rs.toList = rs
  | .nil => rfl
  | .cons t c rest => by
    simp [ResultInfos.ofList, ResultInfos.toList, ResultInfos.results_ofList_toList rest]

theorem OptionalResultInfo.ofOption_toOption : ∀ e : OptionalResultInfo,
    OptionalResultInfo.ofOption e.toOption = e
  | .none => rfl
  | .some _ _ => rfl

/-- Building a signature from the components of a signature gives that
signature. -/
theorem SILFunctionType.get_components (fnType : SILFunctionType) :
    SILFunctionType.get fnType.getInvocationGenericSignature fnType.getExtInfo
      fnType.getCoroutineKind fnType.getCalleeConvention fnType.parameterInfos.toList
      fnType.yieldInfos.toList fnType.resultInfos.toList fnType.getOptionalErrorResult
      fnType.getPatternSubstitutions fnType.getInvocationSubstitutions
      fnType.getWitnessMethodConformanceOrInvalid = fnType := by
  cases fnType
  simp [SILFunctionType.get, SILFunctionType.getInvocationGenericSignature,
    SILFunctionType.getExtInfo, SILFunctionType.getCoroutineKind,
    SILFunctionType.getCalleeConvention, SILFunctionType.parameterInfos,
    SILFunctionType.yieldInfos, SILFunctionType.resultInfos,
    SILFunctionType.getOptionalErrorResult, SILFunctionType.getPatternSubstitutions,
    SILFunctionType.getInvocationSubstitutions,
    SILFunctionType.getWitnessMethodConformanceOrInvalid,
    ParameterInfos.params_ofList_toList, YieldInfos.yields_ofList_toList, ResultInfos.results_ofList_toList,
    OptionalResultInfo.ofOption_toOption]

theorem getAllResultsInterfaceType_of_not_single (fnType : SILFunctionType)
    (h : fnType.getNumResults ≠ 1) :
    fnType.getAllResultsInterfaceType =
      ⟨.tuple (TupleTypeElts.ofList
        (fnType.resultInfos.toList.map (fun r => (⟨r.type, 0⟩ : TupleTypeElt)))), .Object⟩ := by
  unfold SILFunctionType.getAllResultsInterfaceType
  unfold SILFunctionType.getNumResults at h
  unfold SILFunctionType.getResults at h ⊢
  cases hrs : fnType.resultInfos.toList with
  | nil => rfl
  | cons r rest =>
    cases rest with
    | nil => rw [hrs] at h; simp at h
    | cons r2 rest2 => rfl

theorem modNonFuncTypeResultType_of_not_single (env : Option GenericEnvironment)
    (fnType : SILFunctionType) (Mod : IRGenModule) (h : fnType.getNumResults ≠ 1) :
    modNonFuncTypeResultType env fnType Mod = .ok false := by
  unfold modNonFuncTypeResultType
  split
  · rfl
  · rfl

theorem pure_newResultElems_unchanged (Mod : IRGenModule)
    (env : Option GenericEnvironment) :
    (rs : ResultInfos) → (newElems : List TupleTypeElt) →
    Pure.newTupleElems Mod env (TupleTypeElts.ofList
      (rs.toList.map (fun r => (⟨r.type, 0⟩ : TupleTypeElt)))) = some newElems →
    TupleTypeElts.ofList newElems = TupleTypeElts.ofList
      (rs.toList.map (fun r => (⟨r.type, 0⟩ : TupleTypeElt))) →
    Pure.newResultElems Mod env (.ok false) rs = some rs.toList
  | .nil, _, _, _ => by rw [Pure.newResultElems]; rfl
  | .cons t c rest, ne, h, heq => by
    simp only [ResultInfos.toList, List.map_cons, TupleTypeElts.ofList] at h heq
    obtain ⟨newElem, newRest, h1, h2, h3⟩ := pure_newTupleElems_cons h
    subst h3
    simp only [TupleTypeElts.ofList, TupleTypeElts.cons.injEq] at heq
    obtain ⟨hast, _, hrest⟩ := heq
    have ih := pure_newResultElems_unchanged Mod env rest newRest h2 hrest
    have hw : ∃ w, Pure.getNewSILType Mod env
        (SILResultInfo.getSILStorageInterfaceType ⟨t, c⟩) = some w ∧ w.getASTType = t := by
      unfold SILResultInfo.getSILStorageInterfaceType
      by_cases hc : c = ResultConvention.Indirect
      · simp only [hc, if_true]
        obtain ⟨w, hw1, hw2⟩ := pure_getNewSILType_address_of_object Mod env t newElem h1
        exact ⟨w, hw1, by rw [SILType.getASTType, hw2]; exact hast⟩
      · simp only [hc, if_false]
        exact ⟨newElem, h1, hast⟩
    obtain ⟨w, hw1, hw2⟩ := hw
    obtain ⟨b, hb⟩ := pure_contains_total Mod env t
      (SILResultInfo.getSILStorageInterfaceType ⟨t, c⟩).category w w
      (by
        have : (SILType.mk t (SILResultInfo.getSILStorageInterfaceType ⟨t, c⟩).category) =
            SILResultInfo.getSILStorageInterfaceType ⟨t, c⟩ := by
          unfold SILResultInfo.getSILStorageInterfaceType
          split <;> rfl
        rw [this]; exact hw1)
    have hst : (SILType.mk t (SILResultInfo.getSILStorageInterfaceType ⟨t, c⟩).category) =
        SILResultInfo.getSILStorageInterfaceType ⟨t, c⟩ := by
      unfold SILResultInfo.getSILStorageInterfaceType
      split <;> rfl
    rw [hst] at hb
    rw [Pure.newResultElems, hw1]
    simp only [hb, ih]
    cases b with
    | true => simp only [hw2, ResultInfos.toList]
    | false => simp only [ResultInfos.toList]

theorem pure_getNewResults_of_shouldTransformResults (Mod : IRGenModule)
    (env : Option GenericEnvironment) (fnType : SILFunctionType)
    (hM : modifiableFunction fnType = true)
    (h : Pure.shouldTransformResults Mod env fnType = some false) :
    Pure.getNewResults Mod env fnType = some fnType.resultInfos.toList := by
  rw [Pure.shouldTransformResults] at h
  simp only [hM, Bool.not_true, Bool.false_eq_true, if_false] at h
  by_cases hnum : fnType.getNumResults ≠ 1
  · rw [if_pos hnum] at h
    rw [Pure.getNewResults, modNonFuncTypeResultType_of_not_single env fnType Mod hnum]
    cases hT : Pure.getNewSILType Mod env fnType.getAllResultsInterfaceType with
    | none => rw [hT] at h; cases h
    | some newT =>
      rw [hT] at h
      simp only [Option.some.injEq, decide_eq_false_iff_not, ne_eq, not_not] at h
      rw [← h, getAllResultsInterfaceType_of_not_single fnType hnum,
        pure_getNewSILType_tuple] at hT
      cases hn : Pure.newTupleElems Mod env (TupleTypeElts.ofList
          (fnType.resultInfos.toList.map (fun r => (⟨r.type, 0⟩ : TupleTypeElt)))) with
      | none => rw [hn] at hT; cases hT
      | some ne =>
        rw [hn] at hT
        simp only [] at hT
        split at hT
        · cases hT
        · next large hl =>
          simp only [Option.some.injEq] at hT
          cases large with
          | true => simp at hT
          | false =>
            simp only [Bool.false_eq_true, if_false, SILType.mk.injEq, CanType.tuple.injEq,
              and_true] at hT
            exact pure_newResultElems_unchanged Mod env fnType.resultInfos ne hn hT
  · rw [if_neg hnum] at h
    split at h
    · next r hr =>
      have hri := Pure.SILResultInfo.result_storage_ast r
      cases hT : Pure.getNewSILType Mod env r.getSILStorageInterfaceType with
      | none => rw [hT] at h; cases h
      | some newT =>
        rw [hT] at h
        simp only [] at h
        by_cases hne : r.getSILStorageInterfaceType ≠ newT
        · rw [if_pos hne] at h; cases h
        · rw [if_neg hne] at h
          have heq : newT = r.getSILStorageInterfaceType := (not_not.mp hne).symm
          subst heq
          have hmod : modNonFuncTypeResultType env fnType Mod = .ok false := by
            split at h
            · cases h
            · next b hb =>
              simp only [Option.some.injEq] at h
              rw [hb, h]
          have hres : fnType.resultInfos = .cons r.type r.convention .nil := by
            unfold SILFunctionType.getResults at hr
            cases h2 : fnType.resultInfos with
            | nil => rw [h2] at hr; simp [ResultInfos.toList] at hr
            | cons t c rest =>
              rw [h2] at hr
              cases rest with
              | nil =>
                simp [ResultInfos.toList] at hr
                subst hr; rfl
              | cons t2 c2 rest2 => simp [ResultInfos.toList] at hr
          rw [Pure.getNewResults, hmod, hres, Pure.newResultElems]
          have hr2 : (⟨r.type, r.convention⟩ : SILResultInfo) = r := rfl
          rw [hr2, hT]
          simp only [pure_contains_eq, if_true]
          rw [Pure.newResultElems]
          rfl
    · cases h

/-- A signature for which `shouldTransformFunctionType` answers no is its own
transform. -/
theorem pure_getNewSILFunctionType_of_not_should (Mod : IRGenModule)
    (env : Option GenericEnvironment) (fnType : SILFunctionType)
    (h : Pure.shouldTransformFunctionType Mod env fnType = some false) :
    Pure.getNewSILFunctionType Mod env fnType = some fnType := by
  rw [Pure.getNewSILFunctionType]
  by_cases hM : modifiableFunction fnType = true
  · simp only [hM, Bool.not_true, Bool.false_eq_true, if_false]
    rw [Pure.shouldTransformFunctionType] at h
    cases h1 : Pure.shouldTransformResults Mod
        (if fnType.getPatternSubstitutions.isSome = true then
          getSubstGenericEnvironment fnType else env) fnType with
    | none => rw [h1] at h; cases h
    | some b1 =>
      rw [h1] at h
      cases b1 with
      | true => cases h
      | false =>
        simp only [] at h
        cases h2 : Pure.anyParameter Mod
            (if fnType.getPatternSubstitutions.isSome = true then
              getSubstGenericEnvironment fnType else env) fnType.parameterInfos with
        | none => rw [h2] at h; cases h
        | some b2 =>
          rw [h2] at h
          cases b2 with
          | true => cases h
          | false =>
            simp only [] at h
            cases h3 : Pure.anyYield Mod
                (if fnType.getPatternSubstitutions.isSome = true then
                  getSubstGenericEnvironment fnType else env) fnType.yieldInfos with
            | none => rw [h3] at h; cases h
            | some b3 =>
              rw [h3] at h
              cases b3 with
              | true => cases h
              | false =>
                rw [pure_newParameterElems_of_anyParameter Mod _ _ h2,
                  pure_newYieldElems_of_anyYield Mod _ _ h3,
                  pure_getNewResults_of_shouldTransformResults Mod _ _ hM h1]
                simp only [SILFunctionType.get_components]
  · have hM2 : modifiableFunction fnType = false := by simpa using hM
    simp only [hM2, Bool.not_false, if_true]

/-! ## Function-typed parameters -/

theorem pure_getNewParameter_function (Mod : IRGenModule) (env : Option GenericEnvironment)
    (param : SILParameterInfo) (fn : SILFunctionType) (cat : SILValueCategory)
    (hst : param.getSILStorageInterfaceType = ⟨.function fn, cat⟩) :
    Pure.getNewParameter Mod env param =
      match Pure.shouldTransformFunctionType Mod env fn with
      | none => none
      | some true =>
        match Pure.getNewSILFunctionType Mod env fn with
        | none => none
        | some newFnType => some (param.getWithInterfaceType (.function newFnType))
      | some false => some param := by
  rw [Pure.getNewParameter]
  have h1 : Pure.getNewOptionalFunctionType Mod env param.getSILStorageInterfaceType =
      some param.getSILStorageInterfaceType := by
    rw [hst]; exact pure_getNewOptionalFunctionType_function Mod env fn cat
  rw [h1]
  simp only [ne_eq, not_true_eq_false, if_false]
  split
  · next f h =>
    rw [hst] at h
    simp only [SILType.getAsSILFunctionType, Option.some.injEq] at h
    subst h
    cases Pure.shouldTransformFunctionType Mod env fn with
    | none => rfl
    | some b =>
      cases b with
      | false => rfl
      | true =>
        first
          | (simp only []; cases Pure.getNewSILFunctionType Mod env fn <;> rfl)
          | simp only []
  · next h =>
    rw [hst] at h
    simp [SILType.getAsSILFunctionType] at h

theorem pure_getNewParameter_optional_function (Mod : IRGenModule)
    (env : Option GenericEnvironment) (param : SILParameterInfo) (fn : SILFunctionType)
    (cat : SILValueCategory)
    (hst : param.getSILStorageInterfaceType = ⟨.optional (.function fn), cat⟩) :
    Pure.getNewParameter Mod env param =
      match Pure.getNewOptionalFunctionType Mod env ⟨.optional (.function fn), cat⟩ with
      | none => none
      | some newOptFuncType =>
        if newOptFuncType ≠ ⟨.optional (.function fn), cat⟩ then
          some (param.getWithInterfaceType newOptFuncType.getASTType)
        else
          match isLargeLoadableType env ⟨.optional (.function fn), cat⟩ Mod with
          | .error _ => none
          | .ok true =>
            some ⟨param.type,
              if param.convention = ParameterConvention.Direct_Guaranteed then
                ParameterConvention.Indirect_In_Guaranteed
              else ParameterConvention.Indirect_In, param.differentiability⟩
          | .ok false => some param := by
  have hty : param.type = .optional (.function fn) := by
    have := Pure.SILParameterInfo.param_storage_ast param
    rw [hst] at this
    exact this.symm
  rw [Pure.getNewParameter, hst]
  cases h1 : Pure.getNewOptionalFunctionType Mod env ⟨.optional (.function fn), cat⟩ with
  | none => rfl
  | some v =>
    simp only []
    by_cases hne : v ≠ ⟨.optional (.function fn), cat⟩
    · rw [if_pos hne, if_pos hne]
    · rw [if_neg hne, if_neg hne]
      split
      · next f h =>
        simp [SILType.getAsSILFunctionType] at h
      · cases hl : isLargeLoadableType env ⟨.optional (.function fn), cat⟩ Mod with
        | error e => rfl
        | ok large =>
          cases large with
          | true =>
            simp only [SILParameterInfo.getConvention, SILParameterInfo.getDifferentiability,
              SILType.getASTType, hty]
            split <;> rfl
          | false =>
            simp only []
            rw [pure_getNewSILType_optional_function, h1]
            simp only [hne, if_false, hl, SILParameterInfo.getConvention,
              SILParameterInfo.getDifferentiability, SILType.getASTType]
            rw [← hty]
            rfl

theorem getInnerFunctionType_cases {t : SILType} {fn : SILFunctionType}
    (h : getInnerFunctionType t = some fn) :
    t = ⟨.function fn, t.category⟩ ∨ t = ⟨.optional (.function fn), t.category⟩ := by
  obtain ⟨ast, cat⟩ := t
  cases ast with
  | function f =>
    simp [getInnerFunctionType, SILType.getAsSILFunctionType] at h
    subst h; exact Or.inl rfl
  | optional obj =>
    cases obj with
    | function f =>
      simp [getInnerFunctionType, SILType.getAsSILFunctionType,
        SILType.getOptionalObjectType] at h
      subst h; exact Or.inr rfl
    | _ =>
      simp [getInnerFunctionType, SILType.getAsSILFunctionType,
        SILType.getOptionalObjectType] at h
  | _ =>
    simp [getInnerFunctionType, SILType.getAsSILFunctionType,
      SILType.getOptionalObjectType] at h

/-! ## Tuples -/

theorem pure_getNewSILType_optional_function_ast {Mod : IRGenModule}
    {env : Option GenericEnvironment} {fn : SILFunctionType} {cat : SILValueCategory}
    {v : SILType}
    (h : Pure.getNewSILType Mod env ⟨.optional (.function fn), cat⟩ = some v) :
    ∃ newFnType, Pure.getNewSILFunctionType Mod env fn = some newFnType ∧
      v.ast = .optional (.function newFnType) := by
  rw [pure_getNewSILType_optional_function,
    pure_getNewOptionalFunctionType_optional_function] at h
  have hlarge : ∀ w, (match isLargeLoadableType env ⟨.optional (.function fn), cat⟩ Mod with
      | .error _ => none
      | .ok large => some (if large then (⟨.optional (.function fn), .Address⟩ : SILType)
          else ⟨.optional (.function fn), cat⟩)) = some w →
      w.ast = .optional (.function fn) := by
    intro w hw
    split at hw
    · cases hw
    · next large _ =>
      simp only [Option.some.injEq] at hw
      subst hw
      cases large <;> rfl
  cases hs : Pure.shouldTransformFunctionType Mod env fn with
  | none => rw [hs] at h; cases h
  | some b =>
    rw [hs] at h
    cases b with
    | false =>
      simp only [ne_eq, not_true_eq_false, if_false] at h
      exact ⟨fn, pure_getNewSILFunctionType_of_not_should Mod env fn hs, hlarge v h⟩
    | true =>
      simp only [] at h
      cases hf : Pure.getNewSILFunctionType Mod env fn with
      | none => rw [hf] at h; cases h
      | some nf =>
        rw [hf] at h
        simp only [] at h
        by_cases hnf : nf = fn
        · subst hnf
          simp only [ne_eq, not_true_eq_false, if_false] at h
          exact ⟨nf, rfl, hlarge v h⟩
        · have h1 : (SILType.mk (.optional (.function nf)) cat) ≠
              ⟨.optional (.function fn), cat⟩ := by
            intro hc; injection hc with hc1; injection hc1 with hc2
            injection hc2 with hc3; exact hnf hc3
          rw [if_pos h1] at h
          simp only [Option.some.injEq] at h
          subst h
          exact ⟨nf, rfl, rfl⟩

/-- The loop of `getNewTupleType`: the new elements are the old ones, in order,
label kept, each of the value type of the transform of its type. -/
theorem pure_newTupleElems_forall2 (Mod : IRGenModule) (env : Option GenericEnvironment) :
    (elts : TupleTypeElts) → (newElems : List TupleTypeElt) →
    Pure.newTupleElems Mod env elts = some newElems →
    List.Forall₂ (fun (canElem newElem : TupleTypeElt) =>
      newElem.name = canElem.name ∧ sizeOf canElem.type < sizeOf elts ∧
      ∃ v, Pure.getNewSILType Mod env (SILType.getPrimitiveObjectType canElem.type) = some v ∧
        newElem.type = v.getASTType) elts.toList newElems
  | .nil, ne, h => by
    rw [Pure.newTupleElems] at h
    simp only [Option.some.injEq] at h
    subst h
    exact List.Forall₂.nil
  | .cons t name rest, ne, h => by
    obtain ⟨newElem, newRest, h1, h2, h3⟩ := pure_newTupleElems_cons h
    subst h3
    have ih := pure_newTupleElems_forall2 Mod env rest newRest h2
    refine List.Forall₂.cons ⟨rfl, ?_, newElem, h1, rfl⟩ (ih.imp ?_)
    · simp; omega
    · intro a b hab
      obtain ⟨hn, hs, hv⟩ := hab
      refine ⟨hn, ?_, hv⟩
      simp; omega

end LoadableByAddress

namespace LoadableByAddress
open LargeSILTypeMapper

/-! ## The classifier -/

/-- C6: a type in address form, and a class or class-metatype type, is
classified small in every context, whatever the oracle answers. -/
theorem isLargeLoadableType_address_or_class_small (GenericEnv : Option GenericEnvironment)
    (t : SILType) (Mod : IRGenModule)
    (h : t.isAddress = true ∨ t.isClassOrClassMetatype = true) :
    isLargeLoadableType GenericEnv t Mod = .ok false := by
  unfold isLargeLoadableType
  have h2 : (t.isAddress || t.isClassOrClassMetatype) = true := by
    rcases h with h | h <;> simp [h]
  rw [if_pos h2]

/-- C6, at the address of a struct, for the oracle that requires indirect
passing for every type. -/
theorem isLargeLoadableType_address_or_class_small_witness :
    ((SILType.mk BigStruct .Address).isAddress = true ∨
        (SILType.mk BigStruct .Address).isClassOrClassMetatype = true) ∧
      isLargeLoadableType none (SILType.mk BigStruct .Address) allIndirectModule =
        .ok false :=
  ⟨Or.inl (by decide),
    isLargeLoadableType_address_or_class_small none _ allIndirectModule (Or.inl (by decide))⟩

/-- C7, refuted as stated: a tuple of two large structs is a value-form type
that is not a class, the oracle requires indirect passing for it, and
`isLargeLoadableType` classifies it as small. -/
theorem isLargeLoadableType_tuple_overrides_oracle :
    (SILType.mk (.tuple (.cons BigStruct 0 (.cons BigStruct 0 .nil))) .Object).isAddress
        = false ∧
      (SILType.mk (.tuple (.cons BigStruct 0 (.cons BigStruct 0 .nil)))
        .Object).isClassOrClassMetatype = false ∧
      toyModule.hasTypeParameter (.tuple (.cons BigStruct 0 (.cons BigStruct 0 .nil)))
        = false ∧
      toyModule.requiresIndirect (.tuple (.cons BigStruct 0 (.cons BigStruct 0 .nil)))
        = true ∧
      isLargeLoadableType none
        (SILType.mk (.tuple (.cons BigStruct 0 (.cons BigStruct 0 .nil))) .Object)
        toyModule = .ok false := by
  refine ⟨by decide, by decide, by decide, by decide, by decide⟩

/-- C7, amended: for a value-form type that is not a class or class metatype,
in a context that resolves its type parameters (if it has any), the answer is
the oracle's for the resolved type when that type has a nominal declaration
(struct, enum, optional), and small, without the oracle, for every other type
(tuple, function, metatype, builtin). -/
theorem isLargeLoadableType_eq_oracle_on_nominal (GenericEnv : Option GenericEnvironment)
    (t : SILType) (Mod : IRGenModule)
    (hA : t.isAddress = false) (hC : t.isClassOrClassMetatype = false)
    (hE : Mod.hasTypeParameter t.ast = true → GenericEnv.isSome = true)
    (hR : Mod.hasTypeParameter (resolveInContext Mod GenericEnv t.ast) = false) :
    isLargeLoadableType GenericEnv t Mod =
      .ok ((resolveInContext Mod GenericEnv t.ast).getAnyGeneric &&
        Mod.requiresIndirect (resolveInContext Mod GenericEnv t.ast)) := by
  have hO : t.isObject = true := by
    cases t with
    | mk ast cat =>
      cases cat
      · rfl
      · simp [SILType.isAddress] at hA
  unfold isLargeLoadableType
  unfold resolveInContext at hR ⊢
  simp only [hA, hC, Bool.or_self, SILType.getASTType]
  by_cases hp : Mod.hasTypeParameter t.ast = true
  · have hs := hE hp
    cases GenericEnv with
    | none => simp at hs
    | some env =>
      simp only [hp, if_true] at hR ⊢
      by_cases hg : (Mod.mapTypeIntoContext env t.ast).getAnyGeneric = true
      · simp [hg, hO, hR]
      · simp [hg]
  · have hp2 : Mod.hasTypeParameter t.ast = false := by simpa using hp
    simp only [hp2] at hR ⊢
    by_cases hg : t.ast.getAnyGeneric = true
    · simp [hg, hO, hp2]
    · simp [hg]

/-- C7 amended, at a large and at a small struct in value form on the toy
target, in the null context. -/
theorem isLargeLoadableType_eq_oracle_on_nominal_witness :
    isLargeLoadableType none (SILType.mk BigStruct .Object) toyModule = .ok true ∧
      isLargeLoadableType none (SILType.mk SmallStruct .Object) toyModule = .ok false :=
  ⟨isLargeLoadableType_eq_oracle_on_nominal none (SILType.mk BigStruct .Object) toyModule
      (by decide) (by decide) (by decide) (by decide),
    isLargeLoadableType_eq_oracle_on_nominal none (SILType.mk SmallStruct .Object) toyModule
      (by decide) (by decide) (by decide) (by decide)⟩

/-! ## The type transform on simple types -/

/-- C1: on a type that is neither a function type, an optional of one, a tuple
nor an optional of one, started on a cache that holds only transforms,
`getNewSILType` returns the address form of the type when
`isLargeLoadableType` classifies it as large and the type itself when it
classifies it as small. -/
theorem getNewSILType_simple_type (Mod : IRGenModule) (fuel : Nat)
    (GenericEnv : Option GenericEnvironment) (storageType : SILType)
    (Mapper : LargeSILTypeMapper) (large : Bool)
    (hV : Valid Mod Mapper)
    (hF : isFuncOrOptionalFuncType storageType = false)
    (hT : (getNonOptionalType storageType).getAsTupleType = none)
    (hL : isLargeLoadableType GenericEnv storageType Mod = .ok large) :
    ∃ Mapper2, getNewSILType Mod (fuel + 2) GenericEnv storageType Mapper =
      .ok (if large then storageType.getAddressType else storageType, Mapper2) := by
  have hp := pure_getNewSILType_simple Mod GenericEnv storageType large hF hT hL
  rw [getNewSILType]
  simp only []
  split
  · next cached hc =>
    have h2 := hV GenericEnv storageType cached hc
    rw [hp] at h2
    simp only [Option.some.injEq] at h2
    exact ⟨Mapper, by rw [h2]⟩
  · simp only [hT, Option.isSome_none, Bool.false_eq_true, if_false,
      getNewOptionalFunctionType_not_func Mod fuel GenericEnv storageType Mapper hF,
      ne_eq, not_true_eq_false, getAsSILFunctionType_not_func storageType hF, hL]
    cases large <;> exact ⟨_, rfl⟩

/-- C1, at a large struct and at a small struct on the toy target, from the
empty cache. -/
theorem getNewSILType_simple_type_witness :
    (∃ Mapper2, getNewSILType toyModule 2 none (SILType.mk BigStruct .Object)
        LargeSILTypeMapper.new = .ok (SILType.mk BigStruct .Address, Mapper2)) ∧
      (∃ Mapper2, getNewSILType toyModule 2 none (SILType.mk SmallStruct .Object)
        LargeSILTypeMapper.new = .ok (SILType.mk SmallStruct .Object, Mapper2)) :=
  ⟨getNewSILType_simple_type toyModule 0 none (SILType.mk BigStruct .Object)
      LargeSILTypeMapper.new true (Valid.new toyModule) (by decide) (by decide) (by decide),
    getNewSILType_simple_type toyModule 0 none (SILType.mk SmallStruct .Object)
      LargeSILTypeMapper.new false (Valid.new toyModule) (by decide) (by decide)
      (by decide)⟩

/-! ## Signatures: the foreign convention and large parameters -/

/-- C4: a signature tagged with the foreign (C) convention is returned as it
is, in every context and from every cache, whatever its parameters, yields and
results are; the cache is not touched. -/
theorem getNewSILFunctionType_foreign_unchanged (Mod : IRGenModule) (fuel : Nat)
    (env : Option GenericEnvironment) (fnType : SILFunctionType)
    (Mapper : LargeSILTypeMapper) (h : fnType.getLanguage = SILFunctionLanguage.C) :
    getNewSILFunctionType Mod (fuel + 1) env fnType Mapper = .ok (fnType, Mapper) := by
  rw [getNewSILFunctionType]
  simp [modifiableFunction, h]

/-- C4, at the foreign signature `(BigStruct) -> BigStruct` on the toy
target. -/
theorem getNewSILFunctionType_foreign_unchanged_witness :
    (foreignSignature [⟨BigStruct, .Direct_Unowned, .DifferentiableOrNotApplicable⟩]
        [⟨BigStruct, .Unowned⟩]).getLanguage = SILFunctionLanguage.C ∧
      getNewSILFunctionType toyModule 1 none
        (foreignSignature [⟨BigStruct, .Direct_Unowned, .DifferentiableOrNotApplicable⟩]
          [⟨BigStruct, .Unowned⟩]) LargeSILTypeMapper.new =
        .ok (foreignSignature [⟨BigStruct, .Direct_Unowned, .DifferentiableOrNotApplicable⟩]
          [⟨BigStruct, .Unowned⟩], LargeSILTypeMapper.new) :=
  ⟨by decide,
    getNewSILFunctionType_foreign_unchanged toyModule 0 none _ LargeSILTypeMapper.new
      (by decide)⟩

/-- C3: a parameter whose type is not a function type nor an optional of one,
and which `isLargeLoadableType` classifies as large, comes back with the same
value type and differentiability and an indirect convention:
`Indirect_In_Guaranteed` when the convention was `Direct_Guaranteed`,
`Indirect_In` for every other convention; the cache is not touched. -/
theorem getNewParameter_large (Mod : IRGenModule) (fuel : Nat)
    (env : Option GenericEnvironment) (param : SILParameterInfo)
    (Mapper : LargeSILTypeMapper)
    (hF : isFuncOrOptionalFuncType param.getSILStorageInterfaceType = false)
    (hL : isLargeLoadableType env param.getSILStorageInterfaceType Mod = .ok true) :
    getNewParameter Mod (fuel + 2) env param Mapper =
      .ok (⟨param.type,
            if param.convention = ParameterConvention.Direct_Guaranteed then
              ParameterConvention.Indirect_In_Guaranteed
            else ParameterConvention.Indirect_In,
            param.differentiability⟩, Mapper) := by
  rw [getNewParameter]
  simp only [getNewOptionalFunctionType_not_func Mod fuel env _ Mapper hF, ne_eq,
    not_true_eq_false, if_false, getAsSILFunctionType_not_func _ hF, hL,
    SILParameterInfo.getConvention, SILParameterInfo.getDifferentiability,
    SILType.getASTType, Pure.SILParameterInfo.param_storage_ast]
  split <;> rfl

/-- C3, at a large struct passed `Direct_Guaranteed` and at one passed
`Direct_Owned` on the toy target. -/
theorem getNewParameter_large_witness :
    getNewParameter toyModule 2 none
        ⟨BigStruct, .Direct_Guaranteed, .NotDifferentiable⟩ LargeSILTypeMapper.new =
        .ok (⟨BigStruct, .Indirect_In_Guaranteed, .NotDifferentiable⟩,
          LargeSILTypeMapper.new) ∧
      getNewParameter toyModule 2 none
        ⟨BigStruct, .Direct_Owned, .NotDifferentiable⟩ LargeSILTypeMapper.new =
        .ok (⟨BigStruct, .Indirect_In, .NotDifferentiable⟩, LargeSILTypeMapper.new) :=
  ⟨getNewParameter_large toyModule 0 none
      ⟨BigStruct, .Direct_Guaranteed, .NotDifferentiable⟩ LargeSILTypeMapper.new
      (by decide) (by decide),
    getNewParameter_large toyModule 0 none
      ⟨BigStruct, .Direct_Owned, .NotDifferentiable⟩ LargeSILTypeMapper.new
      (by decide) (by decide)⟩

/-! ## From a run of the mapper to its cache-free reading -/

theorem Refines.pure_eq_of_ok {α : Type} {Mod : IRGenModule} {M M2 : LargeSILTypeMapper}
    {r : Except Abort (α × LargeSILTypeMapper)} {p : Option α} {v : α}
    (h : Refines Mod M r p) (hr : r = .ok (v, M2)) : p = some v := by
  rcases h.elim with ⟨_, he⟩ | ⟨v2, M3, _, hr2, _, _⟩
  · rw [he] at hr; cases hr
  · rw [hr2] at hr; cases hr; assumption

theorem Refines.ok_of_pure {α : Type} {Mod : IRGenModule} {M : LargeSILTypeMapper}
    {r : Except Abort (α × LargeSILTypeMapper)} {p : Option α} {v : α}
    (h : Refines Mod M r p) (hp : p = some v) :
    ∃ M2, r = .ok (v, M2) ∧ Valid Mod M2 ∧ Extends M M2 := by
  subst hp; exact h

theorem Refines.error_or_ok {α : Type} {Mod : IRGenModule} {M : LargeSILTypeMapper}
    {r : Except Abort (α × LargeSILTypeMapper)} {p : Option α}
    (h : Refines Mod M r p) :
    r = .error .assertion ∨ ∃ v M2, p = some v ∧ r = .ok (v, M2) ∧ Valid Mod M2 := by
  rcases h.elim with ⟨_, he⟩ | ⟨v2, M3, hp, hr2, hV, _⟩
  · exact Or.inl he
  · exact Or.inr ⟨v2, M3, hp, hr2, hV⟩

theorem ResultInfos.results_toList_ofList : ∀ rs : List SILResultInfo,
    (ResultInfos.ofList rs).toList = rs
  | [] => rfl
  | r :: rest => by
    simp [ResultInfos.ofList, ResultInfos.toList, ResultInfos.results_toList_ofList rest]

theorem SILFunctionType.getResults_get (s : Option GenericSignature) (e : ExtInfo)
    (k : SILCoroutineKind) (c : ParameterConvention) (ps : List SILParameterInfo)
    (ys : List SILYieldInfo) (rs : List SILResultInfo) (er : Option SILResultInfo)
    (p i : Option SubstitutionMap) (w : Option Nat) :
    (SILFunctionType.get s e k c ps ys rs er p i w).getResults = rs := by
  simp [SILFunctionType.get, SILFunctionType.getResults, SILFunctionType.resultInfos,
    ResultInfos.results_toList_ofList]

theorem modNonFuncTypeResultType_single_large {env : Option GenericEnvironment}
    {fnType : SILFunctionType} {Mod : IRGenModule} {singleResult : SILResultInfo}
    (hM : fnType.getLanguage ≠ SILFunctionLanguage.C)
    (hR : fnType.getResults = [singleResult])
    (hL : isLargeLoadableType env singleResult.getSILStorageInterfaceType Mod = .ok true) :
    modNonFuncTypeResultType env fnType Mod = .ok true := by
  unfold modNonFuncTypeResultType
  simp [modifiableFunction, hM, SILFunctionType.getNumResults, hR, hL]

theorem resultInfos_of_single {fnType : SILFunctionType} {r : SILResultInfo}
    (hR : fnType.getResults = [r]) : fnType.resultInfos = .cons r.type r.convention .nil := by
  unfold SILFunctionType.getResults at hR
  cases h : fnType.resultInfos with
  | nil => rw [h] at hR; simp [ResultInfos.toList] at hR
  | cons t c rest =>
    rw [h] at hR
    cases rest with
    | nil =>
      simp [ResultInfos.toList] at hR
      subst hR; rfl
    | cons t2 c2 rest2 => simp [ResultInfos.toList] at hR

theorem pure_getNewResults_single_large {Mod : IRGenModule}
    {env : Option GenericEnvironment} {fnType : SILFunctionType} {r : SILResultInfo}
    (hM : fnType.getLanguage ≠ SILFunctionLanguage.C)
    (hR : fnType.getResults = [r])
    (hL : isLargeLoadableType env r.getSILStorageInterfaceType Mod = .ok true) :
    Pure.getNewResults Mod env fnType =
      (Pure.getNewSILType Mod env r.getSILStorageInterfaceType).map
        (fun newType => [⟨newType.getASTType, ResultConvention.Indirect⟩]) := by
  rw [Pure.getNewResults, modNonFuncTypeResultType_single_large hM hR hL,
    resultInfos_of_single hR, Pure.newResultElems]
  cases h : Pure.getNewSILType Mod env r.getSILStorageInterfaceType with
  | none => simp [h]
  | some v =>
    simp only [h]
    rw [Pure.newResultElems]
    rfl

theorem pure_getNewSILFunctionType_single_large {Mod : IRGenModule}
    {env0 : Option GenericEnvironment} {fnType newFn : SILFunctionType}
    {r : SILResultInfo}
    (hM : fnType.getLanguage ≠ SILFunctionLanguage.C)
    (hR : fnType.getResults = [r])
    (hL : isLargeLoadableType (signatureEnvironment env0 fnType)
      r.getSILStorageInterfaceType Mod = .ok true)
    (hN : Pure.getNewSILFunctionType Mod env0 fnType = some newFn) :
    ∃ newType, Pure.getNewSILType Mod (signatureEnvironment env0 fnType)
        r.getSILStorageInterfaceType = some newType ∧
      newFn.getResults = [⟨newType.getASTType, ResultConvention.Indirect⟩] := by
  rw [Pure.getNewSILFunctionType] at hN
  have hmod : (!modifiableFunction fnType) = false := by simp [modifiableFunction, hM]
  simp only [hmod, Bool.false_eq_true, if_false] at hN
  change (match Pure.newParameterElems Mod (signatureEnvironment env0 fnType)
    fnType.parameterInfos with
    | none => none
    | some newParams =>
      match Pure.newYieldElems Mod (signatureEnvironment env0 fnType) fnType.yieldInfos with
      | none => none
      | some newYields =>
        match Pure.getNewResults Mod (signatureEnvironment env0 fnType) fnType with
        | none => none
        | some newResults => some (SILFunctionType.get
            fnType.getInvocationGenericSignature fnType.getExtInfo fnType.getCoroutineKind
            fnType.getCalleeConvention newParams newYields newResults
            fnType.getOptionalErrorResult fnType.getPatternSubstitutions
            fnType.getInvocationSubstitutions fnType.getWitnessMethodConformanceOrInvalid))
    = some newFn at hN
  rw [pure_getNewResults_single_large hM hR hL] at hN
  split at hN
  · cases hN
  · split at hN
    · cases hN
    · cases h : Pure.getNewSILType Mod (signatureEnvironment env0 fnType)
          r.getSILStorageInterfaceType with
      | none => rw [h] at hN; simp at hN
      | some v =>
        rw [h] at hN
        simp only [Option.map_some', Option.some.injEq] at hN
        subst hN
        exact ⟨v, rfl, SILFunctionType.getResults_get _ _ _ _ _ _ _ _ _ _ _⟩

/-! ## A single large result -/

/-- C2, refuted as stated: the native signature `() -> Optional<((BigStruct) ->
(), BigStruct)>` has exactly one result, of a type that classifies as large on
the toy target; its transform has the one indirect result
`Optional<((@in BigStruct) -> (), BigStruct)>`, whose value type is not the
original one. -/
theorem getNewSILFunctionType_large_result_type_changes :
    (nativeSignature [] [⟨optionalPair, .Owned⟩]).getLanguage ≠ SILFunctionLanguage.C ∧
      (nativeSignature [] [⟨optionalPair, .Owned⟩]).getResults = [⟨optionalPair, .Owned⟩] ∧
      isLargeLoadableType none
        (SILResultInfo.getSILStorageInterfaceType ⟨optionalPair, .Owned⟩) toyModule =
        .ok true ∧
      (∃ Mapper2, getNewSILFunctionType toyModule 1000 none
        (nativeSignature [] [⟨optionalPair, .Owned⟩]) LargeSILTypeMapper.new =
        .ok (nativeSignature [] [⟨optionalPairIndirect, .Indirect⟩], Mapper2)) ∧
      optionalPairIndirect ≠ optionalPair :=
  ⟨by decide, by decide, by decide, ⟨_, rfl⟩, by decide⟩

/-- C2, amended: for a native signature with exactly one result, of a type
that classifies as large in the environment of the signature, started on a
cache that holds only transforms and with fuel above the size of the
signature, `getNewSILFunctionType` either stops at a failed assertion or
returns a signature whose only result is indirect and has the value type of
`getNewSILType` of the original result type; that value type is the original
one when the result type is not a function type, a tuple, or an optional of
one of these. -/
theorem getNewSILFunctionType_single_large_result (Mod : IRGenModule) (fuel : Nat)
    (env : Option GenericEnvironment) (fnType : SILFunctionType)
    (Mapper : LargeSILTypeMapper) (singleResult : SILResultInfo)
    (hV : Valid Mod Mapper) (hfuel : 10 * sizeOf fnType + 8 < fuel)
    (hM : fnType.getLanguage ≠ SILFunctionLanguage.C)
    (hR : fnType.getResults = [singleResult])
    (hL : isLargeLoadableType (signatureEnvironment env fnType)
      singleResult.getSILStorageInterfaceType Mod = .ok true) :
    getNewSILFunctionType Mod fuel env fnType Mapper = .error .assertion ∨
      ∃ newFnType Mapper2 newSILType Mapper3,
        getNewSILFunctionType Mod fuel env fnType Mapper = .ok (newFnType, Mapper2) ∧
        getNewSILType Mod fuel (signatureEnvironment env fnType)
          singleResult.getSILStorageInterfaceType Mapper2 = .ok (newSILType, Mapper3) ∧
        newFnType.getResults = [⟨newSILType.getASTType, ResultConvention.Indirect⟩] ∧
        (isFuncOrOptionalFuncType singleResult.getSILStorageInterfaceType = false →
          (getNonOptionalType singleResult.getSILStorageInterfaceType).getAsTupleType
            = none →
          newSILType.getASTType = singleResult.type) := by
  rcases ((refinesAt Mod fuel).fnType env fnType Mapper hV hfuel).error_or_ok with
    he | ⟨newFn, M2, hp, hr, hV2⟩
  · exact Or.inl he
  · right
    obtain ⟨newType, hT, hres⟩ := pure_getNewSILFunctionType_single_large hM hR hL hp
    have hsz := Pure.sizeOf_singleResult hR
    have hst := Pure.SILResultInfo.result_storage_ast singleResult
    obtain ⟨M3, hr3, _, _⟩ := ((refinesAt Mod fuel).type (signatureEnvironment env fnType)
      singleResult.getSILStorageInterfaceType M2 hV2 (by rw [hst]; omega)).ok_of_pure hT
    refine ⟨newFn, M2, newType, M3, hr, hr3, hres, ?_⟩
    intro hF hTu
    have h1 := pure_getNewSILType_simple Mod _ _ true hF hTu hL
    rw [hT] at h1
    simp only [if_true, Option.some.injEq] at h1
    rw [h1]
    exact hst

/-- C2 amended, at the native signature `(SmallStruct) -> BigStruct` on the toy
target, whose transform is `(SmallStruct) -> @out BigStruct`. -/
theorem getNewSILFunctionType_single_large_result_witness :
    (∃ Mapper2, getNewSILFunctionType toyModule 1000 none
        (nativeSignature [⟨SmallStruct, .Direct_Unowned, .DifferentiableOrNotApplicable⟩]
          [⟨BigStruct, .Owned⟩]) LargeSILTypeMapper.new =
        .ok (nativeSignature [⟨SmallStruct, .Direct_Unowned, .DifferentiableOrNotApplicable⟩]
          [⟨BigStruct, .Indirect⟩], Mapper2)) ∧
      (getNewSILFunctionType toyModule 1000 none
        (nativeSignature [⟨SmallStruct, .Direct_Unowned, .DifferentiableOrNotApplicable⟩]
          [⟨BigStruct, .Owned⟩]) LargeSILTypeMapper.new = .error .assertion ∨
      ∃ newFnType Mapper2 newSILType Mapper3,
        getNewSILFunctionType toyModule 1000 none
          (nativeSignature [⟨SmallStruct, .Direct_Unowned, .DifferentiableOrNotApplicable⟩]
            [⟨BigStruct, .Owned⟩]) LargeSILTypeMapper.new = .ok (newFnType, Mapper2) ∧
        getNewSILType toyModule 1000 none
          (SILResultInfo.getSILStorageInterfaceType ⟨BigStruct, .Owned⟩) Mapper2 =
          .ok (newSILType, Mapper3) ∧
        newFnType.getResults = [⟨newSILType.getASTType, ResultConvention.Indirect⟩] ∧
        (isFuncOrOptionalFuncType
            (SILResultInfo.getSILStorageInterfaceType ⟨BigStruct, .Owned⟩) = false →
          (getNonOptionalType
            (SILResultInfo.getSILStorageInterfaceType ⟨BigStruct, .Owned⟩)).getAsTupleType
            = none →
          newSILType.getASTType = BigStruct)) :=
  ⟨⟨_, rfl⟩,
    getNewSILFunctionType_single_large_result toyModule 1000 none
      (nativeSignature [⟨SmallStruct, .Direct_Unowned, .DifferentiableOrNotApplicable⟩]
        [⟨BigStruct, .Owned⟩]) LargeSILTypeMapper.new ⟨BigStruct, .Owned⟩
      (Valid.new toyModule) (by decide) (by decide) (by decide) (by decide)⟩

/-! ## Transforming a transformed signature -/

/-- C5, evaluated at the native signature `(Optional<((BigStruct) -> (),
BigStruct)>) -> ()` on the toy target, where the parameter classifies as
large: the transform makes the parameter indirect and keeps its type, and the
transform of that signature, on the same mapper, replaces the type by
`Optional<((@in BigStruct) -> (), BigStruct)>`; the transformed signature is
not a fixed point. -/
theorem getNewSILFunctionType_transformed_not_fixed :
    ∃ Mapper1 Mapper2,
      getNewSILFunctionType toyModule 1000 none
        (nativeSignature [⟨optionalPair, .Direct_Owned, .DifferentiableOrNotApplicable⟩] [])
        LargeSILTypeMapper.new =
        .ok (nativeSignature
          [⟨optionalPair, .Indirect_In, .DifferentiableOrNotApplicable⟩] [], Mapper1) ∧
      getNewSILFunctionType toyModule 1000 none
        (nativeSignature [⟨optionalPair, .Indirect_In, .DifferentiableOrNotApplicable⟩] [])
        Mapper1 =
        .ok (nativeSignature
          [⟨optionalPairIndirect, .Indirect_In, .DifferentiableOrNotApplicable⟩] [],
          Mapper2) ∧
      nativeSignature [⟨optionalPairIndirect, .Indirect_In, .DifferentiableOrNotApplicable⟩] []
        ≠ nativeSignature [⟨optionalPair, .Indirect_In, .DifferentiableOrNotApplicable⟩] [] :=
  ⟨_, _, rfl, rfl, by decide⟩

/-! ## Function-typed parameters -/

/-- C8, refuted as stated: on a target whose oracle requires indirect passing
for every type, the parameter of type `Optional<() -> ()>` passed
`Direct_Owned`, whose signature has nothing to transform, is classified as
large and comes back with the convention `Indirect_In`. -/
theorem getNewParameter_optional_function_made_indirect :
    isFuncOrOptionalFuncType (SILParameterInfo.getSILStorageInterfaceType
        ⟨.optional (.function thunk), .Direct_Owned, .DifferentiableOrNotApplicable⟩) = true ∧
      ∃ Mapper2, getNewParameter allIndirectModule 1000 none
        ⟨.optional (.function thunk), .Direct_Owned, .DifferentiableOrNotApplicable⟩
        LargeSILTypeMapper.new =
        .ok (⟨.optional (.function thunk), .Indirect_In, .DifferentiableOrNotApplicable⟩,
          Mapper2) :=
  ⟨by decide, ⟨_, rfl⟩⟩

/-- C8, amended: for a parameter whose type is a function type or an optional
of one, started on a cache that holds only transforms and with fuel above the
size of the type, when `shouldTransformFunctionType` and
`getNewSILFunctionType` return for the signature, `getNewParameter` returns
the parameter with its convention and differentiability kept and its type
replaced by the transformed signature, wrapped in optional when it was
optional; for an optional whose signature is its own transform this holds when
`isLargeLoadableType` classifies the optional as small (the optional is then
classified as every non-function type is). -/
theorem getNewParameter_function_type (Mod : IRGenModule) (fuel : Nat)
    (env : Option GenericEnvironment) (param : SILParameterInfo)
    (Mapper Mapper1 Mapper2 : LargeSILTypeMapper) (fnType newFnType : SILFunctionType)
    (should : Bool)
    (hV : Valid Mod Mapper) (hfuel : 10 * sizeOf param.type + 6 < fuel)
    (hfn : getInnerFunctionType param.getSILStorageInterfaceType = some fnType)
    (hS : shouldTransformFunctionType Mod fuel env fnType Mapper = .ok (should, Mapper1))
    (hN : getNewSILFunctionType Mod fuel env fnType Mapper = .ok (newFnType, Mapper2))
    (hL : param.getSILStorageInterfaceType.getAsSILFunctionType = none →
      newFnType = fnType →
      isLargeLoadableType env param.getSILStorageInterfaceType Mod = .ok false) :
    ∃ Mapper3, getNewParameter Mod fuel env param Mapper =
      .ok (param.getWithInterfaceType
        (if param.getSILStorageInterfaceType.getAsSILFunctionType.isSome then
          .function newFnType
        else .optional (.function newFnType)), Mapper3) := by
  have hast := Pure.SILParameterInfo.param_storage_ast param
  have R := (refinesAt Mod fuel).param env param Mapper hV hfuel
  suffices hp : Pure.getNewParameter Mod env param = some (param.getWithInterfaceType
      (if param.getSILStorageInterfaceType.getAsSILFunctionType.isSome then
        .function newFnType
      else .optional (.function newFnType))) by
    obtain ⟨M3, h3, _, _⟩ := R.ok_of_pure hp
    exact ⟨M3, h3⟩
  rcases getInnerFunctionType_cases hfn with hst | hst
  · have hty : param.type = .function fnType := by rw [← hast, hst]
    have hsz : 10 * sizeOf fnType + 8 < fuel := by
      have : sizeOf param.type = 1 + sizeOf fnType := by rw [hty]; simp
      omega
    have pS := ((refinesAt Mod fuel).should env fnType Mapper hV hsz).pure_eq_of_ok hS
    have pN := ((refinesAt Mod fuel).fnType env fnType Mapper hV hsz).pure_eq_of_ok hN
    have hsome : param.getSILStorageInterfaceType.getAsSILFunctionType.isSome = true := by
      rw [hst]; rfl
    rw [pure_getNewParameter_function Mod env param fnType _ hst, pS, hsome]
    cases should with
    | true => simp only [pN, if_true]
    | false =>
      have hnt := pure_getNewSILFunctionType_of_not_should Mod env fnType pS
      rw [pN] at hnt
      simp only [Option.some.injEq] at hnt
      subst hnt
      simp only [if_true, SILParameterInfo.getWithInterfaceType, ← hty]
  · have hty : param.type = .optional (.function fnType) := by rw [← hast, hst]
    have hsz : 10 * sizeOf fnType + 8 < fuel := by
      have : sizeOf param.type = 1 + (1 + sizeOf fnType) := by rw [hty]; simp
      omega
    have pS := ((refinesAt Mod fuel).should env fnType Mapper hV hsz).pure_eq_of_ok hS
    have pN := ((refinesAt Mod fuel).fnType env fnType Mapper hV hsz).pure_eq_of_ok hN
    have hnone : param.getSILStorageInterfaceType.getAsSILFunctionType = none := by
      rw [hst]; rfl
    have hopt : Pure.getNewOptionalFunctionType Mod env
        ⟨.optional (.function fnType), param.getSILStorageInterfaceType.category⟩ =
        some ⟨.optional (.function newFnType),
          param.getSILStorageInterfaceType.category⟩ := by
      rw [pure_getNewOptionalFunctionType_optional_function, pS]
      cases should with
      | true => simp only [pN]
      | false =>
        have hnt := pure_getNewSILFunctionType_of_not_should Mod env fnType pS
        rw [pN] at hnt
        simp only [Option.some.injEq] at hnt
        subst hnt
        rfl
    rw [pure_getNewParameter_optional_function Mod env param fnType _ hst, hopt, hnone]
    simp only [Option.isSome_none, Bool.false_eq_true, if_false, SILType.getASTType]
    by_cases hnf : newFnType = fnType
    · have hl := hL hnone hnf
      rw [hst] at hl
      subst hnf
      simp only [ne_eq, not_true_eq_false, if_false, hl]
      simp only [SILParameterInfo.getWithInterfaceType, ← hty]
    · have hne : (SILType.mk (.optional (.function newFnType))
          param.getSILStorageInterfaceType.category) ≠
          ⟨.optional (.function fnType), param.getSILStorageInterfaceType.category⟩ := by
        intro hc; injection hc with hc1; injection hc1 with hc2
        injection hc2 with hc3; exact hnf hc3
      rw [if_pos hne]

/-- C8 amended, on the toy target: a parameter of the closure type
`(BigStruct) -> ()` and one of its optional keep their convention and get the
type `(@in BigStruct) -> ()`, respectively its optional. -/
theorem getNewParameter_function_type_witness :
    (∃ Mapper3, getNewParameter toyModule 1000 none
        ⟨.function bigConsumer, .Direct_Guaranteed, .DifferentiableOrNotApplicable⟩
        LargeSILTypeMapper.new =
        .ok (⟨.function bigConsumerIndirect, .Direct_Guaranteed,
          .DifferentiableOrNotApplicable⟩, Mapper3)) ∧
      (∃ Mapper3, getNewParameter toyModule 1000 none
        ⟨.optional (.function bigConsumer), .Direct_Owned, .DifferentiableOrNotApplicable⟩
        LargeSILTypeMapper.new =
        .ok (⟨.optional (.function bigConsumerIndirect), .Direct_Owned,
          .DifferentiableOrNotApplicable⟩, Mapper3)) :=
  ⟨getNewParameter_function_type toyModule 1000 none
      ⟨.function bigConsumer, .Direct_Guaranteed, .DifferentiableOrNotApplicable⟩
      LargeSILTypeMapper.new _ _ bigConsumer bigConsumerIndirect true
      (Valid.new toyModule) (by decide) rfl rfl rfl (fun h => absurd h (by decide)),
    getNewParameter_function_type toyModule 1000 none
      ⟨.optional (.function bigConsumer), .Direct_Owned, .DifferentiableOrNotApplicable⟩
      LargeSILTypeMapper.new _ _ bigConsumer bigConsumerIndirect true
      (Valid.new toyModule) (by decide) rfl rfl rfl (fun _ h => absurd h (by decide))⟩

/-! ## Tuples -/

/-- C9: on a tuple type, in either category, started on a cache that holds
only transforms and with fuel above the size of the type, `getNewSILType`
either stops at a failed assertion or returns a tuple type with as many
elements as the original, in order, with the same labels, the i-th of the value
type that `getNewSILType` returns for the i-th original element; an element
that is an optional of a function type has become the optional of the
signature `getNewSILFunctionType` returns for it. -/
theorem getNewSILType_tuple_elementwise (Mod : IRGenModule) (fuel : Nat)
    (GenericEnv : Option GenericEnvironment) (elts : TupleTypeElts)
    (cat : SILValueCategory) (Mapper : LargeSILTypeMapper)
    (hV : Valid Mod Mapper) (hfuel : 10 * sizeOf (CanType.tuple elts) + 5 < fuel) :
    getNewSILType Mod fuel GenericEnv ⟨.tuple elts, cat⟩ Mapper = .error .assertion ∨
      ∃ newElems newSILType Mapper2,
        getNewSILType Mod fuel GenericEnv ⟨.tuple elts, cat⟩ Mapper =
          .ok (newSILType, Mapper2) ∧
        newSILType.getASTType = .tuple (TupleTypeElts.ofList newElems) ∧
        newElems.length = elts.toList.length ∧
        List.Forall₂ (fun (canElem newElem : TupleTypeElt) =>
          newElem.name = canElem.name ∧
          (∃ newElemType Mapper3,
            getNewSILType Mod fuel GenericEnv
              (SILType.getPrimitiveObjectType canElem.type) Mapper2 =
              .ok (newElemType, Mapper3) ∧
            newElem.type = newElemType.getASTType) ∧
          (∀ fnType, canElem.type = .optional (.function fnType) →
            ∃ newFnType Mapper3,
              getNewSILFunctionType Mod fuel GenericEnv fnType Mapper2 =
                .ok (newFnType, Mapper3) ∧
              newElem.type = .optional (.function newFnType)))
          elts.toList newElems := by
  rcases ((refinesAt Mod fuel).type GenericEnv ⟨.tuple elts, cat⟩ Mapper hV hfuel).error_or_ok
    with he | ⟨v, M2, hp, hr, hV2⟩
  · exact Or.inl he
  · right
    rw [pure_getNewSILType_tuple] at hp
    cases hn : Pure.newTupleElems Mod GenericEnv elts with
    | none => rw [hn] at hp; cases hp
    | some ne =>
      rw [hn] at hp
      have hast : v.getASTType = .tuple (TupleTypeElts.ofList ne) := by
        simp only [] at hp
        split at hp
        · cases hp
        · next large _ =>
          simp only [Option.some.injEq] at hp
          subst hp
          cases large <;> rfl
      have hall := pure_newTupleElems_forall2 Mod GenericEnv elts ne hn
      have hsz : sizeOf (CanType.tuple elts) = 1 + sizeOf elts := by simp
      refine ⟨ne, v, M2, hr, hast, hall.length_eq.symm, hall.imp ?_⟩
      intro canElem newElem hab
      obtain ⟨hname, hlt, w, hw, hty⟩ := hab
      refine ⟨hname, ?_, ?_⟩
      · obtain ⟨M3, h3, _, _⟩ := ((refinesAt Mod fuel).type GenericEnv
          (SILType.getPrimitiveObjectType canElem.type) M2 hV2
          (by simp only [SILType.getPrimitiveObjectType]; omega)).ok_of_pure hw
        exact ⟨w, M3, h3, hty⟩
      · intro fnType hfn
        rw [hfn] at hw
        obtain ⟨nf, hnf, hwast⟩ := pure_getNewSILType_optional_function_ast hw
        have hsz2 : sizeOf canElem.type = 1 + (1 + sizeOf fnType) := by rw [hfn]; simp
        obtain ⟨M3, h3, _, _⟩ := ((refinesAt Mod fuel).fnType GenericEnv fnType M2 hV2
          (by omega)).ok_of_pure hnf
        exact ⟨nf, M3, h3, by rw [hty, SILType.getASTType, hwast]⟩

/-- C9, on the toy target, at the labelled tuple `(a: BigStruct, b:
Optional<(BigStruct) -> ()>, c: (BigStruct) -> ())`, whose transform is `(a:
BigStruct, b: Optional<(@in BigStruct) -> ()>, c: (@in BigStruct) -> ())`. -/
theorem getNewSILType_tuple_elementwise_witness :
    (∃ Mapper2, getNewSILType toyModule 1000 none
        ⟨.tuple (.cons BigStruct 1 (.cons (.optional (.function bigConsumer)) 2
          (.cons (.function bigConsumer) 3 .nil))), .Object⟩ LargeSILTypeMapper.new =
        .ok (⟨.tuple (.cons BigStruct 1 (.cons (.optional (.function bigConsumerIndirect)) 2
          (.cons (.function bigConsumerIndirect) 3 .nil))), .Object⟩, Mapper2)) ∧
      (getNewSILType toyModule 1000 none
        ⟨.tuple (.cons BigStruct 1 (.cons (.optional (.function bigConsumer)) 2
          (.cons (.function bigConsumer) 3 .nil))), .Object⟩ LargeSILTypeMapper.new =
        .error .assertion ∨
      ∃ newElems newSILType Mapper2,
        getNewSILType toyModule 1000 none
          ⟨.tuple (.cons BigStruct 1 (.cons (.optional (.function bigConsumer)) 2
            (.cons (.function bigConsumer) 3 .nil))), .Object⟩ LargeSILTypeMapper.new =
          .ok (newSILType, Mapper2) ∧
        newSILType.getASTType = .tuple (TupleTypeElts.ofList newElems) ∧
        newElems.length = (TupleTypeElts.cons BigStruct 1
          (.cons (.optional (.function bigConsumer)) 2
            (.cons (.function bigConsumer) 3 .nil))).toList.length ∧
        List.Forall₂ (fun (canElem newElem : TupleTypeElt) =>
          newElem.name = canElem.name ∧
          (∃ newElemType Mapper3,
            getNewSILType toyModule 1000 none
              (SILType.getPrimitiveObjectType canElem.type) Mapper2 =
              .ok (newElemType, Mapper3) ∧
            newElem.type = newElemType.getASTType) ∧
          (∀ fnType, canElem.type = .optional (.function fnType) →
            ∃ newFnType Mapper3,
              getNewSILFunctionType toyModule 1000 none fnType Mapper2 =
                .ok (newFnType, Mapper3) ∧
              newElem.type = .optional (.function newFnType)))
          (TupleTypeElts.cons BigStruct 1 (.cons (.optional (.function bigConsumer)) 2
            (.cons (.function bigConsumer) 3 .nil))).toList newElems) :=
  ⟨⟨_, rfl⟩,
    getNewSILType_tuple_elementwise toyModule 1000 none
      (.cons BigStruct 1 (.cons (.optional (.function bigConsumer)) 2
        (.cons (.function bigConsumer) 3 .nil))) .Object LargeSILTypeMapper.new
      (Valid.new toyModule) (by decide)⟩

/-! ## The scenario of a function that returns its large argument -/

theorem isLargeLoadableType_large_struct (Mod : IRGenModule) (d : Nat)
    (hL : Mod.requiresIndirect (.nominal .Struct d) = true)
    (hP : Mod.hasTypeParameter (.nominal .Struct d) = false)
    (env : Option GenericEnvironment) (cat : SILValueCategory) :
    isLargeLoadableType env ⟨.nominal .Struct d, cat⟩ Mod =
      .ok (decide (cat = SILValueCategory.Object)) := by
  cases cat <;>
    simp [isLargeLoadableType, SILType.isAddress, SILType.isClassOrClassMetatype,
      CanType.getClassOrBoundGenericClass, SILType.getASTType, hP, hL,
      CanType.getAnyGeneric, SILType.isObject]

set_option maxHeartbeats 1000000 in
/-- C10: for every struct `S` that the oracle requires to be passed indirectly
(and that has no type parameter), a fresh pass, and fuel of four or more,
`runOnFunction` turns the native function `f(x: S) -> S { return x }` into a
function with the entry arguments `$return_value` and `x`, both of the address
type of `S`, and the body `copy_addr [take] x to [initialization]
$return_value; %5 = tuple (); return %5`, with no other instruction (no other
copy, no load, no stack allocation), and records the function as changed; the
update of the signature that `run` then makes (`updateLoweredTypes`) gives it
the signature `(@in S) -> @out S`, which has no direct result. -/
theorem runOnFunction_returnsItsArgument (Mod : IRGenModule) (d : Nat)
    (hasOwnership : Bool) (fuel : Nat)
    (hL : Mod.requiresIndirect (.nominal .Struct d) = true)
    (hP : Mod.hasTypeParameter (.nominal .Struct d) = false) :
    (ModuleTransform.new.runOnFunction Mod (fuel + 4) (returnsItsArgument d hasOwnership)).map
        (fun r => (r.1, r.2.modFuncs)) =
        .ok (returnsItsArgumentByAddress d hasOwnership
          (returnsItsArgument d hasOwnership).loweredType, [0]) ∧
      ((ModuleTransform.new.runOnFunction Mod (fuel + 4)
          (returnsItsArgument d hasOwnership)).bind
        (fun r => r.2.updateLoweredTypes Mod (fuel + 4) r.1)).map Prod.fst =
        .ok (returnsItsArgumentByAddress d hasOwnership (indirectSignature d)) ∧
      (indirectSignature d).getNumDirectFormalResults = 0 ∧
      (returnsItsArgumentByAddress d hasOwnership (indirectSignature d)).allInstructions.map
        (fun i => i.kind) = [.CopyAddrInst true true, .TupleInst, .ReturnInst] := by
  rw [show fuel + 4 = fuel + 1 + 1 + 1 + 1 from rfl]
  refine ⟨?_, ?_, ?_, ?_⟩
  all_goals
    simp [ModuleTransform.runOnFunction, ModuleTransform.updateLoweredTypes,
      ModuleTransform.new, returnsItsArgument, returnsItsArgumentByAddress,
      indirectSignature, nativeSignature,
      SILFunction.isExternalDeclaration, SILFunction.getLoweredFunctionType,
      StructLoweringState.new, LoadableStorageAllocation.allocateLoadableStorage,
      LargeValueVisitor.mapReturnInstrs, getReversePostOrder, postOrderVisit,
      SILFunction.getEntryBlock, SILFunction.findBlock, SILBasicBlock.getTerminator,
      SILInstruction.isFunctionExiting, modifiableFunction, SILFunctionType.getLanguage,
      SILFunctionType.getExtInfo, SILFunctionType.get,
      LoadableStorageAllocation.convertIndirectFunctionArgs, forEachM, List.enum,
      List.enumFrom, StructLoweringState.getNewSILType, getSubstGenericEnvironment,
      SILFunctionType.getSubstGenericSignature, SILFunctionType.getPatternSubstitutions,
      SILFunctionType.getInvocationGenericSignature, LargeSILTypeMapper.getNewSILType,
      LargeSILTypeMapper.getNewOptionalFunctionType, LargeSILTypeMapper.new, TypeMap.find,
      getNonOptionalType, SILType.getOptionalObjectType, SILType.getAsTupleType,
      SILType.getAsSILFunctionType, isLargeLoadableType_large_struct Mod d hL hP,
      SILType.getAddressType, TypeMap.assign, LoadableStorageAllocation.replaceArgType,
      SILFunction.updateBlock, SILBasicBlock.setArgument, SILFunction.replaceAllUsesWith,
      SILInstruction.replaceOperand, StructLoweringState.isLargeLoadableType,
      SILFunction.modNonFuncTypeResultType, SILFunction.getSubstGenericEnvironment,
      SILFunctionType.isPolymorphic, modNonFuncTypeResultType,
      SILFunctionType.getNumResults, SILFunctionType.getResults,
      SILFunctionType.resultInfos, ResultInfos.ofList, ResultInfos.toList,
      SILResultInfo.getSILStorageInterfaceType, SILType.getPrimitiveObjectType,
      SILType.getPrimitiveAddressType, LoadableStorageAllocation.insertIndirectReturnArgs,
      SILFunctionType.getAllResultsSubstType, SILFunctionType.getInvocationSubstitutions,
      SILFunctionType.getAllResultsInterfaceType, SILType.getASTType, hP,
      SILFunction.getLoweredType, LoadableStorageAllocation.convertApplyResults,
      SILFunction.allInstructions, SILInstruction.isFullApplySite,
      LargeValueVisitor.mapValueStorage, LargeValueVisitor.visitInstruction,
      LargeValueVisitor.visitReturnInst, modResultType,
      LargeSILTypeMapper.shouldTransformResults,
      LoadableStorageAllocation.convertIndirectBasicBlockArgs, rewriteFunctionReturn,
      rewriteFunction, rewriteInstsToMod, rewriteAllocStackInsts, rewritePointerToAddrInsts,
      rewriteDebugInsts, rewriteDestroyValueInsts, rewriteStoreInsts,
      rewriteRetainReleaseInsts, rewriteResultTyInsts, rewriteModReturnInsts,
      SILFunction.findInstruction, SILFunction.getParent, SILFunction.getType,
      SILFunction.allArguments, SILType.isAddress, returnCopyPosition,
      SILBasicBlock.beginPoint, createOutlinedCopyCall, SILFunction.create,
      SILFunction.createWith, SILFunction.insert, insertBeforeInList, SILFunction.erase,
      setVectorInsert, Except.map, Except.bind, ParameterInfos.ofList, YieldInfos.ofList,
      OptionalResultInfo.ofOption, mapVectorFind, SILFunction.rewriteLoweredTypeUnsafe,
      LargeSILTypeMapper.getNewSILFunctionType, LargeSILTypeMapper.getNewParameters,
      LargeSILTypeMapper.getNewYields, LargeSILTypeMapper.getNewResults,
      LargeSILTypeMapper.getNewParameter, mapElems, SILFunctionType.getParameters,
      SILFunctionType.getYields, SILFunctionType.parameterInfos, SILFunctionType.yieldInfos,
      ParameterInfos.toList, YieldInfos.toList, SILParameterInfo.getSILStorageInterfaceType,
      ParameterConvention.isIndirect, SILParameterInfo.getConvention,
      SILParameterInfo.getDifferentiability, SILFunctionType.getCoroutineKind,
      SILFunctionType.getCalleeConvention, SILFunctionType.getOptionalErrorResult,
      SILFunctionType.getWitnessMethodConformanceOrInvalid, OptionalResultInfo.toOption,
      SILFunctionType.getNumDirectFormalResults, rewriteUntilStable, rewriteSwitchEnumInsts,
      rewriteStructExtractInsts, rewriteApplies, rewriteYieldInsts, rewriteTupleInsts,
      rewriteMethodInsts]

/-- C10, at the struct `BigStruct` on the toy target, without ownership. -/
theorem runOnFunction_returnsItsArgument_witness :
    toyModule.requiresIndirect BigStruct = true ∧
      (ModuleTransform.new.runOnFunction toyModule 1000 (returnsItsArgument 8 false)).map
        (fun r => (r.1, r.2.modFuncs)) =
        .ok (returnsItsArgumentByAddress 8 false (returnsItsArgument 8 false).loweredType,
          [0]) :=
  ⟨by decide,
    (runOnFunction_returnsItsArgument toyModule 8 false 996 (by decide) (by decide)).1⟩

end LoadableByAddress

namespace LoadableByAddress
open LargeSILTypeMapper

/-! ## The cache of the mapper -/

/-- A sequence of queries started on a cache that holds only transforms leaves
a cache that holds only transforms and extends the first. -/
theorem getNewSILTypes_valid (Mod : IRGenModule) (fuel : Nat) :
    ∀ (queries : List (Option GenericEnvironment × SILType))
      (Mapper Mapper2 : LargeSILTypeMapper) (newTypes : List SILType),
      Valid Mod Mapper → (∀ q ∈ queries, 10 * sizeOf q.2.ast + 5 < fuel) →
      getNewSILTypes Mod fuel queries Mapper = .ok (newTypes, Mapper2) →
      Valid Mod Mapper2 ∧ Extends Mapper Mapper2
  | [], M, M2, ts, hV, _, h => by
    simp only [getNewSILTypes, Except.ok.injEq, Prod.mk.injEq] at h
    obtain ⟨_, h2⟩ := h
    subst h2
    exact ⟨hV, Extends.refl _⟩
  | q :: rest, M, M2, ts, hV, hf, h => by
    rw [getNewSILTypes] at h
    rcases ((refinesAt Mod fuel).type q.1 q.2 M hV
      (hf q (List.mem_cons_self _ _))).elim with ⟨_, he⟩ | ⟨v, M1, _, hr, hV1, hE1⟩
    · rw [he] at h; cases h
    · rw [hr] at h
      simp only [] at h
      cases hrest : getNewSILTypes Mod fuel rest M1 with
      | error e => rw [hrest] at h; cases h
      | ok r =>
        obtain ⟨ts2, M3⟩ := r
        rw [hrest] at h
        simp only [Except.ok.injEq, Prod.mk.injEq] at h
        obtain ⟨_, h2⟩ := h
        subst h2
        obtain ⟨hV3, hE3⟩ := getNewSILTypes_valid Mod fuel rest M1 M3 ts2 hV1
          (fun q2 hq2 => hf q2 (List.mem_cons_of_mem _ hq2)) hrest
        exact ⟨hV3, hE1.trans hE3⟩

/-- The transform of a type in address form is in address form. -/
theorem pure_getNewSILType_isAddress (Mod : IRGenModule) (env : Option GenericEnvironment)
    (t : CanType) (v : SILType)
    (h : Pure.getNewSILType Mod env ⟨t, .Address⟩ = some v) :
    v.category = SILValueCategory.Address := by
  have simple : ∀ t2 : CanType, isFuncOrOptionalFuncType ⟨t2, .Address⟩ = false →
      (getNonOptionalType ⟨t2, .Address⟩).getAsTupleType = none →
      Pure.getNewSILType Mod env ⟨t2, .Address⟩ = some v →
      v.category = SILValueCategory.Address := by
    intro t2 hF hT h2
    rw [pure_getNewSILType_simple_cases Mod env _ hF hT, isLargeLoadableType_address] at h2
    simp only [Bool.false_eq_true, if_false, Option.some.injEq] at h2
    subst h2
    rfl
  cases t with
  | nominal k d => exact simple (.nominal k d) rfl rfl h
  | metatype i => exact simple (.metatype i) rfl rfl h
  | scalar i => exact simple (.scalar i) rfl rfl h
  | tuple elts =>
    rw [pure_getNewSILType_tuple] at h
    cases hn : Pure.newTupleElems Mod env elts with
    | none => rw [hn] at h; cases h
    | some ne =>
      rw [hn] at h
      simp only [isLargeLoadableType_address, Bool.false_eq_true, if_false,
        Option.some.injEq] at h
      subst h
      rfl
  | function fn =>
    rw [pure_getNewSILType_function] at h
    cases hs : Pure.shouldTransformFunctionType Mod env fn with
    | none => rw [hs] at h; cases h
    | some b =>
      rw [hs] at h
      cases b with
      | false =>
        simp only [Option.some.injEq] at h
        subst h
        rfl
      | true =>
        simp only [] at h
        cases hf : Pure.getNewSILFunctionType Mod env fn with
        | none => rw [hf] at h; cases h
        | some nf =>
          rw [hf] at h
          simp only [Option.some.injEq] at h
          subst h
          rfl
  | optional obj =>
    cases obj with
    | nominal k d => exact simple (.optional (.nominal k d)) rfl rfl h
    | metatype i => exact simple (.optional (.metatype i)) rfl rfl h
    | scalar i => exact simple (.optional (.scalar i)) rfl rfl h
    | optional o => exact simple (.optional (.optional o)) rfl rfl h
    | tuple elts =>
      rw [pure_getNewSILType_optional_tuple] at h
      cases hn : Pure.newTupleElems Mod env elts with
      | none => rw [hn] at h; cases h
      | some ne =>
        rw [hn] at h
        simp only [isLargeLoadableType_address, Bool.false_eq_true, if_false,
          Option.some.injEq] at h
        subst h
        rfl
    | function fn =>
      rw [pure_getNewSILType_optional_function,
        pure_getNewOptionalFunctionType_optional_function] at h
      simp only [isLargeLoadableType_address] at h
      cases hs : Pure.shouldTransformFunctionType Mod env fn with
      | none => rw [hs] at h; cases h
      | some b =>
        rw [hs] at h
        cases b with
        | false =>
          simp only [ne_eq, not_true_eq_false, if_false, Bool.false_eq_true,
            Option.some.injEq] at h
          subst h
          rfl
        | true =>
          simp only [] at h
          cases hf : Pure.getNewSILFunctionType Mod env fn with
          | none => rw [hf] at h; cases h
          | some nf =>
            rw [hf] at h
            simp only [] at h
            split at h
            · simp only [Option.some.injEq] at h
              subst h
              rfl
            · simp only [Bool.false_eq_true, if_false, Option.some.injEq] at h
              subst h
              rfl

/-- C15: for every sequence of `getNewSILType` queries against one cache that
starts on a cache holding only transforms (the empty cache of a new mapper is
one) and has fuel above the size of the queried types: every entry `(context,
type) -> newType` that the cache holds at some point of the sequence is still
there, with the same value, after any number of further queries; a query only
adds entries. -/
theorem getNewSILTypes_entries_kept (Mod : IRGenModule) (fuel : Nat)
    (earlier later : List (Option GenericEnvironment × SILType))
    (Mapper0 Mapper1 Mapper2 : LargeSILTypeMapper) (types1 types2 : List SILType)
    (hV : Valid Mod Mapper0)
    (hf1 : ∀ q ∈ earlier, 10 * sizeOf q.2.ast + 5 < fuel)
    (hf2 : ∀ q ∈ later, 10 * sizeOf q.2.ast + 5 < fuel)
    (h1 : getNewSILTypes Mod fuel earlier Mapper0 = .ok (types1, Mapper1))
    (h2 : getNewSILTypes Mod fuel later Mapper1 = .ok (types2, Mapper2)) :
    ∀ (key : TypeMapKey) (newType : SILType),
      Mapper1.oldToNewTypeMap.find key = some newType →
      Mapper2.oldToNewTypeMap.find key = some newType := by
  obtain ⟨hV1, _⟩ := getNewSILTypes_valid Mod fuel earlier Mapper0 Mapper1 types1 hV hf1 h1
  obtain ⟨_, hE⟩ := getNewSILTypes_valid Mod fuel later Mapper1 Mapper2 types2 hV1 hf2 h2
  exact hE

/-- C15, on the toy target from the empty cache: the entry that the query for
a large struct writes is still there after the queries for a closure type and
for the struct again. -/
theorem getNewSILTypes_entries_kept_witness :
    Valid toyModule LargeSILTypeMapper.new ∧
      getNewSILTypes toyModule 1000 [(none, ⟨BigStruct, .Object⟩)] LargeSILTypeMapper.new =
        .ok ([⟨BigStruct, .Address⟩],
          ⟨[((none, ⟨BigStruct, .Object⟩), ⟨BigStruct, .Address⟩)]⟩) ∧
      ∀ (key : TypeMapKey) (newType : SILType),
        TypeMap.find [((none, ⟨BigStruct, .Object⟩), ⟨BigStruct, .Address⟩)] key
          = some newType →
        TypeMap.find
          [((none, ⟨BigStruct, .Object⟩), ⟨BigStruct, .Address⟩),
            ((none, ⟨.tuple .nil, .Object⟩), ⟨.tuple .nil, .Object⟩),
            ((none, ⟨.function bigConsumer, .Object⟩),
              ⟨.function bigConsumerIndirect, .Object⟩)] key = some newType :=
  ⟨Valid.new toyModule, rfl,
    getNewSILTypes_entries_kept toyModule 1000 [(none, ⟨BigStruct, .Object⟩)]
      [(none, ⟨.function bigConsumer, .Object⟩), (none, ⟨BigStruct, .Object⟩)]
      LargeSILTypeMapper.new _ _ _
      [⟨.function bigConsumerIndirect, .Object⟩, ⟨BigStruct, .Address⟩]
      (Valid.new toyModule) (by decide) (by decide) rfl rfl⟩

/-- C16: for a fixed oracle, with fuel above the size of the types, from every
cache that a sequence of earlier queries has produced (started on a cache that
holds only transforms, as the empty one), `getNewSILType` for a pair `(context,
type)` has the outcome it has from the empty cache: both stop at a failed
assertion, or both return the same type; and the query repeated on the cache the
first leaves returns that type again. -/
theorem getNewSILType_independent_of_cache (Mod : IRGenModule) (fuel : Nat)
    (earlier : List (Option GenericEnvironment × SILType))
    (Mapper0 Mapper1 : LargeSILTypeMapper) (types1 : List SILType)
    (GenericEnv : Option GenericEnvironment) (storageType : SILType)
    (hV : Valid Mod Mapper0)
    (hf1 : ∀ q ∈ earlier, 10 * sizeOf q.2.ast + 5 < fuel)
    (hf : 10 * sizeOf storageType.ast + 5 < fuel)
    (h1 : getNewSILTypes Mod fuel earlier Mapper0 = .ok (types1, Mapper1)) :
    (getNewSILType Mod fuel GenericEnv storageType Mapper1 = .error .assertion ∧
        getNewSILType Mod fuel GenericEnv storageType LargeSILTypeMapper.new =
          .error .assertion) ∨
      ∃ newType Mapper2 Mapper3 Mapper4,
        getNewSILType Mod fuel GenericEnv storageType Mapper1 = .ok (newType, Mapper2) ∧
        getNewSILType Mod fuel GenericEnv storageType LargeSILTypeMapper.new =
          .ok (newType, Mapper3) ∧
        getNewSILType Mod fuel GenericEnv storageType Mapper2 = .ok (newType, Mapper4) := by
  obtain ⟨hV1, _⟩ := getNewSILTypes_valid Mod fuel earlier Mapper0 Mapper1 types1 hV hf1 h1
  have R1 := (refinesAt Mod fuel).type GenericEnv storageType Mapper1 hV1 hf
  have R0 := (refinesAt Mod fuel).type GenericEnv storageType LargeSILTypeMapper.new
    (Valid.new Mod) hf
  rcases R1.elim with ⟨hp, he⟩ | ⟨v, M2, hp, hr, hV2, _⟩
  · left
    rw [hp] at R0
    exact ⟨he, R0⟩
  · right
    obtain ⟨M3, hr3, _, _⟩ := R0.ok_of_pure hp
    obtain ⟨M4, hr4, _, _⟩ :=
      ((refinesAt Mod fuel).type GenericEnv storageType M2 hV2 hf).ok_of_pure hp
    exact ⟨v, M2, M3, M4, hr, hr3, hr4⟩

/-- C16, on the toy target: after the queries for a large struct and for a
closure type, the query for the optional of the closure type returns what it
returns from the empty cache. -/
theorem getNewSILType_independent_of_cache_witness :
    (∃ Mapper2, getNewSILType toyModule 1000 none ⟨.optional (.function bigConsumer), .Object⟩
        LargeSILTypeMapper.new =
          .ok (⟨.optional (.function bigConsumerIndirect), .Object⟩, Mapper2)) ∧
      ((getNewSILType toyModule 1000 none ⟨.optional (.function bigConsumer), .Object⟩
            ⟨[((none, ⟨BigStruct, .Object⟩), ⟨BigStruct, .Address⟩),
              ((none, ⟨.tuple .nil, .Object⟩), ⟨.tuple .nil, .Object⟩),
              ((none, ⟨.function bigConsumer, .Object⟩),
                ⟨.function bigConsumerIndirect, .Object⟩)]⟩ = .error .assertion ∧
          getNewSILType toyModule 1000 none ⟨.optional (.function bigConsumer), .Object⟩
            LargeSILTypeMapper.new = .error .assertion) ∨
        ∃ newType Mapper2 Mapper3 Mapper4,
          getNewSILType toyModule 1000 none ⟨.optional (.function bigConsumer), .Object⟩
            ⟨[((none, ⟨BigStruct, .Object⟩), ⟨BigStruct, .Address⟩),
              ((none, ⟨.tuple .nil, .Object⟩), ⟨.tuple .nil, .Object⟩),
              ((none, ⟨.function bigConsumer, .Object⟩),
                ⟨.function bigConsumerIndirect, .Object⟩)]⟩ = .ok (newType, Mapper2) ∧
          getNewSILType toyModule 1000 none ⟨.optional (.function bigConsumer), .Object⟩
            LargeSILTypeMapper.new = .ok (newType, Mapper3) ∧
          getNewSILType toyModule 1000 none ⟨.optional (.function bigConsumer), .Object⟩
            Mapper2 = .ok (newType, Mapper4)) :=
  ⟨⟨_, rfl⟩,
    getNewSILType_independent_of_cache toyModule 1000
      [(none, ⟨BigStruct, .Object⟩), (none, ⟨.function bigConsumer, .Object⟩)]
      LargeSILTypeMapper.new _ [⟨BigStruct, .Address⟩, ⟨.function bigConsumerIndirect, .Object⟩]
      none ⟨.optional (.function bigConsumer), .Object⟩
      (Valid.new toyModule) (by decide) (by decide) rfl⟩

/-- C17: for every type in address form and every context, the classifier
answers "small", and `getNewSILType`, started on a cache that holds only
transforms and with fuel above the size of the type, either stops at a failed
assertion or returns a type that is again in address form; a lowered type has
one of two categories, value or address, so that the address form of the result
is the result itself. -/
theorem getNewSILType_address_form (Mod : IRGenModule) (fuel : Nat)
    (GenericEnv : Option GenericEnvironment) (storageType : SILType)
    (Mapper : LargeSILTypeMapper)
    (hV : Valid Mod Mapper) (hA : storageType.isAddress = true)
    (hf : 10 * sizeOf storageType.ast + 5 < fuel) :
    isLargeLoadableType GenericEnv storageType Mod = .ok false ∧
      (getNewSILType Mod fuel GenericEnv storageType Mapper = .error .assertion ∨
        ∃ newType Mapper2,
          getNewSILType Mod fuel GenericEnv storageType Mapper = .ok (newType, Mapper2) ∧
          newType.isAddress = true ∧ newType.isObject = false ∧
          newType.getAddressType = newType) := by
  obtain ⟨ast, cat⟩ := storageType
  have hc : cat = SILValueCategory.Address := by
    simpa [SILType.isAddress] using hA
  subst hc
  refine ⟨isLargeLoadableType_address GenericEnv ast Mod, ?_⟩
  rcases ((refinesAt Mod fuel).type GenericEnv ⟨ast, .Address⟩ Mapper hV hf).error_or_ok
    with he | ⟨v, M2, hp, hr, _⟩
  · exact Or.inl he
  · right
    have hcat := pure_getNewSILType_isAddress Mod GenericEnv ast v hp
    obtain ⟨vast, vcat⟩ := v
    simp only [] at hcat
    subst hcat
    exact ⟨_, M2, hr, rfl, rfl, rfl⟩

/-- C17, on the toy target from the empty cache, at the address of a tuple of
a closure type and a large struct: the transform is the address of the tuple of
the transformed closure type and the struct. -/
theorem getNewSILType_address_form_witness :
    (∃ Mapper2, getNewSILType toyModule 1000 none
        ⟨.tuple (.cons (.function bigConsumer) 0 (.cons BigStruct 0 .nil)), .Address⟩
        LargeSILTypeMapper.new =
          .ok (⟨.tuple (.cons (.function bigConsumerIndirect) 0 (.cons BigStruct 0 .nil)),
            .Address⟩, Mapper2)) ∧
      (isLargeLoadableType none
        ⟨.tuple (.cons (.function bigConsumer) 0 (.cons BigStruct 0 .nil)), .Address⟩
        toyModule = .ok false ∧
      (getNewSILType toyModule 1000 none
          ⟨.tuple (.cons (.function bigConsumer) 0 (.cons BigStruct 0 .nil)), .Address⟩
          LargeSILTypeMapper.new = .error .assertion ∨
        ∃ newType Mapper2,
          getNewSILType toyModule 1000 none
            ⟨.tuple (.cons (.function bigConsumer) 0 (.cons BigStruct 0 .nil)), .Address⟩
            LargeSILTypeMapper.new = .ok (newType, Mapper2) ∧
          newType.isAddress = true ∧ newType.isObject = false ∧
          newType.getAddressType = newType)) :=
  ⟨⟨_, rfl⟩,
    getNewSILType_address_form toyModule 1000 none
      ⟨.tuple (.cons (.function bigConsumer) 0 (.cons BigStruct 0 .nil)), .Address⟩
      LargeSILTypeMapper.new (Valid.new toyModule) (by decide) (by decide)⟩

end LoadableByAddress

namespace LoadableByAddress

/-! ## The operations on the instructions of a function -/

theorem insertBeforeInList_of_not_mem (new : SILInstruction) (id : Nat) :
    ∀ l : List SILInstruction, (∀ x ∈ l, x.id ≠ id) → insertBeforeInList new id l = l
  | [], _ => rfl
  | x :: l, h => by
    have hx : x.id ≠ id := h x (List.mem_cons_self _ _)
    simp only [insertBeforeInList, hx, if_false]
    rw [insertBeforeInList_of_not_mem new id l (fun y hy => h y (List.mem_cons_of_mem _ hy))]

theorem insertBeforeInList_append (new : SILInstruction) (id : Nat) (x : SILInstruction)
    (post : List SILInstruction) (hx : x.id = id) :
    ∀ pre : List SILInstruction, (∀ y ∈ pre, y.id ≠ id) →
      insertBeforeInList new id (pre ++ x :: post) = pre ++ new :: x :: post
  | [], _ => by simp [insertBeforeInList, hx]
  | y :: pre, h => by
    have hy : y.id ≠ id := h y (List.mem_cons_self _ _)
    have ih := insertBeforeInList_append new id x post hx pre
      (fun z hz => h z (List.mem_cons_of_mem _ hz))
    show insertBeforeInList new id (y :: (pre ++ x :: post)) = y :: (pre ++ new :: x :: post)
    simp only [insertBeforeInList, hy, if_false, ih]

theorem mem_insertBeforeInList {new : SILInstruction} {id : Nat} {x : SILInstruction} :
    ∀ {l : List SILInstruction}, x ∈ insertBeforeInList new id l → x = new ∨ x ∈ l
  | [], h => by simp [insertBeforeInList] at h
  | y :: l, h => by
    simp only [insertBeforeInList] at h
    split at h
    · rcases List.mem_cons.1 h with h | h
      · exact Or.inl h
      · exact Or.inr h
    · rcases List.mem_cons.1 h with h | h
      · exact Or.inr (h ▸ List.mem_cons_self _ _)
      · rcases mem_insertBeforeInList h with h | h
        · exact Or.inl h
        · exact Or.inr (List.mem_cons_of_mem _ h)

theorem mem_insertBeforeInList_of_mem {new : SILInstruction} {id : Nat} {x : SILInstruction} :
    ∀ {l : List SILInstruction}, x ∈ l → x ∈ insertBeforeInList new id l
  | [], h => by simp at h
  | y :: l, h => by
    simp only [insertBeforeInList]
    split
    · exact List.mem_cons_of_mem _ h
    · rcases List.mem_cons.1 h with h | h
      · exact h ▸ List.mem_cons_self _ _
      · exact List.mem_cons_of_mem _ (mem_insertBeforeInList_of_mem h)

theorem map_setOperands_of_ne (c : Nat) (ops : List SILValue) :
    ∀ l : List SILInstruction, (∀ y ∈ l, y.id ≠ c) →
      l.map (fun i => if i.id = c then { i with operands := ops } else i) = l
  | [], _ => rfl
  | y :: l, h => by
    have hy : y.id ≠ c := h y (List.mem_cons_self _ _)
    simp only [List.map_cons, hy, if_false]
    rw [map_setOperands_of_ne c ops l (fun z hz => h z (List.mem_cons_of_mem _ hz))]

theorem SILInstruction.redirect_nil (i : SILInstruction) : i.redirect [] = i := by
  have h : redirectValue [] = fun v => v := rfl
  simp [SILInstruction.redirect, h]

theorem SILInstruction.redirect_cons (s : SILValue × SILValue)
    (subst : List (SILValue × SILValue)) (i : SILInstruction) :
    i.redirect (s :: subst) = (SILInstruction.replaceOperand s.1 s.2 i).redirect subst := by
  simp [SILInstruction.redirect, redirectValue, SILInstruction.replaceOperand, List.map_map,
    Function.comp_def]

theorem map_replaceOperand_of_not_mem (old new : SILValue) :
    ∀ l : List SILInstruction, (∀ y ∈ l, old ∉ y.operands) →
      l.map (SILInstruction.replaceOperand old new) = l
  | [], _ => rfl
  | y :: l, h => by
    have hy : old ∉ y.operands := h y (List.mem_cons_self _ _)
    have e : SILInstruction.replaceOperand old new y = y := by
      unfold SILInstruction.replaceOperand
      have : y.operands.map (fun v => if v = old then new else v) = y.operands := by
        conv => rhs; rw [← List.map_id y.operands]
        apply List.map_congr_left
        intro v hv
        have : v ≠ old := fun hvo => hy (hvo ▸ hv)
        simp [this]
      rw [this]
    rw [List.map_cons, e,
      map_replaceOperand_of_not_mem old new l (fun z hz => h z (List.mem_cons_of_mem _ hz))]

/-- The function after the cast of one entry argument: the cast goes before
the first instruction that the entry block had, after the casts `cs` made
before, and the uses of the argument are redirected to it. -/
theorem castStep_eq (F : SILFunction) (eid : Nat) (eargs : List SILArgument)
    (cs body : List SILInstruction) (rest : List SILBasicBlock) (pt : InsertionPoint)
    (a : Nat) (t : SILType)
    (hB : F.blocks = ⟨eid, eargs, cs ++ body⟩ :: rest)
    (hpt : (body = [] ∧ pt = .blockEnd eid) ∨
      ∃ first tail, body = first :: tail ∧ pt = .before first.id ∧
        (∀ y ∈ cs, y.id ≠ first.id) ∧ ∀ BB ∈ rest, ∀ y ∈ BB.instructions, y.id ≠ first.id)
    (hrestid : ∀ BB ∈ rest, BB.id ≠ eid)
    (hcs : ∀ y ∈ cs, y.id ≠ F.nextId ∧ SILValue.argument a ∉ y.operands)
    (hbody : ∀ y ∈ body, y.id ≠ F.nextId)
    (hrest : ∀ BB ∈ rest, ∀ y ∈ BB.instructions, y.id ≠ F.nextId) :
    (((F.create pt .UncheckedReinterpretCastInst [.argument a] (some t)).2.replaceAllUsesWith
        (.argument a) (.instruction F.nextId)).setOperands F.nextId [.argument a]) =
      { F with
        blocks := ⟨eid, eargs,
            (cs ++ [⟨F.nextId, .UncheckedReinterpretCastInst, [.argument a], some t, [], 0⟩]) ++
              body.map (SILInstruction.replaceOperand (.argument a) (.instruction F.nextId))⟩ ::
          rest.map (fun BB =>
            { BB with
              instructions := BB.instructions.map
                (SILInstruction.replaceOperand (.argument a) (.instruction F.nextId)) }),
        nextId := F.nextId + 1 } := by
  obtain ⟨name, lt, ge, ho, blocks, n⟩ := F
  simp only at hB hcs hbody hrest
  subst hB
  have h1 : (SILFunction.create ⟨name, lt, ge, ho, ⟨eid, eargs, cs ++ body⟩ :: rest, n⟩ pt
      .UncheckedReinterpretCastInst [.argument a] (some t)).2 =
      ⟨name, lt, ge, ho, ⟨eid, eargs, cs ++
        ⟨n, .UncheckedReinterpretCastInst, [.argument a], some t, [], 0⟩ :: body⟩ :: rest,
        n + 1⟩ := by
    rcases hpt with ⟨hb, hp⟩ | ⟨first, tail, hb, hp, hcf, hrf⟩
    · subst hb hp
      have hrest0 : rest.map (fun BB => if BB.id = eid then
            ({ BB with
               instructions := BB.instructions ++
                 [⟨n, .UncheckedReinterpretCastInst, [.argument a], some t, [], 0⟩] } :
              SILBasicBlock)
            else BB) = rest := by
        conv => rhs; rw [← List.map_id rest]
        apply List.map_congr_left
        intro BB hBB
        simp [hrestid BB hBB]
      simp only [SILFunction.create, SILFunction.createWith, SILFunction.insert,
        List.map_cons, if_true, List.append_nil, hrest0]
    · subst hb hp
      have hrest0 : rest.map (fun BB =>
          ({ BB with
             instructions := insertBeforeInList
               ⟨n, .UncheckedReinterpretCastInst, [.argument a], some t, [], 0⟩ first.id
               BB.instructions } : SILBasicBlock)) = rest := by
        conv => rhs; rw [← List.map_id rest]
        apply List.map_congr_left
        intro BB hBB
        rw [insertBeforeInList_of_not_mem _ _ _ (hrf BB hBB)]
        rfl
      simp only [SILFunction.create, SILFunction.createWith, SILFunction.insert,
        List.map_cons, insertBeforeInList_append _ _ first tail rfl cs hcf, hrest0]
  rw [h1]
  have hcs1 : cs.map (SILInstruction.replaceOperand (.argument a) (.instruction n)) = cs :=
    map_replaceOperand_of_not_mem _ _ cs (fun y hy => (hcs y hy).2)
  have hS : ∀ l : List SILInstruction, (∀ y ∈ l, y.id ≠ n) →
      (l.map (SILInstruction.replaceOperand (.argument a) (.instruction n))).map
        (fun i => if i.id = n then { i with operands := [SILValue.argument a] } else i) =
      l.map (SILInstruction.replaceOperand (.argument a) (.instruction n)) := by
    intro l hl
    apply map_setOperands_of_ne
    intro y hy
    obtain ⟨z, hz, rfl⟩ := List.mem_map.1 hy
    exact hl z hz
  have hrestS : (rest.map (fun BB =>
        ({ BB with
           instructions := BB.instructions.map
             (SILInstruction.replaceOperand (.argument a) (.instruction n)) } :
          SILBasicBlock))).map (fun BB =>
        ({ BB with
           instructions := BB.instructions.map
             (fun i => if i.id = n then { i with operands := [SILValue.argument a] }
               else i) } : SILBasicBlock)) =
      rest.map (fun BB =>
        { BB with
          instructions := BB.instructions.map
            (SILInstruction.replaceOperand (.argument a) (.instruction n)) }) := by
    rw [List.map_map]
    apply List.map_congr_left
    intro BB hBB
    simp only [Function.comp_apply, hS _ (hrest BB hBB)]
  simp only [SILFunction.replaceAllUsesWith, SILFunction.setOperands, List.map_cons,
    List.map_append, hrestS, hcs1, hS body hbody,
    map_setOperands_of_ne n _ cs (fun y hy => (hcs y hy).1)]
  simp [SILInstruction.replaceOperand]

/-! ## The mapper behind the state of the pass -/

theorem StructLoweringState.getNewSILType_refines {pass pass1 : StructLoweringState}
    {Mod : IRGenModule} {fuel : Nat} {fnTy : SILFunctionType} {type newType : SILType}
    (hV : Valid Mod pass.Mapper) (hf : 10 * sizeOf type.ast + 5 < fuel)
    (h : pass.getNewSILType Mod fuel fnTy type = .ok (newType, pass1)) :
    Pure.getNewSILType Mod (getSubstGenericEnvironment fnTy) type = some newType ∧
      Valid Mod pass1.Mapper ∧ pass1 = { pass with Mapper := pass1.Mapper } := by
  unfold StructLoweringState.getNewSILType at h
  rcases ((refinesAt Mod fuel).type (getSubstGenericEnvironment fnTy) type pass.Mapper hV
    hf).elim with ⟨_, he⟩ | ⟨v, M1, hp, hr, hV1, _⟩
  · rw [he] at h; cases h
  · rw [hr] at h
    cases h
    exact ⟨hp, hV1, rfl⟩

theorem StructLoweringState.containsDifferentFunctionSignature_refines
    {pass pass1 : StructLoweringState}
    {Mod : IRGenModule} {fuel : Nat} {fnTy : SILFunctionType} {type : SILType} {b : Bool}
    (hV : Valid Mod pass.Mapper) (hf : 10 * sizeOf type.ast + 6 < fuel)
    (h : pass.containsDifferentFunctionSignature Mod fuel fnTy type = .ok (b, pass1)) :
    ∃ newType, Pure.getNewSILType Mod (getSubstGenericEnvironment fnTy) type = some newType ∧
      Pure.containsDifferentFunctionSignature Mod (getSubstGenericEnvironment fnTy) type
        newType = some b ∧
      Valid Mod pass1.Mapper ∧ pass1 = { pass with Mapper := pass1.Mapper } := by
  unfold StructLoweringState.containsDifferentFunctionSignature at h
  split at h
  · cases h
  · rename_i newType p1 h1
    obtain ⟨hp1, hV1, e1⟩ := StructLoweringState.getNewSILType_refines hV (by omega) h1
    rcases ((refinesAt Mod fuel).contains (getSubstGenericEnvironment fnTy) type newType
      p1.Mapper hV1 hf).elim with ⟨_, he⟩ | ⟨v, M1, hp, hr, hV2, _⟩
    · rw [he] at h; cases h
    · rw [hr] at h
      cases h
      refine ⟨newType, hp1, hp, hV2, ?_⟩
      rw [e1]

/-! ## The casts of the entry arguments of a function that is not modifiable -/

theorem castInstructions_length : ∀ (n : Nat) (cs : List (SILArgument × SILType)),
    (castInstructions n cs).length = cs.length
  | _, [] => rfl
  | n, c :: cs => by simp [castInstructions, castInstructions_length (n + 1) cs]

theorem SILBasicBlock.redirect_cons_map (s : SILValue × SILValue)
    (subst : List (SILValue × SILValue)) (rest : List SILBasicBlock) :
    (rest.map (fun BB =>
        ({ BB with
           instructions := BB.instructions.map (SILInstruction.replaceOperand s.1 s.2) } :
          SILBasicBlock))).map (SILBasicBlock.redirect subst) =
      rest.map (SILBasicBlock.redirect (s :: subst)) := by
  rw [List.map_map]
  apply List.map_congr_left
  intro BB _
  simp only [Function.comp_apply, SILBasicBlock.redirect, List.map_map]
  congr 1
  apply List.map_congr_left
  intro i _
  simp only [Function.comp_apply, SILInstruction.redirect_cons]

/-- The loop of `convertIndirectFunctionPointerArgsForUnmodifiable` over the
entry arguments `args`, started when the entry block holds the casts `cs`
before its own instructions `body`. -/
theorem convertUnmodifiable_loop (Mod : IRGenModule) (fuel : Nat) (argBuilder : InsertionPoint)
    (eid : Nat) (eargs : List SILArgument) :
    ∀ (args : List SILArgument) (p p9 : StructLoweringState)
      (cs body : List SILInstruction) (rest : List SILBasicBlock),
      p.F.blocks = ⟨eid, eargs, cs ++ body⟩ :: rest →
      ((body = [] ∧ argBuilder = .blockEnd eid) ∨
        ∃ first tail, body = first :: tail ∧ argBuilder = .before first.id ∧
          first.id < p.F.nextId ∧
          (∀ y ∈ cs, y.id ≠ first.id) ∧ ∀ BB ∈ rest, ∀ y ∈ BB.instructions, y.id ≠ first.id) →
      (∀ BB ∈ rest, BB.id ≠ eid) →
      (∀ y ∈ cs, y.id < p.F.nextId ∧ ∀ a ∈ args, SILValue.argument a.id ∉ y.operands) →
      (∀ y ∈ body, y.id < p.F.nextId) →
      (∀ BB ∈ rest, ∀ y ∈ BB.instructions, y.id < p.F.nextId) →
      Valid Mod p.Mapper →
      (∀ a ∈ args, 10 * sizeOf a.type.ast + 6 < fuel) →
      (args.map (fun a => a.id)).Nodup →
      forEachM (fun (arg : SILArgument) (p : StructLoweringState) =>
        let storageType := arg.type
        match p.getNewSILType Mod fuel p.F.getLoweredFunctionType storageType with
        | .error e => .error e
        | .ok (newSILType, p1) =>
          match p1.containsDifferentFunctionSignature Mod fuel p1.F.getLoweredFunctionType
              storageType with
          | .error e => .error e
          | .ok (true, p2) =>
            let (castInstr, F1) := p2.F.create argBuilder .UncheckedReinterpretCastInst
              [.argument arg.id] (some newSILType)
            let F2 := F1.replaceAllUsesWith (.argument arg.id) (.instruction castInstr.id)
            let F3 := F2.setOperands castInstr.id [.argument arg.id]
            .ok { p2 with F := F3 }
          | .ok (false, p2) => .ok p2) args p = .ok p9 →
      p9 = { p with
        Mapper := p9.Mapper,
        F := { p.F with
          blocks := ⟨eid, eargs, cs ++
              castInstructions p.F.nextId
                (castedArguments Mod (getSubstGenericEnvironment p.F.loweredType) args) ++
              body.map (SILInstruction.redirect (castRedirections p.F.nextId
                (castedArguments Mod (getSubstGenericEnvironment p.F.loweredType) args)))⟩ ::
            rest.map (SILBasicBlock.redirect (castRedirections p.F.nextId
              (castedArguments Mod (getSubstGenericEnvironment p.F.loweredType) args))),
          nextId := p.F.nextId +
            (castedArguments Mod (getSubstGenericEnvironment p.F.loweredType) args).length } }
  | [], p, p9, cs, body, rest, hB, _, _, _, _, _, _, _, _, h => by
    simp only [forEachM, Except.ok.injEq] at h
    subst h
    have e1 : body.map (SILInstruction.redirect []) = body := by
      conv => rhs; rw [← List.map_id body]
      apply List.map_congr_left
      intro i _
      exact SILInstruction.redirect_nil i
    have e2 : rest.map (SILBasicBlock.redirect []) = rest := by
      conv => rhs; rw [← List.map_id rest]
      apply List.map_congr_left
      intro BB _
      have e3 : BB.instructions.map (SILInstruction.redirect []) = BB.instructions := by
        conv => rhs; rw [← List.map_id BB.instructions]
        apply List.map_congr_left
        intro i _
        exact SILInstruction.redirect_nil i
      simp [SILBasicBlock.redirect, e3]
    simp only [castedArguments, List.filterMap_nil, castInstructions, castRedirections,
      List.append_nil, e1, e2, List.length_nil, Nat.add_zero, ← hB]
  | a :: args, p, p9, cs, body, rest, hB, hpt, hrid, hcs, hbody, hrest, hV, hf, hN, h => by
    simp only [forEachM] at h
    split at h
    · cases h
    · rename_i p3 h3
      -- one round of the loop
      split at h3
      · cases h3
      · rename_i newSILType p1 h1
        obtain ⟨hp1, hV1, e1⟩ := StructLoweringState.getNewSILType_refines hV
          (by have := hf a (List.mem_cons_self _ _); omega) h1
        have hFe : p1.F = p.F := by rw [e1]
        rw [hFe] at h3
        have hN2 : a.id ∉ args.map (fun a => a.id) ∧ (args.map (fun a => a.id)).Nodup :=
          List.nodup_cons.1 hN
        split at h3
        · cases h3
        · -- the type of the argument holds a signature that changes: a cast
          rename_i p2 h2
          have hV1b : Valid Mod p1.Mapper := hV1
          obtain ⟨newType2, hp2, hc2, hV2, e2⟩ :=
            StructLoweringState.containsDifferentFunctionSignature_refines hV1b
              (hf a (List.mem_cons_self _ _)) h2
          have hnew : newType2 = newSILType := by
            have := hp2.symm.trans hp1
            exact Option.some.inj this
          subst hnew
          have hF2 : p2.F = p.F := by rw [e2, hFe]
          have hconv : castedArguments Mod (getSubstGenericEnvironment p.F.loweredType)
              (a :: args) = (a, newType2) ::
                castedArguments Mod (getSubstGenericEnvironment p.F.loweredType) args := by
            unfold castedArguments
            rw [List.filterMap_cons]
            simp only [SILFunction.getLoweredFunctionType] at hp1 hc2
            simp only [hp1, hc2, if_true]
          simp only [SILFunction.create, SILFunction.createWith, hF2] at h3
          have hstep := castStep_eq p.F eid eargs cs body rest argBuilder a.id newType2 hB
            (by
              rcases hpt with hpt | ⟨first, tail, hb, hp, _, hcf, hrf⟩
              · exact Or.inl hpt
              · exact Or.inr ⟨first, tail, hb, hp, hcf, hrf⟩)
            hrid
            (fun y hy => ⟨Nat.ne_of_lt (hcs y hy).1,
              (hcs y hy).2 a (List.mem_cons_self _ _)⟩)
            (fun y hy => Nat.ne_of_lt (hbody y hy))
            (fun BB hBB y hy => Nat.ne_of_lt (hrest BB hBB y hy))
          simp only [SILFunction.create, SILFunction.createWith] at hstep
          rw [hstep] at h3
          cases h3
          have ih := convertUnmodifiable_loop Mod fuel argBuilder eid eargs args
            { p2 with
              F := { p.F with
                blocks := ⟨eid, eargs,
                    (cs ++ [⟨p.F.nextId, .UncheckedReinterpretCastInst, [.argument a.id],
                      some newType2, [], 0⟩]) ++
                    body.map (SILInstruction.replaceOperand (.argument a.id)
                      (.instruction p.F.nextId))⟩ ::
                  rest.map (fun BB =>
                    { BB with
                      instructions := BB.instructions.map
                        (SILInstruction.replaceOperand (.argument a.id)
                          (.instruction p.F.nextId)) }),
                nextId := p.F.nextId + 1 } } p9
            (cs ++ [⟨p.F.nextId, .UncheckedReinterpretCastInst, [.argument a.id],
              some newType2, [], 0⟩])
            (body.map (SILInstruction.replaceOperand (.argument a.id)
              (.instruction p.F.nextId)))
            (rest.map (fun BB =>
              { BB with
                instructions := BB.instructions.map
                  (SILInstruction.replaceOperand (.argument a.id)
                    (.instruction p.F.nextId)) }))
            rfl
            (by
              rcases hpt with ⟨hb, hp⟩ | ⟨first, tail, hb, hp, hlt, hcf, hrf⟩
              · left
                exact ⟨by rw [hb]; rfl, hp⟩
              · right
                refine ⟨SILInstruction.replaceOperand (.argument a.id)
                  (.instruction p.F.nextId) first,
                  tail.map (SILInstruction.replaceOperand (.argument a.id)
                    (.instruction p.F.nextId)), by rw [hb]; rfl, hp, ?_, ?_, ?_⟩
                · exact Nat.lt_succ_of_lt hlt
                · intro y hy
                  rcases List.mem_append.1 hy with hy | hy
                  · exact hcf y hy
                  · rw [List.mem_singleton.1 hy]
                    exact Nat.ne_of_gt hlt
                · intro BB hBB y hy
                  obtain ⟨BB0, hBB0, rfl⟩ := List.mem_map.1 hBB
                  obtain ⟨y0, hy0, rfl⟩ := List.mem_map.1 hy
                  exact hrf BB0 hBB0 y0 hy0)
            (by
              intro BB hBB
              obtain ⟨BB0, hBB0, rfl⟩ := List.mem_map.1 hBB
              exact hrid BB0 hBB0)
            (by
              intro y hy
              rcases List.mem_append.1 hy with hy | hy
              · exact ⟨Nat.lt_succ_of_lt (hcs y hy).1,
                  fun b hb => (hcs y hy).2 b (List.mem_cons_of_mem _ hb)⟩
              · rw [List.mem_singleton.1 hy]
                refine ⟨Nat.lt_succ_self _, ?_⟩
                intro b hb hmem
                have hid : a.id = b.id := by
                  have := List.mem_singleton.1 hmem
                  injection this with hh
                  exact hh.symm
                apply hN2.1
                rw [hid]
                exact List.mem_map_of_mem _ hb)
            (by
              intro y hy
              obtain ⟨y0, hy0, rfl⟩ := List.mem_map.1 hy
              exact Nat.lt_succ_of_lt (hbody y0 hy0))
            (by
              intro BB hBB y hy
              obtain ⟨BB0, hBB0, rfl⟩ := List.mem_map.1 hBB
              obtain ⟨y0, hy0, rfl⟩ := List.mem_map.1 hy
              exact Nat.lt_succ_of_lt (hrest BB0 hBB0 y0 hy0))
            hV2 (fun b hb => hf b (List.mem_cons_of_mem _ hb)) hN2.2 h
          rw [ih, hconv]
          have eb := SILBasicBlock.redirect_cons_map
            (SILValue.argument a.id, SILValue.instruction p.F.nextId)
            (castRedirections (p.F.nextId + 1)
              (castedArguments Mod (getSubstGenericEnvironment p.F.loweredType) args)) rest
          have ei : (body.map (SILInstruction.replaceOperand (.argument a.id)
              (.instruction p.F.nextId))).map (SILInstruction.redirect
                (castRedirections (p.F.nextId + 1)
                  (castedArguments Mod (getSubstGenericEnvironment p.F.loweredType) args))) =
              body.map (SILInstruction.redirect
                ((SILValue.argument a.id, SILValue.instruction p.F.nextId) ::
                  castRedirections (p.F.nextId + 1)
                    (castedArguments Mod (getSubstGenericEnvironment p.F.loweredType)
                      args))) := by
            rw [List.map_map]
            apply List.map_congr_left
            intro i _
            simp only [Function.comp_apply, SILInstruction.redirect_cons]
          rw [e2, e1]
          simp only [castInstructions, castRedirections, List.length_cons, eb, ei,
            List.append_assoc, List.singleton_append, Nat.add_assoc, Nat.add_comm 1]
        · -- no cast
          rename_i p2 h2
          obtain ⟨newType2, hp2, hc2, hV2, e2⟩ :=
            StructLoweringState.containsDifferentFunctionSignature_refines hV1
              (hf a (List.mem_cons_self _ _)) h2
          have hnew : newType2 = newSILType := by
            have := hp2.symm.trans hp1
            exact Option.some.inj this
          subst hnew
          have hF2 : p2.F = p.F := by rw [e2, hFe]
          have hconv : castedArguments Mod (getSubstGenericEnvironment p.F.loweredType)
              (a :: args) =
                castedArguments Mod (getSubstGenericEnvironment p.F.loweredType) args := by
            unfold castedArguments
            rw [List.filterMap_cons]
            simp only [SILFunction.getLoweredFunctionType] at hp1 hc2
            simp only [hp1, hc2]
            simp
          cases h3
          have ih := convertUnmodifiable_loop Mod fuel argBuilder eid eargs args p3 p9
            cs body rest (by rw [hF2]; exact hB)
            (by rw [hF2]; exact hpt) hrid
            (by
              rw [hF2]
              intro y hy
              exact ⟨(hcs y hy).1, fun b hb => (hcs y hy).2 b (List.mem_cons_of_mem _ hb)⟩)
            (by rw [hF2]; exact hbody) (by rw [hF2]; exact hrest)
            hV2 (fun b hb => hf b (List.mem_cons_of_mem _ hb)) hN2.2 h
          rw [ih, hconv, hF2]
          rw [e2, e1]

theorem castedArguments_not_nominal (Mod : IRGenModule) (env : Option GenericEnvironment)
    (args : List SILArgument) (a : SILArgument) (t : SILType) (k : NominalKind) (d : Nat)
    (ha : a.type.ast = .nominal k d) :
    (a, t) ∉ castedArguments Mod env args := by
  intro hm
  unfold castedArguments at hm
  obtain ⟨b, _, hb⟩ := List.mem_filterMap.1 hm
  split at hb
  · rename_i newSILType hn
    split at hb
    · rename_i hc
      simp only [Option.some.injEq, Prod.mk.injEq] at hb
      obtain ⟨hb1, _⟩ := hb
      subst hb1
      rw [pure_contains_eq] at hc
      have h1 : getInnerFunctionType b.type = none := by
        generalize b.type = bt at ha
        obtain ⟨ast, cat⟩ := bt
        change ast = _ at ha
        subst ha
        rfl
      have h2 : (getNonOptionalType b.type).getAsTupleType = none := by
        generalize b.type = bt at ha
        obtain ⟨ast, cat⟩ := bt
        change ast = _ at ha
        subst ha
        rfl
      rw [h1, h2] at hc
      split at hc
      · cases hc
      · simp at hc
    · cases hb
  · cases hb

/-! ## The scan: what a visit adds to the worklists -/

section scan
open LargeValueVisitor

theorem StructLoweringState.getNewSILType_state {pass pass1 : StructLoweringState}
    {Mod : IRGenModule} {fuel : Nat} {fnTy : SILFunctionType} {type newType : SILType}
    (h : pass.getNewSILType Mod fuel fnTy type = .ok (newType, pass1)) :
    pass1 = { pass with Mapper := pass1.Mapper } := by
  unfold StructLoweringState.getNewSILType at h
  split at h
  · cases h
  · cases h; rfl

theorem StructLoweringState.containsDifferentFunctionSignature_state
    {pass pass1 : StructLoweringState}
    {Mod : IRGenModule} {fuel : Nat} {fnTy : SILFunctionType} {type : SILType} {b : Bool}
    (h : pass.containsDifferentFunctionSignature Mod fuel fnTy type = .ok (b, pass1)) :
    pass1 = { pass with Mapper := pass1.Mapper } := by
  unfold StructLoweringState.containsDifferentFunctionSignature at h
  split at h
  · cases h
  · rename_i t p1 h1
    have e1 := StructLoweringState.getNewSILType_state h1
    split at h
    · cases h
    · cases h
      rw [e1]

/-- A loop `anyElem` whose body changes nothing but the mapper changes nothing
but the mapper. -/
theorem anyElem_state {α : Type} (f : α → StructLoweringState → Except Abort (Bool × StructLoweringState))
    (hf : ∀ a p b p1, f a p = .ok (b, p1) → p1 = { p with Mapper := p1.Mapper }) :
    ∀ (l : List α) (p : StructLoweringState) (b : Bool) (p1 : StructLoweringState),
      anyElem f l p = .ok (b, p1) → p1 = { p with Mapper := p1.Mapper }
  | [], p, b, p1, h => by
    simp only [anyElem, Except.ok.injEq, Prod.mk.injEq] at h
    rw [← h.2]
  | a :: rest, p, b, p1, h => by
    simp only [anyElem] at h
    split at h
    · cases h
    · rename_i s1 h1
      cases h
      exact hf _ _ _ _ h1
    · rename_i s1 h1
      have e1 := hf _ _ _ _ h1
      have e2 := anyElem_state f hf rest s1 b p1 h
      rw [e2, e1]

theorem visitInstr_fold (id : Nat) :
    ∀ (operands : List SILValue) (pass : StructLoweringState),
      ∃ m, operands.foldl (fun (p : StructLoweringState) operand =>
        if operand ∈ p.largeLoadableArgs then
          { p with instsToMod := p.instsToMod ++ [id],
                   argsToLoadedValueMap := mapVectorAssign p.argsToLoadedValueMap operand operand }
        else p) pass =
      { pass with
        instsToMod := pass.instsToMod ++ List.replicate
          (operands.filter (fun operand => decide (operand ∈ pass.largeLoadableArgs))).length id,
        argsToLoadedValueMap := m }
  | [], pass => ⟨pass.argsToLoadedValueMap, by simp⟩
  | operand :: rest, pass => by
    simp only [List.foldl_cons]
    by_cases hm : operand ∈ pass.largeLoadableArgs
    · obtain ⟨m, hm2⟩ := visitInstr_fold id rest
        { pass with instsToMod := pass.instsToMod ++ [id],
                    argsToLoadedValueMap :=
                      mapVectorAssign pass.argsToLoadedValueMap operand operand }
      refine ⟨m, ?_⟩
      rw [if_pos hm, hm2]
      simp [hm, List.replicate_succ, List.append_assoc]
    · obtain ⟨m, hm2⟩ := visitInstr_fold id rest pass
      refine ⟨m, ?_⟩
      rw [if_neg hm, hm2]
      simp [hm]

theorem visitInstr_eq (pass : StructLoweringState) (instr : SILInstruction) :
    ∃ m, visitInstr pass instr =
      { pass with
        instsToMod := pass.instsToMod ++
          List.replicate (pass.countLargeOperands instr) instr.id,
        argsToLoadedValueMap := m } :=
  visitInstr_fold instr.id instr.operands pass

theorem AddedOnce.self (id : Nat) (w : List Nat) : AddedOnce id w w := Or.inl rfl

theorem AddedOnce.add (id : Nat) (w : List Nat) : AddedOnce id w (w ++ [id]) := Or.inr rfl

theorem AddedOnce.setVectorInsert (id : Nat) (w : List Nat) :
    AddedOnce id w (setVectorInsert w id) := by
  unfold LoadableByAddress.setVectorInsert
  split
  · exact Or.inl rfl
  · exact Or.inr rfl

theorem AddedTimes.none_added (id n : Nat) (w : List Nat) : AddedTimes id n w w :=
  ⟨0, Nat.zero_le _, by simp⟩

theorem AddedTimes.exact (id n : Nat) (w : List Nat) :
    AddedTimes id n w (w ++ List.replicate n id) := ⟨n, Nat.le_refl _, rfl⟩

theorem ScanStep.unchanged (instr : SILInstruction) (pass : StructLoweringState) :
    ScanStep instr pass pass := by
  simp [ScanStep, StructLoweringState.onceWorklists, StructLoweringState.perOperandWorklists,
    AddedOnce.self, AddedTimes.none_added]

theorem ScanStep.mapper (instr : SILInstruction) (pass : StructLoweringState)
    (M : LargeSILTypeMapper) : ScanStep instr pass { pass with Mapper := M } := by
  simp [ScanStep, StructLoweringState.onceWorklists, StructLoweringState.perOperandWorklists,
    AddedOnce.self, AddedTimes.none_added]

theorem visitInstr_step (pass : StructLoweringState) (instr : SILInstruction) :
    ScanStep instr pass (visitInstr pass instr) := by
  obtain ⟨m, hm⟩ := visitInstr_eq pass instr
  rw [hm]
  simp [ScanStep, StructLoweringState.onceWorklists, StructLoweringState.perOperandWorklists,
    AddedOnce.self, AddedTimes.none_added, AddedTimes.exact]

theorem visitStoreInst_step {pass pass2 : StructLoweringState} {instr : SILInstruction}
    (h : visitStoreInst pass instr = .ok pass2) : ScanStep instr pass pass2 := by
  unfold visitStoreInst at h
  split at h
  · split at h <;> cases h <;>
      simp [ScanStep, StructLoweringState.onceWorklists,
        StructLoweringState.perOperandWorklists, AddedOnce.self, AddedOnce.add, AddedTimes.none_added]
  · cases h

theorem visitStructExtractInst_step {pass pass2 : StructLoweringState}
    {instr : SILInstruction}
    (h : visitStructExtractInst pass instr = .ok pass2) : ScanStep instr pass pass2 := by
  unfold visitStructExtractInst at h
  split at h
  · split at h <;> cases h <;>
      simp [ScanStep, StructLoweringState.onceWorklists,
        StructLoweringState.perOperandWorklists, AddedOnce.self, AddedOnce.add, AddedTimes.none_added]
  · cases h

theorem visitRetainInst_step (pass : StructLoweringState) (instr : SILInstruction) :
    ScanStep instr pass (visitRetainInst pass instr) := by
  unfold visitRetainInst
  split <;>
    simp [ScanStep, StructLoweringState.onceWorklists,
      StructLoweringState.perOperandWorklists, AddedOnce.self, AddedOnce.add, AddedTimes.none_added]

theorem visitReleaseInst_step (pass : StructLoweringState) (instr : SILInstruction) :
    ScanStep instr pass (visitReleaseInst pass instr) := by
  unfold visitReleaseInst
  split <;>
    simp [ScanStep, StructLoweringState.onceWorklists,
      StructLoweringState.perOperandWorklists, AddedOnce.self, AddedOnce.add, AddedTimes.none_added]

theorem visitDebugValueInst_fold (id : Nat) :
    ∀ (operands : List SILValue) (pass : StructLoweringState),
      operands.foldl (fun (p : StructLoweringState) operand =>
        if operand ∈ p.largeLoadableArgs then
          { p with debugInstsToMod := p.debugInstsToMod ++ [id] }
        else p) pass =
      { pass with
        debugInstsToMod := pass.debugInstsToMod ++ List.replicate
          (operands.filter (fun operand => decide (operand ∈ pass.largeLoadableArgs))).length
          id }
  | [], pass => by simp
  | operand :: rest, pass => by
    simp only [List.foldl_cons]
    by_cases hm : operand ∈ pass.largeLoadableArgs
    · rw [if_pos hm, visitDebugValueInst_fold id rest]
      simp [hm, List.replicate_succ, List.append_assoc]
    · rw [if_neg hm, visitDebugValueInst_fold id rest]
      simp [hm]

theorem visitDestroyValueInst_fold (id : Nat) :
    ∀ (operands : List SILValue) (pass : StructLoweringState),
      operands.foldl (fun (p : StructLoweringState) operand =>
        if operand ∈ p.largeLoadableArgs then
          { p with destroyValueInstsToMod := p.destroyValueInstsToMod ++ [id] }
        else p) pass =
      { pass with
        destroyValueInstsToMod := pass.destroyValueInstsToMod ++ List.replicate
          (operands.filter (fun operand => decide (operand ∈ pass.largeLoadableArgs))).length
          id }
  | [], pass => by simp
  | operand :: rest, pass => by
    simp only [List.foldl_cons]
    by_cases hm : operand ∈ pass.largeLoadableArgs
    · rw [if_pos hm, visitDestroyValueInst_fold id rest]
      simp [hm, List.replicate_succ, List.append_assoc]
    · rw [if_neg hm, visitDestroyValueInst_fold id rest]
      simp [hm]

theorem visitDebugValueInst_step (pass : StructLoweringState) (instr : SILInstruction) :
    ScanStep instr pass (visitDebugValueInst pass instr) := by
  unfold visitDebugValueInst
  rw [visitDebugValueInst_fold]
  simp [ScanStep, StructLoweringState.onceWorklists, StructLoweringState.perOperandWorklists,
    StructLoweringState.countLargeOperands, AddedOnce.self, AddedTimes.none_added, AddedTimes.exact]

theorem visitDestroyValueInst_step (pass : StructLoweringState) (instr : SILInstruction) :
    ScanStep instr pass (visitDestroyValueInst pass instr) := by
  unfold visitDestroyValueInst
  rw [visitDestroyValueInst_fold]
  simp [ScanStep, StructLoweringState.onceWorklists, StructLoweringState.perOperandWorklists,
    StructLoweringState.countLargeOperands, AddedOnce.self, AddedTimes.none_added, AddedTimes.exact]

/-- A visit that is a change of the mapper, then at most one addition to a
worklist of the first kind, then `visitInstr`. -/
theorem ScanStep.then_visitInstr {instr : SILInstruction}
    {pass pass1 : StructLoweringState}
    (h : ScanStep instr pass pass1)
    (hI : pass1.instsToMod = pass.instsToMod)
    (hD : pass1.debugInstsToMod = pass.debugInstsToMod)
    (hV : pass1.destroyValueInstsToMod = pass.destroyValueInstsToMod) :
    ScanStep instr pass (visitInstr pass1 instr) := by
  obtain ⟨m, hm⟩ := visitInstr_eq pass1 instr
  rw [hm]
  obtain ⟨hF, hL, hR, hO, _⟩ := h
  refine ⟨hF, hL, hR, ?_, ?_⟩
  · simpa [StructLoweringState.onceWorklists] using hO
  · simp [StructLoweringState.perOperandWorklists, StructLoweringState.countLargeOperands,
      hI, hD, hV, hL, AddedTimes.none_added, AddedTimes.exact]

theorem visitResultTyInst_step {pass pass2 : StructLoweringState} {Mod : IRGenModule}
    {fuel : Nat} {instr : SILInstruction}
    (h : visitResultTyInst pass Mod fuel instr = .ok pass2) : ScanStep instr pass pass2 := by
  unfold visitResultTyInst at h
  cases hty : instr.type with
  | none => rw [hty] at h; cases h
  | some type =>
    rw [hty] at h
    simp only at h
    cases h1 : pass.getNewSILType Mod fuel pass.F.getLoweredFunctionType type.getObjectType with
    | error e => rw [h1] at h; cases h
    | ok r =>
      obtain ⟨newSILType, pass1⟩ := r
      rw [h1] at h
      simp only at h
      have e1 := StructLoweringState.getNewSILType_state h1
      have hs : ScanStep instr pass
          (if type.getObjectType ≠ newSILType then
            { pass1 with resultTyInstsToMod := setVectorInsert pass1.resultTyInstsToMod instr.id }
          else pass1) := by
        rw [e1]
        split <;>
          simp [ScanStep, StructLoweringState.onceWorklists,
            StructLoweringState.perOperandWorklists, AddedOnce.self, AddedOnce.add,
            AddedTimes.none_added, AddedOnce.setVectorInsert]
      split at h
      · -- struct_extract
        unfold visitStructExtractInst at h
        split at h
        · rw [e1] at h
          split at h <;> split at h <;> cases h <;>
            simp [ScanStep, StructLoweringState.onceWorklists,
              StructLoweringState.perOperandWorklists, AddedOnce.self, AddedOnce.add,
              AddedTimes.none_added, AddedOnce.setVectorInsert]
        · cases h
      · cases h
        apply ScanStep.then_visitInstr hs
        · rw [e1]; split <;> rfl
        · rw [e1]; split <;> rfl
        · rw [e1]; split <;> rfl

theorem visitTupleInst_step {pass pass2 : StructLoweringState} {Mod : IRGenModule}
    {fuel : Nat} {instr : SILInstruction}
    (h : visitTupleInst pass Mod fuel instr = .ok pass2) : ScanStep instr pass pass2 := by
  unfold visitTupleInst at h
  cases hty : instr.type with
  | none => rw [hty] at h; cases h
  | some type =>
    rw [hty] at h
    simp only at h
    cases hfn : getInnerFunctionType type.getObjectType with
    | none =>
      rw [hfn] at h
      cases h
      exact visitInstr_step pass instr
    | some funcType =>
      rw [hfn] at h
      simp only at h
      split at h
      · cases h
      · rename_i newSILFunctionType Mapper1 h1
        cases h
        apply ScanStep.then_visitInstr
        · split <;>
            simp [ScanStep, StructLoweringState.onceWorklists,
              StructLoweringState.perOperandWorklists, AddedOnce.self, AddedOnce.add,
              AddedTimes.none_added]
        · split <;> rfl
        · split <;> rfl
        · split <;> rfl

theorem visitAllocStackInst_step {pass pass2 : StructLoweringState} {Mod : IRGenModule}
    {fuel : Nat} {instr : SILInstruction}
    (h : visitAllocStackInst pass Mod fuel instr = .ok pass2) : ScanStep instr pass pass2 := by
  unfold visitAllocStackInst at h
  cases hty : instr.type with
  | none => rw [hty] at h; cases h
  | some type =>
    rw [hty] at h
    simp only at h
    split at h
    · cases h
    · rename_i pass1 h1
      have e1 := StructLoweringState.containsDifferentFunctionSignature_state h1
      cases h
      rw [e1]
      simp [ScanStep, StructLoweringState.onceWorklists,
        StructLoweringState.perOperandWorklists, AddedOnce.self, AddedOnce.add,
        AddedTimes.none_added]
    · rename_i pass1 h1
      have e1 := StructLoweringState.containsDifferentFunctionSignature_state h1
      cases h
      rw [e1]
      exact ScanStep.mapper _ _ _

theorem visitPointerToAddressInst_step {pass pass2 : StructLoweringState}
    {instr : SILInstruction}
    (h : visitPointerToAddressInst pass instr = .ok pass2) : ScanStep instr pass pass2 := by
  unfold visitPointerToAddressInst at h
  split at h
  · cases h
  · dsimp only at h
    split at h <;> cases h <;>
      simp [ScanStep, StructLoweringState.onceWorklists,
        StructLoweringState.perOperandWorklists, AddedOnce.self, AddedOnce.add,
        AddedTimes.none_added]

theorem visitReturnInst_step {pass pass2 : StructLoweringState} {Mod : IRGenModule}
    {fuel : Nat} {instr : SILInstruction}
    (h : visitReturnInst pass Mod fuel instr = .ok pass2) : ScanStep instr pass pass2 := by
  unfold visitReturnInst at h
  split at h
  · cases h
  · cases h
    exact ScanStep.then_visitInstr (ScanStep.mapper _ _ _) rfl rfl rfl
  · simp only at h
    split at h
    · cases h
    · cases h
      simp [ScanStep, StructLoweringState.onceWorklists,
        StructLoweringState.perOperandWorklists, AddedOnce.self, AddedOnce.add,
        AddedTimes.none_added]
    · cases h
      exact ScanStep.mapper _ _ _

theorem visitYieldInst_step {pass pass2 : StructLoweringState} {Mod : IRGenModule}
    {fuel : Nat} {instr : SILInstruction}
    (h : visitYieldInst pass Mod fuel instr = .ok pass2) : ScanStep instr pass pass2 := by
  unfold visitYieldInst at h
  split at h
  · cases h
  · cases h
    exact ScanStep.then_visitInstr (ScanStep.mapper _ _ _) rfl rfl rfl
  · cases h
    simp [ScanStep, StructLoweringState.onceWorklists,
      StructLoweringState.perOperandWorklists, AddedOnce.self, AddedOnce.add,
      AddedTimes.none_added]

theorem visitDeallocInst_step {pass pass2 : StructLoweringState} {instr : SILInstruction}
    (h : visitDeallocInst pass instr = .ok pass2) : ScanStep instr pass pass2 := by
  have e : pass2 = pass := by
    unfold visitDeallocInst at h
    repeat' split at h
    all_goals first
      | cases h; rfl
      | cases h
  rw [e]
  exact ScanStep.unchanged _ _

theorem visitMethodInst_step {pass pass2 : StructLoweringState} {Mod : IRGenModule}
    {fuel : Nat} {instr : SILInstruction}
    (h : visitMethodInst pass Mod fuel instr = .ok pass2) : ScanStep instr pass pass2 := by
  unfold visitMethodInst at h
  split at h
  · cases h
    exact visitInstr_step pass instr
  · repeat' first | split at h | (dsimp only at h; split at h)
    all_goals first
      | cases h; done
      | (cases h
         simp [ScanStep, StructLoweringState.onceWorklists,
          StructLoweringState.perOperandWorklists, AddedOnce.self, AddedOnce.add,
          AddedTimes.none_added])

theorem visitSwitchEnumInst_step {pass pass2 : StructLoweringState} {Mod : IRGenModule}
    {fuel : Nat} {instr : SILInstruction}
    (h : visitSwitchEnumInst pass Mod fuel instr = .ok pass2) : ScanStep instr pass pass2 := by
  unfold visitSwitchEnumInst at h
  split at h
  · cases h
  · split at h
    · cases h
      simp [ScanStep, StructLoweringState.onceWorklists,
        StructLoweringState.perOperandWorklists, AddedOnce.self, AddedOnce.add,
        AddedTimes.none_added]
    · have key : ∀ b pass1, anyElem (fun (currBB : Nat) (p : StructLoweringState) =>
          match p.F.findBlock currBB with
          | none => .error .assertion
          | some BB =>
            anyElem (fun (arg : SILArgument) (p1 : StructLoweringState) =>
              match p1.Mapper.shouldConvertBBArg Mod fuel p1.F arg with
              | .error e => .error e
              | .ok (false, Mapper1) => .ok (false, { p1 with Mapper := Mapper1 })
              | .ok (true, Mapper1) =>
                let p2 := { p1 with Mapper := Mapper1 }
                let storageType := arg.type
                match p2.getNewSILType Mod fuel p2.F.getLoweredFunctionType storageType with
                | .error e => .error e
                | .ok (newSILType, p3) => .ok (newSILType.isAddress, p3))
              BB.arguments p)
          instr.getCaseDestinations pass = .ok (b, pass1) →
          pass1 = { pass with Mapper := pass1.Mapper } := by
        intro b pass1 hk
        refine anyElem_state _ ?_ _ _ _ _ hk
        intro currBB p b1 p1 h1
        simp only at h1
        split at h1
        · cases h1
        · refine anyElem_state _ ?_ _ _ _ _ h1
          intro arg q b2 q1 h2
          simp only at h2
          split at h2
          · cases h2
          · cases h2; rfl
          · split at h2
            · cases h2
            · rename_i h3
              have e3 := StructLoweringState.getNewSILType_state h3
              cases h2
              rw [e3]
      split at h
      · cases h
      · rename_i pass1 h1
        have e1 := key _ _ h1
        cases h
        rw [e1]
        simp [ScanStep, StructLoweringState.onceWorklists,
          StructLoweringState.perOperandWorklists, AddedOnce.self, AddedOnce.add,
          AddedTimes.none_added]
      · rename_i pass1 h1
        have e1 := key _ _ h1
        cases h
        rw [e1]
        exact ScanStep.mapper _ _ _

theorem visitApply_step {pass pass2 : StructLoweringState} {Mod : IRGenModule}
    {fuel : Nat} {instr : SILInstruction}
    (h : visitApply pass Mod fuel instr = .ok pass2) : ScanStep instr pass pass2 := by
  unfold visitApply at h
  split at h
  · cases h
  · cases h
  · cases h
    exact visitInstr_step pass instr
  · rename_i substCalleeType hmod hsct
    have key1 : ∀ b pass1, anyElem (fun (operand : Nat × SILValue) (p : StructLoweringState) =>
        let currOperand := operand.2
        match p.F.getType currOperand with
        | none => .error .assertion
        | some silType =>
          match p.getNewSILType Mod fuel substCalleeType silType with
          | .error e => .error e
          | .ok (newSilType, p1) =>
            .ok (decide (silType ≠ newSilType) || decide (currOperand ∈ p1.largeLoadableArgs)
              || decide (currOperand ∈ p1.funcSigArgs), p1))
        instr.getArgumentOperands pass = .ok (b, pass1) →
        pass1 = { pass with Mapper := pass1.Mapper } := by
      intro b pass1 hk
      refine anyElem_state _ ?_ _ _ _ _ hk
      intro operand p b1 p1 h1
      dsimp only at h1
      split at h1
      · cases h1
      · split at h1
        · cases h1
        · rename_i h3
          have e3 := StructLoweringState.getNewSILType_state h3
          cases h1
          exact e3
    have key2 : ∀ b pass1 pass3, anyElem (fun (oldYieldType : SILType)
        (p : StructLoweringState) =>
        match p.getNewSILType Mod fuel substCalleeType oldYieldType with
        | .error e => .error e
        | .ok (newYieldType, p1) => .ok (decide (oldYieldType ≠ newYieldType), p1))
        (getYieldedValueTypes substCalleeType) pass1 = .ok (b, pass3) →
        pass3 = { pass1 with Mapper := pass3.Mapper } := by
      intro b pass1 pass3 hk
      refine anyElem_state _ ?_ _ _ _ _ hk
      intro operand p b1 p1 h1
      try dsimp only at h1
      split at h1
      · cases h1
      · rename_i h3
        have e3 := StructLoweringState.getNewSILType_state h3
        cases h1
        exact e3
    split at h
    · cases h
    · rename_i pass1 h1
      have e1 := key1 _ _ h1
      cases h
      rw [e1]
      simp [ScanStep, StructLoweringState.onceWorklists,
        StructLoweringState.perOperandWorklists, AddedOnce.self, AddedOnce.add,
        AddedTimes.none_added]
    · rename_i pass1 h1
      have e1 := key1 _ _ h1
      split at h
      · split at h
        · cases h
        · rename_i pass3 h3
          have e3 := key2 _ _ _ h3
          cases h
          rw [e3, e1]
          simp [ScanStep, StructLoweringState.onceWorklists,
            StructLoweringState.perOperandWorklists, AddedOnce.self, AddedOnce.add,
            AddedTimes.none_added]
        · rename_i pass3 h3
          have e3 := key2 _ _ _ h3
          cases h
          rw [e3, e1]
          exact ScanStep.mapper _ _ _
      · dsimp only at h
        split at h
        · cases h
        · rename_i newType pass3 h3
          have e3 := StructLoweringState.getNewSILType_state h3
          split at h
          · cases h
          · split at h
            · cases h
              rw [e3, e1]
              simp [ScanStep, StructLoweringState.onceWorklists,
                StructLoweringState.perOperandWorklists, AddedOnce.self, AddedOnce.add,
                AddedTimes.none_added]
            · try dsimp only at h
              split at h
              · cases h
              · split at h <;> cases h <;> rw [e3, e1] <;>
                  simp [ScanStep, StructLoweringState.onceWorklists,
                    StructLoweringState.perOperandWorklists, AddedOnce.self, AddedOnce.add,
                    AddedTimes.none_added]

theorem visitInstruction_step {pass pass2 : StructLoweringState} {Mod : IRGenModule}
    {fuel : Nat} {instr : SILInstruction}
    (h : visitInstruction pass Mod fuel instr = .ok pass2) : ScanStep instr pass pass2 := by
  unfold visitInstruction at h
  split at h
  all_goals first
    | exact visitApply_step h
    | exact visitMethodInst_step h
    | exact visitResultTyInst_step h
    | exact visitStoreInst_step h
    | exact visitSwitchEnumInst_step h
    | exact visitTupleInst_step h
    | exact visitAllocStackInst_step h
    | exact visitPointerToAddressInst_step h
    | exact visitReturnInst_step h
    | exact visitYieldInst_step h
    | exact visitDeallocInst_step h
    | (cases h; exact visitRetainInst_step _ _)
    | (cases h; exact visitReleaseInst_step _ _)
    | (cases h; exact visitDebugValueInst_step _ _)
    | (cases h; exact visitDestroyValueInst_step _ _)
    | (cases h; exact visitInstr_step _ _)

theorem forall₂_comp {α : Type} {R S T : α → α → Prop}
    (hT : ∀ a b c, R a b → S b c → T a c) :
    ∀ {l1 l2 l3 : List α}, List.Forall₂ R l1 l2 → List.Forall₂ S l2 l3 → List.Forall₂ T l1 l3
  | _, _, _, .nil, .nil => .nil
  | _, _, _, .cons h1 t1, .cons h2 t2 => .cons (hT _ _ _ h1 h2) (forall₂_comp hT t1 t2)

theorem forall₂_self {α : Type} {R : α → α → Prop} (hR : ∀ a, R a a) :
    ∀ (l : List α), List.Forall₂ R l l
  | [] => .nil
  | a :: l => .cons (hR a) (forall₂_self hR l)

theorem forEachM_flatMap {α β σ : Type} (f : β → σ → Except Abort σ) (g : α → List β) :
    ∀ (l : List α) (s : σ),
      forEachM (fun a s1 => forEachM f (g a) s1) l s = forEachM f (l.flatMap g) s
  | [], s => by simp [forEachM]
  | a :: l, s => by
    have happ : ∀ (l1 l2 : List β) (s : σ), forEachM f (l1 ++ l2) s =
        match forEachM f l1 s with
        | .error e => .error e
        | .ok s1 => forEachM f l2 s1 := by
      intro l1
      induction l1 with
      | nil => intro l2 s; simp [forEachM]
      | cons b l1 ih =>
        intro l2 s
        simp only [List.cons_append, forEachM]
        cases f b s with
        | error e => rfl
        | ok s1 => exact ih l2 s1
    simp only [forEachM, List.flatMap_cons, happ]
    cases forEachM f (g a) s with
    | error e => rfl
    | ok s1 => exact forEachM_flatMap f g l s1

theorem countLargeOperands_congr {pass pass1 : StructLoweringState}
    (h : pass1.largeLoadableArgs = pass.largeLoadableArgs) (instr : SILInstruction) :
    pass1.countLargeOperands instr = pass.countLargeOperands instr := by
  simp [StructLoweringState.countLargeOperands, h]

theorem AddedNodup.step {id : Nat} {ids : List Nat} {w1 w2 w3 : List Nat}
    (hid : id ∉ ids) (h1 : AddedOnce id w1 w2) (h2 : AddedNodup ids w2 w3) :
    AddedNodup (id :: ids) w1 w3 := by
  obtain ⟨added, e, hn, hs⟩ := h2
  rcases h1 with h1 | h1
  · exact ⟨added, by rw [e, h1], hn, fun a ha => List.mem_cons_of_mem _ (hs a ha)⟩
  · refine ⟨id :: added, by rw [e, h1]; simp, ?_, ?_⟩
    · exact List.nodup_cons.2 ⟨fun hm => hid (hs _ hm), hn⟩
    · intro a ha
      rcases List.mem_cons.1 ha with ha | ha
      · rw [ha]; exact List.mem_cons_self _ _
      · exact List.mem_cons_of_mem _ (hs a ha)

theorem AddedPerOperand.scan_step {pass pass1 : StructLoweringState} {instr : SILInstruction}
    {instrs : List SILInstruction} {w1 w2 w3 : List Nat}
    (hL : pass1.largeLoadableArgs = pass.largeLoadableArgs)
    (hid : instr.id ∉ instrs.map (fun i => i.id))
    (h1 : AddedTimes instr.id (pass.countLargeOperands instr) w1 w2)
    (h2 : AddedPerOperand pass1 instrs w2 w3) :
    AddedPerOperand pass (instr :: instrs) w1 w3 := by
  obtain ⟨added, e, hs, hc⟩ := h2
  obtain ⟨k, hk, e1⟩ := h1
  refine ⟨List.replicate k instr.id ++ added, by rw [e, e1]; simp, ?_, ?_⟩
  · intro a ha
    rcases List.mem_append.1 ha with ha | ha
    · rw [(List.mem_replicate.1 ha).2]
      simp
    · exact List.mem_cons_of_mem _ (hs a ha)
  · intro i hi
    rw [List.count_append]
    rcases List.mem_cons.1 hi with hi | hi
    · rw [hi]
      have h0 : added.count instr.id = 0 := by
        apply List.count_eq_zero_of_not_mem
        intro hm
        exact hid (hs _ hm)
      rw [h0, List.count_replicate_self]
      exact hk
    · have hne : instr.id ≠ i.id := by
        intro he
        apply hid
        rw [he]
        exact List.mem_map_of_mem _ hi
      have h0 : (List.replicate k instr.id).count i.id = 0 := by
        apply List.count_eq_zero_of_not_mem
        intro hm
        exact hne (List.mem_replicate.1 hm).2.symm
      rw [h0, Nat.zero_add, ← countLargeOperands_congr hL]
      exact hc i hi

/-- The scan of a list of instructions with distinct identities. -/
theorem forEachM_visitInstruction (Mod : IRGenModule) (fuel : Nat) :
    ∀ (instrs : List SILInstruction) (pass pass2 : StructLoweringState),
      (instrs.map (fun i => i.id)).Nodup →
      forEachM (fun (currIns : SILInstruction) p1 => visitInstruction p1 Mod fuel currIns)
        instrs pass = .ok pass2 →
      pass2.F = pass.F ∧ pass2.largeLoadableArgs = pass.largeLoadableArgs ∧
      pass2.returnInsts = pass.returnInsts ∧
      List.Forall₂ (AddedNodup (instrs.map (fun i => i.id)))
        pass.onceWorklists pass2.onceWorklists ∧
      List.Forall₂ (AddedPerOperand pass instrs)
        pass.perOperandWorklists pass2.perOperandWorklists
  | [], pass, pass2, _, h => by
    simp only [forEachM, Except.ok.injEq] at h
    subst h
    refine ⟨rfl, rfl, rfl, forall₂_self ?_ _, forall₂_self ?_ _⟩
    · intro w
      exact ⟨[], by simp, List.nodup_nil, by simp⟩
    · intro w
      exact ⟨[], by simp, by simp, by simp⟩
  | instr :: instrs, pass, pass2, hN, h => by
    simp only [forEachM] at h
    split at h
    · cases h
    · rename_i pass1 h1
      obtain ⟨hF1, hL1, hR1, hO1, hP1⟩ := visitInstruction_step h1
      rw [List.map_cons, List.nodup_cons] at hN
      obtain ⟨hF2, hL2, hR2, hO2, hP2⟩ :=
        forEachM_visitInstruction Mod fuel instrs pass1 pass2 hN.2 h
      refine ⟨hF2.trans hF1, hL2.trans hL1, hR2.trans hR1, ?_, ?_⟩
      · exact forall₂_comp (R := AddedOnce instr.id)
          (S := AddedNodup (instrs.map (fun i => i.id)))
          (fun a b c hab hbc => AddedNodup.step hN.1 hab hbc) hO1 hO2
      · exact forall₂_comp (R := AddedTimes instr.id (pass.countLargeOperands instr))
          (S := AddedPerOperand pass1 instrs)
          (fun a b c hab hbc => AddedPerOperand.scan_step hL1 hN.1 hab hbc) hP1 hP2

end scan

end LoadableByAddress

namespace LoadableByAddress

/-! ## The scan and its worklists -/

/-- C20, refuted as stated: in the function `f(x: BigStruct, y: BigStruct)`
whose instruction number 2 has both arguments as operands, both arguments are
converted large values when the scan starts, the worklist `instsToMod` is
empty, and after the scan it holds the instruction number 2 twice. -/
theorem mapValueStorage_inserts_instruction_twice :
    usesTwoLargeArgumentsBeforeScan = .ok usesTwoLargeArgumentsScanState ∧
    usesTwoLargeArgumentsScanState.instsToMod = [] ∧
    usesTwoLargeArgumentsScanState.F.scannedInstructions.map (fun i => (i.id, i.operands)) =
      [(2, [.argument 5, .argument 6]), (3, []), (4, [.instruction 3])] ∧
    usesTwoLargeArgumentsScanState.largeLoadableArgs = [.argument 5, .argument 6] ∧
    (LargeValueVisitor.mapValueStorage usesTwoLargeArgumentsScanState toyModule 1000).map
      (fun pass2 => pass2.instsToMod) = .ok [2, 2] := by
  decide

/-- C20, amended: the scan of a function whose scanned instructions have
distinct identities adds no instruction twice to any of the worklists
`applies`, `methodInstsToMod`, `storeInstsToMod`, `switchEnumInstsToMod`,
`structExtractInstsToMod`, `tupleInstsToMod`, `allocStackInstsToMod`,
`pointerToAddrkInstsToMod`, `retainInstsToMod`, `releaseInstsToMod`,
`resultTyInstsToMod`, `modReturnInsts` and `modYieldInsts`; to each of
`instsToMod`, `debugInstsToMod` and `destroyValueInstsToMod` it adds a scanned
instruction at most as often as the instruction has operands that are
converted large values. -/
theorem mapValueStorage_worklists (Mod : IRGenModule) (fuel : Nat)
    (pass pass2 : StructLoweringState)
    (hN : (pass.F.scannedInstructions.map (fun i => i.id)).Nodup)
    (h : LargeValueVisitor.mapValueStorage pass Mod fuel = .ok pass2) :
    List.Forall₂ (fun w1 w2 => ∃ added, w2 = w1 ++ added ∧ added.Nodup)
      pass.onceWorklists pass2.onceWorklists ∧
    List.Forall₂ (fun w1 w2 => ∃ added, w2 = w1 ++ added ∧
        ∀ instr ∈ pass.F.scannedInstructions,
          added.count instr.id ≤ pass.countLargeOperands instr)
      pass.perOperandWorklists pass2.perOperandWorklists := by
  unfold LargeValueVisitor.mapValueStorage at h
  rw [forEachM_flatMap] at h
  obtain ⟨_, _, _, hO, hP⟩ := forEachM_visitInstruction Mod fuel _ _ _ hN h
  constructor
  · refine List.Forall₂.imp ?_ hO
    rintro w1 w2 ⟨added, e, hn, _⟩
    exact ⟨added, e, hn⟩
  · refine List.Forall₂.imp ?_ hP
    rintro w1 w2 ⟨added, e, _, hc⟩
    exact ⟨added, e, hc⟩

/-- C20 amended, at the function `f(x: BigStruct, y: BigStruct)` on the toy
target: the scanned instructions have the distinct identities 2, 3 and 4, the
scan returns, and its worklists are as the amended statement says. -/
theorem mapValueStorage_worklists_witness :
    (usesTwoLargeArgumentsScanState.F.scannedInstructions.map (fun i => i.id)).Nodup ∧
    LargeValueVisitor.mapValueStorage usesTwoLargeArgumentsScanState toyModule 1000 =
      .ok usesTwoLargeArgumentsScanned ∧
    List.Forall₂ (fun w1 w2 => ∃ added, w2 = w1 ++ added ∧ added.Nodup)
      usesTwoLargeArgumentsScanState.onceWorklists
      usesTwoLargeArgumentsScanned.onceWorklists ∧
    List.Forall₂ (fun w1 w2 => ∃ added, w2 = w1 ++ added ∧
        ∀ instr ∈ usesTwoLargeArgumentsScanState.F.scannedInstructions,
          added.count instr.id ≤ usesTwoLargeArgumentsScanState.countLargeOperands instr)
      usesTwoLargeArgumentsScanState.perOperandWorklists
      usesTwoLargeArgumentsScanned.perOperandWorklists :=
  ⟨by decide, by decide,
    mapValueStorage_worklists toyModule 1000 usesTwoLargeArgumentsScanState
      usesTwoLargeArgumentsScanned (by decide) (by decide)⟩

/-! ## Foreign functions -/

/-- C19, refuted as stated: the foreign (C) function `f(x: BigStruct)` has a
parameter that classifies as large on the toy target, and the storage
allocator emits no cast: `convertIndirectFunctionPointerArgsForUnmodifiable`,
the whole of `allocateLoadableStorage` and the whole of `runOnFunction` leave
the function as it is. -/
theorem foreign_large_parameter_gets_no_cast :
    modifiableFunction foreignTakesBig.loweredType = false ∧
    isLargeLoadableType none ⟨BigStruct, .Object⟩ toyModule = .ok true ∧
    (LoadableStorageAllocation.convertIndirectFunctionPointerArgsForUnmodifiable
      (StructLoweringState.new foreignTakesBig LargeSILTypeMapper.new) toyModule 1000).map
      (fun pass => pass.F) = .ok foreignTakesBig ∧
    (LoadableStorageAllocation.allocateLoadableStorage
      (StructLoweringState.new foreignTakesBig LargeSILTypeMapper.new) toyModule 1000).map
      (fun pass => pass.F) = .ok foreignTakesBig ∧
    (ModuleTransform.new.runOnFunction toyModule 1000 foreignTakesBig).map
      (fun r => r.1) = .ok foreignTakesBig :=
  by decide

/-- C19, amended: in a function with well-formed identities, started on a
cache that holds only transforms and with fuel above the size of the types of
the entry arguments, `convertIndirectFunctionPointerArgsForUnmodifiable` emits
a reinterpretation cast, to the transformed type, of exactly the entry
arguments whose type contains a function signature that the transform changes
(`castedArguments`): the casts go to the start of the entry block, in the order
of the arguments, each with its argument as operand, and every other use of
such an argument is redirected to its cast; nothing else changes.  An argument
of a struct or enum type, large or not, is none of them. -/
theorem convertIndirectFunctionPointerArgsForUnmodifiable_casts (Mod : IRGenModule)
    (fuel : Nat) (pass pass2 : StructLoweringState) (entry : SILBasicBlock)
    (rest : List SILBasicBlock)
    (hB : pass.F.blocks = entry :: rest)
    (hW : pass.F.WellFormed)
    (hV : Valid Mod pass.Mapper)
    (hf : ∀ a ∈ entry.arguments, 10 * sizeOf a.type.ast + 6 < fuel)
    (hN : (entry.arguments.map (fun a => a.id)).Nodup)
    (h : LoadableStorageAllocation.convertIndirectFunctionPointerArgsForUnmodifiable
      pass Mod fuel = .ok pass2) :
    pass2.F = { pass.F with
      blocks :=
        { entry with
          instructions :=
            castInstructions pass.F.nextId
              (castedArguments Mod (getSubstGenericEnvironment pass.F.loweredType)
                entry.arguments) ++
            entry.instructions.map (SILInstruction.redirect
              (castRedirections pass.F.nextId
                (castedArguments Mod (getSubstGenericEnvironment pass.F.loweredType)
                  entry.arguments))) } ::
          rest.map (SILBasicBlock.redirect
            (castRedirections pass.F.nextId
              (castedArguments Mod (getSubstGenericEnvironment pass.F.loweredType)
                entry.arguments))),
      nextId := pass.F.nextId +
        (castedArguments Mod (getSubstGenericEnvironment pass.F.loweredType)
          entry.arguments).length } ∧
    ∀ a ∈ entry.arguments, ∀ (t : SILType) (k : NominalKind) (d : Nat),
      a.type.ast = .nominal k d →
      (a, t) ∉ castedArguments Mod (getSubstGenericEnvironment pass.F.loweredType)
        entry.arguments := by
  refine ⟨?_, fun a _ t k d ha => castedArguments_not_nominal Mod _ _ a t k d ha⟩
  obtain ⟨hWn, hWlt, hWb⟩ := hW
  obtain ⟨eid, eargs, body⟩ := entry
  unfold LoadableStorageAllocation.convertIndirectFunctionPointerArgsForUnmodifiable at h
  simp only [SILFunction.getEntryBlock, hB, List.head?] at h
  have hall : pass.F.allInstructions = body ++ rest.flatMap (fun BB => BB.instructions) := by
    simp [SILFunction.allInstructions, hB]
  rw [hall] at hWn hWlt
  have hrid : ∀ BB ∈ rest, BB.id ≠ eid := by
    intro BB hBB he
    rw [hB] at hWb
    simp only [List.map_cons, List.nodup_cons] at hWb
    apply hWb.1
    rw [← he]
    exact List.mem_map_of_mem _ hBB
  have hloop := convertUnmodifiable_loop Mod fuel
    (SILBasicBlock.beginPoint ⟨eid, eargs, body⟩) eid eargs eargs pass pass2 [] body rest
    (by rw [hB]; rfl)
    (by
      cases body with
      | nil => exact Or.inl ⟨rfl, rfl⟩
      | cons first tail =>
        right
        refine ⟨first, tail, rfl, rfl, hWlt first (by simp), by simp, ?_⟩
        intro BB hBB y hy he
        rw [List.map_append, List.nodup_append] at hWn
        apply hWn.2.2 (List.mem_map_of_mem (fun i => i.id) (List.mem_cons_self first tail))
        rw [← he]
        apply List.mem_map_of_mem
        exact List.mem_flatMap.2 ⟨BB, hBB, hy⟩)
    hrid (by simp)
    (fun y hy => hWlt y (List.mem_append_left _ hy))
    (fun BB hBB y hy => hWlt y (List.mem_append_right _ (List.mem_flatMap.2 ⟨BB, hBB, hy⟩)))
    hV hf hN h
  rw [hloop]
  simp

/-- The run of `convertIndirectFunctionPointerArgsForUnmodifiable` over
`foreignTakesClosure` on the toy target. -/
theorem foreignTakesClosure_converted :
    LoadableStorageAllocation.convertIndirectFunctionPointerArgsForUnmodifiable
      (StructLoweringState.new foreignTakesClosure LargeSILTypeMapper.new) toyModule 1000 =
      .ok foreignTakesClosureConverted := rfl

/-- C19 amended, at the foreign function `f(x: BigStruct, g: (BigStruct) ->
())` on the toy target: the closure argument `g` gets the cast number 5
and its use in the instruction number 2 is redirected to the cast; the large
argument `x` keeps its use. -/
theorem convertIndirectFunctionPointerArgsForUnmodifiable_casts_witness :
    foreignTakesClosure.WellFormed ∧
    Valid toyModule LargeSILTypeMapper.new ∧
    LoadableStorageAllocation.convertIndirectFunctionPointerArgsForUnmodifiable
      (StructLoweringState.new foreignTakesClosure LargeSILTypeMapper.new) toyModule 1000 =
      .ok foreignTakesClosureConverted ∧
    foreignTakesClosureConverted.F.blocks.map
        (fun BB => BB.instructions.map (fun i => (i.id, i.kind, i.operands))) =
      [[(5, .UncheckedReinterpretCastInst, [.argument 1]),
        (2, .Other 0, [.argument 0, .instruction 5]),
        (3, .TupleInst, []),
        (4, .ReturnInst, [.instruction 3])]] ∧
    (foreignTakesClosureConverted.F =
      { (StructLoweringState.new foreignTakesClosure LargeSILTypeMapper.new).F with
        blocks :=
          { foreignTakesClosureEntry with
            instructions :=
              castInstructions
                (StructLoweringState.new foreignTakesClosure LargeSILTypeMapper.new).F.nextId
                (castedArguments toyModule (getSubstGenericEnvironment
                  (StructLoweringState.new foreignTakesClosure
                    LargeSILTypeMapper.new).F.loweredType)
                  foreignTakesClosureEntry.arguments) ++
              foreignTakesClosureEntry.instructions.map (SILInstruction.redirect
                (castRedirections
                  (StructLoweringState.new foreignTakesClosure LargeSILTypeMapper.new).F.nextId
                  (castedArguments toyModule (getSubstGenericEnvironment
                    (StructLoweringState.new foreignTakesClosure
                      LargeSILTypeMapper.new).F.loweredType)
                    foreignTakesClosureEntry.arguments))) } ::
            [].map (SILBasicBlock.redirect
              (castRedirections
                (StructLoweringState.new foreignTakesClosure LargeSILTypeMapper.new).F.nextId
                (castedArguments toyModule (getSubstGenericEnvironment
                  (StructLoweringState.new foreignTakesClosure
                    LargeSILTypeMapper.new).F.loweredType)
                  foreignTakesClosureEntry.arguments))),
        nextId :=
          (StructLoweringState.new foreignTakesClosure LargeSILTypeMapper.new).F.nextId +
          (castedArguments toyModule (getSubstGenericEnvironment
            (StructLoweringState.new foreignTakesClosure
              LargeSILTypeMapper.new).F.loweredType)
            foreignTakesClosureEntry.arguments).length } ∧
      ∀ a ∈ foreignTakesClosureEntry.arguments,
        ∀ (t : SILType) (k : NominalKind) (d : Nat), a.type.ast = .nominal k d →
          (a, t) ∉ castedArguments toyModule (getSubstGenericEnvironment
            (StructLoweringState.new foreignTakesClosure
              LargeSILTypeMapper.new).F.loweredType)
            foreignTakesClosureEntry.arguments) :=
  ⟨⟨by decide, by decide, by decide⟩, Valid.new toyModule, foreignTakesClosure_converted,
    by decide,
    convertIndirectFunctionPointerArgsForUnmodifiable_casts toyModule 1000
      (StructLoweringState.new foreignTakesClosure LargeSILTypeMapper.new)
      foreignTakesClosureConverted foreignTakesClosureEntry []
      rfl ⟨by decide, by decide, by decide⟩ (Valid.new toyModule) (by decide) (by decide)
      foreignTakesClosure_converted⟩

end LoadableByAddress

namespace LoadableByAddress

/-! ## The opcodes of the layout bytecode -/

/-- C24: every opcode of `RefCountingKind` fits a byte; the high bit is set in
`Skip` (0x80) and in no other opcode; every opcode but `Skip` has a value in
0x00..0x0f; and two opcodes with the same value are the same opcode, so that
the seventeen values are pairwise distinct. -/
theorem RefCountingKind_high_bit_only_skip :
    (∀ kind : RefCountingKind, kind.rawValue < 256 ∧
      (kind.highBit = true ↔ kind = RefCountingKind.Skip) ∧
      (kind = RefCountingKind.Skip ∨ kind.rawValue ≤ 0x0f)) ∧
    RefCountingKind.Skip.rawValue = 0x80 ∧
    (∀ kind : RefCountingKind, kind ∈ RefCountingKind.all) ∧
    (RefCountingKind.all.map RefCountingKind.rawValue).Nodup ∧
    ∀ a b : RefCountingKind, (a.rawValue = b.rawValue ↔ a = b) := by
  refine ⟨?_, rfl, ?_, by decide, ?_⟩
  · intro kind
    cases kind <;> decide
  · intro kind
    cases kind <;> decide
  · intro a b
    cases a <;> cases b <;> decide

/-! ## The shape of a transformed signature -/

theorem ParameterInfos.params_toList_ofList : ∀ ps : List SILParameterInfo,
    (ParameterInfos.ofList ps).toList = ps
  | [] => rfl
  | p :: rest => by
    simp [ParameterInfos.ofList, ParameterInfos.toList,
      ParameterInfos.params_toList_ofList rest]

theorem YieldInfos.yields_toList_ofList : ∀ ys : List SILYieldInfo,
    (YieldInfos.ofList ys).toList = ys
  | [] => rfl
  | y :: rest => by
    simp [YieldInfos.ofList, YieldInfos.toList, YieldInfos.yields_toList_ofList rest]

theorem OptionalResultInfo.toOption_ofOption : ∀ e : Option SILResultInfo,
    (OptionalResultInfo.ofOption e).toOption = e
  | Option.none => rfl
  | Option.some _ => rfl

theorem pure_newParameterElems_forall2 (Mod : IRGenModule) (env : Option GenericEnvironment) :
    ∀ (ps : ParameterInfos) (l : List SILParameterInfo),
      Pure.newParameterElems Mod env ps = some l →
      List.Forall₂ (fun p p2 => Pure.getNewParameter Mod env p = some p2) ps.toList l
  | .nil, l, h => by
    rw [Pure.newParameterElems] at h
    cases h
    exact List.Forall₂.nil
  | .cons t c d rest, l, h => by
    rw [Pure.newParameterElems] at h
    cases h1 : Pure.getNewParameter Mod env ⟨t, c, d⟩ with
    | none => rw [h1] at h; cases h
    | some p2 =>
      rw [h1] at h
      cases h2 : Pure.newParameterElems Mod env rest with
      | none => rw [h2] at h; cases h
      | some l2 =>
        rw [h2] at h
        cases h
        exact List.Forall₂.cons h1 (pure_newParameterElems_forall2 Mod env rest l2 h2)

theorem pure_newYieldElems_forall2 (Mod : IRGenModule) (env : Option GenericEnvironment) :
    ∀ (ys : YieldInfos) (l : List SILYieldInfo),
      Pure.newYieldElems Mod env ys = some l →
      List.Forall₂ (NewYield Mod env) ys.toList l
  | .nil, l, h => by
    rw [Pure.newYieldElems] at h
    cases h
    exact List.Forall₂.nil
  | .cons t c rest, l, h => by
    rw [Pure.newYieldElems] at h
    cases h1 : Pure.getNewParameter Mod env (SILYieldInfo.toParameterInfo ⟨t, c⟩) with
    | none => rw [h1] at h; cases h
    | some p2 =>
      rw [h1] at h
      cases h2 : Pure.newYieldElems Mod env rest with
      | none => rw [h2] at h; cases h
      | some l2 =>
        rw [h2] at h
        cases h
        exact List.Forall₂.cons ⟨p2, h1, rfl⟩ (pure_newYieldElems_forall2 Mod env rest l2 h2)

theorem pure_newResultElems_forall2 (Mod : IRGenModule) (env : Option GenericEnvironment)
    (modNonFunc : Except Abort Bool) :
    ∀ (rs : ResultInfos) (l : List SILResultInfo),
      Pure.newResultElems Mod env modNonFunc rs = some l →
      List.Forall₂ (NewResult Mod env modNonFunc) rs.toList l
  | .nil, l, h => by
    rw [Pure.newResultElems] at h
    cases h
    exact List.Forall₂.nil
  | .cons t c rest, l, h => by
    rw [Pure.newResultElems] at h
    cases h1 : Pure.getNewSILType Mod env (SILResultInfo.getSILStorageInterfaceType ⟨t, c⟩) with
    | none => rw [h1] at h; cases h
    | some newType =>
      rw [h1] at h
      cases hm : modNonFunc with
      | error e => rw [hm] at h; cases h
      | ok b =>
        rw [hm] at h
        cases b with
        | true =>
          simp only at h
          cases h2 : Pure.newResultElems Mod env (.ok true) rest with
          | none => rw [h2] at h; cases h
          | some l2 =>
            rw [h2] at h
            cases h
            exact List.Forall₂.cons ⟨newType, h1, Or.inl ⟨rfl, rfl⟩⟩
              (pure_newResultElems_forall2 Mod env (.ok true) rest l2 h2)
        | false =>
          simp only at h
          cases h3 : Pure.containsDifferentFunctionSignature Mod env
              (SILResultInfo.getSILStorageInterfaceType ⟨t, c⟩) newType with
          | none => rw [h3] at h; cases h
          | some b3 =>
            rw [h3] at h
            cases h2 : Pure.newResultElems Mod env (.ok false) rest with
            | none => rw [h2] at h; cases b3 <;> cases h
            | some l2 =>
              rw [h2] at h
              cases b3 with
              | true =>
                cases h
                exact List.Forall₂.cons ⟨newType, h1, Or.inr (Or.inl ⟨rfl, h3, rfl⟩)⟩
                  (pure_newResultElems_forall2 Mod env (.ok false) rest l2 h2)
              | false =>
                cases h
                exact List.Forall₂.cons ⟨newType, h1, Or.inr (Or.inr ⟨rfl, h3, rfl⟩)⟩
                  (pure_newResultElems_forall2 Mod env (.ok false) rest l2 h2)

/-- The transform of a signature is the signature itself, when it is not
modifiable, or the signature with each parameter, yield and result replaced by
its transform. -/
theorem pure_getNewSILFunctionType_shape (Mod : IRGenModule)
    (env : Option GenericEnvironment) (fnType newFn : SILFunctionType)
    (h : Pure.getNewSILFunctionType Mod env fnType = some newFn) :
    (modifiableFunction fnType = false ∧ newFn = fnType) ∨
    (modifiableFunction fnType = true ∧
      ∃ ps ys rs,
        List.Forall₂ (fun p p2 => Pure.getNewParameter Mod (signatureEnvironment env fnType) p
          = some p2) fnType.getParameters ps ∧
        List.Forall₂ (NewYield Mod (signatureEnvironment env fnType)) fnType.getYields ys ∧
        List.Forall₂ (NewResult Mod (signatureEnvironment env fnType)
          (modNonFuncTypeResultType (signatureEnvironment env fnType) fnType Mod))
          fnType.getResults rs ∧
        newFn = SILFunctionType.get fnType.getInvocationGenericSignature fnType.getExtInfo
          fnType.getCoroutineKind fnType.getCalleeConvention ps ys rs
          fnType.getOptionalErrorResult fnType.getPatternSubstitutions
          fnType.getInvocationSubstitutions fnType.getWitnessMethodConformanceOrInvalid) := by
  rw [Pure.getNewSILFunctionType] at h
  by_cases hM : modifiableFunction fnType = true
  · right
    refine ⟨hM, ?_⟩
    simp only [hM, Bool.not_true, Bool.false_eq_true, if_false] at h
    change (match Pure.newParameterElems Mod (signatureEnvironment env fnType)
      fnType.parameterInfos with
      | none => none
      | some newParams =>
        match Pure.newYieldElems Mod (signatureEnvironment env fnType) fnType.yieldInfos with
        | none => none
        | some newYields =>
          match Pure.getNewResults Mod (signatureEnvironment env fnType) fnType with
          | none => none
          | some newResults => some (SILFunctionType.get
              fnType.getInvocationGenericSignature fnType.getExtInfo fnType.getCoroutineKind
              fnType.getCalleeConvention newParams newYields newResults
              fnType.getOptionalErrorResult fnType.getPatternSubstitutions
              fnType.getInvocationSubstitutions fnType.getWitnessMethodConformanceOrInvalid))
      = some newFn at h
    cases h1 : Pure.newParameterElems Mod (signatureEnvironment env fnType)
        fnType.parameterInfos with
    | none => rw [h1] at h; cases h
    | some ps =>
      rw [h1] at h
      cases h2 : Pure.newYieldElems Mod (signatureEnvironment env fnType)
          fnType.yieldInfos with
      | none => rw [h2] at h; cases h
      | some ys =>
        rw [h2] at h
        cases h3 : Pure.getNewResults Mod (signatureEnvironment env fnType) fnType with
        | none => rw [h3] at h; cases h
        | some rs =>
          rw [h3] at h
          simp only [Option.some.injEq] at h
          rw [Pure.getNewResults] at h3
          exact ⟨ps, ys, rs, pure_newParameterElems_forall2 Mod _ _ _ h1,
            pure_newYieldElems_forall2 Mod _ _ _ h2,
            pure_newResultElems_forall2 Mod _ _ _ _ h3, h.symm⟩
  · left
    have hM2 : modifiableFunction fnType = false := by simpa using hM
    simp only [hM2, Bool.not_false, if_true, Option.some.injEq] at h
    exact ⟨hM2, h.symm⟩

theorem SILFunctionType.getParameters_get (s : Option GenericSignature) (e : ExtInfo)
    (k : SILCoroutineKind) (c : ParameterConvention) (ps : List SILParameterInfo)
    (ys : List SILYieldInfo) (rs : List SILResultInfo) (er : Option SILResultInfo)
    (p i : Option SubstitutionMap) (w : Option Nat) :
    (SILFunctionType.get s e k c ps ys rs er p i w).getParameters = ps :=
  ParameterInfos.params_toList_ofList ps

theorem SILFunctionType.getYields_get (s : Option GenericSignature) (e : ExtInfo)
    (k : SILCoroutineKind) (c : ParameterConvention) (ps : List SILParameterInfo)
    (ys : List SILYieldInfo) (rs : List SILResultInfo) (er : Option SILResultInfo)
    (p i : Option SubstitutionMap) (w : Option Nat) :
    (SILFunctionType.get s e k c ps ys rs er p i w).getYields = ys :=
  YieldInfos.yields_toList_ofList ys

theorem SILFunctionType.getOptionalErrorResult_get (s : Option GenericSignature)
    (e : ExtInfo) (k : SILCoroutineKind) (c : ParameterConvention)
    (ps : List SILParameterInfo) (ys : List SILYieldInfo) (rs : List SILResultInfo)
    (er : Option SILResultInfo) (p i : Option SubstitutionMap) (w : Option Nat) :
    (SILFunctionType.get s e k c ps ys rs er p i w).getOptionalErrorResult = er :=
  OptionalResultInfo.toOption_ofOption er

theorem forall₂_self_eq {α : Type} {R : α → α → Prop} (h : ∀ a, R a a) :
    ∀ l : List α, List.Forall₂ R l l
  | [] => List.Forall₂.nil
  | a :: rest => List.Forall₂.cons (h a) (forall₂_self_eq h rest)

/-- C30: started on a cache that holds only transforms and with fuel above the
size of the signature, `getNewSILFunctionType` either stops at a failed
assertion or returns a signature with as many parameters, yields and results
as the original, in which the parameter, yield and result at each position is
the original one or its transform (`getNewParameter` of the parameter, of the
yield read as a parameter, and the result as `getNewResults` rewrites it), and
whose error result, coroutine kind, callee convention, extended info, language
tag, generic signature, pattern and invocation substitutions and witness-method
conformance are those of the original. -/
theorem getNewSILFunctionType_preserves_shape (Mod : IRGenModule) (fuel : Nat)
    (env : Option GenericEnvironment) (fnType : SILFunctionType)
    (Mapper : LargeSILTypeMapper)
    (hV : Valid Mod Mapper) (hfuel : 10 * sizeOf fnType + 8 < fuel) :
    LargeSILTypeMapper.getNewSILFunctionType Mod fuel env fnType Mapper = .error .assertion ∨
      ∃ newFnType Mapper2,
        LargeSILTypeMapper.getNewSILFunctionType Mod fuel env fnType Mapper =
          .ok (newFnType, Mapper2) ∧
        newFnType.getParameters.length = fnType.getParameters.length ∧
        newFnType.getYields.length = fnType.getYields.length ∧
        newFnType.getResults.length = fnType.getResults.length ∧
        List.Forall₂ (fun p p2 => p2 = p ∨
            Pure.getNewParameter Mod (signatureEnvironment env fnType) p = some p2)
          fnType.getParameters newFnType.getParameters ∧
        List.Forall₂ (fun y y2 => y2 = y ∨ NewYield Mod (signatureEnvironment env fnType) y y2)
          fnType.getYields newFnType.getYields ∧
        List.Forall₂ (fun r r2 => r2 = r ∨
            NewResult Mod (signatureEnvironment env fnType)
              (modNonFuncTypeResultType (signatureEnvironment env fnType) fnType Mod) r r2)
          fnType.getResults newFnType.getResults ∧
        newFnType.getOptionalErrorResult = fnType.getOptionalErrorResult ∧
        newFnType.getCoroutineKind = fnType.getCoroutineKind ∧
        newFnType.getCalleeConvention = fnType.getCalleeConvention ∧
        newFnType.getExtInfo = fnType.getExtInfo ∧
        newFnType.getLanguage = fnType.getLanguage ∧
        newFnType.getInvocationGenericSignature = fnType.getInvocationGenericSignature ∧
        newFnType.getPatternSubstitutions = fnType.getPatternSubstitutions ∧
        newFnType.getInvocationSubstitutions = fnType.getInvocationSubstitutions ∧
        newFnType.getWitnessMethodConformanceOrInvalid =
          fnType.getWitnessMethodConformanceOrInvalid := by
  rcases ((refinesAt Mod fuel).fnType env fnType Mapper hV hfuel).error_or_ok with
    he | ⟨newFn, M2, hp, hr, _⟩
  · exact Or.inl he
  · right
    refine ⟨newFn, M2, hr, ?_⟩
    rcases pure_getNewSILFunctionType_shape Mod env fnType newFn hp with
      ⟨_, hEq⟩ | ⟨_, ps, ys, rs, hps, hys, hrs, hEq⟩
    · subst hEq
      refine ⟨rfl, rfl, rfl, ?_, ?_, ?_, rfl, rfl, rfl, rfl, rfl, rfl, rfl, rfl, rfl⟩
      · apply forall₂_self_eq
        intro a
        exact Or.inl rfl
      · apply forall₂_self_eq
        intro a
        exact Or.inl rfl
      · apply forall₂_self_eq
        intro a
        exact Or.inl rfl
    · subst hEq
      rw [SILFunctionType.getParameters_get, SILFunctionType.getYields_get,
        SILFunctionType.getResults_get, SILFunctionType.getOptionalErrorResult_get]
      exact ⟨hps.length_eq.symm, hys.length_eq.symm, hrs.length_eq.symm,
        hps.imp (fun _ _ h => Or.inr h), hys.imp (fun _ _ h => Or.inr h),
        hrs.imp (fun _ _ h => Or.inr h), rfl, rfl, rfl, rfl, rfl, rfl, rfl, rfl, rfl⟩

/-- C30, on the toy target from the empty cache, at the coroutine signature
`yieldsBig`: the transform is `yieldsBigTransformed`, with two parameters, one
yield and one result as before. -/
theorem getNewSILFunctionType_preserves_shape_witness :
    (∃ Mapper2, LargeSILTypeMapper.getNewSILFunctionType toyModule 1000 none yieldsBig
        LargeSILTypeMapper.new = .ok (yieldsBigTransformed, Mapper2)) ∧
    (LargeSILTypeMapper.getNewSILFunctionType toyModule 1000 none yieldsBig
        LargeSILTypeMapper.new = .error .assertion ∨
      ∃ newFnType Mapper2,
        LargeSILTypeMapper.getNewSILFunctionType toyModule 1000 none yieldsBig
          LargeSILTypeMapper.new = .ok (newFnType, Mapper2) ∧
        newFnType.getParameters.length = yieldsBig.getParameters.length ∧
        newFnType.getYields.length = yieldsBig.getYields.length ∧
        newFnType.getResults.length = yieldsBig.getResults.length ∧
        List.Forall₂ (fun p p2 => p2 = p ∨
            Pure.getNewParameter toyModule (signatureEnvironment none yieldsBig) p = some p2)
          yieldsBig.getParameters newFnType.getParameters ∧
        List.Forall₂ (fun y y2 => y2 = y ∨
            NewYield toyModule (signatureEnvironment none yieldsBig) y y2)
          yieldsBig.getYields newFnType.getYields ∧
        List.Forall₂ (fun r r2 => r2 = r ∨
            NewResult toyModule (signatureEnvironment none yieldsBig)
              (modNonFuncTypeResultType (signatureEnvironment none yieldsBig) yieldsBig
                toyModule) r r2)
          yieldsBig.getResults newFnType.getResults ∧
        newFnType.getOptionalErrorResult = yieldsBig.getOptionalErrorResult ∧
        newFnType.getCoroutineKind = yieldsBig.getCoroutineKind ∧
        newFnType.getCalleeConvention = yieldsBig.getCalleeConvention ∧
        newFnType.getExtInfo = yieldsBig.getExtInfo ∧
        newFnType.getLanguage = yieldsBig.getLanguage ∧
        newFnType.getInvocationGenericSignature = yieldsBig.getInvocationGenericSignature ∧
        newFnType.getPatternSubstitutions = yieldsBig.getPatternSubstitutions ∧
        newFnType.getInvocationSubstitutions = yieldsBig.getInvocationSubstitutions ∧
        newFnType.getWitnessMethodConformanceOrInvalid =
          yieldsBig.getWitnessMethodConformanceOrInvalid) :=
  ⟨⟨_, rfl⟩,
    getNewSILFunctionType_preserves_shape toyModule 1000 none yieldsBig
      LargeSILTypeMapper.new (Valid.new toyModule) (by decide)⟩

/-! ## Signatures with several results -/

/-- C27: for a native signature that has not exactly one result, so for one
with two or more, started on a cache that holds only transforms and with fuel
above the size of the signature, `getNewSILFunctionType` either stops at a
failed assertion or returns a signature in which the result at each position
has the convention of the original result, and is the original result unless
`containsDifferentFunctionSignature` answers yes for its storage type and the
transform of that type, in which case only its type is replaced, by the type
of the transform. -/
theorem getNewSILFunctionType_several_results (Mod : IRGenModule) (fuel : Nat)
    (env : Option GenericEnvironment) (fnType : SILFunctionType)
    (Mapper : LargeSILTypeMapper)
    (hV : Valid Mod Mapper) (hfuel : 10 * sizeOf fnType + 8 < fuel)
    (hM : fnType.getLanguage ≠ SILFunctionLanguage.C)
    (hN : 2 ≤ fnType.getNumResults) :
    LargeSILTypeMapper.getNewSILFunctionType Mod fuel env fnType Mapper = .error .assertion ∨
      ∃ newFnType Mapper2,
        LargeSILTypeMapper.getNewSILFunctionType Mod fuel env fnType Mapper =
          .ok (newFnType, Mapper2) ∧
        List.Forall₂ (fun r r2 => r2.convention = r.convention ∧
            (r2 = r ∨
              ∃ newType,
                Pure.getNewSILType Mod (signatureEnvironment env fnType)
                  r.getSILStorageInterfaceType = some newType ∧
                Pure.containsDifferentFunctionSignature Mod (signatureEnvironment env fnType)
                  r.getSILStorageInterfaceType newType = some true ∧
                r2 = ⟨newType.getASTType, r.convention⟩))
          fnType.getResults newFnType.getResults := by
  rcases ((refinesAt Mod fuel).fnType env fnType Mapper hV hfuel).error_or_ok with
    he | ⟨newFn, M2, hp, hr, _⟩
  · exact Or.inl he
  · right
    refine ⟨newFn, M2, hr, ?_⟩
    have hmod : modNonFuncTypeResultType (signatureEnvironment env fnType) fnType Mod =
        .ok false := modNonFuncTypeResultType_of_not_single _ _ _ (by omega)
    rcases pure_getNewSILFunctionType_shape Mod env fnType newFn hp with
      ⟨hF, _⟩ | ⟨_, ps, ys, rs, _, _, hrs, hEq⟩
    · exfalso
      unfold modifiableFunction at hF
      rw [if_neg hM] at hF
      cases hF
    · subst hEq
      rw [SILFunctionType.getResults_get]
      rw [hmod] at hrs
      refine hrs.imp ?_
      rintro r r2 ⟨newType, hT, h | h | h⟩
      · cases h.1
      · exact ⟨by rw [h.2.2], Or.inr ⟨newType, hT, h.2.1, h.2.2⟩⟩
      · exact ⟨by rw [h.2.2], Or.inl h.2.2⟩

/-- C27, on the toy target from the empty cache, at the native signature
`returnsClosureAndBig`: the large result stays a direct result, and the closure
result keeps its convention and takes the transformed closure type. -/
theorem getNewSILFunctionType_several_results_witness :
    (∃ Mapper2, LargeSILTypeMapper.getNewSILFunctionType toyModule 1000 none
        returnsClosureAndBig LargeSILTypeMapper.new =
        .ok (returnsClosureAndBigTransformed, Mapper2)) ∧
    returnsClosureAndBigTransformed.getResults =
      [⟨.function bigConsumerIndirect, .Owned⟩, ⟨BigStruct, .Owned⟩] ∧
    isLargeLoadableType none (SILType.getPrimitiveObjectType BigStruct) toyModule = .ok true ∧
    (LargeSILTypeMapper.getNewSILFunctionType toyModule 1000 none returnsClosureAndBig
        LargeSILTypeMapper.new = .error .assertion ∨
      ∃ newFnType Mapper2,
        LargeSILTypeMapper.getNewSILFunctionType toyModule 1000 none returnsClosureAndBig
          LargeSILTypeMapper.new = .ok (newFnType, Mapper2) ∧
        List.Forall₂ (fun r r2 => r2.convention = r.convention ∧
            (r2 = r ∨
              ∃ newType,
                Pure.getNewSILType toyModule (signatureEnvironment none returnsClosureAndBig)
                  r.getSILStorageInterfaceType = some newType ∧
                Pure.containsDifferentFunctionSignature toyModule
                  (signatureEnvironment none returnsClosureAndBig)
                  r.getSILStorageInterfaceType newType = some true ∧
                r2 = ⟨newType.getASTType, r.convention⟩))
          returnsClosureAndBig.getResults newFnType.getResults) :=
  ⟨⟨_, rfl⟩, by decide, by decide,
    getNewSILFunctionType_several_results toyModule 1000 none returnsClosureAndBig
      LargeSILTypeMapper.new (Valid.new toyModule) (by decide) (by decide) (by decide)⟩

/-! ## The query and the rewrite of a signature -/

/-- C28: the query and the rewrite disagree on a foreign signature with a large
parameter.  For the foreign signature `(BigStruct) -> ()` on the toy target
`shouldTransformFunctionType` answers yes (its loop over the parameters has no
guard for the convention, while `shouldTransformResults` and
`getNewSILFunctionType` start with one), and `getNewSILFunctionType` returns
the signature as it is. -/
theorem shouldTransformFunctionType_foreign_yes_unchanged :
    foreignBigConsumer.getLanguage = SILFunctionLanguage.C ∧
    (∃ Mapper2, LargeSILTypeMapper.shouldTransformFunctionType toyModule 1000 none
      foreignBigConsumer LargeSILTypeMapper.new = .ok (true, Mapper2)) ∧
    (∃ Mapper2, LargeSILTypeMapper.getNewSILFunctionType toyModule 1000 none
      foreignBigConsumer LargeSILTypeMapper.new = .ok (foreignBigConsumer, Mapper2)) :=
  ⟨by decide, ⟨_, rfl⟩, ⟨_, rfl⟩⟩

/-- The direction in which the query and the rewrite agree: started on a cache that holds only transforms and with fuel
above the size of the signature, `shouldTransformFunctionType` either stops at
a failed assertion or returns an answer, and when the answer is no,
`getNewSILFunctionType` returns the signature itself; so a signature that
`getNewSILFunctionType` changes is one for which the query answers yes. -/
theorem getNewSILFunctionType_unchanged_of_not_should (Mod : IRGenModule) (fuel : Nat)
    (env : Option GenericEnvironment) (fnType : SILFunctionType)
    (Mapper : LargeSILTypeMapper)
    (hV : Valid Mod Mapper) (hfuel : 10 * sizeOf fnType + 8 < fuel) :
    LargeSILTypeMapper.shouldTransformFunctionType Mod fuel env fnType Mapper =
        .error .assertion ∨
      ∃ answer Mapper2,
        LargeSILTypeMapper.shouldTransformFunctionType Mod fuel env fnType Mapper =
          .ok (answer, Mapper2) ∧
        (answer = false →
          ∃ Mapper3, LargeSILTypeMapper.getNewSILFunctionType Mod fuel env fnType Mapper =
            .ok (fnType, Mapper3)) ∧
        ∀ newFnType Mapper3,
          LargeSILTypeMapper.getNewSILFunctionType Mod fuel env fnType Mapper =
            .ok (newFnType, Mapper3) →
          newFnType ≠ fnType → answer = true := by
  rcases ((refinesAt Mod fuel).should env fnType Mapper hV hfuel).error_or_ok with
    he | ⟨b, M2, hp, hr, _⟩
  · exact Or.inl he
  · right
    refine ⟨b, M2, hr, ?_, ?_⟩
    · intro hb
      subst hb
      obtain ⟨M3, h3, _, _⟩ := ((refinesAt Mod fuel).fnType env fnType Mapper hV
        hfuel).ok_of_pure (pure_getNewSILFunctionType_of_not_should Mod env fnType hp)
      exact ⟨M3, h3⟩
    · intro newFn M3 h3 hne
      cases b with
      | true => rfl
      | false =>
        have h4 := ((refinesAt Mod fuel).fnType env fnType Mapper hV hfuel).pure_eq_of_ok h3
        rw [pure_getNewSILFunctionType_of_not_should Mod env fnType hp] at h4
        cases h4
        exact absurd rfl hne

/-- On the toy target from the empty cache: for the native
signature `() -> ()` the query answers no and the rewrite returns the
signature, and for the coroutine signature `yieldsBig` the query answers yes
and the rewrite returns another signature. -/
theorem getNewSILFunctionType_unchanged_of_not_should_witness :
    (∃ Mapper2, LargeSILTypeMapper.shouldTransformFunctionType toyModule 1000 none thunk
      LargeSILTypeMapper.new = .ok (false, Mapper2)) ∧
    (∃ Mapper2, LargeSILTypeMapper.getNewSILFunctionType toyModule 1000 none thunk
      LargeSILTypeMapper.new = .ok (thunk, Mapper2)) ∧
    (∃ Mapper2, LargeSILTypeMapper.shouldTransformFunctionType toyModule 1000 none yieldsBig
      LargeSILTypeMapper.new = .ok (true, Mapper2)) ∧
    yieldsBigTransformed ≠ yieldsBig ∧
    (LargeSILTypeMapper.shouldTransformFunctionType toyModule 1000 none thunk
        LargeSILTypeMapper.new = .error .assertion ∨
      ∃ answer Mapper2,
        LargeSILTypeMapper.shouldTransformFunctionType toyModule 1000 none thunk
          LargeSILTypeMapper.new = .ok (answer, Mapper2) ∧
        (answer = false →
          ∃ Mapper3, LargeSILTypeMapper.getNewSILFunctionType toyModule 1000 none thunk
            LargeSILTypeMapper.new = .ok (thunk, Mapper3)) ∧
        ∀ newFnType Mapper3,
          LargeSILTypeMapper.getNewSILFunctionType toyModule 1000 none thunk
            LargeSILTypeMapper.new = .ok (newFnType, Mapper3) →
          newFnType ≠ thunk → answer = true) :=
  ⟨⟨_, rfl⟩, ⟨_, rfl⟩, ⟨_, rfl⟩, by decide,
    getNewSILFunctionType_unchanged_of_not_should toyModule 1000 none thunk
      LargeSILTypeMapper.new (Valid.new toyModule) (by decide)⟩

end LoadableByAddress

namespace LoadableByAddress

/-! ## The pass over `callsBigProducer`, step by step -/

theorem forEachM_cons_ok {α σ : Type} {f : α → σ → Except Abort σ} {a : α} {rest : List α}
    {s s1 : σ} (h : f a s = .ok s1) : forEachM f (a :: rest) s = forEachM f rest s1 := by
  simp only [forEachM, h]

theorem callsBigProducer_start :
    LoadableStorageAllocation.convertIndirectFunctionArgs
      (LargeValueVisitor.mapReturnInstrs
        (StructLoweringState.new callsBigProducer LargeSILTypeMapper.new)) toyModule 10 =
      .ok callsBigProducerStart := by
  have h : LargeValueVisitor.mapReturnInstrs
      (StructLoweringState.new callsBigProducer LargeSILTypeMapper.new) =
      callsBigProducerStart := rfl
  rw [h]
  decide

theorem callsBigProducer_converted :
    LoadableStorageAllocation.convertApplyResults callsBigProducerStart toyModule 10 =
      .ok callsBigProducerConverted := by
  decide

theorem callsBigProducer_scanned :
    LargeValueVisitor.mapValueStorage callsBigProducerConverted toyModule 10 =
      .ok callsBigProducerAllocated := by
  have hB : getReversePostOrder callsBigProducerConverted.F =
      callsBigProducerRewritten.blocks := by decide
  have h4 : LargeValueVisitor.visitInstruction callsBigProducerConverted toyModule 10
      ⟨4, .AllocStackInst, [], some ⟨BigStruct, .Address⟩, [], 0⟩ =
      .ok callsBigProducerConverted := by decide
  have h0 : LargeValueVisitor.visitInstruction callsBigProducerConverted toyModule 10
      ⟨0, .Other 1, [], some ⟨.function bigProducer, .Object⟩, [], 0⟩ =
      .ok callsBigProducerConverted := by decide
  have h1 : LargeValueVisitor.visitInstruction callsBigProducerConverted toyModule 10
      ⟨1, .ApplyInst bigProducer, [.instruction 0], some ⟨BigStruct, .Object⟩, [], 0⟩ =
      .ok callsBigProducerCallScanned := by decide
  have h2 : LargeValueVisitor.visitInstruction callsBigProducerCallScanned toyModule 10
      ⟨2, .TupleInst, [], some emptyTupleType, [], 0⟩ =
      .ok callsBigProducerCallScanned := by decide
  have h5 : LargeValueVisitor.visitInstruction callsBigProducerCallScanned toyModule 10
      ⟨5, .DeallocStackInst, [.instruction 4], none, [], 0⟩ =
      .ok callsBigProducerCallScanned := by decide
  have h3 : LargeValueVisitor.visitInstruction callsBigProducerCallScanned toyModule 10
      ⟨3, .ReturnInst, [.instruction 2], none, [], 0⟩ =
      .ok callsBigProducerAllocated := by decide
  unfold LargeValueVisitor.mapValueStorage
  rw [hB]
  show forEachM _ [_] _ = _
  rw [@forEachM_cons_ok _ _ _ _ _ _ callsBigProducerAllocated]
  · rfl
  · show forEachM _ [_, _, _, _, _, _] _ = _
    rw [forEachM_cons_ok h4, forEachM_cons_ok h0, forEachM_cons_ok h1, forEachM_cons_ok h2,
      forEachM_cons_ok h5, forEachM_cons_ok h3]
    rfl

theorem callsBigProducer_allocated :
    LoadableStorageAllocation.allocateLoadableStorage
      (StructLoweringState.new callsBigProducer LargeSILTypeMapper.new) toyModule 10 =
      .ok callsBigProducerAllocated := by
  have hM : modifiableFunction (LargeValueVisitor.mapReturnInstrs
      (StructLoweringState.new callsBigProducer LargeSILTypeMapper.new)).F.getLoweredFunctionType
      = true := by decide
  have hA : LoadableStorageAllocation.convertIndirectBasicBlockArgs callsBigProducerAllocated
      toyModule 10 = .ok callsBigProducerAllocated := by decide
  have hL : callsBigProducerAllocated.argsToLoadedValueMap = [] := rfl
  unfold LoadableStorageAllocation.allocateLoadableStorage
  simp only [hM, if_true, callsBigProducer_start, callsBigProducer_converted,
    callsBigProducer_scanned, hA, hL, forEachM]

theorem callsBigProducer_return :
    rewriteFunctionReturn callsBigProducerAllocated toyModule 10 =
      .ok (false, callsBigProducerAllocated) := by
  decide

theorem callsBigProducer_rewritten :
    rewriteFunction callsBigProducerAllocated toyModule 10 = .ok callsBigProducerAllocated := by
  decide

/-! ## The set of changed functions -/

/-- What `runOnFunction` returns for a native function with a body whose passes
return, when its return was rewritten or one of `largeLoadableArgs` and
`funcSigArgs` is not empty: the function is recorded as changed. -/
theorem runOnFunction_of_steps (T : ModuleTransform) (Mod : IRGenModule) (fuel : Nat)
    (F : SILFunction) (pass1 pass2 pass3 : StructLoweringState) (rewrittenReturn : Bool)
    (hE : F.isExternalDeclaration = false)
    (hM : modifiableFunction F.getLoweredFunctionType = true)
    (h1 : LoadableStorageAllocation.allocateLoadableStorage
      (StructLoweringState.new F T.MapperCache) Mod fuel = .ok pass1)
    (h2 : rewriteFunctionReturn pass1 Mod fuel = .ok (rewrittenReturn, pass2))
    (h3 : rewriteFunction pass2 Mod fuel = .ok pass3)
    (hC : (rewrittenReturn || !pass3.largeLoadableArgs.isEmpty
      || !pass3.funcSigArgs.isEmpty) = true) :
    T.runOnFunction Mod fuel F =
      .ok (pass3.F, ⟨pass3.Mapper, setVectorInsert T.modFuncs F.name,
        pass3.applies.foldl setVectorInsert T.modApplies,
        pass3.applyRetToAllocMap.foldl
          (fun m elm => if (mapVectorFind m elm.1).isSome then m else m ++ [elm])
          T.allApplyRetToAllocMap⟩) := by
  unfold ModuleTransform.runOnFunction
  simp only [hE, hM, h1, h2, h3, hC, if_true, if_false, Bool.false_eq_true, Bool.not_true]

theorem callsBigProducer_run :
    ModuleTransform.runOnFunction ModuleTransform.new toyModule 10 callsBigProducer =
      .ok (callsBigProducerRewritten, callsBigProducerTransform) := by
  rw [runOnFunction_of_steps ModuleTransform.new toyModule 10 callsBigProducer
    callsBigProducerAllocated callsBigProducerAllocated callsBigProducerAllocated false
    (by decide) (by decide) callsBigProducer_allocated callsBigProducer_return
    callsBigProducer_rewritten (by decide)]
  rfl

/-! ## The worklists through `rewriteFunction` -/

theorem StructLoweringState.SameLists.same (p : StructLoweringState) : p.SameLists p := by
  cases p
  rfl

theorem StructLoweringState.SameLists.andThen {p q r : StructLoweringState}
    (h1 : p.SameLists q) (h2 : q.SameLists r) : p.SameLists r := by
  unfold StructLoweringState.SameLists at *
  rw [h2, h1]

theorem StructLoweringState.SameLists.withF (p : StructLoweringState) (F : SILFunction) :
    p.SameLists { p with F := F } := by
  cases p
  rfl

theorem StructLoweringState.SameLists.withMapper (p : StructLoweringState)
    (M : LargeSILTypeMapper) : p.SameLists { p with Mapper := M } := by
  cases p
  rfl

theorem StructLoweringState.SameLists.of_mapper {p q : StructLoweringState}
    (h : q = { p with Mapper := q.Mapper }) : p.SameLists q := by
  unfold StructLoweringState.SameLists
  rw [h]

theorem StructLoweringState.SameLists.fields {p q : StructLoweringState}
    (h : p.SameLists q) :
    q.switchEnumInstsToMod = p.switchEnumInstsToMod ∧
      q.structExtractInstsToMod = p.structExtractInstsToMod ∧
      q.modYieldInsts = p.modYieldInsts ∧
      q.allocStackInstsToMod = p.allocStackInstsToMod ∧
      q.pointerToAddrkInstsToMod = p.pointerToAddrkInstsToMod ∧
      q.modReturnInsts = p.modReturnInsts := by
  unfold StructLoweringState.SameLists at h
  rw [h]
  exact ⟨rfl, rfl, rfl, rfl, rfl, rfl⟩

theorem StructLoweringState.SameLists.kept {p q : StructLoweringState}
    (h : p.SameLists q) :
    q.applies = p.applies ∧ q.instsToMod = p.instsToMod ∧
      q.tupleInstsToMod = p.tupleInstsToMod ∧ q.debugInstsToMod = p.debugInstsToMod ∧
      q.destroyValueInstsToMod = p.destroyValueInstsToMod ∧
      q.storeInstsToMod = p.storeInstsToMod ∧ q.retainInstsToMod = p.retainInstsToMod ∧
      q.releaseInstsToMod = p.releaseInstsToMod ∧
      q.resultTyInstsToMod = p.resultTyInstsToMod ∧
      q.methodInstsToMod = p.methodInstsToMod := by
  unfold StructLoweringState.SameLists at h
  rw [h]
  exact ⟨rfl, rfl, rfl, rfl, rfl, rfl, rfl, rfl, rfl, rfl⟩

theorem forEachM_sameLists {α : Type}
    (f : α → StructLoweringState → Except Abort StructLoweringState)
    (hf : ∀ a p q, f a p = .ok q → p.SameLists q) :
    ∀ (l : List α) (p q : StructLoweringState), forEachM f l p = .ok q → p.SameLists q
  | [], p, q, h => by
    simp only [forEachM, Except.ok.injEq] at h
    subst h
    exact StructLoweringState.SameLists.same p
  | a :: rest, p, q, h => by
    simp only [forEachM] at h
    split at h
    · cases h
    · rename_i s1 h1
      exact (hf a p s1 h1).andThen (forEachM_sameLists f hf rest s1 q h)

theorem rewriteInstsToMod_sameLists {pass q : StructLoweringState}
    (h : rewriteInstsToMod pass = .ok q) : pass.SameLists q := by
  unfold rewriteInstsToMod at h
  refine forEachM_sameLists _ ?_ _ _ _ h
  intro id p q h
  try dsimp only at h
  split at h
  · cases h
  · split at h
    · cases h
    · cases h
      exact StructLoweringState.SameLists.withF _ _

theorem retypeTupleInstr_sameLists {pass q : StructLoweringState} {Mod : IRGenModule}
    {fuel id : Nat} (h : retypeTupleInstr pass Mod fuel id = .ok q) : pass.SameLists q := by
  unfold retypeTupleInstr at h
  split at h
  · split at h
    · cases h
    · split at h
      · cases h
      · dsimp only at h
        split at h
        · cases h
        · split at h
          · cases h
            exact StructLoweringState.SameLists.withMapper _ _
          · split at h
            · cases h
            · cases h
              exact (StructLoweringState.SameLists.withMapper _ _).andThen
                (StructLoweringState.SameLists.withF _ _)
  · cases h

theorem rewriteTupleInsts_sameLists {pass q : StructLoweringState} {Mod : IRGenModule}
    {fuel : Nat} (h : rewriteTupleInsts pass Mod fuel = .ok q) : pass.SameLists q := by
  unfold rewriteTupleInsts at h
  exact forEachM_sameLists _ (fun _ _ _ h1 => retypeTupleInstr_sameLists h1) _ _ _ h

theorem rewriteAllocStackInsts_sameLists {pass q : StructLoweringState} {Mod : IRGenModule}
    {fuel : Nat} (h : rewriteAllocStackInsts pass Mod fuel = .ok q) :
    ∃ q1, pass.SameLists q1 ∧ q = { q1 with allocStackInstsToMod := [] } := by
  unfold rewriteAllocStackInsts at h
  split at h
  · cases h
  · rename_i q1 h1
    cases h
    refine ⟨q1, forEachM_sameLists _ ?_ _ _ _ h1, rfl⟩
    intro id p q h
    try dsimp only at h
    split at h
    · cases h
    · split at h
      · cases h
      · split at h
        · cases h
        · rename_i h3
          cases h
          exact (StructLoweringState.SameLists.of_mapper
            (StructLoweringState.getNewSILType_state h3)).andThen
            (StructLoweringState.SameLists.withF _ _)

theorem rewritePointerToAddrInsts_sameLists {pass q : StructLoweringState}
    {Mod : IRGenModule} {fuel : Nat} (h : rewritePointerToAddrInsts pass Mod fuel = .ok q) :
    ∃ q1, pass.SameLists q1 ∧ q = { q1 with pointerToAddrkInstsToMod := [] } := by
  unfold rewritePointerToAddrInsts at h
  split at h
  · cases h
  · rename_i q1 h1
    cases h
    refine ⟨q1, forEachM_sameLists _ ?_ _ _ _ h1, rfl⟩
    intro id p q h
    try dsimp only at h
    split at h
    · cases h
    · split at h
      · cases h
      · split at h
        · cases h
        · rename_i h3
          cases h
          exact (StructLoweringState.SameLists.of_mapper
            (StructLoweringState.getNewSILType_state h3)).andThen
            (StructLoweringState.SameLists.withF _ _)

theorem rewriteDebugInsts_sameLists {pass q : StructLoweringState}
    (h : rewriteDebugInsts pass = .ok q) : pass.SameLists q := by
  unfold rewriteDebugInsts at h
  refine forEachM_sameLists _ ?_ _ _ _ h
  intro id p q h
  try dsimp only at h
  split at h
  · cases h
  · split at h
    · split at h
      · split at h
        · cases h
        · cases h
          exact StructLoweringState.SameLists.withF _ _
      · split at h
        · split at h
          · cases h
          · cases h
            exact StructLoweringState.SameLists.withF _ _
        · cases h
    · cases h

theorem rewriteDestroyValueInsts_sameLists {pass q : StructLoweringState}
    (h : rewriteDestroyValueInsts pass = .ok q) : pass.SameLists q := by
  unfold rewriteDestroyValueInsts at h
  refine forEachM_sameLists _ ?_ _ _ _ h
  intro id p q h
  try dsimp only at h
  split at h
  · cases h
  · split at h
    · split at h
      · split at h
        · cases h
        · cases h
          exact StructLoweringState.SameLists.withF _ _
      · cases h
    · cases h

theorem rewriteStoreInsts_sameLists {pass q : StructLoweringState}
    (h : rewriteStoreInsts pass = .ok q) : pass.SameLists q := by
  unfold rewriteStoreInsts at h
  refine forEachM_sameLists _ ?_ _ _ _ h
  intro id p q h
  try dsimp only at h
  split at h
  · cases h
  · split at h
    · split at h
      · split at h
        · cases h
        · split at h
          · cases h
          · cases h
            exact StructLoweringState.SameLists.withF _ _
      · cases h
    · cases h

theorem rewriteRetainReleaseInsts_sameLists {pass q : StructLoweringState}
    (h : rewriteRetainReleaseInsts pass = .ok q) : pass.SameLists q := by
  unfold rewriteRetainReleaseInsts at h
  split at h
  · cases h
  · rename_i q1 h1
    refine (forEachM_sameLists _ ?_ _ _ _ h1).andThen (forEachM_sameLists _ ?_ _ _ _ h)
    · intro id p q h
      try dsimp only at h
      split at h
      · cases h
      · cases h
        exact StructLoweringState.SameLists.withF _ _
    · intro id p q h
      try dsimp only at h
      split at h
      · cases h
      · cases h
        exact StructLoweringState.SameLists.withF _ _

theorem rewriteResultTyInsts_sameLists {pass q : StructLoweringState} {Mod : IRGenModule}
    {fuel : Nat} (h : rewriteResultTyInsts pass Mod fuel = .ok q) : pass.SameLists q := by
  unfold rewriteResultTyInsts at h
  refine forEachM_sameLists _ ?_ _ _ _ h
  intro id p q h
  try dsimp only at h
  split at h
  · cases h
  · split at h
    · cases h
    · split at h
      · cases h
      · rename_i h3
        split at h
        · cases h
        · cases h
          exact (StructLoweringState.SameLists.of_mapper
            (StructLoweringState.getNewSILType_state h3)).andThen
            (StructLoweringState.SameLists.withF _ _)

theorem rewriteMethodInsts_sameLists {pass q : StructLoweringState} {Mod : IRGenModule}
    {fuel : Nat} (h : rewriteMethodInsts pass Mod fuel = .ok q) : pass.SameLists q := by
  unfold rewriteMethodInsts at h
  refine forEachM_sameLists _ ?_ _ _ _ h
  intro id p q h
  try dsimp only at h
  split at h
  · cases h
  · split at h
    · cases h
    · split at h
      · cases h
      · split at h
        · cases h
        · cases h
          exact (StructLoweringState.SameLists.withMapper _ _).andThen
            (StructLoweringState.SameLists.withF _ _)

theorem rewriteModReturnInsts_sameLists {pass q : StructLoweringState} {Mod : IRGenModule}
    (h : rewriteModReturnInsts pass Mod = .ok q) :
    ∃ q1, pass.SameLists q1 ∧ q = { q1 with modReturnInsts := [] } := by
  unfold rewriteModReturnInsts at h
  split at h
  · cases h
  · rename_i q1 h1
    cases h
    refine ⟨q1, forEachM_sameLists _ ?_ _ _ _ h1, rfl⟩
    intro id p q h
    try dsimp only at h
    split at h
    · cases h
    · cases h
    · split at h
      · split at h
        · split at h
          · cases h
          · cases h
            exact StructLoweringState.SameLists.withF _ _
        · cases h
      · cases h

theorem rewriteYieldInsts_drained {Mod : IRGenModule} {fuel : Nat} :
    ∀ (steps : Nat) (pass q : StructLoweringState),
      rewriteYieldInsts Mod fuel steps pass = .ok q → q.modYieldInsts = []
  | 0, _, _, h => by
    simp only [rewriteYieldInsts] at h
    cases h
  | steps + 1, pass, q, h => by
    simp only [rewriteYieldInsts] at h
    cases hL : pass.modYieldInsts.getLast? with
    | none =>
      rw [hL] at h
      simp only [Except.ok.injEq] at h
      subst h
      exact List.getLast?_eq_none_iff.1 hL
    | some inst =>
      rw [hL] at h
      simp only at h
      split at h
      · cases h
      · split at h
        · cases h
        · exact rewriteYieldInsts_drained steps _ _ h

theorem rewriteUntilStable_drained {Mod : IRGenModule} {fuel : Nat} :
    ∀ (rounds : Nat) (pass : StructLoweringState) (currentModApplies : List Nat)
      (q : StructLoweringState),
      rewriteUntilStable Mod fuel rounds (pass, currentModApplies) = .ok q →
      q.switchEnumInstsToMod = [] ∧ q.structExtractInstsToMod = [] ∧ q.modYieldInsts = []
  | 0, _, _, _, h => by
    simp only [rewriteUntilStable] at h
    cases h
  | rounds + 1, pass, cur, q, h => by
    simp only [rewriteUntilStable] at h
    split at h
    · cases h
    · split at h
      · cases h
      · split at h
        · cases h
        · split at h
          · cases h
          · rename_i pass4 h4
            split at h
            · cases h
            · split at h
              · exact rewriteUntilStable_drained rounds _ _ _ h
              · rename_i hrep
                simp only [Except.ok.injEq] at h
                subst h
                have hy := rewriteYieldInsts_drained _ _ _ h4
                simp only [Bool.or_eq_true, Bool.not_eq_true', not_or, Bool.not_eq_false,
                  List.isEmpty_iff] at hrep
                exact ⟨hrep.1, hrep.2, hy⟩

/-- When `rewriteFunction` returns, the worklists it pops from and the
worklists it clears are empty. -/
theorem rewriteFunction_drained {pass q : StructLoweringState} {Mod : IRGenModule}
    {fuel : Nat} (h : rewriteFunction pass Mod fuel = .ok q) :
    (q.switchEnumInstsToMod = [] ∧ q.structExtractInstsToMod = [] ∧ q.modYieldInsts = [] ∧
      q.allocStackInstsToMod = [] ∧ q.pointerToAddrkInstsToMod = [] ∧
      q.modReturnInsts = []) ∧
    ∃ p0, rewriteUntilStable Mod fuel fuel (pass, []) = .ok p0 ∧
      q.applies = p0.applies ∧ q.instsToMod = p0.instsToMod ∧
      q.tupleInstsToMod = p0.tupleInstsToMod ∧ q.debugInstsToMod = p0.debugInstsToMod ∧
      q.destroyValueInstsToMod = p0.destroyValueInstsToMod ∧
      q.storeInstsToMod = p0.storeInstsToMod ∧ q.retainInstsToMod = p0.retainInstsToMod ∧
      q.releaseInstsToMod = p0.releaseInstsToMod ∧
      q.resultTyInstsToMod = p0.resultTyInstsToMod ∧
      q.methodInstsToMod = p0.methodInstsToMod := by
  unfold rewriteFunction at h
  split at h
  · cases h
  · rename_i p0 h0
    split at h
    · cases h
    · rename_i p1 h1
      split at h
      · cases h
      · rename_i p1t h1t
        split at h
        · cases h
        · rename_i p2 h2
          split at h
          · cases h
          · rename_i p3 h3
            split at h
            · cases h
            · rename_i p4 h4
              split at h
              · cases h
              · rename_i p5 h5
                split at h
                · cases h
                · rename_i p6 h6
                  split at h
                  · cases h
                  · rename_i p7 h7
                    split at h
                    · cases h
                    · rename_i p8 h8
                      split at h
                      · cases h
                      · rename_i p9 h9
                        obtain ⟨d1, d2, d3⟩ := rewriteUntilStable_drained _ _ _ _ h0
                        have e1 := rewriteInstsToMod_sameLists h1
                        have e1t := rewriteTupleInsts_sameLists h1t
                        obtain ⟨a2, ea2, e2⟩ := rewriteAllocStackInsts_sameLists h2
                        obtain ⟨a3, ea3, e3⟩ := rewritePointerToAddrInsts_sameLists h3
                        have e4 := rewriteDebugInsts_sameLists h4
                        have e5 := rewriteDestroyValueInsts_sameLists h5
                        have e6 := rewriteStoreInsts_sameLists h6
                        have e7 := rewriteRetainReleaseInsts_sameLists h7
                        have e8 := rewriteResultTyInsts_sameLists h8
                        have e9 := rewriteMethodInsts_sameLists h9
                        obtain ⟨a10, ea10, e10⟩ := rewriteModReturnInsts_sameLists h
                        have fA := ((e1.andThen e1t).andThen ea2).fields
                        have fB := ea3.fields
                        have fC := ((((((e4.andThen e5).andThen e6).andThen e7).andThen e8).andThen
                          e9).andThen ea10).fields
                        have g2 : p2.switchEnumInstsToMod = a2.switchEnumInstsToMod ∧
                            p2.structExtractInstsToMod = a2.structExtractInstsToMod ∧
                            p2.modYieldInsts = a2.modYieldInsts ∧
                            p2.allocStackInstsToMod = [] := by
                          rw [e2]
                          exact ⟨rfl, rfl, rfl, rfl⟩
                        have g3 : p3.switchEnumInstsToMod = a3.switchEnumInstsToMod ∧
                            p3.structExtractInstsToMod = a3.structExtractInstsToMod ∧
                            p3.modYieldInsts = a3.modYieldInsts ∧
                            p3.allocStackInstsToMod = a3.allocStackInstsToMod ∧
                            p3.pointerToAddrkInstsToMod = [] := by
                          rw [e3]
                          exact ⟨rfl, rfl, rfl, rfl, rfl⟩
                        have g10 : q.switchEnumInstsToMod = a10.switchEnumInstsToMod ∧
                            q.structExtractInstsToMod = a10.structExtractInstsToMod ∧
                            q.modYieldInsts = a10.modYieldInsts ∧
                            q.allocStackInstsToMod = a10.allocStackInstsToMod ∧
                            q.pointerToAddrkInstsToMod = a10.pointerToAddrkInstsToMod ∧
                            q.modReturnInsts = [] := by
                          rw [e10]
                          exact ⟨rfl, rfl, rfl, rfl, rfl, rfl⟩
                        have kA := ((e1.andThen e1t).andThen ea2).kept
                        have kB := ea3.kept
                        have kC := ((((((e4.andThen e5).andThen e6).andThen e7).andThen e8).andThen
                          e9).andThen ea10).kept
                        have k2 : p2.applies = a2.applies ∧ p2.instsToMod = a2.instsToMod ∧
                            p2.tupleInstsToMod = a2.tupleInstsToMod ∧
                            p2.debugInstsToMod = a2.debugInstsToMod ∧
                            p2.destroyValueInstsToMod = a2.destroyValueInstsToMod ∧
                            p2.storeInstsToMod = a2.storeInstsToMod ∧
                            p2.retainInstsToMod = a2.retainInstsToMod ∧
                            p2.releaseInstsToMod = a2.releaseInstsToMod ∧
                            p2.resultTyInstsToMod = a2.resultTyInstsToMod ∧
                            p2.methodInstsToMod = a2.methodInstsToMod := by
                          rw [e2]
                          exact ⟨rfl, rfl, rfl, rfl, rfl, rfl, rfl, rfl, rfl, rfl⟩
                        have k3 : p3.applies = a3.applies ∧ p3.instsToMod = a3.instsToMod ∧
                            p3.tupleInstsToMod = a3.tupleInstsToMod ∧
                            p3.debugInstsToMod = a3.debugInstsToMod ∧
                            p3.destroyValueInstsToMod = a3.destroyValueInstsToMod ∧
                            p3.storeInstsToMod = a3.storeInstsToMod ∧
                            p3.retainInstsToMod = a3.retainInstsToMod ∧
                            p3.releaseInstsToMod = a3.releaseInstsToMod ∧
                            p3.resultTyInstsToMod = a3.resultTyInstsToMod ∧
                            p3.methodInstsToMod = a3.methodInstsToMod := by
                          rw [e3]
                          exact ⟨rfl, rfl, rfl, rfl, rfl, rfl, rfl, rfl, rfl, rfl⟩
                        have k10 : q.applies = a10.applies ∧ q.instsToMod = a10.instsToMod ∧
                            q.tupleInstsToMod = a10.tupleInstsToMod ∧
                            q.debugInstsToMod = a10.debugInstsToMod ∧
                            q.destroyValueInstsToMod = a10.destroyValueInstsToMod ∧
                            q.storeInstsToMod = a10.storeInstsToMod ∧
                            q.retainInstsToMod = a10.retainInstsToMod ∧
                            q.releaseInstsToMod = a10.releaseInstsToMod ∧
                            q.resultTyInstsToMod = a10.resultTyInstsToMod ∧
                            q.methodInstsToMod = a10.methodInstsToMod := by
                          rw [e10]
                          exact ⟨rfl, rfl, rfl, rfl, rfl, rfl, rfl, rfl, rfl, rfl⟩
                        refine ⟨⟨?_, ?_, ?_, ?_, ?_, g10.2.2.2.2.2⟩, p0, h0,
                          ?_, ?_, ?_, ?_, ?_, ?_, ?_, ?_, ?_, ?_⟩
                        · rw [g10.1, fC.1, g3.1, fB.1, g2.1, fA.1, d1]
                        · rw [g10.2.1, fC.2.1, g3.2.1, fB.2.1, g2.2.1, fA.2.1, d2]
                        · rw [g10.2.2.1, fC.2.2.1, g3.2.2.1, fB.2.2.1, g2.2.2.1, fA.2.2.1, d3]
                        · rw [g10.2.2.2.1, fC.2.2.2.1, g3.2.2.2.1, fB.2.2.2.1, g2.2.2.2]
                        · rw [g10.2.2.2.2.1, fC.2.2.2.2.1, g3.2.2.2.2]
                        · rw [k10.1, kC.1, k3.1, kB.1, k2.1, kA.1]
                        · rw [k10.2.1, kC.2.1, k3.2.1, kB.2.1, k2.2.1, kA.2.1]
                        · rw [k10.2.2.1, kC.2.2.1, k3.2.2.1, kB.2.2.1, k2.2.2.1, kA.2.2.1]
                        · rw [k10.2.2.2.1, kC.2.2.2.1, k3.2.2.2.1, kB.2.2.2.1, k2.2.2.2.1,
                            kA.2.2.2.1]
                        · rw [k10.2.2.2.2.1, kC.2.2.2.2.1, k3.2.2.2.2.1, kB.2.2.2.2.1,
                            k2.2.2.2.2.1, kA.2.2.2.2.1]
                        · rw [k10.2.2.2.2.2.1, kC.2.2.2.2.2.1, k3.2.2.2.2.2.1, kB.2.2.2.2.2.1,
                            k2.2.2.2.2.2.1, kA.2.2.2.2.2.1]
                        · rw [k10.2.2.2.2.2.2.1, kC.2.2.2.2.2.2.1, k3.2.2.2.2.2.2.1,
                            kB.2.2.2.2.2.2.1, k2.2.2.2.2.2.2.1, kA.2.2.2.2.2.2.1]
                        · rw [k10.2.2.2.2.2.2.2.1, kC.2.2.2.2.2.2.2.1, k3.2.2.2.2.2.2.2.1,
                            kB.2.2.2.2.2.2.2.1, k2.2.2.2.2.2.2.2.1, kA.2.2.2.2.2.2.2.1]
                        · rw [k10.2.2.2.2.2.2.2.2.1, kC.2.2.2.2.2.2.2.2.1,
                            k3.2.2.2.2.2.2.2.2.1, kB.2.2.2.2.2.2.2.2.1,
                            k2.2.2.2.2.2.2.2.2.1, kA.2.2.2.2.2.2.2.2.1]
                        · rw [k10.2.2.2.2.2.2.2.2.2, kC.2.2.2.2.2.2.2.2.2,
                            k3.2.2.2.2.2.2.2.2.2, kB.2.2.2.2.2.2.2.2.2,
                            k2.2.2.2.2.2.2.2.2.2, kA.2.2.2.2.2.2.2.2.2]

/-! ## Stack buffers: the allocation first, a deallocation before every exit -/

theorem deallocFold_eq (a : Nat) :
    ∀ (ts : List Nat) (p : StructLoweringState),
      ts.foldl (fun (p : StructLoweringState) termInst =>
        let created := p.F.create (.before termInst) .DeallocStackInst [.instruction a] none
        { p with F := created.2 }) p =
      { p with F := { p.F with
          blocks := p.F.blocks.map (fun BB =>
            { BB with instructions := withDeallocs a p.F.nextId ts BB.instructions }),
          nextId := p.F.nextId + ts.length } }
  | [], p => by
    simp only [List.foldl_nil, withDeallocs, List.length_nil, Nat.add_zero]
    have : p.F.blocks.map (fun BB => ({ BB with instructions := BB.instructions } :
        SILBasicBlock)) = p.F.blocks := List.map_id _
    rw [this]
  | t :: ts, p => by
    rw [List.foldl_cons, deallocFold_eq a ts]
    simp only [SILFunction.create, SILFunction.createWith, SILFunction.insert, List.map_map,
      Function.comp_def, withDeallocs, List.length_cons]
    have e : p.F.nextId + 1 + ts.length = p.F.nextId + (ts.length + 1) := by omega
    rw [e]

theorem flatMap_insertBeforeInList (new : SILInstruction) (t : Nat)
    (f : SILInstruction → List SILInstruction) :
    ∀ l : List SILInstruction, (l.map (fun i => i.id)).Nodup →
      (insertBeforeInList new t l).flatMap f =
        l.flatMap (fun i => if i.id = t then f new ++ f i else f i)
  | [], _ => rfl
  | x :: l, h => by
    have hn := List.nodup_cons.1 (by simpa using h : (x.id :: l.map (fun i => i.id)).Nodup)
    by_cases hx : x.id = t
    · have hl : ∀ y ∈ l, y.id ≠ t := by
        intro y hy hyt
        exact hn.1 (List.mem_map.2 ⟨y, hy, by rw [hyt, hx]⟩)
      have e : l.flatMap (fun i => if i.id = t then f new ++ f i else f i) = l.flatMap f := by
        apply List.flatMap_congr
        intro y hy
        simp [hl y hy]
      simp only [insertBeforeInList, hx, if_true, List.flatMap_cons, e, List.append_assoc]
    · simp only [insertBeforeInList, hx, if_false, List.flatMap_cons]
      rw [flatMap_insertBeforeInList new t f l hn.2]

theorem nodup_insertBeforeInList (new : SILInstruction) (t : Nat) :
    ∀ l : List SILInstruction, (l.map (fun i => i.id)).Nodup → (∀ i ∈ l, i.id ≠ new.id) →
      ((insertBeforeInList new t l).map (fun i => i.id)).Nodup
  | [], _, _ => List.nodup_nil
  | x :: l, h, hnew => by
    have hn := List.nodup_cons.1 (by simpa using h : (x.id :: l.map (fun i => i.id)).Nodup)
    by_cases hx : x.id = t
    · simp only [insertBeforeInList, hx, if_true, List.map_cons]
      refine List.nodup_cons.2 ⟨?_, by simpa [hx] using h⟩
      intro hmem
      rcases List.mem_cons.1 hmem with h1 | h1
      · exact hnew x (List.mem_cons_self _ _) (by rw [hx, h1])
      · obtain ⟨y, hy, hyid⟩ := List.mem_map.1 h1
        exact hnew y (List.mem_cons_of_mem _ hy) hyid
    · simp only [insertBeforeInList, hx, if_false, List.map_cons]
      refine List.nodup_cons.2 ⟨?_, nodup_insertBeforeInList new t l hn.2
        (fun i hi => hnew i (List.mem_cons_of_mem _ hi))⟩
      intro hmem
      obtain ⟨y, hy, hyid⟩ := List.mem_map.1 hmem
      rcases mem_insertBeforeInList hy with h1 | h1
      · rw [h1] at hyid
        exact hnew x (List.mem_cons_self _ _) hyid.symm
      · exact hn.1 (List.mem_map.2 ⟨y, h1, hyid⟩)

theorem withDeallocs_eq_flatMap (a : Nat) :
    ∀ (ts : List Nat) (n : Nat) (l : List SILInstruction),
      ts.Nodup → (∀ t ∈ ts, t < n) → (l.map (fun i => i.id)).Nodup →
      (∀ i ∈ l, i.id < n) →
      withDeallocs a n ts l = l.flatMap (deallocBefore a n ts)
  | [], n, l, _, _, _, _ => by
    simp only [withDeallocs, deallocBefore, List.not_mem_nil, if_false]
    exact (List.flatMap_singleton' l).symm
  | t :: ts, n, l, hts, hlt, hl, hfresh => by
    have hts2 := List.nodup_cons.1 hts
    have hnew : ∀ i ∈ l, i.id ≠ n := fun i hi => Nat.ne_of_lt (hfresh i hi)
    have hl2 : ((insertBeforeInList ⟨n, .DeallocStackInst, [.instruction a], none, [], 0⟩ t
        l).map (fun i => i.id)).Nodup :=
      nodup_insertBeforeInList _ t l hl hnew
    have hfresh2 : ∀ i ∈ insertBeforeInList
        ⟨n, .DeallocStackInst, [.instruction a], none, [], 0⟩ t l, i.id < n + 1 := by
      intro i hi
      rcases mem_insertBeforeInList hi with h | h
      · rw [h]
        exact Nat.lt_succ_self n
      · exact Nat.lt_succ_of_lt (hfresh i h)
    rw [withDeallocs, withDeallocs_eq_flatMap a ts (n + 1) _ hts2.2
      (fun t2 h2 => Nat.lt_succ_of_lt (hlt t2 (List.mem_cons_of_mem _ h2))) hl2 hfresh2,
      flatMap_insertBeforeInList _ _ _ _ hl]
    apply List.flatMap_congr
    intro i hi
    have hn_ts : n ∉ ts := fun h => Nat.lt_irrefl n (hlt n (List.mem_cons_of_mem _ h))
    by_cases hit : i.id = t
    · have hi_ts : i.id ∉ ts := by
        rw [hit]
        exact hts2.1
      simp [deallocBefore, hit, hn_ts, hts2.1]
    · by_cases hi2 : i.id ∈ ts
      · have hne : ¬ t = i.id := fun h => hit h.symm
        simp [deallocBefore, hit, hi2, List.indexOf_cons_ne _ hne]
        omega
      · simp [deallocBefore, hit, hi2]

/-- A builder call at the start of the entry block, after the instructions
`pre` created there before: the new instruction goes between `pre` and the
body. -/
theorem createAtEntry_eq (F : SILFunction) (eid : Nat) (eargs : List SILArgument)
    (pre body : List SILInstruction) (rest : List SILBasicBlock)
    (kind : SILInstructionKind) (ops : List SILValue) (ty : Option SILType)
    (hB : F.blocks = ⟨eid, eargs, pre ++ body⟩ :: rest)
    (hpre : ∀ y ∈ pre, ∀ first ∈ body.head?, y.id ≠ first.id)
    (hrest : ∀ BB ∈ rest, ∀ y ∈ BB.instructions, ∀ first ∈ body.head?, y.id ≠ first.id)
    (hrestid : ∀ BB ∈ rest, BB.id ≠ eid) :
    (F.create (SILBasicBlock.beginPoint ⟨eid, eargs, body⟩) kind ops ty).2 =
      { F with
        blocks := ⟨eid, eargs, pre ++ ⟨F.nextId, kind, ops, ty, [], 0⟩ :: body⟩ :: rest,
        nextId := F.nextId + 1 } := by
  obtain ⟨name, lt, ge, ho, blocks, n⟩ := F
  simp only at hB
  subst hB
  cases body with
  | nil =>
    have hrest0 : rest.map (fun BB => if BB.id = eid then
          ({ BB with instructions := BB.instructions ++ [⟨n, kind, ops, ty, [], 0⟩] } :
            SILBasicBlock)
          else BB) = rest := by
      conv => rhs; rw [← List.map_id rest]
      apply List.map_congr_left
      intro BB hBB
      simp [hrestid BB hBB]
    simp only [SILBasicBlock.beginPoint, SILFunction.create, SILFunction.createWith,
      SILFunction.insert, List.map_cons, if_true, List.append_nil, hrest0]
  | cons first tail =>
    have hrest0 : rest.map (fun BB =>
        ({ BB with
           instructions := insertBeforeInList ⟨n, kind, ops, ty, [], 0⟩ first.id
             BB.instructions } : SILBasicBlock)) = rest := by
      conv => rhs; rw [← List.map_id rest]
      apply List.map_congr_left
      intro BB hBB
      rw [insertBeforeInList_of_not_mem _ _ _
        (fun y hy => hrest BB hBB y hy first (by simp))]
      rfl
    simp only [SILBasicBlock.beginPoint, SILFunction.create, SILFunction.createWith,
      SILFunction.insert, List.map_cons,
      insertBeforeInList_append _ _ first tail rfl pre (fun y hy => hpre y hy first (by simp)),
      hrest0]

theorem SILFunction.WellFormed.rest_ne_head {F : SILFunction} {entry : SILBasicBlock}
    {rest : List SILBasicBlock} (hW : F.WellFormed) (hB : F.blocks = entry :: rest) :
    (∀ BB ∈ rest, ∀ y ∈ BB.instructions, ∀ first ∈ entry.instructions.head?,
      y.id ≠ first.id) ∧ ∀ BB ∈ rest, BB.id ≠ entry.id := by
  obtain ⟨hN, _, hBid⟩ := hW
  unfold SILFunction.allInstructions at hN
  rw [hB] at hN hBid
  constructor
  · intro BB hBB y hy first hfirst heq
    rw [List.flatMap_cons, List.map_append] at hN
    have hd := (List.nodup_append.1 hN).2.2
    have h1 : first ∈ entry.instructions := List.mem_of_mem_head? hfirst
    exact hd (List.mem_map.2 ⟨first, h1, rfl⟩)
      (List.mem_map.2 ⟨y, List.mem_flatMap.2 ⟨BB, hBB, hy⟩, heq⟩)
  · intro BB hBB heq
    rw [List.map_cons] at hBid
    exact (List.nodup_cons.1 hBid).1 (List.mem_map.2 ⟨BB, hBB, heq⟩)

theorem SILFunction.WellFormed.block_nodup {F : SILFunction} (hW : F.WellFormed) :
    ∀ BB ∈ F.blocks, (BB.instructions.map (fun i => i.id)).Nodup ∧
      ∀ i ∈ BB.instructions, i.id < F.nextId := by
  intro BB hBB
  obtain ⟨hN, hlt, _⟩ := hW
  constructor
  · unfold SILFunction.allInstructions at hN
    obtain ⟨l1, l2, hsplit⟩ := List.append_of_mem hBB
    rw [hsplit, List.flatMap_append, List.flatMap_cons, List.map_append, List.map_append] at hN
    exact (List.nodup_append.1 (List.nodup_append.1 hN).2.1).1
  · intro i hi
    exact hlt i (List.mem_flatMap.2 ⟨BB, hBB, hi⟩)

theorem flatMap_deallocBefore_of_fresh (a next : Nat) (ts : List Nat) :
    ∀ news : List SILInstruction, (∀ i ∈ news, i.id ∉ ts) →
      news.flatMap (deallocBefore a next ts) = news
  | [], _ => rfl
  | x :: news, h => by
    have hx : x.id ∉ ts := h x (List.mem_cons_self _ _)
    rw [List.flatMap_cons, flatMap_deallocBefore_of_fresh a next ts news
      (fun i hi => h i (List.mem_cons_of_mem _ hi))]
    simp [deallocBefore, hx]

/-- The blocks after the instructions `news`, with fresh identities, were put
at the start of the entry block and the loop over the exits has run. -/
theorem buffer_blocks (F : SILFunction) (entry : SILBasicBlock) (rest : List SILBasicBlock)
    (news : List SILInstruction) (a : Nat) (ts : List Nat)
    (hB : F.blocks = entry :: rest) (hW : F.WellFormed)
    (hnewsN : (news.map (fun i => i.id)).Nodup)
    (hnews : ∀ i ∈ news, F.nextId ≤ i.id ∧ i.id < F.nextId + news.length)
    (hts : ts.Nodup) (hlt : ∀ t ∈ ts, t < F.nextId) :
    (({ entry with instructions := news ++ entry.instructions } : SILBasicBlock) :: rest).map
      (fun BB =>
        ({ BB with
           instructions := withDeallocs a (F.nextId + news.length) ts BB.instructions } :
          SILBasicBlock)) =
      blocksWithBuffer F news a (F.nextId + news.length) ts := by
  have hlt2 : ∀ t ∈ ts, t < F.nextId + news.length :=
    fun t ht => Nat.lt_of_lt_of_le (hlt t ht) (Nat.le_add_right _ _)
  have hE := hW.block_nodup entry (by rw [hB]; exact List.mem_cons_self _ _)
  unfold blocksWithBuffer
  rw [hB, List.map_cons]
  congr 1
  · have hN : ((news ++ entry.instructions).map (fun i => i.id)).Nodup := by
      rw [List.map_append]
      refine List.nodup_append.2 ⟨hnewsN, hE.1, ?_⟩
      intro x hx1 hx2
      obtain ⟨i, hi, rfl⟩ := List.mem_map.1 hx1
      obtain ⟨j, hj, hij⟩ := List.mem_map.1 hx2
      have h1 := (hnews i hi).1
      have h2 := hE.2 j hj
      rw [hij] at h2
      exact Nat.lt_irrefl _ (Nat.lt_of_lt_of_le h2 h1)
    have hF : ∀ i ∈ news ++ entry.instructions, i.id < F.nextId + news.length := by
      intro i hi
      rcases List.mem_append.1 hi with h | h
      · exact (hnews i h).2
      · exact Nat.lt_of_lt_of_le (hE.2 i h) (Nat.le_add_right _ _)
    have hfr : ∀ i ∈ news, i.id ∉ ts := by
      intro i hi hmem
      exact Nat.lt_irrefl _ (Nat.lt_of_lt_of_le (hlt _ hmem) (hnews i hi).1)
    show ({ entry with instructions := _ } : SILBasicBlock) = _
    rw [withDeallocs_eq_flatMap a ts _ _ hts hlt2 hN hF, List.flatMap_append,
      flatMap_deallocBefore_of_fresh a _ ts news hfr]
  · apply List.map_congr_left
    intro BB hBB
    have hBn := hW.block_nodup BB (by rw [hB]; exact List.mem_cons_of_mem _ hBB)
    rw [withDeallocs_eq_flatMap a ts _ _ hts hlt2 hBn.1
      (fun i hi => Nat.lt_of_lt_of_le (hBn.2 i hi) (Nat.le_add_right _ _))]

/-- What `allocate` does to a well-formed function: the `alloc_stack` becomes
the first instruction of the entry block, and every exit gets a
`dealloc_stack` of it directly before it. -/
theorem allocate_eq (pass : StructLoweringState) (type : SILType) (entry : SILBasicBlock)
    (rest : List SILBasicBlock) (hB : pass.F.blocks = entry :: rest)
    (hW : pass.F.WellFormed) (hO : type.isObject = true) (hR : pass.returnInsts.Nodup)
    (hlt : ∀ t ∈ pass.returnInsts, t < pass.F.nextId) :
    allocate pass type =
      .ok (⟨pass.F.nextId, .AllocStackInst, [], some type.getAddressType, [], 0⟩,
        { pass with F := { pass.F with
            blocks := blocksWithBuffer pass.F
              [⟨pass.F.nextId, .AllocStackInst, [], some type.getAddressType, [], 0⟩]
              pass.F.nextId (pass.F.nextId + 1) pass.returnInsts,
            nextId := pass.F.nextId + 1 + pass.returnInsts.length } }) := by
  have hH := hW.rest_ne_head hB
  have hc := createAtEntry_eq pass.F entry.id entry.arguments [] entry.instructions rest
    .AllocStackInst [] (some type.getAddressType) (by rw [hB]; rfl)
    (fun y hy => absurd hy (List.not_mem_nil _)) hH.1 hH.2
  have hbb := buffer_blocks pass.F entry rest
    [⟨pass.F.nextId, .AllocStackInst, [], some type.getAddressType, [], 0⟩] pass.F.nextId
    pass.returnInsts hB hW (by simp) (by simp) hR hlt
  have hE : pass.F.getEntryBlock = some entry := by
    unfold SILFunction.getEntryBlock
    rw [hB]
    rfl
  unfold allocate
  simp only [hO, Bool.not_true, Bool.false_eq_true, if_false, hE]
  simp only [List.nil_append, List.singleton_append, List.length_singleton] at hc hbb
  refine congrArg Except.ok (Prod.ext rfl ?_)
  show List.foldl _ _ _ = _
  rw [deallocFold_eq]
  show ({ pass with F := _ } : StructLoweringState) = { pass with F := _ }
  have hc2 : (pass.F.create entry.beginPoint .AllocStackInst []
      (some type.getAddressType)).2 = _ := hc
  rw [hc2, ← hbb]
  rfl

/-- What `allocateForApply` does to a well-formed function: as `allocate`, and
the buffer is recorded for the call. -/
theorem allocateForApply_eq (pass : StructLoweringState) (apply : SILInstruction)
    (type : SILType) (entry : SILBasicBlock) (rest : List SILBasicBlock)
    (hB : pass.F.blocks = entry :: rest) (hW : pass.F.WellFormed)
    (hR : pass.returnInsts.Nodup) (hlt : ∀ t ∈ pass.returnInsts, t < pass.F.nextId) :
    LoadableStorageAllocation.allocateForApply pass apply type =
      .ok (⟨pass.F.nextId, .AllocStackInst, [], some type.getAddressType, [], 0⟩,
        { pass with
          F := { pass.F with
            blocks := blocksWithBuffer pass.F
              [⟨pass.F.nextId, .AllocStackInst, [], some type.getAddressType, [], 0⟩]
              pass.F.nextId (pass.F.nextId + 1) pass.returnInsts,
            nextId := pass.F.nextId + 1 + pass.returnInsts.length },
          largeLoadableArgs := pass.largeLoadableArgs ++ [.instruction pass.F.nextId],
          allocToApplyRetMap := mapVectorAssign pass.allocToApplyRetMap pass.F.nextId apply.id,
          applyRetToAllocMap := mapVectorAssign pass.applyRetToAllocMap apply.id
            (.instruction pass.F.nextId) }) := by
  have hH := hW.rest_ne_head hB
  have hc := createAtEntry_eq pass.F entry.id entry.arguments [] entry.instructions rest
    .AllocStackInst [] (some type.getAddressType) (by rw [hB]; rfl)
    (fun y hy => absurd hy (List.not_mem_nil _)) hH.1 hH.2
  have hbb := buffer_blocks pass.F entry rest
    [⟨pass.F.nextId, .AllocStackInst, [], some type.getAddressType, [], 0⟩] pass.F.nextId
    pass.returnInsts hB hW (by simp) (by simp) hR hlt
  have hE : pass.F.getEntryBlock = some entry := by
    unfold SILFunction.getEntryBlock
    rw [hB]
    rfl
  unfold LoadableStorageAllocation.allocateForApply
  simp only [hE]
  simp only [List.nil_append, List.singleton_append, List.length_singleton] at hc hbb
  refine congrArg Except.ok (Prod.ext rfl ?_)
  show List.foldl _ _ _ = _
  rw [deallocFold_eq]
  dsimp only
  have hc2 : (pass.F.create entry.beginPoint .AllocStackInst []
      (some type.getAddressType)).2 = _ := hc
  rw [hc2, ← hbb]
  rfl

theorem SILFunction.WellFormed.head_lt {F : SILFunction} {entry : SILBasicBlock}
    {rest : List SILBasicBlock} (hW : F.WellFormed) (hB : F.blocks = entry :: rest) :
    ∀ first ∈ entry.instructions.head?, first.id < F.nextId := by
  intro first hfirst
  exact (hW.block_nodup entry (by rw [hB]; exact List.mem_cons_self _ _)).2 first
    (List.mem_of_mem_head? hfirst)

/-- What `allocateForArg` does to a well-formed function for a block argument:
the buffer, the copy of the argument into it and the load of it become the
first instructions of the entry block, in this order, and every exit gets a
`dealloc_stack` of the buffer directly before it. -/
theorem allocateForArg_eq (pass : StructLoweringState) (a : Nat) (valueType : SILType)
    (entry : SILBasicBlock) (rest : List SILBasicBlock)
    (hB : pass.F.blocks = entry :: rest) (hW : pass.F.WellFormed)
    (hT : pass.F.getType (.argument a) = some valueType)
    (hR : pass.returnInsts.Nodup) (hlt : ∀ t ∈ pass.returnInsts, t < pass.F.nextId) :
    LoadableStorageAllocation.allocateForArg pass (.argument a) =
      .ok { pass with
        F := { pass.F with
          blocks := blocksWithBuffer pass.F
            (argumentBuffer pass.F.hasOwnership (.argument a) valueType pass.F.nextId)
            pass.F.nextId (pass.F.nextId + 3) pass.returnInsts,
          nextId := pass.F.nextId + 3 + pass.returnInsts.length },
        argsToLoadedValueMap := mapVectorAssign pass.argsToLoadedValueMap (.argument a)
          (.instruction (pass.F.nextId + 2)) } := by
  have hH := hW.rest_ne_head hB
  have hL := hW.head_lt hB
  have hbb : List.map _ _ = blocksWithBuffer pass.F
      (argumentBuffer pass.F.hasOwnership (.argument a) valueType pass.F.nextId)
      pass.F.nextId (pass.F.nextId + 3) pass.returnInsts :=
    buffer_blocks pass.F entry rest
      (argumentBuffer pass.F.hasOwnership (.argument a) valueType pass.F.nextId) pass.F.nextId
      pass.returnInsts hB hW (by simp [argumentBuffer])
      (by simp [argumentBuffer]) hR hlt
  have hE : pass.F.getEntryBlock = some entry := by
    unfold SILFunction.getEntryBlock
    rw [hB]
    rfl
  have hc1 := createAtEntry_eq pass.F entry.id entry.arguments [] entry.instructions rest
    .AllocStackInst [] (some valueType.getAddressType) (by rw [hB]; rfl)
    (fun y hy => absurd hy (List.not_mem_nil _)) hH.1 hH.2
  have hc2 := createAtEntry_eq
    { pass.F with
      blocks := ⟨entry.id, entry.arguments,
        [⟨pass.F.nextId, .AllocStackInst, [], some valueType.getAddressType, [], 0⟩] ++
          entry.instructions⟩ :: rest,
      nextId := pass.F.nextId + 1 }
    entry.id entry.arguments
    [⟨pass.F.nextId, .AllocStackInst, [], some valueType.getAddressType, [], 0⟩]
    entry.instructions rest (.CopyAddrInst true true)
    [.argument a, .instruction pass.F.nextId] none rfl
    (by
      intro y hy first hfirst
      rw [List.mem_singleton.1 hy]
      exact Nat.ne_of_gt (hL first hfirst)) hH.1 hH.2
  have hc3 := fun (q : LoadOwnershipQualifier) => createAtEntry_eq
    { pass.F with
      blocks := ⟨entry.id, entry.arguments,
        [⟨pass.F.nextId, .AllocStackInst, [], some valueType.getAddressType, [], 0⟩,
          ⟨pass.F.nextId + 1, .CopyAddrInst true true,
            [.argument a, .instruction pass.F.nextId], none, [], 0⟩] ++
          entry.instructions⟩ :: rest,
      nextId := pass.F.nextId + 1 + 1 }
    entry.id entry.arguments
    [⟨pass.F.nextId, .AllocStackInst, [], some valueType.getAddressType, [], 0⟩,
      ⟨pass.F.nextId + 1, .CopyAddrInst true true,
        [.argument a, .instruction pass.F.nextId], none, [], 0⟩]
    entry.instructions rest (.LoadInst q)
    [.instruction pass.F.nextId] (some valueType.getObjectType) rfl
    (by
      intro y hy first hfirst
      have hf := hL first hfirst
      rcases List.mem_cons.1 hy with h | h
      · rw [h]
        exact Nat.ne_of_gt hf
      · rw [List.mem_singleton.1 h]
        exact Nat.ne_of_gt (Nat.lt_succ_of_lt hf)) hH.1 hH.2
  simp only [List.nil_append, List.singleton_append, List.cons_append] at hc1 hc2 hc3
  have hc1b : (pass.F.create entry.beginPoint .AllocStackInst []
      (some valueType.getAddressType)).2 = _ := hc1
  have hc2b : (SILFunction.create _ entry.beginPoint (.CopyAddrInst true true)
      [.argument a, .instruction (pass.F.create entry.beginPoint .AllocStackInst []
        (some valueType.getAddressType)).1.id] none).2 = _ := hc2
  have hc3b : ∀ q, (SILFunction.create _ entry.beginPoint (.LoadInst q)
      [.instruction (pass.F.create entry.beginPoint .AllocStackInst []
        (some valueType.getAddressType)).1.id] (some valueType.getObjectType)).2 = _ := hc3
  unfold LoadableStorageAllocation.allocateForArg
  simp only [Option.isSome_none, Bool.false_eq_true, if_false, hE, hT]
  refine congrArg Except.ok ?_
  show List.foldl _ _ _ = _
  rw [deallocFold_eq]
  unfold createOutlinedCopyCall
  dsimp only
  rw [hc1b]
  cases hOwn : pass.F.hasOwnership
  · simp only [hOwn] at hc2b hc3b hbb
    simp only [Bool.not_false, if_true]
    rw [hc2b, hc3b, ← hbb]
    rfl
  · simp only [hOwn] at hc2b hc3b hbb
    simp only [Bool.not_true, Bool.false_eq_true, if_false]
    rw [hc2b, hc3b, ← hbb]
    rfl

/-! ## One deallocation of a buffer for each exit -/

theorem mapReturnInstrs_fold (blocks : List SILBasicBlock) :
    ∀ pass : StructLoweringState,
      (blocks.foldl (fun (p : StructLoweringState) BB =>
        match BB.getTerminator with
        | some term =>
          if term.isFunctionExiting then { p with returnInsts := p.returnInsts ++ [term.id] }
          else p
        | none => p) pass).returnInsts =
      pass.returnInsts ++ blocks.filterMap SILBasicBlock.exit := by
  induction blocks with
  | nil =>
    intro pass
    simp
  | cons BB rest ih =>
    intro pass
    rw [List.foldl_cons, ih]
    unfold SILBasicBlock.exit
    cases hT : BB.getTerminator with
    | none => simp [List.filterMap_cons, hT]
    | some term =>
      by_cases hX : term.isFunctionExiting = true
      · simp [List.filterMap_cons, hT, hX]
      · simp [List.filterMap_cons, hT, hX]

theorem mapReturnInstrs_returnInsts (pass : StructLoweringState) :
    (LargeValueVisitor.mapReturnInstrs pass).returnInsts =
      pass.returnInsts ++ (getReversePostOrder pass.F).filterMap SILBasicBlock.exit := by
  unfold LargeValueVisitor.mapReturnInstrs
  exact mapReturnInstrs_fold _ pass

theorem length_filter_mem_of_nodup (R : List Nat) :
    ∀ l : List SILInstruction, (l.map (fun i => i.id)).Nodup → R.Nodup →
      (∀ t ∈ R, ∃ i ∈ l, i.id = t) →
      (l.filter (fun i => decide (i.id ∈ R))).length = R.length := by
  intro l hl hR hIn
  have h1 : ((l.filter (fun i => decide (i.id ∈ R))).map (fun i => i.id)).Nodup := by
    exact (List.Sublist.map _ (List.filter_sublist l)).nodup hl
  have h2 : ((l.filter (fun i => decide (i.id ∈ R))).map (fun i => i.id)).Perm R := by
    refine (List.perm_ext_iff_of_nodup h1 hR).2 ?_
    intro x
    constructor
    · intro hx
      obtain ⟨i, hi, rfl⟩ := List.mem_map.1 hx
      simpa using (List.mem_filter.1 hi).2
    · intro hx
      obtain ⟨i, hi, hid⟩ := hIn x hx
      exact List.mem_map.2 ⟨i, List.mem_filter.2 ⟨hi, by simpa [hid] using hx⟩, hid⟩
  rw [← h2.length_eq, List.length_map]

theorem deallocationsOf_flatMap (a next : Nat) (R : List Nat) :
    ∀ l : List SILInstruction, (∀ i ∈ l, i.operands ≠ [.instruction a]) →
      (deallocationsOf a (l.flatMap (deallocBefore a next R))).length =
        (l.filter (fun i => decide (i.id ∈ R))).length
  | [], _ => rfl
  | x :: l, h => by
    have hx : x.operands ≠ [.instruction a] := h x (List.mem_cons_self _ _)
    have ih := deallocationsOf_flatMap a next R l (fun i hi => h i (List.mem_cons_of_mem _ hi))
    unfold deallocationsOf at ih ⊢
    rw [List.flatMap_cons, List.filter_append, List.length_append, ih]
    by_cases hm : x.id ∈ R
    · simp [deallocBefore, hm, List.filter_cons, hx]
      omega
    · simp [deallocBefore, hm, List.filter_cons, hx]

theorem allInstructions_blocksWithBuffer (F : SILFunction) (news : List SILInstruction)
    (a next : Nat) (R : List Nat) (hne : F.blocks ≠ []) :
    (blocksWithBuffer F news a next R).flatMap (fun BB => BB.instructions) =
      news ++ F.allInstructions.flatMap (deallocBefore a next R) := by
  unfold blocksWithBuffer SILFunction.allInstructions
  cases hB : F.blocks with
  | nil => exact absurd hB hne
  | cons entry rest =>
    simp only [List.flatMap_cons, List.flatMap_append, List.append_assoc, List.flatMap_map]
    rw [List.flatMap_assoc]

theorem deallocatedOncePerExit_blocksWithBuffer (F : SILFunction)
    (news : List SILInstruction) (n next m : Nat) (R : List Nat) (entry : SILBasicBlock)
    (rest : List SILBasicBlock) (hB : F.blocks = entry :: rest) (hW : F.WellFormed)
    (hnews : ∀ i ∈ news, i.kind ≠ SILInstructionKind.DeallocStackInst) (hR : R.Nodup)
    (hIn : ∀ t ∈ R, ∃ i ∈ F.allInstructions, i.id = t)
    (hUse : ∀ i ∈ F.allInstructions, i.operands ≠ [.instruction n]) :
    DeallocatedOncePerExit n R
      { F with blocks := blocksWithBuffer F news n next R, nextId := m } := by
  constructor
  · show (deallocationsOf n ((blocksWithBuffer F news n next R).flatMap
      (fun BB => BB.instructions))).length = R.length
    rw [allInstructions_blocksWithBuffer F news n next R (by rw [hB]; exact List.cons_ne_nil _ _)]
    have h0 : deallocationsOf n news = [] := by
      unfold deallocationsOf
      apply List.filter_eq_nil_iff.2
      intro i hi
      simp [hnews i hi]
    have h1 : deallocationsOf n (news ++ F.allInstructions.flatMap (deallocBefore n next R)) =
        deallocationsOf n news ++
          deallocationsOf n (F.allInstructions.flatMap (deallocBefore n next R)) := by
      unfold deallocationsOf
      rw [List.filter_append]
    rw [h1, h0, List.nil_append, deallocationsOf_flatMap n next R _ hUse,
      length_filter_mem_of_nodup R _ hW.1 hR hIn]
  · intro t ht
    obtain ⟨i, hi, hid⟩ := hIn t ht
    unfold SILFunction.allInstructions at hi
    obtain ⟨BB, hBB, hiBB⟩ := List.mem_flatMap.1 hi
    obtain ⟨pre, post, hsplit⟩ := List.append_of_mem hiBB
    have hmem : i.id ∈ R := by rw [hid]; exact ht
    have hf : BB.instructions.flatMap (deallocBefore n next R) =
        pre.flatMap (deallocBefore n next R) ++
          ⟨next + R.indexOf i.id, .DeallocStackInst, [.instruction n], none, [], 0⟩ :: i ::
          post.flatMap (deallocBefore n next R) := by
      rw [hsplit, List.flatMap_append, List.flatMap_cons]
      simp [deallocBefore, hmem]
    show ∃ BB2 ∈ blocksWithBuffer F news n next R, _
    unfold blocksWithBuffer
    rw [hB] at hBB ⊢
    rcases List.mem_cons.1 hBB with h | h
    · subst h
      refine ⟨_, List.mem_cons_self _ _, news ++ pre.flatMap (deallocBefore n next R),
        post.flatMap (deallocBefore n next R),
        ⟨next + R.indexOf i.id, .DeallocStackInst, [.instruction n], none, [], 0⟩, i, ?_, hid,
        rfl, rfl⟩
      show news ++ _ = _
      rw [hf, List.append_assoc]
    · refine ⟨{ BB with instructions := BB.instructions.flatMap (deallocBefore n next R) },
        List.mem_cons_of_mem _ (List.mem_map.2 ⟨BB, h, rfl⟩),
        pre.flatMap (deallocBefore n next R), post.flatMap (deallocBefore n next R),
        ⟨next + R.indexOf i.id, .DeallocStackInst, [.instruction n], none, [], 0⟩, i,
        hf, hid, rfl, rfl⟩

end LoadableByAddress

namespace LoadableByAddress

/-! ## The worklists at the start and at the end of the rewriting -/

/-- C21, refuted as stated: on the toy target the pass over `callsBigProducer`,
a function that calls a function returning a large struct, reaches
`rewriteFunction` with the call on the call worklist, and `rewriteFunction`
returns with the call still on it. -/
theorem rewriteFunction_leaves_call_on_worklist :
    LoadableStorageAllocation.allocateLoadableStorage
      (StructLoweringState.new callsBigProducer LargeSILTypeMapper.new) toyModule 10 =
      .ok callsBigProducerAllocated ∧
    rewriteFunctionReturn callsBigProducerAllocated toyModule 10 =
      .ok (false, callsBigProducerAllocated) ∧
    rewriteFunction callsBigProducerAllocated toyModule 10 = .ok callsBigProducerAllocated ∧
    callsBigProducerAllocated.applies = [1] ∧
    callsBigProducerAllocated.applies ≠ [] :=
  ⟨callsBigProducer_allocated, callsBigProducer_return, callsBigProducer_rewritten, rfl,
    by decide⟩

/-- C21, amended: every worklist of a fresh state is empty, and when
`rewriteFunction` returns, the worklists it pops from or clears
(`switchEnumInstsToMod`, `structExtractInstsToMod`, `modYieldInsts`,
`allocStackInstsToMod`, `pointerToAddrkInstsToMod`, `modReturnInsts`) are
empty.  The call worklist and the worklists it only iterates are not drained:
when `rewriteFunction` returns they hold what its first loop,
`rewriteUntilStable` (which pops the calls and appends them again, and
replaces entries of `resultTyInstsToMod`), left in them. -/
theorem rewriteFunction_worklists (F : SILFunction) (Mapper : LargeSILTypeMapper)
    (pass q : StructLoweringState) (Mod : IRGenModule) (fuel : Nat)
    (h : rewriteFunction pass Mod fuel = .ok q) :
    (∀ w ∈ (StructLoweringState.new F Mapper).worklists, w = []) ∧
    (q.switchEnumInstsToMod = [] ∧ q.structExtractInstsToMod = [] ∧ q.modYieldInsts = [] ∧
      q.allocStackInstsToMod = [] ∧ q.pointerToAddrkInstsToMod = [] ∧
      q.modReturnInsts = []) ∧
    ∃ p0, rewriteUntilStable Mod fuel fuel (pass, []) = .ok p0 ∧
      q.applies = p0.applies ∧ q.instsToMod = p0.instsToMod ∧
      q.tupleInstsToMod = p0.tupleInstsToMod ∧ q.debugInstsToMod = p0.debugInstsToMod ∧
      q.destroyValueInstsToMod = p0.destroyValueInstsToMod ∧
      q.storeInstsToMod = p0.storeInstsToMod ∧ q.retainInstsToMod = p0.retainInstsToMod ∧
      q.releaseInstsToMod = p0.releaseInstsToMod ∧
      q.resultTyInstsToMod = p0.resultTyInstsToMod ∧
      q.methodInstsToMod = p0.methodInstsToMod := by
  refine ⟨?_, rewriteFunction_drained h⟩
  intro w hw
  simp only [StructLoweringState.worklists, StructLoweringState.onceWorklists,
    StructLoweringState.perOperandWorklists, StructLoweringState.new, List.cons_append,
    List.nil_append, List.mem_cons, List.mem_singleton, List.not_mem_nil, or_false,
    or_self] at hw
  exact hw

/-- C21 amended, on the toy target at the pass over `callsBigProducer`. -/
theorem rewriteFunction_worklists_witness :
    (∀ w ∈ (StructLoweringState.new callsBigProducer LargeSILTypeMapper.new).worklists,
      w = []) ∧
    (callsBigProducerAllocated.switchEnumInstsToMod = [] ∧
      callsBigProducerAllocated.structExtractInstsToMod = [] ∧
      callsBigProducerAllocated.modYieldInsts = [] ∧
      callsBigProducerAllocated.allocStackInstsToMod = [] ∧
      callsBigProducerAllocated.pointerToAddrkInstsToMod = [] ∧
      callsBigProducerAllocated.modReturnInsts = []) ∧
    ∃ p0, rewriteUntilStable toyModule 10 10 (callsBigProducerAllocated, []) = .ok p0 ∧
      callsBigProducerAllocated.applies = p0.applies ∧
      callsBigProducerAllocated.instsToMod = p0.instsToMod ∧
      callsBigProducerAllocated.tupleInstsToMod = p0.tupleInstsToMod ∧
      callsBigProducerAllocated.debugInstsToMod = p0.debugInstsToMod ∧
      callsBigProducerAllocated.destroyValueInstsToMod = p0.destroyValueInstsToMod ∧
      callsBigProducerAllocated.storeInstsToMod = p0.storeInstsToMod ∧
      callsBigProducerAllocated.retainInstsToMod = p0.retainInstsToMod ∧
      callsBigProducerAllocated.releaseInstsToMod = p0.releaseInstsToMod ∧
      callsBigProducerAllocated.resultTyInstsToMod = p0.resultTyInstsToMod ∧
      callsBigProducerAllocated.methodInstsToMod = p0.methodInstsToMod :=
  rewriteFunction_worklists callsBigProducer LargeSILTypeMapper.new callsBigProducerAllocated
    callsBigProducerAllocated toyModule 10 callsBigProducer_rewritten

/-! ## The set of changed functions -/

/-- C23: the claim fails on the code, against the comments of the code.  On
the toy target `runOnFunction` places `callsBigProducer`, of the signature
`() -> ()`, in `modFuncs` and leaves its signature as it is, and
`getNewSILFunctionType` of the signature is the signature itself: the function
only calls a function with a large result, and the buffer of that result
stands in `largeLoadableArgs` (line 1668), which line 2435 tests under the
comment "If we modified the function arguments". -/
theorem runOnFunction_records_function_with_unchanged_signature :
    ModuleTransform.runOnFunction ModuleTransform.new toyModule 10 callsBigProducer =
      .ok (callsBigProducerRewritten, callsBigProducerTransform) ∧
    ModuleTransform.new.modFuncs = [] ∧
    callsBigProducerTransform.modFuncs = [callsBigProducer.name] ∧
    callsBigProducerRewritten.loweredType = callsBigProducer.loweredType ∧
    callsBigProducerAllocated.largeLoadableArgs = [.instruction 4] ∧
    callsBigProducerAllocated.funcSigArgs = [] ∧
    ∃ Mapper2, LargeSILTypeMapper.getNewSILFunctionType toyModule 1000
      callsBigProducer.getSubstGenericEnvironment callsBigProducer.loweredType
      LargeSILTypeMapper.new = .ok (callsBigProducer.loweredType, Mapper2) :=
  ⟨callsBigProducer_run, rfl, rfl, rfl, rfl, rfl, ⟨_, rfl⟩⟩

/-! ## Stack buffers -/

/-- C29: in a function with distinct instruction and block identities, for a
state whose exits `returnInsts` are distinct instructions made before,
`allocate`, `allocateForApply` and `allocateForArg` (for a block argument)
return, and the function they leave is the one described by
`blocksWithBuffer`: the new `alloc_stack` (for `allocateForArg` followed by the
copy and the load) stands at the very start of the entry block, so before
every allocation made earlier, and every exit has the new `dealloc_stack`
directly before it, so after every instruction that stood before the exit,
the deallocations made earlier among them; nothing else is moved. -/
theorem buffers_nested (pass : StructLoweringState) (apply : SILInstruction)
    (type : SILType) (a : Nat) (valueType : SILType) (entry : SILBasicBlock)
    (rest : List SILBasicBlock)
    (hB : pass.F.blocks = entry :: rest) (hW : pass.F.WellFormed)
    (hO : type.isObject = true)
    (hT : pass.F.getType (.argument a) = some valueType)
    (hR : pass.returnInsts.Nodup) (hlt : ∀ t ∈ pass.returnInsts, t < pass.F.nextId) :
    allocate pass type =
      .ok (⟨pass.F.nextId, .AllocStackInst, [], some type.getAddressType, [], 0⟩,
        { pass with F := { pass.F with
            blocks := blocksWithBuffer pass.F
              [⟨pass.F.nextId, .AllocStackInst, [], some type.getAddressType, [], 0⟩]
              pass.F.nextId (pass.F.nextId + 1) pass.returnInsts,
            nextId := pass.F.nextId + 1 + pass.returnInsts.length } }) ∧
    LoadableStorageAllocation.allocateForApply pass apply type =
      .ok (⟨pass.F.nextId, .AllocStackInst, [], some type.getAddressType, [], 0⟩,
        { pass with
          F := { pass.F with
            blocks := blocksWithBuffer pass.F
              [⟨pass.F.nextId, .AllocStackInst, [], some type.getAddressType, [], 0⟩]
              pass.F.nextId (pass.F.nextId + 1) pass.returnInsts,
            nextId := pass.F.nextId + 1 + pass.returnInsts.length },
          largeLoadableArgs := pass.largeLoadableArgs ++ [.instruction pass.F.nextId],
          allocToApplyRetMap := mapVectorAssign pass.allocToApplyRetMap pass.F.nextId apply.id,
          applyRetToAllocMap := mapVectorAssign pass.applyRetToAllocMap apply.id
            (.instruction pass.F.nextId) }) ∧
    LoadableStorageAllocation.allocateForArg pass (.argument a) =
      .ok { pass with
        F := { pass.F with
          blocks := blocksWithBuffer pass.F
            (argumentBuffer pass.F.hasOwnership (.argument a) valueType pass.F.nextId)
            pass.F.nextId (pass.F.nextId + 3) pass.returnInsts,
          nextId := pass.F.nextId + 3 + pass.returnInsts.length },
        argsToLoadedValueMap := mapVectorAssign pass.argsToLoadedValueMap (.argument a)
          (.instruction (pass.F.nextId + 2)) } ∧
    (∀ (entryNew : List SILInstruction) (next : Nat),
      blocksWithBuffer pass.F entryNew pass.F.nextId next pass.returnInsts =
        { entry with
          instructions := entryNew ++ entry.instructions.flatMap
            (deallocBefore pass.F.nextId next pass.returnInsts) } ::
        rest.map (fun BB =>
          { BB with
            instructions := BB.instructions.flatMap
              (deallocBefore pass.F.nextId next pass.returnInsts) })) ∧
    ∀ (next : Nat) (before after : List SILInstruction) (exit : SILInstruction),
      exit.id ∈ pass.returnInsts →
      (before ++ exit :: after).flatMap (deallocBefore pass.F.nextId next pass.returnInsts) =
        before.flatMap (deallocBefore pass.F.nextId next pass.returnInsts) ++
          ⟨next + pass.returnInsts.indexOf exit.id, .DeallocStackInst,
            [.instruction pass.F.nextId], none, [], 0⟩ :: exit ::
          after.flatMap (deallocBefore pass.F.nextId next pass.returnInsts) := by
  refine ⟨allocate_eq pass type entry rest hB hW hO hR hlt,
    allocateForApply_eq pass apply type entry rest hB hW hR hlt,
    allocateForArg_eq pass a valueType entry rest hB hW hT hR hlt, ?_, ?_⟩
  · intro entryNew next
    unfold blocksWithBuffer
    rw [hB]
  · intro next before after exit hexit
    rw [List.flatMap_append, List.flatMap_cons]
    simp [deallocBefore, hexit]

/-- C29, on the toy target at the state of the pass over
`usesTwoLargeArguments` after the scan: the buffer of the first argument, with
its copy and its load, stands first and is deallocated directly before the
return; after the buffer of the second argument is made, it stands before the
buffer of the first one and is deallocated after it. -/
theorem buffers_nested_witness :
    LoadableStorageAllocation.allocateForArg usesTwoLargeArgumentsScanned (.argument 5) =
      .ok usesTwoLargeArgumentsFirstBuffer ∧
    LoadableStorageAllocation.allocateForArg usesTwoLargeArgumentsFirstBuffer (.argument 6) =
      .ok usesTwoLargeArgumentsAllocated ∧
    usesTwoLargeArgumentsAllocated.F.blocks.map
        (fun BB => BB.instructions.map (fun i => (i.id, i.kind, i.operands))) =
      [[(11, .AllocStackInst, []),
        (12, .CopyAddrInst true true, [.argument 6, .instruction 11]),
        (13, .LoadInst .Unqualified, [.instruction 11]),
        (7, .AllocStackInst, []),
        (8, .CopyAddrInst true true, [.argument 5, .instruction 7]),
        (9, .LoadInst .Unqualified, [.instruction 7]),
        (2, .Other 0, [.argument 5, .argument 6]),
        (3, .TupleInst, []),
        (10, .DeallocStackInst, [.instruction 7]),
        (14, .DeallocStackInst, [.instruction 11]),
        (4, .ReturnInst, [.instruction 3])]] ∧
    (allocate usesTwoLargeArgumentsScanned ⟨BigStruct, .Object⟩ =
      .ok (⟨usesTwoLargeArgumentsScanned.F.nextId, .AllocStackInst, [], some (SILType.getAddressType ⟨BigStruct, .Object⟩), [], 0⟩,
        { usesTwoLargeArgumentsScanned with F := { usesTwoLargeArgumentsScanned.F with
            blocks := blocksWithBuffer usesTwoLargeArgumentsScanned.F
              [⟨usesTwoLargeArgumentsScanned.F.nextId, .AllocStackInst, [], some (SILType.getAddressType ⟨BigStruct, .Object⟩), [], 0⟩]
              usesTwoLargeArgumentsScanned.F.nextId (usesTwoLargeArgumentsScanned.F.nextId + 1) usesTwoLargeArgumentsScanned.returnInsts,
            nextId := usesTwoLargeArgumentsScanned.F.nextId + 1 + usesTwoLargeArgumentsScanned.returnInsts.length } }) ∧
    LoadableStorageAllocation.allocateForApply usesTwoLargeArgumentsScanned (⟨2, .Other 0, [.argument 5, .argument 6], some ⟨.nominal .Struct 16, .Object⟩, [], 0⟩ : SILInstruction) ⟨BigStruct, .Object⟩ =
      .ok (⟨usesTwoLargeArgumentsScanned.F.nextId, .AllocStackInst, [], some (SILType.getAddressType ⟨BigStruct, .Object⟩), [], 0⟩,
        { usesTwoLargeArgumentsScanned with
          F := { usesTwoLargeArgumentsScanned.F with
            blocks := blocksWithBuffer usesTwoLargeArgumentsScanned.F
              [⟨usesTwoLargeArgumentsScanned.F.nextId, .AllocStackInst, [], some (SILType.getAddressType ⟨BigStruct, .Object⟩), [], 0⟩]
              usesTwoLargeArgumentsScanned.F.nextId (usesTwoLargeArgumentsScanned.F.nextId + 1) usesTwoLargeArgumentsScanned.returnInsts,
            nextId := usesTwoLargeArgumentsScanned.F.nextId + 1 + usesTwoLargeArgumentsScanned.returnInsts.length },
          largeLoadableArgs := usesTwoLargeArgumentsScanned.largeLoadableArgs ++ [.instruction usesTwoLargeArgumentsScanned.F.nextId],
          allocToApplyRetMap := mapVectorAssign usesTwoLargeArgumentsScanned.allocToApplyRetMap usesTwoLargeArgumentsScanned.F.nextId (⟨2, .Other 0, [.argument 5, .argument 6], some ⟨.nominal .Struct 16, .Object⟩, [], 0⟩ : SILInstruction).id,
          applyRetToAllocMap := mapVectorAssign usesTwoLargeArgumentsScanned.applyRetToAllocMap (⟨2, .Other 0, [.argument 5, .argument 6], some ⟨.nominal .Struct 16, .Object⟩, [], 0⟩ : SILInstruction).id
            (.instruction usesTwoLargeArgumentsScanned.F.nextId) }) ∧
    LoadableStorageAllocation.allocateForArg usesTwoLargeArgumentsScanned (.argument 5) =
      .ok { usesTwoLargeArgumentsScanned with
        F := { usesTwoLargeArgumentsScanned.F with
          blocks := blocksWithBuffer usesTwoLargeArgumentsScanned.F
            (argumentBuffer usesTwoLargeArgumentsScanned.F.hasOwnership (.argument 5) (⟨BigStruct, .Address⟩ : SILType) usesTwoLargeArgumentsScanned.F.nextId)
            usesTwoLargeArgumentsScanned.F.nextId (usesTwoLargeArgumentsScanned.F.nextId + 3) usesTwoLargeArgumentsScanned.returnInsts,
          nextId := usesTwoLargeArgumentsScanned.F.nextId + 3 + usesTwoLargeArgumentsScanned.returnInsts.length },
        argsToLoadedValueMap := mapVectorAssign usesTwoLargeArgumentsScanned.argsToLoadedValueMap (.argument 5)
          (.instruction (usesTwoLargeArgumentsScanned.F.nextId + 2)) } ∧
    (∀ (entryNew : List SILInstruction) (next : Nat),
      blocksWithBuffer usesTwoLargeArgumentsScanned.F entryNew usesTwoLargeArgumentsScanned.F.nextId next usesTwoLargeArgumentsScanned.returnInsts =
        { usesTwoLargeArgumentsScannedEntry with
          instructions := entryNew ++ usesTwoLargeArgumentsScannedEntry.instructions.flatMap
            (deallocBefore usesTwoLargeArgumentsScanned.F.nextId next usesTwoLargeArgumentsScanned.returnInsts) } ::
        ([] : List SILBasicBlock).map (fun BB =>
          { BB with
            instructions := BB.instructions.flatMap
              (deallocBefore usesTwoLargeArgumentsScanned.F.nextId next usesTwoLargeArgumentsScanned.returnInsts) })) ∧
    ∀ (next : Nat) (before after : List SILInstruction) (exit : SILInstruction),
      exit.id ∈ usesTwoLargeArgumentsScanned.returnInsts →
      (before ++ exit :: after).flatMap (deallocBefore usesTwoLargeArgumentsScanned.F.nextId next usesTwoLargeArgumentsScanned.returnInsts) =
        before.flatMap (deallocBefore usesTwoLargeArgumentsScanned.F.nextId next usesTwoLargeArgumentsScanned.returnInsts) ++
          ⟨next + usesTwoLargeArgumentsScanned.returnInsts.indexOf exit.id, .DeallocStackInst,
            [.instruction usesTwoLargeArgumentsScanned.F.nextId], none, [], 0⟩ :: exit ::
          after.flatMap (deallocBefore usesTwoLargeArgumentsScanned.F.nextId next usesTwoLargeArgumentsScanned.returnInsts)) :=
  ⟨by decide, by decide, by decide,
    buffers_nested usesTwoLargeArgumentsScanned
      ⟨2, .Other 0, [.argument 5, .argument 6], some ⟨.nominal .Struct 16, .Object⟩, [], 0⟩
      ⟨BigStruct, .Object⟩ 5 ⟨BigStruct, .Address⟩ usesTwoLargeArgumentsScannedEntry [] rfl
      ⟨by decide, by decide, by decide⟩ rfl rfl (by decide) (by decide)⟩

/-- The buffers at the time they are made: the exits `returnInsts` that
`mapReturnInstrs` records for a fresh state are the function-exiting
terminators of the blocks reachable from the entry block; and in a function
with distinct instruction and block identities whose instructions use no
value of the identity to come, for a state whose exits are distinct
instructions of the function, each of `allocate`, `allocateForApply` and
`allocateForArg` (for a block argument) returns, and in the function it
leaves the new buffer has as many deallocations as there are exits, one
directly before each of them. -/
theorem buffer_deallocated_once_per_exit (pass : StructLoweringState)
    (apply : SILInstruction) (type : SILType) (a : Nat) (valueType : SILType)
    (entry : SILBasicBlock) (rest : List SILBasicBlock)
    (hB : pass.F.blocks = entry :: rest) (hW : pass.F.WellFormed)
    (hO : type.isObject = true)
    (hT : pass.F.getType (.argument a) = some valueType)
    (hR : pass.returnInsts.Nodup)
    (hIn : ∀ t ∈ pass.returnInsts, ∃ i ∈ pass.F.allInstructions, i.id = t)
    (hUse : ∀ i ∈ pass.F.allInstructions, i.operands ≠ [.instruction pass.F.nextId]) :
    (∀ (F : SILFunction) (Mapper : LargeSILTypeMapper),
      (LargeValueVisitor.mapReturnInstrs (StructLoweringState.new F Mapper)).returnInsts =
        (getReversePostOrder F).filterMap SILBasicBlock.exit) ∧
    (∃ alloc pass2, allocate pass type = .ok (alloc, pass2) ∧ alloc.id = pass.F.nextId ∧
      alloc.kind = SILInstructionKind.AllocStackInst ∧
      DeallocatedOncePerExit alloc.id pass.returnInsts pass2.F) ∧
    (∃ alloc pass2, LoadableStorageAllocation.allocateForApply pass apply type =
        .ok (alloc, pass2) ∧ alloc.id = pass.F.nextId ∧
      alloc.kind = SILInstructionKind.AllocStackInst ∧
      DeallocatedOncePerExit alloc.id pass.returnInsts pass2.F) ∧
    (∃ pass2, LoadableStorageAllocation.allocateForArg pass (.argument a) = .ok pass2 ∧
      DeallocatedOncePerExit pass.F.nextId pass.returnInsts pass2.F) := by
  have hlt : ∀ t ∈ pass.returnInsts, t < pass.F.nextId := by
    intro t ht
    obtain ⟨i, hi, hid⟩ := hIn t ht
    rw [← hid]
    exact hW.2.1 i hi
  refine ⟨?_, ?_, ?_, ?_⟩
  · intro F Mapper
    rw [mapReturnInstrs_returnInsts]
    rfl
  · refine ⟨_, _, allocate_eq pass type entry rest hB hW hO hR hlt, rfl, rfl, ?_⟩
    exact deallocatedOncePerExit_blocksWithBuffer pass.F _ _ _ _ _ entry rest hB hW
      (by simp) hR hIn hUse
  · refine ⟨_, _, allocateForApply_eq pass apply type entry rest hB hW hR hlt, rfl, rfl, ?_⟩
    exact deallocatedOncePerExit_blocksWithBuffer pass.F _ _ _ _ _ entry rest hB hW
      (by simp) hR hIn hUse
  · refine ⟨_, allocateForArg_eq pass a valueType entry rest hB hW hT hR hlt, ?_⟩
    exact deallocatedOncePerExit_blocksWithBuffer pass.F _ _ _ _ _ entry rest hB hW
      (by simp [argumentBuffer]) hR hIn hUse

/-- The buffers at the time they are made, on the toy target at the state of
the pass over `usesTwoLargeArguments` after the scan, whose only exit is the
return number 4: the buffer number 7 gets the one deallocation number 10,
directly before the return. -/
theorem buffer_deallocated_once_per_exit_witness :
    usesTwoLargeArgumentsScanned.returnInsts = [4] ∧
    deallocationsOf 7 usesTwoLargeArgumentsFirstBuffer.F.allInstructions =
      [⟨10, .DeallocStackInst, [.instruction 7], none, [], 0⟩] ∧
    (getReversePostOrder returnsWithUnreachableBlock).filterMap SILBasicBlock.exit = [1] ∧
    (∀ (F : SILFunction) (Mapper : LargeSILTypeMapper),
      (LargeValueVisitor.mapReturnInstrs (StructLoweringState.new F Mapper)).returnInsts =
        (getReversePostOrder F).filterMap SILBasicBlock.exit) ∧
    (∃ alloc pass2, allocate usesTwoLargeArgumentsScanned ⟨BigStruct, .Object⟩ = .ok (alloc, pass2) ∧ alloc.id = usesTwoLargeArgumentsScanned.F.nextId ∧
      alloc.kind = SILInstructionKind.AllocStackInst ∧
      DeallocatedOncePerExit alloc.id usesTwoLargeArgumentsScanned.returnInsts pass2.F) ∧
    (∃ alloc pass2, LoadableStorageAllocation.allocateForApply usesTwoLargeArgumentsScanned (⟨2, .Other 0, [.argument 5, .argument 6], some ⟨.nominal .Struct 16, .Object⟩, [], 0⟩ :
        SILInstruction) ⟨BigStruct, .Object⟩ =
        .ok (alloc, pass2) ∧ alloc.id = usesTwoLargeArgumentsScanned.F.nextId ∧
      alloc.kind = SILInstructionKind.AllocStackInst ∧
      DeallocatedOncePerExit alloc.id usesTwoLargeArgumentsScanned.returnInsts pass2.F) ∧
    (∃ pass2, LoadableStorageAllocation.allocateForArg usesTwoLargeArgumentsScanned (.argument 5) = .ok pass2 ∧
      DeallocatedOncePerExit usesTwoLargeArgumentsScanned.F.nextId usesTwoLargeArgumentsScanned.returnInsts pass2.F) :=
  ⟨rfl, by decide, by decide,
    buffer_deallocated_once_per_exit usesTwoLargeArgumentsScanned
      ⟨2, .Other 0, [.argument 5, .argument 6], some ⟨.nominal .Struct 16, .Object⟩, [], 0⟩
      ⟨BigStruct, .Object⟩ 5 ⟨BigStruct, .Address⟩ usesTwoLargeArgumentsScannedEntry [] rfl
      ⟨by decide, by decide, by decide⟩ rfl rfl (by decide) (by decide) (by decide)⟩

end LoadableByAddress

namespace LoadableByAddress

/-! ## One instruction among the blocks of a function -/

theorem takeWhile_ne_id (t : Nat) (x : SILInstruction) (l2 : List SILInstruction)
    (hx : x.id = t) :
    ∀ l1 : List SILInstruction, (∀ y ∈ l1, y.id ≠ t) →
      (l1 ++ x :: l2).takeWhile (fun i => decide (i.id ≠ t)) = l1
  | [], _ => by simp [List.takeWhile, hx]
  | y :: l1, h => by
    have hy : y.id ≠ t := h y (List.mem_cons_self _ _)
    have ih := takeWhile_ne_id t x l2 hx l1 (fun z hz => h z (List.mem_cons_of_mem _ hz))
    rw [List.cons_append, List.takeWhile_cons, ih]
    simp [hy]

/-- The identities around the instruction `x` of a well-formed function. -/
theorem SILFunction.WellFormed.unique {F : SILFunction} {B1 B2 : List SILBasicBlock}
    {parent : SILBasicBlock} {l1 l2 : List SILInstruction} {x : SILInstruction}
    (hW : F.WellFormed) (hB : F.blocks = B1 ++ parent :: B2)
    (hp : parent.instructions = l1 ++ x :: l2) :
    (∀ y ∈ l1, y.id ≠ x.id) ∧ (∀ y ∈ l2, y.id ≠ x.id) ∧
    (∀ BB ∈ B1, ∀ y ∈ BB.instructions, y.id ≠ x.id) ∧
    (∀ BB ∈ B2, ∀ y ∈ BB.instructions, y.id ≠ x.id) ∧
    (∀ y ∈ F.allInstructions, y.id < F.nextId) := by
  obtain ⟨hN, hlt, _⟩ := hW
  refine ⟨?_, ?_, ?_, ?_, hlt⟩
  all_goals
    unfold SILFunction.allInstructions at hN
    rw [hB, List.flatMap_append, List.flatMap_cons, hp, List.map_append, List.map_append,
      List.map_append, List.map_cons] at hN
  · intro y hy heq
    have h2 := (List.nodup_append.1 (List.nodup_append.1 hN).2.1).1
    have hd := (List.nodup_append.1 h2).2.2
    exact hd (List.mem_map.2 ⟨y, hy, rfl⟩) (by rw [heq]; exact List.mem_cons_self _ _)
  · intro y hy heq
    have h2 := (List.nodup_append.1 (List.nodup_append.1 hN).2.1).1
    have h3 := (List.nodup_append.1 h2).2.1
    exact (List.nodup_cons.1 h3).1 (by rw [← heq]; exact List.mem_map.2 ⟨y, hy, rfl⟩)
  · intro BB hBB y hy heq
    have hd := (List.nodup_append.1 hN).2.2
    refine hd (List.mem_map.2 ⟨y, List.mem_flatMap.2 ⟨BB, hBB, hy⟩, rfl⟩) ?_
    rw [heq]
    simp
  · intro BB hBB y hy heq
    have hd := (List.nodup_append.1 (List.nodup_append.1 hN).2.1).2.2
    refine hd ?_ (List.mem_map.2 ⟨y, List.mem_flatMap.2 ⟨BB, hBB, hy⟩, rfl⟩)
    rw [heq]
    simp

theorem findInstruction_of_split (F : SILFunction) (B1 B2 : List SILBasicBlock)
    (parent : SILBasicBlock) (l1 l2 : List SILInstruction) (x : SILInstruction)
    (hB : F.blocks = B1 ++ parent :: B2) (hp : parent.instructions = l1 ++ x :: l2)
    (h1 : ∀ y ∈ l1, y.id ≠ x.id)
    (hB1 : ∀ BB ∈ B1, ∀ y ∈ BB.instructions, y.id ≠ x.id) :
    F.findInstruction x.id = some x := by
  unfold SILFunction.findInstruction SILFunction.allInstructions
  rw [hB, List.flatMap_append, List.flatMap_cons, hp, List.find?_append, List.find?_append,
    List.find?_append]
  have e1 : (B1.flatMap (fun BB => BB.instructions)).find? (fun i => decide (i.id = x.id)) =
      none := by
    rw [List.find?_eq_none]
    intro y hy
    obtain ⟨BB, hBB, hy2⟩ := List.mem_flatMap.1 hy
    simpa using hB1 BB hBB y hy2
  have e2 : l1.find? (fun i => decide (i.id = x.id)) = none := by
    rw [List.find?_eq_none]
    intro y hy
    simpa using h1 y hy
  rw [e1, e2]
  simp

theorem getParent_of_split (F : SILFunction) (B1 B2 : List SILBasicBlock)
    (parent : SILBasicBlock) (l1 l2 : List SILInstruction) (x : SILInstruction)
    (hB : F.blocks = B1 ++ parent :: B2) (hp : parent.instructions = l1 ++ x :: l2)
    (hB1 : ∀ BB ∈ B1, ∀ y ∈ BB.instructions, y.id ≠ x.id) :
    F.getParent x.id = some parent := by
  unfold SILFunction.getParent
  rw [hB, List.find?_append]
  have e1 : B1.find? (fun BB => BB.instructions.any (fun i => decide (i.id = x.id))) = none := by
    rw [List.find?_eq_none]
    intro BB hBB
    simp only [List.any_eq_true, decide_eq_true_eq, not_exists, not_and, Bool.not_eq_true]
    intro y hy hyx
    exact hB1 BB hBB y hy hyx
  rw [e1]
  simp [hp]

/-- A builder call before the instruction `x`: the new instruction goes
directly before `x` in its block, and nowhere else. -/
theorem create_before_in_block (F : SILFunction) (B1 B2 : List SILBasicBlock)
    (parent : SILBasicBlock) (l1 l2 : List SILInstruction) (x : SILInstruction)
    (kind : SILInstructionKind) (ops : List SILValue) (ty : Option SILType)
    (hB : F.blocks = B1 ++ parent :: B2) (hp : parent.instructions = l1 ++ x :: l2)
    (h1 : ∀ y ∈ l1, y.id ≠ x.id)
    (hB1 : ∀ BB ∈ B1, ∀ y ∈ BB.instructions, y.id ≠ x.id)
    (hB2 : ∀ BB ∈ B2, ∀ y ∈ BB.instructions, y.id ≠ x.id) :
    (F.create (.before x.id) kind ops ty).2 =
      { F with
        blocks := B1 ++ { parent with
          instructions := l1 ++ ⟨F.nextId, kind, ops, ty, [], 0⟩ :: x :: l2 } :: B2,
        nextId := F.nextId + 1 } := by
  have hmap : ∀ B : List SILBasicBlock, (∀ BB ∈ B, ∀ y ∈ BB.instructions, y.id ≠ x.id) →
      B.map (fun BB => ({ BB with
        instructions := insertBeforeInList ⟨F.nextId, kind, ops, ty, [], 0⟩ x.id
          BB.instructions } : SILBasicBlock)) = B := by
    intro B hBn
    conv => rhs; rw [← List.map_id B]
    apply List.map_congr_left
    intro BB hBB
    rw [insertBeforeInList_of_not_mem _ _ _ (hBn BB hBB)]
    rfl
  simp only [SILFunction.create, SILFunction.createWith, SILFunction.insert, hB,
    List.map_append, List.map_cons, hmap B1 hB1, hmap B2 hB2, hp,
    insertBeforeInList_append _ _ x l2 rfl l1 h1]

/-- Erasing the instruction `x`: it leaves its block, and nothing else
changes. -/
theorem erase_in_block (F : SILFunction) (B1 B2 : List SILBasicBlock)
    (parent : SILBasicBlock) (l1 l2 : List SILInstruction) (x : SILInstruction)
    (hB : F.blocks = B1 ++ parent :: B2) (hp : parent.instructions = l1 ++ x :: l2)
    (h1 : ∀ y ∈ l1, y.id ≠ x.id) (h2 : ∀ y ∈ l2, y.id ≠ x.id)
    (hB1 : ∀ BB ∈ B1, ∀ y ∈ BB.instructions, y.id ≠ x.id)
    (hB2 : ∀ BB ∈ B2, ∀ y ∈ BB.instructions, y.id ≠ x.id) :
    F.erase x.id = { F with blocks := B1 ++ { parent with instructions := l1 ++ l2 } :: B2 } := by
  have hf : ∀ l : List SILInstruction, (∀ y ∈ l, y.id ≠ x.id) →
      l.filter (fun i => decide (i.id ≠ x.id)) = l := by
    intro l hl
    rw [List.filter_eq_self]
    intro y hy
    simpa using hl y hy
  have hmap : ∀ B : List SILBasicBlock, (∀ BB ∈ B, ∀ y ∈ BB.instructions, y.id ≠ x.id) →
      B.map (fun BB => ({ BB with
        instructions := BB.instructions.filter (fun i => decide (i.id ≠ x.id)) } :
          SILBasicBlock)) = B := by
    intro B hBn
    conv => rhs; rw [← List.map_id B]
    apply List.map_congr_left
    intro BB hBB
    rw [hf _ (hBn BB hBB)]
    rfl
  simp only [SILFunction.erase, hB, List.map_append, List.map_cons, hmap B1 hB1, hmap B2 hB2,
    hp, List.filter_append, List.filter_cons, hf l1 h1, hf l2 h2, ne_eq, not_true_eq_false,
    decide_False, Bool.false_eq_true, if_false]

/-! ## The copy of a returned address goes before the deallocations -/

/-- The walk back from the instruction `cur` over the deallocations `ds`,
nearest first, with the instructions `ps` before them: it ends on the last of
`ds` when an instruction that is no deallocation comes next, and at the start
of the block when none does. -/
theorem returnCopyPosition_run :
    ∀ (ds : List SILInstruction) (cur : SILInstruction) (ps : List SILInstruction),
      (∀ d ∈ ds, d.kind = SILInstructionKind.DeallocStackInst) →
      (∀ p ∈ ps.head?, p.kind ≠ SILInstructionKind.DeallocStackInst) →
      returnCopyPosition cur (ds ++ ps) =
        if ps = [] then none else some (ds.getLast?.getD cur)
  | [], cur, [], _, _ => rfl
  | [], cur, p :: ps, _, hp => by
    have h : p.kind ≠ SILInstructionKind.DeallocStackInst := hp p (by simp)
    simp [returnCopyPosition, h]
  | d :: ds, cur, ps, hd, hp => by
    have h : d.kind = SILInstructionKind.DeallocStackInst := hd d (List.mem_cons_self _ _)
    have ih := returnCopyPosition_run ds d ps (fun e he => hd e (List.mem_cons_of_mem _ he)) hp
    rw [List.cons_append, returnCopyPosition]
    simp only [h, ne_eq, not_true_eq_false, if_false]
    rw [ih]
    cases ds with
    | nil => simp
    | cons e es =>
      rw [List.getLast?_cons_cons, List.getLast?_eq_getLast (e :: es) (List.cons_ne_nil _ _)]
      rfl

theorem forEachM_modReturnInsts {α : Type}
    (f : α → StructLoweringState → Except Abort StructLoweringState)
    (hf : ∀ a p m, f a { p with modReturnInsts := m } =
      (f a p).map (fun q => { q with modReturnInsts := m })) :
    ∀ (l : List α) (p : StructLoweringState) (m : List Nat),
      forEachM f l { p with modReturnInsts := m } =
        (forEachM f l p).map (fun q => { q with modReturnInsts := m })
  | [], _, _ => rfl
  | a :: l, p, m => by
    simp only [forEachM]
    rw [hf]
    cases h : f a p with
    | error e => rfl
    | ok q => exact forEachM_modReturnInsts f hf l q m

theorem forEachM_snoc_step {α σ : Type} (f : α → σ → Except Abort σ) (x : α)
    (rest : List α) (p p1 : σ) (h : f x p = .ok p1) :
    forEachM f (rest ++ [x]).reverse p = forEachM f rest.reverse p1 := by
  rw [List.reverse_append, List.reverse_singleton, List.singleton_append]
  exact forEachM_cons_ok h

theorem create_before_literal (name : Nat) (lt : SILFunctionType)
    (ge : Option GenericEnvironment) (ho : Bool) (n : Nat) (B1 B2 : List SILBasicBlock)
    (pid : Nat) (pargs : List SILArgument) (l1 l2 : List SILInstruction) (x : SILInstruction)
    (kind : SILInstructionKind) (ops : List SILValue) (ty : Option SILType)
    (h1 : ∀ y ∈ l1, y.id ≠ x.id)
    (hB1 : ∀ BB ∈ B1, ∀ y ∈ BB.instructions, y.id ≠ x.id)
    (hB2 : ∀ BB ∈ B2, ∀ y ∈ BB.instructions, y.id ≠ x.id) :
    ((⟨name, lt, ge, ho, B1 ++ ⟨pid, pargs, l1 ++ x :: l2⟩ :: B2, n⟩ : SILFunction).create
        (.before x.id) kind ops ty).2 =
      ⟨name, lt, ge, ho, B1 ++ ⟨pid, pargs, l1 ++ ⟨n, kind, ops, ty, [], 0⟩ :: x :: l2⟩ :: B2,
        n + 1⟩ :=
  create_before_in_block _ B1 B2 ⟨pid, pargs, _⟩ l1 l2 x kind ops ty rfl rfl h1 hB1 hB2

theorem erase_literal (name : Nat) (lt : SILFunctionType)
    (ge : Option GenericEnvironment) (ho : Bool) (n : Nat) (B1 B2 : List SILBasicBlock)
    (pid : Nat) (pargs : List SILArgument) (l1 l2 : List SILInstruction) (x : SILInstruction)
    (h1 : ∀ y ∈ l1, y.id ≠ x.id) (h2 : ∀ y ∈ l2, y.id ≠ x.id)
    (hB1 : ∀ BB ∈ B1, ∀ y ∈ BB.instructions, y.id ≠ x.id)
    (hB2 : ∀ BB ∈ B2, ∀ y ∈ BB.instructions, y.id ≠ x.id) :
    (⟨name, lt, ge, ho, B1 ++ ⟨pid, pargs, l1 ++ x :: l2⟩ :: B2, n⟩ : SILFunction).erase x.id =
      ⟨name, lt, ge, ho, B1 ++ ⟨pid, pargs, l1 ++ l2⟩ :: B2, n⟩ :=
  erase_in_block _ B1 B2 ⟨pid, pargs, _⟩ l1 l2 x rfl rfl h1 h2 hB1 hB2

/-- The function after a return is rewritten, with the instruction of the kind
`kind` that initialises the indirect result put at the point `II`. -/
theorem returnRewriteWith_eq (kind : SILInstructionKind) (F : SILFunction)
    (B1 B2 : List SILBasicBlock)
    (parent : SILBasicBlock) (pre deallocs post : List SILInstruction)
    (ret : SILInstruction) (II : InsertionPoint) (retOp tgt : SILValue) (ty : Option SILType)
    (hB : F.blocks = B1 ++ parent :: B2)
    (hI : parent.instructions = pre ++ deallocs ++ ret :: post)
    (hW : F.WellFormed)
    (hII : II = .before (deallocs.head?.getD ret).id) :
    (((F.create II kind [retOp, tgt] none).2.create (.before ret.id) .TupleInst [] ty).2.create
        (.before ret.id) .ReturnInst [.instruction (F.nextId + 1)] none).2.erase ret.id =
      { F with
        blocks := B1 ++ { parent with
          instructions := pre ++
            ⟨F.nextId, kind, [retOp, tgt], none, [], 0⟩ :: deallocs ++
            [⟨F.nextId + 1, .TupleInst, [], ty, [], 0⟩,
              ⟨F.nextId + 2, .ReturnInst, [.instruction (F.nextId + 1)], none, [], 0⟩] ++
            post } :: B2,
        nextId := F.nextId + 3 } := by
  obtain ⟨u1, u2, uB1, uB2, ult⟩ := hW.unique hB hI
  have hretlt : ret.id < F.nextId := by
    apply ult
    unfold SILFunction.allInstructions
    rw [hB]
    simp [hI]
  -- the copy
  have h1 : (F.create II kind [retOp, tgt] none).2 =
      ⟨F.name, F.loweredType, F.genericEnvironment, F.hasOwnership,
        B1 ++ ⟨parent.id, parent.arguments, (pre ++
            ⟨F.nextId, kind, [retOp, tgt], none, [], 0⟩ :: deallocs) ++
            ret :: post⟩ :: B2, F.nextId + 1⟩ := by
    rw [hII]
    cases deallocs with
    | nil =>
      have hI0 : parent.instructions = pre ++ ret :: post := by simpa using hI
      obtain ⟨v1, _, vB1, vB2, _⟩ := hW.unique hB hI0
      have e : (([] : List SILInstruction).head?.getD ret).id = ret.id := rfl
      rw [e, create_before_in_block F B1 B2 parent pre post ret _ _ _ hB hI0 v1 vB1 vB2]
      simp
    | cons d ds =>
      have hI0 : parent.instructions = pre ++ d :: (ds ++ ret :: post) := by simpa using hI
      obtain ⟨v1, _, vB1, vB2, _⟩ := hW.unique hB hI0
      have e : ((d :: ds).head?.getD ret).id = d.id := rfl
      rw [e, create_before_in_block F B1 B2 parent pre _ d _ _ _ hB hI0 v1 vB1 vB2]
      simp
  rw [h1]
  have w1 : ∀ y ∈ pre ++
      ⟨F.nextId, kind, [retOp, tgt], none, [], 0⟩ :: deallocs,
      y.id ≠ ret.id := by
    intro y hy
    rcases List.mem_append.1 hy with h | h
    · exact u1 y (List.mem_append_left _ h)
    · rcases List.mem_cons.1 h with h | h
      · rw [h]
        exact Nat.ne_of_gt hretlt
      · exact u1 y (List.mem_append_right _ h)
  rw [create_before_literal _ _ _ _ _ B1 B2 _ _ _ post ret _ _ _ w1 uB1 uB2]
  have w2 : ∀ y ∈ (pre ++
      ⟨F.nextId, kind, [retOp, tgt], none, [], 0⟩ :: deallocs) ++
      [⟨F.nextId + 1, .TupleInst, [], ty, [], 0⟩], y.id ≠ ret.id := by
    intro y hy
    rcases List.mem_append.1 hy with h | h
    · exact w1 y h
    · rw [List.mem_singleton.1 h]
      exact Nat.ne_of_gt (Nat.lt_succ_of_lt hretlt)
  rw [List.append_cons _ _ (ret :: post),
    create_before_literal _ _ _ _ _ B1 B2 _ _ _ post ret _ _ _ w2 uB1 uB2]
  have w3 : ∀ y ∈ ((pre ++
      ⟨F.nextId, kind, [retOp, tgt], none, [], 0⟩ :: deallocs) ++
      [⟨F.nextId + 1, .TupleInst, [], ty, [], 0⟩]) ++
      [⟨F.nextId + 1 + 1, .ReturnInst, [.instruction (F.nextId + 1)], none, [], 0⟩],
      y.id ≠ ret.id := by
    intro y hy
    rcases List.mem_append.1 hy with h | h
    · exact w2 y h
    · rw [List.mem_singleton.1 h]
      exact Nat.ne_of_gt (Nat.lt_succ_of_lt (Nat.lt_succ_of_lt hretlt))
  rw [List.append_cons _ _ (ret :: post),
    erase_literal _ _ _ _ _ B1 B2 _ _ _ post ret w3 u2 uB1 uB2]
  simp

/-- The function after a return of an address is rewritten, with the copy put
at the point `II` the walk over the deallocations found. -/
theorem returnRewrite_eq (F : SILFunction) (B1 B2 : List SILBasicBlock)
    (parent : SILBasicBlock) (pre deallocs post : List SILInstruction)
    (ret : SILInstruction) (II : InsertionPoint) (retOp tgt : SILValue) (ty : Option SILType)
    (hB : F.blocks = B1 ++ parent :: B2)
    (hI : parent.instructions = pre ++ deallocs ++ ret :: post)
    (hW : F.WellFormed)
    (hII : II = .before (deallocs.head?.getD ret).id) :
    (((createOutlinedCopyCall F II retOp tgt).2.create (.before ret.id) .TupleInst [] ty).2.create
        (.before ret.id) .ReturnInst [.instruction (F.nextId + 1)] none).2.erase ret.id =
      { F with
        blocks := B1 ++ { parent with
          instructions := pre ++
            ⟨F.nextId, .CopyAddrInst true true, [retOp, tgt], none, [], 0⟩ :: deallocs ++
            [⟨F.nextId + 1, .TupleInst, [], ty, [], 0⟩,
              ⟨F.nextId + 2, .ReturnInst, [.instruction (F.nextId + 1)], none, [], 0⟩] ++
            post } :: B2,
        nextId := F.nextId + 3 } :=
  returnRewriteWith_eq _ F B1 B2 parent pre deallocs post ret II retOp tgt ty hB hI hW hII

/-- Where the copy of a returned address goes: before the first of the
deallocations `deallocs` right before the return, or before the return when
there is none. -/
theorem returnCopyPoint (parent : SILBasicBlock) (pre deallocs post : List SILInstruction)
    (ret : SILInstruction)
    (hI : parent.instructions = pre ++ deallocs ++ ret :: post)
    (hD : ∀ d ∈ deallocs, d.kind = SILInstructionKind.DeallocStackInst)
    (hP : ∀ p ∈ pre.getLast?, p.kind ≠ SILInstructionKind.DeallocStackInst) :
    (∃ x, returnCopyPosition ret (pre ++ deallocs).reverse = some x ∧
      InsertionPoint.before x.id = .before (deallocs.head?.getD ret).id) ∨
    (returnCopyPosition ret (pre ++ deallocs).reverse = none ∧
      parent.beginPoint = .before (deallocs.head?.getD ret).id) := by
  have hrun := returnCopyPosition_run deallocs.reverse ret pre.reverse
    (fun d hd => hD d (List.mem_reverse.1 hd))
    (by rw [List.head?_reverse]; exact hP)
  rw [← List.reverse_append, List.getLast?_reverse] at hrun
  cases pre with
  | nil =>
    right
    refine ⟨by simpa using hrun, ?_⟩
    unfold SILBasicBlock.beginPoint
    rw [hI]
    cases deallocs <;> rfl
  | cons p ps =>
    left
    exact ⟨_, by simpa using hrun, rfl⟩

end LoadableByAddress

namespace LoadableByAddress

/-- C26: the loop over `modReturnInsts` takes the return `ret` last put on the
worklist; when its operand is an address, and `deallocs` is the maximal run of
`dealloc_stack` right before it in its block (`pre` is empty or ends in an
instruction of another kind), the `copy_addr` into the entry argument 0 is put
directly before `deallocs` (so at the start of the block when `pre` is empty,
and directly before the return when `deallocs` is empty), the return of the
empty tuple replaces `ret` after `deallocs`, and the loop goes on with the
rest of the worklist; with nothing left on it, that function is the result. -/
theorem rewriteModReturnInsts_copy_before_deallocations
    (pass : StructLoweringState) (Mod : IRGenModule) (B1 B2 : List SILBasicBlock)
    (parent entry : SILBasicBlock) (retArg : SILArgument) (args : List SILArgument)
    (pre deallocs post : List SILInstruction) (ret : SILInstruction) (retOp : SILValue)
    (storageType : SILType) (rest : List Nat)
    (hB : pass.F.blocks = B1 ++ parent :: B2)
    (hI : parent.instructions = pre ++ deallocs ++ ret :: post)
    (hW : pass.F.WellFormed)
    (hD : ∀ d ∈ deallocs, d.kind = SILInstructionKind.DeallocStackInst)
    (hP : ∀ p ∈ pre.getLast?, p.kind ≠ SILInstructionKind.DeallocStackInst)
    (hL : pass.modReturnInsts = rest ++ [ret.id])
    (hMod : pass.F.modNonFuncTypeResultType Mod = .ok true)
    (hE : pass.F.getEntryBlock = some entry) (hA : entry.arguments = retArg :: args)
    (hOp : ret.operands = [retOp])
    (hTy : pass.F.getType retOp = some storageType) (hAddr : storageType.isAddress = true) :
    (rewriteModReturnInsts pass Mod =
      rewriteModReturnInsts { pass with
        F := { pass.F with
          blocks := B1 ++ { parent with
            instructions := pre ++
              ⟨pass.F.nextId, .CopyAddrInst true true, [retOp, .argument retArg.id], none,
                [], 0⟩ :: deallocs ++
              [⟨pass.F.nextId + 1, .TupleInst, [],
                  some (SILType.getPrimitiveObjectType (.tuple .nil)), [], 0⟩,
                ⟨pass.F.nextId + 2, .ReturnInst, [.instruction (pass.F.nextId + 1)], none,
                  [], 0⟩] ++
              post } :: B2,
          nextId := pass.F.nextId + 3 },
        modReturnInsts := rest } Mod) ∧
    (rest = [] →
      rewriteModReturnInsts pass Mod = .ok { pass with
        F := { pass.F with
          blocks := B1 ++ { parent with
            instructions := pre ++
              ⟨pass.F.nextId, .CopyAddrInst true true, [retOp, .argument retArg.id], none,
                [], 0⟩ :: deallocs ++
              [⟨pass.F.nextId + 1, .TupleInst, [],
                  some (SILType.getPrimitiveObjectType (.tuple .nil)), [], 0⟩,
                ⟨pass.F.nextId + 2, .ReturnInst, [.instruction (pass.F.nextId + 1)], none,
                  [], 0⟩] ++
              post } :: B2,
          nextId := pass.F.nextId + 3 },
        modReturnInsts := [] }) := by
  obtain ⟨u1, u2, uB1, uB2, ult⟩ := hW.unique hB hI
  have hfind := findInstruction_of_split pass.F B1 B2 parent _ post ret hB hI u1 uB1
  have hpar := getParent_of_split pass.F B1 B2 parent _ post ret hB hI uB1
  have htw : parent.instructions.takeWhile (fun i => decide (i.id ≠ ret.id)) =
      pre ++ deallocs := by
    rw [hI]
    exact takeWhile_ne_id _ _ _ rfl _ u1
  have hs := fun f h => forEachM_snoc_step
    (f : Nat → StructLoweringState → Except Abort StructLoweringState) ret.id rest pass
    { pass with
      F := { pass.F with
        blocks := B1 ++ { parent with
          instructions := pre ++
            ⟨pass.F.nextId, .CopyAddrInst true true, [retOp, .argument retArg.id], none,
              [], 0⟩ :: deallocs ++
            [⟨pass.F.nextId + 1, .TupleInst, [],
                some (SILType.getPrimitiveObjectType (.tuple .nil)), [], 0⟩,
              ⟨pass.F.nextId + 2, .ReturnInst, [.instruction (pass.F.nextId + 1)], none,
                [], 0⟩] ++
            post } :: B2,
        nextId := pass.F.nextId + 3 } } h
  have hm := fun f hf => forEachM_modReturnInsts
    (f : Nat → StructLoweringState → Except Abort StructLoweringState) hf rest.reverse
    { pass with
      F := { pass.F with
        blocks := B1 ++ { parent with
          instructions := pre ++
            ⟨pass.F.nextId, .CopyAddrInst true true, [retOp, .argument retArg.id], none,
              [], 0⟩ :: deallocs ++
            [⟨pass.F.nextId + 1, .TupleInst, [],
                some (SILType.getPrimitiveObjectType (.tuple .nil)), [], 0⟩,
              ⟨pass.F.nextId + 2, .ReturnInst, [.instruction (pass.F.nextId + 1)], none,
                [], 0⟩] ++
            post } :: B2,
        nextId := pass.F.nextId + 3 } } rest
  have key : rewriteModReturnInsts pass Mod =
      rewriteModReturnInsts { pass with
        F := { pass.F with
          blocks := B1 ++ { parent with
            instructions := pre ++
              ⟨pass.F.nextId, .CopyAddrInst true true, [retOp, .argument retArg.id], none,
                [], 0⟩ :: deallocs ++
              [⟨pass.F.nextId + 1, .TupleInst, [],
                  some (SILType.getPrimitiveObjectType (.tuple .nil)), [], 0⟩,
                ⟨pass.F.nextId + 2, .ReturnInst, [.instruction (pass.F.nextId + 1)], none,
                  [], 0⟩] ++
              post } :: B2,
          nextId := pass.F.nextId + 3 },
        modReturnInsts := rest } Mod := by
    unfold rewriteModReturnInsts
    dsimp only
    rw [hL, hs, hm]
    · generalize forEachM _ rest.reverse _ = r
      cases r <;> rfl
    · intro a p m
      dsimp only
      cases h1 : p.F.modNonFuncTypeResultType Mod with
      | error e => rfl
      | ok b =>
        cases b with
        | false => rfl
        | true =>
          cases h2 : p.F.getEntryBlock <;> cases h3 : p.F.findInstruction a <;>
            cases h4 : p.F.getParent a <;> try rfl
          rename_i entry2 instr2 parent2
          dsimp only
          cases h5 : entry2.arguments <;> cases h6 : instr2.operands <;> try rfl
          rename_i retArg2 args2 retOp2 ops2
          cases ops2 <;> try rfl
          dsimp only
          cases h7 : p.F.getType retOp2 <;> rfl
    · dsimp only
      simp only [hMod, hE, hfind, hpar, hA, hOp, hTy, hAddr, htw, if_true]
      rcases returnCopyPoint parent pre deallocs post ret hI hD hP with ⟨x, hx, hxp⟩ | ⟨hn, hb⟩
      · simp only [hx]
        exact congrArg (fun F => Except.ok { pass with F := F })
          (returnRewrite_eq pass.F B1 B2 parent pre deallocs post ret (.before x.id) retOp
            (.argument retArg.id) (some (SILType.getPrimitiveObjectType (.tuple .nil)))
            hB hI hW hxp)
      · simp only [hn]
        exact congrArg (fun F => Except.ok { pass with F := F })
          (returnRewrite_eq pass.F B1 B2 parent pre deallocs post ret parent.beginPoint retOp
            (.argument retArg.id) (some (SILType.getPrimitiveObjectType (.tuple .nil)))
            hB hI hW hb)
  refine ⟨key, ?_⟩
  intro hrest
  rw [key]
  subst hrest
  rfl

/-- C26, on the toy target at `returnsBufferBeforeRewrite`: the copy number 6
goes before the deallocation number 3, after the instruction number 2. -/
theorem rewriteModReturnInsts_copy_before_deallocations_witness :
    rewriteModReturnInsts returnsBufferBeforeRewrite toyModule =
      .ok { returnsBufferBeforeRewrite with
        F := { returnsBufferBeforeRewrite.F with
          blocks := [⟨0, [⟨5, ⟨BigStruct, .Address⟩, .None, some "$return_value"⟩],
            [⟨1, .AllocStackInst, [], some ⟨BigStruct, .Address⟩, [], 0⟩,
              ⟨2, .Other 0, [.instruction 1], none, [], 0⟩,
              ⟨6, .CopyAddrInst true true, [.instruction 1, .argument 5], none, [], 0⟩,
              ⟨3, .DeallocStackInst, [.instruction 1], none, [], 0⟩,
              ⟨7, .TupleInst, [], some ⟨.tuple .nil, .Object⟩, [], 0⟩,
              ⟨8, .ReturnInst, [.instruction 7], none, [], 0⟩]⟩],
          nextId := 9 },
        modReturnInsts := [] } :=
  (rewriteModReturnInsts_copy_before_deallocations returnsBufferBeforeRewrite toyModule [] []
    ⟨0, [⟨5, ⟨BigStruct, .Address⟩, .None, some "$return_value"⟩],
      [⟨1, .AllocStackInst, [], some ⟨BigStruct, .Address⟩, [], 0⟩,
        ⟨2, .Other 0, [.instruction 1], none, [], 0⟩,
        ⟨3, .DeallocStackInst, [.instruction 1], none, [], 0⟩,
        ⟨4, .ReturnInst, [.instruction 1], none, [], 0⟩]⟩
    ⟨0, [⟨5, ⟨BigStruct, .Address⟩, .None, some "$return_value"⟩],
      [⟨1, .AllocStackInst, [], some ⟨BigStruct, .Address⟩, [], 0⟩,
        ⟨2, .Other 0, [.instruction 1], none, [], 0⟩,
        ⟨3, .DeallocStackInst, [.instruction 1], none, [], 0⟩,
        ⟨4, .ReturnInst, [.instruction 1], none, [], 0⟩]⟩
    ⟨5, ⟨BigStruct, .Address⟩, .None, some "$return_value"⟩ []
    [⟨1, .AllocStackInst, [], some ⟨BigStruct, .Address⟩, [], 0⟩,
      ⟨2, .Other 0, [.instruction 1], none, [], 0⟩]
    [⟨3, .DeallocStackInst, [.instruction 1], none, [], 0⟩] []
    ⟨4, .ReturnInst, [.instruction 1], none, [], 0⟩ (.instruction 1) ⟨BigStruct, .Address⟩ []
    rfl rfl ⟨by decide, by decide, by decide⟩ (by decide) (by decide) rfl (by decide) rfl rfl
    rfl rfl rfl).2 rfl

end LoadableByAddress

namespace LoadableByAddress

/-! ## A parameter whose type the transform keeps -/

/-- A type that is no function type nor an optional of one, and that
`getNewSILType` returns as it is, is not large. -/
theorem isLargeLoadableType_of_type_kept (Mod : IRGenModule)
    (env : Option GenericEnvironment) (t : SILType)
    (hF : isFuncOrOptionalFuncType t = false)
    (h : Pure.getNewSILType Mod env t = some t) :
    isLargeLoadableType env t Mod = .ok false := by
  have key : ∀ (t2 : SILType) (large : Bool), isLargeLoadableType env t2 Mod = .ok large →
      (if large then (⟨t2.ast, .Address⟩ : SILType) else t2) = t →
      isLargeLoadableType env t Mod = .ok false := by
    intro t2 large hl he
    cases large with
    | false =>
      simp only [Bool.false_eq_true, if_false] at he
      rw [← he]
      exact hl
    | true =>
      simp only [if_true] at he
      rw [← he]
      exact isLargeLoadableType_address env _ Mod
  obtain ⟨ast, cat⟩ := t
  by_cases hT : (getNonOptionalType ⟨ast, cat⟩).getAsTupleType = none
  · rw [pure_getNewSILType_simple_cases Mod env _ hF hT] at h
    cases hl : isLargeLoadableType env ⟨ast, cat⟩ Mod with
    | error e => rw [hl] at h; cases h
    | ok large =>
      rw [hl] at h
      simp only [Option.some.injEq] at h
      rw [← hl]
      exact key ⟨ast, cat⟩ large hl h
  · cases ast with
    | tuple elts =>
      rw [pure_getNewSILType_tuple] at h
      cases hn : Pure.newTupleElems Mod env elts with
      | none => rw [hn] at h; cases h
      | some newElems =>
        rw [hn] at h
        simp only [] at h
        cases hl : isLargeLoadableType env ⟨.tuple (TupleTypeElts.ofList newElems), cat⟩ Mod with
        | error e => rw [hl] at h; cases h
        | ok large =>
          rw [hl] at h
          simp only [Option.some.injEq] at h
          exact key _ large hl h
    | optional inner =>
      cases inner with
      | tuple elts =>
        rw [pure_getNewSILType_optional_tuple] at h
        cases hn : Pure.newTupleElems Mod env elts with
        | none => rw [hn] at h; cases h
        | some newElems =>
          rw [hn] at h
          simp only [] at h
          cases hl : isLargeLoadableType env
              ⟨.optional (.tuple (TupleTypeElts.ofList newElems)), cat⟩ Mod with
          | error e => rw [hl] at h; cases h
          | ok large =>
            rw [hl] at h
            simp only [Option.some.injEq] at h
            exact key _ large hl h
      | _ => exact absurd rfl hT
    | _ => exact absurd rfl hT

/-- A parameter whose storage type `getNewSILType` returns as it is, is returned
as it is by `getNewParameter`. -/
theorem pure_getNewParameter_of_type_kept (Mod : IRGenModule)
    (env : Option GenericEnvironment) (param : SILParameterInfo)
    (h : Pure.getNewSILType Mod env param.getSILStorageInterfaceType =
      some param.getSILStorageInterfaceType) :
    Pure.getNewParameter Mod env param = some param := by
  have hty := Pure.SILParameterInfo.param_storage_ast param
  by_cases hF : isFuncOrOptionalFuncType param.getSILStorageInterfaceType = false
  · have hL := isLargeLoadableType_of_type_kept Mod env _ hF h
    rw [Pure.getNewParameter, pure_getNewOptionalFunctionType_not_func Mod env _ hF]
    simp only [ne_eq, not_true_eq_false, if_false]
    split
    · next f hf =>
      rw [getAsSILFunctionType_not_func _ hF] at hf
      cases hf
    · rw [hL]
      simp only []
      rw [h]
      simp only [SILType.getASTType, hty, SILParameterInfo.getConvention,
        SILParameterInfo.getDifferentiability]
  · generalize hst : param.getSILStorageInterfaceType = st at h hF hty
    obtain ⟨ast, cat⟩ := st
    have hfn : ∀ fn : SILFunctionType, param.type = .function fn →
        param.getWithInterfaceType (.function fn) = param := by
      intro fn e
      rw [SILParameterInfo.getWithInterfaceType, ← e]
    cases ast with
    | function fn =>
      rw [pure_getNewParameter_function Mod env param fn cat hst]
      rw [pure_getNewSILType_function] at h
      cases hs : Pure.shouldTransformFunctionType Mod env fn with
      | none => rw [hs] at h; cases h
      | some b =>
        cases b with
        | false => rfl
        | true =>
          rw [hs] at h
          simp only [] at h ⊢
          cases hn : Pure.getNewSILFunctionType Mod env fn with
          | none => rw [hn] at h; cases h
          | some newFn =>
            rw [hn] at h
            simp only [Option.some.injEq, SILType.mk.injEq, CanType.function.injEq,
              and_true] at h
            subst h
            simp only []
            rw [hfn newFn hty.symm]
    | optional inner =>
      cases inner with
      | function fn =>
        rw [pure_getNewParameter_optional_function Mod env param fn cat hst]
        rw [pure_getNewSILType_optional_function] at h
        cases ho : Pure.getNewOptionalFunctionType Mod env ⟨.optional (.function fn), cat⟩ with
        | none => rw [ho] at h; cases h
        | some v =>
          rw [ho] at h
          simp only [] at h ⊢
          by_cases hne : v ≠ ⟨.optional (.function fn), cat⟩
          · rw [if_pos hne] at h
            exact absurd (Option.some.inj h) hne
          · rw [if_neg hne] at h
            rw [if_neg hne]
            cases hl : isLargeLoadableType env ⟨.optional (.function fn), cat⟩ Mod with
            | error e => rw [hl] at h; cases h
            | ok large =>
              rw [hl] at h
              cases large with
              | false => rfl
              | true =>
                simp only [if_true, Option.some.injEq, SILType.mk.injEq, true_and] at h
                subst h
                rw [isLargeLoadableType_address] at hl
                cases hl
      | _ =>
        exact absurd (by simp [isFuncOrOptionalFuncType, SILType.getOptionalObjectType,
          SILType.getAsSILFunctionType]) hF
    | _ =>
      exact absurd (by simp [isFuncOrOptionalFuncType, SILType.getOptionalObjectType,
        SILType.getAsSILFunctionType]) hF

theorem pure_anyParameter_of_types_kept (Mod : IRGenModule)
    (env : Option GenericEnvironment) :
    (ps : ParameterInfos) →
    (∀ p ∈ ps.toList, Pure.getNewSILType Mod env p.getSILStorageInterfaceType =
      some p.getSILStorageInterfaceType) →
    Pure.anyParameter Mod env ps = some false
  | .nil, _ => by rw [Pure.anyParameter]
  | .cons t c d rest, h => by
    have h1 := pure_getNewParameter_of_type_kept Mod env ⟨t, c, d⟩
      (h _ (by simp [ParameterInfos.toList]))
    rw [Pure.anyParameter, Pure.shouldTransformParameter, h1]
    simp only [ne_eq, not_true_eq_false, decide_False]
    exact pure_anyParameter_of_types_kept Mod env rest
      (fun p hp => h p (by simp [ParameterInfos.toList, hp]))

theorem pure_anyYield_of_types_kept (Mod : IRGenModule)
    (env : Option GenericEnvironment) :
    (ys : YieldInfos) →
    (∀ y ∈ ys.toList, Pure.getNewSILType Mod env
      y.toParameterInfo.getSILStorageInterfaceType =
      some y.toParameterInfo.getSILStorageInterfaceType) →
    Pure.anyYield Mod env ys = some false
  | .nil, _ => by rw [Pure.anyYield]
  | .cons t c rest, h => by
    have h1 := pure_getNewParameter_of_type_kept Mod env (SILYieldInfo.toParameterInfo ⟨t, c⟩)
      (h _ (by simp [YieldInfos.toList]))
    rw [Pure.anyYield, Pure.shouldTransformParameter, h1]
    simp only [ne_eq, not_true_eq_false, decide_False]
    exact pure_anyYield_of_types_kept Mod env rest
      (fun y hy => h y (by simp [YieldInfos.toList, hy]))

/-- A signature without results whose parameter and yield types
`getNewSILType` returns as they are, in the environment of the signature, is
its own transform. -/
theorem pure_getNewSILFunctionType_of_types_kept (Mod : IRGenModule)
    (env : Option GenericEnvironment) (fnType : SILFunctionType)
    (hR : fnType.getResults = [])
    (hP : ∀ p ∈ fnType.getParameters, Pure.getNewSILType Mod (signatureEnvironment env fnType)
      p.getSILStorageInterfaceType = some p.getSILStorageInterfaceType)
    (hY : ∀ y ∈ fnType.getYields, Pure.getNewSILType Mod (signatureEnvironment env fnType)
      y.toParameterInfo.getSILStorageInterfaceType =
      some y.toParameterInfo.getSILStorageInterfaceType) :
    Pure.getNewSILFunctionType Mod env fnType = some fnType := by
  rw [Pure.getNewSILFunctionType]
  by_cases hM : modifiableFunction fnType = true
  · simp only [hM, Bool.not_true, Bool.false_eq_true, if_false]
    have h2 := pure_anyParameter_of_types_kept Mod _ fnType.parameterInfos hP
    have h3 := pure_anyYield_of_types_kept Mod _ fnType.yieldInfos hY
    unfold signatureEnvironment at h2 h3
    have hres : fnType.resultInfos = .nil := by
      unfold SILFunctionType.getResults at hR
      cases h4 : fnType.resultInfos with
      | nil => rfl
      | cons t c rest => rw [h4] at hR; simp [ResultInfos.toList] at hR
    have h5 : Pure.getNewResults Mod
        (if fnType.getPatternSubstitutions.isSome = true then
          getSubstGenericEnvironment fnType else env) fnType =
        some fnType.resultInfos.toList := by
      rw [Pure.getNewResults, hres, Pure.newResultElems]
      rfl
    rw [pure_newParameterElems_of_anyParameter Mod _ _ h2,
      pure_newYieldElems_of_anyYield Mod _ _ h3, h5]
    simp only [SILFunctionType.get_components]
  · have hM2 : modifiableFunction fnType = false := by simpa using hM
    simp only [hM2, Bool.not_false, if_true]

/-! ## The loops of the scanner over the operands of a call -/

theorem StructLoweringState.getNewSILType_total (pass : StructLoweringState)
    (Mod : IRGenModule) (fuel : Nat) (fnTy : SILFunctionType) (type : SILType)
    (hV : Valid Mod pass.Mapper) (hf : 10 * sizeOf type.ast + 5 < fuel) :
    (Pure.getNewSILType Mod (getSubstGenericEnvironment fnTy) type = none ∧
      pass.getNewSILType Mod fuel fnTy type = .error .assertion) ∨
    ∃ v M1, Pure.getNewSILType Mod (getSubstGenericEnvironment fnTy) type = some v ∧
      pass.getNewSILType Mod fuel fnTy type = .ok (v, { pass with Mapper := M1 }) ∧
      Valid Mod M1 := by
  unfold StructLoweringState.getNewSILType
  rcases ((refinesAt Mod fuel).type (getSubstGenericEnvironment fnTy) type pass.Mapper hV
    hf).elim with ⟨hp, he⟩ | ⟨v, M1, hp, hr, hV1, _⟩
  · left
    rw [he]
    exact ⟨hp, rfl⟩
  · right
    rw [hr]
    exact ⟨v, M1, hp, rfl, hV1⟩

/-- A loop `anyElem` whose body keeps the invariant `I` and answers yes on
every element with the property `Q`: it stops at a failed assertion, or it
returns in a state with `I`, and when it answers no, no element has `Q`. -/
theorem anyElem_spec {α : Type}
    (f : α → StructLoweringState → Except Abort (Bool × StructLoweringState))
    (I : StructLoweringState → Prop) (Q : α → Prop) :
    ∀ (l : List α),
      (∀ a ∈ l, ∀ p r, I p → f a p = r → r = .error .assertion ∨
        ∃ b p1, r = .ok (b, p1) ∧ I p1 ∧ (Q a → b = true)) →
      ∀ p r, I p → anyElem f l p = r → r = .error .assertion ∨
        ∃ b p1, r = .ok (b, p1) ∧ I p1 ∧ (b = false → ∀ a ∈ l, ¬ Q a)
  | [], _, p, r, hI, h => by
    simp only [anyElem] at h
    subst h
    exact Or.inr ⟨false, p, rfl, hI, fun _ a ha => absurd ha (List.not_mem_nil a)⟩
  | a :: rest, hf, p, r, hI, h => by
    simp only [anyElem] at h
    rcases hf a (List.mem_cons_self _ _) p _ hI rfl with he | ⟨b, p1, hok, hI1, hQ⟩
    · rw [he] at h
      subst h
      exact Or.inl rfl
    · rw [hok] at h
      cases b with
      | true =>
        subst h
        exact Or.inr ⟨true, p1, rfl, hI1, fun hb => by cases hb⟩
      | false =>
        simp only [] at h
        rcases anyElem_spec f I Q rest
            (fun a2 ha2 => hf a2 (List.mem_cons_of_mem _ ha2)) p1 r hI1 h with
          he | ⟨b2, p2, hok2, hI2, hno⟩
        · exact Or.inl he
        · refine Or.inr ⟨b2, p2, hok2, hI2, fun hb a2 ha2 => ?_⟩
          rcases List.mem_cons.1 ha2 with e | hmem
          · subst e
            intro hq
            have := hQ hq
            cases this
          · exact hno hb a2 hmem

theorem forall₂_mem_right {α β : Type} {R : α → β → Prop} :
    ∀ {l1 : List α} {l2 : List β}, List.Forall₂ R l1 l2 → ∀ b ∈ l2, ∃ a ∈ l1, R a b
  | _, _, .nil, b, hb => absurd hb (List.not_mem_nil b)
  | _, _, .cons hhead htail, b, hb => by
    rcases List.mem_cons.1 hb with e | hm
    · subst e
      exact ⟨_, List.mem_cons_self _ _, hhead⟩
    · obtain ⟨a, ha, hab⟩ := forall₂_mem_right htail b hm
      exact ⟨a, List.mem_cons_of_mem _ ha, hab⟩

end LoadableByAddress

namespace LoadableByAddress

/-! ## The pass over `returnsWithUnreachableBlock`, step by step -/

theorem returnsWithUnreachableBlock_converted :
    LoadableStorageAllocation.convertIndirectFunctionArgs
      (LargeValueVisitor.mapReturnInstrs
        (StructLoweringState.new returnsWithUnreachableBlock LargeSILTypeMapper.new))
      toyModule 10 = .ok returnsWithUnreachableBlockConverted := by
  decide

theorem returnsWithUnreachableBlock_applies :
    LoadableStorageAllocation.convertApplyResults returnsWithUnreachableBlockConverted
      toyModule 10 = .ok returnsWithUnreachableBlockConverted := by
  decide

theorem returnsWithUnreachableBlock_scanned :
    LargeValueVisitor.mapValueStorage returnsWithUnreachableBlockConverted toyModule 10 =
      .ok returnsWithUnreachableBlockScanned := by
  decide

theorem returnsWithUnreachableBlock_blockArgs :
    LoadableStorageAllocation.convertIndirectBasicBlockArgs returnsWithUnreachableBlockScanned
      toyModule 10 = .ok returnsWithUnreachableBlockScanned := by
  decide

theorem returnsWithUnreachableBlock_return :
    rewriteFunctionReturn returnsWithUnreachableBlockScanned toyModule 10 =
      .ok (true, returnsWithUnreachableBlockScanned) := by
  decide

theorem returnsWithUnreachableBlock_rewritten :
    rewriteFunction returnsWithUnreachableBlockScanned toyModule 10 =
      .ok returnsWithUnreachableBlockRewritten := by
  decide

theorem returnsWithUnreachableBlock_allocated :
    LoadableStorageAllocation.allocateLoadableStorage
      (StructLoweringState.new returnsWithUnreachableBlock LargeSILTypeMapper.new)
      toyModule 10 = .ok returnsWithUnreachableBlockScanned := by
  have hM : modifiableFunction (LargeValueVisitor.mapReturnInstrs
      (StructLoweringState.new returnsWithUnreachableBlock
        LargeSILTypeMapper.new)).F.getLoweredFunctionType = true := by decide
  have hL : returnsWithUnreachableBlockScanned.argsToLoadedValueMap = [] := rfl
  unfold LoadableStorageAllocation.allocateLoadableStorage
  simp only [hM, if_true, returnsWithUnreachableBlock_converted,
    returnsWithUnreachableBlock_applies, returnsWithUnreachableBlock_scanned,
    returnsWithUnreachableBlock_blockArgs, hL, forEachM]

theorem returnsWithUnreachableBlock_run :
    ModuleTransform.runOnFunction ModuleTransform.new toyModule 10
      returnsWithUnreachableBlock =
      .ok (returnsWithUnreachableBlockRewritten.F,
        ⟨returnsWithUnreachableBlockRewritten.Mapper, [5], [], []⟩) := by
  rw [runOnFunction_of_steps ModuleTransform.new toyModule 10 returnsWithUnreachableBlock
    returnsWithUnreachableBlockScanned returnsWithUnreachableBlockScanned
    returnsWithUnreachableBlockRewritten true
    (by decide) (by decide) returnsWithUnreachableBlock_allocated
    returnsWithUnreachableBlock_return returnsWithUnreachableBlock_rewritten (by decide)]
  rfl

/-! ## The loop over the returns to rewrite -/

/-- Every list of instructions ends in a maximal run of `dealloc_stack`. -/
theorem dealloc_suffix_split : ∀ before : List SILInstruction,
    ∃ pre deallocs, before = pre ++ deallocs ∧
      (∀ d ∈ deallocs, d.kind = SILInstructionKind.DeallocStackInst) ∧
      (∀ p ∈ pre.getLast?, p.kind ≠ SILInstructionKind.DeallocStackInst)
  | [] => ⟨[], [], rfl, fun d hd => absurd hd (List.not_mem_nil d), fun p hp => by cases hp⟩
  | x :: l => by
    obtain ⟨pre, deallocs, e, hD, hP⟩ := dealloc_suffix_split l
    by_cases hx : pre = [] ∧ x.kind = SILInstructionKind.DeallocStackInst
    · obtain ⟨hpre, hk⟩ := hx
      subst hpre
      refine ⟨[], x :: deallocs, by rw [e]; rfl, ?_, fun p hp => by cases hp⟩
      intro d hd
      rcases List.mem_cons.1 hd with h | h
      · rw [h]
        exact hk
      · exact hD d h
    · refine ⟨x :: pre, deallocs, by rw [e]; rfl, hD, ?_⟩
      intro p hp
      cases pre with
      | nil =>
        simp only [List.getLast?_singleton, Option.mem_def, Option.some.injEq] at hp
        subst hp
        intro hk
        exact hx ⟨rfl, hk⟩
      | cons y ys =>
        rw [List.getLast?_cons_cons] at hp
        exact hP p hp

/-- For a signature with a single large result `shouldTransformResults` does
not answer no. -/
theorem pure_shouldTransformResults_of_modNonFunc (Mod : IRGenModule)
    (env : Option GenericEnvironment) (fnType : SILFunctionType) (v : Bool)
    (hMod : modNonFuncTypeResultType env fnType Mod = .ok true)
    (h : Pure.shouldTransformResults Mod env fnType = some v) : v = true := by
  unfold modNonFuncTypeResultType at hMod
  rw [Pure.shouldTransformResults] at h
  by_cases hM : modifiableFunction fnType = true
  · simp only [hM, Bool.not_true, Bool.false_eq_true, if_false] at h hMod
    by_cases hnum : fnType.getNumResults ≠ 1
    · rw [if_pos hnum] at hMod
      cases hMod
    · rw [if_neg hnum] at h hMod
      split at h
      · next r hr =>
        rw [hr] at hMod
        simp only [] at hMod
        cases hT : Pure.getNewSILType Mod env r.getSILStorageInterfaceType with
        | none => rw [hT] at h; cases h
        | some newT =>
          rw [hT] at h
          simp only [] at h
          by_cases hne : r.getSILStorageInterfaceType ≠ newT
          · rw [if_pos hne] at h
            cases h
            rfl
          · rw [if_neg hne] at h
            cases hl : isLargeLoadableType env r.getSILStorageInterfaceType Mod with
            | error e => rw [hl] at hMod; cases hMod
            | ok b =>
              rw [hl] at hMod
              cases b with
              | false => cases hMod
              | true =>
                have hm2 : modNonFuncTypeResultType env fnType Mod = .ok true := by
                  unfold modNonFuncTypeResultType
                  simp only [hM, Bool.not_true, Bool.false_eq_true, if_false]
                  rw [if_neg hnum, hr]
                  simp only [hl]
                rw [hm2] at h
                cases h
                rfl
      · cases h
  · have hM2 : modifiableFunction fnType = false := by simpa using hM
    simp only [hM2, Bool.not_false, if_true] at hMod
    cases hMod

/-- The scan at a return of a function with a single large result: the return
goes on the worklist `modReturnInsts`. -/
theorem visitReturnInst_large_result (pass : StructLoweringState) (Mod : IRGenModule)
    (fuel : Nat) (instr : SILInstruction)
    (hV : Valid Mod pass.Mapper)
    (hf : 10 * sizeOf pass.F.getLoweredFunctionType + 7 < fuel)
    (hMod : pass.F.modNonFuncTypeResultType Mod = .ok true) :
    LargeValueVisitor.visitReturnInst pass Mod fuel instr = .error .assertion ∨
    ∃ Mapper1, LargeValueVisitor.visitReturnInst pass Mod fuel instr =
      .ok { pass with Mapper := Mapper1,
                      modReturnInsts := pass.modReturnInsts ++ [instr.id] } := by
  unfold LargeValueVisitor.visitReturnInst modResultType
  rcases ((refinesAt Mod fuel).shouldResults pass.F.getSubstGenericEnvironment
    pass.F.getLoweredFunctionType pass.Mapper hV hf).elim with
    ⟨_, he⟩ | ⟨v, M1, hp, hr, _, _⟩
  · left
    simp only [he]
  · right
    have hv := pure_shouldTransformResults_of_modNonFunc Mod _ _ v hMod hp
    subst hv
    refine ⟨M1, ?_⟩
    simp only [hr]
    have hMod2 : ({ pass with Mapper := M1 } : StructLoweringState).F.modNonFuncTypeResultType
        Mod = .ok true := hMod
    rw [hMod2]

/-- One round of the loop over `modReturnInsts`, for a return of an address and
for a return of a value. -/
theorem rewriteModReturnInsts_step
    (pass : StructLoweringState) (Mod : IRGenModule) (B1 B2 : List SILBasicBlock)
    (parent entry : SILBasicBlock) (retArg : SILArgument) (args : List SILArgument)
    (pre deallocs post : List SILInstruction) (ret : SILInstruction) (retOp : SILValue)
    (storageType : SILType) (rest : List Nat)
    (hB : pass.F.blocks = B1 ++ parent :: B2)
    (hI : parent.instructions = pre ++ deallocs ++ ret :: post)
    (hW : pass.F.WellFormed)
    (hD : storageType.isAddress = true →
      (∀ d ∈ deallocs, d.kind = SILInstructionKind.DeallocStackInst) ∧
      ∀ p ∈ pre.getLast?, p.kind ≠ SILInstructionKind.DeallocStackInst)
    (hS : storageType.isAddress = false → deallocs = [])
    (hL : pass.modReturnInsts = rest ++ [ret.id])
    (hMod : pass.F.modNonFuncTypeResultType Mod = .ok true)
    (hE : pass.F.getEntryBlock = some entry) (hA : entry.arguments = retArg :: args)
    (hOp : ret.operands = [retOp])
    (hTy : pass.F.getType retOp = some storageType) :
    (rewriteModReturnInsts pass Mod =
      rewriteModReturnInsts { pass with
        F := { pass.F with
          blocks := B1 ++ { parent with
            instructions := pre ++
              ⟨pass.F.nextId, (if storageType.isAddress then SILInstructionKind.CopyAddrInst true true
                else .StoreInst (getStoreInitOwnership pass Mod storageType)), [retOp, .argument retArg.id], none,
                [], 0⟩ :: deallocs ++
              [⟨pass.F.nextId + 1, .TupleInst, [],
                  some (SILType.getPrimitiveObjectType (.tuple .nil)), [], 0⟩,
                ⟨pass.F.nextId + 2, .ReturnInst, [.instruction (pass.F.nextId + 1)], none,
                  [], 0⟩] ++
              post } :: B2,
          nextId := pass.F.nextId + 3 },
        modReturnInsts := rest } Mod) ∧
    (rest = [] →
      rewriteModReturnInsts pass Mod = .ok { pass with
        F := { pass.F with
          blocks := B1 ++ { parent with
            instructions := pre ++
              ⟨pass.F.nextId, (if storageType.isAddress then SILInstructionKind.CopyAddrInst true true
                else .StoreInst (getStoreInitOwnership pass Mod storageType)), [retOp, .argument retArg.id], none,
                [], 0⟩ :: deallocs ++
              [⟨pass.F.nextId + 1, .TupleInst, [],
                  some (SILType.getPrimitiveObjectType (.tuple .nil)), [], 0⟩,
                ⟨pass.F.nextId + 2, .ReturnInst, [.instruction (pass.F.nextId + 1)], none,
                  [], 0⟩] ++
              post } :: B2,
          nextId := pass.F.nextId + 3 },
        modReturnInsts := [] }) := by
  obtain ⟨u1, u2, uB1, uB2, ult⟩ := hW.unique hB hI
  have hfind := findInstruction_of_split pass.F B1 B2 parent _ post ret hB hI u1 uB1
  have hpar := getParent_of_split pass.F B1 B2 parent _ post ret hB hI uB1
  have htw : parent.instructions.takeWhile (fun i => decide (i.id ≠ ret.id)) =
      pre ++ deallocs := by
    rw [hI]
    exact takeWhile_ne_id _ _ _ rfl _ u1
  have hs := fun f h => forEachM_snoc_step
    (f : Nat → StructLoweringState → Except Abort StructLoweringState) ret.id rest pass
    { pass with
      F := { pass.F with
        blocks := B1 ++ { parent with
          instructions := pre ++
            ⟨pass.F.nextId, (if storageType.isAddress then SILInstructionKind.CopyAddrInst true true
                else .StoreInst (getStoreInitOwnership pass Mod storageType)), [retOp, .argument retArg.id], none,
              [], 0⟩ :: deallocs ++
            [⟨pass.F.nextId + 1, .TupleInst, [],
                some (SILType.getPrimitiveObjectType (.tuple .nil)), [], 0⟩,
              ⟨pass.F.nextId + 2, .ReturnInst, [.instruction (pass.F.nextId + 1)], none,
                [], 0⟩] ++
            post } :: B2,
        nextId := pass.F.nextId + 3 } } h
  have hm := fun f hf => forEachM_modReturnInsts
    (f : Nat → StructLoweringState → Except Abort StructLoweringState) hf rest.reverse
    { pass with
      F := { pass.F with
        blocks := B1 ++ { parent with
          instructions := pre ++
            ⟨pass.F.nextId, (if storageType.isAddress then SILInstructionKind.CopyAddrInst true true
                else .StoreInst (getStoreInitOwnership pass Mod storageType)), [retOp, .argument retArg.id], none,
              [], 0⟩ :: deallocs ++
            [⟨pass.F.nextId + 1, .TupleInst, [],
                some (SILType.getPrimitiveObjectType (.tuple .nil)), [], 0⟩,
              ⟨pass.F.nextId + 2, .ReturnInst, [.instruction (pass.F.nextId + 1)], none,
                [], 0⟩] ++
            post } :: B2,
        nextId := pass.F.nextId + 3 } } rest
  have key : rewriteModReturnInsts pass Mod =
      rewriteModReturnInsts { pass with
        F := { pass.F with
          blocks := B1 ++ { parent with
            instructions := pre ++
              ⟨pass.F.nextId, (if storageType.isAddress then SILInstructionKind.CopyAddrInst true true
                else .StoreInst (getStoreInitOwnership pass Mod storageType)), [retOp, .argument retArg.id], none,
                [], 0⟩ :: deallocs ++
              [⟨pass.F.nextId + 1, .TupleInst, [],
                  some (SILType.getPrimitiveObjectType (.tuple .nil)), [], 0⟩,
                ⟨pass.F.nextId + 2, .ReturnInst, [.instruction (pass.F.nextId + 1)], none,
                  [], 0⟩] ++
              post } :: B2,
          nextId := pass.F.nextId + 3 },
        modReturnInsts := rest } Mod := by
    unfold rewriteModReturnInsts
    dsimp only
    rw [hL, hs, hm]
    · generalize forEachM _ rest.reverse _ = r
      cases r <;> rfl
    · intro a p m
      dsimp only
      cases h1 : p.F.modNonFuncTypeResultType Mod with
      | error e => rfl
      | ok b =>
        cases b with
        | false => rfl
        | true =>
          cases h2 : p.F.getEntryBlock <;> cases h3 : p.F.findInstruction a <;>
            cases h4 : p.F.getParent a <;> try rfl
          rename_i entry2 instr2 parent2
          dsimp only
          cases h5 : entry2.arguments <;> cases h6 : instr2.operands <;> try rfl
          rename_i retArg2 args2 retOp2 ops2
          cases ops2 <;> try rfl
          dsimp only
          cases h7 : p.F.getType retOp2 <;> rfl
    · dsimp only
      simp only [hMod, hE, hfind, hpar, hA, hOp, hTy, htw]
      cases hAddr : storageType.isAddress with
      | true =>
        obtain ⟨hD1, hP1⟩ := hD hAddr
        simp only [if_true]
        rcases returnCopyPoint parent pre deallocs post ret hI hD1 hP1 with
          ⟨x, hx, hxp⟩ | ⟨hn, hb⟩
        · simp only [hx]
          exact congrArg (fun F => Except.ok { pass with F := F })
            (returnRewrite_eq pass.F B1 B2 parent pre deallocs post ret (.before x.id) retOp
              (.argument retArg.id) (some (SILType.getPrimitiveObjectType (.tuple .nil)))
              hB hI hW hxp)
        · simp only [hn]
          exact congrArg (fun F => Except.ok { pass with F := F })
            (returnRewrite_eq pass.F B1 B2 parent pre deallocs post ret parent.beginPoint
              retOp (.argument retArg.id)
              (some (SILType.getPrimitiveObjectType (.tuple .nil))) hB hI hW hb)
      | false =>
        have hd0 := hS hAddr
        subst hd0
        simp only [Bool.false_eq_true, if_false]
        exact congrArg (fun F => Except.ok { pass with F := F })
          (returnRewriteWith_eq (.StoreInst (getStoreInitOwnership pass Mod storageType))
            pass.F B1 B2 parent pre [] post ret (.before ret.id) retOp
            (.argument retArg.id) (some (SILType.getPrimitiveObjectType (.tuple .nil)))
            hB hI hW rfl)
  refine ⟨key, ?_⟩
  intro hrest
  rw [key]
  subst hrest
  rfl

end LoadableByAddress

namespace LoadableByAddress

/-! ## Well-formedness under the changes of a function -/

theorem allInstructions_mapInstructions (g : SILInstruction → SILInstruction)
    (blocks : List SILBasicBlock) :
    (blocks.map (fun BB => ({ BB with instructions := BB.instructions.map g } :
      SILBasicBlock))).flatMap (fun BB => BB.instructions) =
      (blocks.flatMap (fun BB => BB.instructions)).map g := by
  induction blocks with
  | nil => rfl
  | cons B Bs ih =>
    rw [List.map_cons, List.flatMap_cons, List.flatMap_cons, List.map_append, ih]

theorem allInstructions_replaceAllUsesWith (F : SILFunction) (old new : SILValue) :
    (F.replaceAllUsesWith old new).allInstructions =
      F.allInstructions.map (SILInstruction.replaceOperand old new) :=
  allInstructions_mapInstructions _ F.blocks

theorem allInstructions_setOperand (F : SILFunction) (id index : Nat) (value : SILValue) :
    (F.setOperand id index value).allInstructions =
      F.allInstructions.map (fun i =>
        if i.id = id then { i with operands := i.operands.set index value } else i) :=
  allInstructions_mapInstructions _ F.blocks

theorem allInstructions_setOperands (F : SILFunction) (id : Nat) (operands : List SILValue) :
    (F.setOperands id operands).allInstructions =
      F.allInstructions.map (fun i =>
        if i.id = id then { i with operands := operands } else i) :=
  allInstructions_mapInstructions _ F.blocks

theorem allInstructions_erase (F : SILFunction) (id : Nat) :
    (F.erase id).allInstructions = F.allInstructions.filter (fun i => i.id ≠ id) := by
  unfold SILFunction.erase SILFunction.allInstructions
  generalize F.blocks = blocks
  induction blocks with
  | nil => rfl
  | cons B Bs ih =>
    rw [List.map_cons, List.flatMap_cons, List.flatMap_cons, List.filter_append, ih]

theorem allInstructions_updateBlock (F : SILFunction) (id : Nat)
    (f : SILBasicBlock → SILBasicBlock)
    (hf : ∀ BB, (f BB).id = BB.id ∧ (f BB).instructions = BB.instructions) :
    (F.updateBlock id f).allInstructions = F.allInstructions := by
  unfold SILFunction.updateBlock SILFunction.allInstructions
  generalize F.blocks = blocks
  induction blocks with
  | nil => rfl
  | cons B Bs ih =>
    rw [List.map_cons, List.flatMap_cons, List.flatMap_cons, ih]
    by_cases h : B.id = id
    · simp only [h, if_true, (hf B).2]
    · simp only [h, if_false]

theorem blockIds_updateBlock (F : SILFunction) (id : Nat)
    (f : SILBasicBlock → SILBasicBlock)
    (hf : ∀ BB, (f BB).id = BB.id ∧ (f BB).instructions = BB.instructions) :
    (F.updateBlock id f).blocks.map (fun BB => BB.id) = F.blocks.map (fun BB => BB.id) := by
  unfold SILFunction.updateBlock
  rw [List.map_map]
  apply List.map_congr_left
  intro BB _
  by_cases h : BB.id = id
  · simp only [Function.comp, h, if_true]
    rw [(hf BB).1, h]
  · simp only [Function.comp, h, if_false]

theorem insertBeforeInList_append_left (new : SILInstruction) (t : Nat)
    (l2 : List SILInstruction) :
    ∀ l1 : List SILInstruction, (∃ y ∈ l1, y.id = t) →
      insertBeforeInList new t (l1 ++ l2) = insertBeforeInList new t l1 ++ l2
  | [], h => by
    obtain ⟨y, hy, _⟩ := h
    cases hy
  | x :: l1, h => by
    by_cases hx : x.id = t
    · show insertBeforeInList new t (x :: (l1 ++ l2)) = insertBeforeInList new t (x :: l1) ++ l2
      simp only [insertBeforeInList, hx, if_true, List.cons_append]
    · have h2 : ∃ y ∈ l1, y.id = t := by
        obtain ⟨y, hy, hyt⟩ := h
        rcases List.mem_cons.1 hy with e | e
        · exact absurd (e ▸ hyt) hx
        · exact ⟨y, e, hyt⟩
      show insertBeforeInList new t (x :: (l1 ++ l2)) = insertBeforeInList new t (x :: l1) ++ l2
      simp only [insertBeforeInList, hx, if_false, List.cons_append,
        insertBeforeInList_append_left new t l2 l1 h2]

theorem insertBeforeInList_append_right (new : SILInstruction) (t : Nat)
    (l2 : List SILInstruction) :
    ∀ l1 : List SILInstruction, (∀ y ∈ l1, y.id ≠ t) →
      insertBeforeInList new t (l1 ++ l2) = l1 ++ insertBeforeInList new t l2
  | [], _ => rfl
  | x :: l1, h => by
    have hx : x.id ≠ t := h x (List.mem_cons_self _ _)
    show insertBeforeInList new t (x :: (l1 ++ l2)) = x :: l1 ++ insertBeforeInList new t l2
    simp only [insertBeforeInList, hx, if_false, List.cons_append,
      insertBeforeInList_append_right new t l2 l1
        (fun y hy => h y (List.mem_cons_of_mem _ hy))]

/-- In a function with distinct identities, the insertion before an
instruction, done block by block, is the insertion into the list of all the
instructions. -/
theorem allInstructions_insertBefore (new : SILInstruction) (t : Nat) :
    ∀ blocks : List SILBasicBlock,
      ((blocks.flatMap (fun BB => BB.instructions)).map (fun i => i.id)).Nodup →
      (blocks.map (fun BB => ({ BB with
        instructions := insertBeforeInList new t BB.instructions } :
          SILBasicBlock))).flatMap (fun BB => BB.instructions) =
        insertBeforeInList new t (blocks.flatMap (fun BB => BB.instructions))
  | [], _ => rfl
  | B :: Bs, h => by
    rw [List.flatMap_cons, List.map_append] at h
    have hn := List.nodup_append.1 h
    rw [List.map_cons, List.flatMap_cons, List.flatMap_cons,
      allInstructions_insertBefore new t Bs hn.2.1]
    by_cases hB : ∃ y ∈ B.instructions, y.id = t
    · rw [insertBeforeInList_append_left new t _ _ hB]
      have hBs : ∀ y ∈ Bs.flatMap (fun BB => BB.instructions), y.id ≠ t := by
        intro y hy hyt
        obtain ⟨x, hx, hxt⟩ := hB
        exact hn.2.2 (List.mem_map.2 ⟨x, hx, hxt⟩) (List.mem_map.2 ⟨y, hy, hyt⟩)
      rw [insertBeforeInList_of_not_mem new t _ hBs]
    · have hB2 : ∀ y ∈ B.instructions, y.id ≠ t := fun y hy hyt => hB ⟨y, hy, hyt⟩
      rw [insertBeforeInList_append_right new t _ _ hB2,
        insertBeforeInList_of_not_mem new t _ hB2]

theorem nodup_insertAtBlockEnd (new : SILInstruction) (b : Nat) :
    ∀ blocks : List SILBasicBlock, (blocks.map (fun BB => BB.id)).Nodup →
      ((blocks.flatMap (fun BB => BB.instructions)).map (fun i => i.id)).Nodup →
      (∀ i ∈ blocks.flatMap (fun BB => BB.instructions), i.id ≠ new.id) →
      (((blocks.map (fun BB => if BB.id = b then
          ({ BB with instructions := BB.instructions ++ [new] } : SILBasicBlock)
        else BB)).flatMap (fun BB => BB.instructions)).map (fun i => i.id)).Nodup
  | [], _, _, _ => List.nodup_nil
  | B :: Bs, hb, h, hnew => by
    rw [List.map_cons] at hb
    have hbn := List.nodup_cons.1 hb
    have h0 := h
    rw [List.flatMap_cons, List.map_append] at h
    have hn := List.nodup_append.1 h
    have hnewBs : ∀ i ∈ Bs.flatMap (fun BB => BB.instructions), i.id ≠ new.id :=
      fun i hi => hnew i (by rw [List.flatMap_cons]; exact List.mem_append_right _ hi)
    by_cases hB : B.id = b
    · have hBs : Bs.map (fun BB => if BB.id = b then
          ({ BB with instructions := BB.instructions ++ [new] } : SILBasicBlock)
          else BB) = Bs := by
        conv => rhs; rw [← List.map_id Bs]
        apply List.map_congr_left
        intro BB hBB
        have : BB.id ≠ b := by
          intro e
          exact hbn.1 (List.mem_map.2 ⟨BB, hBB, by rw [e, hB]⟩)
        simp [this]
      rw [List.map_cons, hBs]
      simp only [hB, if_true, List.flatMap_cons, List.map_append, List.map_cons, List.map_nil,
        List.append_assoc, List.singleton_append]
      have hp : (B.instructions.map (fun i => i.id) ++
          new.id :: (Bs.flatMap (fun BB => BB.instructions)).map (fun i => i.id)).Perm
          (new.id :: (B.instructions.map (fun i => i.id) ++
            (Bs.flatMap (fun BB => BB.instructions)).map (fun i => i.id))) :=
        List.perm_middle
      refine (List.Perm.nodup_iff hp).2 (List.nodup_cons.2 ⟨?_, h⟩)
      intro hmem
      rw [← List.map_append, ← List.flatMap_cons] at hmem
      obtain ⟨i, hi, hid⟩ := List.mem_map.1 hmem
      exact hnew i hi hid
    · rw [List.map_cons]
      simp only [hB, if_false, List.flatMap_cons, List.map_append]
      refine List.nodup_append.2 ⟨hn.1, nodup_insertAtBlockEnd new b Bs hbn.2 hn.2.1 hnewBs, ?_⟩
      intro x hx1 hx2
      obtain ⟨i, hi, hid⟩ := List.mem_map.1 hx2
      obtain ⟨BB, hBB, hi2⟩ := List.mem_flatMap.1 hi
      obtain ⟨BB0, hBB0, rfl⟩ := List.mem_map.1 hBB
      by_cases e : BB0.id = b
      · simp only [e, if_true] at hi2
        rcases List.mem_append.1 hi2 with h1 | h1
        · exact hn.2.2 hx1 (List.mem_map.2 ⟨i, List.mem_flatMap.2 ⟨BB0, hBB0, h1⟩, hid⟩)
        · have ei : i = new := by simpa using h1
          obtain ⟨j, hj, hjid⟩ := List.mem_map.1 hx1
          refine hnew j (by rw [List.flatMap_cons]; exact List.mem_append_left _ hj) ?_
          rw [hjid, ← hid, ei]
      · simp only [e, if_false] at hi2
        exact hn.2.2 hx1 (List.mem_map.2 ⟨i, List.mem_flatMap.2 ⟨BB0, hBB0, hi2⟩, hid⟩)

theorem mem_allInstructions_insert {F : SILFunction} {at_ : InsertionPoint}
    {new i : SILInstruction} (h : i ∈ (F.insert at_ new).allInstructions) :
    i = new ∨ i ∈ F.allInstructions := by
  unfold SILFunction.allInstructions at h ⊢
  obtain ⟨BB, hBB, hi⟩ := List.mem_flatMap.1 h
  cases at_ with
  | before id =>
    obtain ⟨BB0, hBB0, rfl⟩ := List.mem_map.1 hBB
    rcases mem_insertBeforeInList hi with e | e
    · exact Or.inl e
    · exact Or.inr (List.mem_flatMap.2 ⟨BB0, hBB0, e⟩)
  | blockEnd b =>
    obtain ⟨BB0, hBB0, rfl⟩ := List.mem_map.1 hBB
    by_cases e : BB0.id = b
    · simp only [e, if_true] at hi
      rcases List.mem_append.1 hi with h1 | h1
      · exact Or.inr (List.mem_flatMap.2 ⟨BB0, hBB0, h1⟩)
      · exact Or.inl (by simpa using h1)
    · simp only [e, if_false] at hi
      exact Or.inr (List.mem_flatMap.2 ⟨BB0, hBB0, hi⟩)

theorem mem_allInstructions_insert_of_mem {F : SILFunction} {at_ : InsertionPoint}
    {new i : SILInstruction} (h : i ∈ F.allInstructions) :
    i ∈ (F.insert at_ new).allInstructions := by
  unfold SILFunction.allInstructions at h ⊢
  obtain ⟨BB, hBB, hi⟩ := List.mem_flatMap.1 h
  cases at_ with
  | before id =>
    exact List.mem_flatMap.2 ⟨_, List.mem_map.2 ⟨BB, hBB, rfl⟩,
      mem_insertBeforeInList_of_mem hi⟩
  | blockEnd b =>
    refine List.mem_flatMap.2 ⟨_, List.mem_map.2 ⟨BB, hBB, rfl⟩, ?_⟩
    by_cases e : BB.id = b
    · simp only [e, if_true]
      exact List.mem_append_left _ hi
    · simp only [e, if_false]
      exact hi

theorem blockIds_insert (F : SILFunction) (at_ : InsertionPoint) (new : SILInstruction) :
    (F.insert at_ new).blocks.map (fun BB => BB.id) = F.blocks.map (fun BB => BB.id) := by
  cases at_ with
  | before id =>
    unfold SILFunction.insert
    simp only [List.map_map]
    apply List.map_congr_left
    intro BB _
    rfl
  | blockEnd b =>
    unfold SILFunction.insert
    simp only [List.map_map]
    apply List.map_congr_left
    intro BB _
    by_cases e : BB.id = b
    · simp only [Function.comp, e, if_true]
    · simp only [Function.comp, e, if_false]

theorem SILFunction.WellFormed.after_createWith {F : SILFunction} (hW : F.WellFormed)
    (at_ : InsertionPoint) (kind : SILInstructionKind) (operands : List SILValue)
    (type : Option SILType) (successors : List Nat) (attributes : Nat) :
    (F.createWith at_ kind operands type successors attributes).2.WellFormed := by
  obtain ⟨hN, hlt, hb⟩ := hW
  have hfresh : ∀ i ∈ F.allInstructions,
      i.id ≠ (⟨F.nextId, kind, operands, type, successors, attributes⟩ : SILInstruction).id :=
    fun i hi => Nat.ne_of_lt (hlt i hi)
  refine ⟨?_, ?_, ?_⟩
  · show (((F.insert at_ ⟨F.nextId, kind, operands, type, successors,
      attributes⟩).allInstructions).map (fun i => i.id)).Nodup
    cases at_ with
    | before id =>
      unfold SILFunction.insert SILFunction.allInstructions
      simp only
      rw [allInstructions_insertBefore _ _ _ hN]
      exact nodup_insertBeforeInList _ _ _ hN hfresh
    | blockEnd b =>
      exact nodup_insertAtBlockEnd _ b F.blocks hb hN hfresh
  · intro i hi
    have hi2 : i ∈ (F.insert at_ ⟨F.nextId, kind, operands, type, successors,
        attributes⟩).allInstructions := hi
    show i.id < F.nextId + 1
    rcases mem_allInstructions_insert hi2 with e | e
    · rw [e]
      exact Nat.lt_succ_self _
    · exact Nat.lt_succ_of_lt (hlt i e)
  · show ((F.insert at_ ⟨F.nextId, kind, operands, type, successors,
      attributes⟩).blocks.map (fun BB => BB.id)).Nodup
    rw [blockIds_insert]
    exact hb

theorem SILFunction.WellFormed.after_mapInstructions {F : SILFunction} (hW : F.WellFormed)
    (g : SILInstruction → SILInstruction) (hg : ∀ i, (g i).id = i.id) :
    ({ F with blocks := F.blocks.map (fun BB =>
      ({ BB with instructions := BB.instructions.map g } : SILBasicBlock)) } :
        SILFunction).WellFormed := by
  obtain ⟨hN, hlt, hb⟩ := hW
  have e : ({ F with blocks := F.blocks.map (fun BB =>
      ({ BB with instructions := BB.instructions.map g } : SILBasicBlock)) } :
        SILFunction).allInstructions = F.allInstructions.map g :=
    allInstructions_mapInstructions g F.blocks
  have e2 : (F.allInstructions.map g).map (fun i => i.id) =
      F.allInstructions.map (fun i => i.id) := by
    rw [List.map_map]
    apply List.map_congr_left
    intro i _
    exact hg i
  refine ⟨?_, ?_, ?_⟩
  · rw [e, e2]
    exact hN
  · intro i hi
    rw [e] at hi
    obtain ⟨j, hj, rfl⟩ := List.mem_map.1 hi
    rw [hg j]
    exact hlt j hj
  · show ((F.blocks.map (fun BB =>
      ({ BB with instructions := BB.instructions.map g } : SILBasicBlock))).map
        (fun BB => BB.id)).Nodup
    rw [List.map_map]
    exact hb

theorem SILFunction.WellFormed.after_erase {F : SILFunction} (hW : F.WellFormed) (id : Nat) :
    (F.erase id).WellFormed := by
  obtain ⟨hN, hlt, hb⟩ := hW
  refine ⟨?_, ?_, ?_⟩
  · rw [allInstructions_erase]
    exact List.Nodup.sublist (List.Sublist.map _ (List.filter_sublist _)) hN
  · intro i hi
    rw [allInstructions_erase] at hi
    exact hlt i (List.mem_of_mem_filter hi)
  · show ((F.blocks.map (fun BB =>
      ({ BB with instructions := BB.instructions.filter (fun i => i.id ≠ id) } :
        SILBasicBlock))).map (fun BB => BB.id)).Nodup
    rw [List.map_map]
    exact hb

theorem SILFunction.WellFormed.after_updateBlock {F : SILFunction} (hW : F.WellFormed) (id : Nat)
    (f : SILBasicBlock → SILBasicBlock)
    (hf : ∀ BB, (f BB).id = BB.id ∧ (f BB).instructions = BB.instructions) :
    (F.updateBlock id f).WellFormed := by
  obtain ⟨hN, hlt, hb⟩ := hW
  refine ⟨?_, ?_, ?_⟩
  · rw [allInstructions_updateBlock F id f hf]
    exact hN
  · intro i hi
    rw [allInstructions_updateBlock F id f hf] at hi
    exact hlt i hi
  · rw [blockIds_updateBlock F id f hf]
    exact hb

theorem SILFunction.Step.nextId_le {P : StepPolicy} {F G : SILFunction}
    (h : SILFunction.Step P F G) : F.nextId ≤ G.nextId := by
  induction h with
  | same F => exact Nat.le_refl _
  | next _ _ ih1 ih2 => exact Nat.le_trans ih1 ih2
  | create F at_ kind operands type successors attributes _ _ => exact Nat.le_succ _
  | replaceAllUsesWith F old new _ _ => exact Nat.le_refl _
  | setOperand F id index value _ _ => exact Nat.le_refl _
  | setOperands F id operands _ _ => exact Nat.le_refl _
  | erase F id => exact Nat.le_refl _
  | updateBlock F id f _ _ => exact Nat.le_refl _
  | fresh F => exact Nat.le_succ _

theorem SILFunction.Step.wellFormed {P : StepPolicy} {F G : SILFunction}
    (h : SILFunction.Step P F G) : F.WellFormed → G.WellFormed := by
  induction h with
  | same F => exact id
  | next _ _ ih1 ih2 => exact fun hW => ih2 (ih1 hW)
  | create F at_ kind operands type successors attributes _ _ =>
    exact fun hW => hW.after_createWith at_ kind operands type successors attributes
  | replaceAllUsesWith F old new _ _ =>
    exact fun hW => hW.after_mapInstructions _ (fun _ => rfl)
  | setOperand F id index value _ _ =>
    intro hW
    refine hW.after_mapInstructions _ (fun i => ?_)
    by_cases e : i.id = id
    · simp only [e, if_true]
    · simp only [e, if_false]
  | setOperands F id operands _ _ =>
    intro hW
    refine hW.after_mapInstructions _ (fun i => ?_)
    by_cases e : i.id = id
    · simp only [e, if_true]
    · simp only [e, if_false]
  | erase F id => exact fun hW => hW.after_erase id
  | updateBlock F id f _ hf => exact fun hW => hW.after_updateBlock id f hf
  | fresh F =>
    intro hW
    exact ⟨hW.1, fun i hi => Nat.lt_succ_of_lt (hW.2.1 i hi), hW.2.2⟩

/-- A change under a policy is a change under every weaker policy. -/
theorem SILFunction.Step.weaken {P Q : StepPolicy} {F G : SILFunction}
    (h : SILFunction.Step P F G) (hOld : ∀ v, P.okOld v → Q.okOld v)
    (hNew : ∀ v, P.okNew v → Q.okNew v) (hBlock : ∀ b, P.okBlock b → Q.okBlock b)
    (hCreate : ∀ k ops, P.okCreate k ops → Q.okCreate k ops) : SILFunction.Step Q F G := by
  induction h with
  | same F => exact .same F
  | next _ _ ih1 ih2 => exact .next ih1 ih2
  | create F at_ kind operands type successors attributes hC hS =>
    exact .create F at_ kind operands type successors attributes (hCreate _ _ hC)
      (fun s hs => hBlock s (hS s hs))
  | replaceAllUsesWith F old new hO hN =>
    exact .replaceAllUsesWith F old new (hOld _ hO) (hNew _ hN)
  | setOperand F id index value hN hO =>
    exact .setOperand F id index value (hNew _ hN) (fun i hi e v hv => hOld _ (hO i hi e v hv))
  | setOperands F id operands hC hN =>
    exact .setOperands F id operands (fun i hi e => hCreate _ _ (hC i hi e))
      (fun i hi e v hv => (hN i hi e v hv).imp (fun h => h) (hNew v))
  | erase F id => exact .erase F id
  | updateBlock F id f hB hf => exact .updateBlock F id f (hBlock _ hB) hf
  | fresh F => exact .fresh F

/-! ## The rewriting steps as changes of the function -/

theorem StepPolicy.Open.storage {P : StepPolicy} (h : P.Open) : P.Storage :=
  ⟨fun _ => h.2 _ _, fun _ => h.2 _ _, fun _ => h.2 _ _, fun _ _ => h.2 _ _⟩

theorem StepPolicy.Recent.later {P : StepPolicy} {n m : Nat} (h : P.Recent n) (hnm : n ≤ m) :
    P.Recent m :=
  fun k hk => h k (Nat.le_trans hnm hk)

theorem StructLoweringState.Rewrites.nothing (P : StepPolicy) (p : StructLoweringState) :
    p.Rewrites P p :=
  ⟨.same _, rfl, rfl, rfl, rfl⟩

theorem StructLoweringState.Rewrites.followedBy {P : StepPolicy}
    {p q r : StructLoweringState} (h1 : p.Rewrites P q) (h2 : q.Rewrites P r) :
    p.Rewrites P r :=
  ⟨.next h1.1 h2.1, h2.2.1.trans h1.2.1, h2.2.2.1.trans h1.2.2.1,
    h2.2.2.2.1.trans h1.2.2.2.1, h2.2.2.2.2.trans h1.2.2.2.2⟩

theorem StructLoweringState.Rewrites.nextId_mono {P : StepPolicy}
    {p q : StructLoweringState} (h : p.Rewrites P q) : p.F.nextId ≤ q.F.nextId :=
  h.1.nextId_le

/-- A state that differs from `p` in its mapper only. -/
theorem StructLoweringState.Rewrites.of_mapper_eq (P : StepPolicy)
    {p q : StructLoweringState} (h : q = { p with Mapper := q.Mapper }) : p.Rewrites P q := by
  rw [h]
  exact ⟨.same _, rfl, rfl, rfl, rfl⟩

theorem StructLoweringState.Rewrites.of_core (P : StepPolicy)
    {p q : StructLoweringState} (h : q.core = p.core) : p.Rewrites P q := by
  unfold StructLoweringState.core at h
  simp only [Prod.mk.injEq] at h
  obtain ⟨h1, h2, h3, h4, h5⟩ := h
  refine ⟨?_, h2, h3, h4, h5⟩
  rw [h1]
  exact .same _

theorem StructLoweringState.core_of_mapper_eq {p q : StructLoweringState}
    (h : q = { p with Mapper := q.Mapper }) : q.core = p.core := by
  rw [h]
  rfl

theorem forEachM_inv {α σ : Type} (f : α → σ → Except Abort σ) (I : σ → Prop) :
    ∀ (l : List α), (∀ a ∈ l, ∀ s s1, I s → f a s = .ok s1 → I s1) →
      ∀ s s1, I s → forEachM f l s = .ok s1 → I s1
  | [], _, s, s1, hI, h => by
    simp only [forEachM, Except.ok.injEq] at h
    exact h ▸ hI
  | a :: rest, hf, s, s1, hI, h => by
    simp only [forEachM] at h
    split at h
    · cases h
    · rename_i s2 h2
      exact forEachM_inv f I rest (fun b hb => hf b (List.mem_cons_of_mem _ hb)) s2 s1
        (hf a (List.mem_cons_self _ _) s s2 hI h2) h

theorem forEachM_core {α : Type}
    (f : α → StructLoweringState → Except Abort StructLoweringState) (l : List α)
    (hf : ∀ a ∈ l, ∀ s s1, f a s = .ok s1 → s1.core = s.core)
    {s s1 : StructLoweringState} (h : forEachM f l s = .ok s1) : s1.core = s.core :=
  forEachM_inv f (fun t => t.core = s.core) l
    (fun a ha t t1 ht h1 => (hf a ha t t1 h1).trans ht) s s1 rfl h

theorem deallocFold_rewrites (P : StepPolicy) (hD : ∀ ops, P.okCreate .DeallocStackInst ops)
    (a : Nat) :
    ∀ (ts : List Nat) (p : StructLoweringState),
      p.Rewrites P (ts.foldl (fun (p : StructLoweringState) termInst =>
        let created := p.F.create (.before termInst) .DeallocStackInst [.instruction a] none
        { p with F := created.2 }) p)
  | [], p => .nothing P p
  | t :: ts, p => by
    rw [List.foldl_cons]
    refine .followedBy ?_ (deallocFold_rewrites P hD a ts _)
    exact ⟨.create p.F _ _ _ _ _ _ (hD _) (fun s hs => by cases hs), rfl, rfl, rfl, rfl⟩

theorem deallocFold_mem (a : Nat) (i : SILInstruction) :
    ∀ (ts : List Nat) (p : StructLoweringState), i ∈ p.F.allInstructions →
      i ∈ (ts.foldl (fun (p : StructLoweringState) termInst =>
        let created := p.F.create (.before termInst) .DeallocStackInst [.instruction a] none
        { p with F := created.2 }) p).F.allInstructions
  | [], _, h => h
  | t :: ts, p, h => by
    rw [List.foldl_cons]
    refine deallocFold_mem a i ts _ ?_
    exact mem_allInstructions_insert_of_mem h

theorem mem_insert_beginPoint (F : SILFunction) (entry : SILBasicBlock)
    (new : SILInstruction) (hE : entry ∈ F.blocks) :
    new ∈ (F.insert entry.beginPoint new).allInstructions := by
  unfold SILFunction.allInstructions SILBasicBlock.beginPoint
  cases hI : entry.instructions with
  | nil =>
    simp only [SILFunction.insert]
    refine List.mem_flatMap.2 ⟨_, List.mem_map.2 ⟨entry, hE, rfl⟩, ?_⟩
    simp
  | cons first rest =>
    simp only [SILFunction.insert]
    refine List.mem_flatMap.2 ⟨_, List.mem_map.2 ⟨entry, hE, rfl⟩, ?_⟩
    simp [hI, insertBeforeInList]

/-- What `allocate` does: it only creates instructions, the `alloc_stack`
first, with the next free identity. -/
theorem allocate_rewrites (P : StepPolicy) (hS : P.Storage) {pass q : StructLoweringState}
    {type : SILType} {alloc : SILInstruction} (h : allocate pass type = .ok (alloc, q)) :
    pass.Rewrites P q ∧
    alloc = ⟨pass.F.nextId, .AllocStackInst, [], some type.getAddressType, [], 0⟩ ∧
    pass.F.nextId < q.F.nextId ∧ alloc ∈ q.F.allInstructions ∧
    (∀ i ∈ pass.F.allInstructions, i ∈ q.F.allInstructions) := by
  unfold allocate at h
  split at h
  · cases h
  · split at h
    · cases h
    · rename_i entry hE
      simp only [Except.ok.injEq, Prod.mk.injEq] at h
      obtain ⟨h1, h2⟩ := h
      have hEm : entry ∈ pass.F.blocks := by
        unfold SILFunction.getEntryBlock at hE
        exact List.mem_of_mem_head? hE
      have hstep : pass.Rewrites P
          { pass with F := (pass.F.create entry.beginPoint .AllocStackInst []
            (some type.getAddressType)).2 } :=
        ⟨.create pass.F _ _ _ _ _ _ (hS.1 _) (fun s hs => by cases hs), rfl, rfl, rfl, rfl⟩
      have hfold := deallocFold_rewrites P hS.2.1 pass.F.nextId pass.returnInsts
        { pass with F := (pass.F.create entry.beginPoint .AllocStackInst []
          (some type.getAddressType)).2 }
      have hr : pass.Rewrites P q := by
        rw [← h2]
        exact hstep.followedBy hfold
      refine ⟨hr, h1.symm, ?_, ?_, ?_⟩
      · rw [← h2]
        exact Nat.lt_of_lt_of_le (Nat.lt_succ_self _) hfold.nextId_mono
      · rw [← h2, ← h1]
        exact deallocFold_mem _ _ _ _ (mem_insert_beginPoint pass.F entry _ hEm)
      · intro i hi
        rw [← h2]
        exact deallocFold_mem _ _ _ _ (mem_allInstructions_insert_of_mem hi)

theorem createStoreInit_rewrites (P : StepPolicy) (hS : P.Storage)
    {pass q : StructLoweringState} {Mod : IRGenModule} {where_ : InsertionPoint}
    {value address : SILValue} {store : SILInstruction}
    (h : createStoreInit pass Mod where_ value address = .ok (store, q)) :
    pass.Rewrites P q ∧ pass.F.nextId < q.F.nextId ∧
    ∃ type, pass.F.getType value = some type ∧
      store = ⟨pass.F.nextId, .StoreInst (getStoreInitOwnership pass Mod type),
        [value, address], none, [], 0⟩ ∧
      q = { pass with F := (pass.F.create where_
        (.StoreInst (getStoreInitOwnership pass Mod type)) [value, address] none).2 } := by
  unfold createStoreInit at h
  split at h
  · cases h
  · rename_i type hT
    simp only [Except.ok.injEq, Prod.mk.injEq] at h
    obtain ⟨h1, h2⟩ := h
    refine ⟨?_, ?_, type, hT, h1.symm, h2.symm⟩
    · rw [← h2]
      exact ⟨.create pass.F _ _ _ _ _ _ (hS.2.2.2 _ _) (fun s hs => by cases hs),
        rfl, rfl, rfl, rfl⟩
    · rw [← h2]
      exact Nat.lt_succ_self _

theorem hasMandatoryRewriteUse_state {pass pass1 : StructLoweringState} {Mod : IRGenModule}
    {fuel : Nat} {value : SILValue} {b : Bool}
    (h : hasMandatoryRewriteUse pass Mod fuel value = .ok (b, pass1)) :
    pass1 = { pass with Mapper := pass1.Mapper } := by
  unfold hasMandatoryRewriteUse at h
  refine anyElem_state _ ?_ _ _ _ _ h
  intro a p b1 p1 h1
  dsimp only at h1
  repeat' split at h1
  all_goals first
    | (cases h1; done)
    | (cases h1; rfl)
    | (rename_i h3; have e3 := StructLoweringState.getNewSILType_state h3; cases h1; exact e3)

theorem allUsesAreReplaceable_state {pass pass1 : StructLoweringState} {Mod : IRGenModule}
    {fuel : Nat} {instr : SILInstruction} {b : Bool}
    (h : allUsesAreReplaceable pass Mod fuel instr = .ok (b, pass1)) :
    pass1 = { pass with Mapper := pass1.Mapper } := by
  unfold allUsesAreReplaceable at h
  split at h
  · cases h
  · rename_i nr p0 h0
    simp only [Except.ok.injEq, Prod.mk.injEq] at h
    rw [← h.2]
    refine anyElem_state _ ?_ _ _ _ _ h0
    intro a p b1 p1 h1
    dsimp only at h1
    repeat' split at h1
    all_goals first
      | (cases h1; done)
      | (cases h1; rfl)
      | (rename_i h3; have e3 := StructLoweringState.getNewSILType_state h3; cases h1; exact e3)

theorem createOutlinedCopyCall_rewrites (P : StepPolicy) (hS : P.Storage)
    (p : StructLoweringState) (at_ : InsertionPoint) (src tgt : SILValue) :
    p.Rewrites P { p with F := (createOutlinedCopyCall p.F at_ src tgt).2 } :=
  ⟨.create p.F _ _ _ _ _ _ (hS.2.2.1 _) (fun s hs => by cases hs), rfl, rfl, rfl, rfl⟩

theorem replaceLoadWithCopyAddr_rewrites (P : StepPolicy) (hS : P.Storage)
    {pass q : StructLoweringState} {load : SILInstruction}
    (hR : P.Recent pass.F.nextId) (hOld : P.okOld (.instruction load.id))
    (h : replaceLoadWithCopyAddr pass load = .ok q) : pass.Rewrites P q := by
  unfold replaceLoadWithCopyAddr at h
  split at h
  · rename_i value hops
    split at h
    · cases h
    · rename_i valueType hT
      split at h
      · cases h
      · rename_i allocInstr pass1 hA
        obtain ⟨r1, ea, hlt, _, _⟩ := allocate_rewrites P hS hA
        dsimp only at h
        split at h
        · cases h
        · rename_i pass3 h3
          have c3 : pass3.core = ({ pass1 with F := (createOutlinedCopyCall pass1.F
              (.before load.id) value (.instruction allocInstr.id)).2 } :
                StructLoweringState).core := by
            refine forEachM_core _ _ ?_ h3
            intro a _ s s1 h1
            repeat' split at h1
            all_goals first
              | (cases h1; done)
              | (cases h1; rfl)
          simp only [Except.ok.injEq] at h
          rw [← h]
          have r2 := createOutlinedCopyCall_rewrites P hS pass1 (.before load.id) value
            (.instruction allocInstr.id)
          have r3 := StructLoweringState.Rewrites.of_core P c3
          refine r1.followedBy (r2.followedBy (r3.followedBy ?_))
          have hN : P.okNew (.instruction allocInstr.id) := by
            rw [ea]
            exact (hR _ (Nat.le_refl _)).2
          exact ⟨.next (.replaceAllUsesWith _ _ _ hOld hN) (.erase _ _), rfl, rfl, rfl, rfl⟩
  · cases h

theorem SILFunction.WellFormed.eq_of_id {F : SILFunction} (hW : F.WellFormed)
    {i j : SILInstruction} (hi : i ∈ F.allInstructions) (hj : j ∈ F.allInstructions)
    (h : i.id = j.id) : i = j :=
  List.inj_on_of_nodup_map hW.1 hi hj h

theorem mem_getUses {F : SILFunction} {value : SILValue} {u : Nat × Nat}
    (h : u ∈ F.getUses value) :
    ∃ j ∈ F.allInstructions, j.id = u.1 ∧ j.operands.get? u.2 = some value := by
  unfold SILFunction.getUses at h
  obtain ⟨j, hj, hu⟩ := List.mem_flatMap.1 h
  obtain ⟨o, ho, rfl⟩ := List.mem_map.1 hu
  obtain ⟨ho1, ho2⟩ := List.mem_filter.1 ho
  refine ⟨j, hj, rfl, ?_⟩
  have e1 := List.mem_enum_iff_getElem?.1 ho1
  have e2 : o.2 = value := by simpa using ho2
  rw [List.get?_eq_getElem?, e1, e2]

/-- In a well-formed function, the operand of a use of a value is the value. -/
theorem operand_of_use {F : SILFunction} (hW : F.WellFormed) {value : SILValue}
    {u : Nat × Nat} (hu : u ∈ F.getUses value) {i : SILInstruction}
    (hi : i ∈ F.allInstructions) (e : i.id = u.1) {v : SILValue}
    (hv : i.operands.get? u.2 = some v) : v = value := by
  obtain ⟨j, hj, ej, hjv⟩ := mem_getUses hu
  have eij : i = j := hW.eq_of_id hi hj (e.trans ej.symm)
  rw [eij, hjv] at hv
  exact (Option.some.inj hv).symm

theorem setUsesFold_rewrites (P : StepPolicy) (old new : SILValue)
    (hOld : P.okOld old) (hNewOld : P.okOld new) (hNew : P.okNew new) :
    ∀ (uses : List (Nat × Nat)) (p : StructLoweringState),
      (∀ i ∈ p.F.allInstructions, ∀ u ∈ uses, i.id = u.1 →
        ∀ v, i.operands.get? u.2 = some v → v = old ∨ v = new) →
      p.Rewrites P (uses.foldl (fun (p : StructLoweringState) use =>
        { p with F := p.F.setOperand use.1 use.2 new }) p)
  | [], p, _ => .nothing P p
  | u :: uses, p, hI => by
    rw [List.foldl_cons]
    have r1 : p.Rewrites P { p with F := p.F.setOperand u.1 u.2 new } := by
      refine ⟨.setOperand _ _ _ _ hNew ?_, rfl, rfl, rfl, rfl⟩
      intro i hi e v hv
      rcases hI i hi u (List.mem_cons_self _ _) e v hv with h | h
      · exact h ▸ hOld
      · exact h ▸ hNewOld
    refine r1.followedBy (setUsesFold_rewrites P old new hOld hNewOld hNew uses _ ?_)
    intro i hi u2 hu2 e v hv
    have hi2 : i ∈ (p.F.setOperand u.1 u.2 new).allInstructions := hi
    rw [allInstructions_setOperand] at hi2
    obtain ⟨j, hj, rfl⟩ := List.mem_map.1 hi2
    by_cases ej : j.id = u.1
    · simp only [ej, if_true] at e hv
      by_cases ei : u.2 = u2.2
      · rw [List.get?_eq_getElem?, List.getElem?_set] at hv
        simp only [ei, if_true] at hv
        split at hv
        · exact Or.inr (Option.some.inj hv).symm
        · cases hv
      · rw [List.get?_eq_getElem?, List.getElem?_set_ne ei, ← List.get?_eq_getElem?] at hv
        exact hI j hj u2 (List.mem_cons_of_mem _ hu2) (ej.trans e) v hv
    · simp only [ej, if_false] at e hv
      exact hI j hj u2 (List.mem_cons_of_mem _ hu2) e v hv

theorem replaceLoadWithCopyAddrForModifiable_rewrites (P : StepPolicy) (hS : P.Storage)
    {pass q : StructLoweringState} {Mod : IRGenModule} {fuel : Nat} {load : SILInstruction}
    (hW : pass.F.WellFormed) (hR : P.Recent pass.F.nextId)
    (hOld : P.okOld (.instruction load.id))
    (h : replaceLoadWithCopyAddrForModifiable pass Mod fuel load = .ok q) :
    pass.Rewrites P q := by
  unfold replaceLoadWithCopyAddrForModifiable at h
  split at h
  · cases h
  · rename_i pass0 h0
    have e0 := hasMandatoryRewriteUse_state h0
    cases h
    exact .of_mapper_eq P e0
  · rename_i pass0 h0
    have e0 := hasMandatoryRewriteUse_state h0
    have r0 : pass.Rewrites P pass0 := .of_mapper_eq P e0
    have eF : pass0.F = pass.F := by rw [e0]
    split at h
    · rename_i value hops
      split at h
      · cases h
      · rename_i valueType hT
        split at h
        · cases h
        · rename_i alloc pass1 hA
          obtain ⟨r1, ea, hlt, _, _⟩ := allocate_rewrites P hS hA
          dsimp only at h
          have r2 := createOutlinedCopyCall_rewrites P hS pass1 (.before load.id) value
            (.instruction alloc.id)
          have hW2 := (r0.followedBy (r1.followedBy r2)).1.wellFormed hW
          split at h
          · cases h
          · rename_i pass3 usesToMod h3
            have inv := forEachM_inv _
              (fun (st : StructLoweringState × List (Nat × Nat)) =>
                st.1.core = ({ pass1 with F := (createOutlinedCopyCall pass1.F
                  (.before load.id) value (.instruction alloc.id)).2 } :
                    StructLoweringState).core ∧
                ∀ u ∈ st.2, u ∈ (createOutlinedCopyCall pass1.F
                  (.before load.id) value (.instruction alloc.id)).2.getUses
                    (.instruction load.id)) _
              (by
                intro a ha st st1 hs h1
                obtain ⟨p, um⟩ := st
                dsimp only at h1 hs
                have hum : ∀ u ∈ um ++ [a], u ∈ (createOutlinedCopyCall pass1.F
                    (.before load.id) value (.instruction alloc.id)).2.getUses
                      (.instruction load.id) := by
                  intro u hu
                  rcases List.mem_append.1 hu with h | h
                  · exact hs.2 u h
                  · rw [List.mem_singleton.1 h]
                    exact ha
                repeat' split at h1
                all_goals first
                  | (cases h1; done)
                  | (cases h1; exact ⟨hs.1, hs.2⟩)
                  | (cases h1; exact ⟨hs.1, hum⟩)
                  | (rename_i h3 _; have e3 := StructLoweringState.getNewSILType_state h3
                     cases h1
                     exact ⟨(StructLoweringState.core_of_mapper_eq e3).trans hs.1, hs.2⟩)
                  | (rename_i h3 _ _; have e3 := StructLoweringState.getNewSILType_state h3
                     cases h1
                     exact ⟨(StructLoweringState.core_of_mapper_eq e3).trans hs.1, hum⟩))
              _ _ ⟨rfl, fun u hu => by cases hu⟩ h3
            obtain ⟨c3, hu3⟩ := inv
            dsimp only at c3 hu3
            have r3 := StructLoweringState.Rewrites.of_core P c3
            simp only [Except.ok.injEq] at h
            rw [← h]
            have hk : alloc.id = pass0.F.nextId := by rw [ea]
            have hRk := hR alloc.id (by rw [hk, eF])
            refine r0.followedBy (r1.followedBy (r2.followedBy (r3.followedBy ?_)))
            refine setUsesFold_rewrites P (.instruction load.id) (.instruction alloc.id) hOld
              hRk.1 hRk.2 _ _ ?_
            intro i hi u hu e v hv
            have eF3 : pass3.F = (createOutlinedCopyCall pass1.F (.before load.id) value
                (.instruction alloc.id)).2 := by
              have := congrArg Prod.fst c3
              exact this
            rw [eF3] at hi
            exact Or.inl (operand_of_use hW2 (hu3 u (List.mem_reverse.1 hu)) hi e hv)
    · cases h

theorem replaceLoad_rewrites (P : StepPolicy) (hS : P.Storage)
    {pass q : StructLoweringState} {Mod : IRGenModule} {fuel : Nat} {load : Nat}
    (hW : pass.F.WellFormed) (hR : P.Recent pass.F.nextId)
    (hOld : P.okOld (.instruction load))
    (h : replaceLoad pass Mod fuel load = .ok q) : pass.Rewrites P q := by
  unfold replaceLoad at h
  split at h
  · cases h
  · rename_i loadInst hF
    have eid : loadInst.id = load := by
      unfold SILFunction.findInstruction at hF
      have := List.find?_some hF
      simpa using this
    split at h
    · cases h
    · rename_i pass1 h1
      have e1 := allUsesAreReplaceable_state h1
      have eF : pass1.F = pass.F := by rw [e1]
      refine (StructLoweringState.Rewrites.of_mapper_eq P e1).followedBy ?_
      exact replaceLoadWithCopyAddr_rewrites P hS (by rw [eF]; exact hR)
        (by rw [eid]; exact hOld) h
    · rename_i pass1 h1
      have e1 := allUsesAreReplaceable_state h1
      have eF : pass1.F = pass.F := by rw [e1]
      refine (StructLoweringState.Rewrites.of_mapper_eq P e1).followedBy ?_
      exact replaceLoadWithCopyAddrForModifiable_rewrites P hS (by rw [eF]; exact hW)
        (by rw [eF]; exact hR) (by rw [eid]; exact hOld) h

theorem createCopyOfEnum_rewrites (P : StepPolicy) (hS : P.Storage)
    {pass q : StructLoweringState} {Mod : IRGenModule} {orig : SILInstruction}
    {copied : SILValue} (h : createCopyOfEnum pass Mod orig = .ok (copied, q)) :
    pass.Rewrites P q ∧ copied = .instruction pass.F.nextId ∧ pass.F.nextId < q.F.nextId := by
  unfold createCopyOfEnum at h
  split at h
  · rename_i value rest hops
    split at h
    · cases h
    · rename_i type hT
      split at h
      · split at h
        · cases h
        · rename_i alloc pass1 hA
          obtain ⟨r1, ea, hlt, _, _⟩ := allocate_rewrites P hS hA
          split at h
          · cases h
          · rename_i store pass2 hSt
            obtain ⟨r2, hlt2, _⟩ := createStoreInit_rewrites P hS hSt
            simp only [Except.ok.injEq, Prod.mk.injEq] at h
            refine ⟨?_, ?_, ?_⟩
            · rw [← h.2]
              exact r1.followedBy r2
            · rw [← h.1, ea]
            · rw [← h.2]
              exact Nat.lt_trans hlt hlt2
      · split at h
        · cases h
        · rename_i alloc pass1 hA
          obtain ⟨r1, ea, hlt, _, _⟩ := allocate_rewrites P hS hA
          simp only [Except.ok.injEq, Prod.mk.injEq] at h
          have r2 := createOutlinedCopyCall_rewrites P hS pass1 (.before orig.id) value
            (.instruction alloc.id)
          refine ⟨?_, ?_, ?_⟩
          · rw [← h.2]
            exact r1.followedBy r2
          · rw [← h.1, ea]
          · rw [← h.2]
            exact Nat.lt_of_lt_of_le hlt r2.nextId_mono
  · cases h

/-- The change of the function for one argument of a case of a `switch_enum`:
the projection of the payload out of the copy, the uses of the argument
redirected to it, the argument removed, the load of the projection, and the
uses redirected to the load. -/
theorem takePayload_step (P : StepPolicy) (F : SILFunction) (hW : F.WellFormed)
    (hR : P.Recent F.nextId) (at_ : InsertionPoint) (copiedValue : SILValue)
    (ty1 ty2 : Option SILType) (decl a b : Nat) (q : LoadOwnershipQualifier)
    (hC : P.okCreate .UncheckedTakeEnumDataAddrInst [copiedValue])
    (hL : P.okCreate (.LoadInst q) [.instruction F.nextId])
    (hA : P.okOld (.argument a)) (hB : P.okBlock b) :
    SILFunction.Step P F
      ((((((F.createWith at_ .UncheckedTakeEnumDataAddrInst [copiedValue] ty1 [] decl).2
        |>.replaceAllUsesWith (.argument a) (.instruction F.nextId))
        |>.updateBlock b (fun BB => BB.eraseArgument 0))
        |>.create at_ (.LoadInst q) [.instruction F.nextId] ty2).2
        |>.replaceAllUsesWith (.instruction F.nextId) (.instruction (F.nextId + 1)))
        |>.setOperand (F.nextId + 1) 0 (.instruction F.nextId)) := by
  have hR0 := hR F.nextId (Nat.le_refl _)
  have hR1 := hR (F.nextId + 1) (Nat.le_succ _)
  have s1 : SILFunction.Step P F
      (F.createWith at_ .UncheckedTakeEnumDataAddrInst [copiedValue] ty1 [] decl).2 :=
    .create F _ _ _ _ _ _ hC (fun s hs => by cases hs)
  have s2 := SILFunction.Step.replaceAllUsesWith (P := P)
    (F.createWith at_ .UncheckedTakeEnumDataAddrInst [copiedValue] ty1 [] decl).2
    (.argument a) (.instruction F.nextId) hA hR0.2
  have s3 := SILFunction.Step.updateBlock (P := P)
    ((F.createWith at_ .UncheckedTakeEnumDataAddrInst [copiedValue] ty1 [] decl).2
      |>.replaceAllUsesWith (.argument a) (.instruction F.nextId))
    b (fun BB => BB.eraseArgument 0) hB (fun BB => ⟨rfl, rfl⟩)
  have s123 := s1.next (s2.next s3)
  have hW3 := s123.wellFormed hW
  have s4 := SILFunction.Step.create (P := P)
    (((F.createWith at_ .UncheckedTakeEnumDataAddrInst [copiedValue] ty1 [] decl).2
      |>.replaceAllUsesWith (.argument a) (.instruction F.nextId))
      |>.updateBlock b (fun BB => BB.eraseArgument 0))
    at_ (.LoadInst q) [.instruction F.nextId] ty2 [] 0 hL (fun s hs => by cases hs)
  have s5 := SILFunction.Step.replaceAllUsesWith (P := P)
    ((((F.createWith at_ .UncheckedTakeEnumDataAddrInst [copiedValue] ty1 [] decl).2
      |>.replaceAllUsesWith (.argument a) (.instruction F.nextId))
      |>.updateBlock b (fun BB => BB.eraseArgument 0))
      |>.create at_ (.LoadInst q) [.instruction F.nextId] ty2).2
    (.instruction F.nextId) (.instruction (F.nextId + 1)) hR0.1 hR1.2
  refine s123.next (s4.next (s5.next (.setOperand _ _ _ _ hR0.2 ?_)))
  intro i hi e v hv
  rw [allInstructions_replaceAllUsesWith] at hi
  obtain ⟨j, hj, rfl⟩ := List.mem_map.1 hi
  have ej : j.id = F.nextId + 1 := e
  have hj2 : j = ⟨F.nextId + 1, .LoadInst q, [.instruction F.nextId], ty2, [], 0⟩ := by
    rcases mem_allInstructions_insert hj with h | h
    · exact h
    · have hlt := hW3.2.1 j h
      have : j.id < F.nextId + 1 := hlt
      omega
  rw [hj2] at hv
  simp only [SILInstruction.replaceOperand, List.map_cons, List.map_nil, if_true,
    List.get?_cons_zero, Option.some.injEq] at hv
  rw [← hv]
  exact hR1.1

theorem findBlock_id {F : SILFunction} {b : Nat} {BB : SILBasicBlock}
    (h : F.findBlock b = some BB) : BB.id = b := by
  unfold SILFunction.findBlock at h
  have := List.find?_some h
  simpa using this

theorem findInstruction_id {F : SILFunction} {id : Nat} {i : SILInstruction}
    (h : F.findInstruction id = some i) : i.id = id := by
  unfold SILFunction.findInstruction at h
  have := List.find?_some h
  simpa using this

theorem findInstruction_mem {F : SILFunction} {id : Nat} {i : SILInstruction}
    (h : F.findInstruction id = some i) : i ∈ F.allInstructions := by
  unfold SILFunction.findInstruction at h
  exact List.mem_of_find?_eq_some h

theorem rewriteSwitchEnumCases_rewrites (P : StepPolicy) (hS : P.Storage)
    {pass q : StructLoweringState} {Mod : IRGenModule} {fuel : Nat} {copiedValue : SILValue}
    {cases : List (Nat × Nat)} (hW : pass.F.WellFormed) (hR : P.Recent pass.F.nextId)
    (hC : P.okCreate .UncheckedTakeEnumDataAddrInst [copiedValue])
    (hL : ∀ qual k, pass.F.nextId ≤ k → P.okCreate (.LoadInst qual) [.instruction k])
    (hA : ∀ a, P.okOld (.argument a)) (hB : ∀ c ∈ cases, P.okBlock c.2)
    (h : rewriteSwitchEnumCases pass Mod fuel copiedValue cases = .ok q) :
    pass.Rewrites P q := by
  unfold rewriteSwitchEnumCases at h
  refine forEachM_inv _ (fun s => pass.Rewrites P s) cases ?_ pass q (.nothing P pass) h
  intro currCase hcase s s1 hs h1
  dsimp only at h1
  split at h1
  · cases h1
  · rename_i currBB hBB
    have eBB := findBlock_id hBB
    split at h1
    · cases h1
    · refine forEachM_inv _ (fun t => pass.Rewrites P t) currBB.arguments ?_ s s1 hs h1
      intro arg _ t t1 ht h2
      split at h2
      · cases h2
      · rename_i newSILType0 p2 hN
        have e2 := StructLoweringState.getNewSILType_state hN
        have r2 : t.Rewrites P p2 := .of_mapper_eq P e2
        have eF : p2.F = t.F := by rw [e2]
        have hW2 : p2.F.WellFormed := (ht.followedBy r2).1.wellFormed hW
        have hle : pass.F.nextId ≤ p2.F.nextId := (ht.followedBy r2).nextId_mono
        have hR2 : P.Recent p2.F.nextId := hR.later hle
        have key : ∀ (ty1 ty2 : Option SILType) qual, p2.Rewrites P { p2 with F :=
            ((((((p2.F.createWith currBB.beginPoint .UncheckedTakeEnumDataAddrInst
              [copiedValue] ty1 [] currCase.1).2
              |>.replaceAllUsesWith (.argument arg.id) (.instruction p2.F.nextId))
              |>.updateBlock currBB.id (fun BB => BB.eraseArgument 0))
              |>.create currBB.beginPoint (.LoadInst qual) [.instruction p2.F.nextId] ty2).2
              |>.replaceAllUsesWith (.instruction p2.F.nextId)
                (.instruction (p2.F.nextId + 1)))
              |>.setOperand (p2.F.nextId + 1) 0 (.instruction p2.F.nextId)) } := by
          intro ty1 ty2 qual
          exact ⟨takePayload_step P p2.F hW2 hR2 _ copiedValue _ _ _ _ _ qual hC
            (hL qual _ hle) (hA _) (eBB ▸ hB currCase hcase), rfl, rfl, rfl, rfl⟩
        have fin : ∀ (ty1 ty2 : Option SILType) qual (b : Bool),
            (if b = true then Except.ok ({ p2 with F :=
              ((((((p2.F.createWith currBB.beginPoint .UncheckedTakeEnumDataAddrInst
                [copiedValue] ty1 [] currCase.1).2
                |>.replaceAllUsesWith (.argument arg.id) (.instruction p2.F.nextId))
                |>.updateBlock currBB.id (fun BB => BB.eraseArgument 0))
                |>.create currBB.beginPoint (.LoadInst qual) [.instruction p2.F.nextId]
                  ty2).2
                |>.replaceAllUsesWith (.instruction p2.F.nextId)
                  (.instruction (p2.F.nextId + 1)))
                |>.setOperand (p2.F.nextId + 1) 0 (.instruction p2.F.nextId)) } :
                  StructLoweringState)
            else replaceLoad { p2 with F :=
              ((((((p2.F.createWith currBB.beginPoint .UncheckedTakeEnumDataAddrInst
                [copiedValue] ty1 [] currCase.1).2
                |>.replaceAllUsesWith (.argument arg.id) (.instruction p2.F.nextId))
                |>.updateBlock currBB.id (fun BB => BB.eraseArgument 0))
                |>.create currBB.beginPoint (.LoadInst qual) [.instruction p2.F.nextId]
                  ty2).2
                |>.replaceAllUsesWith (.instruction p2.F.nextId)
                  (.instruction (p2.F.nextId + 1)))
                |>.setOperand (p2.F.nextId + 1) 0 (.instruction p2.F.nextId)) }
              Mod fuel (p2.F.nextId + 1)) = .ok t1 → pass.Rewrites P t1 := by
          intro ty1 ty2 qual b hfin
          have k := key ty1 ty2 qual
          cases b
          · simp only [Bool.false_eq_true, if_false] at hfin
            refine ht.followedBy (r2.followedBy (k.followedBy ?_))
            exact replaceLoad_rewrites P hS (k.1.wellFormed hW2)
              (hR2.later k.nextId_mono) (hR2 _ (Nat.le_succ _)).1 hfin
          · simp only [if_true, Except.ok.injEq] at hfin
            rw [← hfin]
            exact ht.followedBy (r2.followedBy k)
        cases hOwn : p2.F.hasOwnership
        · simp only [hOwn, Bool.not_false, if_true] at h2
          exact fin _ _ _ _ h2
        · simp only [hOwn, Bool.not_true, Bool.false_eq_true, if_false] at h2
          exact fin _ _ _ _ h2

theorem mem_getCaseDestinations {instr : SILInstruction} {b : Nat}
    (h : b ∈ instr.getCaseDestinations) : b ∈ instr.successors := by
  unfold SILInstruction.getCaseDestinations at h
  split at h
  · exact List.mem_of_mem_take h
  · exact List.mem_of_mem_take h
  · cases h

theorem rewriteSwitchEnumInst_rewrites (P : StepPolicy) (hS : P.Storage)
    {pass q : StructLoweringState} {Mod : IRGenModule} {fuel id : Nat}
    (hW : pass.F.WellFormed) (hR : P.Recent (pass.F.nextId + 1))
    (hC : P.okCreate .UncheckedTakeEnumDataAddrInst [.instruction pass.F.nextId])
    (hE : ∀ cs d, P.okCreate (.SwitchEnumAddrInst cs d) [.instruction pass.F.nextId])
    (hL : ∀ qual k, pass.F.nextId < k → P.okCreate (.LoadInst qual) [.instruction k])
    (hA : ∀ a, P.okOld (.argument a))
    (hB : ∀ i ∈ pass.F.allInstructions, ∀ s ∈ i.successors, P.okBlock s)
    (h : rewriteSwitchEnumInst pass Mod fuel id = .ok q) : pass.Rewrites P q := by
  unfold rewriteSwitchEnumInst at h
  split at h
  · cases h
  · rename_i instr hF
    have hmem := findInstruction_mem hF
    split at h
    · rename_i elements hasDefault hK
      split at h
      · cases h
      · rename_i copiedValue pass1 hCopy
        obtain ⟨r1, ec, hlt⟩ := createCopyOfEnum_rewrites P hS hCopy
        dsimp only at h
        split at h
        · cases h
        · rename_i pass2 hCases
          have hW1 := r1.1.wellFormed hW
          have r2 : pass1.Rewrites P pass2 := by
            refine rewriteSwitchEnumCases_rewrites P hS hW1 (hR.later hlt) (ec ▸ hC)
              (fun qual k hk => hL qual k (Nat.lt_of_lt_of_le hlt hk)) hA ?_ hCases
            intro c hc
            exact hB instr hmem c.2 (mem_getCaseDestinations (List.of_mem_zip hc).2)
          simp only [Except.ok.injEq] at h
          rw [← h]
          refine r1.followedBy (r2.followedBy
            ⟨.next (.create _ _ _ _ _ _ _ (ec ▸ hE _ _) ?_) (.erase _ _), rfl, rfl, rfl, rfl⟩)
          intro s hs
          rcases List.mem_append.1 hs with h1 | h1
          · obtain ⟨c, hc, rfl⟩ := List.mem_map.1 h1
            exact hB instr hmem c.2 (mem_getCaseDestinations (List.of_mem_zip hc).2)
          · split at h1
            · exact hB instr hmem s (List.mem_of_mem_drop (List.mem_of_mem_take h1))
            · cases h1
    · cases h

/-! ## The rewriting of a `switch_enum` reads the copy -/

end LoadableByAddress

namespace LoadableByAddress

/-! ## The rewriting of a `switch_enum` works on a copy -/

end LoadableByAddress

namespace LoadableByAddress

/-! ## The loop of `rewriteFunction` as a change of the function -/

theorem SILFunction.Step.branchesOk {P : StepPolicy} {F G : SILFunction}
    (h : SILFunction.Step P F G) : F.BranchesOk P → G.BranchesOk P := by
  induction h with
  | same F => exact id
  | next _ _ ih1 ih2 => exact fun hK => ih2 (ih1 hK)
  | create F at_ kind operands type successors attributes _ hS =>
    intro hK i hi
    have hi2 : i ∈ (F.insert at_ ⟨F.nextId, kind, operands, type, successors,
        attributes⟩).allInstructions := hi
    rcases mem_allInstructions_insert hi2 with e | e
    · rw [e]
      exact hS
    · exact hK i e
  | replaceAllUsesWith F old new _ _ =>
    intro hK i hi
    rw [allInstructions_replaceAllUsesWith] at hi
    obtain ⟨j, hj, rfl⟩ := List.mem_map.1 hi
    exact hK j hj
  | setOperand F id index value _ _ =>
    intro hK i hi
    rw [allInstructions_setOperand] at hi
    obtain ⟨j, hj, rfl⟩ := List.mem_map.1 hi
    by_cases e : j.id = id
    · simp only [e, if_true]
      exact hK j hj
    · simp only [e, if_false]
      exact hK j hj
  | setOperands F id operands _ _ =>
    intro hK i hi
    rw [allInstructions_setOperands] at hi
    obtain ⟨j, hj, rfl⟩ := List.mem_map.1 hi
    by_cases e : j.id = id
    · simp only [e, if_true]
      exact hK j hj
    · simp only [e, if_false]
      exact hK j hj
  | erase F id =>
    intro hK i hi
    rw [allInstructions_erase] at hi
    exact hK i (List.mem_of_mem_filter hi)
  | updateBlock F id f _ hf =>
    intro hK i hi
    rw [allInstructions_updateBlock F id f hf] at hi
    exact hK i hi
  | fresh F => exact id

/-- What holds of a state for the steps of the rewriting to be changes under
the policy: distinct identities, recent values allowed, and branches to
allowed blocks only. -/
theorem StructLoweringState.Rewrites.good {P : StepPolicy} {p q : StructLoweringState}
    (r : p.Rewrites P q)
    (h : p.F.WellFormed ∧ P.Recent p.F.nextId ∧ p.F.BranchesOk P) :
    q.F.WellFormed ∧ P.Recent q.F.nextId ∧ q.F.BranchesOk P :=
  ⟨r.1.wellFormed h.1, h.2.1.later r.nextId_mono, r.1.branchesOk h.2.2⟩

theorem createResultTyInstrAndLoad_rewrites (P : StepPolicy) (hO : P.Open)
    {pass q : StructLoweringState} {Mod : IRGenModule} {fuel id : Nat}
    (hW : pass.F.WellFormed) (hR : P.Recent pass.F.nextId)
    (h : createResultTyInstrAndLoad pass Mod fuel id = .ok q) : pass.Rewrites P q := by
  unfold createResultTyInstrAndLoad at h
  split at h
  · cases h
  · rename_i instr hF
    dsimp only at h
    split at h
    · rename_i operand type hk hops hty
      have key : ∀ (p1 : StructLoweringState) (qual : LoadOwnershipQualifier),
          p1.core = pass.core →
          pass.Rewrites P { p1 with F :=
            ((((p1.F.createWith (.before id) .StructElementAddrInst [operand]
              (some type.getAddressType) [] instr.attributes).2
              |>.create (.before id) (.LoadInst qual) [.instruction p1.F.nextId]
                (some type.getObjectType)).2
              |>.replaceAllUsesWith (.instruction id) (.instruction (p1.F.nextId + 1)))
              |>.erase id) } := by
        intro p1 qual ec
        have eF : p1.F = pass.F := congrArg Prod.fst ec
        refine (StructLoweringState.Rewrites.of_core P ec).followedBy ?_
        refine ⟨.next (.create _ _ _ _ _ _ _ (hO.2 _ _) (fun s hs => by cases hs))
          (.next (.create _ _ _ _ _ _ _ (hO.2 _ _) (fun s hs => by cases hs))
            (.next (.replaceAllUsesWith _ _ _ (hO.1 _) ?_) (.erase _ _))), rfl, rfl, rfl, rfl⟩
        rw [eF]
        exact (hR _ (Nat.le_succ _)).2
      have fin : ∀ (p1 : StructLoweringState) (qual : LoadOwnershipQualifier) (b c : Bool),
          p1.core = pass.core →
          (if b = true then Except.ok ({ p1 with F :=
            ((((p1.F.createWith (.before id) .StructElementAddrInst [operand]
              (some type.getAddressType) [] instr.attributes).2
              |>.create (.before id) (.LoadInst qual) [.instruction p1.F.nextId]
                (some type.getObjectType)).2
              |>.replaceAllUsesWith (.instruction id) (.instruction (p1.F.nextId + 1)))
              |>.erase id) } : StructLoweringState)
          else
            match replaceLoad { p1 with F :=
              ((((p1.F.createWith (.before id) .StructElementAddrInst [operand]
                (some type.getAddressType) [] instr.attributes).2
                |>.create (.before id) (.LoadInst qual) [.instruction p1.F.nextId]
                  (some type.getObjectType)).2
                |>.replaceAllUsesWith (.instruction id) (.instruction (p1.F.nextId + 1)))
                |>.erase id) } Mod fuel (p1.F.nextId + 1) with
            | .error e => .error e
            | .ok pass3 =>
              if c = true then
                .ok { pass3 with resultTyInstsToMod :=
                  setVectorInsert pass3.resultTyInstsToMod p1.F.nextId }
              else .ok pass3) = .ok q → pass.Rewrites P q := by
        intro p1 qual b c ec hfin
        have eF : p1.F = pass.F := congrArg Prod.fst ec
        have k := key p1 qual ec
        cases b
        · simp only [Bool.false_eq_true, if_false] at hfin
          split at hfin
          · cases hfin
          · rename_i pass3 h3
            have r3 := replaceLoad_rewrites P hO.storage (k.1.wellFormed hW)
              (hR.later k.nextId_mono) (hO.1 _) h3
            cases c
            · simp only [Bool.false_eq_true, if_false, Except.ok.injEq] at hfin
              rw [← hfin]
              exact k.followedBy r3
            · simp only [if_true, Except.ok.injEq] at hfin
              rw [← hfin]
              exact k.followedBy (r3.followedBy (.of_core P rfl))
        · simp only [if_true, Except.ok.injEq] at hfin
          rw [← hfin]
          exact k
      have ec : (if decide (id ∈ pass.resultTyInstsToMod) = true then
          { pass with resultTyInstsToMod :=
            pass.resultTyInstsToMod.filter (fun i => decide (i ≠ id)) }
          else pass).core = pass.core := by
        split <;> rfl
      cases hOwn : pass.F.hasOwnership
      · have hOwn2 : (if decide (id ∈ pass.resultTyInstsToMod) = true then
            { pass with resultTyInstsToMod :=
              pass.resultTyInstsToMod.filter (fun i => decide (i ≠ id)) }
            else pass).F.hasOwnership = false := by
          split <;> exact hOwn
        simp only [hOwn2, Bool.not_false, if_true] at h
        exact fin _ _ _ _ ec h
      · have hOwn2 : (if decide (id ∈ pass.resultTyInstsToMod) = true then
            { pass with resultTyInstsToMod :=
              pass.resultTyInstsToMod.filter (fun i => decide (i ≠ id)) }
            else pass).F.hasOwnership = true := by
          split <;> exact hOwn
        simp only [hOwn2, Bool.not_true, Bool.false_eq_true, if_false] at h
        exact fin _ _ _ _ ec h
    · cases h

theorem rewriteUsesOfSscalar_rewrites (P : StepPolicy) (hO : P.Open)
    {pass q : StructLoweringState} {fuel : Nat} {address scalar : SILValue}
    {storeToAddress : Nat} (hN : P.okNew address)
    (h : rewriteUsesOfSscalar pass fuel address scalar storeToAddress = .ok q) :
    pass.Rewrites P q := by
  unfold rewriteUsesOfSscalar at h
  refine forEachM_inv _ (fun s => pass.Rewrites P s) _ ?_ pass q (.nothing P pass) h
  intro use _ s s1 hs h1
  have hset : s.Rewrites P { s with F := s.F.setOperand use.1 use.2 address } :=
    ⟨.setOperand _ _ _ _ hN (fun _ _ _ _ _ => hO.1 _), rfl, rfl, rfl, rfl⟩
  have hcopy : ∀ (dest : SILValue) (id : Nat), s.Rewrites P { s with F :=
      ((createOutlinedCopyCall s.F (.before id) address dest).2.erase id) } :=
    fun dest id => ⟨.next (.create _ _ _ _ _ _ _ (hO.2 _ _) (fun s hs => by cases hs))
      (.erase _ _), rfl, rfl, rfl, rfl⟩
  have hdebug : ∀ (id attr : Nat), s.Rewrites P { s with F :=
      ((s.F.createWith (.before id) .DebugValueAddrInst [address] none [] attr).2.erase
        id) } :=
    fun id attr => ⟨.next (.create _ _ _ _ _ _ _ (hO.2 _ _) (fun s hs => by cases hs))
      (.erase _ _), rfl, rfl, rfl, rfl⟩
  try dsimp only at h1
  repeat' split at h1
  all_goals first
    | (cases h1; done)
    | (cases h1; exact hs)
    | (cases h1; exact hs.followedBy hset)
    | (cases h1; exact hs.followedBy (hcopy _ _))
    | (cases h1; exact hs.followedBy (hdebug _ _))

theorem allocateAndSetForInstResult_rewrites (P : StepPolicy) (hO : P.Open)
    {pass q : StructLoweringState} {Mod : IRGenModule} {fuel : Nat} {instResult : SILValue}
    {inst : SILInstruction} (hR : P.Recent pass.F.nextId)
    (h : allocateAndSetForInstResult pass Mod fuel instResult inst = .ok q) :
    pass.Rewrites P q := by
  unfold allocateAndSetForInstResult at h
  split at h
  · cases h
  · split at h
    · cases h
    · rename_i alloc pass1 hA
      obtain ⟨r1, ea, _, _, _⟩ := allocate_rewrites P hO.storage hA
      split at h
      · cases h
      · dsimp only at h
        split at h
        · cases h
        · rename_i store pass2 hSt
          obtain ⟨r2, _, _⟩ := createStoreInit_rewrites P hO.storage hSt
          refine r1.followedBy (r2.followedBy (rewriteUsesOfSscalar_rewrites P hO ?_ h))
          rw [ea]
          exact (hR _ (Nat.le_refl _)).2

theorem allocateAndSetForArgument_rewrites (P : StepPolicy) (hO : P.Open)
    {pass q : StructLoweringState} {Mod : IRGenModule} {fuel value : Nat}
    (hR : P.Recent pass.F.nextId)
    (h : allocateAndSetForArgument pass Mod fuel value = .ok q) : pass.Rewrites P q := by
  unfold allocateAndSetForArgument at h
  split at h
  · cases h
  · split at h
    · cases h
    · rename_i alloc pass1 hA
      obtain ⟨r1, ea, _, _, _⟩ := allocate_rewrites P hO.storage hA
      split at h
      · dsimp only at h
        split at h
        · cases h
        · rename_i store pass2 hSt
          obtain ⟨r2, _, _⟩ := createStoreInit_rewrites P hO.storage hSt
          refine r1.followedBy (r2.followedBy (rewriteUsesOfSscalar_rewrites P hO ?_ h))
          rw [ea]
          exact (hR _ (Nat.le_refl _)).2
      · cases h

theorem allocateAndSet_rewrites (P : StepPolicy) (hO : P.Open)
    {pass q : StructLoweringState} {Mod : IRGenModule} {fuel : Nat} {operand : SILValue}
    (hW : pass.F.WellFormed) (hR : P.Recent pass.F.nextId)
    (h : allocateAndSet pass Mod fuel operand = .ok q) : pass.Rewrites P q := by
  unfold allocateAndSet at h
  split at h
  · split at h
    · cases h
    · split at h
      · exact replaceLoad_rewrites P hO.storage hW hR (hO.1 _) h
      · exact allocateAndSetForInstResult_rewrites P hO hR h
  · split at h
    · cases h
    · exact allocateAndSetForInstResult_rewrites P hO hR h
  · exact allocateAndSetForArgument_rewrites P hO hR h
  · cases h

theorem allocateAndSetAll_rewrites (P : StepPolicy) (hO : P.Open)
    {pass q : StructLoweringState} {Mod : IRGenModule} {fuel user : Nat}
    {operands : List Nat} (hW : pass.F.WellFormed) (hR : P.Recent pass.F.nextId)
    (h : allocateAndSetAll pass Mod fuel user operands = .ok q) : pass.Rewrites P q := by
  unfold allocateAndSetAll at h
  refine forEachM_inv _ (fun s => pass.Rewrites P s) _ ?_ pass q (.nothing P pass) h
  intro operand _ s s1 hs h1
  try dsimp only at h1
  split at h1
  · cases h1
  · split at h1
    · cases h1
    · split at h1
      · cases h1
      · exact hs.followedBy (allocateAndSet_rewrites P hO (hs.1.wellFormed hW)
          (hR.later hs.nextId_mono) h1)
      · cases h1
        exact hs

theorem rewriteSwitchEnumInsts_rewrites (P : StepPolicy) (hO : P.Open) (Mod : IRGenModule)
    (fuel : Nat) :
    ∀ (steps : Nat) (pass q : StructLoweringState),
      pass.F.WellFormed ∧ P.Recent pass.F.nextId ∧ pass.F.BranchesOk P →
      rewriteSwitchEnumInsts Mod fuel steps pass = .ok q → pass.Rewrites P q
  | 0, _, _, _, h => by cases h
  | steps + 1, pass, q, hG, h => by
    unfold rewriteSwitchEnumInsts at h
    split at h
    · cases h
      exact .nothing P pass
    · rename_i instr _
      dsimp only at h
      split at h
      · cases h
      · rename_i pass2 h2
        have r0 : pass.Rewrites P
            { pass with switchEnumInstsToMod := pass.switchEnumInstsToMod.dropLast } :=
          .of_core P rfl
        have hG0 : ({ pass with switchEnumInstsToMod := pass.switchEnumInstsToMod.dropLast } :
            StructLoweringState).F.WellFormed ∧
            P.Recent ({ pass with switchEnumInstsToMod := pass.switchEnumInstsToMod.dropLast } :
              StructLoweringState).F.nextId ∧
            ({ pass with switchEnumInstsToMod := pass.switchEnumInstsToMod.dropLast } :
              StructLoweringState).F.BranchesOk P := hG
        have r1 := rewriteSwitchEnumInst_rewrites P hO.storage hG0.1
          (hG0.2.1.later (Nat.le_succ _)) (hO.2 _ _) (fun _ _ => hO.2 _ _)
          (fun _ _ _ => hO.2 _ _) (fun _ => hO.1 _) hG0.2.2 h2
        have r01 := r0.followedBy r1
        exact r01.followedBy
          (rewriteSwitchEnumInsts_rewrites P hO Mod fuel steps pass2 q (r01.good hG) h)

theorem rewriteStructExtractInsts_rewrites (P : StepPolicy) (hO : P.Open)
    (Mod : IRGenModule) (fuel : Nat) :
    ∀ (steps : Nat) (pass q : StructLoweringState),
      pass.F.WellFormed ∧ P.Recent pass.F.nextId ∧ pass.F.BranchesOk P →
      rewriteStructExtractInsts Mod fuel steps pass = .ok q → pass.Rewrites P q
  | 0, _, _, _, h => by cases h
  | steps + 1, pass, q, hG, h => by
    unfold rewriteStructExtractInsts at h
    split at h
    · cases h
      exact .nothing P pass
    · rename_i instr _
      dsimp only at h
      split at h
      · cases h
      · rename_i pass2 h2
        have r0 : pass.Rewrites P
            { pass with structExtractInstsToMod := pass.structExtractInstsToMod.dropLast } :=
          .of_core P rfl
        have hG0 : ({ pass with structExtractInstsToMod := pass.structExtractInstsToMod.dropLast } :
            StructLoweringState).F.WellFormed ∧
            P.Recent ({ pass with structExtractInstsToMod := pass.structExtractInstsToMod.dropLast } :
              StructLoweringState).F.nextId ∧
            ({ pass with structExtractInstsToMod := pass.structExtractInstsToMod.dropLast } :
              StructLoweringState).F.BranchesOk P := hG
        have r1 := createResultTyInstrAndLoad_rewrites P hO hG0.1 hG0.2.1 h2
        have r01 := r0.followedBy r1
        exact r01.followedBy
          (rewriteStructExtractInsts_rewrites P hO Mod fuel steps pass2 q (r01.good hG) h)

theorem rewriteApplies_rewrites (P : StepPolicy) (hO : P.Open) (Mod : IRGenModule)
    (fuel : Nat) :
    ∀ (steps : Nat) (pass q : StructLoweringState) (c c2 : List Nat),
      pass.F.WellFormed ∧ P.Recent pass.F.nextId ∧ pass.F.BranchesOk P →
      rewriteApplies Mod fuel steps (pass, c) = .ok (q, c2) → pass.Rewrites P q
  | 0, _, _, _, _, _, h => by cases h
  | steps + 1, pass, q, c, c2, hG, h => by
    unfold rewriteApplies at h
    split at h
    · cases h
      exact .nothing P pass
    · rename_i applyInst _
      dsimp only at h
      split at h
      · cases h
      · split at h
        · cases h
        · rename_i pass2 h2
          have r0 : pass.Rewrites P { pass with applies := pass.applies.dropLast } :=
            .of_core P rfl
          have hG0 : ({ pass with applies := pass.applies.dropLast } :
              StructLoweringState).F.WellFormed ∧
              P.Recent ({ pass with applies := pass.applies.dropLast } :
                StructLoweringState).F.nextId := ⟨hG.1, hG.2.1⟩
          have r1 := allocateAndSetAll_rewrites P hO hG0.1 hG0.2 h2
          have r01 := r0.followedBy r1
          exact r01.followedBy
            (rewriteApplies_rewrites P hO Mod fuel steps pass2 q _ c2 (r01.good hG) h)

theorem rewriteYieldInsts_rewrites (P : StepPolicy) (hO : P.Open) (Mod : IRGenModule)
    (fuel : Nat) :
    ∀ (steps : Nat) (pass q : StructLoweringState),
      pass.F.WellFormed ∧ P.Recent pass.F.nextId ∧ pass.F.BranchesOk P →
      rewriteYieldInsts Mod fuel steps pass = .ok q → pass.Rewrites P q
  | 0, _, _, _, h => by cases h
  | steps + 1, pass, q, hG, h => by
    unfold rewriteYieldInsts at h
    split at h
    · cases h
      exact .nothing P pass
    · rename_i inst _
      dsimp only at h
      split at h
      · cases h
      · split at h
        · cases h
        · rename_i pass2 h2
          have r0 : pass.Rewrites P { pass with modYieldInsts := pass.modYieldInsts.dropLast } :=
            .of_core P rfl
          have hG0 : ({ pass with modYieldInsts := pass.modYieldInsts.dropLast } :
              StructLoweringState).F.WellFormed ∧
              P.Recent ({ pass with modYieldInsts := pass.modYieldInsts.dropLast } :
                StructLoweringState).F.nextId := ⟨hG.1, hG.2.1⟩
          have r1 := allocateAndSetAll_rewrites P hO hG0.1 hG0.2 h2
          have r01 := r0.followedBy r1
          exact r01.followedBy
            (rewriteYieldInsts_rewrites P hO Mod fuel steps pass2 q (r01.good hG) h)

/-- The loop `do ... while (repeat)` of `rewriteFunction` is a change of the
function under every open policy that allows recent values. -/
theorem rewriteUntilStable_rewrites (P : StepPolicy) (hO : P.Open) (Mod : IRGenModule)
    (fuel : Nat) :
    ∀ (rounds : Nat) (pass q : StructLoweringState) (c : List Nat),
      pass.F.WellFormed ∧ P.Recent pass.F.nextId ∧ pass.F.BranchesOk P →
      rewriteUntilStable Mod fuel rounds (pass, c) = .ok q → pass.Rewrites P q
  | 0, _, _, _, _, h => by cases h
  | rounds + 1, pass, q, c, hG, h => by
    unfold rewriteUntilStable at h
    split at h
    · cases h
    · rename_i pass1 h1
      have r1 := rewriteSwitchEnumInsts_rewrites P hO Mod fuel fuel pass pass1 hG h1
      split at h
      · cases h
      · rename_i pass2 h2
        have r2 := rewriteStructExtractInsts_rewrites P hO Mod fuel fuel pass1 pass2
          (r1.good hG) h2
        split at h
        · cases h
        · rename_i pass3 c1 h3
          have r3 := rewriteApplies_rewrites P hO Mod fuel fuel pass2 pass3 c c1
            ((r1.followedBy r2).good hG) h3
          split at h
          · cases h
          · rename_i pass4 h4
            have r4 := rewriteYieldInsts_rewrites P hO Mod fuel fuel pass3 pass4
              ((r1.followedBy (r2.followedBy r3)).good hG) h4
            have r14 := r1.followedBy (r2.followedBy (r3.followedBy r4))
            dsimp only at h
            split at h
            · cases h
            · have r5 : pass4.Rewrites P { pass4 with applies := pass4.applies ++ c1 } :=
                .of_core P rfl
              split at h
              · exact (r14.followedBy r5).followedBy
                  (rewriteUntilStable_rewrites P hO Mod fuel rounds _ q c1
                    ((r14.followedBy r5).good hG) h)
              · cases h
                exact r14.followedBy r5

end LoadableByAddress

namespace LoadableByAddress

open LargeValueVisitor

/-! ## `modifiableApply` and the chain of callees -/

/-- A call with a foreign callee is rejected by `modifiableApply`, with enough
depth for the chain of callees. -/
theorem modifiableApply_of_foreignCall {F : SILFunction} :
    ∀ {n : Nat} {site : SILInstruction}, ForeignCall F n site →
      ∀ depth, n < depth → modifiableApply F depth site = .ok false
  | _, _, .here n site t hT hL, depth, hd => by
    obtain ⟨d, rfl⟩ : ∃ d, depth = d + 1 := ⟨depth - 1, by omega⟩
    simp only [modifiableApply, hT, hL, if_true]
  | _, _, .callee n site inner t c hT hC hI hA hR, depth, hd => by
    obtain ⟨d, rfl⟩ : ∃ d, depth = d + 1 := ⟨depth - 1, by omega⟩
    simp only [modifiableApply, hT, hC, hI, hA, if_true]
    split
    · rfl
    · exact modifiableApply_of_foreignCall hR d (by omega)

/-- A call without a foreign callee is accepted by `modifiableApply`, with
enough depth for the chain of callees. -/
theorem modifiableApply_of_nativeCall {F : SILFunction} :
    ∀ {n : Nat} {site : SILInstruction}, NativeCall F n site →
      ∀ depth, n < depth → modifiableApply F depth site = .ok true
  | _, _, .here site t hT hL hC, depth, hd => by
    obtain ⟨d, rfl⟩ : ∃ d, depth = d + 1 := ⟨depth - 1, by omega⟩
    simp only [modifiableApply, hT, hL, if_false]
    split
    · rename_i callee hcal
      split
      · rename_i inner hin
        rw [hC callee inner hcal hin]
        simp
      · rfl
    · rfl
  | _, _, .callee n site inner t c hT hL hC hI hA hR, depth, hd => by
    obtain ⟨d, rfl⟩ : ∃ d, depth = d + 1 := ⟨depth - 1, by omega⟩
    simp only [modifiableApply, hT, hL, hC, hI, hA, if_true, if_false]
    exact modifiableApply_of_nativeCall hR d (by omega)

/-- What `modifiableApply` rejects is a call with a foreign callee, and what it
accepts is a call without one. -/
theorem modifiableApply_sound (F : SILFunction) :
    ∀ (depth : Nat) (site : SILInstruction) (b : Bool),
      modifiableApply F depth site = .ok b →
      (b = false → ForeignCall F depth site) ∧
      (b = true → ∃ n, n < depth ∧ NativeCall F n site)
  | 0, _, _, h => by
    simp only [modifiableApply] at h
    cases h
  | depth + 1, site, b, h => by
    simp only [modifiableApply] at h
    cases hT : site.getSubstCalleeType with
    | none =>
      rw [hT] at h
      cases h
    | some t =>
      rw [hT] at h
      simp only [] at h
      by_cases hL : t.getLanguage = SILFunctionLanguage.C
      · rw [if_pos hL] at h
        cases h
        exact ⟨fun _ => .here _ site t hT hL, fun hb => Bool.noConfusion hb⟩
      · rw [if_neg hL] at h
        have native : b = true →
            (∀ c inner, site.getCallee = some (.instruction c) →
              F.findInstruction c = some inner → inner.isApplySite = false) →
            (b = false → ForeignCall F (depth + 1) site) ∧
            (b = true → ∃ n, n < depth + 1 ∧ NativeCall F n site) := fun hb hC =>
          ⟨fun hf => (by rw [hb] at hf; cases hf),
            fun _ => ⟨0, (by omega), .here site t hT hL hC⟩⟩
        cases hC : site.getCallee with
        | none =>
          rw [hC] at h
          cases h
          exact native rfl (fun c inner hc => by rw [hC] at hc; cases hc)
        | some callee =>
          rw [hC] at h
          cases callee with
          | argument a =>
            cases h
            exact native rfl (fun c inner hc => by rw [hC] at hc; cases hc)
          | undef =>
            cases h
            exact native rfl (fun c inner hc => by rw [hC] at hc; cases hc)
          | result a b =>
            cases h
            exact native rfl (fun c inner hc => by rw [hC] at hc; cases hc)
          | instruction c =>
            simp only [] at h
            cases hI : F.findInstruction c with
            | none =>
              rw [hI] at h
              cases h
              exact native rfl (fun c2 inner hc hi => by
                rw [hC] at hc
                cases hc
                rw [hI] at hi
                cases hi)
            | some inner =>
              rw [hI] at h
              simp only [] at h
              cases hA : inner.isApplySite with
              | false =>
                rw [hA] at h
                simp only [Bool.false_eq_true, if_false] at h
                cases h
                exact native rfl (fun c2 inner2 hc hi => by
                  rw [hC] at hc
                  cases hc
                  rw [hI] at hi
                  cases hi
                  exact hA)
              | true =>
                rw [hA] at h
                simp only [if_true] at h
                obtain ⟨h1, h2⟩ := modifiableApply_sound F depth inner b h
                refine ⟨fun hb => .callee depth site inner t c hT hC hI hA (h1 hb), fun hb => ?_⟩
                obtain ⟨n, hn, hN⟩ := h2 hb
                exact ⟨n + 1, by omega, .callee n site inner t c hT hL hC hI hA hN⟩

/-- No call has a foreign callee and none at once. -/
theorem ForeignCall.not_native {F : SILFunction} {n m : Nat} {site : SILInstruction}
    (hF : ForeignCall F n site) (hN : NativeCall F m site) : False := by
  have h1 := modifiableApply_of_foreignCall hF (n + m + 1) (by omega)
  have h2 := modifiableApply_of_nativeCall hN (n + m + 1) (by omega)
  rw [h1] at h2
  cases h2

/-! ## The loops of the scanner, both ways -/

/-- A loop `anyElem` whose body keeps the invariant `I` and answers yes exactly
on the elements with the property `Q`: it stops at a failed assertion, or it
returns in a state with `I`, and it answers yes exactly when an element has
`Q`. -/
theorem anyElem_iff {α : Type}
    (f : α → StructLoweringState → Except Abort (Bool × StructLoweringState))
    (I : StructLoweringState → Prop) (Q : α → Prop) :
    ∀ (l : List α),
      (∀ a ∈ l, ∀ p r, I p → f a p = r → r = .error .assertion ∨
        ∃ b p1, r = .ok (b, p1) ∧ I p1 ∧ (b = true ↔ Q a)) →
      ∀ p r, I p → anyElem f l p = r → r = .error .assertion ∨
        ∃ b p1, r = .ok (b, p1) ∧ I p1 ∧ (b = true ↔ ∃ a ∈ l, Q a)
  | [], _, p, r, hI, h => by
    simp only [anyElem] at h
    subst h
    exact Or.inr ⟨false, p, rfl, hI, by simp⟩
  | a :: rest, hf, p, r, hI, h => by
    simp only [anyElem] at h
    rcases hf a (List.mem_cons_self _ _) p _ hI rfl with he | ⟨b, p1, hok, hI1, hQ⟩
    · rw [he] at h
      subst h
      exact Or.inl rfl
    · rw [hok] at h
      cases b with
      | true =>
        subst h
        exact Or.inr ⟨true, p1, rfl, hI1,
          ⟨fun _ => ⟨a, List.mem_cons_self _ _, hQ.1 rfl⟩, fun _ => rfl⟩⟩
      | false =>
        simp only [] at h
        rcases anyElem_iff f I Q rest
            (fun a2 ha2 => hf a2 (List.mem_cons_of_mem _ ha2)) p1 r hI1 h with
          he | ⟨b2, p2, hok2, hI2, hiff⟩
        · exact Or.inl he
        · refine Or.inr ⟨b2, p2, hok2, hI2, ⟨fun hb => ?_, fun hex => ?_⟩⟩
          · obtain ⟨a2, ha2, hq⟩ := hiff.1 hb
            exact ⟨a2, List.mem_cons_of_mem _ ha2, hq⟩
          · obtain ⟨a2, ha2, hq⟩ := hex
            rcases List.mem_cons.1 ha2 with e | hmem
            · subst e
              have := hQ.2 hq
              cases this
            · exact hiff.2 ⟨a2, hmem, hq⟩

theorem append_singleton_ne_self {α : Type} (l : List α) (x : α) : l ++ [x] ≠ l := by
  intro h
  have := congrArg List.length h
  simp at this

end LoadableByAddress

namespace LoadableByAddress

open LargeValueVisitor

/-! ## The scanner at a call -/

/-- C25: started on a cache that holds only transforms and with enough fuel
for the types, `visitApply` treats a call site as follows.  A call with a
foreign callee (`ForeignCall`: the call has the foreign convention, or its
callee is, through some calls, the result of a call that has it) is never put
on the call worklist, and with fuel for the chain of callees the scanner
visits it as a plain instruction.  At a call without one (`NativeCall`) the
scanner stops at a failed assertion or returns, it adds nothing but the call
to the call worklist, and it adds the call exactly when `CallNeedsRewrite`
holds: the type of an argument transforms (in the environment of the callee's
signature) or an argument is a converted large value or a converted function
argument; or, for a `begin_apply`, the type of a yield transforms; or, for an
`apply`, `try_apply` or `partial_apply`, the callee's signature transforms or
the result, not being large, changes its type.  A `begin_apply` whose callee
has no direct results (line 782) and whose arguments have the types of the
callee's parameters or are converted values is so put on the worklist
whenever the callee's signature transforms. -/
theorem visitApply_places_call (pass : StructLoweringState) (Mod : IRGenModule)
    (fuel : Nat) (applySite : SILInstruction) (substCalleeType : SILFunctionType)
    (hV : Valid Mod pass.Mapper)
    (hS : applySite.getSubstCalleeType = some substCalleeType)
    (hfA : ∀ operand ∈ applySite.getArgumentOperands, ∀ t,
      pass.F.getType operand.2 = some t → 10 * sizeOf t.ast + 5 < fuel)
    (hfY : ∀ t ∈ getYieldedValueTypes substCalleeType, 10 * sizeOf t.ast + 5 < fuel)
    (hfR : 10 * sizeOf substCalleeType.getSILResultType.ast + 5 < fuel)
    (hfS : 10 * sizeOf substCalleeType + 8 < fuel) :
    (∀ n, ForeignCall pass.F n applySite →
      (∀ pass2, visitApply pass Mod fuel applySite = .ok pass2 →
        pass2.applies = pass.applies) ∧
      (n < fuel → visitApply pass Mod fuel applySite = .ok (visitInstr pass applySite))) ∧
    (∀ n, NativeCall pass.F n applySite → n < fuel →
      visitApply pass Mod fuel applySite = .error .assertion ∨
      ∃ pass2, visitApply pass Mod fuel applySite = .ok pass2 ∧
        (pass2.applies = pass.applies ∨ pass2.applies = pass.applies ++ [applySite.id]) ∧
        (pass2.applies = pass.applies ++ [applySite.id] ↔
          CallNeedsRewrite pass Mod applySite substCalleeType) ∧
        ((∃ s, applySite.kind = .BeginApplyInst s) →
          substCalleeType.getResults = [] →
          List.Forall₂ (fun (operand : Nat × SILValue) (param : SILParameterInfo) =>
              pass.F.getType operand.2 = some param.getSILStorageInterfaceType ∨
              operand.2 ∈ pass.largeLoadableArgs ∨ operand.2 ∈ pass.funcSigArgs)
            applySite.getArgumentOperands substCalleeType.getParameters →
          Pure.getNewSILFunctionType Mod (getSubstGenericEnvironment substCalleeType)
            substCalleeType ≠ some substCalleeType →
          pass2.applies = pass.applies ++ [applySite.id])) := by
  have hvis : (visitInstr pass applySite).applies = pass.applies := by
    obtain ⟨m, e⟩ := visitInstr_eq pass applySite
    rw [e]
  refine ⟨fun n hF => ⟨fun pass2 hr => ?_, fun hn => ?_⟩, fun n hN hn => ?_⟩
  · -- a call with a foreign callee is never put on the worklist
    unfold visitApply at hr
    rw [hS] at hr
    cases hM : modifiableApply pass.F fuel applySite with
    | error e =>
      rw [hM] at hr
      cases hr
    | ok modifiable =>
      cases modifiable with
      | false =>
        rw [hM] at hr
        simp only [] at hr
        cases hr
        exact hvis
      | true =>
        obtain ⟨m, _, hNat⟩ := (modifiableApply_sound pass.F fuel applySite true hM).2 rfl
        exact (hF.not_native hNat).elim
  · unfold visitApply
    rw [hS, modifiableApply_of_foreignCall hF fuel hn]
  · -- a call without a foreign callee
    have hM := modifiableApply_of_nativeCall hN fuel hn
    -- what the claim says of a `begin_apply`
    have hBegin : (∃ s, applySite.kind = .BeginApplyInst s) →
        substCalleeType.getResults = [] →
        List.Forall₂ (fun (operand : Nat × SILValue) (param : SILParameterInfo) =>
            pass.F.getType operand.2 = some param.getSILStorageInterfaceType ∨
            operand.2 ∈ pass.largeLoadableArgs ∨ operand.2 ∈ pass.funcSigArgs)
          applySite.getArgumentOperands substCalleeType.getParameters →
        Pure.getNewSILFunctionType Mod (getSubstGenericEnvironment substCalleeType)
          substCalleeType ≠ some substCalleeType →
        CallNeedsRewrite pass Mod applySite substCalleeType := by
      intro hk hR hT hSig
      by_contra hno
      apply hSig
      have henv : signatureEnvironment (getSubstGenericEnvironment substCalleeType)
          substCalleeType = getSubstGenericEnvironment substCalleeType := by
        unfold signatureEnvironment
        split <;> rfl
      apply pure_getNewSILFunctionType_of_types_kept Mod _ _ hR
      · rw [henv]
        intro param hparam
        obtain ⟨operand, hop, hty⟩ := forall₂_mem_right hT param hparam
        by_contra hne
        apply hno
        left
        refine ⟨operand, hop, ?_⟩
        rcases hty with hty | hty | hty
        · exact Or.inl ⟨_, hty, hne⟩
        · exact Or.inr (Or.inl hty)
        · exact Or.inr (Or.inr hty)
      · rw [henv]
        intro y hy
        by_contra hne
        apply hno
        right
        left
        exact ⟨hk, _, List.mem_map.2 ⟨y, hy, rfl⟩, hne⟩
    -- it is enough to show that the call is added exactly when it needs the rewriting
    suffices hOut : visitApply pass Mod fuel applySite = .error .assertion ∨
        ∃ pass2, visitApply pass Mod fuel applySite = .ok pass2 ∧
          ((pass2.applies = pass.applies ++ [applySite.id] ∧
              CallNeedsRewrite pass Mod applySite substCalleeType) ∨
            (pass2.applies = pass.applies ∧
              ¬ CallNeedsRewrite pass Mod applySite substCalleeType)) by
      rcases hOut with he | ⟨pass2, hok, hcase⟩
      · exact Or.inl he
      · refine Or.inr ⟨pass2, hok, ?_⟩
        rcases hcase with ⟨hp, hc⟩ | ⟨hp, hc⟩
        · exact ⟨Or.inr hp, ⟨fun _ => hc, fun _ => hp⟩, fun _ _ _ _ => hp⟩
        · refine ⟨Or.inl hp, ⟨fun h => ?_, fun h => absurd h hc⟩,
            fun hk hR hT hSig => absurd (hBegin hk hR hT hSig) hc⟩
          rw [hp] at h
          exact absurd h.symm (append_singleton_ne_self _ _)
    generalize hr : visitApply pass Mod fuel applySite = r
    unfold visitApply at hr
    rw [hM, hS] at hr
    simp only [] at hr
    -- the loop over the arguments
    have key1 : ∀ r1, anyElem (fun (operand : Nat × SILValue) (p : StructLoweringState) =>
        let currOperand := operand.2
        match p.F.getType currOperand with
        | none => .error .assertion
        | some silType =>
          match p.getNewSILType Mod fuel substCalleeType silType with
          | .error e => .error e
          | .ok (newSilType, p1) =>
            .ok (decide (silType ≠ newSilType) || decide (currOperand ∈ p1.largeLoadableArgs)
              || decide (currOperand ∈ p1.funcSigArgs), p1))
        applySite.getArgumentOperands pass = r1 →
        r1 = .error .assertion ∨ ∃ b p1, r1 = .ok (b, p1) ∧
          (Valid Mod p1.Mapper ∧ p1 = { pass with Mapper := p1.Mapper }) ∧
          (b = true ↔ ∃ operand ∈ applySite.getArgumentOperands,
            (∃ t, pass.F.getType operand.2 = some t ∧
              Pure.getNewSILType Mod (getSubstGenericEnvironment substCalleeType) t ≠
                some t) ∨
            operand.2 ∈ pass.largeLoadableArgs ∨ operand.2 ∈ pass.funcSigArgs) := by
      intro r1 h1
      refine anyElem_iff _
        (fun p => Valid Mod p.Mapper ∧ p = { pass with Mapper := p.Mapper })
        (fun operand => (∃ t, pass.F.getType operand.2 = some t ∧
          Pure.getNewSILType Mod (getSubstGenericEnvironment substCalleeType) t ≠ some t) ∨
          operand.2 ∈ pass.largeLoadableArgs ∨ operand.2 ∈ pass.funcSigArgs)
        _ ?_ pass r1 ⟨hV, rfl⟩ h1
      intro operand hop p r2 hI h2
      obtain ⟨hVp, ep⟩ := hI
      dsimp only at h2
      have eF : p.F = pass.F := by rw [ep]
      rw [eF] at h2
      cases hty : pass.F.getType operand.2 with
      | none =>
        rw [hty] at h2
        subst h2
        exact Or.inl rfl
      | some t =>
        rw [hty] at h2
        simp only [] at h2
        rcases StructLoweringState.getNewSILType_total p Mod fuel substCalleeType t hVp
            (hfA operand hop t hty) with ⟨_, he⟩ | ⟨v, M1, hp, hok, hV1⟩
        · rw [he] at h2
          subst h2
          exact Or.inl rfl
        · rw [hok] at h2
          subst h2
          have eL : p.largeLoadableArgs = pass.largeLoadableArgs := by rw [ep]
          have eS : p.funcSigArgs = pass.funcSigArgs := by rw [ep]
          refine Or.inr ⟨_, _, rfl, ⟨hV1, ?_⟩, ?_⟩
          · rw [ep]
          · show (decide (t ≠ v) || decide (operand.2 ∈ p.largeLoadableArgs) ||
              decide (operand.2 ∈ p.funcSigArgs)) = true ↔
              ((∃ t2, pass.F.getType operand.2 = some t2 ∧
                Pure.getNewSILType Mod (getSubstGenericEnvironment substCalleeType) t2 ≠
                  some t2) ∨
              operand.2 ∈ pass.largeLoadableArgs ∨ operand.2 ∈ pass.funcSigArgs)
            rw [eL, eS]
            simp only [Bool.or_eq_true, decide_eq_true_eq, ne_eq]
            constructor
            · rintro ((h | h) | h)
              · exact Or.inl ⟨t, hty, fun e => h (by rw [hp] at e; exact (Option.some.inj e).symm)⟩
              · exact Or.inr (Or.inl h)
              · exact Or.inr (Or.inr h)
            · rintro (⟨t2, ht2, h⟩ | h | h)
              · rw [hty] at ht2
                cases ht2
                exact Or.inl (Or.inl (fun e => h (by rw [hp, e])))
              · exact Or.inl (Or.inr h)
              · exact Or.inr h
    -- the loop over the yields
    have key2 : ∀ p0 r1, (Valid Mod p0.Mapper ∧ p0 = { pass with Mapper := p0.Mapper }) →
        anyElem (fun (oldYieldType : SILType) (p : StructLoweringState) =>
          match p.getNewSILType Mod fuel substCalleeType oldYieldType with
          | .error e => .error e
          | .ok (newYieldType, p1) => .ok (decide (oldYieldType ≠ newYieldType), p1))
          (getYieldedValueTypes substCalleeType) p0 = r1 →
        r1 = .error .assertion ∨ ∃ b p1, r1 = .ok (b, p1) ∧
          (Valid Mod p1.Mapper ∧ p1 = { pass with Mapper := p1.Mapper }) ∧
          (b = true ↔ ∃ t ∈ getYieldedValueTypes substCalleeType,
            Pure.getNewSILType Mod (getSubstGenericEnvironment substCalleeType) t ≠
              some t) := by
      intro p0 r1 hI0 h1
      refine anyElem_iff _
        (fun p => Valid Mod p.Mapper ∧ p = { pass with Mapper := p.Mapper })
        (fun t => Pure.getNewSILType Mod (getSubstGenericEnvironment substCalleeType) t ≠
          some t)
        _ ?_ p0 r1 hI0 h1
      intro t ht p r2 hI h2
      obtain ⟨hVp, ep⟩ := hI
      try dsimp only at h2
      rcases StructLoweringState.getNewSILType_total p Mod fuel substCalleeType t hVp
          (hfY t ht) with ⟨_, he⟩ | ⟨v, M1, hp, hok, hV1⟩
      · rw [he] at h2
        subst h2
        exact Or.inl rfl
      · rw [hok] at h2
        subst h2
        refine Or.inr ⟨_, _, rfl, ⟨hV1, ?_⟩, ?_⟩
        · rw [ep]
        · show decide (t ≠ v) = true ↔
            Pure.getNewSILType Mod (getSubstGenericEnvironment substCalleeType) t ≠ some t
          rw [hp]
          simp only [decide_eq_true_eq, ne_eq, Option.some.injEq]
          exact ⟨fun h e => h e.symm, fun h e => h e.symm⟩
    split at hr
    · -- the loop over the arguments fails
      rename_i e he
      subst hr
      rcases key1 _ he with h | ⟨b, p1, h, _⟩
      · cases h
        exact Or.inl rfl
      · cases h
    · -- an argument needs the rewriting
      rename_i pass1 h1
      subst hr
      rcases key1 _ h1 with h | ⟨b, p1, h, ⟨_, e1⟩, hiff⟩
      · cases h
      · cases h
        right
        have ea : pass1.applies = pass.applies := by rw [e1]
        have hp : ({ pass1 with applies := pass1.applies ++ [applySite.id] } :
            StructLoweringState).applies = pass.applies ++ [applySite.id] := by
          show pass1.applies ++ _ = _
          rw [ea]
        exact ⟨_, rfl, Or.inl ⟨hp, Or.inl (hiff.1 rfl)⟩⟩
    · -- no argument needs the rewriting
      rename_i pass1 h1
      rcases key1 _ h1 with h | ⟨b, p1, h, ⟨hV1, e1⟩, hiff⟩
      · cases h
      · cases h
        have hnoA : ¬ ∃ operand ∈ applySite.getArgumentOperands,
            (∃ t, pass.F.getType operand.2 = some t ∧
              Pure.getNewSILType Mod (getSubstGenericEnvironment substCalleeType) t ≠
                some t) ∨
            operand.2 ∈ pass.largeLoadableArgs ∨ operand.2 ∈ pass.funcSigArgs :=
          fun hex => Bool.noConfusion (hiff.2 hex)
        have ea : pass1.applies = pass.applies := by rw [e1]
        have eF : pass1.F = pass.F := by rw [e1]
        split at hr
        · -- a coroutine
          rename_i s hk
          have hnoR : ¬ ((∀ s, applySite.kind ≠ .BeginApplyInst s) ∧
              ((pass.isLargeLoadableType Mod pass.F.getLoweredFunctionType
                  substCalleeType.getSILResultType = .ok false ∧
                Pure.getNewSILType Mod
                  (getSubstGenericEnvironment pass.F.getLoweredFunctionType)
                  substCalleeType.getSILResultType ≠
                    some substCalleeType.getSILResultType) ∨
              Pure.getNewSILFunctionType Mod none substCalleeType ≠
                some substCalleeType)) := fun h => h.1 s hk
          split at hr
          · rename_i e he
            subst hr
            rcases key2 _ _ ⟨hV1, e1⟩ he with h | ⟨b, p2, h, _⟩
            · cases h
              exact Or.inl rfl
            · cases h
          · rename_i pass2 h2
            subst hr
            rcases key2 _ _ ⟨hV1, e1⟩ h2 with h | ⟨b, p2, h, ⟨_, e2⟩, hiffY⟩
            · cases h
            · cases h
              right
              have eb : pass2.applies = pass.applies := by rw [e2]
              have hp : ({ pass2 with applies := pass2.applies ++ [applySite.id] } :
                  StructLoweringState).applies = pass.applies ++ [applySite.id] := by
                show pass2.applies ++ _ = _
                rw [eb]
              exact ⟨_, rfl, Or.inl ⟨hp, Or.inr (Or.inl ⟨⟨s, hk⟩, hiffY.1 rfl⟩)⟩⟩
          · rename_i pass2 h2
            subst hr
            rcases key2 _ _ ⟨hV1, e1⟩ h2 with h | ⟨b, p2, h, ⟨_, e2⟩, hiffY⟩
            · cases h
            · cases h
              right
              have eb : pass2.applies = pass.applies := by rw [e2]
              refine ⟨_, rfl, Or.inr ⟨eb, ?_⟩⟩
              rintro (h | h | h)
              · exact hnoA h
              · exact Bool.noConfusion (hiffY.2 h.2)
              · exact hnoR h
        · -- an `apply`, `try_apply` or `partial_apply`
          rename_i hk
          have hnoB : ¬ ((∃ s, applySite.kind = .BeginApplyInst s) ∧
              ∃ t ∈ getYieldedValueTypes substCalleeType,
                Pure.getNewSILType Mod (getSubstGenericEnvironment substCalleeType) t ≠
                  some t) := fun h => by
            obtain ⟨⟨s, hs⟩, _⟩ := h
            exact hk s hs
          have hkind : ∀ s, applySite.kind ≠ .BeginApplyInst s := fun s hs => hk s hs
          try dsimp only at hr
          rcases StructLoweringState.getNewSILType_total pass1 Mod fuel
              pass1.F.getLoweredFunctionType substCalleeType.getSILResultType hV1 hfR with
            ⟨_, he⟩ | ⟨newType, M2, hpT, hok, hV2⟩
          · rw [he] at hr
            subst hr
            exact Or.inl rfl
          · rw [hok] at hr
            simp only [] at hr
            rw [eF] at hpT
            have eL : StructLoweringState.isLargeLoadableType
                ({ pass1 with Mapper := M2 } : StructLoweringState) Mod
                ({ pass1 with Mapper := M2 } : StructLoweringState).F.getLoweredFunctionType
                substCalleeType.getSILResultType =
                pass.isLargeLoadableType Mod pass.F.getLoweredFunctionType
                  substCalleeType.getSILResultType := by
              show LoadableByAddress.isLargeLoadableType
                (getSubstGenericEnvironment pass1.F.getLoweredFunctionType) _ Mod = _
              rw [eF]
              rfl
            rw [eL] at hr
            split at hr
            · rename_i e he
              subst hr
              left
              unfold StructLoweringState.isLargeLoadableType at he
              rw [isLargeLoadableType_error he]
            · rename_i large hl
              split at hr
              · rename_i hcond
                subst hr
                right
                have hp : ({ ({ pass1 with Mapper := M2 } : StructLoweringState) with
                    applies := pass1.applies ++ [applySite.id] } :
                    StructLoweringState).applies = pass.applies ++ [applySite.id] := by
                  show pass1.applies ++ _ = _
                  rw [ea]
                simp only [Bool.and_eq_true, Bool.not_eq_true', decide_eq_true_eq] at hcond
                refine ⟨_, rfl, Or.inl ⟨hp, Or.inr (Or.inr ⟨hkind, Or.inl ⟨?_, ?_⟩⟩)⟩⟩
                · rw [hl, hcond.1]
                · rw [hpT]
                  exact fun e => hcond.2 (Option.some.inj e).symm
              · rename_i hcond
                have hnoT : ¬ (pass.isLargeLoadableType Mod pass.F.getLoweredFunctionType
                      substCalleeType.getSILResultType = .ok false ∧
                    Pure.getNewSILType Mod
                      (getSubstGenericEnvironment pass.F.getLoweredFunctionType)
                      substCalleeType.getSILResultType ≠
                        some substCalleeType.getSILResultType) := by
                  rintro ⟨h1, h2⟩
                  apply hcond
                  rw [hl] at h1
                  cases h1
                  rw [hpT] at h2
                  simp only [Bool.not_false, Bool.true_and, decide_eq_true_eq]
                  exact fun e => h2 (by rw [e])
                rcases ((refinesAt Mod fuel).fnType none substCalleeType M2 hV2
                  hfS).elim with ⟨_, he⟩ | ⟨newFn, M3, hp, hok3, _, _⟩
                · rw [he] at hr
                  subst hr
                  exact Or.inl rfl
                · rw [hok3] at hr
                  simp only [] at hr
                  split at hr
                  · rename_i hdiff
                    subst hr
                    right
                    have hp2 : ({ ({ pass1 with Mapper := M3 } : StructLoweringState) with
                        applies := pass1.applies ++ [applySite.id] } :
                        StructLoweringState).applies = pass.applies ++ [applySite.id] := by
                      show pass1.applies ++ _ = _
                      rw [ea]
                    refine ⟨_, rfl, Or.inl ⟨hp2, Or.inr (Or.inr ⟨hkind, Or.inr ?_⟩)⟩⟩
                    rw [hp]
                    exact fun e => hdiff (Option.some.inj e).symm
                  · rename_i hsame
                    subst hr
                    right
                    have hsame2 : substCalleeType = newFn := by
                      by_contra hne
                      exact hsame hne
                    refine ⟨_, rfl, Or.inr ⟨ea, ?_⟩⟩
                    rintro (h | h | ⟨_, h | h⟩)
                    · exact hnoA h
                    · exact hnoB h
                    · exact hnoT h
                    · exact h (by rw [hp, hsame2])

/-- C25, on the toy target: the call of `callsBigProducer`, whose callee
`() -> BigStruct` is native and has a large result, is put on the call
worklist; the call of a foreign function with a converted large value as its
argument is visited as a plain instruction and is not put on it. -/
theorem visitApply_places_call_witness :
    (∃ pass2, visitApply callsBigProducerStart toyModule 1000
        ⟨1, .ApplyInst bigProducer, [.instruction 0], some ⟨BigStruct, .Object⟩, [], 0⟩ =
        .ok pass2 ∧
      pass2.applies = [1] ∧
      CallNeedsRewrite callsBigProducerStart toyModule
        ⟨1, .ApplyInst bigProducer, [.instruction 0], some ⟨BigStruct, .Object⟩, [], 0⟩
        bigProducer) ∧
    visitApply callsForeignStart toyModule 1000 foreignCallOfBigConsumer =
      .ok (visitInstr callsForeignStart foreignCallOfBigConsumer) ∧
    (visitInstr callsForeignStart foreignCallOfBigConsumer).applies = [] ∧
    (visitInstr callsForeignStart foreignCallOfBigConsumer).instsToMod = [1] ∧
    (∀ pass2, visitApply callsForeignStart toyModule 1000 foreignCallOfBigConsumer =
      .ok pass2 → pass2.applies = callsForeignStart.applies) := by
  have hNative := (visitApply_places_call callsBigProducerStart toyModule 1000
    ⟨1, .ApplyInst bigProducer, [.instruction 0], some ⟨BigStruct, .Object⟩, [], 0⟩
    bigProducer (Valid.new toyModule) rfl (by decide) (by decide) (by decide)
    (by decide)).2 0
    (.here _ bigProducer rfl (by decide) (fun c inner hc hi => by
      cases hc
      cases hi
      rfl)) (by decide)
  have hForeign := (visitApply_places_call callsForeignStart toyModule 1000
    foreignCallOfBigConsumer foreignBigConsumer (Valid.new toyModule) rfl
    (fun operand hop t ht => by
      have e : operand = (1, .instruction 9) := by
        simpa [foreignCallOfBigConsumer, SILInstruction.getArgumentOperands] using hop
      subst e
      cases ht)
    (by decide) (by decide) (by decide)).1 0 (.here 0 _ foreignBigConsumer rfl rfl)
  have hrun : (visitApply callsBigProducerStart toyModule 1000
      ⟨1, .ApplyInst bigProducer, [.instruction 0], some ⟨BigStruct, .Object⟩, [], 0⟩).map
      (fun p => p.applies) = .ok [1] := by decide
  refine ⟨?_, hForeign.2 (by decide), by decide, by decide, hForeign.1⟩
  rcases hNative with he | ⟨pass2, hok, _, hiff, _⟩
  · rw [he] at hrun
    cases hrun
  · rw [hok] at hrun
    have ha : pass2.applies = [1] := by
      simpa [Except.map] using hrun
    exact ⟨pass2, hok, ha, hiff.1 ha⟩

end LoadableByAddress

namespace LoadableByAddress

open LargeValueVisitor

/-! ## The scan and the worklist of the returns -/

theorem visitInstr_returns (pass : StructLoweringState) (instr : SILInstruction) :
    (visitInstr pass instr).modReturnInsts = pass.modReturnInsts := by
  obtain ⟨m, hm⟩ := visitInstr_eq pass instr
  rw [hm]

theorem visitApply_returns {pass pass2 : StructLoweringState} {Mod : IRGenModule}
    {fuel : Nat} {instr : SILInstruction}
    (h : visitApply pass Mod fuel instr = .ok pass2) :
    pass2.modReturnInsts = pass.modReturnInsts := by
  unfold visitApply at h
  split at h
  · cases h
  · cases h
  · cases h
    exact visitInstr_returns pass instr
  · rename_i substCalleeType hmod hsct
    have key1 : ∀ b pass1, anyElem (fun (operand : Nat × SILValue) (p : StructLoweringState) =>
        let currOperand := operand.2
        match p.F.getType currOperand with
        | none => .error .assertion
        | some silType =>
          match p.getNewSILType Mod fuel substCalleeType silType with
          | .error e => .error e
          | .ok (newSilType, p1) =>
            .ok (decide (silType ≠ newSilType) || decide (currOperand ∈ p1.largeLoadableArgs)
              || decide (currOperand ∈ p1.funcSigArgs), p1))
        instr.getArgumentOperands pass = .ok (b, pass1) →
        pass1 = { pass with Mapper := pass1.Mapper } := by
      intro b pass1 hk
      refine anyElem_state _ ?_ _ _ _ _ hk
      intro operand p b1 p1 h1
      dsimp only at h1
      split at h1
      · cases h1
      · split at h1
        · cases h1
        · rename_i h3
          have e3 := StructLoweringState.getNewSILType_state h3
          cases h1
          exact e3
    have key2 : ∀ b pass1 pass3, anyElem (fun (oldYieldType : SILType)
        (p : StructLoweringState) =>
        match p.getNewSILType Mod fuel substCalleeType oldYieldType with
        | .error e => .error e
        | .ok (newYieldType, p1) => .ok (decide (oldYieldType ≠ newYieldType), p1))
        (getYieldedValueTypes substCalleeType) pass1 = .ok (b, pass3) →
        pass3 = { pass1 with Mapper := pass3.Mapper } := by
      intro b pass1 pass3 hk
      refine anyElem_state _ ?_ _ _ _ _ hk
      intro operand p b1 p1 h1
      try dsimp only at h1
      split at h1
      · cases h1
      · rename_i h3
        have e3 := StructLoweringState.getNewSILType_state h3
        cases h1
        exact e3
    split at h
    · cases h
    · rename_i pass1 h1
      have e1 := key1 _ _ h1
      cases h
      rw [e1]
    · rename_i pass1 h1
      have e1 := key1 _ _ h1
      split at h
      · split at h
        · cases h
        · rename_i pass3 h3
          have e3 := key2 _ _ _ h3
          cases h
          rw [e3, e1]
        · rename_i pass3 h3
          have e3 := key2 _ _ _ h3
          cases h
          rw [e3, e1]
      · dsimp only at h
        split at h
        · cases h
        · rename_i newType pass3 h3
          have e3 := StructLoweringState.getNewSILType_state h3
          split at h
          · cases h
          · split at h
            · cases h
              rw [e3, e1]
            · try dsimp only at h
              split at h
              · cases h
              · split at h <;> cases h <;> rw [e3, e1]

theorem visitMethodInst_returns {pass pass2 : StructLoweringState} {Mod : IRGenModule}
    {fuel : Nat} {instr : SILInstruction}
    (h : visitMethodInst pass Mod fuel instr = .ok pass2) :
    pass2.modReturnInsts = pass.modReturnInsts := by
  unfold visitMethodInst at h
  split at h
  · cases h
    exact visitInstr_returns pass instr
  · repeat' first | split at h | (dsimp only at h; split at h)
    all_goals first
      | (cases h; done)
      | (cases h; rfl)

theorem visitStructExtractInst_returns {pass pass2 : StructLoweringState}
    {instr : SILInstruction} (h : visitStructExtractInst pass instr = .ok pass2) :
    pass2.modReturnInsts = pass.modReturnInsts := by
  unfold visitStructExtractInst at h
  split at h
  · split at h <;> cases h <;> rfl
  · cases h

theorem visitResultTyInst_returns {pass pass2 : StructLoweringState} {Mod : IRGenModule}
    {fuel : Nat} {instr : SILInstruction}
    (h : visitResultTyInst pass Mod fuel instr = .ok pass2) :
    pass2.modReturnInsts = pass.modReturnInsts := by
  unfold visitResultTyInst at h
  cases hty : instr.type with
  | none => rw [hty] at h; cases h
  | some type =>
    rw [hty] at h
    simp only at h
    cases h1 : pass.getNewSILType Mod fuel pass.F.getLoweredFunctionType type.getObjectType with
    | error e => rw [h1] at h; cases h
    | ok r =>
      obtain ⟨newSILType, pass1⟩ := r
      rw [h1] at h
      simp only at h
      have e1 := StructLoweringState.getNewSILType_state h1
      have hs : (if type.getObjectType ≠ newSILType then
            { pass1 with resultTyInstsToMod := setVectorInsert pass1.resultTyInstsToMod instr.id }
          else pass1).modReturnInsts = pass.modReturnInsts := by
        rw [e1]
        split <;> rfl
      split at h
      · rw [visitStructExtractInst_returns h, hs]
      · cases h
        rw [visitInstr_returns, hs]

theorem visitStoreInst_returns {pass pass2 : StructLoweringState} {instr : SILInstruction}
    (h : visitStoreInst pass instr = .ok pass2) :
    pass2.modReturnInsts = pass.modReturnInsts := by
  unfold visitStoreInst at h
  split at h
  · split at h <;> cases h <;> rfl
  · cases h

theorem visitSwitchEnumInst_returns {pass pass2 : StructLoweringState} {Mod : IRGenModule}
    {fuel : Nat} {instr : SILInstruction}
    (h : visitSwitchEnumInst pass Mod fuel instr = .ok pass2) :
    pass2.modReturnInsts = pass.modReturnInsts := by
  unfold visitSwitchEnumInst at h
  split at h
  · cases h
  · split at h
    · cases h
      rfl
    · have key : ∀ b pass1, anyElem (fun (currBB : Nat) (p : StructLoweringState) =>
          match p.F.findBlock currBB with
          | none => .error .assertion
          | some BB =>
            anyElem (fun (arg : SILArgument) (p1 : StructLoweringState) =>
              match p1.Mapper.shouldConvertBBArg Mod fuel p1.F arg with
              | .error e => .error e
              | .ok (false, Mapper1) => .ok (false, { p1 with Mapper := Mapper1 })
              | .ok (true, Mapper1) =>
                let p2 := { p1 with Mapper := Mapper1 }
                let storageType := arg.type
                match p2.getNewSILType Mod fuel p2.F.getLoweredFunctionType storageType with
                | .error e => .error e
                | .ok (newSILType, p3) => .ok (newSILType.isAddress, p3))
              BB.arguments p)
          instr.getCaseDestinations pass = .ok (b, pass1) →
          pass1 = { pass with Mapper := pass1.Mapper } := by
        intro b pass1 hk
        refine anyElem_state _ ?_ _ _ _ _ hk
        intro currBB p b1 p1 h1
        simp only at h1
        split at h1
        · cases h1
        · refine anyElem_state _ ?_ _ _ _ _ h1
          intro arg q b2 q1 h2
          simp only at h2
          split at h2
          · cases h2
          · cases h2; rfl
          · split at h2
            · cases h2
            · rename_i h3
              have e3 := StructLoweringState.getNewSILType_state h3
              cases h2
              rw [e3]
      split at h
      · cases h
      · rename_i pass1 h1
        have e1 := key _ _ h1
        cases h
        rw [e1]
      · rename_i pass1 h1
        have e1 := key _ _ h1
        cases h
        rw [e1]

theorem visitTupleInst_returns {pass pass2 : StructLoweringState} {Mod : IRGenModule}
    {fuel : Nat} {instr : SILInstruction}
    (h : visitTupleInst pass Mod fuel instr = .ok pass2) :
    pass2.modReturnInsts = pass.modReturnInsts := by
  unfold visitTupleInst at h
  cases hty : instr.type with
  | none => rw [hty] at h; cases h
  | some type =>
    rw [hty] at h
    simp only at h
    cases hfn : getInnerFunctionType type.getObjectType with
    | none =>
      rw [hfn] at h
      cases h
      exact visitInstr_returns pass instr
    | some funcType =>
      rw [hfn] at h
      simp only at h
      split at h
      · cases h
      · cases h
        rw [visitInstr_returns]
        split <;> rfl

theorem visitAllocStackInst_returns {pass pass2 : StructLoweringState} {Mod : IRGenModule}
    {fuel : Nat} {instr : SILInstruction}
    (h : visitAllocStackInst pass Mod fuel instr = .ok pass2) :
    pass2.modReturnInsts = pass.modReturnInsts := by
  unfold visitAllocStackInst at h
  cases hty : instr.type with
  | none => rw [hty] at h; cases h
  | some type =>
    rw [hty] at h
    simp only at h
    split at h
    · cases h
    · rename_i pass1 h1
      have e1 := StructLoweringState.containsDifferentFunctionSignature_state h1
      cases h
      rw [e1]
    · rename_i pass1 h1
      have e1 := StructLoweringState.containsDifferentFunctionSignature_state h1
      cases h
      rw [e1]

theorem visitPointerToAddressInst_returns {pass pass2 : StructLoweringState}
    {instr : SILInstruction} (h : visitPointerToAddressInst pass instr = .ok pass2) :
    pass2.modReturnInsts = pass.modReturnInsts := by
  unfold visitPointerToAddressInst at h
  split at h
  · cases h
  · dsimp only at h
    split at h <;> cases h <;> rfl

theorem visitYieldInst_returns {pass pass2 : StructLoweringState} {Mod : IRGenModule}
    {fuel : Nat} {instr : SILInstruction}
    (h : visitYieldInst pass Mod fuel instr = .ok pass2) :
    pass2.modReturnInsts = pass.modReturnInsts := by
  unfold visitYieldInst at h
  split at h
  · cases h
  · cases h
    rw [visitInstr_returns]
  · cases h
    rfl

theorem visitDeallocInst_returns {pass pass2 : StructLoweringState} {instr : SILInstruction}
    (h : visitDeallocInst pass instr = .ok pass2) :
    pass2.modReturnInsts = pass.modReturnInsts := by
  have e : pass2 = pass := by
    unfold visitDeallocInst at h
    repeat' split at h
    all_goals first
      | cases h; rfl
      | cases h
  rw [e]

/-- For a signature with a single large result the answer of
`shouldTransformResults` is yes, whatever the cache holds. -/
theorem shouldTransformResults_of_modNonFunc {Mod : IRGenModule} {fuel : Nat}
    {env : Option GenericEnvironment} {fnType : SILFunctionType}
    {M M1 : LargeSILTypeMapper} {b : Bool}
    (hMod : modNonFuncTypeResultType env fnType Mod = .ok true)
    (h : LargeSILTypeMapper.shouldTransformResults Mod fuel env fnType M = .ok (b, M1)) :
    b = true := by
  cases fuel with
  | zero =>
    simp only [LargeSILTypeMapper.shouldTransformResults] at h
    cases h
  | succ fuel =>
    have hMod0 := hMod
    unfold modNonFuncTypeResultType at hMod
    simp only [LargeSILTypeMapper.shouldTransformResults] at h
    by_cases hM : modifiableFunction fnType = true
    · simp only [hM, Bool.not_true, Bool.false_eq_true, if_false] at h hMod
      by_cases hnum : fnType.getNumResults ≠ 1
      · rw [if_pos hnum] at hMod
        cases hMod
      · rw [if_neg hnum] at h
        split at h
        · try dsimp only at h
          split at h
          · cases h
          · split at h
            · cases h
              rfl
            · rw [hMod0] at h
              cases h
              rfl
        · cases h
    · have hM2 : modifiableFunction fnType = false := by simpa using hM
      simp only [hM2, Bool.not_false, if_true] at hMod
      cases hMod

/-- The scan at a return of a function with a single large result: when the
visit returns, the return stands on the worklist `modReturnInsts`. -/
theorem visitReturnInst_returns {pass pass2 : StructLoweringState} {Mod : IRGenModule}
    {fuel : Nat} {instr : SILInstruction}
    (hMod : pass.F.modNonFuncTypeResultType Mod = .ok true)
    (h : visitReturnInst pass Mod fuel instr = .ok pass2) :
    pass2.modReturnInsts = pass.modReturnInsts ++ [instr.id] := by
  unfold visitReturnInst at h
  split at h
  · cases h
  · rename_i Mapper1 h1
    have := shouldTransformResults_of_modNonFunc hMod h1
    cases this
  · rename_i Mapper1 h1
    try dsimp only at h
    have hMod2 : ({ pass with Mapper := Mapper1 } : StructLoweringState).F.modNonFuncTypeResultType
        Mod = .ok true := hMod
    rw [hMod2] at h
    cases h
    rfl

/-- One visit of the scan in a function with a single large result: a return
is put on the worklist `modReturnInsts`, and no other instruction is. -/
theorem visitInstruction_returns {pass pass2 : StructLoweringState} {Mod : IRGenModule}
    {fuel : Nat} {instr : SILInstruction}
    (hMod : pass.F.modNonFuncTypeResultType Mod = .ok true)
    (h : visitInstruction pass Mod fuel instr = .ok pass2) :
    pass2.modReturnInsts = pass.modReturnInsts ++
      (if instr.kind = SILInstructionKind.ReturnInst then [instr.id] else []) := by
  unfold visitInstruction at h
  split at h
  all_goals first
    | (rename_i hk
       rw [hk, if_pos rfl]
       exact visitReturnInst_returns hMod h)
    | (rename_i hk
       rw [hk, if_neg (by simp), List.append_nil]
       first
        | exact visitApply_returns h
        | exact visitMethodInst_returns h
        | exact visitResultTyInst_returns h
        | exact visitStoreInst_returns h
        | exact visitSwitchEnumInst_returns h
        | exact visitTupleInst_returns h
        | exact visitAllocStackInst_returns h
        | exact visitPointerToAddressInst_returns h
        | exact visitYieldInst_returns h
        | exact visitDeallocInst_returns h
        | (cases h; unfold visitRetainInst; split <;> rfl)
        | (cases h; unfold visitReleaseInst; split <;> rfl)
        | (cases h; unfold visitDebugValueInst; rw [visitDebugValueInst_fold])
        | (cases h; unfold visitDestroyValueInst; rw [visitDestroyValueInst_fold]))
    | (have hk : instr.kind ≠ SILInstructionKind.ReturnInst := by
        intro hk
        simp_all
       rw [if_neg hk, List.append_nil]
       cases h
       exact visitInstr_returns _ _)

/-- The scan over the instructions `l` of a function with a single large
result: the returns among them are put on the worklist `modReturnInsts`, in
order, and nothing else is. -/
theorem forEachM_visitInstruction_returns (Mod : IRGenModule) (fuel : Nat) :
    ∀ (l : List SILInstruction) (pass q : StructLoweringState),
      pass.F.modNonFuncTypeResultType Mod = .ok true →
      forEachM (fun (currIns : SILInstruction) p1 => visitInstruction p1 Mod fuel currIns)
        l pass = .ok q →
      q.F = pass.F ∧
      q.modReturnInsts = pass.modReturnInsts ++
        (l.filter (fun i => decide (i.kind = SILInstructionKind.ReturnInst))).map
          (fun i => i.id)
  | [], pass, q, _, h => by
    simp only [forEachM] at h
    cases h
    simp
  | i :: l, pass, q, hMod, h => by
    simp only [forEachM] at h
    split at h
    · cases h
    · rename_i p1 h1
      have hF : p1.F = pass.F := (visitInstruction_step h1).1
      have hR := visitInstruction_returns hMod h1
      obtain ⟨hF2, hR2⟩ := forEachM_visitInstruction_returns Mod fuel l p1 q
        (by rw [hF]; exact hMod) h
      refine ⟨by rw [hF2, hF], ?_⟩
      rw [hR2, hR]
      by_cases hk : i.kind = SILInstructionKind.ReturnInst
      · simp [hk]
      · simp [hk]



/-! ## The loop over the worklist of the returns -/

theorem findInstruction_of_mem {F : SILFunction} (hW : F.WellFormed) {i : SILInstruction}
    (hi : i ∈ F.allInstructions) : F.findInstruction i.id = some i := by
  cases h : F.findInstruction i.id with
  | none =>
    unfold SILFunction.findInstruction at h
    rw [List.find?_eq_none] at h
    exact absurd (by simp) (h i hi)
  | some j =>
    have hj := findInstruction_mem h
    have hid := findInstruction_id h
    rw [hW.eq_of_id hj hi hid]

/-- The type of a value stays when the instructions other than `r` and the
block arguments stay. -/
theorem getType_preserved {F G : SILFunction} (hWF : F.WellFormed) (hWG : G.WellFormed)
    (r : Nat)
    (hArgs : G.allArguments = F.allArguments)
    (hKeep : ∀ i ∈ F.allInstructions, i.id ≠ r → i ∈ G.allInstructions)
    {v : SILValue} {ty : SILType} (hv : F.getType v = some ty)
    (h1 : v ≠ .instruction r) (h2 : ∀ index, v ≠ .result r index) :
    G.getType v = some ty := by
  cases v with
  | undef t => exact hv
  | argument a =>
    simp only [SILFunction.getType] at hv ⊢
    rw [hArgs]
    exact hv
  | instruction k =>
    simp only [SILFunction.getType] at hv ⊢
    cases hf : F.findInstruction k with
    | none =>
      rw [hf] at hv
      cases hv
    | some i =>
      rw [hf] at hv
      have hid := findInstruction_id hf
      have hne : i.id ≠ r := fun e => h1 (by rw [← hid, e])
      have hG := findInstruction_of_mem hWG (hKeep i (findInstruction_mem hf) hne)
      rw [hid] at hG
      rw [hG]
      exact hv
  | result k index =>
    simp only [SILFunction.getType] at hv ⊢
    cases hf : F.findInstruction k with
    | none =>
      rw [hf] at hv
      cases hv
    | some i =>
      rw [hf] at hv
      have hid := findInstruction_id hf
      have hne : i.id ≠ r := fun e => h2 index (by rw [← hid, e])
      have hG := findInstruction_of_mem hWG (hKeep i (findInstruction_mem hf) hne)
      rw [hid] at hG
      rw [hG]
      exact hv

theorem forall₂_split {α β : Type} {R : α → β → Prop} :
    ∀ {l1 : List α} {a : α} {l2 : List α} {l : List β},
      List.Forall₂ R (l1 ++ a :: l2) l →
      ∃ m1 b m2, l = m1 ++ b :: m2 ∧ List.Forall₂ R l1 m1 ∧ R a b ∧ List.Forall₂ R l2 m2
  | [], _, _, _, h => by
    cases h with
    | cons hab ht => exact ⟨[], _, _, rfl, .nil, hab, ht⟩
  | x :: l1, _, _, _, h => by
    cases h with
    | cons hxy ht =>
      obtain ⟨m1, b, m2, e, h1, hab, h2⟩ := forall₂_split ht
      exact ⟨_ :: m1, b, m2, by rw [e]; rfl, .cons hxy h1, hab, h2⟩

theorem forall₂_imp_mem {α β : Type} {R S : α → β → Prop} :
    ∀ {l1 : List α} {l2 : List β}, List.Forall₂ R l1 l2 →
      (∀ a ∈ l1, ∀ b, R a b → S a b) → List.Forall₂ S l1 l2
  | _, _, .nil, _ => .nil
  | _, _, .cons hab ht, h =>
    .cons (h _ (List.mem_cons_self _ _) _ hab)
      (forall₂_imp_mem ht (fun a ha b hr => h a (List.mem_cons_of_mem _ ha) b hr))

theorem forall₂_join {α β : Type} {R : α → β → Prop} {l1 l2 : List α} {m1 m2 : List β}
    {a : α} {b : β} (h1 : List.Forall₂ R l1 m1) (hab : R a b) (h2 : List.Forall₂ R l2 m2) :
    List.Forall₂ R (l1 ++ a :: l2) (m1 ++ b :: m2) := by
  induction h1 with
  | nil => exact .cons hab h2
  | cons hxy _ ih => exact .cons hxy ih

/-- The loop over the worklist of the returns rewrites every return on the
worklist, and leaves the other blocks as they are. -/
theorem rewriteModReturnInsts_all (Mod : IRGenModule) (retArg : SILArgument) (rest : List Nat) :
    ∀ (pass : StructLoweringState),
      pass.modReturnInsts = rest → pass.F.WellFormed →
      pass.F.modNonFuncTypeResultType Mod = .ok true →
      (∃ entry args, pass.F.getEntryBlock = some entry ∧ entry.arguments = retArg :: args) →
      rest.Nodup → ReturnsOnWorklist pass →
      ∃ q, rewriteModReturnInsts pass Mod = .ok q ∧
        q = { pass with F := q.F, modReturnInsts := [] } ∧
        q.F = { pass.F with blocks := q.F.blocks, nextId := q.F.nextId } ∧
        q.F.WellFormed ∧ pass.F.nextId ≤ q.F.nextId ∧
        List.Forall₂ (ReturnsRewritten pass Mod (.argument retArg.id)) pass.F.blocks
          q.F.blocks := by
  induction rest using List.reverseRecOn with
  | nil =>
    intro pass hL hW hMod hE hN hR
    refine ⟨{ pass with modReturnInsts := [] }, ?_, rfl, rfl, hW, Nat.le_refl _, ?_⟩
    · unfold rewriteModReturnInsts
      rw [hL]
      rfl
    · refine forall₂_self ?_ _
      intro BB
      exact Or.inr ⟨fun i _ h => (by rw [hL] at h; cases h), rfl⟩
  | append_singleton rest r ih =>
    intro pass hL hW hMod hE hN hR
    obtain ⟨entry, args, hE, hA⟩ := hE
    have hrmem : r ∈ pass.modReturnInsts := by rw [hL]; simp
    obtain ⟨parent, hparent, front, ret, retOp, storageType, hI, hid, hk, hOp, hTy, hNoRet⟩ :=
      hR r hrmem
    subst hid
    obtain ⟨B1, B2, hB⟩ := List.append_of_mem hparent
    have hNrest : rest.Nodup := (List.nodup_append.1 hN).1
    have hrnot : ret.id ∉ rest := fun h =>
      (List.nodup_append.1 hN).2.2 h (List.mem_singleton_self _)
    -- the deallocations right before the return
    obtain ⟨pre, deallocs, hfront, hD, hS⟩ : ∃ pre deallocs, front = pre ++ deallocs ∧
        (storageType.isAddress = true →
          (∀ d ∈ deallocs, d.kind = SILInstructionKind.DeallocStackInst) ∧
          ∀ p ∈ pre.getLast?, p.kind ≠ SILInstructionKind.DeallocStackInst) ∧
        (storageType.isAddress = false → deallocs = []) := by
      cases hAddr : storageType.isAddress with
      | true =>
        obtain ⟨pre, deallocs, e, hD, hP⟩ := dealloc_suffix_split front
        exact ⟨pre, deallocs, e, fun _ => ⟨hD, hP⟩, fun h => (by cases h)⟩
      | false =>
        exact ⟨front, [], (List.append_nil _).symm, fun h => (by cases h), fun _ => rfl⟩
    subst hfront
    have hI2 : parent.instructions = pre ++ deallocs ++ ret :: [] := hI
    have hstep := (rewriteModReturnInsts_step pass Mod B1 B2 parent entry retArg args pre
      deallocs [] ret retOp storageType rest hB hI2 hW hD hS hL hMod hE hA hOp hTy).1
    obtain ⟨u1, _, uB1, uB2, ult⟩ := hW.unique hB hI2
    -- the function after the step
    have hWnew := returnRewriteWith_eq
      (if storageType.isAddress then SILInstructionKind.CopyAddrInst true true
        else .StoreInst (getStoreInitOwnership pass Mod storageType))
      pass.F B1 B2 parent pre deallocs [] ret (.before (deallocs.head?.getD ret).id) retOp
      (.argument retArg.id) (some (SILType.getPrimitiveObjectType (.tuple .nil))) hB hI2 hW rfl
    generalize hF1 : ({ pass.F with
          blocks := B1 ++ { parent with
            instructions := pre ++
              ⟨pass.F.nextId, (if storageType.isAddress then SILInstructionKind.CopyAddrInst true true
                else .StoreInst (getStoreInitOwnership pass Mod storageType)),
                [retOp, .argument retArg.id], none, [], 0⟩ :: deallocs ++
              [⟨pass.F.nextId + 1, .TupleInst, [],
                  some (SILType.getPrimitiveObjectType (.tuple .nil)), [], 0⟩,
                ⟨pass.F.nextId + 2, .ReturnInst, [.instruction (pass.F.nextId + 1)], none,
                  [], 0⟩] ++
              [] } :: B2,
          nextId := pass.F.nextId + 3 } : SILFunction) = F1 at hstep hWnew
    have hWF1 : F1.WellFormed := by
      rw [← hWnew]
      exact (((hW.after_createWith _ _ _ _ _ _).after_createWith _ _ _ _ _ _).after_createWith
        _ _ _ _ _ _).after_erase _
    have hblocks : F1.blocks = B1 ++ { parent with
            instructions := pre ++
              ⟨pass.F.nextId, (if storageType.isAddress then SILInstructionKind.CopyAddrInst true true
                else .StoreInst (getStoreInitOwnership pass Mod storageType)),
                [retOp, .argument retArg.id], none, [], 0⟩ :: deallocs ++
              [⟨pass.F.nextId + 1, .TupleInst, [],
                  some (SILType.getPrimitiveObjectType (.tuple .nil)), [], 0⟩,
                ⟨pass.F.nextId + 2, .ReturnInst, [.instruction (pass.F.nextId + 1)], none,
                  [], 0⟩] ++
              [] } :: B2 := by rw [← hF1]
    have hnext : F1.nextId = pass.F.nextId + 3 := by rw [← hF1]
    have hshape : F1 = { pass.F with blocks := F1.blocks, nextId := F1.nextId } := by
      rw [← hF1]
    have hArgs : F1.allArguments = pass.F.allArguments := by
      unfold SILFunction.allArguments
      rw [hblocks, hB]
      simp
    have hKeep : ∀ i ∈ pass.F.allInstructions, i.id ≠ ret.id → i ∈ F1.allInstructions := by
      intro i hi hne
      unfold SILFunction.allInstructions at hi ⊢
      obtain ⟨BB, hBB, hiBB⟩ := List.mem_flatMap.1 hi
      rw [hB] at hBB
      rw [hblocks]
      rcases List.mem_append.1 hBB with h | h
      · exact List.mem_flatMap.2 ⟨BB, List.mem_append_left _ h, hiBB⟩
      · rcases List.mem_cons.1 h with h | h
        · subst h
          refine List.mem_flatMap.2 ⟨_, List.mem_append_right _ (List.mem_cons_self _ _), ?_⟩
          rw [hI2] at hiBB
          show i ∈ pre ++ _ :: deallocs ++ _ ++ []
          rcases List.mem_append.1 hiBB with h2 | h2
          · rcases List.mem_append.1 h2 with h3 | h3
            · simp [h3]
            · simp [h3]
          · rcases List.mem_cons.1 h2 with e | h3
            · exact absurd (by rw [e]) hne
            · cases h3
        · exact List.mem_flatMap.2 ⟨BB, List.mem_append_right _ (List.mem_cons_of_mem _ h), hiBB⟩
    have hlt : ∀ id ∈ pass.modReturnInsts, id < pass.F.nextId := by
      intro id hmem
      obtain ⟨parent2, hp2, front2, ret2, _, _, hI3, hid2, _⟩ := hR id hmem
      rw [← hid2]
      apply hW.2.1
      unfold SILFunction.allInstructions
      exact List.mem_flatMap.2 ⟨parent2, hp2, by rw [hI3]; simp⟩
    have hretF : pass.F.findInstruction ret.id = some ret := by
      apply findInstruction_of_mem hW
      unfold SILFunction.allInstructions
      exact List.mem_flatMap.2 ⟨parent, hparent, by rw [hI2]; simp⟩
    have hTyKeep : ∀ (v : SILValue) (ty : SILType), pass.F.getType v = some ty →
        v ≠ .instruction ret.id → F1.getType v = some ty := by
      intro v ty hv hne
      refine getType_preserved hW hWF1 ret.id hArgs hKeep hv hne ?_
      intro index e
      rw [e] at hv
      simp only [SILFunction.getType, hretF, Option.some_bind] at hv
      split at hv
      · rename_i hk2
        rw [hk] at hk2
        cases hk2
      · cases hv
    have hOwn : ∀ ty, getStoreInitOwnership
        ({ pass with F := F1, modReturnInsts := rest } : StructLoweringState) Mod ty =
        getStoreInitOwnership pass Mod ty := by
      intro ty
      have hho : F1.hasOwnership = pass.F.hasOwnership := by rw [← hF1]
      unfold getStoreInitOwnership
      show (if (!F1.hasOwnership) = true then _ else _) = _
      rw [hho]
    -- the hypotheses hold after the step
    have hR1 : ReturnsOnWorklist ({ pass with F := F1, modReturnInsts := rest } :
        StructLoweringState) := by
      intro id hmem
      have hmem0 : id ∈ pass.modReturnInsts := by rw [hL]; exact List.mem_append_left _ hmem
      obtain ⟨parent2, hp2, front2, ret2, retOp2, ty2, hI3, hid2, hk2, hOp2, hTy2, hNo2⟩ :=
        hR id hmem0
      have hne : parent2 ≠ parent := by
        intro e
        rw [e, hI2] at hI3
        have := List.append_inj_right' hI3 rfl
        simp only [List.cons.injEq, and_true] at this
        rw [← this] at hid2
        rw [hid2] at hrnot
        exact hrnot hmem
      refine ⟨parent2, ?_, front2, ret2, retOp2, ty2, hI3, hid2, hk2, hOp2, ?_, ?_⟩
      · show parent2 ∈ F1.blocks
        rw [hblocks]
        rw [hB] at hp2
        rcases List.mem_append.1 hp2 with h | h
        · exact List.mem_append_left _ h
        · rcases List.mem_cons.1 h with h | h
          · exact absurd h hne
          · exact List.mem_append_right _ (List.mem_cons_of_mem _ h)
      · exact hTyKeep retOp2 ty2 hTy2 (hNo2 ret.id hrmem)
      · intro k hkm
        exact hNo2 k (by rw [hL]; exact List.mem_append_left _ hkm)
    have hE1 : ∃ entry1 args1, F1.getEntryBlock = some entry1 ∧
        entry1.arguments = retArg :: args1 := by
      unfold SILFunction.getEntryBlock at hE ⊢
      rw [hblocks]
      rw [hB] at hE
      cases B1 with
      | nil =>
        simp only [List.nil_append, List.head?_cons, Option.some.injEq] at hE ⊢
        exact ⟨_, args, rfl, by rw [← hA, ← hE]⟩
      | cons b B1 =>
        simp only [List.cons_append, List.head?_cons, Option.some.injEq] at hE ⊢
        exact ⟨_, args, rfl, by rw [← hA, ← hE]⟩
    have hMod1 : F1.modNonFuncTypeResultType Mod = .ok true := by
      rw [← hF1]
      exact hMod
    obtain ⟨q, hq, hqs, hqF, hqW, hqn, hq2⟩ :=
      ih ({ pass with F := F1, modReturnInsts := rest } : StructLoweringState) rfl hWF1 hMod1
        hE1 hNrest hR1
    refine ⟨q, by rw [hstep]; exact hq, ?_, ?_, hqW, ?_, ?_⟩
    · rw [hqs]
    · rw [hqF]
      show ({ F1 with blocks := q.F.blocks, nextId := q.F.nextId } : SILFunction) = _
      rw [hshape]
    · have : F1.nextId ≤ q.F.nextId := hqn
      omega
    · -- the blocks
      have hq3 : List.Forall₂ (ReturnsRewritten
          ({ pass with F := F1, modReturnInsts := rest } : StructLoweringState) Mod
          (.argument retArg.id)) F1.blocks q.F.blocks := hq2
      rw [hblocks] at hq3
      obtain ⟨m1, b, m2, eq, h1, hb, h2⟩ := forall₂_split hq3
      rw [eq, hB]
      have conv : ∀ old ∈ pass.F.blocks, (∀ y ∈ old.instructions, y.id ≠ ret.id) →
          ∀ new, ReturnsRewritten
            ({ pass with F := F1, modReturnInsts := rest } : StructLoweringState) Mod
            (.argument retArg.id) old new →
          ReturnsRewritten pass Mod (.argument retArg.id) old new := by
        intro old hold hne new hrel
        rcases hrel with ⟨pre2, deallocs2, ret2, retOp2, ty2, n2, hm2, hI3, hOp2, hTy2, hD2,
          hS2, hn2, hnew2⟩ | ⟨hno, hnew⟩
        · left
          have hm0 : ret2.id ∈ pass.modReturnInsts := by
            rw [hL]
            exact List.mem_append_left _ hm2
          obtain ⟨parent3, hp3, front3, ret3, retOp3, ty3, hI4, hid3, hk3, hOp3, hTy3, hNo3⟩ :=
            hR ret2.id hm0
          have hret2mem : ret2 ∈ pass.F.allInstructions := by
            unfold SILFunction.allInstructions
            exact List.mem_flatMap.2 ⟨old, hold, by rw [hI3]; simp⟩
          have hret3mem : ret3 ∈ pass.F.allInstructions := by
            unfold SILFunction.allInstructions
            exact List.mem_flatMap.2 ⟨parent3, hp3, by rw [hI4]; simp⟩
          have e32 : ret3 = ret2 := hW.eq_of_id hret3mem hret2mem hid3
          subst e32
          rw [hOp2] at hOp3
          cases hOp3
          have hTy4 := hTyKeep retOp2 ty3 hTy3 (hNo3 ret.id hrmem)
          have ety : ty3 = ty2 := by
            have hTy5 : F1.getType retOp2 = some ty2 := hTy2
            rw [hTy4] at hTy5
            exact Option.some.inj hTy5
          subst ety
          rw [hOwn] at hnew2
          refine ⟨pre2, deallocs2, ret3, retOp2, ty3, n2, hm0, hI3, hOp2, hTy3, hD2, hS2, ?_,
            hnew2⟩
          have : F1.nextId ≤ n2 := hn2
          omega
        · right
          refine ⟨fun i hi hmem => ?_, hnew⟩
          rw [hL] at hmem
          rcases List.mem_append.1 hmem with h | h
          · exact hno i hi h
          · exact hne i hi (List.mem_singleton.1 h)
      refine forall₂_join
        (forall₂_imp_mem h1 (fun old hold new hrel =>
          conv old (by rw [hB]; exact List.mem_append_left _ hold) (uB1 old hold) new hrel))
        ?_
        (forall₂_imp_mem h2 (fun old hold new hrel =>
          conv old (by rw [hB]; exact List.mem_append_right _ (List.mem_cons_of_mem _ hold))
            (uB2 old hold) new hrel))
      -- the block of the return
      rcases hb with ⟨pre2, deallocs2, ret2, retOp2, ty2, n2, hm2, hI3, _⟩ | ⟨_, hnew⟩
      · exfalso
        have hm0 : ret2.id ∈ pass.modReturnInsts := by
          rw [hL]
          exact List.mem_append_left _ hm2
        have hI5 : (pre ++
              (⟨pass.F.nextId, (if storageType.isAddress then
                  SILInstructionKind.CopyAddrInst true true
                else .StoreInst (getStoreInitOwnership pass Mod storageType)),
                [retOp, .argument retArg.id], none, [], 0⟩ : SILInstruction) :: deallocs ++
              [⟨pass.F.nextId + 1, .TupleInst, [],
                  some (SILType.getPrimitiveObjectType (.tuple .nil)), [], 0⟩]) ++
              [(⟨pass.F.nextId + 2, .ReturnInst, [.instruction (pass.F.nextId + 1)], none,
                  [], 0⟩ : SILInstruction)] = (pre2 ++ deallocs2) ++ [ret2] := by
          rw [← hI3]
          simp
        have hlast := List.append_inj_right' hI5 rfl
        have := hlt ret2.id hm0
        simp only [List.cons.injEq, and_true] at hlast
        rw [← hlast] at this
        simp at this
      · left
        refine ⟨pre, deallocs, ret, retOp, storageType, pass.F.nextId, hrmem, hI, hOp, hTy, hD,
          hS, Nat.le_refl _, ?_⟩
        rw [hnew]
        simp

end LoadableByAddress

namespace LoadableByAddress

open LargeValueVisitor

/-! ## The returns of a function with an indirect result -/

/-- The scan visits instructions of the function only. -/
theorem scannedInstructions_subset (F : SILFunction) :
    ∀ i ∈ F.scannedInstructions, i ∈ F.allInstructions := by
  intro i hi
  unfold SILFunction.scannedInstructions at hi
  obtain ⟨BB, hBB, hiBB⟩ := List.mem_flatMap.1 hi
  unfold SILFunction.allInstructions
  refine List.mem_flatMap.2 ⟨BB, ?_, hiBB⟩
  unfold getReversePostOrder at hBB
  split at hBB
  · cases hBB
  · obtain ⟨b, _, hb⟩ := List.mem_filterMap.1 hBB
    unfold SILFunction.findBlock at hb
    exact List.mem_of_find?_eq_some hb

/-- C11, refuted as stated: the native function `returnsWithUnreachableBlock`,
`f(x: BigStruct) -> BigStruct`, has a single large result, which becomes the
indirect argument number 4; `runOnFunction` rewrites the return of the entry
block and leaves the return number 2, in the block that no branch leads to, a
return of the argument `x` (now the address number 3). -/
theorem runOnFunction_leaves_unreachable_return :
    returnsWithUnreachableBlock.modNonFuncTypeResultType toyModule = .ok true ∧
    ModuleTransform.runOnFunction ModuleTransform.new toyModule 10
      returnsWithUnreachableBlock =
      .ok (returnsWithUnreachableBlockRewritten.F,
        ⟨returnsWithUnreachableBlockRewritten.Mapper, [5], [], []⟩) ∧
    returnsWithUnreachableBlockRewritten.F.blocks.map
      (fun BB => BB.instructions.map (fun i => (i.id, i.kind, i.operands))) =
      [[(5, .CopyAddrInst true true, [.argument 3, .argument 4]), (6, .TupleInst, []),
          (7, .ReturnInst, [.instruction 6])],
        [(2, .ReturnInst, [.argument 3])]] ∧
    (returnsWithUnreachableBlockRewritten.F.blocks.map (fun BB => BB.arguments.map
      (fun a => (a.id, a.type)))) =
      [[(4, ⟨BigStruct, .Address⟩), (3, ⟨BigStruct, .Address⟩)], []] :=
  ⟨by decide, returnsWithUnreachableBlock_run, by decide, by decide⟩

/-- C11, amended: in a function whose single large result becomes an indirect
result, (1) the scan, when it returns, leaves the function as it is and has
put on the worklist `modReturnInsts` exactly the returns among the
instructions it visits, those of the blocks reachable from the entry block,
in the order of the visit; (2) so, started with an empty worklist in a
function with distinct identities, it puts no instruction on the worklist
that it does not visit, as a return in a block that is not reachable; (3) at
a return the visit of the scan stops at a failed assertion or puts the
return on the worklist; and (4) for a state `pass` whose worklist holds
distinct returns, each the end of its block and with one operand that has a
type (`ReturnsOnWorklist`), in a function with distinct identities whose
entry block has the first argument `retArg`, the loop of `rewriteFunction`
over the worklist returns, it changes nothing but the blocks and the supply
of identities of the function and empties the worklist, and block by block
the function it leaves is `ReturnsRewritten`: in a block that ends with a
return of the worklist a `copy_addr` (for an operand that is an address) or a
`store` (for a value) of the operand into `retArg` has been added and the
return has made way for a `tuple ()` and a return of it, and a block without
an instruction on the worklist is as it was. -/
theorem returns_on_worklist_rewritten
    (pass : StructLoweringState) (Mod : IRGenModule) (fuel : Nat)
    (entry : SILBasicBlock) (retArg : SILArgument) (args : List SILArgument)
    (hW : pass.F.WellFormed)
    (hMod : pass.F.modNonFuncTypeResultType Mod = .ok true)
    (hE : pass.F.getEntryBlock = some entry) (hA : entry.arguments = retArg :: args)
    (hN : pass.modReturnInsts.Nodup) (hR : ReturnsOnWorklist pass) :
    (∀ p q : StructLoweringState, p.F.modNonFuncTypeResultType Mod = .ok true →
      mapValueStorage p Mod fuel = .ok q →
      q.F = p.F ∧
      q.modReturnInsts = p.modReturnInsts ++
        (p.F.scannedInstructions.filter
          (fun i => decide (i.kind = SILInstructionKind.ReturnInst))).map (fun i => i.id)) ∧
    (∀ p q : StructLoweringState, p.F.modNonFuncTypeResultType Mod = .ok true →
      p.F.WellFormed → p.modReturnInsts = [] →
      mapValueStorage p Mod fuel = .ok q →
      ∀ i ∈ p.F.allInstructions, i ∉ p.F.scannedInstructions → i.id ∉ q.modReturnInsts) ∧
    (∀ (p : StructLoweringState) (instr : SILInstruction),
      Valid Mod p.Mapper → 10 * sizeOf p.F.getLoweredFunctionType + 7 < fuel →
      p.F.modNonFuncTypeResultType Mod = .ok true →
      instr.kind = SILInstructionKind.ReturnInst →
      visitInstruction p Mod fuel instr = .error .assertion ∨
      ∃ Mapper1, visitInstruction p Mod fuel instr =
        .ok { p with Mapper := Mapper1,
                     modReturnInsts := p.modReturnInsts ++ [instr.id] }) ∧
    ∃ q, rewriteModReturnInsts pass Mod = .ok q ∧
      q = { pass with F := q.F, modReturnInsts := [] } ∧
      q.F = { pass.F with blocks := q.F.blocks, nextId := q.F.nextId } ∧
      List.Forall₂ (ReturnsRewritten pass Mod (.argument retArg.id)) pass.F.blocks
        q.F.blocks := by
  have scan : ∀ p q : StructLoweringState, p.F.modNonFuncTypeResultType Mod = .ok true →
      mapValueStorage p Mod fuel = .ok q →
      q.F = p.F ∧
      q.modReturnInsts = p.modReturnInsts ++
        (p.F.scannedInstructions.filter
          (fun i => decide (i.kind = SILInstructionKind.ReturnInst))).map (fun i => i.id) := by
    intro p q hM h
    have e : mapValueStorage p Mod fuel =
        forEachM (fun (currIns : SILInstruction) p1 => visitInstruction p1 Mod fuel currIns)
          p.F.scannedInstructions p := by
      unfold mapValueStorage SILFunction.scannedInstructions
      exact forEachM_flatMap _ _ _ _
    rw [e] at h
    exact forEachM_visitInstruction_returns Mod fuel _ p q hM h
  refine ⟨scan, ?_, ?_, ?_⟩
  · intro p q hM hWp hL h i hi hnot hmem
    rw [(scan p q hM h).2, hL, List.nil_append] at hmem
    obtain ⟨j, hj, hid⟩ := List.mem_map.1 hmem
    have hj2 := (List.mem_filter.1 hj).1
    have e : j = i := hWp.eq_of_id (scannedInstructions_subset _ j hj2) hi hid
    rw [e] at hj2
    exact hnot hj2
  · intro p instr hV hf hM hk
    have e : visitInstruction p Mod fuel instr = visitReturnInst p Mod fuel instr := by
      unfold visitInstruction
      rw [hk]
    rw [e]
    exact visitReturnInst_large_result p Mod fuel instr hV hf hM
  · obtain ⟨q, hq, hqs, hqF, _, _, hq2⟩ := rewriteModReturnInsts_all Mod retArg
      pass.modReturnInsts pass rfl hW hMod ⟨entry, args, hE, hA⟩ hN hR
    exact ⟨q, hq, hqs, hqF, hq2⟩

/-- C11 amended, on the toy target at the state of the pass over
`returnsWithUnreachableBlock` after the scan, with the return number 1 of the
entry block on the worklist and the return number 2 of the block that no
branch leads to not on it: the loop rewrites the first and leaves the
second. -/
theorem returns_on_worklist_rewritten_witness :
    mapValueStorage returnsWithUnreachableBlockConverted toyModule 10 =
      .ok returnsWithUnreachableBlockScanned ∧
    returnsWithUnreachableBlockScanned.modReturnInsts = [1] ∧
    ReturnsOnWorklist returnsWithUnreachableBlockScanned ∧
    ∃ q, rewriteModReturnInsts returnsWithUnreachableBlockScanned toyModule = .ok q ∧
      List.Forall₂ (ReturnsRewritten returnsWithUnreachableBlockScanned toyModule (.argument 4))
        returnsWithUnreachableBlockScanned.F.blocks q.F.blocks ∧
      q.F.blocks.map (fun BB => BB.instructions.map (fun i => (i.id, i.kind, i.operands))) =
        [[(5, .CopyAddrInst true true, [.argument 3, .argument 4]), (6, .TupleInst, []),
            (7, .ReturnInst, [.instruction 6])],
          [(2, .ReturnInst, [.argument 3])]] := by
  have hR : ReturnsOnWorklist returnsWithUnreachableBlockScanned := by
    intro id hid
    have e : id = 1 := by simpa [returnsWithUnreachableBlockScanned] using hid
    subst e
    exact ⟨⟨0, [⟨4, ⟨BigStruct, .Address⟩, .None, some "$return_value"⟩,
          ⟨3, ⟨BigStruct, .Address⟩, .None, some "x"⟩],
        [⟨1, .ReturnInst, [.argument 3], none, [], 0⟩]⟩, by decide, [],
      ⟨1, .ReturnInst, [.argument 3], none, [], 0⟩, .argument 3, ⟨BigStruct, .Address⟩,
      rfl, rfl, rfl, rfl, by decide, by decide⟩
  obtain ⟨q, hq, _, _, hq2⟩ := (returns_on_worklist_rewritten
    returnsWithUnreachableBlockScanned toyModule 10
    ⟨0, [⟨4, ⟨BigStruct, .Address⟩, .None, some "$return_value"⟩,
        ⟨3, ⟨BigStruct, .Address⟩, .None, some "x"⟩],
      [⟨1, .ReturnInst, [.argument 3], none, [], 0⟩]⟩
    ⟨4, ⟨BigStruct, .Address⟩, .None, some "$return_value"⟩
    [⟨3, ⟨BigStruct, .Address⟩, .None, some "x"⟩]
    ⟨by decide, by decide, by decide⟩ (by decide) rfl rfl (by decide) hR).2.2.2
  have hrun : (rewriteModReturnInsts returnsWithUnreachableBlockScanned toyModule).map
      (fun q => q.F.blocks.map
        (fun BB => BB.instructions.map (fun i => (i.id, i.kind, i.operands)))) =
      .ok [[(5, .CopyAddrInst true true, [.argument 3, .argument 4]), (6, .TupleInst, []),
            (7, .ReturnInst, [.instruction 6])],
          [(2, .ReturnInst, [.argument 3])]] := by decide
  rw [hq] at hrun
  exact ⟨returnsWithUnreachableBlock_scanned, rfl, hR, q, hq, hq2,
    by simpa [Except.map] using hrun⟩

end LoadableByAddress

namespace LoadableByAddress

open LoadableStorageAllocation LargeValueVisitor

/-! ## The steps of the pass as changes of the function -/

theorem StepPolicy.Free.isOpen {P : StepPolicy} (h : P.Free) : P.Open := ⟨h.1, h.2.2⟩

theorem StepPolicy.Free.recent {P : StepPolicy} (h : P.Free) (n : Nat) : P.Recent n :=
  fun _ _ => ⟨h.1 _, h.2.1 _⟩

theorem entryPolicy_free (e : Nat) : (entryPolicy e).Free :=
  ⟨fun _ => trivial, fun _ => trivial, fun _ _ => trivial⟩

theorem SILFunction.Step.ofCreateWith {P : StepPolicy} (hF : P.Free) (F : SILFunction)
    (at_ : InsertionPoint) (kind : SILInstructionKind) (operands : List SILValue)
    (type : Option SILType) (attributes : Nat) :
    SILFunction.Step P F (F.createWith at_ kind operands type [] attributes).2 :=
  .create F at_ kind operands type [] attributes (hF.2.2 _ _) (fun s hs => by cases hs)

theorem SILFunction.Step.ofCreate {P : StepPolicy} (hF : P.Free) (F : SILFunction)
    (at_ : InsertionPoint) (kind : SILInstructionKind) (operands : List SILValue)
    (type : Option SILType) : SILFunction.Step P F (F.create at_ kind operands type).2 :=
  .ofCreateWith hF F at_ kind operands type 0

theorem SILFunction.Step.ofCopy {P : StepPolicy} (hF : P.Free) (F : SILFunction)
    (at_ : InsertionPoint) (src tgt : SILValue) :
    SILFunction.Step P F (createOutlinedCopyCall F at_ src tgt).2 :=
  .ofCreate hF F at_ _ _ _

theorem SILFunction.Step.ofReplace {P : StepPolicy} (hF : P.Free) (F : SILFunction)
    (old new : SILValue) : SILFunction.Step P F (F.replaceAllUsesWith old new) :=
  .replaceAllUsesWith F old new (hF.1 _) (hF.2.1 _)

theorem SILFunction.Step.ofSetOperands {P : StepPolicy} (hF : P.Free) (F : SILFunction)
    (id : Nat) (operands : List SILValue) : SILFunction.Step P F (F.setOperands id operands) :=
  .setOperands F id operands (fun _ _ _ => hF.2.2 _ _) (fun _ _ _ _ _ => Or.inr (hF.2.1 _))

theorem SILFunction.Step.ofSetOperand {P : StepPolicy} (hF : P.Free) (F : SILFunction)
    (id index : Nat) (value : SILValue) :
    SILFunction.Step P F (F.setOperand id index value) :=
  .setOperand F id index value (hF.2.1 _) (fun _ _ _ _ _ => hF.1 _)

theorem SILFunction.Step.ofConvertBBArgType {P : StepPolicy} (hF : P.Free) (F : SILFunction)
    (block index : Nat) (newSILType : SILType) (arg : SILArgument) (hB : P.okBlock block) :
    SILFunction.Step P F (convertBBArgType F block index newSILType arg) := by
  unfold convertBBArgType
  dsimp only
  exact ((SILFunction.Step.fresh F).next
    (.updateBlock _ block (fun BB => BB.setArgument index
      ⟨F.nextId, newSILType, arg.ownership, arg.decl⟩) hB (fun BB => ⟨rfl, rfl⟩))).next
    (.ofReplace hF _ _ _)

/-- The deallocations of a buffer before the exits, as a change of the
function. -/
theorem deallocFold_step {P : StepPolicy} (hF : P.Free) (a : Nat) :
    ∀ (ts : List Nat) (p : StructLoweringState),
      SILFunction.Step P p.F (ts.foldl (fun (p : StructLoweringState) termInst =>
        let created := p.F.create (.before termInst) .DeallocStackInst [.instruction a] none
        { p with F := created.2 }) p).F :=
  fun ts p => (deallocFold_rewrites P (fun _ => hF.2.2 _ _) a ts p).1

/-- A change of the function that may not change the arguments of the block
`e` keeps the signature of the function and, when `e` is the entry block, the
arguments of the entry block. -/
theorem SILFunction.Step.entry {P : StepPolicy} {F G : SILFunction} {e : Nat}
    (h : SILFunction.Step P F G) (hB : ¬ P.okBlock e)
    (hE : F.blocks.head?.map (fun BB => BB.id) = some e) :
    G.loweredType = F.loweredType ∧
    G.blocks.head?.map (fun BB => (BB.id, BB.arguments)) =
      F.blocks.head?.map (fun BB => (BB.id, BB.arguments)) := by
  have ids : ∀ {F G : SILFunction},
      G.blocks.head?.map (fun BB => (BB.id, BB.arguments)) =
        F.blocks.head?.map (fun BB => (BB.id, BB.arguments)) →
      G.blocks.head?.map (fun BB => BB.id) = F.blocks.head?.map (fun BB => BB.id) := by
    intro F G h
    have := congrArg (Option.map Prod.fst) h
    simpa [Option.map_map, Function.comp] using this
  have mapI : ∀ (F : SILFunction) (g : SILBasicBlock → SILBasicBlock),
      (∀ BB, (g BB).id = BB.id ∧ (g BB).arguments = BB.arguments) →
      (F.blocks.map g).head?.map (fun BB => (BB.id, BB.arguments)) =
        F.blocks.head?.map (fun BB => (BB.id, BB.arguments)) := by
    intro F g hg
    cases F.blocks with
    | nil => rfl
    | cons b l => simp [(hg b).1, (hg b).2]
  induction h with
  | same F => exact ⟨rfl, rfl⟩
  | next _ _ ih1 ih2 =>
    obtain ⟨a1, b1⟩ := ih1 hE
    obtain ⟨a2, b2⟩ := ih2 (by rw [ids b1]; exact hE)
    exact ⟨a2.trans a1, b2.trans b1⟩
  | create F at_ kind operands type successors attributes _ _ =>
    cases at_ with
    | before id => exact ⟨rfl, mapI F _ (fun BB => ⟨rfl, rfl⟩)⟩
    | blockEnd b =>
      refine ⟨rfl, mapI F _ (fun BB => ?_)⟩
      split <;> exact ⟨rfl, rfl⟩
  | replaceAllUsesWith F old new _ _ => exact ⟨rfl, mapI F _ (fun BB => ⟨rfl, rfl⟩)⟩
  | setOperand F id index value _ _ => exact ⟨rfl, mapI F _ (fun BB => ⟨rfl, rfl⟩)⟩
  | setOperands F id operands _ _ => exact ⟨rfl, mapI F _ (fun BB => ⟨rfl, rfl⟩)⟩
  | erase F id => exact ⟨rfl, mapI F _ (fun BB => ⟨rfl, rfl⟩)⟩
  | updateBlock F id f hOk hf =>
    refine ⟨rfl, ?_⟩
    unfold SILFunction.updateBlock
    cases hb : F.blocks with
    | nil => rfl
    | cons b l =>
      rw [hb] at hE
      simp only [List.head?_cons, Option.map_some', Option.some.injEq] at hE
      have hne : b.id ≠ id := by
        intro e2
        rw [hE] at e2
        rw [e2] at hB
        exact hB hOk
      simp [hne]
  | fresh F => exact ⟨rfl, rfl⟩

/-! ## The allocation of storage, step by step -/

/-- A loop whose body is a change of the function under the policy is one. -/
theorem forEachM_step {α : Type} (P : StepPolicy)
    (f : α → StructLoweringState → Except Abort StructLoweringState) (l : List α)
    (hf : ∀ a ∈ l, ∀ s s1, s.F.WellFormed → s.F.BranchesOk P → f a s = .ok s1 →
      SILFunction.Step P s.F s1.F)
    (pass q : StructLoweringState) (hW : pass.F.WellFormed) (hK : pass.F.BranchesOk P)
    (h : forEachM f l pass = .ok q) : SILFunction.Step P pass.F q.F :=
  forEachM_inv f (fun s => SILFunction.Step P pass.F s.F) l
    (fun a ha s s1 hs h1 => hs.next (hf a ha s s1 (hs.wellFormed hW) (hs.branchesOk hK) h1))
    pass q (.same _) h

theorem mapReturnInstrs_function (pass : StructLoweringState) :
    (mapReturnInstrs pass).F = pass.F := by
  unfold mapReturnInstrs
  generalize getReversePostOrder pass.F = blocks
  induction blocks generalizing pass with
  | nil => rfl
  | cons BB rest ih =>
    rw [List.foldl_cons, ih]
    split
    · split <;> rfl
    · rfl

theorem mapValueStorage_function {pass q : StructLoweringState} {Mod : IRGenModule}
    {fuel : Nat} (h : mapValueStorage pass Mod fuel = .ok q) : q.F = pass.F := by
  have e : mapValueStorage pass Mod fuel =
      forEachM (fun (currIns : SILInstruction) p1 => visitInstruction p1 Mod fuel currIns)
        pass.F.scannedInstructions pass := by
    unfold mapValueStorage SILFunction.scannedInstructions
    exact forEachM_flatMap _ _ _ _
  rw [e] at h
  exact forEachM_inv _ (fun s => s.F = pass.F) _
    (fun a _ s s1 hs h1 => ((visitInstruction_step h1).1).trans hs) pass q rfl h

theorem convertIndirectFunctionPointerArgsForUnmodifiable_step {P : StepPolicy} (hF : P.Free)
    {pass q : StructLoweringState} {Mod : IRGenModule} {fuel : Nat}
    (hW : pass.F.WellFormed) (hK : pass.F.BranchesOk P)
    (h : convertIndirectFunctionPointerArgsForUnmodifiable pass Mod fuel = .ok q) :
    SILFunction.Step P pass.F q.F := by
  unfold convertIndirectFunctionPointerArgsForUnmodifiable at h
  split at h
  · cases h
  · refine forEachM_step P _ _ ?_ pass q hW hK h
    intro arg _ s s1 _ _ h1
    try dsimp only at h1
    split at h1
    · cases h1
    · rename_i newSILType p1 h2
      have e2 := StructLoweringState.getNewSILType_state h2
      split at h1
      · cases h1
      · rename_i p2 h3
        have e3 := StructLoweringState.containsDifferentFunctionSignature_state h3
        cases h1
        have eF : p2.F = s.F := by rw [e3, e2]
        show SILFunction.Step P s.F (((p2.F.create _ _ _ _).2.replaceAllUsesWith _ _).setOperands
          _ _)
        rw [eF]
        exact ((SILFunction.Step.ofCreate hF _ _ _ _ _).next (.ofReplace hF _ _ _)).next
          (.ofSetOperands hF _ _ _)
      · rename_i p2 h3
        have e3 := StructLoweringState.containsDifferentFunctionSignature_state h3
        cases h1
        have eF : s1.F = s.F := by rw [e3, e2]
        rw [eF]
        exact .same _

theorem allocateForApply_step {P : StepPolicy} (hF : P.Free)
    {pass q : StructLoweringState} {apply alloc : SILInstruction} {type : SILType}
    (h : allocateForApply pass apply type = .ok (alloc, q)) :
    SILFunction.Step P pass.F q.F := by
  unfold allocateForApply at h
  split at h
  · cases h
  · simp only [Except.ok.injEq, Prod.mk.injEq] at h
    obtain ⟨_, h2⟩ := h
    rw [← h2]
    refine SILFunction.Step.next ?_ (deallocFold_step hF _ _ _)
    exact SILFunction.Step.ofCreate hF pass.F _ _ _ _

theorem convertApplyResults_step {P : StepPolicy} (hF : P.Free)
    {pass q : StructLoweringState} {Mod : IRGenModule} {fuel : Nat}
    (hW : pass.F.WellFormed) (hK : pass.F.BranchesOk P)
    (h : convertApplyResults pass Mod fuel = .ok q) :
    SILFunction.Step P pass.F q.F := by
  unfold convertApplyResults at h
  refine forEachM_step P _ _ ?_ pass q hW hK h
  intro id _ s s1 hWs hKs h1
  try dsimp only at h1
  split at h1
  · cases h1
  · rename_i currIns hfind
    split at h1
    · cases h1
      exact .same _
    · split at h1
      · cases h1
      · cases h1
      · cases h1
        exact .same _
      · try dsimp only at h1
        split at h1
        · cases h1
        · cases h1
          exact .same _
        · rename_i Mapper1 _
          try dsimp only at h1
          split at h1
          · cases h1
          · split at h1
            · cases h1
            · cases h1
              exact .same _
          · split at h1
            · cases h1
            · split at h1
              · cases h1
              · rename_i newSILType p2 h4
                have e4 := StructLoweringState.getNewSILType_state h4
                have eF2 : p2.F = s.F := by rw [e4]
                split at h1
                · cases h1
                · rename_i newVal p3 h5
                  have r5 : SILFunction.Step P s.F p3.F := by
                    have := allocateForApply_step (P := P) hF h5
                    rw [eF2] at this
                    exact this
                  split at h1
                  · cases h1
                    exact r5.next (.ofReplace hF _ _ _)
                  · split at h1
                    · cases h1
                    · rename_i normalBB hnb
                      split at h1
                      · cases h1
                        refine r5.next ((SILFunction.Step.ofReplace hF _ _ _).next
                          (.ofConvertBBArgType hF _ _ _ _ _ ?_))
                        -- the block the call branches to
                        obtain ⟨b, hb, hfb⟩ : ∃ b, currIns.successors.head? = some b ∧
                            p3.F.findBlock b = some normalBB := by
                          cases hs : currIns.successors.head? with
                          | none => rw [hs] at hnb; cases hnb
                          | some b => rw [hs] at hnb; exact ⟨b, rfl, hnb⟩
                        have hid : normalBB.id = b := findBlock_id hfb
                        rw [hid]
                        exact hKs currIns (findInstruction_mem hfind) b
                          (List.mem_of_mem_head? hb)
                      · cases h1
                  · cases h1

theorem convertIndirectBasicBlockArgs_step {P : StepPolicy} (hF : P.Free)
    {pass q : StructLoweringState} {Mod : IRGenModule} {fuel : Nat} {e : Nat}
    (hE : pass.F.blocks.head?.map (fun BB => BB.id) = some e)
    (hOk : ∀ b, b ≠ e → P.okBlock b)
    (hW : pass.F.WellFormed) (hK : pass.F.BranchesOk P)
    (h : convertIndirectBasicBlockArgs pass Mod fuel = .ok q) :
    SILFunction.Step P pass.F q.F := by
  unfold convertIndirectBasicBlockArgs at h
  split at h
  · cases h
  · rename_i entry hentry
    have he : entry.id = e := by
      unfold SILFunction.getEntryBlock at hentry
      rw [hentry] at hE
      simpa using hE
    refine forEachM_step P _ _ ?_ pass q hW hK h
    intro BB _ s s1 hWs hKs h1
    try dsimp only at h1
    split at h1
    · cases h1
      exact .same _
    · rename_i hne
      refine forEachM_step P _ _ ?_ s s1 hWs hKs h1
      intro indexed _ t t1 _ _ h2
      try dsimp only at h2
      split at h2
      · cases h2
      · cases h2
        exact .same _
      · split at h2
        · cases h2
        · rename_i newSILType0 p3 h3
          have e3 := StructLoweringState.getNewSILType_state h3
          cases h2
          have eF : p3.F = t.F := by rw [e3]
          show SILFunction.Step P t.F (convertBBArgType p3.F _ _ _ _)
          rw [eF]
          exact .ofConvertBBArgType hF _ _ _ _ _ (hOk _ (by rw [← he]; exact hne))

theorem allocateForArgOfApply_step {P : StepPolicy} (hF : P.Free)
    {pass q : StructLoweringState} {value : SILValue} {allocInstr : Nat}
    (h : allocateForArgOfApply pass value allocInstr = .ok q) :
    SILFunction.Step P pass.F q.F := by
  unfold allocateForArgOfApply at h
  split at h
  · cases h
  · split at h
    · try dsimp only at h
      split at h
      · cases h
      · cases hO : pass.F.hasOwnership <;> simp only [hO, Bool.not_false, Bool.not_true,
          if_true, Bool.false_eq_true, if_false] at h <;> cases h <;>
          exact .ofCreate hF _ _ _ _ _
    · cases h

theorem allocateForArg_step {P : StepPolicy} (hF : P.Free)
    {pass q : StructLoweringState} {value : SILValue}
    (h : allocateForArg pass value = .ok q) :
    SILFunction.Step P pass.F q.F := by
  unfold allocateForArg at h
  try dsimp only at h
  split at h
  · exact allocateForArgOfApply_step hF h
  · split at h
    · cases h
    · split at h
      · cases hO : pass.F.hasOwnership <;> simp only [hO, Bool.not_false, Bool.not_true,
          if_true, Bool.false_eq_true, if_false, Except.ok.injEq] at h <;> rw [← h] <;>
          (refine SILFunction.Step.next ?_ (deallocFold_step hF _ _ _)
           exact ((SILFunction.Step.ofCreate hF _ _ _ _ _).next
            (.ofCopy hF _ _ _ _)).next (.ofCreate hF _ _ _ _ _))
      · cases h

/-- The allocation of storage in a foreign function is a change of the
function that leaves the arguments of the entry block alone. -/
theorem allocateLoadableStorage_step {P : StepPolicy} (hF : P.Free)
    {pass q : StructLoweringState} {Mod : IRGenModule} {fuel : Nat} {e : Nat}
    (hM : modifiableFunction pass.F.getLoweredFunctionType = false)
    (hE : pass.F.blocks.head?.map (fun BB => BB.id) = some e)
    (hB : ¬ P.okBlock e) (hOk : ∀ b, b ≠ e → P.okBlock b)
    (hW : pass.F.WellFormed) (hK : pass.F.BranchesOk P)
    (h : allocateLoadableStorage pass Mod fuel = .ok q) :
    SILFunction.Step P pass.F q.F := by
  unfold allocateLoadableStorage at h
  have e1 := mapReturnInstrs_function pass
  simp only [e1, hM, Bool.false_eq_true, if_false] at h
  split at h
  · cases h
  · rename_i pass2 h2
    have r2 : SILFunction.Step P pass.F pass2.F := by
      have := convertIndirectFunctionPointerArgsForUnmodifiable_step hF
        (by rw [e1]; exact hW) (by rw [e1]; exact hK) h2
      rw [e1] at this
      exact this
    split at h
    · cases h
    · rename_i pass3 h3
      have r3 := r2.next (convertApplyResults_step hF (r2.wellFormed hW) (r2.branchesOk hK) h3)
      split at h
      · cases h
      · rename_i pass4 h4
        have e4 := mapValueStorage_function h4
        split at h
        · cases h
        · rename_i pass5 h5
          have r4 : SILFunction.Step P pass.F pass4.F := by rw [e4]; exact r3
          have hE4 : pass4.F.blocks.head?.map (fun BB => BB.id) = some e := by
            have := (r4.entry hB hE).2
            have := congrArg (Option.map Prod.fst) this
            simp only [Option.map_map, Function.comp] at this
            rw [← hE]
            exact this
          have r5 := r4.next (convertIndirectBasicBlockArgs_step hF hE4 hOk
            (r4.wellFormed hW) (r4.branchesOk hK) h5)
          refine r5.next (forEachM_step P _ _ ?_ pass5 q (r5.wellFormed hW) (r5.branchesOk hK) h)
          intro a _ s s1 _ _ h6
          split at h6
          · cases h6
          · exact allocateForArg_step hF h6

/-! ## The loops of `rewriteFunction` after the first, step by step -/

theorem rewriteInstsToMod_step {P : StepPolicy} (hF : P.Free)
    {pass q : StructLoweringState} (hW : pass.F.WellFormed) (hK : pass.F.BranchesOk P)
    (h : rewriteInstsToMod pass = .ok q) : SILFunction.Step P pass.F q.F := by
  unfold rewriteInstsToMod at h
  refine forEachM_step P _ _ ?_ pass q hW hK h
  intro id _ s s1 _ _ h1
  try dsimp only at h1
  split at h1
  · cases h1
  · split at h1
    · cases h1
    · cases h1
      exact .ofSetOperands hF _ _ _

theorem retypeTupleInstr_step {P : StepPolicy} (hF : P.Free)
    {pass q : StructLoweringState} {Mod : IRGenModule} {fuel id : Nat}
    (h : retypeTupleInstr pass Mod fuel id = .ok q) : SILFunction.Step P pass.F q.F := by
  unfold retypeTupleInstr at h
  repeat' first | split at h | (dsimp only at h; split at h)
  all_goals first
    | (cases h; done)
    | (cases h; exact .same _)
    | (cases h
       exact ((SILFunction.Step.ofCreateWith hF _ _ _ _ _ _).next (.ofReplace hF _ _ _)).next
        (.erase _ _))

theorem rewriteTupleInsts_step {P : StepPolicy} (hF : P.Free)
    {pass q : StructLoweringState} {Mod : IRGenModule} {fuel : Nat}
    (hW : pass.F.WellFormed) (hK : pass.F.BranchesOk P)
    (h : rewriteTupleInsts pass Mod fuel = .ok q) : SILFunction.Step P pass.F q.F := by
  unfold rewriteTupleInsts at h
  exact forEachM_step P _ _ (fun id _ s s1 _ _ h1 => retypeTupleInstr_step hF h1) pass q hW hK h

theorem rewriteAllocStackInsts_step {P : StepPolicy} (hF : P.Free)
    {pass q : StructLoweringState} {Mod : IRGenModule} {fuel : Nat}
    (hW : pass.F.WellFormed) (hK : pass.F.BranchesOk P)
    (h : rewriteAllocStackInsts pass Mod fuel = .ok q) : SILFunction.Step P pass.F q.F := by
  unfold rewriteAllocStackInsts at h
  split at h
  · cases h
  · rename_i pass1 h0
    cases h
    refine forEachM_step P _ _ ?_ pass pass1 hW hK h0
    intro id _ s s1 _ _ h1
    try dsimp only at h1
    split at h1
    · cases h1
    · split at h1
      · cases h1
      · split at h1
        · cases h1
        · rename_i newSILType p1 h3
          obtain ⟨M, rfl⟩ : ∃ M, p1 = { s with Mapper := M } :=
            ⟨_, StructLoweringState.getNewSILType_state h3⟩
          cases h1
          exact ((SILFunction.Step.ofCreateWith hF _ _ _ _ _ _).next (.ofReplace hF _ _ _)).next
            (.erase _ _)

theorem rewritePointerToAddrInsts_step {P : StepPolicy} (hF : P.Free)
    {pass q : StructLoweringState} {Mod : IRGenModule} {fuel : Nat}
    (hW : pass.F.WellFormed) (hK : pass.F.BranchesOk P)
    (h : rewritePointerToAddrInsts pass Mod fuel = .ok q) : SILFunction.Step P pass.F q.F := by
  unfold rewritePointerToAddrInsts at h
  split at h
  · cases h
  · rename_i pass1 h0
    cases h
    refine forEachM_step P _ _ ?_ pass pass1 hW hK h0
    intro id _ s s1 _ _ h1
    try dsimp only at h1
    split at h1
    · cases h1
    · split at h1
      · cases h1
      · split at h1
        · cases h1
        · rename_i newSILType p1 h3
          obtain ⟨M, rfl⟩ : ∃ M, p1 = { s with Mapper := M } :=
            ⟨_, StructLoweringState.getNewSILType_state h3⟩
          cases h1
          exact ((SILFunction.Step.ofCreateWith hF _ _ _ _ _ _).next (.ofReplace hF _ _ _)).next
            (.erase _ _)

theorem rewriteDebugInsts_step {P : StepPolicy} (hF : P.Free)
    {pass q : StructLoweringState} (hW : pass.F.WellFormed) (hK : pass.F.BranchesOk P)
    (h : rewriteDebugInsts pass = .ok q) : SILFunction.Step P pass.F q.F := by
  unfold rewriteDebugInsts at h
  refine forEachM_step P _ _ ?_ pass q hW hK h
  intro id _ s s1 _ _ h1
  repeat' first | split at h1 | (dsimp only at h1; split at h1)
  all_goals first
    | (cases h1; done)
    | (cases h1; exact .ofSetOperands hF _ _ _)
    | (cases h1; exact (SILFunction.Step.ofCreateWith hF _ _ _ _ _ _).next (.erase _ _))

theorem rewriteDestroyValueInsts_step {P : StepPolicy} (hF : P.Free)
    {pass q : StructLoweringState} (hW : pass.F.WellFormed) (hK : pass.F.BranchesOk P)
    (h : rewriteDestroyValueInsts pass = .ok q) : SILFunction.Step P pass.F q.F := by
  unfold rewriteDestroyValueInsts at h
  refine forEachM_step P _ _ ?_ pass q hW hK h
  intro id _ s s1 _ _ h1
  repeat' first | split at h1 | (dsimp only at h1; split at h1)
  all_goals first
    | (cases h1; done)
    | (cases h1; exact (SILFunction.Step.ofCreate hF _ _ _ _ _).next (.erase _ _))

theorem rewriteStoreInsts_step {P : StepPolicy} (hF : P.Free)
    {pass q : StructLoweringState} (hW : pass.F.WellFormed) (hK : pass.F.BranchesOk P)
    (h : rewriteStoreInsts pass = .ok q) : SILFunction.Step P pass.F q.F := by
  unfold rewriteStoreInsts at h
  refine forEachM_step P _ _ ?_ pass q hW hK h
  intro id _ s s1 _ _ h1
  repeat' first | split at h1 | (dsimp only at h1; split at h1)
  all_goals first
    | (cases h1; done)
    | (cases h1; exact (SILFunction.Step.ofCopy hF _ _ _ _).next (.erase _ _))

theorem rewriteRetainReleaseInsts_step {P : StepPolicy} (hF : P.Free)
    {pass q : StructLoweringState} (hW : pass.F.WellFormed) (hK : pass.F.BranchesOk P)
    (h : rewriteRetainReleaseInsts pass = .ok q) : SILFunction.Step P pass.F q.F := by
  unfold rewriteRetainReleaseInsts at h
  split at h
  · cases h
  · rename_i pass1 h0
    have r1 : SILFunction.Step P pass.F pass1.F := by
      refine forEachM_step P _ _ ?_ pass pass1 hW hK h0
      intro id _ s s1 _ _ h1
      try dsimp only at h1
      split at h1
      · cases h1
      · cases h1
        exact (SILFunction.Step.ofCreateWith hF _ _ _ _ _ _).next (.erase _ _)
    refine r1.next (forEachM_step P _ _ ?_ pass1 q (r1.wellFormed hW) (r1.branchesOk hK) h)
    intro id _ s s1 _ _ h1
    try dsimp only at h1
    split at h1
    · cases h1
    · cases h1
      exact (SILFunction.Step.ofCreateWith hF _ _ _ _ _ _).next (.erase _ _)

theorem rewriteResultTyInsts_step {P : StepPolicy} (hF : P.Free)
    {pass q : StructLoweringState} {Mod : IRGenModule} {fuel : Nat}
    (hW : pass.F.WellFormed) (hK : pass.F.BranchesOk P)
    (h : rewriteResultTyInsts pass Mod fuel = .ok q) : SILFunction.Step P pass.F q.F := by
  unfold rewriteResultTyInsts at h
  refine forEachM_step P _ _ ?_ pass q hW hK h
  intro id _ s s1 _ _ h1
  try dsimp only at h1
  split at h1
  · cases h1
  · split at h1
    · cases h1
    · try dsimp only at h1
      split at h1
      · cases h1
      · rename_i newSILType p1 h3
        obtain ⟨M, rfl⟩ : ∃ M, p1 = { s with Mapper := M } :=
          ⟨_, StructLoweringState.getNewSILType_state h3⟩
        split at h1
        · cases h1
        · cases h1
          exact ((SILFunction.Step.ofCreateWith hF _ _ _ _ _ _).next (.ofReplace hF _ _ _)).next
            (.erase _ _)

theorem rewriteMethodInsts_step {P : StepPolicy} (hF : P.Free)
    {pass q : StructLoweringState} {Mod : IRGenModule} {fuel : Nat}
    (hW : pass.F.WellFormed) (hK : pass.F.BranchesOk P)
    (h : rewriteMethodInsts pass Mod fuel = .ok q) : SILFunction.Step P pass.F q.F := by
  unfold rewriteMethodInsts at h
  refine forEachM_step P _ _ ?_ pass q hW hK h
  intro id _ s s1 _ _ h1
  try dsimp only at h1
  split at h1
  · cases h1
  · split at h1
    · cases h1
    · try dsimp only at h1
      split at h1
      · cases h1
      · split at h1
        · cases h1
        · cases h1
          exact ((SILFunction.Step.ofCreateWith hF _ _ _ _ _ _).next (.ofReplace hF _ _ _)).next
            (.erase _ _)

theorem rewriteModReturnInsts_change {P : StepPolicy} (hF : P.Free)
    {pass q : StructLoweringState} {Mod : IRGenModule}
    (hW : pass.F.WellFormed) (hK : pass.F.BranchesOk P)
    (h : rewriteModReturnInsts pass Mod = .ok q) : SILFunction.Step P pass.F q.F := by
  unfold rewriteModReturnInsts at h
  split at h
  · cases h
  · rename_i pass1 h0
    cases h
    refine forEachM_step P _ _ ?_ pass pass1 hW hK h0
    intro id _ s s1 _ _ h1
    repeat' first | split at h1 | (dsimp only at h1; split at h1)
    all_goals first
      | (cases h1; done)
      | (cases h1
         exact (((SILFunction.Step.ofCopy hF _ _ _ _).next
          (.ofCreate hF _ _ _ _ _)).next (.ofCreate hF _ _ _ _ _)).next (.erase _ _))
      | (cases h1
         exact (((SILFunction.Step.ofCreate hF _ _ _ _ _).next
          (.ofCreate hF _ _ _ _ _)).next (.ofCreate hF _ _ _ _ _)).next (.erase _ _))

/-- The rewriting of a function is a change of the function under every policy
that restricts the blocks only, in a function with distinct identities whose
instructions branch to allowed blocks. -/
theorem rewriteFunction_step {P : StepPolicy} (hF : P.Free)
    {pass q : StructLoweringState} {Mod : IRGenModule} {fuel : Nat}
    (hW : pass.F.WellFormed) (hK : pass.F.BranchesOk P)
    (h : rewriteFunction pass Mod fuel = .ok q) : SILFunction.Step P pass.F q.F := by
  unfold rewriteFunction at h
  split at h
  · cases h
  · rename_i p0 h0
    have r0 : SILFunction.Step P pass.F p0.F :=
      (rewriteUntilStable_rewrites P hF.isOpen Mod fuel fuel pass p0 []
        ⟨hW, hF.recent _, hK⟩ h0).1
    split at h
    · cases h
    · rename_i p1 h1
      have r1 := r0.next (rewriteInstsToMod_step hF (r0.wellFormed hW) (r0.branchesOk hK) h1)
      split at h
      · cases h
      · rename_i p2 h2
        have r2 := r1.next (rewriteTupleInsts_step hF (r1.wellFormed hW) (r1.branchesOk hK) h2)
        split at h
        · cases h
        · rename_i p3 h3
          have r3 := r2.next (rewriteAllocStackInsts_step hF (r2.wellFormed hW)
            (r2.branchesOk hK) h3)
          split at h
          · cases h
          · rename_i p4 h4
            have r4 := r3.next (rewritePointerToAddrInsts_step hF (r3.wellFormed hW)
              (r3.branchesOk hK) h4)
            split at h
            · cases h
            · rename_i p5 h5
              have r5 := r4.next (rewriteDebugInsts_step hF (r4.wellFormed hW)
                (r4.branchesOk hK) h5)
              split at h
              · cases h
              · rename_i p6 h6
                have r6 := r5.next (rewriteDestroyValueInsts_step hF (r5.wellFormed hW)
                  (r5.branchesOk hK) h6)
                split at h
                · cases h
                · rename_i p7 h7
                  have r7 := r6.next (rewriteStoreInsts_step hF (r6.wellFormed hW)
                    (r6.branchesOk hK) h7)
                  split at h
                  · cases h
                  · rename_i p8 h8
                    have r8 := r7.next (rewriteRetainReleaseInsts_step hF (r7.wellFormed hW)
                      (r7.branchesOk hK) h8)
                    split at h
                    · cases h
                    · rename_i p9 h9
                      have r9 := r8.next (rewriteResultTyInsts_step hF (r8.wellFormed hW)
                        (r8.branchesOk hK) h9)
                      split at h
                      · cases h
                      · rename_i p10 h10
                        have r10 := r9.next (rewriteMethodInsts_step hF (r9.wellFormed hW)
                          (r9.branchesOk hK) h10)
                        exact r10.next (rewriteModReturnInsts_change hF (r10.wellFormed hW)
                          (r10.branchesOk hK) h)

end LoadableByAddress

namespace LoadableByAddress

/-! ## Foreign functions keep their signature -/

/-- C18: processing a function of the foreign (C) convention whose instruction
and block identities are distinct and in which no instruction branches to the
entry block, whenever `runOnFunction` returns: the signature of the function
is the one it had; the entry block has the arguments it had, as many of them,
each with its identity, type, ownership and declaration, so none is retyped
and no indirect-result argument is inserted; and the module-wide set of
changed functions `modFuncs` is the one before.  Nothing is assumed of the
types of the parameters or of the results, which may be large. -/
theorem runOnFunction_keeps_foreign_signature (T : ModuleTransform) (Mod : IRGenModule)
    (fuel : Nat) (F F2 : SILFunction) (T2 : ModuleTransform)
    (hC : F.getLoweredFunctionType.getLanguage = SILFunctionLanguage.C)
    (hW : F.WellFormed)
    (hK : ∀ entry ∈ F.blocks.head?, ∀ i ∈ F.allInstructions, entry.id ∉ i.successors)
    (h : T.runOnFunction Mod fuel F = .ok (F2, T2)) :
    F2.loweredType = F.loweredType ∧
    F2.blocks.head?.map (fun BB => (BB.id, BB.arguments)) =
      F.blocks.head?.map (fun BB => (BB.id, BB.arguments)) ∧
    T2.modFuncs = T.modFuncs := by
  have hM : modifiableFunction F.getLoweredFunctionType = false := by
    simp [modifiableFunction, hC]
  unfold ModuleTransform.runOnFunction at h
  simp only [hM, Bool.not_false, Bool.false_eq_true, if_true, if_false] at h
  split at h
  · cases h
    exact ⟨rfl, rfl, rfl⟩
  · rename_i hD
    split at h
    · cases h
    · rename_i pass1 h1
      split at h
      · cases h
      · rename_i pass3 h3
        cases h
        refine ⟨?_, ?_, rfl⟩
        all_goals
          cases hBl : F.blocks with
          | nil => exact absurd (by simp [SILFunction.isExternalDeclaration, hBl]) hD
          | cons entry rest =>
            have hE : (StructLoweringState.new F T.MapperCache).F.blocks.head?.map
                (fun BB => BB.id) = some entry.id := by
              show F.blocks.head?.map (fun BB => BB.id) = some entry.id
              rw [hBl]; rfl
            have hB : ¬ (entryPolicy entry.id).okBlock entry.id := fun hne => hne rfl
            have hKe : (StructLoweringState.new F T.MapperCache).F.BranchesOk
                (entryPolicy entry.id) := by
              intro i hi b hb heq
              exact hK entry (by rw [hBl]; rfl) i hi (heq ▸ hb)
            have r1 := allocateLoadableStorage_step
              (entryPolicy_free entry.id) hM hE hB (fun b hb => hb) hW hKe h1
            have r3 := r1.next (rewriteFunction_step (entryPolicy_free entry.id)
              (r1.wellFormed hW) (r1.branchesOk hKe) h3)
            have hfin := r3.entry hB hE
            first
              | exact hfin.1
              | (have h2 := hfin.2
                 rw [show (StructLoweringState.new F T.MapperCache).F.blocks = F.blocks from rfl,
                   hBl] at h2
                 exact h2)

/-- The foreign (C) function `f(x: BigStruct)`, whose parameter is large on the
toy target, goes through `runOnFunction` started on the empty pass object: the
run returns, the function keeps its signature and its entry argument `x` of
type `BigStruct`, and the set of changed functions stays empty. -/
theorem runOnFunction_keeps_foreign_signature_witness :
    foreignTakesBig.getLoweredFunctionType.getLanguage = SILFunctionLanguage.C ∧
    isLargeLoadableType none ⟨BigStruct, .Object⟩ toyModule = .ok true ∧
    foreignTakesBig.WellFormed ∧
    ∃ F2 T2, ModuleTransform.new.runOnFunction toyModule 1000 foreignTakesBig = .ok (F2, T2) ∧
      F2.loweredType = foreignTakesBig.loweredType ∧
      F2.blocks.head?.map (fun BB => (BB.id, BB.arguments)) =
        some (0, [⟨0, ⟨BigStruct, .Object⟩, .Unowned, some "x"⟩]) ∧
      T2.modFuncs = [] := by
  have hm : ((ModuleTransform.new.runOnFunction toyModule 1000 foreignTakesBig).map
      (fun r => r.1)).toBool = true := by decide
  cases hrun : ModuleTransform.new.runOnFunction toyModule 1000 foreignTakesBig with
  | error e => rw [hrun] at hm; cases hm
  | ok r =>
    exact ⟨by decide, by decide, ⟨by decide, by decide, by decide⟩, r.1, r.2, rfl,
      runOnFunction_keeps_foreign_signature ModuleTransform.new toyModule 1000 foreignTakesBig
        r.1 r.2 (by decide) ⟨by decide, by decide, by decide⟩ (by decide) hrun⟩

end LoadableByAddress

namespace LoadableByAddress

open LoadableStorageAllocation LargeValueVisitor

/-! ## The bindings of the converted values through the pass -/

theorem mapVectorFind_assign (m : List (SILValue × SILValue)) (key value key2 : SILValue) :
    mapVectorFind (mapVectorAssign m key value) key2 =
      if key = key2 then some value else mapVectorFind m key2 := by
  induction m with
  | nil =>
    simp only [mapVectorAssign, mapVectorFind]
  | cons kv rest ih =>
    obtain ⟨k, v⟩ := kv
    simp only [mapVectorAssign]
    by_cases hk : k = key
    · subst hk
      by_cases hk2 : k = key2 <;> simp [mapVectorFind, hk2]
    · simp only [hk, if_false, mapVectorFind, ih]
      by_cases hk2 : k = key2
      · subst hk2
        have : ¬ key = k := fun e => hk e.symm
        simp only [if_true, this, if_false]
      · simp only [hk2, if_false]

theorem freshPolicy_open (n : Nat) : (freshPolicy n).Open :=
  ⟨fun _ => trivial, fun _ _ => trivial⟩

theorem freshPolicy_recent {n m : Nat} (h : n ≤ m) : (freshPolicy n).Recent m :=
  fun k hk => ⟨trivial, k, Nat.le_trans h hk, Or.inl rfl⟩

theorem freshPolicy_branchesOk (n : Nat) (F : SILFunction) : F.BranchesOk (freshPolicy n) :=
  fun _ _ _ _ => trivial

theorem ValuesBelow.not_new {n : Nat} {values : List SILValue} (h : ValuesBelow n values)
    {v : SILValue} (hv : (freshPolicy n).okNew v) : v ∉ values := by
  obtain ⟨k, hk, e | e⟩ := hv
  · rw [e]; exact (h k hk).1
  · rw [e]; exact (h k hk).2

theorem ValuesBelow.above {n m : Nat} {values : List SILValue} (h : ValuesBelow n values)
    (hnm : n ≤ m) : ValuesBelow m values :=
  fun k hk => h k (Nat.le_trans hnm hk)

/-- A change of the function that puts in fresh values only keeps the
converted operands of the instructions on the worklist among the keys. -/
theorem SILFunction.Step.covered {n : Nat} {F G : SILFunction}
    {worklist : List Nat} {converted : List SILValue} {bindings : List (SILValue × SILValue)}
    (h : SILFunction.Step (freshPolicy n) F G) (hB : ValuesBelow n converted)
    (hL : ∀ id ∈ worklist, id < n) :
    n ≤ F.nextId → F.OperandsCovered worklist converted bindings →
      G.OperandsCovered worklist converted bindings := by
  induction h with
  | same F => exact fun _ hC => hC
  | next h1 _ ih1 ih2 => exact fun hn hC => ih2 (Nat.le_trans hn h1.nextId_le) (ih1 hn hC)
  | create F at_ kind operands type successors attributes _ _ =>
    intro hn hC i hi hid
    have hi2 : i ∈ (F.insert at_ ⟨F.nextId, kind, operands, type, successors,
        attributes⟩).allInstructions := hi
    rcases mem_allInstructions_insert hi2 with e | e
    · rw [e] at hid
      exact absurd (hL _ hid) (Nat.not_lt.2 hn)
    · exact hC i e hid
  | replaceAllUsesWith F old new _ hN =>
    intro _ hC i hi hid operand hop hconv
    rw [allInstructions_replaceAllUsesWith] at hi
    obtain ⟨j, hj, rfl⟩ := List.mem_map.1 hi
    obtain ⟨v, hv, rfl⟩ := List.mem_map.1 hop
    by_cases e : v = old
    · rw [if_pos e] at hconv
      exact absurd hconv (hB.not_new hN)
    · rw [if_neg e] at hconv ⊢
      exact hC j hj hid v hv hconv
  | setOperand F id index value hN _ =>
    intro _ hC i hi hid operand hop hconv
    rw [allInstructions_setOperand] at hi
    obtain ⟨j, hj, rfl⟩ := List.mem_map.1 hi
    by_cases e : j.id = id
    · simp only [e, if_true] at hop hid
      rcases List.mem_or_eq_of_mem_set hop with h1 | h1
      · exact hC j hj (by rw [e]; exact hid) operand h1 hconv
      · rw [h1] at hconv
        exact absurd hconv (hB.not_new hN)
    · simp only [e, if_false] at hop hid
      exact hC j hj hid operand hop hconv
  | setOperands F id operands _ hN =>
    intro _ hC i hi hid operand hop hconv
    rw [allInstructions_setOperands] at hi
    obtain ⟨j, hj, rfl⟩ := List.mem_map.1 hi
    by_cases e : j.id = id
    · simp only [e, if_true] at hop hid
      rcases hN j hj e operand hop with h1 | h1
      · exact hC j hj (by rw [e]; exact hid) operand h1 hconv
      · exact absurd hconv (hB.not_new h1)
    · simp only [e, if_false] at hop hid
      exact hC j hj hid operand hop hconv
  | erase F id =>
    intro _ hC i hi
    rw [allInstructions_erase] at hi
    exact hC i (List.mem_of_mem_filter hi)
  | updateBlock F id f _ hf =>
    intro _ hC i hi
    rw [allInstructions_updateBlock F id f hf] at hi
    exact hC i hi
  | fresh F => exact fun _ hC => hC

/-! ## The scan and the bindings -/

theorem StructLoweringState.bindings_of_mapper_eq {p q : StructLoweringState}
    (h : q = { p with Mapper := q.Mapper }) : q.bindings = p.bindings := by
  rw [h]
  rfl

theorem visitInstr_fold_bindings (id : Nat) :
    ∀ (operands : List SILValue) (p p1 : StructLoweringState), p1.bindings = p.bindings →
      (operands.foldl (fun (p : StructLoweringState) operand =>
        if operand ∈ p.largeLoadableArgs then
          { p with instsToMod := p.instsToMod ++ [id],
                   argsToLoadedValueMap := mapVectorAssign p.argsToLoadedValueMap operand operand }
        else p) p1).bindings =
      (operands.foldl (fun (p : StructLoweringState) operand =>
        if operand ∈ p.largeLoadableArgs then
          { p with instsToMod := p.instsToMod ++ [id],
                   argsToLoadedValueMap := mapVectorAssign p.argsToLoadedValueMap operand operand }
        else p) p).bindings
  | [], _, _, h => h
  | operand :: rest, p, p1, h => by
    simp only [List.foldl_cons]
    apply visitInstr_fold_bindings id rest
    have h2 := h
    unfold StructLoweringState.bindings at h2
    simp only [Prod.mk.injEq] at h2
    obtain ⟨hF, hL, hI, hM⟩ := h2
    by_cases hm : operand ∈ p.largeLoadableArgs
    · rw [if_pos hm, if_pos (by rw [hL]; exact hm)]
      unfold StructLoweringState.bindings
      simp only [hF, hL, hI, hM]
    · rw [if_neg hm, if_neg (by rw [hL]; exact hm)]
      exact h

theorem visitInstr_bindings_congr {p p1 : StructLoweringState} (h : p1.bindings = p.bindings)
    (instr : SILInstruction) : (visitInstr p1 instr).bindings = (visitInstr p instr).bindings :=
  visitInstr_fold_bindings instr.id instr.operands p p1 h

/-- What `visitInstr` does to the bindings: the function and the converted
values stay, the worklist gets the identity of the instruction only, the keys
of the map stay keys, and every converted operand of the instruction becomes a
key. -/
theorem visitInstr_fold_covers (id : Nat) :
    ∀ (operands : List SILValue) (p : StructLoweringState),
      (operands.foldl (fun (p : StructLoweringState) operand =>
        if operand ∈ p.largeLoadableArgs then
          { p with instsToMod := p.instsToMod ++ [id],
                   argsToLoadedValueMap := mapVectorAssign p.argsToLoadedValueMap operand operand }
        else p) p).F = p.F ∧
      (operands.foldl (fun (p : StructLoweringState) operand =>
        if operand ∈ p.largeLoadableArgs then
          { p with instsToMod := p.instsToMod ++ [id],
                   argsToLoadedValueMap := mapVectorAssign p.argsToLoadedValueMap operand operand }
        else p) p).largeLoadableArgs = p.largeLoadableArgs ∧
      (∀ x ∈ (operands.foldl (fun (p : StructLoweringState) operand =>
        if operand ∈ p.largeLoadableArgs then
          { p with instsToMod := p.instsToMod ++ [id],
                   argsToLoadedValueMap := mapVectorAssign p.argsToLoadedValueMap operand operand }
        else p) p).instsToMod, x ∈ p.instsToMod ∨ x = id) ∧
      (∀ key, (mapVectorFind p.argsToLoadedValueMap key).isSome = true →
        (mapVectorFind (operands.foldl (fun (p : StructLoweringState) operand =>
        if operand ∈ p.largeLoadableArgs then
          { p with instsToMod := p.instsToMod ++ [id],
                   argsToLoadedValueMap := mapVectorAssign p.argsToLoadedValueMap operand operand }
        else p) p).argsToLoadedValueMap key).isSome = true) ∧
      (∀ operand ∈ operands, operand ∈ p.largeLoadableArgs →
        (mapVectorFind (operands.foldl (fun (p : StructLoweringState) operand =>
        if operand ∈ p.largeLoadableArgs then
          { p with instsToMod := p.instsToMod ++ [id],
                   argsToLoadedValueMap := mapVectorAssign p.argsToLoadedValueMap operand operand }
        else p) p).argsToLoadedValueMap operand).isSome = true)
  | [], p => ⟨rfl, rfl, fun _ hx => Or.inl hx, fun _ hk => hk, fun _ ho => by cases ho⟩
  | operand :: rest, p => by
    simp only [List.foldl_cons]
    by_cases hm : operand ∈ p.largeLoadableArgs
    · rw [if_pos hm]
      obtain ⟨h1, h2, h3, h4, h5⟩ := visitInstr_fold_covers id rest
        { p with instsToMod := p.instsToMod ++ [id],
                 argsToLoadedValueMap := mapVectorAssign p.argsToLoadedValueMap operand operand }
      refine ⟨h1, h2, ?_, ?_, ?_⟩
      · intro x hx
        rcases h3 x hx with e | e
        · rcases List.mem_append.1 e with e2 | e2
          · exact Or.inl e2
          · exact Or.inr (by simpa using e2)
        · exact Or.inr e
      · intro key hk
        apply h4
        show (mapVectorFind (mapVectorAssign p.argsToLoadedValueMap operand operand) key).isSome
          = true
        rw [mapVectorFind_assign]
        split
        · rfl
        · exact hk
      · intro op hop hconv
        rcases List.mem_cons.1 hop with e | e
        · apply h4
          show (mapVectorFind (mapVectorAssign p.argsToLoadedValueMap operand operand) op).isSome
            = true
          rw [mapVectorFind_assign, e, if_pos rfl]
          rfl
        · exact h5 op e hconv
    · rw [if_neg hm]
      obtain ⟨h1, h2, h3, h4, h5⟩ := visitInstr_fold_covers id rest p
      refine ⟨h1, h2, h3, h4, ?_⟩
      intro op hop hconv
      rcases List.mem_cons.1 hop with e | e
      · rw [e] at hconv
        exact absurd hconv hm
      · exact h5 op e hconv

theorem visitApply_bindings {pass pass2 : StructLoweringState} {Mod : IRGenModule}
    {fuel : Nat} {instr : SILInstruction}
    (h : visitApply pass Mod fuel instr = .ok pass2) :
    pass2.bindings = pass.bindings ∨ pass2.bindings = (visitInstr pass instr).bindings := by
  unfold visitApply at h
  split at h
  · cases h
  · cases h
  · cases h
    exact Or.inr rfl
  · rename_i substCalleeType hmod hsct
    have key1 : ∀ b pass1, anyElem (fun (operand : Nat × SILValue) (p : StructLoweringState) =>
        let currOperand := operand.2
        match p.F.getType currOperand with
        | none => .error .assertion
        | some silType =>
          match p.getNewSILType Mod fuel substCalleeType silType with
          | .error e => .error e
          | .ok (newSilType, p1) =>
            .ok (decide (silType ≠ newSilType) || decide (currOperand ∈ p1.largeLoadableArgs)
              || decide (currOperand ∈ p1.funcSigArgs), p1))
        instr.getArgumentOperands pass = .ok (b, pass1) →
        pass1 = { pass with Mapper := pass1.Mapper } := by
      intro b pass1 hk
      refine anyElem_state _ ?_ _ _ _ _ hk
      intro operand p b1 p1 h1
      dsimp only at h1
      split at h1
      · cases h1
      · split at h1
        · cases h1
        · rename_i h3
          have e3 := StructLoweringState.getNewSILType_state h3
          cases h1
          exact e3
    have key2 : ∀ b pass1 pass3, anyElem (fun (oldYieldType : SILType)
        (p : StructLoweringState) =>
        match p.getNewSILType Mod fuel substCalleeType oldYieldType with
        | .error e => .error e
        | .ok (newYieldType, p1) => .ok (decide (oldYieldType ≠ newYieldType), p1))
        (getYieldedValueTypes substCalleeType) pass1 = .ok (b, pass3) →
        pass3 = { pass1 with Mapper := pass3.Mapper } := by
      intro b pass1 pass3 hk
      refine anyElem_state _ ?_ _ _ _ _ hk
      intro operand p b1 p1 h1
      try dsimp only at h1
      split at h1
      · cases h1
      · rename_i h3
        have e3 := StructLoweringState.getNewSILType_state h3
        cases h1
        exact e3
    split at h
    · cases h
    · rename_i pass1 h1
      have b1 := StructLoweringState.bindings_of_mapper_eq (key1 _ _ h1)
      cases h
      exact Or.inl b1
    · rename_i pass1 h1
      have b1 := StructLoweringState.bindings_of_mapper_eq (key1 _ _ h1)
      split at h
      · split at h
        · cases h
        · rename_i pass3 h3
          have b3 := StructLoweringState.bindings_of_mapper_eq (key2 _ _ _ h3)
          cases h
          exact Or.inl (b3.trans b1)
        · rename_i pass3 h3
          have b3 := StructLoweringState.bindings_of_mapper_eq (key2 _ _ _ h3)
          cases h
          exact Or.inl (b3.trans b1)
      · dsimp only at h
        split at h
        · cases h
        · rename_i newType pass3 h3
          have b3 := StructLoweringState.bindings_of_mapper_eq
            (StructLoweringState.getNewSILType_state h3)
          split at h
          · cases h
          · split at h
            · cases h
              exact Or.inl (b3.trans b1)
            · try dsimp only at h
              split at h
              · cases h
              · split at h <;> cases h <;> exact Or.inl (b3.trans b1)

theorem visitMethodInst_bindings {pass pass2 : StructLoweringState} {Mod : IRGenModule}
    {fuel : Nat} {instr : SILInstruction}
    (h : visitMethodInst pass Mod fuel instr = .ok pass2) :
    pass2.bindings = pass.bindings ∨ pass2.bindings = (visitInstr pass instr).bindings := by
  unfold visitMethodInst at h
  split at h
  · cases h
    exact Or.inr rfl
  · repeat' first | split at h | (dsimp only at h; split at h)
    all_goals first
      | (cases h; done)
      | (cases h; exact Or.inl rfl)

theorem visitStructExtractInst_bindings {pass pass2 : StructLoweringState}
    {instr : SILInstruction} (h : visitStructExtractInst pass instr = .ok pass2) :
    pass2.bindings = pass.bindings := by
  unfold visitStructExtractInst at h
  split at h
  · split at h <;> cases h <;> rfl
  · cases h

theorem visitResultTyInst_bindings {pass pass2 : StructLoweringState} {Mod : IRGenModule}
    {fuel : Nat} {instr : SILInstruction}
    (h : visitResultTyInst pass Mod fuel instr = .ok pass2) :
    pass2.bindings = pass.bindings ∨ pass2.bindings = (visitInstr pass instr).bindings := by
  unfold visitResultTyInst at h
  cases hty : instr.type with
  | none => rw [hty] at h; cases h
  | some type =>
    rw [hty] at h
    simp only at h
    cases h1 : pass.getNewSILType Mod fuel pass.F.getLoweredFunctionType type.getObjectType with
    | error e => rw [h1] at h; cases h
    | ok r =>
      obtain ⟨newSILType, pass1⟩ := r
      rw [h1] at h
      simp only at h
      have b1 := StructLoweringState.bindings_of_mapper_eq
        (StructLoweringState.getNewSILType_state h1)
      have hs : (if type.getObjectType ≠ newSILType then
            { pass1 with resultTyInstsToMod := setVectorInsert pass1.resultTyInstsToMod instr.id }
          else pass1).bindings = pass.bindings := by
        split
        · exact b1
        · exact b1
      split at h
      · exact Or.inl ((visitStructExtractInst_bindings h).trans hs)
      · cases h
        exact Or.inr (visitInstr_bindings_congr hs instr)

theorem visitStoreInst_bindings {pass pass2 : StructLoweringState} {instr : SILInstruction}
    (h : visitStoreInst pass instr = .ok pass2) : pass2.bindings = pass.bindings := by
  unfold visitStoreInst at h
  split at h
  · split at h <;> cases h <;> rfl
  · cases h

theorem visitSwitchEnumInst_bindings {pass pass2 : StructLoweringState} {Mod : IRGenModule}
    {fuel : Nat} {instr : SILInstruction}
    (h : visitSwitchEnumInst pass Mod fuel instr = .ok pass2) :
    pass2.bindings = pass.bindings := by
  unfold visitSwitchEnumInst at h
  split at h
  · cases h
  · split at h
    · cases h
      rfl
    · have key : ∀ b pass1, anyElem (fun (currBB : Nat) (p : StructLoweringState) =>
          match p.F.findBlock currBB with
          | none => .error .assertion
          | some BB =>
            anyElem (fun (arg : SILArgument) (p1 : StructLoweringState) =>
              match p1.Mapper.shouldConvertBBArg Mod fuel p1.F arg with
              | .error e => .error e
              | .ok (false, Mapper1) => .ok (false, { p1 with Mapper := Mapper1 })
              | .ok (true, Mapper1) =>
                let p2 := { p1 with Mapper := Mapper1 }
                let storageType := arg.type
                match p2.getNewSILType Mod fuel p2.F.getLoweredFunctionType storageType with
                | .error e => .error e
                | .ok (newSILType, p3) => .ok (newSILType.isAddress, p3))
              BB.arguments p)
          instr.getCaseDestinations pass = .ok (b, pass1) →
          pass1 = { pass with Mapper := pass1.Mapper } := by
        intro b pass1 hk
        refine anyElem_state _ ?_ _ _ _ _ hk
        intro currBB p b1 p1 h1
        simp only at h1
        split at h1
        · cases h1
        · refine anyElem_state _ ?_ _ _ _ _ h1
          intro arg q b2 q1 h2
          simp only at h2
          split at h2
          · cases h2
          · cases h2; rfl
          · split at h2
            · cases h2
            · rename_i h3
              have e3 := StructLoweringState.getNewSILType_state h3
              cases h2
              rw [e3]
      split at h
      · cases h
      · rename_i pass1 h1
        have b1 := StructLoweringState.bindings_of_mapper_eq (key _ _ h1)
        cases h
        exact b1
      · rename_i pass1 h1
        have b1 := StructLoweringState.bindings_of_mapper_eq (key _ _ h1)
        cases h
        exact b1

theorem visitTupleInst_bindings {pass pass2 : StructLoweringState} {Mod : IRGenModule}
    {fuel : Nat} {instr : SILInstruction}
    (h : visitTupleInst pass Mod fuel instr = .ok pass2) :
    pass2.bindings = (visitInstr pass instr).bindings := by
  unfold visitTupleInst at h
  cases hty : instr.type with
  | none => rw [hty] at h; cases h
  | some type =>
    rw [hty] at h
    simp only at h
    cases hfn : getInnerFunctionType type.getObjectType with
    | none =>
      rw [hfn] at h
      cases h
      rfl
    | some funcType =>
      rw [hfn] at h
      simp only at h
      split at h
      · cases h
      · cases h
        refine visitInstr_bindings_congr ?_ instr
        split <;> rfl

theorem visitAllocStackInst_bindings {pass pass2 : StructLoweringState} {Mod : IRGenModule}
    {fuel : Nat} {instr : SILInstruction}
    (h : visitAllocStackInst pass Mod fuel instr = .ok pass2) :
    pass2.bindings = pass.bindings := by
  unfold visitAllocStackInst at h
  cases hty : instr.type with
  | none => rw [hty] at h; cases h
  | some type =>
    rw [hty] at h
    simp only at h
    split at h
    · cases h
    · rename_i pass1 h1
      have b1 := StructLoweringState.bindings_of_mapper_eq
        (StructLoweringState.containsDifferentFunctionSignature_state h1)
      cases h
      exact b1
    · rename_i pass1 h1
      have b1 := StructLoweringState.bindings_of_mapper_eq
        (StructLoweringState.containsDifferentFunctionSignature_state h1)
      cases h
      exact b1

theorem visitPointerToAddressInst_bindings {pass pass2 : StructLoweringState}
    {instr : SILInstruction} (h : visitPointerToAddressInst pass instr = .ok pass2) :
    pass2.bindings = pass.bindings := by
  unfold visitPointerToAddressInst at h
  split at h
  · cases h
  · dsimp only at h
    split at h <;> cases h <;> rfl

theorem visitReturnInst_bindings {pass pass2 : StructLoweringState} {Mod : IRGenModule}
    {fuel : Nat} {instr : SILInstruction}
    (h : visitReturnInst pass Mod fuel instr = .ok pass2) :
    pass2.bindings = pass.bindings ∨ pass2.bindings = (visitInstr pass instr).bindings := by
  unfold visitReturnInst at h
  split at h
  · cases h
  · cases h
    refine Or.inr (visitInstr_bindings_congr ?_ instr)
    rfl
  · try dsimp only at h
    split at h
    · cases h
    · cases h
      exact Or.inl rfl
    · cases h
      exact Or.inl rfl

theorem visitYieldInst_bindings {pass pass2 : StructLoweringState} {Mod : IRGenModule}
    {fuel : Nat} {instr : SILInstruction}
    (h : visitYieldInst pass Mod fuel instr = .ok pass2) :
    pass2.bindings = pass.bindings ∨ pass2.bindings = (visitInstr pass instr).bindings := by
  unfold visitYieldInst at h
  split at h
  · cases h
  · cases h
    refine Or.inr (visitInstr_bindings_congr ?_ instr)
    rfl
  · cases h
    exact Or.inl rfl

theorem visitDeallocInst_bindings {pass pass2 : StructLoweringState} {instr : SILInstruction}
    (h : visitDeallocInst pass instr = .ok pass2) : pass2.bindings = pass.bindings := by
  have e : pass2 = pass := by
    unfold visitDeallocInst at h
    repeat' split at h
    all_goals first
      | cases h; rfl
      | cases h
  rw [e]

theorem foldl_bindings {α : Type} (f : StructLoweringState → α → StructLoweringState)
    (hf : ∀ p v, (f p v).bindings = p.bindings) :
    ∀ (l : List α) (p : StructLoweringState), (l.foldl f p).bindings = p.bindings
  | [], _ => rfl
  | v :: l, p => by
    rw [List.foldl_cons, foldl_bindings f hf l, hf]

/-- One visit of the scan either leaves the bindings, the worklist of the
instructions with a converted operand, the converted values and the function
as they are, or does to them what `visitInstr` does. -/
theorem visitInstruction_bindings {pass pass2 : StructLoweringState} {Mod : IRGenModule}
    {fuel : Nat} {instr : SILInstruction}
    (h : visitInstruction pass Mod fuel instr = .ok pass2) :
    pass2.bindings = pass.bindings ∨ pass2.bindings = (visitInstr pass instr).bindings := by
  unfold visitInstruction at h
  split at h
  all_goals first
    | exact visitApply_bindings h
    | exact visitMethodInst_bindings h
    | exact visitResultTyInst_bindings h
    | exact Or.inl (visitStoreInst_bindings h)
    | exact Or.inl (visitSwitchEnumInst_bindings h)
    | exact Or.inr (visitTupleInst_bindings h)
    | exact Or.inl (visitAllocStackInst_bindings h)
    | exact Or.inl (visitPointerToAddressInst_bindings h)
    | exact visitReturnInst_bindings h
    | exact visitYieldInst_bindings h
    | exact Or.inl (visitDeallocInst_bindings h)
    | (cases h; left; unfold visitRetainInst; split <;> rfl)
    | (cases h; left; unfold visitReleaseInst; split <;> rfl)
    | (cases h; left; unfold visitDebugValueInst
       exact foldl_bindings _ (fun p v => by split <;> rfl) _ _)
    | (cases h; left; unfold visitDestroyValueInst
       exact foldl_bindings _ (fun p v => by split <;> rfl) _ _)
    | (cases h; exact Or.inr rfl)

theorem mem_getReversePostOrder {F : SILFunction} {BB : SILBasicBlock}
    (h : BB ∈ getReversePostOrder F) : BB ∈ F.blocks := by
  unfold getReversePostOrder at h
  split at h
  · cases h
  · obtain ⟨b, _, hb⟩ := List.mem_filterMap.1 h
    unfold SILFunction.findBlock at hb
    exact List.mem_of_find?_eq_some hb

/-- One visit of the scan keeps the converted operands of the instructions on
the worklist among the keys. -/
theorem visitInstruction_covered {F : SILFunction} {converted : List SILValue}
    {s s1 : StructLoweringState} {Mod : IRGenModule} {fuel : Nat} {instr : SILInstruction}
    (hW : F.WellFormed) (hi : instr ∈ F.allInstructions)
    (hI : s.F = F ∧ s.largeLoadableArgs = converted ∧
      F.OperandsCovered s.instsToMod converted s.argsToLoadedValueMap ∧
      ∀ id ∈ s.instsToMod, id < F.nextId)
    (h : visitInstruction s Mod fuel instr = .ok s1) :
    s1.F = F ∧ s1.largeLoadableArgs = converted ∧
      F.OperandsCovered s1.instsToMod converted s1.argsToLoadedValueMap ∧
      ∀ id ∈ s1.instsToMod, id < F.nextId := by
  obtain ⟨hF, hL, hC, hB⟩ := hI
  rcases visitInstruction_bindings h with e | e
  · unfold StructLoweringState.bindings at e
    simp only [Prod.mk.injEq] at e
    obtain ⟨e1, e2, e3, e4⟩ := e
    rw [e1, e2, e3, e4]
    exact ⟨hF, hL, hC, hB⟩
  · unfold StructLoweringState.bindings at e
    simp only [Prod.mk.injEq] at e
    obtain ⟨e1, e2, e3, e4⟩ := e
    obtain ⟨c1, c2, c3, c4, c5⟩ := visitInstr_fold_covers instr.id instr.operands s
    have v1 : (visitInstr s instr).F = s.F := c1
    have v2 : (visitInstr s instr).largeLoadableArgs = s.largeLoadableArgs := c2
    have v3 : ∀ x ∈ (visitInstr s instr).instsToMod, x ∈ s.instsToMod ∨ x = instr.id := c3
    have v4 : ∀ key, (mapVectorFind s.argsToLoadedValueMap key).isSome = true →
        (mapVectorFind (visitInstr s instr).argsToLoadedValueMap key).isSome = true := c4
    have v5 : ∀ operand ∈ instr.operands, operand ∈ s.largeLoadableArgs →
        (mapVectorFind (visitInstr s instr).argsToLoadedValueMap operand).isSome = true := c5
    rw [e1, e2, e3, e4, v1, v2]
    refine ⟨hF, hL, ?_, ?_⟩
    · intro i hiF hid operand hop hconv
      rcases v3 _ hid with x | x
      · exact v4 _ (hC i hiF x operand hop hconv)
      · have : i = instr := hW.eq_of_id hiF hi x
        rw [this] at hop
        exact v5 operand hop (by rw [hL]; exact hconv)
    · intro id hid
      rcases v3 _ hid with x | x
      · exact hB id x
      · rw [x]
        exact hW.2.1 instr hi

/-- The scan `mapValueStorage` leaves the function and the converted values as
they are, and after it every converted operand of an instruction on the
worklist `instsToMod` is a key of the map. -/
theorem mapValueStorage_covered {pass q : StructLoweringState} {Mod : IRGenModule}
    {fuel : Nat} (hW : pass.F.WellFormed)
    (hC : pass.F.OperandsCovered pass.instsToMod pass.largeLoadableArgs
      pass.argsToLoadedValueMap)
    (hB : ∀ id ∈ pass.instsToMod, id < pass.F.nextId)
    (h : mapValueStorage pass Mod fuel = .ok q) :
    q.F = pass.F ∧ q.largeLoadableArgs = pass.largeLoadableArgs ∧
      pass.F.OperandsCovered q.instsToMod pass.largeLoadableArgs q.argsToLoadedValueMap ∧
      ∀ id ∈ q.instsToMod, id < pass.F.nextId := by
  unfold mapValueStorage at h
  refine forEachM_inv _ (fun s => s.F = pass.F ∧ s.largeLoadableArgs = pass.largeLoadableArgs ∧
      pass.F.OperandsCovered s.instsToMod pass.largeLoadableArgs s.argsToLoadedValueMap ∧
      ∀ id ∈ s.instsToMod, id < pass.F.nextId) _ ?_ pass q ⟨rfl, rfl, hC, hB⟩ h
  intro BB hBB s s1 hI h1
  refine forEachM_inv _ (fun s => s.F = pass.F ∧ s.largeLoadableArgs = pass.largeLoadableArgs ∧
      pass.F.OperandsCovered s.instsToMod pass.largeLoadableArgs s.argsToLoadedValueMap ∧
      ∀ id ∈ s.instsToMod, id < pass.F.nextId) _ ?_ s s1 hI h1
  intro instr hinstr t t1 hT h2
  refine visitInstruction_covered hW ?_ hT h2
  unfold SILFunction.allInstructions
  exact List.mem_flatMap.2 ⟨BB, mem_getReversePostOrder hBB, hinstr⟩

/-! ## The steps between the scan and the rewriting -/

theorem SILFunction.Step.ofCreateFresh {n : Nat} (F : SILFunction) (at_ : InsertionPoint)
    (kind : SILInstructionKind) (operands : List SILValue) (type : Option SILType) :
    SILFunction.Step (freshPolicy n) F (F.create at_ kind operands type).2 :=
  .create F at_ kind operands type [] 0 trivial (fun s hs => by cases hs)

theorem SILFunction.Step.ofConvertBBArgTypeFresh {n : Nat} (F : SILFunction)
    (block index : Nat) (newSILType : SILType) (arg : SILArgument) (hn : n ≤ F.nextId) :
    SILFunction.Step (freshPolicy n) F (convertBBArgType F block index newSILType arg) := by
  unfold convertBBArgType
  dsimp only
  exact ((SILFunction.Step.fresh F).next
    (.updateBlock _ block (fun BB => BB.setArgument index
      ⟨F.nextId, newSILType, arg.ownership, arg.decl⟩) trivial (fun BB => ⟨rfl, rfl⟩))).next
    (.replaceAllUsesWith _ _ _ trivial ⟨F.nextId, hn, Or.inr rfl⟩)

/-- The conversion of the block arguments after the scan redirects uses to
new block arguments only, and leaves the converted values, the bindings and
the worklist as they are. -/
theorem convertIndirectBasicBlockArgs_rewrites {n : Nat} {pass q : StructLoweringState}
    {Mod : IRGenModule} {fuel : Nat} (hn : n ≤ pass.F.nextId)
    (h : convertIndirectBasicBlockArgs pass Mod fuel = .ok q) :
    pass.Rewrites (freshPolicy n) q := by
  unfold convertIndirectBasicBlockArgs at h
  split at h
  · cases h
  · refine forEachM_inv _ (fun s => pass.Rewrites (freshPolicy n) s) _ ?_ pass q
      (.nothing _ _) h
    intro BB _ s s1 hs h1
    try dsimp only at h1
    split at h1
    · cases h1
      exact hs
    · refine forEachM_inv _ (fun t => pass.Rewrites (freshPolicy n) t) _ ?_ s s1 hs h1
      intro indexed _ t t1 ht h2
      try dsimp only at h2
      split at h2
      · cases h2
      · cases h2
        exact ht.followedBy (.of_mapper_eq _ rfl)
      · split at h2
        · cases h2
        · rename_i newSILType0 p3 h3
          have e3 := StructLoweringState.getNewSILType_state h3
          cases h2
          have r3 : t.Rewrites (freshPolicy n) p3 := .of_mapper_eq _ e3
          refine (ht.followedBy r3).followedBy ⟨?_, rfl, rfl, rfl, rfl⟩
          exact .ofConvertBBArgTypeFresh _ _ _ _ _
            (Nat.le_trans hn (ht.followedBy r3).nextId_mono)

theorem allocateForArgOfApply_binds {n : Nat} {pass q : StructLoweringState}
    {value : SILValue} {allocInstr : Nat} (hn : n ≤ pass.F.nextId)
    (h : allocateForArgOfApply pass value allocInstr = .ok q) :
    SILFunction.Step (freshPolicy n) pass.F q.F ∧
    q.largeLoadableArgs = pass.largeLoadableArgs ∧ q.instsToMod = pass.instsToMod ∧
    ∃ k, n ≤ k ∧
      q.argsToLoadedValueMap = mapVectorAssign pass.argsToLoadedValueMap value (.instruction k) := by
  unfold allocateForArgOfApply at h
  split at h
  · cases h
  · split at h
    · try dsimp only at h
      split at h
      · cases h
      · cases hO : pass.F.hasOwnership <;> simp only [hO, Bool.not_false, Bool.not_true,
          if_true, Bool.false_eq_true, if_false] at h <;> cases h <;>
          exact ⟨.ofCreateFresh _ _ _ _ _, rfl, rfl, pass.F.nextId, hn, rfl⟩
    · cases h

/-- The storage for one converted value: instructions are created, and the
value is bound to a load that is created. -/
theorem allocateForArg_binds {n : Nat} {pass q : StructLoweringState} {value : SILValue}
    (hn : n ≤ pass.F.nextId) (h : allocateForArg pass value = .ok q) :
    SILFunction.Step (freshPolicy n) pass.F q.F ∧
    q.largeLoadableArgs = pass.largeLoadableArgs ∧ q.instsToMod = pass.instsToMod ∧
    ∃ k, n ≤ k ∧
      q.argsToLoadedValueMap = mapVectorAssign pass.argsToLoadedValueMap value (.instruction k) := by
  unfold allocateForArg at h
  try dsimp only at h
  split at h
  · exact allocateForArgOfApply_binds hn h
  · split at h
    · cases h
    · split at h
      · cases hO : pass.F.hasOwnership <;> simp only [hO, Bool.not_false, Bool.not_true,
          if_true, Bool.false_eq_true, if_false, Except.ok.injEq] at h <;> rw [← h] <;>
          (refine ⟨SILFunction.Step.next ?_
              (deallocFold_rewrites _ (fun _ => trivial) _ _ _).1,
            (deallocFold_rewrites (freshPolicy n) (fun _ => trivial) _ _ _).2.1,
            (deallocFold_rewrites (freshPolicy n) (fun _ => trivial) _ _ _).2.2.2.1,
            pass.F.nextId + 1 + 1, Nat.le_trans hn (by omega),
            (deallocFold_rewrites (freshPolicy n) (fun _ => trivial) _ _ _).2.2.1⟩
           exact ((SILFunction.Step.ofCreateFresh _ _ _ _ _).next
            (.ofCreateFresh _ _ _ _ _)).next (.ofCreateFresh _ _ _ _ _))
      · cases h

theorem mapVectorFind_mem {m : List (SILValue × SILValue)} {key value : SILValue}
    (h : mapVectorFind m key = some value) : (key, value) ∈ m := by
  induction m with
  | nil => cases h
  | cons kv rest ih =>
    obtain ⟨k, v⟩ := kv
    simp only [mapVectorFind] at h
    split at h
    · rename_i hk
      cases h
      rw [hk]
      exact List.mem_cons_self _ _
    · exact List.mem_cons_of_mem _ (ih h)

/-- The loop of `allocateLoadableStorage` over the bindings `l`: instructions
are created, the converted values and the worklist stay, every binding after
the loop is one from before or binds a load that is created, the keys stay
keys, and the keys of `l` are bound to loads that are created. -/
theorem allocationLoop_binds (n : Nat) :
    ∀ (l : List (SILValue × SILValue)) (p q : StructLoweringState), n ≤ p.F.nextId →
      forEachM (fun (argToAlloc : SILValue × SILValue) p =>
        if argToAlloc.1 ≠ argToAlloc.2 then .error .assertion
        else allocateForArg p argToAlloc.1) l p = .ok q →
      SILFunction.Step (freshPolicy n) p.F q.F ∧
      q.largeLoadableArgs = p.largeLoadableArgs ∧ q.instsToMod = p.instsToMod ∧
      (∀ key value, mapVectorFind q.argsToLoadedValueMap key = some value →
        mapVectorFind p.argsToLoadedValueMap key = some value ∨
          ∃ k, n ≤ k ∧ value = .instruction k) ∧
      (∀ key, (mapVectorFind p.argsToLoadedValueMap key).isSome = true →
        (mapVectorFind q.argsToLoadedValueMap key).isSome = true) ∧
      (∀ kv ∈ l, ∀ value, mapVectorFind q.argsToLoadedValueMap kv.1 = some value →
        ∃ k, n ≤ k ∧ value = .instruction k)
  | [], p, q, _, h => by
    simp only [forEachM, Except.ok.injEq] at h
    subst h
    exact ⟨.same _, rfl, rfl, fun _ _ hv => Or.inl hv, fun _ hk => hk,
      fun _ hkv => by cases hkv⟩
  | kv :: rest, p, q, hn, h => by
    simp only [forEachM] at h
    split at h
    · cases h
    · rename_i p1 h1
      split at h1
      · cases h1
      · obtain ⟨s1, l1, i1, k, hk, m1⟩ := allocateForArg_binds hn h1
        obtain ⟨s2, l2, i2, a2, d2, b2⟩ := allocationLoop_binds n rest p1 q
          (Nat.le_trans hn s1.nextId_le) h
        have old : ∀ key value, mapVectorFind p1.argsToLoadedValueMap key = some value →
            mapVectorFind p.argsToLoadedValueMap key = some value ∨
              ∃ k, n ≤ k ∧ value = .instruction k := by
          intro key value hv
          rw [m1, mapVectorFind_assign] at hv
          split at hv
          · cases hv
            exact Or.inr ⟨k, hk, rfl⟩
          · exact Or.inl hv
        refine ⟨s1.next s2, l2.trans l1, i2.trans i1, ?_, ?_, ?_⟩
        · intro key value hv
          rcases a2 key value hv with e | e
          · exact old key value e
          · exact Or.inr e
        · intro key hkey
          apply d2
          rw [m1, mapVectorFind_assign]
          split
          · rfl
          · exact hkey
        · intro kv2 hkv2 value hv
          rcases List.mem_cons.1 hkv2 with e | e
          · rw [e] at hv
            rcases a2 _ _ hv with e2 | e2
            · rw [m1, mapVectorFind_assign, if_pos rfl] at e2
              cases e2
              exact ⟨k, hk, rfl⟩
            · exact e2
          · exact b2 kv2 e value hv

/-! ## The conversions before the scan -/

theorem anyPolicy_free : anyPolicy.Free :=
  ⟨fun _ => trivial, fun _ => trivial, fun _ _ => trivial⟩

theorem StructLoweringState.Converts.stay (p : StructLoweringState) : p.Converts p :=
  ⟨.same _, rfl, rfl, fun _ hv => Or.inl hv⟩

theorem StructLoweringState.Converts.thenConverts {p q r : StructLoweringState}
    (h1 : p.Converts q) (h2 : q.Converts r) : p.Converts r := by
  refine ⟨h1.1.next h2.1, h2.2.1.trans h1.2.1, h2.2.2.1.trans h1.2.2.1, ?_⟩
  intro v hv
  rcases h2.2.2.2 v hv with e | e
  · rcases h1.2.2.2 v e with e1 | ⟨k, hk, e1⟩
    · exact Or.inl e1
    · exact Or.inr ⟨k, Nat.lt_of_lt_of_le hk h2.1.nextId_le, e1⟩
  · exact Or.inr e

theorem StructLoweringState.Converts.mapperOnly {p q : StructLoweringState}
    (h : q = { p with Mapper := q.Mapper }) : p.Converts q := by
  rw [h]
  exact ⟨.same _, rfl, rfl, fun _ hv => Or.inl hv⟩

theorem StructLoweringState.Converts.valuesBelow {p q : StructLoweringState}
    (h : p.Converts q) (hB : ValuesBelow p.F.nextId p.largeLoadableArgs) :
    ValuesBelow q.F.nextId q.largeLoadableArgs := by
  intro k hk
  constructor
  · intro hm
    rcases h.2.2.2 _ hm with e | ⟨j, hj, e | e⟩
    · exact (hB k (Nat.le_trans h.1.nextId_le hk)).1 e
    · cases e
      omega
    · cases e
  · intro hm
    rcases h.2.2.2 _ hm with e | ⟨j, hj, e | e⟩
    · exact (hB k (Nat.le_trans h.1.nextId_le hk)).2 e
    · cases e
    · cases e
      omega

theorem forEachM_converts {α : Type}
    (f : α → StructLoweringState → Except Abort StructLoweringState) (l : List α)
    (hf : ∀ a ∈ l, ∀ s s1, f a s = .ok s1 → s.Converts s1)
    {pass q : StructLoweringState} (h : forEachM f l pass = .ok q) : pass.Converts q :=
  forEachM_inv f (fun s => pass.Converts s) l
    (fun a ha s s1 hs h1 => hs.thenConverts (hf a ha s s1 h1)) pass q (.stay _) h

theorem mapReturnInstrs_converts (pass : StructLoweringState) :
    pass.Converts (mapReturnInstrs pass) := by
  have h : (mapReturnInstrs pass).bindings = pass.bindings := by
    unfold mapReturnInstrs
    refine foldl_bindings _ ?_ _ _
    intro p BB
    split
    · split <;> rfl
    · rfl
  unfold StructLoweringState.bindings at h
  simp only [Prod.mk.injEq] at h
  obtain ⟨h1, h2, h3, h4⟩ := h
  refine ⟨?_, h3, h4, ?_⟩
  · rw [h1]
    exact .same _
  · intro v hv
    rw [h2] at hv
    exact Or.inl hv

theorem convertIndirectFunctionPointerArgsForUnmodifiable_converts
    {pass q : StructLoweringState} {Mod : IRGenModule} {fuel : Nat}
    (h : convertIndirectFunctionPointerArgsForUnmodifiable pass Mod fuel = .ok q) :
    pass.Converts q := by
  unfold convertIndirectFunctionPointerArgsForUnmodifiable at h
  split at h
  · cases h
  · refine forEachM_converts _ _ ?_ h
    intro arg _ s s1 h1
    try dsimp only at h1
    split at h1
    · cases h1
    · rename_i newSILType p1 h2
      have r2 : s.Converts p1 := .mapperOnly (StructLoweringState.getNewSILType_state h2)
      split at h1
      · cases h1
      · rename_i p2 h3
        have r3 : p1.Converts p2 :=
          .mapperOnly (StructLoweringState.containsDifferentFunctionSignature_state h3)
        cases h1
        refine (r2.thenConverts r3).thenConverts ⟨?_, rfl, rfl, fun _ hv => Or.inl hv⟩
        exact ((SILFunction.Step.ofCreate anyPolicy_free _ _ _ _ _).next
          (.ofReplace anyPolicy_free _ _ _)).next (.ofSetOperands anyPolicy_free _ _ _)
      · rename_i p2 h3
        have r3 : p1.Converts p2 :=
          .mapperOnly (StructLoweringState.containsDifferentFunctionSignature_state h3)
        cases h1
        exact r2.thenConverts r3

theorem replaceArgType_converts {pass q : StructLoweringState} {block index : Nat}
    {arg newArg : SILArgument} {newSILType : SILType}
    (h : replaceArgType pass block index arg newSILType = .ok (newArg, q)) :
    pass.Converts q ∧ q.largeLoadableArgs = pass.largeLoadableArgs ∧
      newArg.id < q.F.nextId := by
  unfold replaceArgType at h
  split at h
  · cases h
  · simp only [Except.ok.injEq, Prod.mk.injEq] at h
    obtain ⟨h1, h2⟩ := h
    subst h1
    subst h2
    refine ⟨⟨?_, rfl, rfl, fun _ hv => Or.inl hv⟩, rfl, Nat.lt_succ_self _⟩
    exact ((SILFunction.Step.fresh pass.F).next
      (.updateBlock _ block (fun BB => BB.setArgument index
        ⟨pass.F.nextId, newSILType, OwnershipKind.None, arg.decl⟩) trivial
        (fun BB => ⟨rfl, rfl⟩))).next
      (.replaceAllUsesWith _ _ _ trivial trivial)

theorem insertIndirectReturnArgs_converts {pass q : StructLoweringState} {Mod : IRGenModule}
    {fuel : Nat} (h : insertIndirectReturnArgs pass Mod fuel = .ok q) : pass.Converts q := by
  unfold insertIndirectReturnArgs at h
  repeat' first | split at h | (dsimp only at h; split at h)
  all_goals first
    | (cases h; done)
    | (cases h
       have r1 := StructLoweringState.Converts.mapperOnly
        (StructLoweringState.getNewSILType_state (by assumption))
       exact r1.thenConverts ⟨(SILFunction.Step.fresh _).next
        (.updateBlock _ _ _ trivial (fun BB => ⟨rfl, rfl⟩)), rfl, rfl, fun _ hv => Or.inl hv⟩)

theorem convertIndirectFunctionArgs_converts {pass q : StructLoweringState}
    {Mod : IRGenModule} {fuel : Nat}
    (h : convertIndirectFunctionArgs pass Mod fuel = .ok q) : pass.Converts q := by
  unfold convertIndirectFunctionArgs at h
  split at h
  · cases h
  · rename_i entry hentry
    split at h
    · cases h
    · rename_i pass1 h0
      have r0 : pass.Converts pass1 := by
        refine forEachM_converts _ _ ?_ h0
        intro indexed _ s s1 h1
        try dsimp only at h1
        split at h1
        · cases h1
        · rename_i newSILType p1 h2
          have r2 : s.Converts p1 := .mapperOnly (StructLoweringState.getNewSILType_state h2)
          split at h1
          · split at h1
            · cases h1
            · rename_i newArg p2 h3
              obtain ⟨r3, l3, n3⟩ := replaceArgType_converts h3
              split at h1
              · cases h1
              · cases h1
                refine (r2.thenConverts r3).thenConverts ⟨.same _, rfl, rfl, ?_⟩
                intro v hv
                rcases List.mem_append.1 hv with e | e
                · exact Or.inl e
                · exact Or.inr ⟨newArg.id, n3, Or.inr (by simpa using e)⟩
              · cases h1
                refine (r2.thenConverts r3).thenConverts ⟨?_, rfl, rfl, fun _ hv => Or.inl hv⟩
                exact .updateBlock _ entry.id _ trivial (fun BB => ⟨rfl, rfl⟩)
          · cases h1
            exact r2
      split at h
      · cases h
      · exact r0.thenConverts (insertIndirectReturnArgs_converts h)
      · cases h
        exact r0

theorem deallocFold_lt {n a : Nat} {ts : List Nat} {p : StructLoweringState}
    (h : n < p.F.nextId) :
    n < (ts.foldl (fun (p : StructLoweringState) termInst =>
      let created := p.F.create (.before termInst) .DeallocStackInst [.instruction a] none
      { p with F := created.2 }) p).F.nextId :=
  Nat.lt_of_lt_of_le h (deallocFold_rewrites anyPolicy (fun _ => trivial) a ts p).1.nextId_le

theorem allocateForApply_converts {pass q : StructLoweringState}
    {apply alloc : SILInstruction} {type : SILType}
    (h : allocateForApply pass apply type = .ok (alloc, q)) :
    pass.Converts q ∧ alloc.id < q.F.nextId := by
  have hs := allocateForApply_step anyPolicy_free h
  unfold allocateForApply at h
  split at h
  · cases h
  · simp only [Except.ok.injEq, Prod.mk.injEq] at h
    obtain ⟨h1, h2⟩ := h
    subst h1
    subst h2
    refine ⟨⟨hs, (deallocFold_rewrites anyPolicy (fun _ => trivial) _ _ _).2.2.2.1,
      (deallocFold_rewrites anyPolicy (fun _ => trivial) _ _ _).2.2.1, ?_⟩, ?_⟩
    · intro v hv
      rw [(deallocFold_rewrites anyPolicy (fun _ => trivial) _ _ _).2.1] at hv
      rcases List.mem_append.1 hv with e | e
      · exact Or.inl e
      · exact Or.inr ⟨pass.F.nextId,
          deallocFold_lt (by show pass.F.nextId < pass.F.nextId + 1; omega),
          Or.inl (by simpa using e)⟩
    · exact deallocFold_lt (by show pass.F.nextId < pass.F.nextId + 1; omega)

theorem convertApplyResults_converts {pass q : StructLoweringState} {Mod : IRGenModule}
    {fuel : Nat} (h : convertApplyResults pass Mod fuel = .ok q) : pass.Converts q := by
  unfold convertApplyResults at h
  refine forEachM_converts _ _ ?_ h
  intro id _ s s1 h1
  try dsimp only at h1
  split at h1
  · cases h1
  · rename_i currIns hfind
    split at h1
    · cases h1
      exact .stay _
    · split at h1
      · cases h1
      · cases h1
      · cases h1
        exact .stay _
      · try dsimp only at h1
        split at h1
        · cases h1
        · cases h1
          exact .mapperOnly rfl
        · rename_i Mapper1 _
          try dsimp only at h1
          split at h1
          · cases h1
          · split at h1
            · cases h1
            · cases h1
              exact .mapperOnly rfl
          · split at h1
            · cases h1
            · split at h1
              · cases h1
              · rename_i newSILType p2 h4
                have e4 := StructLoweringState.getNewSILType_state h4
                have r4 : s.Converts p2 := .mapperOnly e4
                split at h1
                · cases h1
                · rename_i newVal p3 h5
                  have r5 := r4.thenConverts (allocateForApply_converts h5).1
                  split at h1
                  · cases h1
                    exact r5.thenConverts ⟨.ofReplace anyPolicy_free _ _ _, rfl, rfl,
                      fun _ hv => Or.inl hv⟩
                  · split at h1
                    · cases h1
                    · split at h1
                      · cases h1
                        exact r5.thenConverts ⟨(SILFunction.Step.ofReplace anyPolicy_free _ _ _).next
                          (.ofConvertBBArgType anyPolicy_free _ _ _ _ _ trivial), rfl, rfl,
                          fun _ hv => Or.inl hv⟩
                      · cases h1
                  · cases h1

/-! ## The bindings when the rewriting starts -/

theorem StructLoweringState.Rewrites.ready {n : Nat} {p q : StructLoweringState}
    (r : p.Rewrites (freshPolicy n) q) (h : p.BindingsReady n) : q.BindingsReady n := by
  obtain ⟨hn, hW, hB, hL, hC, hF⟩ := h
  obtain ⟨s, e1, e2, e3, _⟩ := r
  refine ⟨Nat.le_trans hn s.nextId_le, s.wellFormed hW, ?_, ?_, ?_, ?_⟩
  · rw [e1]; exact hB
  · rw [e3]; exact hL
  · rw [e1, e2, e3]; exact s.covered hB hL hn hC
  · rw [e2]; exact hF

/-- After `allocateLoadableStorage`, started on a state without bindings and
with an empty worklist, the bindings are ready: the scan made every converted
operand of an instruction on the worklist a key, and the loop over the
bindings bound every key to a load it created. -/
theorem allocateLoadableStorage_ready {pass q : StructLoweringState} {Mod : IRGenModule}
    {fuel : Nat} (hW : pass.F.WellFormed) (hL : pass.instsToMod = [])
    (hM : pass.argsToLoadedValueMap = [])
    (hB : ValuesBelow pass.F.nextId pass.largeLoadableArgs)
    (h : allocateLoadableStorage pass Mod fuel = .ok q) : ∃ n, q.BindingsReady n := by
  unfold allocateLoadableStorage at h
  try dsimp only at h
  have c1 := mapReturnInstrs_converts pass
  split at h
  · cases h
  · rename_i pass2 h2
    have c2 : (mapReturnInstrs pass).Converts pass2 := by
      split at h2
      · exact convertIndirectFunctionArgs_converts h2
      · exact convertIndirectFunctionPointerArgsForUnmodifiable_converts h2
    split at h
    · cases h
    · rename_i pass3 h3
      have c3 := (c1.thenConverts c2).thenConverts (convertApplyResults_converts h3)
      have hW3 : pass3.F.WellFormed := c3.1.wellFormed hW
      have hL3 : pass3.instsToMod = [] := c3.2.1.trans hL
      have hB3 := c3.valuesBelow hB
      split at h
      · cases h
      · rename_i pass4 h4
        obtain ⟨f4, l4, c4, b4⟩ := mapValueStorage_covered hW3
          (by rw [hL3]; intro i _ hid; cases hid) (by rw [hL3]; intro id hid; cases hid) h4
        split at h
        · cases h
        · rename_i pass5 h5
          have r5 : pass4.Rewrites (freshPolicy pass3.F.nextId) pass5 :=
            convertIndirectBasicBlockArgs_rewrites (by rw [f4]) h5
          obtain ⟨s5, e51, e52, e53, _⟩ := r5
          have hn5 : pass3.F.nextId ≤ pass5.F.nextId := by
            have := s5.nextId_le
            rw [f4] at this
            exact this
          have hW5 : pass5.F.WellFormed := s5.wellFormed (by rw [f4]; exact hW3)
          have c5 : pass5.F.OperandsCovered pass4.instsToMod pass3.largeLoadableArgs
              pass4.argsToLoadedValueMap :=
            s5.covered hB3 b4 (by rw [f4]) (by rw [f4]; exact c4)
          obtain ⟨s6, l6, i6, a6, d6, b6⟩ := allocationLoop_binds pass3.F.nextId
            pass5.argsToLoadedValueMap pass5 q hn5 h
          refine ⟨pass3.F.nextId, Nat.le_trans hn5 s6.nextId_le, s6.wellFormed hW5, ?_, ?_, ?_, ?_⟩
          · rw [l6, e51, l4]
            exact hB3
          · rw [i6, e53]
            exact b4
          · rw [l6, i6, e51, e53, l4]
            have c6 := s6.covered hB3 b4 hn5 c5
            intro i hi hid operand hop hconv
            apply d6
            rw [e52]
            exact c6 i hi hid operand hop hconv
          · intro key value hv
            rcases a6 key value hv with e | e
            · exact b6 (key, value) (mapVectorFind_mem e) value hv
            · exact e

theorem rewriteFunctionReturn_ready {n : Nat} {pass q : StructLoweringState}
    {Mod : IRGenModule} {fuel : Nat} {b : Bool} (hR : pass.BindingsReady n)
    (h : rewriteFunctionReturn pass Mod fuel = .ok (b, q)) : q.BindingsReady n := by
  unfold rewriteFunctionReturn at h
  try dsimp only at h
  split at h
  · cases h
  · rename_i newSILType pass1 h1
    obtain ⟨M1, rfl⟩ : ∃ M, pass1 = { pass with Mapper := M } :=
      ⟨_, StructLoweringState.getNewSILType_state h1⟩
    split at h
    · cases h
    · cases h
      exact hR
    · split at h
      · cases h
      · cases h
        rename_i pass2 h2
        have e2 := StructLoweringState.containsDifferentFunctionSignature_state h2
        obtain ⟨M2, rfl⟩ : ∃ M, q = { pass with Mapper := M } := ⟨_, e2⟩
        exact hR
      · rename_i pass2 h2
        have e2 := StructLoweringState.containsDifferentFunctionSignature_state h2
        obtain ⟨M2, rfl⟩ : ∃ M, pass2 = { pass with Mapper := M } := ⟨_, e2⟩
        repeat' first | split at h | (dsimp only at h; split at h)
        all_goals first
          | (cases h; done)
          | (cases h; exact hR)

theorem forEachM_not_error {α σ : Type} (f : α → σ → Except Abort σ) (I : σ → Prop)
    (e : Abort) :
    ∀ (l : List α), (∀ a ∈ l, ∀ s, I s → f a s ≠ .error e ∧ ∀ s1, f a s = .ok s1 → I s1) →
      ∀ s, I s → forEachM f l s ≠ .error e
  | [], _, s, _ => by
    simp only [forEachM]
    intro h
    cases h
  | a :: rest, hf, s, hI => by
    simp only [forEachM]
    split
    · rename_i e2 h2
      intro h
      cases h
      exact (hf a (List.mem_cons_self _ _) s hI).1 h2
    · rename_i s2 h2
      exact forEachM_not_error f I e rest (fun b hb => hf b (List.mem_cons_of_mem _ hb)) s2
        ((hf a (List.mem_cons_self _ _) s hI).2 s2 h2)

/-- The substitution of the operands of one instruction: it stops on a missing
binding only when a converted operand has none or is bound to itself, and the
operands it returns are operands from before or values bound in the map. -/
theorem mapElems_substitute (converted : List SILValue) (bindings : List (SILValue × SILValue)) :
    ∀ (operands : List SILValue),
      ((∀ operand ∈ operands, operand ∈ converted →
          ∃ newOperand, mapVectorFind bindings operand = some newOperand ∧
            newOperand ≠ operand) →
        mapElems (fun (currOperand : SILValue) (u : Unit) =>
          if currOperand ∈ converted then
            match mapVectorFind bindings currOperand with
            | none => .error .assertion
            | some newOperand =>
              if newOperand = currOperand then .error .assertion
              else .ok (newOperand, u)
          else .ok (currOperand, u)) operands () ≠ .error .assertion) ∧
      ∀ result u, mapElems (fun (currOperand : SILValue) (u : Unit) =>
          if currOperand ∈ converted then
            match mapVectorFind bindings currOperand with
            | none => .error .assertion
            | some newOperand =>
              if newOperand = currOperand then .error .assertion
              else .ok (newOperand, u)
          else .ok (currOperand, u)) operands () = .ok (result, u) →
        ∀ v ∈ result, v ∈ operands ∨ ∃ key, mapVectorFind bindings key = some v
  | [] => by
    refine ⟨fun _ h => (by simp only [mapElems] at h; cases h), ?_⟩
    intro result u h v hv
    simp only [mapElems, Except.ok.injEq, Prod.mk.injEq] at h
    rw [← h.1] at hv
    cases hv
  | operand :: rest => by
    obtain ⟨ih1, ih2⟩ := mapElems_substitute converted bindings rest
    constructor
    · intro hb h
      simp only [mapElems] at h
      by_cases hc : operand ∈ converted
      · obtain ⟨w, hw, hne⟩ := hb operand (List.mem_cons_self _ _) hc
        simp only [hc, if_true, hw, hne, if_false] at h
        split at h
        · exact ih1 (fun o ho => hb o (List.mem_cons_of_mem _ ho)) (by
            rename_i e he
            cases h
            exact he)
        · cases h
      · simp only [hc, if_false] at h
        split at h
        · exact ih1 (fun o ho => hb o (List.mem_cons_of_mem _ ho)) (by
            rename_i e he
            cases h
            exact he)
        · cases h
    · intro result u h v hv
      simp only [mapElems] at h
      by_cases hc : operand ∈ converted
      · simp only [hc, if_true] at h
        cases hf : mapVectorFind bindings operand with
        | none => rw [hf] at h; cases h
        | some w =>
          rw [hf] at h
          simp only at h
          by_cases hw : w = operand
          · simp only [hw, if_true] at h
            cases h
          · simp only [hw, if_false] at h
            split at h
            · cases h
            · rename_i bs s2 hrest
              cases h
              rcases List.mem_cons.1 hv with e | e
              · exact Or.inr ⟨operand, by rw [hf, e]⟩
              · rcases ih2 bs _ hrest v e with e2 | e2
                · exact Or.inl (List.mem_cons_of_mem _ e2)
                · exact Or.inr e2
      · simp only [hc, if_false] at h
        split at h
        · cases h
        · rename_i bs s2 hrest
          cases h
          rcases List.mem_cons.1 hv with e | e
          · exact Or.inl (by rw [e]; exact List.mem_cons_self _ _)
          · rcases ih2 bs _ hrest v e with e2 | e2
            · exact Or.inl (List.mem_cons_of_mem _ e2)
            · exact Or.inr e2

theorem StructLoweringState.BindingsReady.operandsBound {n : Nat} {p : StructLoweringState}
    (h : p.BindingsReady n) : p.OperandsBound := by
  obtain ⟨_, _, hB, _, hC, hF⟩ := h
  intro id hid instr hfind operand hop hconv
  have hs := hC instr (findInstruction_mem hfind) (by rw [findInstruction_id hfind]; exact hid)
    operand hop hconv
  cases hv : mapVectorFind p.argsToLoadedValueMap operand with
  | none => rw [hv] at hs; cases hs
  | some v =>
    refine ⟨v, rfl, ?_⟩
    obtain ⟨k, hk, e⟩ := hF operand v hv
    intro hvo
    rw [← hvo, e] at hconv
    exact (hB k hk).1 hconv

/-- The loop of `rewriteFunction` over `instsToMod` does not stop on a missing
binding when the bindings are ready. -/
theorem rewriteInstsToMod_not_assertion {n : Nat} {p : StructLoweringState}
    (h : p.BindingsReady n) : rewriteInstsToMod p ≠ .error .assertion := by
  unfold rewriteInstsToMod
  refine forEachM_not_error _ (fun s => s.BindingsReady n ∧ s.instsToMod = p.instsToMod)
    .assertion _ ?_ p ⟨h, rfl⟩
  intro id hid s hs
  obtain ⟨hR, hI⟩ := hs
  try dsimp only
  cases hfind : s.F.findInstruction id with
  | none =>
    simp only
    exact ⟨fun e => (by cases e), fun _ e => (by cases e)⟩
  | some instr =>
    simp only
    obtain ⟨m1, m2⟩ := mapElems_substitute s.largeLoadableArgs s.argsToLoadedValueMap
      instr.operands
    have hb := hR.operandsBound id (by rw [hI]; exact hid) instr hfind
    have hne := m1 hb
    obtain ⟨hn, hW, hB, hL, hC, hF⟩ := hR
    split
    · rename_i e he
      refine ⟨?_, fun _ e2 => (by cases e2)⟩
      intro e2
      cases e2
      exact hne he
    · rename_i operands u hres
      refine ⟨fun e => (by cases e), ?_⟩
      intro s1 e1
      cases e1
      have step : SILFunction.Step (freshPolicy n) s.F (s.F.setOperands id operands) := by
        refine .setOperands _ _ _ (fun _ _ _ => trivial) ?_
        intro i hi hiid v hv
        have : i = instr := hW.eq_of_id hi (findInstruction_mem hfind)
          (by rw [hiid, findInstruction_id hfind])
        rw [this]
        rcases m2 operands u hres v hv with e | ⟨key, e⟩
        · exact Or.inl e
        · obtain ⟨k, hk, e3⟩ := hF key v e
          exact Or.inr ⟨k, hk, Or.inl e3⟩
      exact ⟨⟨Nat.le_trans hn step.nextId_le, step.wellFormed hW, hB, hL,
        step.covered hB hL hn hC, hF⟩, hI⟩

/-! ## The pass over `usesTwoLargeArguments`, step by step -/

theorem usesTwoLargeArguments_allocated :
    allocateLoadableStorage
      (StructLoweringState.new usesTwoLargeArguments LargeSILTypeMapper.new) toyModule 1000 =
      .ok usesTwoLargeArgumentsAllocated := by
  have hM : modifiableFunction (mapReturnInstrs
      (StructLoweringState.new usesTwoLargeArguments LargeSILTypeMapper.new)).F.getLoweredFunctionType
      = true := by decide
  have h1 : convertIndirectFunctionArgs (mapReturnInstrs
      (StructLoweringState.new usesTwoLargeArguments LargeSILTypeMapper.new)) toyModule 1000 =
      .ok usesTwoLargeArgumentsScanState := by decide
  have h2 : convertApplyResults usesTwoLargeArgumentsScanState toyModule 1000 =
      .ok usesTwoLargeArgumentsScanState := by decide
  have h3 : mapValueStorage usesTwoLargeArgumentsScanState toyModule 1000 =
      .ok usesTwoLargeArgumentsScanned := by decide
  have h4 : convertIndirectBasicBlockArgs usesTwoLargeArgumentsScanned toyModule 1000 =
      .ok usesTwoLargeArgumentsScanned := by decide
  have h5 : allocateForArg usesTwoLargeArgumentsScanned (.argument 5) =
      .ok usesTwoLargeArgumentsFirstBuffer := by decide
  have h6 : allocateForArg usesTwoLargeArgumentsFirstBuffer (.argument 6) =
      .ok usesTwoLargeArgumentsAllocated := by decide
  have hL : usesTwoLargeArgumentsScanned.argsToLoadedValueMap =
      [(.argument 5, .argument 5), (.argument 6, .argument 6)] := rfl
  unfold allocateLoadableStorage
  simp only [hM, if_true, h1, h2, h3, h4, hL, forEachM, ne_eq, not_true_eq_false, if_false,
    h5, h6]

end LoadableByAddress

namespace LoadableByAddress

/-! ## The bindings at the substitution of the operands -/

/-- C22: in a function whose instruction and block identities are distinct,
when `allocateLoadableStorage`, started as in `runOnFunction` on the fresh
state of the function, then `rewriteFunctionReturn` (for a native function)
and the first loop of `rewriteFunction` have returned, the state `p0` that
the loop over `instsToMod` (line 2088) starts on has, for every instruction on
`instsToMod` and every operand of it that is a converted value (a member of
`largeLoadableArgs`), a binding in `argsToLoadedValueMap`, and the value bound
differs from the operand; and the loop does not stop on a missing binding (the
abort of the model for a lookup without result or with the operand itself as
result). -/
theorem instsToMod_operands_bound (F : SILFunction) (Mapper : LargeSILTypeMapper)
    (Mod : IRGenModule) (fuel : Nat) (pass1 pass2 p0 : StructLoweringState)
    (rewrittenReturn : Bool) (hW : F.WellFormed)
    (h1 : LoadableStorageAllocation.allocateLoadableStorage (StructLoweringState.new F Mapper)
      Mod fuel = .ok pass1)
    (h2 : (if modifiableFunction F.getLoweredFunctionType then
        rewriteFunctionReturn pass1 Mod fuel
      else .ok (false, pass1)) = .ok (rewrittenReturn, pass2))
    (h0 : rewriteUntilStable Mod fuel fuel (pass2, []) = .ok p0) :
    p0.OperandsBound ∧ rewriteInstsToMod p0 ≠ .error .assertion := by
  obtain ⟨n, r1⟩ := @allocateLoadableStorage_ready (StructLoweringState.new F Mapper) _ _ _
    hW rfl rfl (fun _ _ => ⟨fun h => (by cases h), fun h => (by cases h)⟩) h1
  have r2 : pass2.BindingsReady n := by
    split at h2
    · exact rewriteFunctionReturn_ready r1 h2
    · cases h2
      exact r1
  have r0 : p0.BindingsReady n :=
    (rewriteUntilStable_rewrites (freshPolicy n) (freshPolicy_open n) Mod fuel fuel pass2 p0 []
      ⟨r2.2.1, freshPolicy_recent r2.1, freshPolicy_branchesOk n _⟩ h0).ready r2
  exact ⟨r0.operandsBound, rewriteInstsToMod_not_assertion r0⟩

/-- The native function `f(x: BigStruct, y: BigStruct)` whose instruction number
2 has both arguments as operands: the instruction stands on `instsToMod`, once
for each operand, both operands are converted values, and both are bound, to
the loads number 9 and number 13. -/
theorem instsToMod_operands_bound_witness :
    usesTwoLargeArguments.WellFormed ∧
    LoadableStorageAllocation.allocateLoadableStorage
      (StructLoweringState.new usesTwoLargeArguments LargeSILTypeMapper.new) toyModule 1000 =
      .ok usesTwoLargeArgumentsAllocated ∧
    rewriteUntilStable toyModule 1000 1000 (usesTwoLargeArgumentsAllocated, []) =
      .ok usesTwoLargeArgumentsAllocated ∧
    usesTwoLargeArgumentsAllocated.instsToMod = [2, 2] ∧
    usesTwoLargeArgumentsAllocated.largeLoadableArgs = [.argument 5, .argument 6] ∧
    usesTwoLargeArgumentsAllocated.argsToLoadedValueMap =
      [(.argument 5, .instruction 9), (.argument 6, .instruction 13)] ∧
    usesTwoLargeArgumentsAllocated.OperandsBound ∧
    rewriteInstsToMod usesTwoLargeArgumentsAllocated ≠ .error .assertion :=
  ⟨⟨by decide, by decide, by decide⟩, usesTwoLargeArguments_allocated, by decide, rfl, rfl, rfl,
    instsToMod_operands_bound usesTwoLargeArguments LargeSILTypeMapper.new toyModule 1000
      usesTwoLargeArgumentsAllocated usesTwoLargeArgumentsAllocated
      usesTwoLargeArgumentsAllocated false ⟨by decide, by decide, by decide⟩
      usesTwoLargeArguments_allocated (by decide) (by decide)⟩

end LoadableByAddress

namespace LoadableByAddress

/-! ## The arguments of a recreated call -/

theorem mem_insertBeforeInList_new {new : SILInstruction} {t : Nat} :
    ∀ {l : List SILInstruction}, (∃ x ∈ l, x.id = t) → new ∈ insertBeforeInList new t l
  | [], h => by
    obtain ⟨x, hx, _⟩ := h
    cases hx
  | y :: l, h => by
    simp only [insertBeforeInList]
    split
    · exact List.mem_cons_self _ _
    · rename_i hy
      obtain ⟨x, hx, hxt⟩ := h
      rcases List.mem_cons.1 hx with e | e
      · exact absurd (e ▸ hxt) hy
      · exact List.mem_cons_of_mem _ (mem_insertBeforeInList_new ⟨x, e, hxt⟩)

theorem mem_allInstructions_insert_new {F : SILFunction} {new : SILInstruction} {t : Nat}
    (h : ∃ x ∈ F.allInstructions, x.id = t) :
    new ∈ (F.insert (.before t) new).allInstructions := by
  obtain ⟨x, hx, hxt⟩ := h
  unfold SILFunction.allInstructions at hx ⊢
  obtain ⟨BB, hBB, hxB⟩ := List.mem_flatMap.1 hx
  exact List.mem_flatMap.2 ⟨_, List.mem_map.2 ⟨BB, hBB, rfl⟩,
    mem_insertBeforeInList_new ⟨x, hxB, hxt⟩⟩

theorem SILFunction.HoldsCall.created {F : SILFunction} {t : Nat} {old : SILInstruction}
    (h : ∃ x ∈ F.allInstructions, x.id = t) (kind : SILInstructionKind)
    (hK : sameCallKind old.kind kind = true) (operands : List SILValue)
    (type : Option SILType) (successors : List Nat) (attributes : Nat) :
    (F.createWith (.before t) kind operands type successors attributes).2.HoldsCall t F.nextId
      operands old :=
  ⟨⟨F.nextId, kind, operands, type, successors, attributes⟩,
    mem_allInstructions_insert_new h, rfl, hK, id, fun _ _ _ => rfl, by simp⟩

end LoadableByAddress

namespace LoadableByAddress

/-! ## The arguments of a recreated call -/

end LoadableByAddress

